import Mathlib

/-!
# SECD compiler and virtual machine (tiny-verse/secd)

A shallow embedding of `src/secd`: the cell heap as seen by the mutator
(`gc.h`, `value.h`), the list helpers (`data_types.h`), the compiler
(`secd.h`, `secd.cpp`) and the SECD interpreter loop (`secd.cpp`,
`Runtime::run`).

Conventions of the embedding

* A `Value` handle is the address of its cell, a natural number; handle
  equality is address equality, as `Value::operator ==` compares `data_`.
* The heap maps the addresses allocated so far to their cells; the address
  of a cell is its rank in the order of allocation, and `new GC::Cell` takes
  the next one.  Collection is not part of this layer: a cell that the
  program can still reach is never reused.
* A C++ exception is `Res.thrown` and keeps the state at the `throw`, which
  the `catch (...)` handlers of `compileSource` and `run` inspect.  A failed
  `assert`, undefined behaviour and a loop that cannot end are `Res.fault`.
* 64-bit integers are `Int` wrapped by `wrap64`.
-/

namespace Secd

/-! ## Cells and the heap (`gc.h`) -/

/-- Heap cell: kind tag with its payload (`GC::Cell`). -/
inductive Cell where
  | integer (valueInt : Int)
  | symbol (name : String)
  | cons (car cdr : Nat)
  | closure (body environment : Nat)
deriving DecidableEq, Repr

/-- Heap: `size` is the number of cells allocated so far, which is also the
address of the next cell; `cells` binds addresses to cells, the latest
binding of an address first. -/
structure Heap where
  size : Nat
  cells : List (Nat × Cell)
deriving DecidableEq, Repr

/-- Latest binding of an address in a list of bindings. -/
def Heap.lookup (p : Nat) : List (Nat × Cell) → Option Cell
  | [] => none
  | (q, c) :: rest => if p = q then some c else Heap.lookup p rest

/-- Cell stored at an address, if the address has been allocated. -/
def Heap.get? (h : Heap) (p : Nat) : Option Cell := Heap.lookup p h.cells

/-- Allocation of a fresh cell (`new GC::Cell(...)`): returns its address. -/
def Heap.alloc (h : Heap) (c : Cell) : Nat × Heap :=
  (h.size, ⟨h.size + 1, (h.size, c) :: h.cells⟩)

/-- In-place overwrite of a cell. -/
def Heap.set (h : Heap) (p : Nat) (c : Cell) : Heap := ⟨h.size, (p, c) :: h.cells⟩

/-- Kinds of failure that are not C++ exceptions. -/
inductive Fault where
  | assertion
  | undefinedBehaviour
  | diverges
  | outOfFuel
deriving DecidableEq, Repr

/-- Thrown C++ exception: a `std::runtime_error` with the text of its message
and the value streamed into it, or a thrown string literal. -/
inductive Error where
  | runtimeError (msg : String) (value : Option Nat)
  | cString (msg : String)
deriving DecidableEq, Repr

/-- Result of a computation over state `σ`. -/
inductive Res (σ : Type) (α : Type) where
  | ok (a : α) (s : σ)
  | thrown (e : Error) (s : σ)
  | fault (f : Fault)
deriving DecidableEq, Repr

/-- State and exception passing computations. -/
def M (σ : Type) (α : Type) : Type := σ → Res σ α

/-- Sequencing: a throw or a fault of the first computation ends the whole. -/
def M.bind {σ α β : Type} (m : M σ α) (f : α → M σ β) : M σ β := fun s =>
  match m s with
  | .ok a s1 => f a s1
  | .thrown e s1 => .thrown e s1
  | .fault f => .fault f

instance {σ : Type} : Monad (M σ) where
  pure a := fun s => .ok a s
  bind := M.bind

/-- C++ `throw`. -/
def raise {σ α : Type} (e : Error) : M σ α := fun s => .thrown e s

/-- Failed assertion or undefined behaviour. -/
def fail {σ α : Type} (f : Fault) : M σ α := fun _ => .fault f

/-- `assert(cond)`. -/
def assert {σ : Type} (cond : Bool) : M σ Unit :=
  if cond then pure () else fail .assertion

/-! ## Pre-allocated cells (`value.cpp`)

The static initialisers of `value.cpp` run in the order of their definition:
the well-known symbols, then `Nil`, then `T`. -/

namespace Symbol
def Empty : Nat := 0
def ParOpen : Nat := 1
def ParClose : Nat := 2
def BackQuote : Nat := 3
def Comma : Nat := 4
def Dot : Nat := 5
def Add : Nat := 6
def Sub : Nat := 7
def Mul : Nat := 8
def Div : Nat := 9
def Eq : Nat := 10
def Lt : Nat := 11
def Gt : Nat := 12
def Print : Nat := 13
def Read : Nat := 14
def If : Nat := 15
def Lambda : Nat := 16
def Quote : Nat := 17
def Apply : Nat := 18
def Cons : Nat := 19
def Car : Nat := 20
def Cdr : Nat := 21
def Consp : Nat := 22
def Defun : Nat := 23
def Progn : Nat := 24
def Let : Nat := 25
def Letrec : Nat := 26
def T : Nat := 27
def QuoteChar : Nat := 28
end Symbol

/-- The cell of the symbol `nil` (`Value const Nil`). -/
def Nil : Nat := 29

/-- The cell of the integer 1 (`Value const T`). -/
def T : Nat := 30

/-- Names of the pre-interned symbols in the order of their definition. -/
def wellKnownNames : List String :=
  ["", "(", ")", "\x60", ",", ".", "+", "-", "*", "/", "eq", "<", ">", "print", "read",
   "if", "lambda", "quote", "apply", "cons", "car", "cdr", "consp", "defun", "progn",
   "let", "letrec", "t", "\x27", "nil"]

/-- Heap after static initialisation. -/
def initialHeap : Heap :=
  ⟨31, (wellKnownNames.enum.map fun e => (e.1, Cell.symbol e.2)) ++ [(30, Cell.integer 1)]⟩

/-! ## Checked accessors of `Value` (`value.h`) -/

section Accessors
variable {σ : Type}

/-- `Value::isInteger`. -/
def Heap.isInteger (h : Heap) (p : Nat) : Bool :=
  match h.get? p with
  | some (.integer _) => true
  | _ => false

/-- `Value::isSymbol`. -/
def Heap.isSymbol (h : Heap) (p : Nat) : Bool :=
  match h.get? p with
  | some (.symbol _) => true
  | _ => false

/-- `Value::isCons`. -/
def Heap.isCons (h : Heap) (p : Nat) : Bool :=
  match h.get? p with
  | some (.cons _ _) => true
  | _ => false

/-- `Value::isClosure`. -/
def Heap.isClosure (h : Heap) (p : Nat) : Bool :=
  match h.get? p with
  | some (.closure _ _) => true
  | _ => false

/-- `Value::valueInt`, with its assertion. -/
def Heap.valueInt (h : Heap) (p : Nat) : Except Fault Int :=
  match h.get? p with
  | some (.integer v) => .ok v
  | _ => .error .assertion

/-- `Value::car`, with its assertion. -/
def Heap.car (h : Heap) (p : Nat) : Except Fault Nat :=
  match h.get? p with
  | some (.cons a _) => .ok a
  | _ => .error .assertion

/-- `Value::cdr`, with its assertion. -/
def Heap.cdr (h : Heap) (p : Nat) : Except Fault Nat :=
  match h.get? p with
  | some (.cons _ d) => .ok d
  | _ => .error .assertion

/-- `Value::setCar`, with its assertion. -/
def Heap.setCar (h : Heap) (p : Nat) (v : Nat) : Except Fault Heap :=
  match h.get? p with
  | some (.cons _ d) => .ok (h.set p (.cons v d))
  | _ => .error .assertion

/-- `Value::setCdr`, with its assertion. -/
def Heap.setCdr (h : Heap) (p : Nat) (v : Nat) : Except Fault Heap :=
  match h.get? p with
  | some (.cons a _) => .ok (h.set p (.cons a v))
  | _ => .error .assertion

/-- `Value::body`, with its assertion. -/
def Heap.body (h : Heap) (p : Nat) : Except Fault Nat :=
  match h.get? p with
  | some (.closure b _) => .ok b
  | _ => .error .assertion

/-- `Value::environment`, with its assertion. -/
def Heap.environment (h : Heap) (p : Nat) : Except Fault Nat :=
  match h.get? p with
  | some (.closure _ e) => .ok e
  | _ => .error .assertion

/-- Lifts a checked heap read into a computation. -/
def liftF {α : Type} (r : Except Fault α) : M σ α :=
  match r with
  | .ok a => pure a
  | .error f => fail f

end Accessors

/-- Wrap-around of a mathematical integer to the range of `int64_t`. -/
def wrap64 (x : Int) : Int := (x + 2 ^ 63) % 2 ^ 64 - 2 ^ 63

/-! ## Source expressions

The compiler only reads the expression it is given, so the expression is
passed as the finite tree of cells reachable from it; every node keeps the
address of its cell, which is what handle comparisons such as
`fname == Symbol::Cons` and `args == Nil` look at, and a symbol its name.  The
compiler never reads the value of an integer cell. -/

/-- Value tree handed to the compiler. -/
inductive Src where
  | integer (p : Nat)
  | symbol (p : Nat) (name : String)
  | cons (p : Nat) (car cdr : Src)
  | closure (p : Nat)
deriving DecidableEq, Repr

/-- Address of the root cell of an expression. -/
def Src.ptr : Src → Nat
  | .integer p => p
  | .symbol p _ => p
  | .cons p _ _ => p
  | .closure p => p

/-- `Value::isSymbol` on an expression. -/
def Src.isSymbol : Src → Bool
  | .symbol _ _ => true
  | _ => false

/-- Nesting depth of an expression: the recursion depth `compile` needs. -/
def Src.depth : Src → Nat
  | .cons _ a d => max a.depth d.depth + 1
  | _ => 1

/-! ## `List` and `Stack` helpers (`data_types.h`) -/

/-- The class `List`: a cons list with a handle to its last cell. -/
structure SecdList where
  first_ : Nat
  last_ : Nat
deriving DecidableEq, Repr

/-- `List::List()`. -/
def SecdList.empty : SecdList := ⟨Nil, Nil⟩

/-- `List::prepend`. -/
def SecdList.prepend (l : SecdList) (value : Nat) (h : Heap) : SecdList × Heap :=
  let r := h.alloc (.cons value l.first_)
  if l.last_ = Nil then (⟨r.1, r.1⟩, r.2) else (⟨r.1, l.last_⟩, r.2)

/-- `List::append`. -/
def SecdList.append (l : SecdList) (value : Nat) (h : Heap) : Except Fault (SecdList × Heap) :=
  if l.last_ = Nil then
    .ok (l.prepend value h)
  else
    let r := h.alloc (.cons value Nil)
    match r.2.setCdr l.last_ r.1 with
    | .ok h2 => .ok (⟨l.first_, r.1⟩, h2)
    | .error f => .error f

/-- `List::List(std::initializer_list<Value>)` for a non-empty list, the loop
over the remaining values. -/
def SecdList.appendAll : List Nat → Nat → Heap → Except Fault (Nat × Heap)
  | [], last, h => .ok (last, h)
  | v :: vs, last, h =>
    let r := h.alloc (.cons v Nil)
    match r.2.setCdr last r.1 with
    | .ok h2 => SecdList.appendAll vs r.1 h2
    | .error f => .error f

/-- `List::List(std::initializer_list<Value>)`. -/
def SecdList.ofValues (values : List Nat) (h : Heap) : Except Fault (SecdList × Heap) :=
  match values with
  | [] => .ok (SecdList.empty, h)
  | v :: vs =>
    let r := h.alloc (.cons v Nil)
    match SecdList.appendAll vs r.1 r.2 with
    | .ok (last, h2) => .ok (⟨r.1, last⟩, h2)
    | .error f => .error f

/-! ## Instructions (`secd.h`) -/

namespace Instruction
def NIL : Int := 0
def LDC : Int := 1
def LD : Int := 2
def SEL : Int := 3
def JOIN : Int := 4
def LDF : Int := 5
def AP : Int := 6
def RTN : Int := 7
def DUM : Int := 8
def RAP : Int := 9
def DEFUN : Int := 10
def POP : Int := 11
def CONS : Int := 90
def CAR : Int := 91
def CDR : Int := 92
def CONSP : Int := 94
def ADD : Int := 100
def SUB : Int := 101
def MUL : Int := 102
def DIV : Int := 103
def EQ : Int := 104
def LT : Int := 105
def GT : Int := 106
def PRINT : Int := 110
def READ : Int := 111
end Instruction

/-! ## Compiler (`secd.h`, `secd.cpp`) -/

/-- One frame of the compile-time environment: `EnvironmentMap::envMap_`, the
entries in insertion order.  The parent link is the rest of the chain. -/
abbrev EnvironmentMap := List (String × Int)

/-- `std::unordered_map::find`. -/
def EnvironmentMap.find (m : EnvironmentMap) (name : String) : Option Int :=
  (List.find? (fun e => e.1 == name) m).map Prod.snd

/-- `EnvironmentMap::addSymbol`: `insert` leaves an existing entry alone. -/
def EnvironmentMap.addSymbol (m : EnvironmentMap) (name : String) : EnvironmentMap :=
  match EnvironmentMap.find m name with
  | some _ => m
  | none => m ++ [(name, (m.length : Int))]

/-- The search loop of `EnvironmentMap::indexOf`. -/
def EnvironmentMap.search (name : String) : List EnvironmentMap → Int → Option (Int × Int)
  | [], _ => none
  | e :: parents, depth =>
    match EnvironmentMap.find e name with
    | some i => some (depth, i)
    | none => EnvironmentMap.search name parents (depth + 1)

/-- The `Compiler` object together with the heap it allocates from.  `code_`
and `envMap_` are the parent-linked chains, current element first; an empty
`code_` is the null pointer. -/
structure Compiler where
  heap : Heap
  code_ : List SecdList
  envMap_ : List EnvironmentMap
deriving DecidableEq, Repr

/-- Computations of the compiler. -/
abbrev CM := M Compiler

/-- `Value::Integer`. -/
def Compiler.newInteger (v : Int) : CM Nat := fun st =>
  let r := st.heap.alloc (.integer v)
  .ok r.1 { st with heap := r.2 }

/-- `Value::Cons`. -/
def Compiler.newCons (car cdr : Nat) : CM Nat := fun st =>
  let r := st.heap.alloc (.cons car cdr)
  .ok r.1 { st with heap := r.2 }

/-- `Code::add(Value const &)`. -/
def Code.add (value : Nat) : CM Unit := fun st =>
  match st.code_ with
  | [] => .fault .undefinedBehaviour
  | c :: parents =>
    match c.append value st.heap with
    | .ok r => .ok () { st with heap := r.2, code_ := r.1 :: parents }
    | .error f => .fault f

/-- `Code::add(int opcode)`. -/
def Code.addOpcode (opcode : Int) : CM Unit := do
  let v ← Compiler.newInteger opcode
  Code.add v

/-- `EnvironmentMap::indexOf`. -/
def EnvironmentMap.indexOf (symbol : Src) : CM Nat := fun st =>
  match symbol with
  | .symbol p name =>
    match EnvironmentMap.search name st.envMap_ 0 with
    | some (depth, i) =>
      (do let d ← Compiler.newInteger depth
          let o ← Compiler.newInteger i
          Compiler.newCons d o) st
    | none => .thrown (.runtimeError "Unknown variable " (some p)) st
  | _ => .fault .assertion

/-- The loop of `Compiler::enterNewEnv`. -/
def Compiler.addSymbols : Src → CM Unit
  | .cons p arg names => fun st =>
    if p = Nil then .ok () st
    else if ! arg.isSymbol then
      .thrown (.runtimeError "Argument must be a symbol, but " (some names.ptr)) st
    else
      match arg, st.envMap_ with
      | .symbol _ name, e :: parents =>
        Compiler.addSymbols names { st with envMap_ := e.addSymbol name :: parents }
      | _, _ => .fault .assertion
  | names => fun st => if names.ptr = Nil then .ok () st else .fault .assertion

/-- `Compiler::enterNewEnv`. -/
def Compiler.enterNewEnv (names : Src) : CM Unit := fun st =>
  Compiler.addSymbols names { st with envMap_ := [] :: st.envMap_ }

/-- `Compiler::unrollEnvironmentMap`. -/
def Compiler.unrollEnvironmentMap : CM Unit := fun st =>
  match st.envMap_ with
  | _ :: e :: parents => .ok () { st with envMap_ := e :: parents }
  | _ => .fault .assertion

/-- `Compiler::enterNewCode`. -/
def Compiler.enterNewCode : CM Unit := fun st =>
  .ok () { st with code_ := SecdList.empty :: st.code_ }

/-- `Compiler::unrollAndAppendCode`. -/
def Compiler.unrollAndAppendCode : CM Unit := fun st =>
  match st.code_ with
  | c :: parent :: rest => Code.add c.first_ { st with code_ := parent :: rest }
  | _ => .fault .undefinedBehaviour

/-- `Value::car` on an expression, with its assertion. -/
def Src.car : Src → CM Src
  | .cons _ a _ => pure a
  | _ => fail .assertion

/-- `Value::cdr` on an expression, with its assertion. -/
def Src.cdr : Src → CM Src
  | .cons _ _ d => pure d
  | _ => fail .assertion

/-- The function `car` of `runtime.h` on an expression: throws on a non-cons. -/
def carSrc (src : Src) : CM Src :=
  match src with
  | .cons _ a _ => pure a
  | _ => raise (.runtimeError "Cannot obtain car from cell " (some src.ptr))

/-- The function `cdr` of `runtime.h` on an expression: throws on a non-cons. -/
def cdrSrc (src : Src) : CM Src :=
  match src with
  | .cons _ _ d => pure d
  | _ => raise (.runtimeError "Cannot obtain cdr from cell " (some src.ptr))

/-- `List::Expand(x, first, second)`. -/
def SecdList.Expand2 (x : Src) : CM (Src × Src) := do
  let first ← x.car
  let x ← x.cdr
  let second ← x.car
  let rest ← x.cdr
  if rest.ptr ≠ Nil then
    raise (.cString "Expected two elements in a list, but more found")
  else
    pure (first, second)

/-- `List::Expand(x, first, second, third)`. -/
def SecdList.Expand3 (x : Src) : CM (Src × Src × Src) := do
  let first ← x.car
  let x ← x.cdr
  let second ← x.car
  let x ← x.cdr
  let third ← x.car
  let rest ← x.cdr
  if rest.ptr ≠ Nil then
    raise (.cString "Expected two elements in a list, but more found")
  else
    pure (first, second, third)

/-- `Compiler::compileInteger`. -/
def Compiler.compileInteger (code : Src) : CM Unit := do
  Code.addOpcode Instruction.LDC
  Code.add code.ptr

/-- `Compiler::compileNil`. -/
def Compiler.compileNil : CM Unit :=
  Code.addOpcode Instruction.NIL

/-- `Compiler::compileTrue`. -/
def Compiler.compileTrue : CM Unit := do
  Code.addOpcode Instruction.LDC
  Code.add T

/-- `Compiler::compileVariableRead`. -/
def Compiler.compileVariableRead (code : Src) : CM Unit := do
  Code.addOpcode Instruction.LD
  let index ← EnvironmentMap.indexOf code
  Code.add index

/-- `Compiler::compileRead`. -/
def Compiler.compileRead (args : Src) : CM Unit :=
  if args.ptr ≠ Nil then
    raise (.runtimeError "Read does not take any arguments" none)
  else
    Code.addOpcode Instruction.READ

/-- `Compiler::compileQuote`. -/
def Compiler.compileQuote (args : Src) : CM Unit :=
  if args.ptr = Nil then
    raise (.runtimeError "Not enough arguments to quote" none)
  else do
    Code.addOpcode Instruction.LDC
    let x ← carSrc args
    Code.add x.ptr
    let rest ← cdrSrc args
    if rest.ptr ≠ Nil then
      raise (.runtimeError "Too many arguments to quote" none)
    else
      pure ()

/-! The functions below call `compile` on sub-expressions.  The recursive
`compile` is passed to them as the parameter `compile`, and `Compiler.compile`
ties the knot by recursion on the nesting depth. -/

section Recursive
variable (compile : Src → CM Unit)

/-- `Compiler::compileUnaryOperator`. -/
def Compiler.compileUnaryOperator (opcode : Int) (args : Src) : CM Unit := do
  let x ← carSrc args
  compile x
  let rest ← cdrSrc args
  if rest.ptr ≠ Nil then
    raise (.runtimeError "Too many arguments to binary operator" none)
  else
    Code.addOpcode opcode

/-- `Compiler::compileBinaryOperator`. -/
def Compiler.compileBinaryOperator (opcode : Int) (args : Src) : CM Unit := do
  let (lhs, rhs) ← SecdList.Expand2 args
  compile rhs
  compile lhs
  Code.addOpcode opcode

/-- `Compiler::compileIf`. -/
def Compiler.compileIf (args : Src) : CM Unit := do
  let c ← carSrc args
  compile c
  let args ← cdrSrc args
  Code.addOpcode Instruction.SEL
  Compiler.enterNewCode
  let t ← carSrc args
  compile t
  let args ← cdrSrc args
  Code.addOpcode Instruction.JOIN
  Compiler.unrollAndAppendCode
  Compiler.enterNewCode
  let e ← carSrc args
  compile e
  Code.addOpcode Instruction.JOIN
  Compiler.unrollAndAppendCode
  let rest ← cdrSrc args
  if rest.ptr ≠ Nil then
    raise (.runtimeError "Too many arguments to if" none)
  else
    pure ()

/-- `Compiler::compileLambda(Value argNames, Value body)`. -/
def Compiler.compileLambda2 (argNames body : Src) : CM Unit := do
  Code.addOpcode Instruction.LDF
  Compiler.enterNewCode
  Compiler.enterNewEnv argNames
  compile body
  Code.addOpcode Instruction.RTN
  Compiler.unrollAndAppendCode
  Compiler.unrollEnvironmentMap

/-- `Compiler::compileLambda(Value args)`. -/
def Compiler.compileLambda (args : Src) : CM Unit := do
  let (argNames, body) ← SecdList.Expand2 args
  Compiler.compileLambda2 compile argNames body

/-- `Compiler::compileCallArguments`. -/
def Compiler.compileCallArguments : Src → CM Unit
  | .cons p a d => fun st =>
    if p = Nil then .ok () st
    else
      match Compiler.compileCallArguments d st with
      | .ok _ st1 => (do compile a; Code.addOpcode Instruction.CONS) st1
      | .thrown e st1 => .thrown e st1
      | .fault f => .fault f
  | args =>
    if args.ptr = Nil then pure ()
    else raise (.runtimeError "Cannot obtain cdr from cell " (some args.ptr))

/-- `Compiler::compileFunctionArgs`. -/
def Compiler.compileFunctionArgs (args : Src) : CM Unit := do
  Code.addOpcode Instruction.NIL
  Compiler.compileCallArguments compile args

/-- `Compiler::compileApply`.  The `std::cout << args` of the source only
prints. -/
def Compiler.compileApply (args : Src) : CM Unit := do
  let func ← carSrc args
  let args ← cdrSrc args
  let rest ← cdrSrc args
  if rest.ptr ≠ Nil then
    raise (.runtimeError "Too many arguments to apply" none)
  else do
    Compiler.compileFunctionArgs compile args
    compile func
    Code.addOpcode Instruction.AP

/-- `Compiler::compileLet`. -/
def Compiler.compileLet (args : Src) : CM Unit := do
  let (argNames, values, body) ← SecdList.Expand3 args
  Compiler.compileFunctionArgs compile values
  Compiler.compileLambda2 compile argNames body
  Code.addOpcode Instruction.AP

/-- `Compiler::compileLetrec`. -/
def Compiler.compileLetrec (args : Src) : CM Unit := do
  Code.addOpcode Instruction.DUM
  let (argNames, values, body) ← SecdList.Expand3 args
  Compiler.enterNewEnv argNames
  Compiler.compileFunctionArgs compile values
  Compiler.compileLambda2 compile argNames body
  Code.addOpcode Instruction.RAP
  Compiler.unrollEnvironmentMap

/-- The loop of `Compiler::compileProgn`, entered with `args != Nil`. -/
def Compiler.compilePrognLoop : Src → CM Unit
  | .cons _ a rest => fun st =>
    match compile a st with
    | .ok _ st1 =>
      if rest.ptr = Nil then .ok () st1
      else
        match Code.addOpcode Instruction.POP st1 with
        | .ok _ st2 => Compiler.compilePrognLoop rest st2
        | .thrown e st2 => .thrown e st2
        | .fault f => .fault f
    | .thrown e st1 => .thrown e st1
    | .fault f => .fault f
  | _ => fail .assertion

/-- `Compiler::compileProgn`. -/
def Compiler.compileProgn (args : Src) : CM Unit :=
  if args.ptr = Nil then
    Code.addOpcode Instruction.NIL
  else
    Compiler.compilePrognLoop compile args

/-- The test `code_->parent() != nullptr` of `Compiler::compileDefun`. -/
def Compiler.codeHasParent : CM Bool := fun st =>
  match st.code_ with
  | [] => .fault .undefinedBehaviour
  | [_] => .ok false st
  | _ :: _ :: _ => .ok true st

/-- The call `envMap_->addSymbol(fname)` of `Compiler::compileDefun`. -/
def Compiler.addSymbol (name : String) : CM Unit := fun st =>
  match st.envMap_ with
  | [] => .fault .undefinedBehaviour
  | e :: parents => .ok () { st with envMap_ := e.addSymbol name :: parents }

/-- `Compiler::compileDefun`. -/
def Compiler.compileDefun (args : Src) : CM Unit := do
  if (← Compiler.codeHasParent) then
    raise (.runtimeError "defun can only appear at global scope" none)
  else do
    let fname ← carSrc args
    match fname with
    | .symbol _ name => do
      Compiler.addSymbol name
      let args ← cdrSrc args
      Compiler.compileLambda compile args
      Code.addOpcode Instruction.DEFUN
    | _ => raise (.runtimeError "Name of the function expected, but " (some args.ptr))

/-- `Compiler::compileCall`. -/
def Compiler.compileCall (code : Src) : CM Unit := do
  let fname ← code.car
  let args ← code.cdr
  if fname.isSymbol then
    if fname.ptr = Symbol.Cons then
      Compiler.compileBinaryOperator compile Instruction.CONS args
    else if fname.ptr = Symbol.Car then
      Compiler.compileUnaryOperator compile Instruction.CAR args
    else if fname.ptr = Symbol.Cdr then
      Compiler.compileUnaryOperator compile Instruction.CDR args
    else if fname.ptr = Symbol.Consp then
      Compiler.compileUnaryOperator compile Instruction.CONSP args
    else if fname.ptr = Symbol.Add then
      Compiler.compileBinaryOperator compile Instruction.ADD args
    else if fname.ptr = Symbol.Sub then
      Compiler.compileBinaryOperator compile Instruction.SUB args
    else if fname.ptr = Symbol.Mul then
      Compiler.compileBinaryOperator compile Instruction.MUL args
    else if fname.ptr = Symbol.Div then
      Compiler.compileBinaryOperator compile Instruction.DIV args
    else if fname.ptr = Symbol.Eq then
      Compiler.compileBinaryOperator compile Instruction.EQ args
    else if fname.ptr = Symbol.Lt then
      Compiler.compileBinaryOperator compile Instruction.LT args
    else if fname.ptr = Symbol.Gt then
      Compiler.compileBinaryOperator compile Instruction.GT args
    else if fname.ptr = Symbol.Print then
      Compiler.compileUnaryOperator compile Instruction.PRINT args
    else if fname.ptr = Symbol.Read then
      Compiler.compileRead args
    else if fname.ptr = Symbol.If then
      Compiler.compileIf compile args
    else if fname.ptr = Symbol.Lambda then
      Compiler.compileLambda compile args
    else if fname.ptr = Symbol.Quote then
      Compiler.compileQuote args
    else if fname.ptr = Symbol.Apply then
      Compiler.compileApply compile args
    else if fname.ptr = Symbol.Defun then
      Compiler.compileDefun compile args
    else if fname.ptr = Symbol.Let then
      Compiler.compileLet compile args
    else if fname.ptr = Symbol.Letrec then
      Compiler.compileLetrec compile args
    else if fname.ptr = Symbol.Progn then
      Compiler.compileProgn compile args
    else do
      Compiler.compileFunctionArgs compile args
      compile fname
      Code.addOpcode Instruction.AP
  else do
    Compiler.compileFunctionArgs compile args
    compile fname
    Code.addOpcode Instruction.AP

/-- The `switch` of `Compiler::compile`. -/
def Compiler.compileBody (code : Src) : CM Unit :=
  match code with
  | .integer _ => Compiler.compileInteger code
  | .symbol p _ =>
    if p = Nil then Compiler.compileNil
    else if p = Symbol.T then Compiler.compileTrue
    else Compiler.compileVariableRead code
  | .cons _ _ _ => Compiler.compileCall compile code
  | .closure _ => fail .assertion

end Recursive

/-- `Compiler::compile`, with a bound on the depth of the recursion. -/
def Compiler.compileFuel : Nat → Src → CM Unit
  | 0, _ => fail .outOfFuel
  | n + 1, code => Compiler.compileBody (Compiler.compileFuel n) code

/-- `Compiler::compile`: the recursion is as deep as the expression. -/
def Compiler.compile (code : Src) : CM Unit :=
  Compiler.compileFuel code.depth code

/-- The `catch (...)` block of `Compiler::compileSource`, up to the rethrow. -/
def Compiler.cleanup (st : Compiler) : Compiler :=
  { st with code_ := [], envMap_ := st.envMap_.drop (st.envMap_.length - 1) }

/-- `Compiler::compileSource`. -/
def Compiler.compileSource (code : Src) : CM Nat := fun st =>
  match st.envMap_, st.code_ with
  | [_], [] =>
    match Compiler.compile code { st with code_ := [SecdList.empty] } with
    | .ok _ st1 =>
      match st1.code_ with
      | [c] => .ok c.first_ { st1 with code_ := [] }
      | _ => .fault .assertion
    | .thrown e st1 => .thrown e (Compiler.cleanup st1)
    | .fault f => .fault f
  | _, _ => .fault .assertion

/-- `Compiler::Compiler()`, on a given heap. -/
def Compiler.new (h : Heap) : Compiler := ⟨h, [], [[]]⟩

/-! ## The SECD machine (`secd.h`, `secd.cpp`, `runtime.h`) -/

/-- The interning table `Symbol::symbols_` after static initialisation. -/
def initialSymbols : List (String × Nat) :=
  wellKnownNames.enum.map (fun e => (e.2, e.1))

/-- The `Runtime` object together with the heap: the compiler it owns
(`compiler_`, as `code_` and `envMap_`), the four registers, the console
(`input` still to be read by `READ`, `output` the values printed so far) and
the interning table of the reader (`Symbol::symbols_`). -/
structure Runtime where
  heap : Heap
  code_ : List SecdList
  envMap_ : List EnvironmentMap
  s_ : Nat
  e_ : Nat
  c_ : Nat
  d_ : Nat
  input : List Int
  output : List Nat
  symbols_ : List (String × Nat)
deriving DecidableEq, Repr

/-- Computations of the virtual machine. -/
abbrev RM := M Runtime

/-- Current heap. -/
def getHeap : RM Heap := fun rt => .ok rt.heap rt

/-- `Value::Integer`. -/
def Runtime.newInteger (v : Int) : RM Nat := fun rt =>
  let r := rt.heap.alloc (.integer v)
  .ok r.1 { rt with heap := r.2 }

/-- `Value::Cons`. -/
def Runtime.newCons (car cdr : Nat) : RM Nat := fun rt =>
  let r := rt.heap.alloc (.cons car cdr)
  .ok r.1 { rt with heap := r.2 }

/-- `Value::Closure`. -/
def Runtime.newClosure (body environment : Nat) : RM Nat := fun rt =>
  let r := rt.heap.alloc (.closure body environment)
  .ok r.1 { rt with heap := r.2 }

/-- The function `car` of `runtime.h`: throws on a non-cons. -/
def car (v : Nat) : RM Nat := fun rt =>
  match rt.heap.get? v with
  | some (.cons a _) => .ok a rt
  | _ => .thrown (.runtimeError "Cannot obtain car from cell " (some v)) rt

/-- The function `cdr` of `runtime.h`: throws on a non-cons. -/
def cdr (v : Nat) : RM Nat := fun rt =>
  match rt.heap.get? v with
  | some (.cons _ d) => .ok d rt
  | _ => .thrown (.runtimeError "Cannot obtain cdr from cell " (some v)) rt

/-- The function `toBoolean` of `runtime.h`. -/
def toBoolean (h : Heap) (value : Nat) : Bool :=
  if value = Nil then false
  else match h.get? value with
    | some (.integer v) => if v = 0 then false else true
    | _ => true

/-- `Value::valueInt` of a handle, in the machine. -/
def valueInt (v : Nat) : RM Int := fun rt => liftF (rt.heap.valueInt v) rt

/-- The assertion of `Stack::Stack(Value const &)`. -/
def Stack.valid (h : Heap) (v : Nat) : Bool := v = Nil || h.isCons v

/-- `Stack::pop` on the S register. -/
def Runtime.popS : RM Nat := fun rt =>
  match rt.heap.get? rt.s_ with
  | some (.cons a d) => .ok a { rt with s_ := d }
  | _ => .fault .assertion

/-- `Stack::pop` on the C register. -/
def Runtime.popC : RM Nat := fun rt =>
  match rt.heap.get? rt.c_ with
  | some (.cons a d) => .ok a { rt with c_ := d }
  | _ => .fault .assertion

/-- `Stack::pop` on the D register. -/
def Runtime.popD : RM Nat := fun rt =>
  match rt.heap.get? rt.d_ with
  | some (.cons a d) => .ok a { rt with d_ := d }
  | _ => .fault .assertion

/-- `Stack::top` on the S register. -/
def Runtime.topS : RM Nat := fun rt => liftF (rt.heap.car rt.s_) rt

/-- `Stack::push` on the S register. -/
def Runtime.pushS (what : Nat) : RM Unit := fun rt =>
  let r := rt.heap.alloc (.cons what rt.s_)
  .ok () { rt with heap := r.2, s_ := r.1 }

/-- `Stack::push` on the D register. -/
def Runtime.pushD (what : Nat) : RM Unit := fun rt =>
  let r := rt.heap.alloc (.cons what rt.d_)
  .ok () { rt with heap := r.2, d_ := r.1 }

/-- Assignment of a value to the S register (`s_ = v`), through
`Stack::Stack(Value const &)`. -/
def Runtime.setS (v : Nat) : RM Unit := fun rt =>
  if Stack.valid rt.heap v then .ok () { rt with s_ := v } else .fault .assertion

/-- Assignment of a value to the C register (`c_ = v`). -/
def Runtime.setC (v : Nat) : RM Unit := fun rt =>
  if Stack.valid rt.heap v then .ok () { rt with c_ := v } else .fault .assertion

/-- Assignment of a value to the D register (`d_ = v`). -/
def Runtime.setD (v : Nat) : RM Unit := fun rt =>
  if Stack.valid rt.heap v then .ok () { rt with d_ := v } else .fault .assertion

/-- Assignment of a value to the E register (`e_ = v`), through
`Environment::Environment(Value const &)`. -/
def Runtime.setE (v : Nat) : RM Unit := fun rt =>
  if rt.heap.isCons v then .ok () { rt with e_ := v } else .fault .assertion

/-- The two loops of `Environment::locate`: `n` times `x = x.cdr()`. -/
def Environment.skip (h : Heap) : Nat → Nat → Except Fault Nat
  | 0, x => .ok x
  | n + 1, x =>
    match h.cdr x with
    | .ok d => Environment.skip h n d
    | .error f => .error f

/-- `Environment::locate`. -/
def Environment.locate (h : Heap) (v_ : Nat) (index : Nat) : Except Fault Nat := do
  let depth ← h.valueInt (← h.car index)
  let offset ← h.valueInt (← h.cdr index)
  let x ← Environment.skip h depth.toNat v_
  let x ← h.car x
  let x ← Environment.skip h offset.toNat x
  h.car x

/-- The loop `while (e.cdr() != Nil) e = e.cdr()` of `Environment::append`.
A list without a cycle has fewer cells than the heap, so running out of the
`h.size + 1` rounds given by `Environment.append` means the loop never ends. -/
def Environment.lastCell (h : Heap) : Nat → Nat → Except Fault Nat
  | 0, _ => .error .diverges
  | n + 1, e =>
    match h.cdr e with
    | .ok d => if d ≠ Nil then Environment.lastCell h n d else .ok e
    | .error f => .error f

/-- `Environment::append` on the E register. -/
def Environment.append (value : Nat) : RM Unit := fun rt =>
  match rt.heap.car rt.e_ with
  | .error f => .fault f
  | .ok e =>
    if e = Nil then
      let r := rt.heap.alloc (.cons value Nil)
      match r.2.setCar rt.e_ r.1 with
      | .ok h2 => .ok () { rt with heap := h2 }
      | .error f => .fault f
    else
      match Environment.lastCell rt.heap (rt.heap.size + 1) e with
      | .error f => .fault f
      | .ok last =>
        let r := rt.heap.alloc (.cons value Nil)
        match r.2.setCdr last r.1 with
        | .ok h2 => .ok () { rt with heap := h2 }
        | .error f => .fault f

/-- `Environment::insertDummyEnvironment` on the E register. -/
def Environment.insertDummyEnvironment : RM Unit := fun rt =>
  let r := rt.heap.alloc (.cons Nil rt.e_)
  .ok () { rt with heap := r.2, e_ := r.1 }

/-- `Environment::popDummyEnvironment` on the E register. -/
def Environment.popDummyEnvironment : RM Unit := fun rt =>
  match rt.heap.get? rt.e_ with
  | some (.cons a d) => if a = Nil then .ok () { rt with e_ := d } else .fault .assertion
  | _ => .fault .assertion

/-- The value `List({s_, e_, c_})` pushed on the dump by `AP` and `RAP`. -/
def Runtime.saveContext : RM Unit := fun rt =>
  match SecdList.ofValues [rt.s_, rt.e_, rt.c_] rt.heap with
  | .ok r => Runtime.pushD r.1.first_ { rt with heap := r.2 }
  | .error f => .fault f

/-- The function `print` of `runtime.cpp`: the value goes to the console. -/
def print (value : Nat) : RM Unit := fun rt =>
  .ok () { rt with output := rt.output ++ [value] }

/-- The function `read` of `runtime.cpp`: `std::cin >> i` into an `int` of 32
bits, `input` being the numbers still to come.  A number that does not fit is
stored as the nearest bound and the stream fails, so that no later extraction
stores anything; at the end of the input `i` is never written and
`Value::Integer(i)` reads an indeterminate value. -/
def read : RM Nat := fun rt =>
  match rt.input with
  | [] => .fault .undefinedBehaviour
  | i :: rest =>
    if i < -(2 ^ 31) then Runtime.newInteger (-(2 ^ 31)) { rt with input := [] }
    else if 2 ^ 31 ≤ i then Runtime.newInteger (2 ^ 31 - 1) { rt with input := [] }
    else Runtime.newInteger i { rt with input := rest }

/-- The integer division of `DIV`: undefined for a zero divisor and for the
one quotient that does not fit. -/
def divide (a b : Int) : RM Int :=
  if b = 0 then fail .undefinedBehaviour
  else if a = -(2 ^ 63) ∧ b = -1 then fail .undefinedBehaviour
  else pure (Int.tdiv a b)

/-- Pops `lhs` and `rhs` and reads their integers, as the arithmetic and
comparison cases of `Runtime::run` do. -/
def Runtime.popIntegers : RM (Int × Int) := do
  let lhs ← Runtime.popS
  let rhs ← Runtime.popS
  let a ← valueInt lhs
  let b ← valueInt rhs
  pure (a, b)

/-- The `switch (opcode)` of `Runtime::run`. -/
def Runtime.execute (opcode : Int) : RM Unit :=
  if opcode = Instruction.NIL then
    Runtime.pushS Nil
  else if opcode = Instruction.LDC then do
    Runtime.pushS (← Runtime.popC)
  else if opcode = Instruction.LD then do
    let index ← Runtime.popC
    let x ← (fun rt => liftF (Environment.locate rt.heap rt.e_ index) rt : RM Nat)
    Runtime.pushS x
  else if opcode = Instruction.SEL then do
    let cond ← Runtime.popS
    let trueCase ← Runtime.popC
    let falseCase ← Runtime.popC
    Runtime.pushD (← (fun rt => .ok rt.c_ rt : RM Nat))
    if toBoolean (← getHeap) cond then
      Runtime.setC trueCase
    else
      Runtime.setC falseCase
  else if opcode = Instruction.JOIN then do
    Runtime.setC (← Runtime.popD)
  else if opcode = Instruction.LDF then do
    let body ← Runtime.popC
    let closure ← (fun rt => Runtime.newClosure body rt.e_ rt : RM Nat)
    Runtime.pushS closure
  else if opcode = Instruction.AP then do
    let closure ← Runtime.popS
    if ! (← getHeap).isClosure closure then
      raise (.runtimeError "AP expects closure on stack, but " (some closure))
    else do
      let argList ← Runtime.popS
      Runtime.saveContext
      Runtime.setS Nil
      let env ← liftF ((← getHeap).environment closure)
      Runtime.setE (← Runtime.newCons argList env)
      Runtime.setC (← liftF ((← getHeap).body closure))
  else if opcode = Instruction.RTN then do
    let result ← Runtime.popS
    let callerContext ← Runtime.popD
    Runtime.setS (← liftF ((← getHeap).car callerContext))
    let callerContext ← liftF ((← getHeap).cdr callerContext)
    Runtime.setE (← liftF ((← getHeap).car callerContext))
    let callerContext ← liftF ((← getHeap).cdr callerContext)
    Runtime.setC (← liftF ((← getHeap).car callerContext))
    Runtime.pushS result
  else if opcode = Instruction.DUM then
    Environment.insertDummyEnvironment
  else if opcode = Instruction.RAP then do
    Environment.popDummyEnvironment
    let closure ← Runtime.popS
    let argList ← Runtime.popS
    let closureEnv ← liftF ((← getHeap).environment closure)
    let dummy ← liftF ((← getHeap).car closureEnv)
    assert (dummy = Nil)
    (fun rt => match rt.heap.setCar closureEnv argList with
      | .ok h2 => .ok () { rt with heap := h2 }
      | .error f => .fault f : RM Unit)
    Runtime.saveContext
    Runtime.setS Nil
    Runtime.setE closureEnv
    Runtime.setC (← liftF ((← getHeap).body closure))
  else if opcode = Instruction.DEFUN then do
    let fn ← Runtime.popS
    Environment.append fn
    Runtime.pushS Nil
  else if opcode = Instruction.POP then do
    let _ ← Runtime.popS
    pure ()
  else if opcode = Instruction.CONS then do
    let lhs ← Runtime.popS
    let rhs ← Runtime.popS
    Runtime.pushS (← Runtime.newCons lhs rhs)
  else if opcode = Instruction.CAR then do
    Runtime.pushS (← car (← Runtime.popS))
  else if opcode = Instruction.CDR then do
    Runtime.pushS (← cdr (← Runtime.popS))
  else if opcode = Instruction.CONSP then do
    let x ← cdr (← Runtime.popS)
    if (← getHeap).isCons x then
      Runtime.pushS T
    else
      Runtime.pushS Nil
  else if opcode = Instruction.ADD then do
    let (a, b) ← Runtime.popIntegers
    Runtime.pushS (← Runtime.newInteger (wrap64 (a + b)))
  else if opcode = Instruction.SUB then do
    let (a, b) ← Runtime.popIntegers
    Runtime.pushS (← Runtime.newInteger (wrap64 (a - b)))
  else if opcode = Instruction.MUL then do
    let (a, b) ← Runtime.popIntegers
    Runtime.pushS (← Runtime.newInteger (wrap64 (a * b)))
  else if opcode = Instruction.DIV then do
    let (a, b) ← Runtime.popIntegers
    Runtime.pushS (← Runtime.newInteger (← divide a b))
  else if opcode = Instruction.EQ then do
    let lhs ← Runtime.popS
    let rhs ← Runtime.popS
    let h ← getHeap
    let result ←
      if h.isInteger lhs && h.isInteger rhs then do
        let a ← valueInt lhs
        let b ← valueInt rhs
        pure (if a = b then (1 : Int) else 0)
      else
        pure (if lhs = rhs then (1 : Int) else 0)
    Runtime.pushS (← Runtime.newInteger result)
  else if opcode = Instruction.LT then do
    let (a, b) ← Runtime.popIntegers
    Runtime.pushS (← Runtime.newInteger (if a < b then 1 else 0))
  else if opcode = Instruction.GT then do
    let (a, b) ← Runtime.popIntegers
    Runtime.pushS (← Runtime.newInteger (if a > b then 1 else 0))
  else if opcode = Instruction.PRINT then do
    print (← Runtime.topS)
  else if opcode = Instruction.READ then do
    Runtime.pushS (← read)
  else
    fail .assertion

/-- One round of the loop of `Runtime::run`: the instruction at the front of
the C register. -/
def Runtime.step : RM Unit := do
  let opcode ← valueInt (← Runtime.popC)
  Runtime.execute opcode

/-- `n` rounds of the loop of `Runtime::run`. -/
def Runtime.steps : Nat → Runtime → Res Runtime Unit
  | 0, rt => .ok () rt
  | n + 1, rt =>
    match Runtime.step rt with
    | .ok _ rt1 => Runtime.steps n rt1
    | .thrown e rt1 => .thrown e rt1
    | .fault f => .fault f

/-- The loop `while (! c_.empty())` of `Runtime::run`, for at most `fuel`
rounds. -/
def Runtime.loop : Nat → Runtime → Res Runtime Unit
  | 0, rt => if rt.c_ = Nil then .ok () rt else .fault .outOfFuel
  | fuel + 1, rt =>
    if rt.c_ = Nil then .ok () rt
    else
      match Runtime.step rt with
      | .ok _ rt1 => Runtime.loop fuel rt1
      | .thrown e rt1 => .thrown e rt1
      | .fault f => .fault f

/-- The loop `while (cdr(e_) != Nil) e_ = cdr(e_)` of the `catch` block of
`Runtime::run`; `fuel` as in `Environment.lastCell`. -/
def Runtime.trimE : Nat → Runtime → Res Runtime Unit
  | 0, _ => .fault .diverges
  | fuel + 1, rt =>
    match cdr rt.e_ rt with
    | .ok d rt1 =>
      if d ≠ Nil then
        match Runtime.setE d rt1 with
        | .ok _ rt2 => Runtime.trimE fuel rt2
        | .thrown e rt2 => .thrown e rt2
        | .fault f => .fault f
      else .ok () rt1
    | .thrown e rt1 => .thrown e rt1
    | .fault f => .fault f

/-- The `catch (...)` block of `Runtime::run`, up to the rethrow. -/
def Runtime.recover : RM Unit := fun rt =>
  let rt1 := { rt with c_ := Nil, s_ := Nil, d_ := Nil }
  Runtime.trimE (rt1.heap.size + 1) rt1

/-- The `try` block of `Runtime::run`. -/
def Runtime.runBody (fuel : Nat) (code : Nat) : RM Nat := do
  assert ((← (fun rt => .ok rt.c_ rt : RM Nat)) = Nil)
  Runtime.setC code
  Runtime.loop fuel
  assert ((← (fun rt => .ok rt.s_ rt : RM Nat)) ≠ Nil)
  let result ← Runtime.popS
  assert ((← (fun rt => .ok rt.s_ rt : RM Nat)) = Nil)
  pure result

/-- `Runtime::run`; the interpreter loop makes at most `fuel` rounds. -/
def Runtime.run (fuel : Nat) (code : Nat) : RM Nat := fun rt =>
  match Runtime.runBody fuel code rt with
  | .ok result rt1 => .ok result rt1
  | .thrown e rt1 =>
    match Runtime.recover rt1 with
    | .ok _ rt2 => .thrown e rt2
    | .thrown e2 rt2 => .thrown e2 rt2
    | .fault f => .fault f
  | .fault f => .fault f

/-- `Runtime::compile`. -/
def Runtime.compile (source : Src) : RM Nat := fun rt =>
  match Compiler.compileSource source ⟨rt.heap, rt.code_, rt.envMap_⟩ with
  | .ok code st => .ok code { rt with heap := st.heap, code_ := st.code_, envMap_ := st.envMap_ }
  | .thrown e st => .thrown e { rt with heap := st.heap, code_ := st.code_, envMap_ := st.envMap_ }
  | .fault f => .fault f

/-- `Runtime::Runtime()`, on a given heap: a new compiler, the empty
environment `Cons(Nil, Nil)` and empty stacks. -/
def Runtime.new (h : Heap) (input : List Int) : Runtime :=
  let r := h.alloc (.cons Nil Nil)
  { heap := r.2, code_ := [], envMap_ := [[]], s_ := Nil, e_ := r.1, c_ := Nil, d_ := Nil,
    input := input, output := [], symbols_ := initialSymbols }

/-! ## The reader -/

/-- Parsed text of an expression. -/
inductive SExpr where
  | num (n : Int)
  | atom (name : String)
  | pair (car cdr : SExpr)
deriving DecidableEq, Repr

/-- The proper list of the given expressions. -/
def SExpr.list : List SExpr → SExpr
  | [] => .atom "nil"
  | x :: xs => .pair x (SExpr.list xs)

/-- The heap together with the interning table `Symbol::symbols_`. -/
structure Interner where
  heap : Heap
  symbols_ : List (String × Nat)
deriving DecidableEq, Repr

/-- `Symbol::GetCellForName`: the cell of the name, allocated on first use. -/
def Symbol.GetCellForName (name : String) (st : Interner) : Nat × Interner :=
  match List.find? (fun e => e.1 == name) st.symbols_ with
  | some e => (e.2, st)
  | none =>
    let r := st.heap.alloc (.symbol name)
    (r.1, ⟨r.2, st.symbols_ ++ [(name, r.1)]⟩)

/-- Modelled from the spec: the s-expression reader, which is not among the
sources.  It hands the compiler a parsed value: an integer is a fresh Integer
cell, a symbol is the interned cell of its name, a pair is a fresh Cons cell
over the values of its parts. -/
def SExpr.read : SExpr → Interner → Src × Interner
  | .num n, st =>
    match st.heap.alloc (.integer n) with
    | (p, h) => (.integer p, ⟨h, st.symbols_⟩)
  | .atom name, st =>
    match Symbol.GetCellForName name st with
    | (p, st1) => (.symbol p name, st1)
  | .pair a d, st =>
    match SExpr.read a st with
    | (car, st1) =>
      match SExpr.read d st1 with
      | (cdr, st2) =>
        match st2.heap.alloc (.cons car.ptr cdr.ptr) with
        | (p, h) => (.cons p car cdr, ⟨h, st2.symbols_⟩)

/-- Reads, compiles and runs one top-level expression, as the REPL does. -/
def Runtime.eval (fuel : Nat) (source : SExpr) : RM Nat := fun rt =>
  match SExpr.read source ⟨rt.heap, rt.symbols_⟩ with
  | (src, st) =>
    (do let code ← Runtime.compile src
        Runtime.run fuel code) { rt with heap := st.heap, symbols_ := st.symbols_ }

/-- The integer held by the result of a computation, if it ended with one. -/
def resultInt {σ : Type} (heapOf : σ → Heap) (r : Res σ Nat) : Option Int :=
  match r with
  | .ok p s =>
    match (heapOf s).get? p with
    | some (.integer v) => some v
    | _ => none
  | _ => none

/-! ## Lists in the heap -/

/-- Whether the value `p` is the proper list of the values `vs`: a chain of
Cons cells through `cdr` that ends in `Nil`. -/
def Heap.isList (h : Heap) : Nat → List Nat → Bool
  | p, [] => p = Nil
  | p, v :: vs =>
    match h.get? p with
    | some (.cons a d) => a = v && Heap.isList h d vs
    | _ => false

/-- The value `p` is the proper list of the values `vs`. -/
def IsList (h : Heap) (p : Nat) (vs : List Nat) : Prop := h.isList p vs = true

instance (h : Heap) (p : Nat) (vs : List Nat) : Decidable (IsList h p vs) :=
  inferInstanceAs (Decidable (h.isList p vs = true))

/-- The computations satisfy the monad laws. -/
instance {σ : Type} : LawfulMonad (M σ) :=
  LawfulMonad.mk' (M σ)
    (fun x => by
      funext s
      show M.bind x (fun a => pure (id a)) s = x s
      unfold M.bind
      cases x s <;> rfl)
    (fun x f => rfl)
    (fun x f g => by
      funext s
      show M.bind (M.bind x f) g s = M.bind x (fun a => M.bind (f a) g) s
      unfold M.bind
      cases x s <;> rfl)

/-- Two candidates for the recursive call that agree below `code`. -/
def Compiler.Agree (f g : Src → CM Unit) (code : Src) : Prop :=
  ∀ sub : Src, sub.depth < code.depth → f sub = g sub

/-- Every bound address has been allocated. -/
def Heap.WF (h : Heap) : Prop := ∀ p : Nat, (h.get? p).isSome → p < h.size

/-- The cons list that starts in the cell `first` holds exactly the values
`items` and ends in the cell `last`, whose `cdr` is `Nil`; the empty list is
`first = last = Nil`.  This is what the two handles of a `List` stand for. -/
def IsChain (h : Heap) : Nat → List Nat → Nat → Prop
  | first, [], last => first = Nil ∧ last = Nil
  | first, [v], last => first = last ∧ h.get? first = some (.cons v Nil)
  | first, v :: w :: vs, last =>
    match h.get? first with
    | some (.cons a d) => a = v ∧ IsChain h d (w :: vs) last
    | _ => False

/-- The heap of a running program: every bound address has been allocated and
`Nil` is the cell of a symbol. -/
def Heap.Valid (h : Heap) : Prop :=
  h.WF ∧ ∃ name, h.get? Nil = some (.symbol name)

/-- The current code buffer of the compiler holds the values `items`, its
parents are `parents`, and the heap is valid. -/
def Compiler.Buffer (st : Compiler) (items : List Nat) (parents : List SecdList) : Prop :=
  ∃ c, st.code_ = c :: parents ∧ IsChain st.heap c.first_ items c.last_ ∧ st.heap.Valid

/-- The last cell of the current code buffer: the one cell that an append
overwrites. -/
def Compiler.lastCell (st : Compiler) : Nat :=
  match st.code_ with
  | c :: _ => c.last_
  | [] => Nil

/-- Decidable form of `Heap.WF`: every binding is below `size`. -/
def Heap.wfCheck (h : Heap) : Bool := h.cells.all fun b => decide (b.1 < h.size)

/-- Whether a computation ended normally. -/
def Res.isOk {σ α : Type} : Res σ α → Bool
  | .ok _ _ => true
  | _ => false

/-- A compiler on the initial heap that has entered its top-level code
buffer, as `compileSource` does before compiling. -/
def Compiler.started : Compiler := ⟨initialHeap, [SecdList.empty], [[]]⟩

/-- The machine on the initial heap after the text `source` was read and
compiled and its code loaded into `C`: the state in which `Runtime::run`
enters its loop.  When reading or compiling does not end normally the state
reached so far is returned. -/
def Runtime.loaded (source : SExpr) : Runtime :=
  let rt := Runtime.new initialHeap []
  match SExpr.read source ⟨rt.heap, rt.symbols_⟩ with
  | (src, st) =>
    match (do let code ← Runtime.compile src
              Runtime.setC code : RM Unit)
        { rt with heap := st.heap, symbols_ := st.symbols_ } with
    | .ok _ rt1 => rt1
    | .thrown _ rt1 => rt1
    | .fault _ => rt

/-- The state after `n` rounds of the interpreter loop; a round that does
not end normally leaves the state as it was. -/
def Runtime.after : Nat → Runtime → Runtime
  | 0, rt => rt
  | n + 1, rt =>
    match Runtime.step rt with
    | .ok _ rt1 => Runtime.after n rt1
    | _ => rt

/-- The value on top of the stack `S`, if there is one. -/
def Runtime.top? (rt : Runtime) : Option Nat :=
  match rt.heap.get? rt.s_ with
  | some (.cons v _) => some v
  | _ => none

/-- The integer on top of the stack `S`, if there is one. -/
def Runtime.topInt? (rt : Runtime) : Option Int :=
  match rt.top? with
  | some v =>
    match rt.heap.get? v with
    | some (.integer k) => some k
    | _ => none
  | none => none

/-- The source tree the reader builds for a text on the initial heap with
the global environment cell allocated. -/
def SExpr.src (source : SExpr) : Src :=
  (SExpr.read source ⟨(Runtime.new initialHeap []).heap, initialSymbols⟩).1

/-! ## The binary primitives on integers -/

/-- The binary primitives `+`, `-`, `*`, `/`, `<` and `>`. -/
inductive BinaryPrimitive where
  | add
  | sub
  | mul
  | div
  | lt
  | gt
deriving DecidableEq, Repr

/-- The symbol that names the primitive in a source text. -/
def BinaryPrimitive.symbol : BinaryPrimitive → Nat
  | .add => Symbol.Add
  | .sub => Symbol.Sub
  | .mul => Symbol.Mul
  | .div => Symbol.Div
  | .lt => Symbol.Lt
  | .gt => Symbol.Gt

/-- The instruction of the primitive. -/
def BinaryPrimitive.opcode : BinaryPrimitive → Int
  | .add => Instruction.ADD
  | .sub => Instruction.SUB
  | .mul => Instruction.MUL
  | .div => Instruction.DIV
  | .lt => Instruction.LT
  | .gt => Instruction.GT

/-- The integer that the specification gives `(op lhs rhs)` when `lhs` has
the value `a` and `rhs` the value `b`: the operator applied to `a` first and
`b` second, a comparison giving `1` or `0`. -/
def BinaryPrimitive.specified : BinaryPrimitive → Int → Int → Int
  | .add, a, b => a + b
  | .sub, a, b => a - b
  | .mul, a, b => a * b
  | .div, a, b => Int.tdiv a b
  | .lt, a, b => if a < b then 1 else 0
  | .gt, a, b => if a > b then 1 else 0

/-! ## Sample programs -/

/-- The text `(car (cons 1 2))`. -/
def Sample.carOfCons : SExpr :=
  SExpr.list [.atom "car", SExpr.list [.atom "cons", .num 1, .num 2]]

/-- The text `(if c 10 20)` for a condition `c`. -/
def Sample.ifThenElse (c : SExpr) : SExpr :=
  SExpr.list [.atom "if", c, .num 10, .num 20]

/-! ## Lists of expressions and the code of sequences -/

/-- The expression `args` is the proper list of the expressions `es`: a chain
of Cons cells, none of them the cell of `Nil`, that ends in `Nil`. -/
def Src.IsListOf : Src → List Src → Prop
  | args, [] => args.ptr = Nil
  | .cons p a d, e :: es => p ≠ Nil ∧ a = e ∧ Src.IsListOf d es
  | _, _ :: _ => False

/-- The code that the specification gives `(progn e1 .. en)`: `NIL` when
there is no form, else the code of each form in turn with a `POP` between
consecutive forms and none after the last. -/
def Spec.prognCode (compile : Src → CM Unit) : List Src → CM Unit
  | [] => Code.addOpcode Instruction.NIL
  | [e] => compile e
  | e :: e1 :: es => do
    compile e
    Code.addOpcode Instruction.POP
    Spec.prognCode compile (e1 :: es)

/-- A run of the code of `(progn e1 .. en)`, `n ≥ 1`, from the first state
to the second: the code of each form runs and leaves one value on the stack
it found, a round of `POP` follows each form but the last, and the value left
by the last form is the third argument. -/
inductive Runtime.PrognRun : Runtime → Runtime → Nat → Prop where
  | last (rt rt1 : Runtime) (n v : Nat) :
    Runtime.steps n rt = .ok () rt1 →
    rt1.heap.get? rt1.s_ = some (.cons v rt.s_) →
    Runtime.PrognRun rt rt1 v
  | next (rt rt1 rt2 rt3 : Runtime) (n v1 v popOp rest : Nat) :
    Runtime.steps n rt = .ok () rt1 →
    rt1.heap.get? rt1.s_ = some (.cons v1 rt.s_) →
    rt1.heap.get? rt1.c_ = some (.cons popOp rest) →
    rt1.heap.get? popOp = some (.integer Instruction.POP) →
    Runtime.step rt1 = .ok () rt2 →
    Runtime.PrognRun rt2 rt3 v →
    Runtime.PrognRun rt rt3 v

/-- The text `(progn 1 2 3)`. -/
def Sample.progn : SExpr := SExpr.list [.atom "progn", .num 1, .num 2, .num 3]

/-- The text `(progn)`. -/
def Sample.emptyProgn : SExpr := SExpr.list [.atom "progn"]

/-! ## General calls -/

/-- The symbols with a case of their own in `Compiler::compileCall`: the
primitives and the special forms. -/
def Symbol.special : List Nat :=
  [Symbol.Cons, Symbol.Car, Symbol.Cdr, Symbol.Consp, Symbol.Add, Symbol.Sub, Symbol.Mul,
   Symbol.Div, Symbol.Eq, Symbol.Lt, Symbol.Gt, Symbol.Print, Symbol.Read, Symbol.If,
   Symbol.Lambda, Symbol.Quote, Symbol.Apply, Symbol.Defun, Symbol.Let, Symbol.Letrec,
   Symbol.Progn]

/-- The head of a general call: any expression but a primitive or the name
of a special form. -/
def Src.isGeneralHead (f : Src) : Bool :=
  !(f.isSymbol && Symbol.special.contains f.ptr)

/-- The code that the specification gives the arguments `x1 .. xn` of a
call, after the `NIL`: for `i` from `n` down to `1` the code of `xi` followed
by `CONS`. -/
def Spec.argumentCode (compile : Src → CM Unit) : List Src → CM Unit
  | [] => pure ()
  | x :: xs => do
    Spec.argumentCode compile xs
    compile x
    Code.addOpcode Instruction.CONS

/-- The code that the specification gives the general call `(f x1 .. xn)`:
`NIL`, the code of the arguments, the code of `f`, `AP`. -/
def Spec.callCode (compile : Src → CM Unit) (f : Src) (xs : List Src) : CM Unit := do
  Code.addOpcode Instruction.NIL
  Spec.argumentCode compile xs
  compile f
  Code.addOpcode Instruction.AP

/-- A run of the argument part of a call, from the first state to the last:
the round of `NIL`, then for each argument, from the last to the first, the
run of its code, which leaves its value on top of the list built so far, and
the round of `CONS`.  The list holds the values of the arguments whose code
has run, in the order of the source. -/
inductive Runtime.ArgumentsRun : Runtime → List Nat → Runtime → Prop where
  | nil (rt rt1 : Runtime) (nilOp rest : Nat) :
    rt.heap.get? rt.c_ = some (.cons nilOp rest) →
    rt.heap.get? nilOp = some (.integer Instruction.NIL) →
    Runtime.step rt = .ok () rt1 →
    Runtime.ArgumentsRun rt [] rt1
  | cons (rt rt1 rt2 rt3 : Runtime) (n v l : Nat) (vs : List Nat) (consOp rest : Nat) :
    Runtime.ArgumentsRun rt vs rt1 →
    Runtime.steps n rt1 = .ok () rt2 →
    rt2.heap.WF →
    rt2.heap.get? rt2.s_ = some (.cons v rt1.s_) →
    rt2.heap.get? rt1.s_ = some (.cons l rt.s_) →
    IsList rt2.heap l vs →
    rt2.heap.get? rt2.c_ = some (.cons consOp rest) →
    rt2.heap.get? consOp = some (.integer Instruction.CONS) →
    Runtime.step rt2 = .ok () rt3 →
    Runtime.ArgumentsRun rt (v :: vs) rt3

/-- The text `((lambda (x y) x) 1 2)`. -/
def Sample.call : SExpr :=
  SExpr.list [SExpr.list [.atom "lambda", SExpr.list [.atom "x", .atom "y"], .atom "x"],
    .num 1, .num 2]

/-- The text
`(letrec (f) ((lambda (n) (if (eq n 0) 1 (* n (f (- n 1)))))) (f k))`. -/
def Sample.factorial (k : Nat) : SExpr :=
  SExpr.list [.atom "letrec", SExpr.list [.atom "f"],
    SExpr.list [SExpr.list [.atom "lambda", SExpr.list [.atom "n"],
      SExpr.list [.atom "if", SExpr.list [.atom "eq", .atom "n", .num 0], .num 1,
        SExpr.list [.atom "*", .atom "n",
          SExpr.list [.atom "f", SExpr.list [.atom "-", .atom "n", .num 1]]]]]],
    SExpr.list [.atom "f", .num k]]

/-- The text `(progn (defun inc (x) (+ x 1)) (inc n))`. -/
def Sample.incProgram (n : Int) : SExpr :=
  SExpr.list [.atom "progn",
    SExpr.list [.atom "defun", .atom "inc", SExpr.list [.atom "x"],
      SExpr.list [.atom "+", .atom "x", .num 1]],
    SExpr.list [.atom "inc", .num n]]

/-- The text `(inc n)`. -/
def Sample.incCall (n : Int) : SExpr := SExpr.list [.atom "inc", .num n]

/-! ## Computations that only read what they allocate -/

/-- The heap with the bindings `old` below its own. -/
def Heap.over (h : Heap) (old : List (Nat × Cell)) : Heap := ⟨h.size, h.cells ++ old⟩

/-- The compiler state on the heap with the bindings `old` below its own. -/
def Compiler.over (st : Compiler) (old : List (Nat × Cell)) : Compiler :=
  { st with heap := st.heap.over old }

/-- A computation of the compiler is local when a normal run of it reads no
cell but those bound in the heap it ran on: with any further bindings below,
it has the same result and leaves those bindings as they were. -/
def Compiler.Local {α : Type} (m : CM α) : Prop :=
  ∀ st r st1, m st = .ok r st1 → ∀ old, m (st.over old) = .ok r (st1.over old)

/-! ## Reading the emitted code -/

/-- The values of the list that starts in the cell `p`, at most `n` of them,
each as the integer it holds, `none` for a value that is no Integer cell. -/
def Heap.opcodes (h : Heap) : Nat → Nat → List (Option Int)
  | 0, _ => []
  | n + 1, p =>
    match h.get? p with
    | some (.cons a d) =>
      (match h.get? a with
        | some (.integer v) => some v
        | _ => none) :: Heap.opcodes h n d
    | _ => []

/-- The compiler that has entered its top-level code buffer on the heap the
reader left after reading the text `source`. -/
def Compiler.reading (source : SExpr) : Compiler :=
  ⟨(SExpr.read source ⟨(Runtime.new initialHeap []).heap, initialSymbols⟩).2.heap,
    [SecdList.empty], [[]]⟩

/-- The contents of the current code buffer after the computation `m` has run
from the state `st`, when it ends normally. -/
def Compiler.emitted (m : CM Unit) (st : Compiler) : Option (List (Option Int)) :=
  match m st with
  | .ok _ st1 =>
    match st1.code_ with
    | c :: _ => some (st1.heap.opcodes st1.heap.size c.first_)
    | [] => none
  | _ => none

/-- The code that the specification gives `(apply f args)`: the code of
`args`, the code of `f`, `AP`. -/
def Spec.applyCode (compile : Src → CM Unit) (f args : Src) : CM Unit := do
  compile args
  compile f
  Code.addOpcode Instruction.AP

/-- The text `(apply (lambda (x) x) 7)`. -/
def Sample.apply : SExpr :=
  SExpr.list [.atom "apply", SExpr.list [.atom "lambda", SExpr.list [.atom "x"], .atom "x"],
    .num 7]

/-! ## `defun` and the global scope -/

/-- The exception `Compiler::compileDefun` throws when the current code
buffer has a parent. -/
def Compiler.defunScopeError : Error :=
  .runtimeError "defun can only appear at global scope" none

/-- The text `(lambda (x) (defun f (y) y))`. -/
def Sample.defunInLambda : SExpr :=
  SExpr.list [.atom "lambda", SExpr.list [.atom "x"],
    SExpr.list [.atom "defun", .atom "f", SExpr.list [.atom "y"], .atom "y"]]

/-- The text `(if 1 (defun f (y) y) 2)`. -/
def Sample.defunInThen : SExpr :=
  SExpr.list [.atom "if", .num 1,
    SExpr.list [.atom "defun", .atom "f", SExpr.list [.atom "y"], .atom "y"], .num 2]

/-- The text `(if 1 2 (defun f (y) y))`. -/
def Sample.defunInElse : SExpr :=
  SExpr.list [.atom "if", .num 1, .num 2,
    SExpr.list [.atom "defun", .atom "f", SExpr.list [.atom "y"], .atom "y"]]

/-- The text `(let (x) (1) (defun f (y) y))`. -/
def Sample.defunInLet : SExpr :=
  SExpr.list [.atom "let", SExpr.list [.atom "x"], SExpr.list [.num 1],
    SExpr.list [.atom "defun", .atom "f", SExpr.list [.atom "y"], .atom "y"]]

/-- The text `(letrec (x) (1) (defun f (y) y))`. -/
def Sample.defunInLetrec : SExpr :=
  SExpr.list [.atom "letrec", SExpr.list [.atom "x"], SExpr.list [.num 1],
    SExpr.list [.atom "defun", .atom "f", SExpr.list [.atom "y"], .atom "y"]]

/-- The text `(defun g (x) (defun f (y) y))`. -/
def Sample.defunInDefun : SExpr :=
  SExpr.list [.atom "defun", .atom "g", SExpr.list [.atom "x"],
    SExpr.list [.atom "defun", .atom "f", SExpr.list [.atom "y"], .atom "y"]]

/-- The exception a computation ended with, if it ended with one. -/
def Res.error? {σ α : Type} : Res σ α → Option Error
  | .thrown e _ => some e
  | _ => none

/-- The state a computation of the compiler ends in; the state it started
from when it does not end. -/
def Compiler.stateAfter {α : Type} (m : CM α) (st : Compiler) : Compiler :=
  match m st with
  | .ok _ st1 => st1
  | .thrown _ st1 => st1
  | .fault _ => st

/-- Reads the text `source` on the initial heap and hands it to
`compileSource` of a new compiler. -/
def Compiler.compileText (source : SExpr) : Res Compiler Nat :=
  match SExpr.read source ⟨(Runtime.new initialHeap []).heap, initialSymbols⟩ with
  | (src, st) => Compiler.compileSource src (Compiler.new st.heap)

/-- The text `(letrec (f) ((defun g (x) x)) 1)`. -/
def Sample.defunInLetrecValues : SExpr :=
  SExpr.list [.atom "letrec", SExpr.list [.atom "f"],
    SExpr.list [SExpr.list [.atom "defun", .atom "g", SExpr.list [.atom "x"], .atom "x"]],
    .num 1]

/-! ## Runs of the loop -/

/-- From `rt` the loop of `Runtime::run` makes `n` rounds, none of them
starting with an empty control register, and is then in `rt1`. -/
def Runtime.Reaches (n : Nat) (rt rt1 : Runtime) : Prop :=
  ∀ fuel, Runtime.loop (fuel + n) rt = Runtime.loop fuel rt1

/-! ## Parameter lists -/

/-- The expression of a parameter: the symbol cell `x.1` with the name `x.2`. -/
def Src.ofParameter (x : Nat × String) : Src := .symbol x.1 x.2

/-- The text `((lambda (a a b) b) 1 2 3)`. -/
def Sample.duplicateParameter : SExpr :=
  SExpr.list [SExpr.list [.atom "lambda", SExpr.list [.atom "a", .atom "a", .atom "b"], .atom "b"],
    .num 1, .num 2, .num 3]

/-- The text `((lambda (a b c) c) 1 2 3)`. -/
def Sample.thirdParameter : SExpr :=
  SExpr.list [SExpr.list [.atom "lambda", SExpr.list [.atom "a", .atom "b", .atom "c"], .atom "c"],
    .num 1, .num 2, .num 3]

/-! ## The primitives and their arities -/

/-- The primitives of arity 2, each with the instruction `Compiler::compileCall`
hands to `compileBinaryOperator`. -/
def Primitive.binary : List (Nat × Int) :=
  [(Symbol.Cons, Instruction.CONS), (Symbol.Add, Instruction.ADD), (Symbol.Sub, Instruction.SUB),
   (Symbol.Mul, Instruction.MUL), (Symbol.Div, Instruction.DIV), (Symbol.Eq, Instruction.EQ),
   (Symbol.Lt, Instruction.LT), (Symbol.Gt, Instruction.GT)]

/-- The primitives of arity 1, each with the instruction `Compiler::compileCall`
hands to `compileUnaryOperator`. -/
def Primitive.unary : List (Nat × Int) :=
  [(Symbol.Car, Instruction.CAR), (Symbol.Cdr, Instruction.CDR),
   (Symbol.Consp, Instruction.CONSP), (Symbol.Print, Instruction.PRINT)]

/-- The names of the primitives of arity 2 in a source text. -/
def Primitive.binaryNames : List String := ["cons", "+", "-", "*", "/", "eq", "<", ">"]

/-- The names of the primitives of arity 1 in a source text. -/
def Primitive.unaryNames : List String := ["car", "cdr", "consp", "print"]

/-! ## Properties of the compiler state kept on every exit -/

/-- The computation `m` keeps the property `P` of the compiler state: from a
state with `P` it ends, normally or by an exception, in a state with `P`. -/
def Compiler.Keeps {α : Type} (P : Compiler → Prop) (m : CM α) : Prop :=
  ∀ st, P st → (∀ r st1, m st = .ok r st1 → P st1) ∧ ∀ e st1, m st = .thrown e st1 → P st1

/-- The operations on the code buffer and the environment chain out of which
the compile functions are built all keep `P`. -/
structure Compiler.Stable (P : Compiler → Prop) : Prop where
  add : ∀ value, Compiler.Keeps P (Code.add value)
  addOpcode : ∀ opcode, Compiler.Keeps P (Code.addOpcode opcode)
  indexOf : ∀ symbol, Compiler.Keeps P (EnvironmentMap.indexOf symbol)
  enterNewEnv : ∀ names, Compiler.Keeps P (Compiler.enterNewEnv names)
  unrollEnvironmentMap : Compiler.Keeps P Compiler.unrollEnvironmentMap
  enterNewCode : Compiler.Keeps P Compiler.enterNewCode
  unrollAndAppendCode : Compiler.Keeps P Compiler.unrollAndAppendCode
  addSymbol : ∀ name, Compiler.Keeps P (Compiler.addSymbol name)

/-- The environment chain of the compiler is not empty (`envMap_` is not
null). -/
def Compiler.HasFrame (st : Compiler) : Prop := st.envMap_ ≠ []

/-- The text `(lambda (x) (if x (letrec (f) ((lambda (n) y)) 1) 2))`, whose
variable `y` is not bound. -/
def Sample.nestedError : SExpr :=
  SExpr.list [.atom "lambda", SExpr.list [.atom "x"],
    SExpr.list [.atom "if", .atom "x",
      SExpr.list [.atom "letrec", SExpr.list [.atom "f"],
        SExpr.list [SExpr.list [.atom "lambda", SExpr.list [.atom "n"], .atom "y"]],
        .num 1],
      .num 2]]

/-- Whether the loop of `Runtime::run` makes `n` rounds from `rt`: before
each of them the control register is not empty, and the round ends
normally. -/
def Runtime.runs : Nat → Runtime → Bool
  | 0, _ => true
  | n + 1, rt =>
    if rt.c_ = Nil then false
    else
      match Runtime.step rt with
      | .ok _ rt1 => Runtime.runs n rt1
      | _ => false

/-- The text `(/ 10 (- 2 2))`. -/
def Sample.divideByDifference : SExpr :=
  SExpr.list [.atom "/", .num 10, SExpr.list [.atom "-", .num 2, .num 2]]

/-- The machine on the initial heap after the text `source` was read and
compiled, as `Runtime::run` finds it: the state `Runtime.loaded source` with
the control register still empty. -/
def Runtime.ready (source : SExpr) : Runtime := { Runtime.loaded source with c_ := Nil }

/-- The code of the text `source`, with which `Runtime::run` is called. -/
def Runtime.program (source : SExpr) : Nat := (Runtime.loaded source).c_

/-! ## The garbage collector (`gc.h`, `gc.cpp`)

The collector is modelled on its own memory: the cells of all banks in one
array, a cell pointer being `none` (the null pointer) or the index of a cell.
A bank is the index of its first cell; its cells are the `BankSize` cells from
there on. -/

/-- `GC::CellStatus`. -/
inductive GC.CellStatus where
  | Used
  | Marked
  | Free
deriving DecidableEq, Repr

/-- `GC::CellKind`, and `unset` for the bytes `0xff` of a fresh bank, which
are no enumerator. -/
inductive GC.CellKind where
  | Integer
  | Symbol
  | Cons
  | Closure
  | unset
deriving DecidableEq, Repr

/-- One of the two words of the union of a cell: the bytes `0xff` of a fresh
bank, an integer, the name of a symbol, or a cell pointer. -/
inductive GC.Word where
  | ones
  | int (v : Int)
  | name (s : String)
  | ptr (p : Option Nat)
deriving DecidableEq, Repr

/-- `GC::Cell`: `car` is the first word of the union (`valueInt`, `name`,
`car`, `body`), `cdr` the second (`cdr`, `environment`). -/
structure GC.Cell where
  status : GC.CellStatus
  kind : GC.CellKind
  car : GC.Word
  cdr : GC.Word
deriving DecidableEq, Repr

/-- `GC::BankSize`. -/
def GC.BankSize : Nat := 1000

/-- The static state of the class `GC`, with the memory of the banks
(`cells`) and the cell pointers held by the root locations (`data_`: the
location and what it points to). -/
structure GC where
  cells : List GC.Cell
  bank_ : List Nat
  freeList_ : Option Nat
  roots_ : List Nat
  data_ : List (Nat × Option Nat)
  allocations_ : Nat
  numBanks_ : Nat
  liveObjects_ : Nat
  rootChanges_ : Nat
deriving DecidableEq, Repr

/-- The state after static initialisation of `gc.cpp`. -/
def GC.initial : GC :=
  ⟨[], [], none, [], [], 0, 0, 0, 0⟩

/-- The cell pointer a root location holds (`*i`). -/
def GC.deref (data_ : List (Nat × Option Nat)) (location : Nat) : Option (Option Nat) :=
  (data_.find? fun e => e.1 == location).map Prod.snd

/-- Whether all bits of the word are set, as in the `0xff` filling of a fresh
bank.  For such a word the test `reinterpret_cast<char*>(car) + 1 == nullptr`
of `AllocateCell` adds 1 to a pointer to no object, which the language leaves
undefined: the sum is null where the addition is performed. -/
def GC.Word.isOnes : GC.Word → Bool
  | .ones => true
  | .int v => v = -1
  | _ => false

/-- The loop of `GC::Mark` over the worklist `q`, whose back is the head of
the list; `live` is `liveObjects_`.  A pointer that is null, or is no cell of a
bank, or was read from a word that holds no pointer, is dereferenced by
`x->status`: undefined behaviour. -/
def GC.markLoop : Nat → List GC.Cell → List GC.Word → Nat → Except Fault (List GC.Cell × Nat)
  | 0, _, _, _ => .error .outOfFuel
  | _ + 1, cells, [], live => .ok (cells, live)
  | fuel + 1, cells, x :: q, live =>
    match x with
    | .ptr (some a) =>
      match cells[a]? with
      | none => .error .undefinedBehaviour
      | some c =>
        if c.status = .Marked then GC.markLoop fuel cells q live
        else
          let cells1 := cells.set a { c with status := .Marked }
          match c.kind with
          | .Cons => GC.markLoop fuel cells1 (c.cdr :: c.car :: q) (live + 1)
          | .Closure => GC.markLoop fuel cells1 (c.cdr :: c.car :: q) (live + 1)
          | _ => GC.markLoop fuel cells1 q (live + 1)
    | _ => .error .undefinedBehaviour

/-- The worklist `GC::Mark` starts with: onto `q` what the root locations
point to, the last root at the back. -/
def GC.rootTargets (data_ : List (Nat × Option Nat)) :
    List Nat → List GC.Word → Except Fault (List GC.Word)
  | [], q => .ok q
  | location :: rest, q =>
    match GC.deref data_ location with
    | some p => GC.rootTargets data_ rest (.ptr p :: q)
    | none => .error .undefinedBehaviour

/-- `GC::Mark`.  Every round of the loop pops one pointer and only the
marking of a cell pushes two, so the loop ends within
`roots + 2 * cells + 1` rounds. -/
def GC.Mark : M GC Unit := fun g =>
  match GC.rootTargets g.data_ g.roots_ [] with
  | .error f => .fault f
  | .ok q =>
    match GC.markLoop (g.roots_.length + 2 * g.cells.length + 1) g.cells q 0 with
    | .ok (cells, live) => .ok () { g with cells := cells, liveObjects_ := live }
    | .error f => .fault f

/-- The `switch` of `GC::Sweep` on the cell at address `a`. -/
def GC.sweepCell (a : Nat) (s : List GC.Cell × Option Nat) : List GC.Cell × Option Nat :=
  match s.1[a]? with
  | none => s
  | some c =>
    match c.status with
    | .Marked => (s.1.set a { c with status := .Used }, s.2)
    | .Used => (s.1.set a { c with car := .ptr s.2, status := .Free }, some a)
    | .Free => s

/-- The `for` loop of `GC::Sweep` over the cells of the bank at `base`. -/
def GC.sweepBank (base : Nat) (s : List GC.Cell × Option Nat) : List GC.Cell × Option Nat :=
  (List.range GC.BankSize).foldl (fun s i => GC.sweepCell (base + i) s) s

/-- `GC::Sweep`. -/
def GC.Sweep : M GC Unit := fun g =>
  match g.bank_.foldl (fun s base => GC.sweepBank base s) (g.cells, g.freeList_) with
  | (cells, freeList) => .ok () { g with cells := cells, freeList_ := freeList }

/-- The memory of a new bank: `memset` to `0xff`, the `car` of the last cell
set to the free list. -/
def GC.bankCells (freeList : Option Nat) : List GC.Cell :=
  List.replicate (GC.BankSize - 1) ⟨.Free, .unset, .ones, .ones⟩
    ++ [⟨.Free, .unset, .ptr freeList, .ones⟩]

/-- `bank_ = new Bank(bank_, freeList_)`: the new memory lies behind all
existing cells. -/
def GC.newBank : M GC Unit := fun g =>
  .ok () { g with
    cells := g.cells ++ GC.bankCells g.freeList_,
    bank_ := g.cells.length :: g.bank_,
    freeList_ := some g.cells.length }

/-- `GC::Run`. -/
def GC.Run : M GC Unit := do
  GC.Mark
  GC.Sweep
  if (← (fun g => .ok g.freeList_ g : M GC (Option Nat))) = none then
    GC.newBank
    (fun g => .ok () { g with numBanks_ := g.numBanks_ + 1 } : M GC Unit)
  (fun g => .ok () { g with allocations_ := 0 } : M GC Unit)

/-- `GC::AllocateCell`: the address of the cell handed out.  The undefined
test on a word of all ones is taken as a build that performs the addition
evaluates it: the sum wraps to null, the test holds and the free list steps to
the next cell of the bank.  `GC.AllocateCellWith` has the outcome of the test
as a parameter. -/
def GC.AllocateCell : M GC Nat := do
  if (← (fun g => .ok g.freeList_ g : M GC (Option Nat))) = none then
    GC.Run
  fun g =>
    match g.freeList_ with
    | none => .fault .undefinedBehaviour
    | some a =>
      match g.cells[a]? with
      | none => .fault .undefinedBehaviour
      | some c =>
        let cells := g.cells.set a { c with status := .Used }
        if c.car.isOnes then
          .ok a { g with cells := cells, freeList_ := some (a + 1),
                         allocations_ := g.allocations_ + 1 }
        else
          match c.car with
          | .ptr p => .ok a { g with cells := cells, freeList_ := p,
                                     allocations_ := g.allocations_ + 1 }
          | _ => .fault .undefinedBehaviour

/-- `GC::AddRoot`: `roots_` is a set, an insertion of a location it holds
changes nothing but the counter. -/
def GC.AddRoot (location : Nat) : M GC Unit := fun g =>
  .ok () { g with
    roots_ := if location ∈ g.roots_ then g.roots_ else g.roots_ ++ [location],
    rootChanges_ := g.rootChanges_ + 1 }

/-- `GC::RemoveRoot`. -/
def GC.RemoveRoot (location : Nat) : M GC Unit := fun g =>
  if location ∈ g.roots_ then
    .ok () { g with roots_ := g.roots_.erase location, rootChanges_ := g.rootChanges_ + 1 }
  else .fault .assertion

/-- A cell is reachable from the root set: a registered root location points
to it, or one of the two words of a reachable Cons or Closure cell does. -/
inductive GC.Reaches (g : GC) : Nat → Prop where
  | root (location a : Nat) :
    location ∈ g.roots_ → GC.deref g.data_ location = some (some a) → GC.Reaches g a
  | car (a b : Nat) (c : GC.Cell) :
    GC.Reaches g a → g.cells[a]? = some c → (c.kind = .Cons ∨ c.kind = .Closure) →
    c.car = .ptr (some b) → GC.Reaches g b
  | cdr (a b : Nat) (c : GC.Cell) :
    GC.Reaches g a → g.cells[a]? = some c → (c.kind = .Cons ∨ c.kind = .Closure) →
    c.cdr = .ptr (some b) → GC.Reaches g b

/-- No cell has the status `Marked`, as between two collections. -/
def GC.NoMarked (g : GC) : Prop := ∀ c ∈ g.cells, c.status ≠ .Marked

/-- The number of cells that are not marked. -/
def GC.unmarked (cells : List GC.Cell) : Nat := cells.countP fun c => c.status ≠ .Marked

/-- What holds between two rounds of the loop of `GC::Mark` that started in
the state `g` with no cell marked: the cells differ from those of `g` in their
status only; `S` is the set of the marked cells, all of them reachable; the
pointers of the worklist `q` point to reachable cells; what a root points to
is marked or in the worklist; and so is each of the two words of a marked Cons
or Closure cell. -/
structure GC.MarkInv (g : GC) (cells : List GC.Cell) (q : List GC.Word) (S : Finset Nat) :
    Prop where
  length : cells.length = g.cells.length
  shape : ∀ (a : Nat) (c : GC.Cell), cells[a]? = some c →
    ∃ c0 : GC.Cell, g.cells[a]? = some c0 ∧ c0.kind = c.kind ∧ c0.car = c.car ∧ c0.cdr = c.cdr
  marked : ∀ a : Nat, a ∈ S ↔ ∃ c : GC.Cell, cells[a]? = some c ∧ c.status = .Marked
  sound : ∀ a ∈ S, GC.Reaches g a
  queue : ∀ a, GC.Word.ptr (some a) ∈ q → GC.Reaches g a
  roots : ∀ l ∈ g.roots_, ∀ p, GC.deref g.data_ l = some p →
    (∃ a, p = some a ∧ a ∈ S) ∨ GC.Word.ptr p ∈ q
  closed : ∀ a ∈ S, ∀ c : GC.Cell, cells[a]? = some c →
    (c.kind = .Cons ∨ c.kind = .Closure) →
    ∀ w : GC.Word, (w = c.car ∨ w = c.cdr) → w ∈ q ∨ ∃ b : Nat, w = .ptr (some b) ∧ b ∈ S

/-- The addresses of the cells of the bank at `base`, in ascending order. -/
def GC.bankRange (base : Nat) : List Nat := (List.range GC.BankSize).map fun i => base + i

/-- The addresses `GC::Sweep` visits, in the order of the visits: bank after
bank from `bank_` on, each in ascending order. -/
def GC.sweepOrder : List Nat → List Nat
  | [] => []
  | base :: next => GC.bankRange base ++ GC.sweepOrder next

/-- The rounds of `GC::Sweep` on the cells at the addresses `as`. -/
def GC.sweepCells (as : List Nat) (s : List GC.Cell × Option Nat) : List GC.Cell × Option Nat :=
  as.foldl (fun s a => GC.sweepCell a s) s

/-- No cell belongs to two banks. -/
def GC.Disjoint (g : GC) : Prop := (GC.sweepOrder g.bank_).Nodup

/-- The banks lie one behind the other from address 0 on, the newest, which
is the first of the chain `bank_`, last; there are `numBanks_` of them and
they are all the memory. -/
def GC.Layout (g : GC) : Prop :=
  g.bank_ = ((List.range g.numBanks_).map fun k => k * GC.BankSize).reverse ∧
    g.cells.length = g.numBanks_ * GC.BankSize

/-- `new GC::Cell(kind, valueInt)`: the address of the new cell.  The
constructor writes the kind and the first word. -/
def GC.newIntegerCell (v : Int) : M GC Nat := do
  let a ← GC.AllocateCell
  fun g =>
    match g.cells[a]? with
    | some c => .ok a { g with cells := g.cells.set a { c with kind := .Integer, car := .int v } }
    | none => .fault .undefinedBehaviour

/-- `new GC::Cell(name)`: the address of the new cell. -/
def GC.newSymbolCell (name : String) : M GC Nat := do
  let a ← GC.AllocateCell
  fun g =>
    match g.cells[a]? with
    | some c => .ok a { g with cells := g.cells.set a { c with kind := .Symbol, car := .name name } }
    | none => .fault .undefinedBehaviour

/-- `new GC::Cell(kind, car, cdr)`: the address of the new cell. -/
def GC.newPairCell (kind : GC.CellKind) (car cdr : Option Nat) : M GC Nat := do
  let a ← GC.AllocateCell
  fun g =>
    match g.cells[a]? with
    | some c =>
      .ok a { g with cells := g.cells.set a { c with kind := kind, car := .ptr car, cdr := .ptr cdr } }
    | none => .fault .undefinedBehaviour

/-- The assignment `data_->cdr = value.data_` of `Value::setCdr` on the cell
at `a`. -/
def GC.writeCdr (a : Nat) (p : Option Nat) : M GC Unit := fun g =>
  match g.cells[a]? with
  | some c => .ok () { g with cells := g.cells.set a { c with cdr := .ptr p } }
  | none => .fault .undefinedBehaviour

/-- The constructor `Value(GC::Cell * data)` for a handle stored at
`location`: the handle points to `data` and registers itself as a root. -/
def GC.newHandle (location : Nat) (data : Option Nat) : M GC Unit := do
  (fun g => .ok () { g with data_ := (location, data) :: g.data_ } : M GC Unit)
  GC.AddRoot location

/-- The state a computation of the collector ends in; the state it started
from when it does not end. -/
def GC.stateAfter {α : Type} (m : M GC α) (g : GC) : GC :=
  match m g with
  | .ok _ g1 => g1
  | .thrown _ g1 => g1
  | .fault _ => g

/-- A heap of four cells in the first bank: the Integer 7, the Integer 8, a
Cons cell of the 7 whose `cdr` is the cell itself, and a Closure of that Cons
cell twice; one handle points to the Closure and one to the Cons cell, none to
the 8. -/
def GC.Sample.shared : GC :=
  GC.stateAfter (do
    let x ← GC.newIntegerCell 7
    let _ ← GC.newIntegerCell 8
    let z ← GC.newPairCell .Cons (some x) (some x)
    GC.writeCdr z (some z)
    let w ← GC.newPairCell .Closure (some z) (some z)
    GC.newHandle 0 (some w)
    GC.newHandle 1 (some z)) GC.initial

/-! ## The stack discipline of compiled code

The compiler emits code in which every instruction finds the operands it
pops: the predicates below say so for a code list in the heap, and
`Runtime.Inv` is the invariant of the machine while it runs such code. -/

/-- What a code list ends with: the top-level program ends with its last
instruction, the arm of an `if` with `JOIN` (at a known stack height and
number of dummy frames), the body of a function with `RTN`. -/
inductive Code.End where
  | top
  | join (n k : Nat)
  | rtn
deriving DecidableEq, Repr

/-- What the machine expects next in a code list: an opcode, with `n` values
on `S` and `k` dummy frames opened by `DUM` on `E` (`loaded` when the top of
`S` is a closure just made by `LDF`), or the operand of a given opcode, or
nothing more (`done`, after `JOIN` and `RTN`). -/
inductive Code.Pend where
  | ready (loaded : Bool) (n k : Nat)
  | ldc (n k : Nat)
  | ld (n k : Nat)
  | sel0 (n k : Nat)
  | sel1 (n k : Nat)
  | ldf (n k : Nat)
  | done
deriving DecidableEq, Repr

/-- The effect of an opcode met with `n` values on `S` and `k` dummy frames:
what is expected after it, `none` when the opcode does not find its
operands. -/
def Code.effect (K : Code.End) (opcode : Int) (loaded : Bool) (n k : Nat) : Option Code.Pend :=
  if opcode = Instruction.RAP then
    if loaded = true ∧ 2 ≤ n ∧ 1 ≤ k then some (.ready false (n - 1) (k - 1)) else none
  else if opcode = Instruction.NIL ∨ opcode = Instruction.READ then some (.ready false (n + 1) k)
  else if opcode = Instruction.LDC then some (.ldc n k)
  else if opcode = Instruction.LD then some (.ld n k)
  else if opcode = Instruction.SEL then
    if 1 ≤ n then some (.sel0 (n - 1) k) else none
  else if opcode = Instruction.JOIN then
    if K = .join n k then some .done else none
  else if opcode = Instruction.LDF then some (.ldf n k)
  else if opcode = Instruction.AP then
    if 2 ≤ n then some (.ready false (n - 1) k) else none
  else if opcode = Instruction.RTN then
    if K = .rtn ∧ 1 ≤ n then some .done else none
  else if opcode = Instruction.DUM then some (.ready false n (k + 1))
  else if opcode = Instruction.DEFUN ∨ opcode = Instruction.CAR ∨ opcode = Instruction.CDR ∨
      opcode = Instruction.CONSP ∨ opcode = Instruction.PRINT then
    if 1 ≤ n then some (.ready false n k) else none
  else if opcode = Instruction.POP then
    if 1 ≤ n then some (.ready false (n - 1) k) else none
  else if opcode = Instruction.CONS ∨ opcode = Instruction.ADD ∨ opcode = Instruction.SUB ∨
      opcode = Instruction.MUL ∨ opcode = Instruction.DIV ∨ opcode = Instruction.EQ ∨
      opcode = Instruction.LT ∨ opcode = Instruction.GT then
    if 2 ≤ n then some (.ready false (n - 1) k) else none
  else none

/-- The cells from `c` on, linked through `cdr`, hold the values `items`, and
`r` is what follows them; every cell of the spine satisfies `P`. -/
def IsSeg (P : Nat → Prop) (h : Heap) : Nat → List Nat → Nat → Prop
  | c, [], r => c = r
  | c, x :: xs, r => P c ∧ ∃ d, h.get? c = some (.cons x d) ∧ IsSeg P h d xs r

/-- The values `items` are code that takes the machine from one expectation
to another: every opcode finds its operands on `S`, the operand of `LDC`
satisfies `V`, the arms of `SEL` end in a `JOIN` that finds one value more
than the `SEL` left, and the body of `LDF` ends in `RTN` with a value to
return.  The cells read are opcodes and spines of nested lists, which satisfy
`P`. -/
inductive Code.Run (P V : Nat → Prop) (h : Heap) :
    Code.End → Code.Pend → List Nat → Code.Pend → Prop
  | nil (K : Code.End) (τ : Code.Pend) : Code.Run P V h K τ [] τ
  | forget {K : Code.End} {n k : Nat} {xs : List Nat} {τ : Code.Pend} :
      Code.Run P V h K (.ready false n k) xs τ → Code.Run P V h K (.ready true n k) xs τ
  | op {K : Code.End} {fl : Bool} {n k x : Nat} {o : Int} {τ1 τ : Code.Pend} {xs : List Nat} :
      P x → h.get? x = some (.integer o) → Code.effect K o fl n k = some τ1 →
      Code.Run P V h K τ1 xs τ → Code.Run P V h K (.ready fl n k) (x :: xs) τ
  | ldc {K : Code.End} {n k x : Nat} {τ : Code.Pend} {xs : List Nat} :
      V x → Code.Run P V h K (.ready false (n + 1) k) xs τ →
      Code.Run P V h K (.ldc n k) (x :: xs) τ
  | ld {K : Code.End} {n k x : Nat} {τ : Code.Pend} {xs : List Nat} :
      Code.Run P V h K (.ready false (n + 1) k) xs τ →
      Code.Run P V h K (.ld n k) (x :: xs) τ
  | sel0 {K : Code.End} {n k t r : Nat} {its xs : List Nat} {τ : Code.Pend} :
      IsSeg P h t its r → Code.Run P V h (.join (n + 1) k) (.ready false n k) its .done →
      Code.Run P V h K (.sel1 n k) xs τ → Code.Run P V h K (.sel0 n k) (t :: xs) τ
  | sel1 {K : Code.End} {n k f r : Nat} {its xs : List Nat} {τ : Code.Pend} :
      IsSeg P h f its r → Code.Run P V h (.join (n + 1) k) (.ready false n k) its .done →
      Code.Run P V h K (.ready false (n + 1) k) xs τ → Code.Run P V h K (.sel1 n k) (f :: xs) τ
  | ldf {K : Code.End} {n k b r : Nat} {its xs : List Nat} {τ : Code.Pend} :
      IsSeg P h b its r → Code.Run P V h .rtn (.ready false 0 0) its .done →
      Code.Run P V h K (.ready true (n + 1) k) xs τ → Code.Run P V h K (.ldf n k) (b :: xs) τ

/-- Where a code list may stop: the top-level program at its end with
exactly one value on `S`, an arm or a body after its `JOIN` or `RTN`. -/
def Code.Final : Code.End → Code.Pend → Nat → Prop
  | .top, .ready _ n _, r => n = 1 ∧ r = Nil
  | .top, _, _ => False
  | _, .done, _ => True
  | _, _, _ => False

/-- The code list `c` is code for the expectation `τ` that stops where a list
of its kind may stop. -/
def Code.Rest (P V : Nat → Prop) (h : Heap) (K : Code.End) (τ : Code.Pend) (c : Nat) : Prop :=
  ∃ items r τf, IsSeg P h c items r ∧ Code.Run P V h K τ items τf ∧ Code.Final K τf r

/-- The cells of the heap that are no values of the program: `ctl` holds the
code and the spines of `S` and `D`, which are never overwritten, `env` the
cells of the environment chain. -/
structure Regions where
  ctl : Nat → Prop
  env : Nat → Prop

/-- A value of the program: an allocated cell that is neither code nor stack
spine nor an environment cell. -/
def Regions.val (g : Regions) (h : Heap) (x : Nat) : Prop :=
  x < h.size ∧ ¬ g.ctl x ∧ ¬ g.env x

/-- The body of a function: code that starts on an empty `S` and ends in
`RTN`. -/
def Code.Body (g : Regions) (h : Heap) (b : Nat) : Prop :=
  Code.Rest g.ctl (g.val h) h .rtn (.ready false 0 0) b

/-- The heap of the machine with the global environment cell `G`: the
environment cells form chains that end in `G`, whose `cdr` is `Nil`, and hold
lists of values; values only point to values; every closure has a body that
is code and an environment cell. -/
structure HeapOK (G : Nat) (g : Regions) (h : Heap) : Prop where
  valid : h.Valid
  ctl_lt : ∀ p, g.ctl p → p < h.size
  env_lt : ∀ p, g.env p → p < h.size
  disjoint : ∀ p, g.ctl p → ¬ g.env p
  global : g.env G
  nil : g.val h Nil
  t : g.val h T
  envCell : ∀ p, g.env p → ∃ a b, h.get? p = some (.cons a b) ∧ g.val h a ∧
    ((p = G ∧ b = Nil) ∨ (p ≠ G ∧ g.env b ∧ b < p))
  consCell : ∀ p a b, g.val h p → h.get? p = some (.cons a b) → g.val h a ∧ g.val h b
  closureCell : ∀ p b e, h.get? p = some (.closure b e) → Code.Body g h b ∧ g.env e

/-- The register `S` holds `n` values. -/
def Runtime.SList (g : Regions) (h : Heap) : Nat → Nat → Prop
  | s, 0 => s = Nil
  | s, n + 1 => g.ctl s ∧ ∃ v d, h.get? s = some (.cons v d) ∧ g.val h v ∧ Runtime.SList g h d n

/-- The environment `e` has at least `k` frames above another one. -/
def Runtime.EnvAt (g : Regions) (h : Heap) : Nat → Nat → Prop
  | e, 0 => g.env e
  | e, k + 1 => g.env e ∧ ∃ a b, h.get? e = some (.cons a b) ∧ Runtime.EnvAt g h b k

/-- The register `D` matches the code being run: under the arm of an `if`
lies the code to resume after `JOIN`, under the body of a function the saved
registers of its caller, and under the top-level program nothing. -/
inductive Runtime.Dump (g : Regions) (h : Heap) : Nat → Code.End → Prop
  | top : Runtime.Dump g h Nil .top
  | join {d c d1 n k : Nat} {K1 : Code.End} :
      g.ctl d → h.get? d = some (.cons c d1) →
      Code.Rest g.ctl (g.val h) h K1 (.ready false n k) c → Runtime.Dump g h d1 K1 →
      Runtime.Dump g h d (.join n k)
  | rtn {d f d1 s f1 e f2 c f3 n k : Nat} {K1 : Code.End} :
      g.ctl d → h.get? d = some (.cons f d1) →
      g.ctl f → h.get? f = some (.cons s f1) →
      g.ctl f1 → h.get? f1 = some (.cons e f2) →
      g.ctl f2 → h.get? f2 = some (.cons c f3) →
      Runtime.SList g h s n → Runtime.EnvAt g h e k →
      Code.Rest g.ctl (g.val h) h K1 (.ready false (n + 1) k) c → Runtime.Dump g h d1 K1 →
      Runtime.Dump g h d .rtn

/-- The registers of the machine match the regions `g`: `C` is code of the
kind `K` for the expectation `τ`, `S` holds `n` values, `D` matches `K`, and
`E` has `k` frames to spare. -/
structure Runtime.Pieces (G : Nat) (g : Regions) (K : Code.End) (τ : Code.Pend) (n k : Nat)
    (rt : Runtime) : Prop where
  ok : HeapOK G g rt.heap
  code : Code.Rest g.ctl (g.val rt.heap) rt.heap K τ rt.c_
  stack : Runtime.SList g rt.heap rt.s_ n
  dump : Runtime.Dump g rt.heap rt.d_ K
  env : Runtime.EnvAt g rt.heap rt.e_ k

/-- The invariant of the machine while it runs compiled code, with the global
environment cell `G`: in front of every instruction the registers match some
regions of the heap, and a closure that `LDF` has just made is on top of `S`
with the current environment. -/
def Runtime.Inv (G : Nat) (rt : Runtime) : Prop :=
  ∃ (g : Regions) (K : Code.End) (fl : Bool) (n k : Nat),
    Runtime.Pieces G g K (.ready fl n k) n k rt ∧
    (fl = true → ∃ p d b, rt.heap.get? rt.s_ = some (.cons p d) ∧
      rt.heap.get? p = some (.closure b rt.e_))

/-- The heap `h1` extends the heap `h`: the cells of `h` are unchanged. -/
def Heap.Grow (h h1 : Heap) : Prop :=
  h.size ≤ h1.size ∧ ∀ p, p < h.size → h1.get? p = h.get? p

/-- The values `vs` are the first frame of the environment cell `G`. -/
def Runtime.Frame (h : Heap) (G : Nat) (vs : List Nat) : Prop :=
  ∃ a b, h.get? G = some (.cons a b) ∧ IsList h a vs

/-- The first frame of `G` in the heap `h1` starts with what it holds in the
heap `h`. -/
def Runtime.Grows (G : Nat) (h h1 : Heap) : Prop :=
  ∀ vs, Runtime.Frame h G vs → ∃ ws, Runtime.Frame h1 G (vs ++ ws)

/-- A later heap with its regions: what was code or spine is unchanged, the
environment cells keep their `cdr`, and the new cells of a region are new
cells of the heap. -/
structure Regions.Ext (g : Regions) (h : Heap) (g1 : Regions) (h1 : Heap) : Prop where
  size : h.size ≤ h1.size
  ctl : ∀ p, g.ctl p → g1.ctl p ∧ h1.get? p = h.get? p
  env : ∀ p, g.env p → g1.env p ∧
    ∀ a b, h.get? p = some (.cons a b) → ∃ a1, h1.get? p = some (.cons a1 b)
  ctl_old : ∀ p, p < h.size → g1.ctl p → g.ctl p
  env_old : ∀ p, p < h.size → g1.env p → g.env p

/-- Every cell of the expression satisfies `V`. -/
def Src.All (V : Nat → Prop) : Src → Prop
  | .cons p a d => V p ∧ Src.All V a ∧ Src.All V d
  | .integer p => V p
  | .symbol p _ => V p
  | .closure p => V p

/-- The computation never ends by an exception. -/
structure NoThrow {σ α : Type} (m : M σ α) : Prop where
  never : ∀ s e s1, m s ≠ .thrown e s1

/-- A code buffer of the compiler and what it holds so far: the kind of code
it will be, the stack height and the number of dummy frames it starts with,
and what the machine expects after the values emitted so far. -/
structure Code.Frame where
  kind : Code.End
  height : Nat
  dummies : Nat
  pending : Code.Pend

/-- The buffer `b` holds the values `items`: it is empty, or its cells are
linked up to the cell `last_`, whose `cdr` is still `Nil`. -/
def Code.Open (P : Nat → Prop) (h : Heap) (b : SecdList) (items : List Nat) : Prop :=
  (b.first_ = Nil ∧ b.last_ = Nil ∧ items = []) ∨
    ∃ pre x, items = pre ++ [x] ∧ IsSeg P h b.first_ pre b.last_ ∧ P b.last_ ∧
      h.get? b.last_ = some (.cons x Nil)

/-- The chain of code buffers of the compiler, current buffer first, holds
code for the frames `fs`: the cells of a buffer were allocated after the
compilation started (at heap size `A`) and, for a buffer that waits for a
nested one, before the nested one was opened. -/
def Compiler.Stack (A : Nat) (V : Nat → Prop) (h : Heap) :
    List SecdList → List Code.Frame → Nat → Prop
  | [], [], _ => True
  | b :: bs, f :: fs, u =>
    ∃ σ items, A ≤ σ ∧ σ ≤ u ∧ Code.Open (fun p => σ ≤ p ∧ p < u) h b items ∧
      Code.Run (fun p => A ≤ p ∧ p < u) V h f.kind (.ready false f.height f.dummies) items
        f.pending ∧
      Compiler.Stack A V h bs fs σ
  | _, _, _ => False

/-- The state of the compiler while it compiles an expression: the buffers
hold code for the frames `fs`, and the cells of the heap `h0` in which the
compilation started are unchanged. -/
def Compiler.Typing (A : Nat) (V : Nat → Prop) (h0 : Heap) (fs : List Code.Frame)
    (st : Compiler) : Prop :=
  st.heap.Valid ∧ A ≤ st.heap.size ∧ (∀ q, q < A → st.heap.get? q = h0.get? q) ∧
    Compiler.Stack A V st.heap st.code_ fs st.heap.size

/-- From a state with `P`, a normal end of the computation `m` is in a state
with `Q`. -/
def Compiler.Triple {α : Type} (P : Compiler → Prop) (m : CM α) (Q : α → Compiler → Prop) :
    Prop :=
  ∀ st, P st → ∀ r st1, m st = .ok r st1 → Q r st1

/-- The computation `m` emits, into the current buffer, code that takes the
machine from the expectation `τ` to the expectation `τ1`. -/
def Compiler.Emits {α : Type} (A : Nat) (V : Nat → Prop) (h0 : Heap) (fs : List Code.Frame)
    (K : Code.End) (n0 k0 : Nat) (τ τ1 : Code.Pend) (m : CM α) : Prop :=
  Compiler.Triple (Compiler.Typing A V h0 (⟨K, n0, k0, τ⟩ :: fs)) m
    (fun _ => Compiler.Typing A V h0 (⟨K, n0, k0, τ1⟩ :: fs))

/-- The candidate `f` for the recursive call emits, for every expression whose
cells satisfy `V`, code that leaves one value more on the stack. -/
def Compiler.Sound (A : Nat) (V : Nat → Prop) (h0 : Heap) (f : Src → CM Unit) : Prop :=
  ∀ c, Src.All V c → ∀ (fs : List Code.Frame) (K : Code.End) (n0 k0 n k : Nat),
    Compiler.Emits A V h0 fs K n0 k0 (.ready false n k) (.ready false (n + 1) k) (f c)

/-- The cells of the heap from the address `A` on are no closures. -/
def Heap.Plain (A : Nat) (h : Heap) : Prop :=
  ∀ q b e, h.get? q = some (.closure b e) → q < A

/-- The compiler has made no closure since the heap had the size `A`. -/
def Compiler.Plain (A : Nat) (st : Compiler) : Prop := st.heap.Plain A

/-- A state of the machine between two programs, with the global environment
cell `G`: the registers `S`, `C` and `D` are empty, `E` is the cell `G`, and
the heap matches the regions `g`. -/
structure Runtime.Good (G : Nat) (g : Regions) (rt : Runtime) : Prop where
  ok : HeapOK G g rt.heap
  s : rt.s_ = Nil
  c : rt.c_ = Nil
  d : rt.d_ = Nil
  e : rt.e_ = G

/-- The value reached from `p` by `n` times `cdr`. -/
def Heap.nthCdr (h : Heap) : Nat → Nat → Option Nat
  | 0, p => some p
  | n + 1, p =>
    match h.get? p with
    | some (.cons _ d) => Heap.nthCdr h n d
    | _ => none

/-- The state in which a computation of the machine ends; the state it
started in when it ends in a fault. -/
def Runtime.stateAfter {α : Type} (m : RM α) (rt : Runtime) : Runtime :=
  match m rt with
  | .ok _ rt1 => rt1
  | .thrown _ rt1 => rt1
  | .fault _ => rt

/-- The machine on the initial heap after the reader has read the text
`source`: the state in which the text is compiled. -/
def Runtime.reading (source : SExpr) : Runtime :=
  match SExpr.read source ⟨(Runtime.new initialHeap []).heap, initialSymbols⟩ with
  | (_, st) => { Runtime.new initialHeap [] with heap := st.heap, symbols_ := st.symbols_ }

/-- The text `(progn (defun f (x) x) (car 1))`: a definition, then a `car` of
an integer. -/
def Sample.carOfInteger : SExpr :=
  SExpr.list [.atom "progn",
    SExpr.list [.atom "defun", .atom "f", SExpr.list [.atom "x"], .atom "x"],
    SExpr.list [.atom "car", .num 1]]

/-- The text `(letrec (f) ((lambda (n) (if (eq n 0) 1 (f (- n 1))))) (f 2))`:
a recursive function that counts down to zero. -/
def Sample.countDown : SExpr :=
  SExpr.list [.atom "letrec", SExpr.list [.atom "f"],
    SExpr.list [SExpr.list [.atom "lambda", SExpr.list [.atom "n"],
      SExpr.list [.atom "if", SExpr.list [.atom "eq", .atom "n", .num 0], .num 1,
        SExpr.list [.atom "f", SExpr.list [.atom "-", .atom "n", .num 1]]]]],
    SExpr.list [.atom "f", .num 2]]

/-! ## The instructions `EQ`, `CONSP`, `AP`, `RTN`, `DUM`, `RAP` and `DEFUN` -/

/-- What the specification has `EQ` push for the values `a` (popped first)
and `b`: when both are Integer cells, 1 if their integers are equal and 0 if
not; otherwise 1 if `a` and `b` are the same cell and 0 if not. -/
def Spec.eqResult (h : Heap) (a b : Nat) : Int :=
  match h.get? a, h.get? b with
  | some (.integer x), some (.integer y) => if x = y then 1 else 0
  | _, _ => if a = b then 1 else 0

/-- The text `(eq 7 7)`: two Integer cells with the same integer. -/
def Sample.eqIntegers : SExpr := SExpr.list [.atom "eq", .num 7, .num 7]

/-- The text `(consp 1)`: `consp` of a value that is no Cons cell. -/
def Sample.conspOfInteger : SExpr := SExpr.list [.atom "consp", .num 1]

/-- The text `(consp (cons 1 (cons 2 3)))`: `consp` of a Cons cell whose `cdr`
is a Cons cell. -/
def Sample.conspOfList : SExpr :=
  SExpr.list [.atom "consp",
    SExpr.list [.atom "cons", .num 1, SExpr.list [.atom "cons", .num 2, .num 3]]]

/-- The heap after `AP` or `RAP` has built the list `List({s, e, c})` and
pushed it on the dump `d`: the three cells of the list from the address
`h.size` on, then the new cell of the dump. -/
def Heap.pushContext (h : Heap) (s e c d : Nat) : Heap :=
  ((((((h.alloc (.cons s Nil)).2.alloc (.cons e Nil)).2.set h.size
    (.cons s (h.size + 1))).alloc (.cons c Nil)).2.set (h.size + 1)
      (.cons e (h.size + 2))).alloc (.cons h.size d)).2

/-- The text `((lambda (x) x) 5)`. -/
def Sample.identityCall : SExpr :=
  SExpr.list [SExpr.list [.atom "lambda", SExpr.list [.atom "x"], .atom "x"], .num 5]

/-- The text `(progn (defun f (x) x) (defun g (x) x) 1)`: two definitions in
the global environment. -/
def Sample.twoDefuns : SExpr :=
  SExpr.list [.atom "progn",
    SExpr.list [.atom "defun", .atom "f", SExpr.list [.atom "x"], .atom "x"],
    SExpr.list [.atom "defun", .atom "g", SExpr.list [.atom "x"], .atom "x"],
    .num 1]

/-- An item of a code list: an opcode, held by an Integer cell, or an operand,
which is any value. -/
inductive Code.Item where
  | op (opcode : Int)
  | arg (value : Nat)
deriving DecidableEq, Repr

/-- Whether the cells from `c` on, linked through `cdr` up to `r`, hold the
items `items`. -/
def Heap.isCode (h : Heap) : List Code.Item → Nat → Nat → Bool
  | [], c, r => c = r
  | .op k :: items, c, r =>
    match h.get? c with
    | some (.cons o d) => (h.get? o == some (.integer k)) && Heap.isCode h items d r
    | _ => false
  | .arg x :: items, c, r =>
    match h.get? c with
    | some (.cons y d) => y = x && Heap.isCode h items d r
    | _ => false

/-- The code list from `c` to `r` holds the items `items`. -/
def IsCode (h : Heap) (items : List Code.Item) (c r : Nat) : Prop := h.isCode items c r = true

instance (h : Heap) (items : List Code.Item) (c r : Nat) : Decidable (IsCode h items c r) :=
  inferInstanceAs (Decidable (h.isCode items c r = true))

/-- The code that builds the argument list of closures with the bodies `bs`
(the body of the last argument first): `NIL`, then `LDF` with the body and
`CONS` for each of them. -/
def Spec.closureArgs : List Nat → List Code.Item
  | [] => []
  | b :: bs => [.op Instruction.LDF, .arg b, .op Instruction.CONS] ++ Spec.closureArgs bs

/-- The instruction sequence of a `letrec` whose values are lambdas with the
bodies `bs` (the body of the last value first) and whose body is `body`:
`DUM`, the argument list of closures, `LDF` with the body, and `RAP`. -/
def Spec.letrecCode (bs : List Nat) (body : Nat) : List Code.Item :=
  [.op Instruction.DUM, .op Instruction.NIL] ++ Spec.closureArgs bs ++
    [.op Instruction.LDF, .arg body, .op Instruction.RAP]

/-- Whether the values `fs` are closures with the bodies `bs`, in this order,
and the environment `e`. -/
def Heap.areClosures (h : Heap) (e : Nat) : List Nat → List Nat → Bool
  | [], [] => true
  | f :: fs, b :: bs => (h.get? f == some (.closure b e)) && Heap.areClosures h e fs bs
  | _, _ => false

/-- The text `(letrec (f g) ((lambda (x) (g x)) (lambda (y) y)) (f 1))`. -/
def Sample.mutualLetrec : SExpr :=
  SExpr.list [.atom "letrec", SExpr.list [.atom "f", .atom "g"],
    SExpr.list [
      SExpr.list [.atom "lambda", SExpr.list [.atom "x"], SExpr.list [.atom "g", .atom "x"]],
      SExpr.list [.atom "lambda", SExpr.list [.atom "y"], .atom "y"]],
    SExpr.list [.atom "f", .num 1]]

/-! ## Handles and the symbol table on the collector (`value.h`, `value.cpp`)

A handle (`Value`) is a root location that holds a cell pointer.  The table
`Symbol::symbols_` maps a name to a cell pointer of its own, which is no root
location. -/

/-- The static state of the classes `GC` and `Symbol`. -/
structure Store where
  gc : GC
  symbols_ : List (String × Nat)
deriving DecidableEq, Repr

/-- The state before the static initialisers of `value.cpp` run. -/
def Store.initial : Store := ⟨GC.initial, []⟩

/-- A computation of the collector on the store. -/
def Store.lift {α : Type} (m : M GC α) : M Store α := fun st =>
  match m st.gc with
  | .ok a g => .ok a { st with gc := g }
  | .thrown e g => .thrown e { st with gc := g }
  | .fault f => .fault f

/-- `Symbol::GetCellForName`: the cell the table holds for the name; a name
the table does not hold gets a new Symbol cell, which is inserted. -/
def Store.GetCellForName (name : String) : M Store Nat := fun st =>
  match st.symbols_.find? (fun e => e.1 == name) with
  | some e => .ok e.2 st
  | none =>
    match GC.newSymbolCell name st.gc with
    | .ok a g => .ok a ⟨g, st.symbols_ ++ [(name, a)]⟩
    | .thrown e g => .thrown e { st with gc := g }
    | .fault f => .fault f

/-- `Symbol::ForName`, the handle returned being stored at `location`. -/
def Store.ForName (location : Nat) (name : String) : M Store Unit := do
  let a ← Store.GetCellForName name
  Store.lift (GC.newHandle location (some a))

/-- `Value::Integer`, the handle returned being stored at `location`. -/
def Store.Integer (location : Nat) (value : Int) : M Store Unit :=
  Store.lift (do
    let a ← GC.newIntegerCell value
    GC.newHandle location (some a))

/-- The cell of a new Cons or Closure over the cells of the handles at
`first` and `second`, the handle returned being stored at `location`. -/
def Store.pair (kind : GC.CellKind) (location first second : Nat) : M Store Unit :=
  Store.lift fun g =>
    match GC.deref g.data_ first, GC.deref g.data_ second with
    | some p, some q =>
      (do let a ← GC.newPairCell kind p q
          GC.newHandle location (some a) : M GC Unit) g
    | _, _ => .fault .undefinedBehaviour

/-- `Value::Cons`. -/
def Store.Cons (location car cdr : Nat) : M Store Unit := Store.pair .Cons location car cdr

/-- `Value::Closure`. -/
def Store.Closure (location body environment : Nat) : M Store Unit :=
  Store.pair .Closure location body environment

/-- The copy constructor `Value(Value const & from)` for a handle stored at
`location`. -/
def Store.copy (location source : Nat) : M Store Unit :=
  Store.lift fun g =>
    match GC.deref g.data_ source with
    | some p => GC.newHandle location p g
    | none => .fault .undefinedBehaviour

/-- The destructor `~Value()` of the handle at `location`. -/
def Store.destroy (location : Nat) : M Store Unit := Store.lift (GC.RemoveRoot location)

/-- `Value::operator==` on the handles at two locations. -/
def Store.equal (st : Store) (a b : Nat) : Bool :=
  GC.deref st.gc.data_ a == GC.deref st.gc.data_ b

/-- The public operations on handles, symbols and the collector. -/
inductive Store.Op where
  | forName (location : Nat) (name : String)
  | integer (location : Nat) (value : Int)
  | cons (location car cdr : Nat)
  | closure (location body environment : Nat)
  | copy (location source : Nat)
  | destroy (location : Nat)
  | collect
deriving DecidableEq, Repr

/-- The operation as a computation. -/
def Store.Op.apply : Store.Op → M Store Unit
  | .forName location name => Store.ForName location name
  | .integer location value => Store.Integer location value
  | .cons location car cdr => Store.Cons location car cdr
  | .closure location body environment => Store.Closure location body environment
  | .copy location source => Store.copy location source
  | .destroy location => Store.destroy location
  | .collect => Store.lift GC.Run

/-- The operations one after the other. -/
def Store.applyAll : List Store.Op → Store → Res Store Unit
  | [], st => .ok () st
  | op :: ops, st =>
    match op.apply st with
    | .ok _ st1 => Store.applyAll ops st1
    | .thrown e st1 => .thrown e st1
    | .fault f => .fault f

/-- The state a sequence of operations ends in; the state it started from
when it does not end normally. -/
def Store.after (ops : List Store.Op) (st : Store) : Store :=
  match Store.applyAll ops st with
  | .ok _ st1 => st1
  | _ => st

/-- The static initialisers of `value.cpp`: the symbols of the class
`Symbol` and `Nil` by `Symbol::ForName`, then `T` by `Value::Integer(1)`; the
handles are the static objects, at the locations 0 to 30. -/
def Store.staticOps : List Store.Op :=
  (wellKnownNames.enum.map fun e => Store.Op.forName e.1 e.2) ++ [.integer 30 1]

/-- The state after static initialisation. -/
def Store.static : Store := Store.after Store.staticOps Store.initial

/-- The state after static initialisation in which a symbol `x` was made by
`Symbol::ForName`, with its handle at location 31, and the handle
destroyed. -/
def Store.Sample.dropped : Store :=
  Store.after [.forName 31 "x", .destroy 31] Store.static

/-- The symbol `x` is made and its only handle destroyed, a collection runs,
and `Symbol::ForName` is called with the same name again. -/
def Store.Sample.internAgain : List Store.Op :=
  [.forName 31 "x", .destroy 31, .collect, .forName 32 "x"]

/-- The symbol `x` is made and its only handle destroyed, a collection runs,
and `Symbol::ForName` is called with another name and then with `x`. -/
def Store.Sample.internOther : List Store.Op :=
  [.forName 31 "x", .destroy 31, .collect, .forName 32 "y", .forName 33 "x"]

/-! ## Division -/

/-- The text `(/ a b)`. -/
def Sample.quotient (a b : Int) : SExpr := SExpr.list [.atom "/", .num a, .num b]

/-- The quotient of `a` by `b` truncated toward zero: the quotient of the
absolute values, negated when the signs of `a` and `b` differ. -/
def Spec.truncatedQuotient (a b : Int) : Int :=
  if (a < 0) = (b < 0) then ((a.natAbs / b.natAbs : Nat) : Int)
  else -((a.natAbs / b.natAbs : Nat) : Int)

/-- The tree the reader builds for `(/ a b)`, whatever the integers are. -/
def Sample.quotientSrc : Src :=
  .cons 36 (.symbol 9 "/") (.cons 35 (.integer 32) (.cons 34 (.integer 33) (.symbol 29 "nil")))

/-- The cells the reader allocates for `(/ a b)`, above those of
`Runtime.new initialHeap []`. -/
def Sample.quotientCells (a b : Int) : List (Nat × Cell) :=
  (36, .cons 9 35) :: (35, .cons 32 34) :: (34, .cons 33 29) :: (33, .integer b) ::
    (32, .integer a) :: (Runtime.new initialHeap []).heap.cells

/-- The compiler after it has compiled `Sample.quotientSrc` on a heap of the
size the reader leaves, with no cell bound. -/
def Sample.quotientCompiled : Compiler :=
  Compiler.stateAfter (Compiler.compileSource Sample.quotientSrc) ⟨⟨37, []⟩, [], [[]]⟩

/-! ## Sequences of appends to a code buffer -/

/-- The calls `add(v)` of `Compiler::Code` for the values of a list, one
after the other, on the current code buffer. -/
def Code.addAll : List Nat → Compiler → Res Compiler Unit
  | [], st => .ok () st
  | v :: vs, st =>
    match Code.add v st with
    | .ok _ st1 => Code.addAll vs st1
    | .thrown e st1 => .thrown e st1
    | .fault f => .fault f

/-! ## Sessions and scopes -/

/-- The texts read, compiled and run one after the other on the same
machine, with the same compiler: the results in the order of the texts.  The
session ends with the first text that does not end normally. -/
def Runtime.session (fuel : Nat) : List SExpr → Runtime → Res Runtime (List Nat)
  | [], rt => .ok [] rt
  | x :: xs, rt =>
    match Runtime.eval fuel x rt with
    | .ok p rt1 =>
      match Runtime.session fuel xs rt1 with
      | .ok ps rt2 => .ok (p :: ps) rt2
      | .thrown e rt2 => .thrown e rt2
      | .fault f => .fault f
    | .thrown e rt1 => .thrown e rt1
    | .fault f => .fault f

/-- The text `((lambda (x) (letrec (f) ((lambda (y) y)) x)) 5)`: the body of
the `letrec` refers to the parameter `x` of the enclosing lambda. -/
def Sample.letrecOuter : SExpr :=
  SExpr.list [SExpr.list [.atom "lambda", SExpr.list [.atom "x"],
    SExpr.list [.atom "letrec", SExpr.list [.atom "f"],
      SExpr.list [SExpr.list [.atom "lambda", SExpr.list [.atom "y"], .atom "y"]],
      .atom "x"]], .num 5]

/-- The texts `(defun g (x) 7)` and `(letrec (f) ((lambda (y) y)) (g 1))`: the
body of the `letrec` calls a global function. -/
def Sample.letrecGlobal : List SExpr :=
  [SExpr.list [.atom "defun", .atom "g", SExpr.list [.atom "x"], .num 7],
   SExpr.list [.atom "letrec", SExpr.list [.atom "f"],
      SExpr.list [SExpr.list [.atom "lambda", SExpr.list [.atom "y"], .atom "y"]],
      SExpr.list [.atom "g", .num 1]]]

/-- The texts `(defun f (x) 1)`, `(defun f (x) 2)`, `(f 0)`, `(defun g (x) 3)`
and `(g 0)`: the name `f` is defined twice. -/
def Sample.redefinition : List SExpr :=
  [SExpr.list [.atom "defun", .atom "f", SExpr.list [.atom "x"], .num 1],
   SExpr.list [.atom "defun", .atom "f", SExpr.list [.atom "x"], .num 2],
   SExpr.list [.atom "f", .num 0],
   SExpr.list [.atom "defun", .atom "g", SExpr.list [.atom "x"], .num 3],
   SExpr.list [.atom "g", .num 0]]

/-- The text `(defun f (x) (quote))`, whose body does not compile. -/
def Sample.defunBadBody : SExpr :=
  SExpr.list [.atom "defun", .atom "f", SExpr.list [.atom "x"], SExpr.list [.atom "quote"]]

/-- The text `(f 1)`. -/
def Sample.callF : SExpr := SExpr.list [.atom "f", .num 1]

/-- The texts `(defun g (x) 3)` and `(f 0)`. -/
def Sample.defineGCallF : List SExpr :=
  [SExpr.list [.atom "defun", .atom "g", SExpr.list [.atom "x"], .num 3],
   SExpr.list [.atom "f", .num 0]]

/-! ## Well-formed memory of the collector -/

/-- Every pointer that `GC::Mark` follows points to a cell of a bank: each
root location holds a pointer to a cell, and so does each of the two words of
every reachable Cons or Closure cell. -/
structure GC.Closed (g : GC) : Prop where
  roots : ∀ l ∈ g.roots_, ∃ a, GC.deref g.data_ l = some (some a) ∧ a < g.cells.length
  cells : ∀ a c, GC.Reaches g a → g.cells[a]? = some c → (c.kind = .Cons ∨ c.kind = .Closure) →
    ∃ x y, c.car = .ptr (some x) ∧ c.cdr = .ptr (some y) ∧ x < g.cells.length ∧
      y < g.cells.length

/-- Whether the word is a pointer to one of the first `n` cells. -/
def GC.Word.isCellBelow (n : Nat) : GC.Word → Bool
  | .ptr (some a) => a < n
  | _ => false

/-- A decidable condition for `GC.Closed`: each root location holds a pointer
to a cell, and both words of every Cons or Closure cell are pointers to
cells. -/
def GC.closedCheck (g : GC) : Bool :=
  g.roots_.all (fun l =>
    match GC.deref g.data_ l with
    | some (some a) => a < g.cells.length
    | _ => false) &&
  g.cells.all (fun c =>
    if c.kind = .Cons ∨ c.kind = .Closure then
      c.car.isCellBelow g.cells.length && c.cdr.isCellBelow g.cells.length
    else true)

/-- The assignment `data_->car = value.data_` of `Value::setCar` on the cell
at `a`. -/
def GC.writeCar (a : Nat) (p : Option Nat) : M GC Unit := fun g =>
  match g.cells[a]? with
  | some c => .ok () { g with cells := g.cells.set a { c with car := .ptr p } }
  | none => .fault .undefinedBehaviour

/-- A heap as the machine builds it for `letrec` and `defun`: the global
environment cell `cons(frame, Nil)`, a closure over it that is stored in its
frame (as `DEFUN` does), the environment cell that `DUM` makes over the
global one, and a closure over that cell which is the element of the frame
that `RAP` stores in it; one handle points to the environment of the
`letrec`. -/
def GC.Sample.knot : GC :=
  GC.stateAfter (do
    let n ← GC.newSymbolCell "nil"
    let body ← GC.newPairCell .Cons (some n) (some n)
    let global ← GC.newPairCell .Cons (some n) (some n)
    let k ← GC.newPairCell .Closure (some body) (some global)
    let frame ← GC.newPairCell .Cons (some k) (some n)
    GC.writeCar global (some frame)
    let env ← GC.newPairCell .Cons (some n) (some global)
    let f ← GC.newPairCell .Closure (some body) (some env)
    let args ← GC.newPairCell .Cons (some f) (some n)
    GC.writeCar env (some args)
    GC.newHandle 0 (some env)) GC.initial

/-! ## The free list -/

/-- The cell that follows the cell at `a` on the free list, as
`GC::AllocateCell` advances: the next address when the first word of the cell
has all bits set, the pointer in the first word otherwise. -/
def GC.nextFree (cells : List GC.Cell) (a : Nat) : Option Nat :=
  match cells[a]? with
  | some c =>
    if c.car.isOnes then some (a + 1)
    else
      match c.car with
      | .ptr p => p
      | _ => none
  | none => none

/-- The address `a` is on the list that starts with `head`. -/
inductive GC.Listed (cells : List GC.Cell) : Option Nat → Nat → Prop where
  | head (a : Nat) : GC.Listed cells (some a) a
  | next (h : Option Nat) (a b : Nat) :
    GC.Listed cells h a → GC.nextFree cells a = some b → GC.Listed cells h b

/-- The cell at `a` is on the free list. -/
def GC.OnFreeList (g : GC) (a : Nat) : Prop := GC.Listed g.cells g.freeList_ a

/-- The free list holds free cells only. -/
def GC.FreeListOK (g : GC) : Prop :=
  ∀ a, g.OnFreeList a → ∃ c, g.cells[a]? = some c ∧ c.status = .Free

/-- The free list is what is left of a fresh bank at `base` after `k`
allocations: it starts with the cell `k` of the bank, and the cells from there
on are as `Bank::Bank` made them, the last one ending the list. -/
def GC.Fresh (base k : Nat) (g : GC) : Prop :=
  g.freeList_ = some (base + k) ∧
    ∀ i, k ≤ i → i < GC.BankSize → g.cells[base + i]? = (GC.bankCells none)[i]?

/-- The expressions `new GC::Cell(...)` of `value.h`. -/
inductive GC.New where
  | integer (value : Int)
  | symbol (name : String)
  | pair (kind : GC.CellKind) (car cdr : Option Nat)
deriving DecidableEq, Repr

/-- The allocation and construction of one cell. -/
def GC.New.apply : GC.New → M GC Nat
  | .integer value => GC.newIntegerCell value
  | .symbol name => GC.newSymbolCell name
  | .pair kind car cdr => GC.newPairCell kind car cdr

/-- The cells made one after the other: their addresses in this order. -/
def GC.newCells : List GC.New → GC → Res GC (List Nat)
  | [], g => .ok [] g
  | x :: xs, g =>
    match x.apply g with
    | .ok a g1 =>
      match GC.newCells xs g1 with
      | .ok as g2 => .ok (a :: as) g2
      | .thrown e g2 => .thrown e g2
      | .fault f => .fault f
    | .thrown e g1 => .thrown e g1
    | .fault f => .fault f

/-! ## Runs that only allocate -/

/-- The heap `h1` holds every cell of the heap `h` as it is in `h`. -/
def Heap.Ext (h h1 : Heap) : Prop := ∀ p c, h.get? p = some c → h1.get? p = some c

/-- From `rt` the loop of `Runtime::run` makes `n` rounds and is then in
`rt1`; the rounds change no cell of the heap of `rt`, they leave the heap well
formed and the compiler and the interning table as they were. -/
structure Runtime.Leads (n : Nat) (rt rt1 : Runtime) : Prop where
  reaches : Runtime.Reaches n rt rt1
  ext : Heap.Ext rt.heap rt1.heap
  wf : rt1.heap.WF
  code : rt1.code_ = rt.code_
  envMap : rt1.envMap_ = rt.envMap_
  symbols : rt1.symbols_ = rt.symbols_

/-! ## The factorial by `letrec` -/

/-- The tree the reader builds for `Sample.factorial k`, whatever `k` is. -/
def Sample.factorialSrc : Src :=
  Src.cons 64 (Src.symbol 26 "letrec") (Src.cons 63 (Src.cons 33 (Src.symbol 32 "f") (Src.symbol
  29 "nil")) (Src.cons 62 (Src.cons 57 (Src.cons 56 (Src.symbol 16 "lambda") (Src.cons 55
  (Src.cons 35 (Src.symbol 34 "n") (Src.symbol 29 "nil")) (Src.cons 54 (Src.cons 53 (Src.symbol
  15 "if") (Src.cons 52 (Src.cons 39 (Src.symbol 10 "eq") (Src.cons 38 (Src.symbol 34 "n")
  (Src.cons 37 (Src.integer 36) (Src.symbol 29 "nil")))) (Src.cons 51 (Src.integer 40) (Src.cons
  50 (Src.cons 49 (Src.symbol 8 "*") (Src.cons 48 (Src.symbol 34 "n") (Src.cons 47 (Src.cons 46
  (Src.symbol 32 "f") (Src.cons 45 (Src.cons 44 (Src.symbol 7 "-") (Src.cons 43 (Src.symbol 34
  "n") (Src.cons 42 (Src.integer 41) (Src.symbol 29 "nil")))) (Src.symbol 29 "nil"))) (Src.symbol
  29 "nil")))) (Src.symbol 29 "nil"))))) (Src.symbol 29 "nil")))) (Src.symbol 29 "nil"))
  (Src.cons 61 (Src.cons 60 (Src.symbol 32 "f") (Src.cons 59 (Src.integer 58) (Src.symbol 29
  "nil"))) (Src.symbol 29 "nil"))))

/-- The cells the reader allocates for `Sample.factorial k`, above those of
`Runtime.new initialHeap []`: the cell 58 holds `k`. -/
def Sample.factorialCells (k : Nat) : List (Nat × Cell) :=
  [(64, Cell.cons 26 63), (63, Cell.cons 33 62), (62, Cell.cons 57 61), (61, Cell.cons 60 29),
  (60, Cell.cons 32 59), (59, Cell.cons 58 29), (58, Cell.integer k), (57, Cell.cons 56 29), (56,
  Cell.cons 16 55), (55, Cell.cons 35 54), (54, Cell.cons 53 29), (53, Cell.cons 15 52), (52,
  Cell.cons 39 51), (51, Cell.cons 40 50), (50, Cell.cons 49 29), (49, Cell.cons 8 48), (48,
  Cell.cons 34 47), (47, Cell.cons 46 29), (46, Cell.cons 32 45), (45, Cell.cons 44 29), (44,
  Cell.cons 7 43), (43, Cell.cons 34 42), (42, Cell.cons 41 29), (41, Cell.integer 1), (40,
  Cell.integer 1), (39, Cell.cons 10 38), (38, Cell.cons 34 37), (37, Cell.cons 36 29), (36,
  Cell.integer 0), (35, Cell.cons 34 29), (34, Cell.symbol "n"), (33, Cell.cons 32 29), (32,
  Cell.symbol "f")]
    ++ (Runtime.new initialHeap []).heap.cells

/-- The heap of the compiler after it has compiled `Sample.factorialSrc` on a
heap of the size the reader leaves, with no cell bound: the bindings the
compiler makes, the latest first. -/
def Sample.factorialHeap : Heap :=
  ⟨151,
    [(148, Cell.cons 132 150), (150, Cell.cons 149 29), (149, Cell.integer 9), (130, Cell.cons
    129 148), (148, Cell.cons 132 29), (145, Cell.cons 144 147), (147, Cell.cons 146 29), (146,
    Cell.integer 7), (143, Cell.cons 142 145), (145, Cell.cons 144 29), (144, Cell.integer 6),
    (139, Cell.cons 138 143), (143, Cell.cons 142 29), (142, Cell.cons 140 141), (141,
    Cell.integer 0), (140, Cell.integer 0), (137, Cell.cons 136 139), (139, Cell.cons 138 29),
    (138, Cell.integer 2), (135, Cell.cons 58 137), (137, Cell.cons 136 29), (136, Cell.integer
    90), (134, Cell.cons 133 135), (135, Cell.cons 58 29), (132, Cell.cons 131 134), (134,
    Cell.cons 133 29), (133, Cell.integer 1), (132, Cell.cons 131 29), (131, Cell.integer 0),
    (128, Cell.cons 127 130), (130, Cell.cons 129 29), (129, Cell.integer 5), (126, Cell.cons 72
    128), (128, Cell.cons 127 29), (127, Cell.integer 90), (70, Cell.cons 69 126), (126,
    Cell.cons 72 29), (123, Cell.cons 91 125), (125, Cell.cons 124 29), (124, Cell.integer 7),
    (89, Cell.cons 85 123), (123, Cell.cons 91 29), (120, Cell.cons 119 122), (122, Cell.cons 121
    29), (121, Cell.integer 4), (118, Cell.cons 117 120), (120, Cell.cons 119 29), (119,
    Cell.integer 102), (114, Cell.cons 113 118), (118, Cell.cons 117 29), (117, Cell.cons 115
    116), (116, Cell.integer 0), (115, Cell.integer 0), (112, Cell.cons 111 114), (114, Cell.cons
    113 29), (113, Cell.integer 2), (110, Cell.cons 109 112), (112, Cell.cons 111 29), (111,
    Cell.integer 6), (106, Cell.cons 105 110), (110, Cell.cons 109 29), (109, Cell.cons 107 108),
    (108, Cell.integer 0), (107, Cell.integer 1), (104, Cell.cons 103 106), (106, Cell.cons 105
    29), (105, Cell.integer 2), (102, Cell.cons 101 104), (104, Cell.cons 103 29), (103,
    Cell.integer 90), (100, Cell.cons 99 102), (102, Cell.cons 101 29), (101, Cell.integer 101),
    (96, Cell.cons 95 100), (100, Cell.cons 99 29), (99, Cell.cons 97 98), (98, Cell.integer 0),
    (97, Cell.integer 0), (94, Cell.cons 41 96), (96, Cell.cons 95 29), (95, Cell.integer 2),
    (93, Cell.cons 92 94), (94, Cell.cons 41 29), (91, Cell.cons 90 93), (93, Cell.cons 92 29),
    (92, Cell.integer 1), (91, Cell.cons 90 29), (90, Cell.integer 0), (83, Cell.cons 82 89),
    (89, Cell.cons 85 29), (86, Cell.cons 40 88), (88, Cell.cons 87 29), (87, Cell.integer 4),
    (85, Cell.cons 84 86), (86, Cell.cons 40 29), (85, Cell.cons 84 29), (84, Cell.integer 1),
    (81, Cell.cons 80 83), (83, Cell.cons 82 29), (82, Cell.integer 3), (79, Cell.cons 78 81),
    (81, Cell.cons 80 29), (80, Cell.integer 104), (75, Cell.cons 74 79), (79, Cell.cons 78 29),
    (78, Cell.cons 76 77), (77, Cell.integer 0), (76, Cell.integer 0), (73, Cell.cons 36 75),
    (75, Cell.cons 74 29), (74, Cell.integer 2), (72, Cell.cons 71 73), (73, Cell.cons 36 29),
    (72, Cell.cons 71 29), (71, Cell.integer 1), (68, Cell.cons 67 70), (70, Cell.cons 69 29),
    (69, Cell.integer 5), (66, Cell.cons 65 68), (68, Cell.cons 67 29), (67, Cell.integer 0),
    (66, Cell.cons 65 29), (65, Cell.integer 8)]⟩

/-- The cells of the code of `Sample.factorial k` as the compiler leaves
them, after the Integer cells of the reader that the code loads as constants.
The program is `DUM NIL LDF f CONS LDF body RAP` from cell 66 on; the function
`f` is the list at 72, `LDC 0 LD (0 . 0) EQ SEL then else RTN` with the arms
`LDC 1 JOIN` at 85 and
`NIL LDC 1 LD (0 . 0) SUB CONS LD (1 . 0) AP LD (0 . 0) MUL JOIN` at 91; the
body of the `letrec` is the list at 132, `NIL LDC k CONS LD (0 . 0) AP RTN`. -/
def Sample.factorialCode : List (Nat × Cell) :=
  [(36, Cell.integer 0), (40, Cell.integer 1), (41, Cell.integer 1), (65, Cell.integer 8), (66,
  Cell.cons 65 68), (67, Cell.integer 0), (68, Cell.cons 67 70), (69, Cell.integer 5), (70,
  Cell.cons 69 126), (71, Cell.integer 1), (72, Cell.cons 71 73), (73, Cell.cons 36 75), (74,
  Cell.integer 2), (75, Cell.cons 74 79), (76, Cell.integer 0), (77, Cell.integer 0), (78,
  Cell.cons 76 77), (79, Cell.cons 78 81), (80, Cell.integer 104), (81, Cell.cons 80 83), (82,
  Cell.integer 3), (83, Cell.cons 82 89), (84, Cell.integer 1), (85, Cell.cons 84 86), (86,
  Cell.cons 40 88), (87, Cell.integer 4), (88, Cell.cons 87 29), (89, Cell.cons 85 123), (90,
  Cell.integer 0), (91, Cell.cons 90 93), (92, Cell.integer 1), (93, Cell.cons 92 94), (94,
  Cell.cons 41 96), (95, Cell.integer 2), (96, Cell.cons 95 100), (97, Cell.integer 0), (98,
  Cell.integer 0), (99, Cell.cons 97 98), (100, Cell.cons 99 102), (101, Cell.integer 101), (102,
  Cell.cons 101 104), (103, Cell.integer 90), (104, Cell.cons 103 106), (105, Cell.integer 2),
  (106, Cell.cons 105 110), (107, Cell.integer 1), (108, Cell.integer 0), (109, Cell.cons 107
  108), (110, Cell.cons 109 112), (111, Cell.integer 6), (112, Cell.cons 111 114), (113,
  Cell.integer 2), (114, Cell.cons 113 118), (115, Cell.integer 0), (116, Cell.integer 0), (117,
  Cell.cons 115 116), (118, Cell.cons 117 120), (119, Cell.integer 102), (120, Cell.cons 119
  122), (121, Cell.integer 4), (122, Cell.cons 121 29), (123, Cell.cons 91 125), (124,
  Cell.integer 7), (125, Cell.cons 124 29), (126, Cell.cons 72 128), (127, Cell.integer 90),
  (128, Cell.cons 127 130), (129, Cell.integer 5), (130, Cell.cons 129 148), (131, Cell.integer
  0), (132, Cell.cons 131 134), (133, Cell.integer 1), (134, Cell.cons 133 135), (135, Cell.cons
  58 137), (136, Cell.integer 90), (137, Cell.cons 136 139), (138, Cell.integer 2), (139,
  Cell.cons 138 143), (140, Cell.integer 0), (141, Cell.integer 0), (142, Cell.cons 140 141),
  (143, Cell.cons 142 145), (144, Cell.integer 6), (145, Cell.cons 144 147), (146, Cell.integer
  7), (147, Cell.cons 146 29), (148, Cell.cons 132 150), (149, Cell.integer 9), (150, Cell.cons
  149 29)]

/-! ## A function defined by `defun` and called -/

/-- The tree the reader builds for `Sample.incProgram n`, whatever `n` is. -/
def Sample.incSrc : Src :=
  Src.cons 48 (Src.symbol 24 "progn") (Src.cons 47 (Src.cons 42 (Src.symbol 23 "defun")
  (Src.cons 41 (Src.symbol 32 "inc") (Src.cons 40 (Src.cons 34 (Src.symbol 33 "x") (Src.symbol
  29 "nil")) (Src.cons 39 (Src.cons 38 (Src.symbol 6 "+") (Src.cons 37 (Src.symbol 33 "x")
  (Src.cons 36 (Src.integer 35) (Src.symbol 29 "nil")))) (Src.symbol 29 "nil"))))) (Src.cons 46
  (Src.cons 45 (Src.symbol 32 "inc") (Src.cons 44 (Src.integer 43) (Src.symbol 29 "nil")))
  (Src.symbol 29 "nil")))

/-- The cells the reader allocates for `Sample.incProgram n`, above those of
`Runtime.new initialHeap []`: the cell 43 holds `n`. -/
def Sample.incCells (n : Int) : List (Nat × Cell) :=
  [(48, Cell.cons 24 47), (47, Cell.cons 42 46), (46, Cell.cons 45 29), (45, Cell.cons 32 44),
  (44, Cell.cons 43 29), (43, Cell.integer n), (42, Cell.cons 23 41), (41, Cell.cons 32 40),
  (40, Cell.cons 34 39), (39, Cell.cons 38 29), (38, Cell.cons 6 37), (37, Cell.cons 33 36),
  (36, Cell.cons 35 29), (35, Cell.integer 1), (34, Cell.cons 33 29), (33, Cell.symbol "x"),
  (32, Cell.symbol "inc")]
    ++ (Runtime.new initialHeap []).heap.cells

/-- The heap of the compiler after it has compiled `Sample.incSrc` on a heap
of the size the reader leaves, with no cell bound: the bindings the compiler
makes, the latest first. -/
def Sample.incHeap : Heap :=
  ⟨84,
    [(81, Cell.cons 80 83), (83, Cell.cons 82 29), (82, Cell.integer 6), (77, Cell.cons 76 81),
    (81, Cell.cons 80 29), (80, Cell.cons 78 79), (79, Cell.integer 0), (78, Cell.integer 0),
    (75, Cell.cons 74 77), (77, Cell.cons 76 29), (76, Cell.integer 2), (73, Cell.cons 43 75),
    (75, Cell.cons 74 29), (74, Cell.integer 90), (72, Cell.cons 71 73), (73, Cell.cons 43 29),
    (70, Cell.cons 69 72), (72, Cell.cons 71 29), (71, Cell.integer 1), (68, Cell.cons 67 70),
    (70, Cell.cons 69 29), (69, Cell.integer 0), (66, Cell.cons 65 68), (68, Cell.cons 67 29),
    (67, Cell.integer 11), (64, Cell.cons 52 66), (66, Cell.cons 65 29), (65, Cell.integer 10),
    (50, Cell.cons 49 64), (64, Cell.cons 52 29), (61, Cell.cons 60 63), (63, Cell.cons 62 29),
    (62, Cell.integer 7), (59, Cell.cons 58 61), (61, Cell.cons 60 29), (60, Cell.integer 100),
    (55, Cell.cons 54 59), (59, Cell.cons 58 29), (58, Cell.cons 56 57), (57, Cell.integer 0),
    (56, Cell.integer 0), (53, Cell.cons 35 55), (55, Cell.cons 54 29), (54, Cell.integer 2),
    (52, Cell.cons 51 53), (53, Cell.cons 35 29), (52, Cell.cons 51 29), (51, Cell.integer 1),
    (50, Cell.cons 49 29), (49, Cell.integer 5)]⟩

/-- The cells of the code of `Sample.incProgram n` as the compiler leaves
them, after the Integer cell of the reader that the code loads as a constant.
The program is `LDF inc DEFUN POP NIL LDC n CONS LD (0 . 0) AP` from cell 50
on; the function `inc` is the list at 52, `LDC 1 LD (0 . 0) ADD RTN`. -/
def Sample.incCode : List (Nat × Cell) :=
  [(35, Cell.integer 1), (49, Cell.integer 5), (50, Cell.cons 49 64), (51, Cell.integer 1),
  (52, Cell.cons 51 53), (53, Cell.cons 35 55), (54, Cell.integer 2), (55, Cell.cons 54 59),
  (56, Cell.integer 0), (57, Cell.integer 0), (58, Cell.cons 56 57), (59, Cell.cons 58 61),
  (60, Cell.integer 100), (61, Cell.cons 60 63), (62, Cell.integer 7), (63, Cell.cons 62 29),
  (64, Cell.cons 52 66), (65, Cell.integer 10), (66, Cell.cons 65 68), (67, Cell.integer 11),
  (68, Cell.cons 67 70), (69, Cell.integer 0), (70, Cell.cons 69 72), (71, Cell.integer 1),
  (72, Cell.cons 71 73), (73, Cell.cons 43 75), (74, Cell.integer 90), (75, Cell.cons 74 77),
  (76, Cell.integer 2), (77, Cell.cons 76 81), (78, Cell.integer 0), (79, Cell.integer 0), (80,
  Cell.cons 78 79), (81, Cell.cons 80 83), (82, Cell.integer 6), (83, Cell.cons 82 29)]

/-- The tree the reader builds for `Sample.incCall m` on the heap that the
run of `Sample.incProgram n` leaves, whose size is 103. -/
def Sample.incCallSrc : Src :=
  Src.cons 105 (Src.symbol 32 "inc") (Src.cons 104 (Src.integer 103) (Src.symbol 29 "nil"))

/-- The cells the reader allocates for `Sample.incCall m` above the cells
`cells`: the cell 103 holds `m`. -/
def Sample.incCallCells (m : Int) (cells : List (Nat × Cell)) : List (Nat × Cell) :=
  (105, Cell.cons 32 104) :: (104, Cell.cons 103 29) :: (103, Cell.integer m) :: cells

/-- The heap of the compiler after it has compiled `Sample.incCallSrc` with
`inc` in its global frame, on a heap of the size the reader leaves, with no
cell bound. -/
def Sample.incCallHeap : Heap :=
  ⟨121,
    [(118, Cell.cons 117 120), (120, Cell.cons 119 29), (119, Cell.integer 6), (114, Cell.cons
    113 118), (118, Cell.cons 117 29), (117, Cell.cons 115 116), (116, Cell.integer 0), (115,
    Cell.integer 0), (112, Cell.cons 111 114), (114, Cell.cons 113 29), (113, Cell.integer 2),
    (110, Cell.cons 103 112), (112, Cell.cons 111 29), (111, Cell.integer 90), (109, Cell.cons
    108 110), (110, Cell.cons 103 29), (107, Cell.cons 106 109), (109, Cell.cons 108 29), (108,
    Cell.integer 1), (107, Cell.cons 106 29), (106, Cell.integer 0)]⟩

/-- The cells of the code of `Sample.incCall m` as the compiler leaves them:
`NIL LDC m CONS LD (0 . 0) AP` from cell 107 on. -/
def Sample.incCallCode : List (Nat × Cell) :=
  [(106, Cell.integer 0), (107, Cell.cons 106 109), (108, Cell.integer 1), (109, Cell.cons 108
  110), (110, Cell.cons 103 112), (111, Cell.integer 90), (112, Cell.cons 111 114), (113,
  Cell.integer 2), (114, Cell.cons 113 118), (115, Cell.integer 0), (116, Cell.integer 0),
  (117, Cell.cons 115 116), (118, Cell.cons 117 120), (119, Cell.integer 6), (120, Cell.cons
  119 29)]

/-- The pointer whose bits are all set, which `freeList_ = freeList_->car`
stores when the word is the `0xff` filling of a fresh bank: it is the address
of no cell. -/
def GC.onesPointer : Nat := 2 ^ 64 - 1

/-- `GC::AllocateCell` with the outcome of its undefined test as a parameter.
For a word whose bits are all set, `reinterpret_cast<char*>(freeList_->car) + 1`
is an addition to a pointer to no object: a build that performs the addition
finds the sum null and steps to the next cell of the bank (`wraps = true`,
which is `GC.AllocateCell`); a build that takes no sum of a pointer and 1 for
null has the test fail and copies the word into `freeList_`
(`wraps = false`). -/
def GC.AllocateCellWith (wraps : Bool) : M GC Nat := do
  if (← (fun g => .ok g.freeList_ g : M GC (Option Nat))) = none then
    GC.Run
  fun g =>
    match g.freeList_ with
    | none => .fault .undefinedBehaviour
    | some a =>
      match g.cells[a]? with
      | none => .fault .undefinedBehaviour
      | some c =>
        let cells := g.cells.set a { c with status := .Used }
        if c.car.isOnes then
          if wraps then
            .ok a { g with cells := cells, freeList_ := some (a + 1),
                           allocations_ := g.allocations_ + 1 }
          else
            .ok a { g with cells := cells, freeList_ := some GC.onesPointer,
                           allocations_ := g.allocations_ + 1 }
        else
          match c.car with
          | .ptr p => .ok a { g with cells := cells, freeList_ := p,
                                     allocations_ := g.allocations_ + 1 }
          | _ => .fault .undefinedBehaviour

/-! # Properties -/

/-! ## Computations -/

section Monad
variable {σ α β : Type}

@[simp] theorem M.pure_apply (a : α) (s : σ) : (pure a : M σ α) s = .ok a s := rfl

@[simp] theorem M.bind_apply (m : M σ α) (f : α → M σ β) (s : σ) :
    (m >>= f) s = match m s with
      | .ok a s1 => f a s1
      | .thrown e s1 => .thrown e s1
      | .fault f => .fault f := rfl

@[simp] theorem raise_apply (e : Error) (s : σ) : (raise e : M σ α) s = .thrown e s := rfl

@[simp] theorem fail_apply (f : Fault) (s : σ) : (fail f : M σ α) s = .fault f := rfl

@[simp] theorem liftF_ok (a : α) (s : σ) : (liftF (.ok a) : M σ α) s = .ok a s := rfl

@[simp] theorem liftF_error (f : Fault) (s : σ) : (liftF (.error f) : M σ α) s = .fault f := rfl

/-- Two sequences agree when their continuations agree on every result of the
first part. -/
theorem M.bind_congr (m : M σ α) (f g : α → M σ β) (s : σ)
    (h : ∀ a s1, m s = .ok a s1 → f a s1 = g a s1) : (m >>= f) s = (m >>= g) s := by
  simp only [M.bind_apply]
  cases hm : m s with
  | ok a s1 => exact h a s1 hm
  | thrown e s1 => rfl
  | fault f => rfl

end Monad

/-! ## The heap -/

@[simp] theorem Heap.get?_alloc (h : Heap) (c : Cell) (p : Nat) :
    (h.alloc c).2.get? p = if p = h.size then some c else h.get? p := by
  simp [Heap.alloc, Heap.get?, Heap.lookup]

@[simp] theorem Heap.get?_set (h : Heap) (q : Nat) (c : Cell) (p : Nat) :
    (h.set q c).get? p = if p = q then some c else h.get? p := by
  simp [Heap.set, Heap.get?, Heap.lookup]

@[simp] theorem Heap.alloc_fst (h : Heap) (c : Cell) : (h.alloc c).1 = h.size := rfl

@[simp] theorem Heap.size_alloc (h : Heap) (c : Cell) : (h.alloc c).2.size = h.size + 1 := rfl

@[simp] theorem Heap.size_set (h : Heap) (q : Nat) (c : Cell) : (h.set q c).size = h.size := rfl

@[simp] theorem raise_bind {σ α β : Type} (e : Error) (f : α → M σ β) :
    (raise e >>= f) = raise e := rfl

@[simp] theorem fail_bind {σ α β : Type} (x : Fault) (f : α → M σ β) :
    (fail x >>= f) = fail x := rfl

/-! ## The recursion of the compiler

`Compiler.compile` is a fixed point of `Compiler.compileBody`: the bound on
the depth of the recursion is never reached. -/

theorem Src.depth_pos (code : Src) : 0 < code.depth := by
  cases code <;> simp [Src.depth]

theorem Compiler.Agree.of_car {f g : Src → CM Unit} {p : Nat} {a d : Src}
    (h : Compiler.Agree f g (.cons p a d)) : f a = g a :=
  h a (by simp [Src.depth]; omega)

theorem Compiler.Agree.of_cdr {f g : Src → CM Unit} {p : Nat} {a d : Src}
    (h : Compiler.Agree f g (.cons p a d)) : Compiler.Agree f g d :=
  fun sub hsub => h sub (by simp [Src.depth] at hsub ⊢; omega)

@[simp] theorem carSrc_cons (p : Nat) (a d : Src) : carSrc (.cons p a d) = pure a := rfl
@[simp] theorem cdrSrc_cons (p : Nat) (a d : Src) : cdrSrc (.cons p a d) = pure d := rfl
@[simp] theorem Src.car_cons (p : Nat) (a d : Src) : (Src.cons p a d).car = pure a := rfl
@[simp] theorem Src.cdr_cons (p : Nat) (a d : Src) : (Src.cons p a d).cdr = pure d := rfl

theorem Compiler.compileUnaryOperator_congr (f g : Src → CM Unit) (opcode : Int) (args : Src)
    (h : Compiler.Agree f g args) :
    Compiler.compileUnaryOperator f opcode args = Compiler.compileUnaryOperator g opcode args := by
  cases args with
  | cons p a d => simp only [Compiler.compileUnaryOperator, carSrc_cons, pure_bind, h.of_car]
  | _ => rfl

theorem Compiler.compileBinaryOperator_congr (f g : Src → CM Unit) (opcode : Int) (args : Src)
    (h : Compiler.Agree f g args) :
    Compiler.compileBinaryOperator f opcode args = Compiler.compileBinaryOperator g opcode args := by
  rcases args with _ | _ | ⟨p, a, d⟩ | _ <;> try rfl
  rcases d with _ | _ | ⟨q, b, r⟩ | _ <;> try rfl
  simp only [Compiler.compileBinaryOperator, SecdList.Expand2, Src.car_cons, Src.cdr_cons, pure_bind]
  split
  · rfl
  · simp only [pure_bind, h.of_car, h.of_cdr.of_car]

theorem Compiler.compileIf_congr (f g : Src → CM Unit) (args : Src)
    (h : Compiler.Agree f g args) :
    Compiler.compileIf f args = Compiler.compileIf g args := by
  rcases args with _ | _ | ⟨p, a, d⟩ | _ <;> try rfl
  simp only [Compiler.compileIf, carSrc_cons, cdrSrc_cons, pure_bind, h.of_car]
  rcases d with _ | _ | ⟨q, b, r⟩ | _ <;> try rfl
  simp only [carSrc_cons, cdrSrc_cons, pure_bind, h.of_cdr.of_car]
  rcases r with _ | _ | ⟨q2, c, r2⟩ | _ <;> try rfl
  simp only [carSrc_cons, cdrSrc_cons, pure_bind, h.of_cdr.of_cdr.of_car]

theorem Compiler.compileLambda2_congr (f g : Src → CM Unit) (argNames body : Src)
    (h : f body = g body) :
    Compiler.compileLambda2 f argNames body = Compiler.compileLambda2 g argNames body := by
  simp only [Compiler.compileLambda2, h]

theorem Compiler.compileLambda_congr (f g : Src → CM Unit) (args : Src)
    (h : Compiler.Agree f g args) :
    Compiler.compileLambda f args = Compiler.compileLambda g args := by
  rcases args with _ | _ | ⟨p, a, d⟩ | _ <;> try rfl
  rcases d with _ | _ | ⟨q, b, r⟩ | _ <;> try rfl
  simp only [Compiler.compileLambda, SecdList.Expand2, Src.car_cons, Src.cdr_cons, pure_bind]
  split
  · rfl
  · simp only [pure_bind, Compiler.compileLambda2_congr f g a b h.of_cdr.of_car]

theorem Compiler.compileCallArguments_congr (f g : Src → CM Unit) (args : Src)
    (h : Compiler.Agree f g args) :
    Compiler.compileCallArguments f args = Compiler.compileCallArguments g args := by
  induction args with
  | cons p a d _ ihd =>
    funext st
    simp only [Compiler.compileCallArguments, ihd h.of_cdr, h.of_car]
  | _ => rfl

theorem Compiler.compileFunctionArgs_congr (f g : Src → CM Unit) (args : Src)
    (h : Compiler.Agree f g args) :
    Compiler.compileFunctionArgs f args = Compiler.compileFunctionArgs g args := by
  simp only [Compiler.compileFunctionArgs, Compiler.compileCallArguments_congr f g args h]

theorem Compiler.compileApply_congr (f g : Src → CM Unit) (args : Src)
    (h : Compiler.Agree f g args) :
    Compiler.compileApply f args = Compiler.compileApply g args := by
  rcases args with _ | _ | ⟨p, a, d⟩ | _ <;> try rfl
  simp only [Compiler.compileApply, carSrc_cons, cdrSrc_cons, pure_bind, h.of_car,
    Compiler.compileFunctionArgs_congr f g d h.of_cdr]

theorem Compiler.compileLet_congr (f g : Src → CM Unit) (args : Src)
    (h : Compiler.Agree f g args) :
    Compiler.compileLet f args = Compiler.compileLet g args := by
  rcases args with _ | _ | ⟨p, a, d⟩ | _ <;> try rfl
  rcases d with _ | _ | ⟨q, b, r⟩ | _ <;> try rfl
  rcases r with _ | _ | ⟨q2, c, r2⟩ | _ <;> try rfl
  simp only [Compiler.compileLet, SecdList.Expand3, Src.car_cons, Src.cdr_cons, pure_bind]
  split
  · rfl
  · simp only [pure_bind, Compiler.compileLambda2_congr f g a c h.of_cdr.of_cdr.of_car,
      Compiler.compileFunctionArgs_congr f g b
        (fun sub hsub => h sub (by simp [Src.depth] at hsub ⊢; omega))]

theorem Compiler.compileLetrec_congr (f g : Src → CM Unit) (args : Src)
    (h : Compiler.Agree f g args) :
    Compiler.compileLetrec f args = Compiler.compileLetrec g args := by
  rcases args with _ | _ | ⟨p, a, d⟩ | _ <;> try rfl
  rcases d with _ | _ | ⟨q, b, r⟩ | _ <;> try rfl
  rcases r with _ | _ | ⟨q2, c, r2⟩ | _ <;> try rfl
  simp only [Compiler.compileLetrec, SecdList.Expand3, Src.car_cons, Src.cdr_cons, pure_bind]
  split
  · rfl
  · simp only [pure_bind, Compiler.compileLambda2_congr f g a c h.of_cdr.of_cdr.of_car,
      Compiler.compileFunctionArgs_congr f g b
        (fun sub hsub => h sub (by simp [Src.depth] at hsub ⊢; omega))]

theorem Compiler.compilePrognLoop_congr (f g : Src → CM Unit) (args : Src)
    (h : Compiler.Agree f g args) :
    Compiler.compilePrognLoop f args = Compiler.compilePrognLoop g args := by
  induction args with
  | cons p a d _ ihd =>
    funext st
    simp only [Compiler.compilePrognLoop, ihd h.of_cdr, h.of_car]
  | _ => rfl

theorem Compiler.compileProgn_congr (f g : Src → CM Unit) (args : Src)
    (h : Compiler.Agree f g args) :
    Compiler.compileProgn f args = Compiler.compileProgn g args := by
  simp only [Compiler.compileProgn, Compiler.compilePrognLoop_congr f g args h]

theorem Compiler.compileDefun_congr (f g : Src → CM Unit) (args : Src)
    (h : Compiler.Agree f g args) :
    Compiler.compileDefun f args = Compiler.compileDefun g args := by
  rcases args with _ | _ | ⟨p, a, d⟩ | _ <;> try rfl
  simp only [Compiler.compileDefun, carSrc_cons, cdrSrc_cons, pure_bind,
    Compiler.compileLambda_congr f g d h.of_cdr]

theorem Compiler.compileCall_congr (f g : Src → CM Unit) (code : Src)
    (h : Compiler.Agree f g code) :
    Compiler.compileCall f code = Compiler.compileCall g code := by
  cases code with
  | cons p a d =>
    simp only [Compiler.compileCall, Src.car_cons, Src.cdr_cons, pure_bind, h.of_car,
      Compiler.compileUnaryOperator_congr f g _ d h.of_cdr,
      Compiler.compileBinaryOperator_congr f g _ d h.of_cdr,
      Compiler.compileIf_congr f g d h.of_cdr, Compiler.compileLambda_congr f g d h.of_cdr,
      Compiler.compileApply_congr f g d h.of_cdr, Compiler.compileDefun_congr f g d h.of_cdr,
      Compiler.compileLet_congr f g d h.of_cdr, Compiler.compileLetrec_congr f g d h.of_cdr,
      Compiler.compileProgn_congr f g d h.of_cdr, Compiler.compileFunctionArgs_congr f g d h.of_cdr]
  | _ => simp only [Compiler.compileCall, Src.car, fail_bind]

theorem Compiler.compileBody_congr (f g : Src → CM Unit) (code : Src)
    (h : Compiler.Agree f g code) :
    Compiler.compileBody f code = Compiler.compileBody g code := by
  cases code with
  | cons p a d =>
    simp only [Compiler.compileBody, Compiler.compileCall_congr f g _ h]
  | _ => rfl

/-- More fuel than the depth of the expression changes nothing. -/
theorem Compiler.compileFuel_depth (n : Nat) :
    ∀ code : Src, code.depth ≤ n → Compiler.compileFuel n code = Compiler.compile code := by
  induction n using Nat.strong_induction_on with
  | _ n ih =>
    intro code hn
    have hpos := code.depth_pos
    obtain ⟨m, rfl⟩ : ∃ m, n = m + 1 := ⟨n - 1, by omega⟩
    obtain ⟨k, hk⟩ : ∃ k, code.depth = k + 1 := ⟨code.depth - 1, by omega⟩
    unfold Compiler.compile
    rw [hk]
    show Compiler.compileBody (Compiler.compileFuel m) code
      = Compiler.compileBody (Compiler.compileFuel k) code
    apply Compiler.compileBody_congr
    intro sub hsub
    rw [ih m (by omega) sub (by omega), ih k (by omega) sub (by omega)]

/-- The defining equation of `Compiler::compile`. -/
theorem Compiler.compile_eq (code : Src) :
    Compiler.compile code = Compiler.compileBody Compiler.compile code := by
  have hpos := code.depth_pos
  obtain ⟨k, hk⟩ : ∃ k, code.depth = k + 1 := ⟨code.depth - 1, by omega⟩
  conv_lhs => unfold Compiler.compile
  rw [hk]
  show Compiler.compileBody (Compiler.compileFuel k) code = _
  apply Compiler.compileBody_congr
  intro sub hsub
  exact Compiler.compileFuel_depth k sub (by omega)

/-! ## Environment lookup -/

theorem EnvironmentMap.search_none (name : String) (envs : List EnvironmentMap) (depth : Int) :
    EnvironmentMap.search name envs depth = none ↔
      ∀ frame ∈ envs, EnvironmentMap.find frame name = none := by
  induction envs generalizing depth with
  | nil => simp [EnvironmentMap.search]
  | cons e parents ih =>
    simp only [EnvironmentMap.search, List.mem_cons, forall_eq_or_imp]
    cases he : EnvironmentMap.find e name with
    | none => simpa using ih (depth + 1)
    | some i => simp

theorem EnvironmentMap.search_first (name : String) (envs : List EnvironmentMap) (depth : Int)
    (k : Nat) (frame : EnvironmentMap) (off : Int)
    (hk : envs[k]? = some frame) (hoff : EnvironmentMap.find frame name = some off)
    (hfirst : ∀ (j : Nat) (other : EnvironmentMap), j < k → envs[j]? = some other →
      EnvironmentMap.find other name = none) :
    EnvironmentMap.search name envs depth = some (depth + k, off) := by
  induction envs generalizing depth k with
  | nil => simp at hk
  | cons e parents ih =>
    cases k with
    | zero =>
      simp only [List.getElem?_cons_zero, Option.some.injEq] at hk
      subst hk
      simp [EnvironmentMap.search, hoff]
    | succ k =>
      have he : EnvironmentMap.find e name = none := hfirst 0 e (by omega) (by simp)
      simp only [List.getElem?_cons_succ] at hk
      have := ih (depth + 1) k hk
        (fun j other hj hother => hfirst (j + 1) other (by omega) (by simpa using hother))
      simp only [EnvironmentMap.search, he, this]
      congr 2
      push_cast
      ring

/-- C3: `EnvironmentMap::indexOf` returns the pair `(depth . offset)` of the
first frame of the chain, counted outward from the current frame at depth 0,
that binds the name, with the offset stored for the name in that frame; it
throws `Unknown variable` exactly when no frame of the chain binds the name. -/
theorem indexOf_first_binding (st : Compiler) (p : Nat) (name : String) :
    (∀ (k : Nat) (frame : EnvironmentMap) (off : Int),
        st.envMap_[k]? = some frame → EnvironmentMap.find frame name = some off →
        (∀ (j : Nat) (other : EnvironmentMap), j < k → st.envMap_[j]? = some other →
          EnvironmentMap.find other name = none) →
        ∃ (index d o : Nat) (st1 : Compiler),
          EnvironmentMap.indexOf (.symbol p name) st = .ok index st1 ∧
          st1.heap.get? index = some (.cons d o) ∧
          st1.heap.get? d = some (.integer k) ∧
          st1.heap.get? o = some (.integer off) ∧
          st1.envMap_ = st.envMap_ ∧ st1.code_ = st.code_) ∧
    ((∃ st1, EnvironmentMap.indexOf (.symbol p name) st
        = .thrown (.runtimeError "Unknown variable " (some p)) st1) ↔
      ∀ frame ∈ st.envMap_, EnvironmentMap.find frame name = none) := by
  constructor
  · intro k frame off hk hoff hfirst
    have hs := EnvironmentMap.search_first name st.envMap_ 0 k frame off hk hoff hfirst
    refine ⟨st.heap.size + 2, st.heap.size, st.heap.size + 1, ?_⟩
    simp [EnvironmentMap.indexOf, hs, Compiler.newInteger, Compiler.newCons]
    omega
  · rw [← EnvironmentMap.search_none name st.envMap_ 0]
    cases hs : EnvironmentMap.search name st.envMap_ 0 with
    | none => simp [EnvironmentMap.indexOf, hs]
    | some r =>
      obtain ⟨depth, i⟩ := r
      simp [EnvironmentMap.indexOf, hs, Compiler.newInteger, Compiler.newCons]

/-- C3 at the chain `((x . 0)) -> ((f . 0) (x . 1))`: `x` is found in the current
frame, `f` one frame out, and `y` is unknown. -/
theorem indexOf_first_binding_example :
    (∃ (index d o : Nat) (st1 : Compiler),
      EnvironmentMap.indexOf (.symbol 40 "f") ⟨initialHeap, [], [[("x", 0)], [("f", 0), ("x", 1)]]⟩
        = .ok index st1 ∧
      st1.heap.get? index = some (.cons d o) ∧
      st1.heap.get? d = some (.integer 1) ∧ st1.heap.get? o = some (.integer 0)) ∧
    (∃ st1, EnvironmentMap.indexOf (.symbol 41 "y")
        ⟨initialHeap, [], [[("x", 0)], [("f", 0), ("x", 1)]]⟩
      = .thrown (.runtimeError "Unknown variable " (some 41)) st1) := by
  constructor
  · obtain ⟨index, d, o, st1, h1, h2, h3, h4, _⟩ :=
      (indexOf_first_binding ⟨initialHeap, [], [[("x", 0)], [("f", 0), ("x", 1)]]⟩ 40 "f").1
        1 [("f", 0), ("x", 1)] 0 (by decide) (by decide)
        (by
          intro j other hj hother
          have hj0 : j = 0 := by omega
          subst hj0
          simp only [List.getElem?_cons_zero, Option.some.injEq] at hother
          subst hother
          decide)
    exact ⟨index, d, o, st1, h1, h2, h3, h4⟩
  · exact (indexOf_first_binding ⟨initialHeap, [], [[("x", 0)], [("f", 0), ("x", 1)]]⟩ 41 "y").2.2
      (by decide)

/-! ## Single instructions -/

theorem Heap.WF.lt {h : Heap} (hwf : h.WF) {p : Nat} {c : Cell} (hp : h.get? p = some c) :
    p < h.size :=
  hwf p (by simp [hp])

theorem Heap.WF.get?_alloc_of_get? {h : Heap} (hwf : h.WF) {p : Nat} {c : Cell} (d : Cell)
    (hp : h.get? p = some c) : (h.alloc d).2.get? p = some c := by
  have := hwf.lt hp
  rw [Heap.get?_alloc, if_neg (by omega), hp]

theorem Heap.WF.alloc {h : Heap} (hwf : h.WF) (c : Cell) : (h.alloc c).2.WF := by
  intro p hp
  rw [Heap.get?_alloc] at hp
  rw [Heap.size_alloc]
  by_cases hps : p = h.size
  · omega
  · rw [if_neg hps] at hp
    have := hwf p hp
    omega

theorem Heap.WF.set {h : Heap} (hwf : h.WF) {q : Nat} (hq : q < h.size) (c : Cell) :
    (h.set q c).WF := by
  intro p hp
  rw [Heap.get?_set] at hp
  rw [Heap.size_set]
  by_cases hpq : p = q
  · omega
  · rw [if_neg hpq] at hp
    exact hwf p hp

/-- Fetching: the loop pops the opcode from `C` and dispatches on it. -/
theorem Runtime.step_fetch (rt : Runtime) (op rest : Nat) (k : Int)
    (hc : rt.heap.get? rt.c_ = some (.cons op rest))
    (hop : rt.heap.get? op = some (.integer k)) :
    Runtime.step rt = Runtime.execute k { rt with c_ := rest } := by
  simp [Runtime.step, Runtime.popC, valueInt, Heap.valueInt, hc, hop]

theorem Runtime.execute_NIL (rt : Runtime) :
    Runtime.execute Instruction.NIL rt
      = .ok () { rt with heap := (rt.heap.alloc (.cons Nil rt.s_)).2, s_ := rt.heap.size } := by
  simp [Runtime.execute, Runtime.pushS]

theorem Runtime.execute_LDC (rt : Runtime) (x rest : Nat)
    (hc : rt.heap.get? rt.c_ = some (.cons x rest)) :
    Runtime.execute Instruction.LDC rt
      = .ok () { rt with heap := (rt.heap.alloc (.cons x rt.s_)).2, s_ := rt.heap.size,
                         c_ := rest } := by
  simp [Runtime.execute, Instruction.LDC, Instruction.NIL, Runtime.popC, hc, Runtime.pushS]

theorem Runtime.execute_POP (rt : Runtime) (v s0 : Nat)
    (hs : rt.heap.get? rt.s_ = some (.cons v s0)) :
    Runtime.execute Instruction.POP rt = .ok () { rt with s_ := s0 } := by
  simp [Runtime.execute, Instruction.POP, Instruction.NIL, Instruction.LDC, Instruction.LD,
    Instruction.SEL, Instruction.JOIN, Instruction.LDF, Instruction.AP, Instruction.RTN,
    Instruction.DUM, Instruction.RAP, Instruction.DEFUN, Runtime.popS, hs]

theorem Runtime.execute_CONS (rt : Runtime) (lhs rhs s1 s0 : Nat)
    (hs : rt.heap.get? rt.s_ = some (.cons lhs s1))
    (hs1 : rt.heap.get? s1 = some (.cons rhs s0)) :
    Runtime.execute Instruction.CONS rt
      = .ok () { rt with
          heap := ((rt.heap.alloc (.cons lhs rhs)).2.alloc (.cons rt.heap.size s0)).2,
          s_ := rt.heap.size + 1 } := by
  simp [Runtime.execute, Instruction.CONS, Instruction.POP, Instruction.NIL, Instruction.LDC,
    Instruction.LD, Instruction.SEL, Instruction.JOIN, Instruction.LDF, Instruction.AP,
    Instruction.RTN, Instruction.DUM, Instruction.RAP, Instruction.DEFUN, Runtime.popS, hs, hs1,
    Runtime.newCons, Runtime.pushS]

theorem Runtime.execute_CAR (rt : Runtime) (v s0 a d : Nat)
    (hs : rt.heap.get? rt.s_ = some (.cons v s0))
    (hv : rt.heap.get? v = some (.cons a d)) :
    Runtime.execute Instruction.CAR rt
      = .ok () { rt with heap := (rt.heap.alloc (.cons a s0)).2, s_ := rt.heap.size } := by
  simp [Runtime.execute, Instruction.CAR, Instruction.CONS, Instruction.POP, Instruction.NIL,
    Instruction.LDC, Instruction.LD, Instruction.SEL, Instruction.JOIN, Instruction.LDF,
    Instruction.AP, Instruction.RTN, Instruction.DUM, Instruction.RAP, Instruction.DEFUN,
    Runtime.popS, hs, car, hv, Runtime.pushS]

theorem Runtime.execute_CDR (rt : Runtime) (v s0 a d : Nat)
    (hs : rt.heap.get? rt.s_ = some (.cons v s0))
    (hv : rt.heap.get? v = some (.cons a d)) :
    Runtime.execute Instruction.CDR rt
      = .ok () { rt with heap := (rt.heap.alloc (.cons d s0)).2, s_ := rt.heap.size } := by
  simp [Runtime.execute, Instruction.CDR, Instruction.CAR, Instruction.CONS, Instruction.POP,
    Instruction.NIL, Instruction.LDC, Instruction.LD, Instruction.SEL, Instruction.JOIN,
    Instruction.LDF, Instruction.AP, Instruction.RTN, Instruction.DUM, Instruction.RAP,
    Instruction.DEFUN, Runtime.popS, hs, cdr, hv, Runtime.pushS]

theorem Runtime.execute_SEL (rt : Runtime) (cond s0 trueCase c1 falseCase rest : Nat)
    (hwf : rt.heap.WF) (hcond : (rt.heap.get? cond).isSome)
    (hs : rt.heap.get? rt.s_ = some (.cons cond s0))
    (hc : rt.heap.get? rt.c_ = some (.cons trueCase c1))
    (hc1 : rt.heap.get? c1 = some (.cons falseCase rest))
    (ht : Stack.valid rt.heap trueCase = true) (hf : Stack.valid rt.heap falseCase = true) :
    Runtime.execute Instruction.SEL rt
      = .ok () { rt with heap := (rt.heap.alloc (.cons rest rt.d_)).2, s_ := s0,
                         c_ := if toBoolean rt.heap cond then trueCase else falseCase,
                         d_ := rt.heap.size } := by
  have hne : cond ≠ rt.heap.size := by
    have := hwf cond hcond
    omega
  have hb : toBoolean (rt.heap.alloc (.cons rest rt.d_)).2 cond = toBoolean rt.heap cond := by
    simp [toBoolean, hne]
  have hv : ∀ v, Stack.valid rt.heap v = true →
      Stack.valid (rt.heap.alloc (.cons rest rt.d_)).2 v = true := by
    intro v hv
    simp only [Stack.valid, Heap.isCons, Bool.or_eq_true, decide_eq_true_eq] at hv ⊢
    rcases hv with hv | hv
    · exact Or.inl hv
    · right
      cases hg : rt.heap.get? v with
      | none => simp [hg] at hv
      | some c => rw [hwf.get?_alloc_of_get? _ hg]; rw [hg] at hv; exact hv
  simp only [Runtime.execute, Instruction.SEL, Instruction.NIL, Instruction.LDC, Instruction.LD]
  simp [Runtime.popS, hs, Runtime.popC, hc, hc1, Runtime.pushD, getHeap, hb]
  by_cases hbool : toBoolean rt.heap cond = true
  · simp [hbool, Runtime.setC, hv trueCase ht]
  · simp [hbool, Runtime.setC, hv falseCase hf]

theorem Runtime.execute_JOIN (rt : Runtime) (c d0 : Nat)
    (hd : rt.heap.get? rt.d_ = some (.cons c d0))
    (hcv : Stack.valid rt.heap c = true) :
    Runtime.execute Instruction.JOIN rt = .ok () { rt with c_ := c, d_ := d0 } := by
  simp [Runtime.execute, Instruction.JOIN, Instruction.SEL, Instruction.NIL, Instruction.LDC,
    Instruction.LD, Runtime.popD, hd, Runtime.setC, hcv]

/-! ## The code buffer -/

theorem Heap.Valid.alloc_valid {h : Heap} (hv : h.Valid) (c : Cell) : (h.alloc c).2.Valid := by
  obtain ⟨hwf, name, hnil⟩ := hv
  exact ⟨hwf.alloc c, name, hwf.get?_alloc_of_get? c hnil⟩

theorem Heap.Valid.nil_not_cons {h : Heap} (hv : h.Valid) (a d : Nat) :
    h.get? Nil ≠ some (.cons a d) := by
  obtain ⟨_, name, hnil⟩ := hv
  simp [hnil]

theorem Heap.Valid.nil_lt {h : Heap} (hv : h.Valid) : Nil < h.size := by
  obtain ⟨hwf, name, hnil⟩ := hv
  exact hwf.lt hnil

theorem Heap.Valid.set_cons {h : Heap} (hv : h.Valid) {q a d : Nat}
    (hq : h.get? q = some (.cons a d)) (c : Cell) : (h.set q c).Valid := by
  obtain ⟨hwf, name, hnil⟩ := hv
  refine ⟨hwf.set (hwf.lt hq) c, name, ?_⟩
  rw [Heap.get?_set, if_neg, hnil]
  rintro rfl
  simp [hnil] at hq

theorem isChain_cons_cons (h : Heap) (first last v w : Nat) (vs : List Nat) :
    IsChain h first (v :: w :: vs) last ↔
      ∃ d, h.get? first = some (.cons v d) ∧ IsChain h d (w :: vs) last := by
  simp only [IsChain]
  constructor
  · intro hc
    split at hc
    · next a d hget =>
      obtain ⟨rfl, hrest⟩ := hc
      exact ⟨d, hget, hrest⟩
    · exact hc.elim
  · rintro ⟨d, hget, hrest⟩
    simp only [hget]
    exact ⟨trivial, hrest⟩

/-- The first cell of a non-empty chain is a Cons cell. -/
theorem IsChain.first_cell {h : Heap} {first last v : Nat} {vs : List Nat}
    (hc : IsChain h first (v :: vs) last) : ∃ d, h.get? first = some (.cons v d) := by
  cases vs with
  | nil => exact ⟨Nil, hc.2⟩
  | cons w ws =>
    obtain ⟨d, hget, _⟩ := (isChain_cons_cons h first last v w ws).1 hc
    exact ⟨d, hget⟩

/-- The last cell of a non-empty chain holds the last value and ends the list. -/
theorem IsChain.last_cell {h : Heap} :
    ∀ {first last : Nat} {items : List Nat} (x : Nat), IsChain h first (items ++ [x]) last →
      h.get? last = some (.cons x Nil)
  | first, last, [], x, hc => by
    obtain ⟨rfl, hget⟩ := hc
    exact hget
  | first, last, [v], x, hc => by
    rw [List.singleton_append, isChain_cons_cons] at hc
    obtain ⟨d, _, rfl, hget⟩ := hc
    exact hget
  | first, last, v :: w :: vs, x, hc => by
    rw [List.cons_append, List.cons_append, isChain_cons_cons] at hc
    obtain ⟨d, _, hrest⟩ := hc
    exact @IsChain.last_cell h d last (w :: vs) x hrest

/-- Appending behind the last cell leaves the cells before it alone, so the
chain grows by one value at its end. -/
theorem IsChain.snoc {h : Heap} (hv : h.Valid) (x : Nat) :
    ∀ (items : List Nat) (first last v : Nat), IsChain h first (items ++ [v]) last →
      IsChain (((h.alloc (.cons x Nil)).2).set last (.cons v h.size)) first
        ((items ++ [v]) ++ [x]) h.size
  | [], first, last, v, hc => by
    obtain ⟨rfl, hget⟩ := hc
    have hlt := hv.1.lt hget
    rw [List.nil_append, List.singleton_append, isChain_cons_cons]
    refine ⟨h.size, by simp, ?_⟩
    refine ⟨rfl, ?_⟩
    rw [Heap.get?_set, if_neg (by omega), Heap.get?_alloc, if_pos rfl]
  | u :: rest, first, last, v, hc => by
    obtain ⟨w, ws, hw⟩ : ∃ w ws, rest ++ [v] = w :: ws := by
      cases rest with
      | nil => exact ⟨v, [], rfl⟩
      | cons r rs => exact ⟨r, rs ++ [v], rfl⟩
    rw [List.cons_append, hw, isChain_cons_cons] at hc
    obtain ⟨d, hget, hrest⟩ := hc
    have hrest' := hrest
    rw [← hw] at hrest'
    have ih := IsChain.snoc hv x rest d last v hrest'
    have hlt := hv.1.lt hget
    obtain ⟨d2, hd⟩ := hrest.first_cell
    have hne : first ≠ last := by
      rintro rfl
      obtain ⟨ys, y, hy⟩ : ∃ ys y, u :: (rest ++ [v]) = ys ++ [y] :=
        ⟨u :: rest, v, rfl⟩
      have hfull : IsChain h first (u :: (rest ++ [v])) first := by
        rw [hw, isChain_cons_cons]
        exact ⟨d, hget, hrest⟩
      have hl : h.get? first = some (.cons v Nil) :=
        @IsChain.last_cell _ _ _ (u :: rest) v hfull
      rw [hget] at hl
      simp only [Option.some.injEq, Cell.cons.injEq] at hl
      obtain ⟨_, rfl⟩ := hl
      exact hv.nil_not_cons w d2 hd
    show IsChain _ first (u :: ((rest ++ [v]) ++ [x])) h.size
    obtain ⟨w2, ws2, hw2⟩ : ∃ w2 ws2, (rest ++ [v]) ++ [x] = w2 :: ws2 := by
      rw [hw]
      exact ⟨w, ws ++ [x], rfl⟩
    rw [hw2, isChain_cons_cons]
    refine ⟨d, ?_, ?_⟩
    · rw [Heap.get?_set, if_neg hne, Heap.get?_alloc, if_neg (by omega), hget]
    · rw [← hw2]
      exact ih

/-- A chain stays a chain when every bound cell keeps its contents. -/
theorem IsChain.mono {h h1 : Heap} (hext : ∀ q c, h.get? q = some c → h1.get? q = some c) :
    ∀ (items : List Nat) (first last : Nat), IsChain h first items last →
      IsChain h1 first items last
  | [], _, _, hc => hc
  | [_], _, _, hc => ⟨hc.1, hext _ _ hc.2⟩
  | v :: w :: vs, first, last, hc => by
    rw [isChain_cons_cons] at hc ⊢
    obtain ⟨d, hget, hrest⟩ := hc
    exact ⟨d, hext _ _ hget, IsChain.mono hext (w :: vs) d last hrest⟩

/-- `Code::add` appends the value to the current buffer: the buffer then holds
the old values followed by the new one, and no other cell that existed before
changes. -/
theorem Code.add_spec (st : Compiler) (value : Nat) (items : List Nat) (parents : List SecdList)
    (hb : st.Buffer items parents) :
    ∃ st1, Code.add value st = .ok () st1 ∧ st1.Buffer (items ++ [value]) parents ∧
      st1.envMap_ = st.envMap_ ∧ st1.heap.size = st.heap.size + 1 ∧
      st1.heap.get? Nil = st.heap.get? Nil ∧
      (∀ q, q < st.heap.size → q ≠ st.lastCell → st1.heap.get? q = st.heap.get? q) ∧
      st1.lastCell = st.heap.size := by
  obtain ⟨c, hcode, hchain, hv⟩ := hb
  rcases List.eq_nil_or_concat items with rfl | ⟨init, v, rfl⟩
  · obtain ⟨hf, hl⟩ := hchain
    refine ⟨{ st with heap := (st.heap.alloc (.cons value Nil)).2,
                      code_ := ⟨st.heap.size, st.heap.size⟩ :: parents }, ?_, ?_, rfl, rfl, ?_, ?_,
      rfl⟩
    · simp [Code.add, hcode, SecdList.append, SecdList.prepend, hl, hf]
    · exact ⟨_, rfl, ⟨rfl, by simp⟩, hv.alloc_valid _⟩
    · have := hv.nil_lt
      simp only [Heap.get?_alloc]
      rw [if_neg (by omega)]
    · intro q hq _
      simp only [Heap.get?_alloc]
      rw [if_neg (by omega)]
  · rw [List.concat_eq_append] at hchain
    have hlast := IsChain.last_cell v hchain
    have hne : c.last_ ≠ Nil := by
      rintro h
      rw [h] at hlast
      exact hv.nil_not_cons _ _ hlast
    have hlt := hv.1.lt hlast
    have hall := hv.1.get?_alloc_of_get? (.cons value Nil) hlast
    refine ⟨{ st with heap := ((st.heap.alloc (.cons value Nil)).2).set c.last_
                        (.cons v st.heap.size),
                      code_ := ⟨c.first_, st.heap.size⟩ :: parents }, ?_, ?_, rfl, rfl, ?_, ?_,
      rfl⟩
    · simp [Code.add, hcode, SecdList.append, hne, Heap.setCdr, hall]
    · rw [List.concat_eq_append]
      exact ⟨_, rfl, IsChain.snoc hv value init c.first_ c.last_ v hchain,
        (hv.alloc_valid _).set_cons hall _⟩
    · have := hv.nil_lt
      rw [Heap.get?_set, if_neg (Ne.symm hne), Heap.get?_alloc, if_neg (by omega)]
    · intro q hq hql
      have hql' : q ≠ c.last_ := by simpa [Compiler.lastCell, hcode] using hql
      rw [Heap.get?_set, if_neg hql', Heap.get?_alloc, if_neg (by omega)]

/-- `Code::add(int)` appends a fresh Integer cell holding the opcode. -/
theorem Code.addOpcode_spec (st : Compiler) (opcode : Int) (items : List Nat)
    (parents : List SecdList) (hb : st.Buffer items parents) :
    ∃ st1, Code.addOpcode opcode st = .ok () st1 ∧
      st1.Buffer (items ++ [st.heap.size]) parents ∧
      st1.heap.get? st.heap.size = some (.integer opcode) ∧
      st1.envMap_ = st.envMap_ ∧ st1.heap.size = st.heap.size + 2 ∧
      st1.heap.get? Nil = st.heap.get? Nil ∧
      (∀ q, q < st.heap.size → q ≠ st.lastCell → st1.heap.get? q = st.heap.get? q) ∧
      st1.lastCell = st.heap.size + 1 := by
  obtain ⟨c, hcode, hchain, hv⟩ := hb
  have hb1 : Compiler.Buffer { st with heap := (st.heap.alloc (.integer opcode)).2 }
      items parents :=
    ⟨c, hcode, IsChain.mono (fun q c hq => hv.1.get?_alloc_of_get? _ hq) _ _ _ hchain,
      hv.alloc_valid _⟩
  obtain ⟨st1, hadd, hbuf, henv, hsize, hnil, hframe, hlc⟩ :=
    Code.add_spec _ st.heap.size items parents hb1
  have hlastlt : items ≠ [] → st.lastCell < st.heap.size := by
    intro hne
    obtain ⟨init, v, rfl⟩ : ∃ init v, items = init ++ [v] := by
      rcases List.eq_nil_or_concat items with h | ⟨init, v, h⟩
      · exact (hne h).elim
      · exact ⟨init, v, by rw [h, List.concat_eq_append]⟩
    have := hv.1.lt (IsChain.last_cell v hchain)
    simpa [Compiler.lastCell, hcode] using this
  have hlast_ne : st.heap.size ≠ st.lastCell := by
    by_cases hne : items = []
    · subst hne
      have := hv.nil_lt
      have hl : st.lastCell = Nil := by simpa [Compiler.lastCell, hcode] using hchain.2
      omega
    · have := hlastlt hne
      omega
  have hnillt := hv.nil_lt
  refine ⟨st1, ?_, hbuf, ?_, henv, ?_, ?_, ?_, by simpa using hlc⟩
  · simpa [Code.addOpcode, Compiler.newInteger] using hadd
  · rw [hframe st.heap.size (by simp) (by simpa [Compiler.lastCell, hcode] using hlast_ne)]
    simp
  · simpa using hsize
  · rw [hnil]
    simp only [Heap.get?_alloc]
    rw [if_neg (by omega)]
  · intro q hq hql
    rw [hframe q (by simp; omega) (by simpa [Compiler.lastCell, hcode] using hql)]
    simp only [Heap.get?_alloc]
    rw [if_neg (by omega)]

theorem Heap.WF.of_wfCheck {h : Heap} (hc : h.wfCheck = true) : h.WF := by
  intro p hp
  unfold Heap.wfCheck at hc
  rw [List.all_eq_true] at hc
  unfold Heap.get? at hp
  generalize h.cells = cells at hc hp
  induction cells with
  | nil => simp [Heap.lookup] at hp
  | cons b rest ih =>
    obtain ⟨q, c⟩ := b
    simp only [Heap.lookup] at hp
    by_cases hpq : p = q
    · subst hpq
      simpa using hc (p, c) (by simp)
    · rw [if_neg hpq] at hp
      exact ih (fun x hx => hc x (by simp [hx])) hp

theorem initialHeap_valid : initialHeap.Valid :=
  ⟨Heap.WF.of_wfCheck (by decide), "nil", by decide⟩

/-! ## What the compiler emits for each form -/

theorem Compiler.compile_cons (p : Nat) (fname args : Src) :
    Compiler.compile (.cons p fname args)
      = Compiler.compileCall Compiler.compile (.cons p fname args) := by
  rw [Compiler.compile_eq]
  rfl

theorem Compiler.compile_integer (q : Nat) :
    Compiler.compile (.integer q) = Compiler.compileInteger (.integer q) := by
  rw [Compiler.compile_eq]
  rfl

theorem Compiler.compileCall_quote (f : Src → CM Unit) (p : Nat) (name : String) (args : Src) :
    Compiler.compileCall f (.cons p (.symbol Symbol.Quote name) args)
      = Compiler.compileQuote args := by
  simp [Compiler.compileCall, Src.isSymbol, Src.ptr, Symbol.Quote, Symbol.Cons, Symbol.Car,
    Symbol.Cdr, Symbol.Consp, Symbol.Add, Symbol.Sub, Symbol.Mul, Symbol.Div, Symbol.Eq,
    Symbol.Lt, Symbol.Gt, Symbol.Print, Symbol.Read, Symbol.If, Symbol.Lambda]

theorem Compiler.compileCall_let (f : Src → CM Unit) (p : Nat) (name : String) (args : Src) :
    Compiler.compileCall f (.cons p (.symbol Symbol.Let name) args)
      = Compiler.compileLet f args := by
  simp [Compiler.compileCall, Src.isSymbol, Src.ptr, Symbol.Quote, Symbol.Cons, Symbol.Car,
    Symbol.Cdr, Symbol.Consp, Symbol.Add, Symbol.Sub, Symbol.Mul, Symbol.Div, Symbol.Eq,
    Symbol.Lt, Symbol.Gt, Symbol.Print, Symbol.Read, Symbol.If, Symbol.Lambda, Symbol.Apply,
    Symbol.Defun, Symbol.Let]

theorem Compiler.compileCall_lambda (f : Src → CM Unit) (p : Nat) (name : String) (args : Src) :
    Compiler.compileCall f (.cons p (.symbol Symbol.Lambda name) args)
      = Compiler.compileLambda f args := by
  simp [Compiler.compileCall, Src.isSymbol, Src.ptr, Symbol.Quote, Symbol.Cons, Symbol.Car,
    Symbol.Cdr, Symbol.Consp, Symbol.Add, Symbol.Sub, Symbol.Mul, Symbol.Div, Symbol.Eq,
    Symbol.Lt, Symbol.Gt, Symbol.Print, Symbol.Read, Symbol.If, Symbol.Lambda]

theorem Compiler.compileCall_progn (f : Src → CM Unit) (p : Nat) (name : String) (args : Src) :
    Compiler.compileCall f (.cons p (.symbol Symbol.Progn name) args)
      = Compiler.compileProgn f args := by
  simp [Compiler.compileCall, Src.isSymbol, Src.ptr, Symbol.Quote, Symbol.Cons, Symbol.Car,
    Symbol.Cdr, Symbol.Consp, Symbol.Add, Symbol.Sub, Symbol.Mul, Symbol.Div, Symbol.Eq,
    Symbol.Lt, Symbol.Gt, Symbol.Print, Symbol.Read, Symbol.If, Symbol.Lambda, Symbol.Apply,
    Symbol.Defun, Symbol.Let, Symbol.Letrec, Symbol.Progn]

theorem Compiler.compileCall_if (f : Src → CM Unit) (p : Nat) (name : String) (args : Src) :
    Compiler.compileCall f (.cons p (.symbol Symbol.If name) args)
      = Compiler.compileIf f args := by
  simp [Compiler.compileCall, Src.isSymbol, Src.ptr, Symbol.Quote, Symbol.Cons, Symbol.Car,
    Symbol.Cdr, Symbol.Consp, Symbol.Add, Symbol.Sub, Symbol.Mul, Symbol.Div, Symbol.Eq,
    Symbol.Lt, Symbol.Gt, Symbol.Print, Symbol.Read, Symbol.If]

theorem Compiler.compileCall_nonsymbol (f : Src → CM Unit) (p : Nat) (fname args : Src)
    (h : fname.isSymbol = false) :
    Compiler.compileCall f (.cons p fname args)
      = (do Compiler.compileFunctionArgs f args; f fname; Code.addOpcode Instruction.AP) := by
  simp [Compiler.compileCall, h]

/-- C10: a `let` form compiles to exactly what the application of the
corresponding `lambda` to the values compiles to: from every compiler state the
two produce the same result, be it the same code, heap and environment or the
same error. -/
theorem let_compiles_as_application (p p1 p2 p3 q q1 q2 q3 : Nat) (letName lambdaName : String)
    (names values body tl tl1 : Src) (htl : tl.ptr = Nil) (htl1 : tl1.ptr = Nil) :
    Compiler.compile
        (.cons p (.symbol Symbol.Let letName)
          (.cons p1 names (.cons p2 values (.cons p3 body tl))))
      = Compiler.compile
        (.cons q (.cons q1 (.symbol Symbol.Lambda lambdaName)
          (.cons q2 names (.cons q3 body tl1))) values) := by
  rw [Compiler.compile_cons, Compiler.compile_cons, Compiler.compileCall_let,
    Compiler.compileCall_nonsymbol _ _
      (.cons q1 (.symbol Symbol.Lambda lambdaName) (.cons q2 names (.cons q3 body tl1))) _ rfl, Compiler.compile_cons,
    Compiler.compileCall_lambda]
  simp [Compiler.compileLet, Compiler.compileLambda, SecdList.Expand3, SecdList.Expand2, htl,
    htl1]

theorem let_compiles_as_application_example :
    Compiler.compile
        (.cons 36 (.symbol Symbol.Let "let")
          (.cons 35 (.cons 32 (.symbol 31 "x") (.symbol Nil "nil"))
            (.cons 34 (.cons 33 (.integer 37) (.symbol Nil "nil"))
              (.cons 38 (.symbol 31 "x") (.symbol Nil "nil")))))
      = Compiler.compile
        (.cons 41 (.cons 40 (.symbol Symbol.Lambda "lambda")
          (.cons 39 (.cons 32 (.symbol 31 "x") (.symbol Nil "nil"))
            (.cons 38 (.symbol 31 "x") (.symbol Nil "nil"))))
          (.cons 33 (.integer 37) (.symbol Nil "nil"))) :=
  let_compiles_as_application 36 35 34 38 41 40 39 38 "let" "lambda"
    (.cons 32 (.symbol 31 "x") (.symbol Nil "nil"))
    (.cons 33 (.integer 37) (.symbol Nil "nil")) (.symbol 31 "x")
    (.symbol Nil "nil") (.symbol Nil "nil") rfl rfl

theorem Compiler.started_buffer : Compiler.started.Buffer [] [] :=
  ⟨SecdList.empty, rfl, ⟨rfl, rfl⟩, initialHeap_valid⟩

/-- C8: compiling `(quote x)` appends exactly two values to the code buffer,
a fresh Integer cell holding `LDC` and the cell of `x` itself, and leaves
every older cell but the end of the buffer as it was; an integer literal
compiles the same way, its own cell being the operand; and executing `LDC`
with operand `v` pushes that same `v` on the stack and goes on behind the
operand, no older cell being changed. -/
theorem quote_loads_identical_cell (st : Compiler) (p p1 : Nat) (name : String) (x tl : Src)
    (n : Nat) (items : List Nat) (parents : List SecdList) (rt : Runtime)
    (ldc c1 v rest : Nat)
    (hargs : p1 ≠ Nil) (htl : tl.ptr = Nil) (hb : st.Buffer items parents)
    (hc : rt.heap.get? rt.c_ = some (.cons ldc c1))
    (hldc : rt.heap.get? ldc = some (.integer Instruction.LDC))
    (hc1 : rt.heap.get? c1 = some (.cons v rest)) :
    (∃ st1, Compiler.compile (.cons p (.symbol Symbol.Quote name) (.cons p1 x tl)) st
          = .ok () st1 ∧
        st1.Buffer (items ++ [st.heap.size, x.ptr]) parents ∧
        st1.heap.get? st.heap.size = some (.integer Instruction.LDC) ∧
        st1.envMap_ = st.envMap_ ∧
        ∀ q, q < st.heap.size → q ≠ st.lastCell → st1.heap.get? q = st.heap.get? q) ∧
    (∃ st1, Compiler.compile (.integer n) st = .ok () st1 ∧
        st1.Buffer (items ++ [st.heap.size, n]) parents ∧
        st1.heap.get? st.heap.size = some (.integer Instruction.LDC) ∧
        st1.envMap_ = st.envMap_ ∧
        ∀ q, q < st.heap.size → q ≠ st.lastCell → st1.heap.get? q = st.heap.get? q) ∧
    (∃ rt1, Runtime.step rt = .ok () rt1 ∧
        rt1.heap.get? rt1.s_ = some (.cons v rt.s_) ∧ rt1.c_ = rest ∧
        rt1.e_ = rt.e_ ∧ rt1.d_ = rt.d_ ∧
        ∀ q, q < rt.heap.size → rt1.heap.get? q = rt.heap.get? q) := by
  have emit : ∀ y : Nat, ∃ st1,
      (do Code.addOpcode Instruction.LDC; Code.add y : CM Unit) st = .ok () st1 ∧
        st1.Buffer (items ++ [st.heap.size, y]) parents ∧
        st1.heap.get? st.heap.size = some (.integer Instruction.LDC) ∧
        st1.envMap_ = st.envMap_ ∧
        ∀ q, q < st.heap.size → q ≠ st.lastCell → st1.heap.get? q = st.heap.get? q := by
    intro y
    obtain ⟨st1, h1, hb1, hop, henv1, hsize1, _, hframe1, hlast1⟩ :=
      Code.addOpcode_spec st Instruction.LDC items parents hb
    obtain ⟨st2, h2, hb2, henv2, _, _, hframe2, _⟩ :=
      Code.add_spec st1 y (items ++ [st.heap.size]) parents hb1
    refine ⟨st2, ?_, ?_, ?_, henv2.trans henv1, ?_⟩
    · simp only [M.bind_apply, h1, h2]
    · simpa using hb2
    · rw [hframe2 _ (by omega) (by omega), hop]
    · intro q hq hql
      rw [hframe2 q (by omega) (by omega), hframe1 q hq hql]
  refine ⟨?_, ?_, ?_⟩
  · have hq : Compiler.compileQuote (.cons p1 x tl)
        = (do Code.addOpcode Instruction.LDC; Code.add x.ptr : CM Unit) := by
      unfold Compiler.compileQuote
      rw [if_neg (by simpa [Src.ptr] using hargs)]
      simp [htl]
    rw [Compiler.compile_cons, Compiler.compileCall_quote, hq]
    exact emit x.ptr
  · rw [Compiler.compile_integer]
    exact emit n
  · refine ⟨{ rt with heap := (rt.heap.alloc (.cons v rt.s_)).2, s_ := rt.heap.size,
                        c_ := rest }, ?_, ?_, rfl, rfl, rfl, ?_⟩
    · rw [Runtime.step_fetch rt ldc c1 Instruction.LDC hc hldc]
      exact Runtime.execute_LDC _ v rest hc1
    · simp
    · intro q hq
      simp only [Heap.get?_alloc]
      rw [if_neg (by omega)]

theorem quote_loads_identical_cell_example :
    (∃ st1, Compiler.compile
          (.cons 34 (.symbol Symbol.Quote "quote")
            (.cons 33 (.integer 32) (.symbol Nil "nil"))) Compiler.started = .ok () st1 ∧
        st1.Buffer ([] ++ [Compiler.started.heap.size, (Src.integer 32).ptr]) []) ∧
    (∃ rt1, Runtime.step (Runtime.loaded (SExpr.list [.atom "quote", .num 7])) = .ok () rt1 ∧
        rt1.heap.get? rt1.s_
          = some (.cons 32 (Runtime.loaded (SExpr.list [.atom "quote", .num 7])).s_) ∧
        rt1.c_ = Nil) :=
  have h := quote_loads_identical_cell Compiler.started 34 33 "quote" (.integer 32)
    (.symbol Nil "nil") 32 [] [] (Runtime.loaded (SExpr.list [.atom "quote", .num 7]))
    35 37 32 Nil (by decide) rfl Compiler.started_buffer (by decide!) (by decide!) (by decide!)
  ⟨h.1.imp fun _ hs => ⟨hs.1, hs.2.1⟩, h.2.2.imp fun _ hr => ⟨hr.1, hr.2.1, hr.2.2.1⟩⟩

/-! ## Runs of the interpreter loop -/

theorem Runtime.steps_add (n m : Nat) (rt rt1 : Runtime)
    (h : Runtime.steps n rt = .ok () rt1) :
    Runtime.steps (n + m) rt = Runtime.steps m rt1 := by
  induction n generalizing rt with
  | zero =>
    simp only [Runtime.steps, Res.ok.injEq, true_and] at h
    subst h
    simp
  | succ n ih =>
    rw [Nat.add_right_comm]
    simp only [Runtime.steps] at h ⊢
    cases hs : Runtime.step rt with
    | ok u rt2 =>
      rw [hs] at h
      simp only at h ⊢
      exact ih rt2 h
    | thrown e rt2 => rw [hs] at h; simp at h
    | fault f => rw [hs] at h; simp at h

theorem Runtime.steps_one (rt : Runtime) : Runtime.steps 1 rt = Runtime.step rt := by
  simp only [Runtime.steps]
  cases Runtime.step rt <;> rfl

theorem wrap64_of_range (x : Int) (hlo : -(2 ^ 63) ≤ x) (hhi : x < 2 ^ 63) : wrap64 x = x := by
  unfold wrap64
  rw [Int.emod_eq_of_lt (by omega) (by omega)]
  omega

theorem Compiler.compileCall_binary (f : Src → CM Unit) (op : BinaryPrimitive) (p : Nat)
    (name : String) (args : Src) :
    Compiler.compileCall f (.cons p (.symbol op.symbol name) args)
      = Compiler.compileBinaryOperator f op.opcode args := by
  cases op <;>
  simp [Compiler.compileCall, Src.isSymbol, Src.ptr, BinaryPrimitive.symbol,
    BinaryPrimitive.opcode, Symbol.Cons, Symbol.Car,
    Symbol.Cdr, Symbol.Consp, Symbol.Add, Symbol.Sub, Symbol.Mul, Symbol.Div, Symbol.Eq,
    Symbol.Lt, Symbol.Gt]

theorem M.map_apply {σ α β : Type} (g : α → β) (m : M σ α) (s : σ) :
    (g <$> m) s = match m s with
      | .ok a s1 => .ok (g a) s1
      | .thrown e s1 => .thrown e s1
      | .fault f => .fault f := rfl

theorem Runtime.popIntegers_eq (rt : Runtime) (va vb s1 s0 : Nat) (a b : Int)
    (hs : rt.heap.get? rt.s_ = some (.cons va s1))
    (hs1 : rt.heap.get? s1 = some (.cons vb s0))
    (ha : rt.heap.get? va = some (.integer a)) (hb : rt.heap.get? vb = some (.integer b)) :
    Runtime.popIntegers rt = .ok (a, b) { rt with s_ := s0 } := by
  simp [Runtime.popIntegers, Runtime.popS, hs, hs1, M.map_apply, valueInt, Heap.valueInt, ha,
    hb]

theorem Runtime.execute_binary (op : BinaryPrimitive) (rt : Runtime) (va vb s1 s0 : Nat)
    (a b : Int)
    (hs : rt.heap.get? rt.s_ = some (.cons va s1))
    (hs1 : rt.heap.get? s1 = some (.cons vb s0))
    (ha : rt.heap.get? va = some (.integer a)) (hb : rt.heap.get? vb = some (.integer b))
    (hlo : -(2 ^ 63) ≤ op.specified a b) (hhi : op.specified a b < 2 ^ 63)
    (hdiv : op = .div → b ≠ 0) :
    Runtime.execute op.opcode rt
      = .ok () { rt with
          heap := ((rt.heap.alloc (.integer (op.specified a b))).2.alloc
            (.cons rt.heap.size s0)).2,
          s_ := rt.heap.size + 1 } := by
  have hpop := Runtime.popIntegers_eq rt va vb s1 s0 a b hs hs1 ha hb
  cases op
  case div =>
    have hb0 : b ≠ 0 := hdiv rfl
    have hmin : ¬ (a = -9223372036854775808 ∧ b = -1) := by
      rintro ⟨rfl, rfl⟩
      simp [BinaryPrimitive.specified] at hhi
    simp [Runtime.execute, BinaryPrimitive.opcode, Instruction.CONS, Instruction.POP,
      Instruction.NIL, Instruction.LDC, Instruction.LD, Instruction.SEL, Instruction.JOIN,
      Instruction.LDF, Instruction.AP, Instruction.RTN, Instruction.DUM, Instruction.RAP,
      Instruction.DEFUN, Instruction.CAR, Instruction.CDR, Instruction.CONSP, Instruction.ADD,
      Instruction.SUB, Instruction.MUL, Instruction.DIV, Instruction.EQ, Instruction.LT,
      Instruction.GT, hpop, Runtime.newInteger, Runtime.pushS, BinaryPrimitive.specified,
      divide, hb0, hmin]
  all_goals
    simp only [BinaryPrimitive.specified] at hlo hhi
    simp [Runtime.execute, BinaryPrimitive.opcode, Instruction.CONS, Instruction.POP,
      Instruction.NIL, Instruction.LDC, Instruction.LD, Instruction.SEL, Instruction.JOIN,
      Instruction.LDF, Instruction.AP, Instruction.RTN, Instruction.DUM, Instruction.RAP,
      Instruction.DEFUN, Instruction.CAR, Instruction.CDR, Instruction.CONSP, Instruction.ADD,
      Instruction.SUB, Instruction.MUL, Instruction.DIV, Instruction.EQ, Instruction.LT,
      Instruction.GT, hpop, Runtime.newInteger, Runtime.pushS, BinaryPrimitive.specified,
      wrap64_of_range _ hlo hhi]

/-- C1: a binary primitive form `(op lhs rhs)` compiles to the code of
`rhs`, the code of `lhs` and the instruction of `op`, in this order; and when
running the code of `rhs` and then the code of `lhs` has left the integers `a`
(of `lhs`, on top) and `b` (of `rhs`, below it) on the stack, with `op a b`
in the 64-bit range and `b` not zero for a division, the next round of the
machine replaces the two by a fresh Integer holding `op a b`, with `a` as
the first operand: `a - b` for `-`, `1` or `0` as `a < b` holds or not for
`<`, and so on. -/
theorem binary_primitive_operand_order (op : BinaryPrimitive) (p p1 p2 : Nat) (name : String)
    (lhs rhs tl : Src) (rt0 rt1 rt2 : Runtime) (n1 n2 va vb opcell rest : Nat) (a b : Int)
    (htl : tl.ptr = Nil)
    (hrhs : Runtime.steps n1 rt0 = .ok () rt1)
    (hlhs : Runtime.steps n2 rt1 = .ok () rt2)
    (hs : rt2.heap.get? rt2.s_ = some (.cons va rt1.s_))
    (hs1 : rt2.heap.get? rt1.s_ = some (.cons vb rt0.s_))
    (ha : rt2.heap.get? va = some (.integer a))
    (hb : rt2.heap.get? vb = some (.integer b))
    (hc : rt2.heap.get? rt2.c_ = some (.cons opcell rest))
    (hop : rt2.heap.get? opcell = some (.integer op.opcode))
    (hlo : -(2 ^ 63) ≤ op.specified a b) (hhi : op.specified a b < 2 ^ 63)
    (hdiv : op = .div → b ≠ 0) :
    Compiler.compile (.cons p (.symbol op.symbol name) (.cons p1 lhs (.cons p2 rhs tl)))
        = (do Compiler.compile rhs
              Compiler.compile lhs
              Code.addOpcode op.opcode) ∧
      ∃ rt3, Runtime.steps (n1 + n2 + 1) rt0 = .ok () rt3 ∧
        rt3.heap.get? rt3.s_ = some (.cons rt2.heap.size rt0.s_) ∧
        rt3.heap.get? rt2.heap.size = some (.integer (op.specified a b)) ∧
        rt3.c_ = rest ∧ rt3.e_ = rt2.e_ ∧ rt3.d_ = rt2.d_ := by
  constructor
  · rw [Compiler.compile_cons, Compiler.compileCall_binary]
    simp [Compiler.compileBinaryOperator, SecdList.Expand2, htl]
  · refine ⟨{ rt2 with
        heap := ((rt2.heap.alloc (.integer (op.specified a b))).2.alloc
          (.cons rt2.heap.size rt0.s_)).2,
        s_ := rt2.heap.size + 1, c_ := rest }, ?_, ?_, ?_, rfl, rfl, rfl⟩
    · rw [Nat.add_assoc, Runtime.steps_add n1 _ rt0 rt1 hrhs, Runtime.steps_add n2 _ rt1 rt2 hlhs,
        Runtime.steps_one, Runtime.step_fetch rt2 opcell rest op.opcode hc hop]
      exact Runtime.execute_binary op _ va vb rt1.s_ rt0.s_ a b hs hs1 ha hb hlo hhi hdiv
    · simp
    · simp [Heap.get?_alloc]

theorem binary_primitive_operand_order_example :
    Compiler.compile
        (.cons 36 (.symbol BinaryPrimitive.sub.symbol "-")
          (.cons 35 (.integer 32) (.cons 34 (.integer 33) (.symbol Nil "nil"))))
        = (do Compiler.compile (.integer 33)
              Compiler.compile (.integer 32)
              Code.addOpcode BinaryPrimitive.sub.opcode) ∧
      ∃ rt3, Runtime.steps (1 + 1 + 1)
            (Runtime.loaded (SExpr.list [.atom "-", .num 7, .num 2])) = .ok () rt3 ∧
        rt3.heap.get? rt3.s_
          = some (.cons (Runtime.after 2
                (Runtime.loaded (SExpr.list [.atom "-", .num 7, .num 2]))).heap.size
              (Runtime.loaded (SExpr.list [.atom "-", .num 7, .num 2])).s_) ∧
        rt3.heap.get?
            (Runtime.after 2 (Runtime.loaded (SExpr.list [.atom "-", .num 7, .num 2]))).heap.size
          = some (.integer (BinaryPrimitive.sub.specified 7 2)) ∧
        rt3.c_ = Nil ∧
        rt3.e_ = (Runtime.after 2 (Runtime.loaded (SExpr.list [.atom "-", .num 7, .num 2]))).e_ ∧
        rt3.d_
          = (Runtime.after 2 (Runtime.loaded (SExpr.list [.atom "-", .num 7, .num 2]))).d_ :=
  binary_primitive_operand_order .sub 36 35 34 "-" (.integer 32) (.integer 33)
    (.symbol Nil "nil") (Runtime.loaded (SExpr.list [.atom "-", .num 7, .num 2]))
    (Runtime.after 1 (Runtime.loaded (SExpr.list [.atom "-", .num 7, .num 2])))
    (Runtime.after 2 (Runtime.loaded (SExpr.list [.atom "-", .num 7, .num 2])))
    1 1 32 33 43 Nil 7 2 rfl (by decide!) (by decide!) (by decide!) (by decide!) (by decide!)
    (by decide!) (by decide!) (by decide!) (by decide) (by decide) (by decide)

/-- The form `(/ 1 0)` compiles, both operands evaluate to integers, and
the division then has no result: the round of `DIV` is undefined behaviour. -/
theorem division_by_zero_has_no_result :
    Runtime.steps 2 (Runtime.loaded (SExpr.list [.atom "/", .num 1, .num 0]))
        = .ok () (Runtime.after 2 (Runtime.loaded (SExpr.list [.atom "/", .num 1, .num 0]))) ∧
      (Runtime.after 2 (Runtime.loaded (SExpr.list [.atom "/", .num 1, .num 0]))).topInt?
        = some 1 ∧
      Runtime.step (Runtime.after 2 (Runtime.loaded (SExpr.list [.atom "/", .num 1, .num 0])))
        = .fault .undefinedBehaviour ∧
      Runtime.eval 100 (SExpr.list [.atom "/", .num 1, .num 0]) (Runtime.new initialHeap [])
        = .fault .undefinedBehaviour := by
  decide!

theorem Compiler.compileCall_cons (f : Src → CM Unit) (p : Nat) (name : String) (args : Src) :
    Compiler.compileCall f (.cons p (.symbol Symbol.Cons name) args)
      = Compiler.compileBinaryOperator f Instruction.CONS args := by
  simp [Compiler.compileCall, Src.isSymbol, Src.ptr]

theorem Compiler.compileCall_car (f : Src → CM Unit) (p : Nat) (name : String) (args : Src) :
    Compiler.compileCall f (.cons p (.symbol Symbol.Car name) args)
      = Compiler.compileUnaryOperator f Instruction.CAR args := by
  simp [Compiler.compileCall, Src.isSymbol, Src.ptr, Symbol.Cons, Symbol.Car]

theorem Compiler.compileCall_cdr (f : Src → CM Unit) (p : Nat) (name : String) (args : Src) :
    Compiler.compileCall f (.cons p (.symbol Symbol.Cdr name) args)
      = Compiler.compileUnaryOperator f Instruction.CDR args := by
  simp [Compiler.compileCall, Src.isSymbol, Src.ptr, Symbol.Cons, Symbol.Car, Symbol.Cdr]

/-- C6: `(car (cons a b))` compiles to the code of `b`, the code of `a`,
`CONS` and `CAR`, and `(cdr (cons a b))` to the same with `CDR` for `CAR`; and
when running the code of `b` and then the code of `a` has left their values
`vb` and `va` on the stack, the two rounds of `CONS` and `CAR` leave `va`
itself there in their place, those of `CONS` and `CDR` leave `vb` itself. -/
theorem car_cdr_of_cons_identity (p p1 q q1 q2 : Nat) (carName cdrName consName : String)
    (a b tl tl1 : Src) (rt0 rt1 rt2 : Runtime) (n1 n2 va vb consOp c1 selOp rest : Nat)
    (k : Int)
    (htl : tl.ptr = Nil) (htl1 : tl1.ptr = Nil)
    (hrunb : Runtime.steps n1 rt0 = .ok () rt1)
    (hruna : Runtime.steps n2 rt1 = .ok () rt2)
    (hwf : rt2.heap.WF)
    (hs : rt2.heap.get? rt2.s_ = some (.cons va rt1.s_))
    (hs1 : rt2.heap.get? rt1.s_ = some (.cons vb rt0.s_))
    (hc : rt2.heap.get? rt2.c_ = some (.cons consOp c1))
    (hcons : rt2.heap.get? consOp = some (.integer Instruction.CONS))
    (hc1 : rt2.heap.get? c1 = some (.cons selOp rest))
    (hsel : rt2.heap.get? selOp = some (.integer k))
    (hk : k = Instruction.CAR ∨ k = Instruction.CDR) :
    Compiler.compile
        (.cons p (.symbol Symbol.Car carName)
          (.cons p1 (.cons q (.symbol Symbol.Cons consName) (.cons q1 a (.cons q2 b tl1))) tl))
        = (do Compiler.compile b
              Compiler.compile a
              Code.addOpcode Instruction.CONS
              Code.addOpcode Instruction.CAR) ∧
      Compiler.compile
        (.cons p (.symbol Symbol.Cdr cdrName)
          (.cons p1 (.cons q (.symbol Symbol.Cons consName) (.cons q1 a (.cons q2 b tl1))) tl))
        = (do Compiler.compile b
              Compiler.compile a
              Code.addOpcode Instruction.CONS
              Code.addOpcode Instruction.CDR) ∧
      ∃ rt4, Runtime.steps (n1 + n2 + 2) rt0 = .ok () rt4 ∧
        rt4.heap.get? rt4.s_
          = some (.cons (if k = Instruction.CAR then va else vb) rt0.s_) ∧
        rt4.c_ = rest ∧ rt4.e_ = rt2.e_ ∧ rt4.d_ = rt2.d_ ∧
        ∀ q, q < rt2.heap.size → rt4.heap.get? q = rt2.heap.get? q := by
  refine ⟨?_, ?_, ?_⟩
  · rw [Compiler.compile_cons, Compiler.compileCall_car]
    simp only [Compiler.compileUnaryOperator, carSrc_cons, cdrSrc_cons, pure_bind, htl]
    rw [Compiler.compile_cons, Compiler.compileCall_cons]
    simp [Compiler.compileBinaryOperator, SecdList.Expand2, htl1]
  · rw [Compiler.compile_cons, Compiler.compileCall_cdr]
    simp only [Compiler.compileUnaryOperator, carSrc_cons, cdrSrc_cons, pure_bind, htl]
    rw [Compiler.compile_cons, Compiler.compileCall_cons]
    simp [Compiler.compileBinaryOperator, SecdList.Expand2, htl1]
  · have hc1lt := hwf.lt hc1
    have hsellt := hwf.lt hsel
    have hstep1 : Runtime.step rt2 = .ok ()
        { rt2 with
          heap := ((rt2.heap.alloc (.cons va vb)).2.alloc (.cons rt2.heap.size rt0.s_)).2,
          s_ := rt2.heap.size + 1, c_ := c1 } := by
      rw [Runtime.step_fetch rt2 consOp c1 Instruction.CONS hc hcons]
      exact Runtime.execute_CONS _ va vb rt1.s_ rt0.s_ hs hs1
    have hrun : ∀ rt4, Runtime.step
        { rt2 with
          heap := ((rt2.heap.alloc (.cons va vb)).2.alloc (.cons rt2.heap.size rt0.s_)).2,
          s_ := rt2.heap.size + 1, c_ := c1 } = .ok () rt4 →
        Runtime.steps (n1 + n2 + 2) rt0 = .ok () rt4 := by
      intro rt4 h4
      rw [Nat.add_assoc, Runtime.steps_add n1 _ rt0 rt1 hrunb,
        Runtime.steps_add n2 _ rt1 rt2 hruna]
      simp only [Runtime.steps, hstep1, h4]
    have hfetch : Runtime.step
        { rt2 with
          heap := ((rt2.heap.alloc (.cons va vb)).2.alloc (.cons rt2.heap.size rt0.s_)).2,
          s_ := rt2.heap.size + 1, c_ := c1 }
        = Runtime.execute k
        { rt2 with
          heap := ((rt2.heap.alloc (.cons va vb)).2.alloc (.cons rt2.heap.size rt0.s_)).2,
          s_ := rt2.heap.size + 1, c_ := rest } := by
      refine Runtime.step_fetch _ selOp rest k ?_ ?_
      · simp only [Heap.get?_alloc, Heap.size_alloc]
        rw [if_neg (by omega), if_neg (by omega)]
        exact hc1
      · simp only [Heap.get?_alloc, Heap.size_alloc]
        rw [if_neg (by omega), if_neg (by omega)]
        exact hsel
    have hexec : ∀ v : Nat, (k = Instruction.CAR → v = va) → (k = Instruction.CDR → v = vb) →
        Runtime.execute k
        { rt2 with
          heap := ((rt2.heap.alloc (.cons va vb)).2.alloc (.cons rt2.heap.size rt0.s_)).2,
          s_ := rt2.heap.size + 1, c_ := rest }
        = .ok ()
        { rt2 with
          heap := ((((rt2.heap.alloc (.cons va vb)).2.alloc
            (.cons rt2.heap.size rt0.s_)).2).alloc (.cons v rt0.s_)).2,
          s_ := rt2.heap.size + 2, c_ := rest } := by
      intro v hcar hcdr
      rcases hk with rfl | rfl
      · rw [Runtime.execute_CAR _ rt2.heap.size rt0.s_ va vb (by simp [Heap.get?_alloc])
          (by simp [Heap.get?_alloc]), hcar rfl]
        simp [Heap.size_alloc]
      · rw [Runtime.execute_CDR _ rt2.heap.size rt0.s_ va vb (by simp [Heap.get?_alloc])
          (by simp [Heap.get?_alloc]), hcdr rfl]
        simp [Heap.size_alloc]
    refine ⟨_, hrun _ (hfetch.trans (hexec (if k = Instruction.CAR then va else vb) ?_ ?_)),
      ?_, rfl, rfl, rfl, ?_⟩
    · intro h; rw [if_pos h]
    · intro h; rw [if_neg (by rw [h]; decide)]
    · simp [Heap.get?_alloc, Heap.size_alloc]
    · intro q hq
      simp only [Heap.get?_alloc, Heap.size_alloc]
      rw [if_neg (by omega), if_neg (by omega), if_neg (by omega)]

theorem car_cdr_of_cons_identity_example :
    ∃ rt4, Runtime.steps (1 + 1 + 2) (Runtime.loaded Sample.carOfCons) = .ok () rt4 ∧
      rt4.heap.get? rt4.s_
        = some (.cons (if Instruction.CAR = Instruction.CAR then 32 else 33)
            (Runtime.loaded Sample.carOfCons).s_) ∧
      (Runtime.loaded Sample.carOfCons).heap.get? 32 = some (.integer 1) :=
  have h := car_cdr_of_cons_identity 38 37 36 35 34 "car" "cdr" "cons" (.integer 32)
    (.integer 33) (.symbol Nil "nil") (.symbol Nil "nil") (Runtime.loaded Sample.carOfCons)
    (Runtime.after 1 (Runtime.loaded Sample.carOfCons))
    (Runtime.after 2 (Runtime.loaded Sample.carOfCons)) 1 1 32 33 45 48 47 Nil Instruction.CAR
    rfl rfl (by decide!) (by decide!) (Heap.WF.of_wfCheck (by decide!)) (by decide!)
    (by decide!) (by decide!) (by decide!) (by decide!) (by decide!) (Or.inl rfl)
  h.2.2.imp fun _ hr => ⟨hr.1, hr.2.1, by decide!⟩

theorem toBoolean_iff (h : Heap) (v : Nat) :
    toBoolean h v = true ↔ v ≠ Nil ∧ h.get? v ≠ some (.integer 0) := by
  unfold toBoolean
  by_cases hv : v = Nil
  · simp [hv]
  · rw [if_neg hv]
    cases hg : h.get? v with
    | none => simp [hv]
    | some c =>
      cases c with
      | integer k =>
        by_cases hk : k = 0
        · simp [hk]
        · simp [hk, hv]
      | _ => simp [hv]

/-- C7: `(if c x y)` compiles to the code of `c`, `SEL`, and the two arms,
each compiled into a buffer of its own that ends in `JOIN`; when the code of
`c` has left the value `vc` on the stack, the round of `SEL` removes it, saves
the code behind the `if` on the dump and makes the control register the arm
of `x` if `vc` is neither `Nil` nor an Integer 0, and the arm of `y`
otherwise, the other arm not being entered; and when that arm has left its
value `v` on the stack and reached its `JOIN`, the round of `JOIN` makes the
control register exactly the code behind the `if`, with `v` on the stack. -/
theorem if_runs_selected_arm (p p1 p2 p3 : Nat) (name : String) (c x y tl : Src)
    (rt0 rt1 rtA : Runtime)
    (n1 n2 vc v selOp c0 thenArm c1 elseArm rest joinOp afterJoin : Nat)
    (htl : tl.ptr = Nil)
    (hcond : Runtime.steps n1 rt0 = .ok () rt1)
    (hwf : rt1.heap.WF)
    (hs : rt1.heap.get? rt1.s_ = some (.cons vc rt0.s_))
    (hvc : (rt1.heap.get? vc).isSome = true)
    (hc : rt1.heap.get? rt1.c_ = some (.cons selOp c0))
    (hsel : rt1.heap.get? selOp = some (.integer Instruction.SEL))
    (hc0 : rt1.heap.get? c0 = some (.cons thenArm c1))
    (hc1 : rt1.heap.get? c1 = some (.cons elseArm rest))
    (hthen : Stack.valid rt1.heap thenArm = true)
    (helse : Stack.valid rt1.heap elseArm = true)
    (harm : Runtime.steps n2
        { rt1 with
          heap := (rt1.heap.alloc (.cons rest rt1.d_)).2, s_ := rt0.s_,
          c_ := if vc ≠ Nil ∧ rt1.heap.get? vc ≠ some (.integer 0) then thenArm else elseArm,
          d_ := rt1.heap.size } = .ok () rtA)
    (hsA : rtA.heap.get? rtA.s_ = some (.cons v rt0.s_))
    (hcA : rtA.heap.get? rtA.c_ = some (.cons joinOp afterJoin))
    (hjoin : rtA.heap.get? joinOp = some (.integer Instruction.JOIN))
    (hdA : rtA.heap.get? rtA.d_ = some (.cons rest rt1.d_))
    (hrest : Stack.valid rtA.heap rest = true) :
    Compiler.compile
        (.cons p (.symbol Symbol.If name) (.cons p1 c (.cons p2 x (.cons p3 y tl))))
        = (do Compiler.compile c
              Code.addOpcode Instruction.SEL
              Compiler.enterNewCode
              Compiler.compile x
              Code.addOpcode Instruction.JOIN
              Compiler.unrollAndAppendCode
              Compiler.enterNewCode
              Compiler.compile y
              Code.addOpcode Instruction.JOIN
              Compiler.unrollAndAppendCode) ∧
      Runtime.steps (n1 + 1) rt0 = .ok ()
        { rt1 with
          heap := (rt1.heap.alloc (.cons rest rt1.d_)).2, s_ := rt0.s_,
          c_ := if vc ≠ Nil ∧ rt1.heap.get? vc ≠ some (.integer 0) then thenArm else elseArm,
          d_ := rt1.heap.size } ∧
      ∃ rtF, Runtime.steps (n1 + 1 + n2 + 1) rt0 = .ok () rtF ∧
        rtF.heap.get? rtF.s_ = some (.cons v rt0.s_) ∧
        rtF.c_ = rest ∧ rtF.d_ = rt1.d_ ∧ rtF.e_ = rtA.e_ ∧ rtF.heap = rtA.heap := by
  have hstep : Runtime.steps (n1 + 1) rt0 = .ok ()
      { rt1 with
        heap := (rt1.heap.alloc (.cons rest rt1.d_)).2, s_ := rt0.s_,
        c_ := if vc ≠ Nil ∧ rt1.heap.get? vc ≠ some (.integer 0) then thenArm else elseArm,
        d_ := rt1.heap.size } := by
    rw [Runtime.steps_add n1 _ rt0 rt1 hcond, Runtime.steps_one,
      Runtime.step_fetch rt1 selOp c0 Instruction.SEL hc hsel,
      Runtime.execute_SEL { rt1 with c_ := c0 } vc rt0.s_ thenArm c1 elseArm rest hwf hvc hs hc0
        hc1 hthen helse]
    simp only
    by_cases hb : toBoolean rt1.heap vc = true
    · rw [if_pos hb, if_pos ((toBoolean_iff _ _).1 hb)]
    · rw [if_neg hb, if_neg (fun h => hb ((toBoolean_iff _ _).2 h))]
  refine ⟨?_, hstep, { rtA with c_ := rest, d_ := rt1.d_ }, ?_, hsA, rfl, rfl, rfl, rfl⟩
  · rw [Compiler.compile_cons, Compiler.compileCall_if]
    simp [Compiler.compileIf, htl]
  · rw [Nat.add_assoc (n1 + 1), Runtime.steps_add (n1 + 1) _ rt0 _ hstep,
      Runtime.steps_add n2 _ _ rtA harm, Runtime.steps_one,
      Runtime.step_fetch rtA joinOp afterJoin Instruction.JOIN hcA hjoin]
    exact Runtime.execute_JOIN _ rest rt1.d_ hdA hrest

theorem if_runs_selected_arm_example :
    (∃ rtF, Runtime.steps (1 + 1 + 1 + 1) (Runtime.loaded (Sample.ifThenElse (.num 0)))
          = .ok () rtF ∧
        rtF.heap.get? rtF.s_
          = some (.cons 34 (Runtime.loaded (Sample.ifThenElse (.num 0))).s_) ∧
        rtF.c_ = Nil) ∧
      resultInt Runtime.heap
          (Runtime.eval 100 (Sample.ifThenElse (.atom "t")) (Runtime.new initialHeap []))
        = some 10 ∧
      resultInt Runtime.heap
          (Runtime.eval 100 (Sample.ifThenElse (.num 1)) (Runtime.new initialHeap []))
        = some 10 ∧
      resultInt Runtime.heap
          (Runtime.eval 100 (Sample.ifThenElse (.atom "nil")) (Runtime.new initialHeap []))
        = some 20 ∧
      resultInt Runtime.heap
          (Runtime.eval 100 (Sample.ifThenElse (.num 0)) (Runtime.new initialHeap []))
        = some 20 :=
  have h := if_runs_selected_arm 38 37 36 35 "if" (.integer 32) (.integer 33) (.integer 34)
    (.symbol Nil "nil") (Runtime.loaded (Sample.ifThenElse (.num 0)))
    (Runtime.after 1 (Runtime.loaded (Sample.ifThenElse (.num 0))))
    (Runtime.after 3 (Runtime.loaded (Sample.ifThenElse (.num 0))))
    1 1 32 34 42 49 45 55 51 Nil 53 Nil rfl (by decide!) (Heap.WF.of_wfCheck (by decide!))
    (by decide!) (by decide!) (by decide!) (by decide!) (by decide!) (by decide!) (by decide!)
    (by decide!) (by decide!) (by decide!) (by decide!) (by decide!) (by decide!) (by decide!)
  ⟨h.2.2.imp fun _ hr => ⟨hr.1, hr.2.1, hr.2.2.1⟩, by decide!, by decide!, by decide!,
    by decide!⟩

theorem Compiler.compilePrognLoop_eq (f : Src → CM Unit) :
    ∀ (es : List Src) (e : Src) (args : Src), args.IsListOf (e :: es) →
      Compiler.compilePrognLoop f args = Spec.prognCode f (e :: es)
  | [], e, args, h => by
    cases args with
    | cons p a d =>
      obtain ⟨_, rfl, hd⟩ := h
      have hd : d.ptr = Nil := by
        cases d <;> exact hd
      funext st
      simp only [Compiler.compilePrognLoop, Spec.prognCode, hd, if_true]
      cases f a st <;> rfl
    | _ => exact h.elim
  | e1 :: es, e, args, h => by
    cases args with
    | cons p a d =>
      obtain ⟨_, rfl, hd⟩ := h
      have ih := Compiler.compilePrognLoop_eq f es e1 d hd
      have hdne : d.ptr ≠ Nil := by
        cases d with
        | cons q a1 d1 => exact hd.1
        | _ => exact hd.elim
      funext st
      simp only [Compiler.compilePrognLoop, Spec.prognCode, if_neg hdne, M.bind_apply, ih]
      cases f a st with
      | ok u st1 =>
        simp only []
        cases Code.addOpcode Instruction.POP st1 <;> rfl
      | _ => rfl
    | _ => exact h.elim

/-- C9: `(progn)` compiles to the single instruction `NIL`, whose round
pushes `Nil`; `(progn e1 .. en)` with `n ≥ 1` compiles to the code of the
forms in order with a `POP` between consecutive forms and none after the
last; and a run of that code in which every form leaves one value ends with
the value of the last form on top of the stack that the run started with. -/
theorem progn_code_and_value (p : Nat) (name : String) (args : Src) (es : List Src)
    (rt rt1 rtN : Runtime) (v nilOp restN : Nat)
    (hargs : args.IsListOf es)
    (hrun : Runtime.PrognRun rt rt1 v)
    (hcN : rtN.heap.get? rtN.c_ = some (.cons nilOp restN))
    (hnil : rtN.heap.get? nilOp = some (.integer Instruction.NIL)) :
    Compiler.compile (.cons p (.symbol Symbol.Progn name) args)
        = Spec.prognCode Compiler.compile es ∧
      ((∃ n, Runtime.steps n rt = .ok () rt1) ∧
        rt1.heap.get? rt1.s_ = some (.cons v rt.s_)) ∧
      ∃ rtN1, Runtime.step rtN = .ok () rtN1 ∧
        rtN1.heap.get? rtN1.s_ = some (.cons Nil rtN.s_) ∧ rtN1.c_ = restN := by
  refine ⟨?_, ?_, ?_⟩
  · rw [Compiler.compile_cons, Compiler.compileCall_progn]
    unfold Compiler.compileProgn
    cases es with
    | nil =>
      have h : args.ptr = Nil := by
        cases args <;> exact hargs
      rw [if_pos h]
      rfl
    | cons e es =>
      have h : args.ptr ≠ Nil := by
        cases args with
        | cons q a d => exact hargs.1
        | _ => exact hargs.elim
      rw [if_neg h]
      exact Compiler.compilePrognLoop_eq _ es e args hargs
  · induction hrun with
    | last rt rt1 n v hsteps hs => exact ⟨⟨n, hsteps⟩, hs⟩
    | next rt rt1 rt2 rt3 n v1 v popOp rest hsteps hs hc hpop hstep _ ih =>
      have h2 : rt2 = { rt1 with s_ := rt.s_, c_ := rest } := by
        rw [Runtime.step_fetch rt1 popOp rest Instruction.POP hc hpop,
          Runtime.execute_POP { rt1 with c_ := rest } v1 rt.s_ hs] at hstep
        simpa using hstep.symm
      obtain ⟨⟨m, hm⟩, hs3⟩ := ih
      refine ⟨⟨n + (1 + m), ?_⟩, ?_⟩
      · rw [Runtime.steps_add n _ rt rt1 hsteps,
          Runtime.steps_add 1 _ rt1 rt2 (by rw [Runtime.steps_one]; exact hstep)]
        exact hm
      · rw [hs3, h2]
  · refine ⟨{ rtN with heap := (rtN.heap.alloc (.cons Nil rtN.s_)).2, s_ := rtN.heap.size,
                        c_ := restN }, ?_, ?_, rfl⟩
    · rw [Runtime.step_fetch rtN nilOp restN Instruction.NIL hcN hnil]
      exact Runtime.execute_NIL _
    · simp [Heap.get?_alloc]

theorem progn_code_and_value_example :
    Compiler.compile
        (.cons 38 (.symbol Symbol.Progn "progn")
          (.cons 37 (.integer 32)
            (.cons 36 (.integer 33) (.cons 35 (.integer 34) (.symbol Nil "nil")))))
        = Spec.prognCode Compiler.compile [.integer 32, .integer 33, .integer 34] ∧
      ((∃ n, Runtime.steps n (Runtime.loaded Sample.progn)
          = .ok () (Runtime.after 5 (Runtime.loaded Sample.progn))) ∧
        (Runtime.after 5 (Runtime.loaded Sample.progn)).heap.get?
            (Runtime.after 5 (Runtime.loaded Sample.progn)).s_
          = some (.cons 34 (Runtime.loaded Sample.progn).s_)) ∧
      ∃ rtN1, Runtime.step (Runtime.loaded Sample.emptyProgn) = .ok () rtN1 ∧
        rtN1.heap.get? rtN1.s_ = some (.cons Nil (Runtime.loaded Sample.emptyProgn).s_) ∧
        rtN1.c_ = Nil :=
  progn_code_and_value 38 "progn"
    (.cons 37 (.integer 32)
      (.cons 36 (.integer 33) (.cons 35 (.integer 34) (.symbol Nil "nil"))))
    [.integer 32, .integer 33, .integer 34]
    (Runtime.loaded Sample.progn) (Runtime.after 5 (Runtime.loaded Sample.progn))
    (Runtime.loaded Sample.emptyProgn) 34 33 Nil
    ⟨by decide, rfl, by decide, rfl, by decide, rfl, rfl⟩
    (.next _ (Runtime.after 1 (Runtime.loaded Sample.progn))
      (Runtime.after 2 (Runtime.loaded Sample.progn)) _ 1 32 34 42 45
      (by decide!) (by decide!) (by decide!) (by decide!) (by decide!)
      (.next _ (Runtime.after 3 (Runtime.loaded Sample.progn))
        (Runtime.after 4 (Runtime.loaded Sample.progn)) _ 1 33 34 47 50
        (by decide!) (by decide!) (by decide!) (by decide!) (by decide!)
        (.last _ _ 1 34 (by decide!) (by decide!))))
    (by decide!) (by decide!)

theorem IsList.nil_iff (h : Heap) (p : Nat) : IsList h p [] ↔ p = Nil := by
  simp [IsList, Heap.isList]

theorem IsList.cons_iff (h : Heap) (p v : Nat) (vs : List Nat) :
    IsList h p (v :: vs) ↔ ∃ d, h.get? p = some (.cons v d) ∧ IsList h d vs := by
  unfold IsList
  rw [Heap.isList]
  cases hg : h.get? p with
  | none => simp
  | some c =>
    cases c with
    | cons a d =>
      simp only [Bool.and_eq_true, decide_eq_true_eq, Option.some.injEq, Cell.cons.injEq]
      constructor
      · rintro ⟨rfl, hl⟩
        exact ⟨d, ⟨rfl, rfl⟩, hl⟩
      · rintro ⟨d1, ⟨rfl, rfl⟩, hl⟩
        exact ⟨rfl, hl⟩
    | _ => simp

theorem IsList.mono_heap {h h1 : Heap} (hmono : ∀ q c, h.get? q = some c → h1.get? q = some c) :
    ∀ (p : Nat) (vs : List Nat), IsList h p vs → IsList h1 p vs
  | p, [], hl => by
    rw [IsList.nil_iff] at hl ⊢
    exact hl
  | p, v :: vs, hl => by
    rw [IsList.cons_iff] at hl ⊢
    obtain ⟨d, hg, hrest⟩ := hl
    exact ⟨d, hmono p _ hg, IsList.mono_heap hmono d vs hrest⟩

theorem Compiler.compileCall_general (g : Src → CM Unit) (p : Nat) (f args : Src)
    (hf : f.isGeneralHead = true) :
    Compiler.compileCall g (.cons p f args)
      = (do Compiler.compileFunctionArgs g args; g f; Code.addOpcode Instruction.AP) := by
  cases f with
  | symbol q name =>
    simp only [Src.isGeneralHead, Src.isSymbol, Src.ptr, Symbol.special, Bool.true_and,
      Bool.not_eq_true', List.contains_eq_any_beq, List.any_cons, List.any_nil, Bool.or_false,
      Bool.or_eq_false_iff, beq_eq_false_iff_ne, ne_eq] at hf
    obtain ⟨h1, h2, h3, h4, h5, h6, h7, h8, h9, h10, h11, h12, h13, h14, h15, h16, h17, h18,
      h19, h20, h21⟩ := hf
    simp [Compiler.compileCall, Src.isSymbol, Src.ptr, h1, h2, h3, h4, h5, h6, h7, h8, h9, h10,
      h11, h12, h13, h14, h15, h16, h17, h18, h19, h20, h21]
  | _ => simp [Compiler.compileCall, Src.isSymbol]

theorem Compiler.compileCallArguments_eq (f : Src → CM Unit) :
    ∀ (es : List Src) (args : Src), args.IsListOf es →
      Compiler.compileCallArguments f args = Spec.argumentCode f es
  | [], args, h => by
    have h : args.ptr = Nil := by
      cases args <;> exact h
    cases args with
    | cons p a d =>
      funext st
      simp only [Src.ptr] at h
      simp [Compiler.compileCallArguments, Spec.argumentCode, h]
    | _ => simp [Compiler.compileCallArguments, Spec.argumentCode, h]
  | e :: es, args, h => by
    cases args with
    | cons p a d =>
      obtain ⟨hp, rfl, hd⟩ := h
      have ih := Compiler.compileCallArguments_eq f es d hd
      funext st
      simp only [Compiler.compileCallArguments, Spec.argumentCode, if_neg hp, ih, M.bind_apply]
      cases Spec.argumentCode f es st <;> rfl
    | _ => exact h.elim

/-- C2: a general call `(f x1 .. xn)`, `f` being neither a primitive nor
the name of a special form, compiles to `NIL`, then for `i` from `n` down to
`1` the code of `xi` followed by `CONS`, then the code of `f`, then `AP`; and
a run of the argument part, in which the code of each argument leaves its
value on the stack, ends with exactly one more value on the stack than it
started with: the proper list of the values of the arguments in the order
of the source. -/
theorem general_call_code_and_arguments (p : Nat) (f args : Src) (es : List Src)
    (rt rt1 : Runtime) (vs : List Nat)
    (hf : f.isGeneralHead = true) (hargs : args.IsListOf es)
    (hrun : Runtime.ArgumentsRun rt vs rt1) :
    Compiler.compile (.cons p f args) = Spec.callCode Compiler.compile f es ∧
      (∃ n, Runtime.steps n rt = .ok () rt1) ∧
      ∃ l, rt1.heap.get? rt1.s_ = some (.cons l rt.s_) ∧ IsList rt1.heap l vs := by
  refine ⟨?_, ?_⟩
  · rw [Compiler.compile_cons, Compiler.compileCall_general _ _ _ _ hf]
    simp only [Compiler.compileFunctionArgs, Spec.callCode,
      Compiler.compileCallArguments_eq _ es args hargs, bind_assoc]
  · induction hrun with
    | nil rt1 nilOp rest hc hnil hstep =>
      rw [Runtime.step_fetch rt nilOp rest Instruction.NIL hc hnil, Runtime.execute_NIL] at hstep
      simp only [Res.ok.injEq, true_and] at hstep
      subst hstep
      refine ⟨⟨1, ?_⟩, Nil, by simp [Heap.get?_alloc], (IsList.nil_iff _ _).2 rfl⟩
      rw [Runtime.steps_one, Runtime.step_fetch rt nilOp rest Instruction.NIL hc hnil,
        Runtime.execute_NIL]
    | cons rt1 rt2 rt3 n v l vs consOp rest _ hsteps hwf hs hs1 hl hc hcons hstep ih =>
      obtain ⟨⟨m, hm⟩, _⟩ := ih
      have hstep2 := hstep
      rw [Runtime.step_fetch rt2 consOp rest Instruction.CONS hc hcons,
        Runtime.execute_CONS { rt2 with c_ := rest } v l rt1.s_ rt.s_ hs hs1] at hstep2
      simp only [Res.ok.injEq, true_and] at hstep2
      refine ⟨⟨m + (n + 1), ?_⟩, rt2.heap.size, ?_, ?_⟩
      · rw [Runtime.steps_add m _ rt rt1 hm, Runtime.steps_add n _ rt1 rt2 hsteps,
          Runtime.steps_one]
        exact hstep
      · rw [← hstep2]
        simp [Heap.get?_alloc]
      · rw [← hstep2]
        have hget : ((rt2.heap.alloc (.cons v l)).2.alloc
            (.cons rt2.heap.size rt.s_)).2.get? rt2.heap.size = some (.cons v l) := by
          simp [Heap.get?_alloc]
        rw [IsList.cons_iff]
        refine ⟨l, hget, IsList.mono_heap ?_ l vs hl⟩
        intro q c hq
        have := hwf.lt hq
        simp only [Heap.get?_alloc, Heap.size_alloc]
        rw [if_neg (by omega), if_neg (by omega)]
        exact hq

theorem general_call_code_and_arguments_example :
    Compiler.compile
        (.cons 43
          (.cons 38 (.symbol Symbol.Lambda "lambda")
            (.cons 37
              (.cons 35 (.symbol 32 "x") (.cons 34 (.symbol 33 "y") (.symbol Nil "nil")))
              (.cons 36 (.symbol 32 "x") (.symbol Nil "nil"))))
          (.cons 42 (.integer 39) (.cons 41 (.integer 40) (.symbol Nil "nil"))))
        = Spec.callCode Compiler.compile
          (.cons 38 (.symbol Symbol.Lambda "lambda")
            (.cons 37
              (.cons 35 (.symbol 32 "x") (.cons 34 (.symbol 33 "y") (.symbol Nil "nil")))
              (.cons 36 (.symbol 32 "x") (.symbol Nil "nil"))))
          [.integer 39, .integer 40] ∧
      (∃ n, Runtime.steps n (Runtime.loaded Sample.call)
          = .ok () (Runtime.after 5 (Runtime.loaded Sample.call))) ∧
      ∃ l, (Runtime.after 5 (Runtime.loaded Sample.call)).heap.get?
            (Runtime.after 5 (Runtime.loaded Sample.call)).s_
          = some (.cons l (Runtime.loaded Sample.call).s_) ∧
        IsList (Runtime.after 5 (Runtime.loaded Sample.call)).heap l [39, 40] :=
  general_call_code_and_arguments 43
    (.cons 38 (.symbol Symbol.Lambda "lambda")
      (.cons 37
        (.cons 35 (.symbol 32 "x") (.cons 34 (.symbol 33 "y") (.symbol Nil "nil")))
        (.cons 36 (.symbol 32 "x") (.symbol Nil "nil"))))
    (.cons 42 (.integer 39) (.cons 41 (.integer 40) (.symbol Nil "nil")))
    [.integer 39, .integer 40]
    (Runtime.loaded Sample.call) (Runtime.after 5 (Runtime.loaded Sample.call)) [39, 40]
    rfl ⟨by decide, rfl, by decide, rfl, rfl⟩
    (@Runtime.ArgumentsRun.cons (Runtime.loaded Sample.call)
      (Runtime.after 3 (Runtime.loaded Sample.call))
      (Runtime.after 4 (Runtime.loaded Sample.call))
      (Runtime.after 5 (Runtime.loaded Sample.call)) 1 39 71 [40] 54 57
      (@Runtime.ArgumentsRun.cons (Runtime.loaded Sample.call)
        (Runtime.after 1 (Runtime.loaded Sample.call))
        (Runtime.after 2 (Runtime.loaded Sample.call))
        (Runtime.after 3 (Runtime.loaded Sample.call)) 1 40 Nil [] 49 52
        (@Runtime.ArgumentsRun.nil (Runtime.loaded Sample.call)
          (Runtime.after 1 (Runtime.loaded Sample.call)) 44 47
          (by decide!) (by decide!) (by decide!))
        (by decide!) (Heap.WF.of_wfCheck (by decide!)) (by decide!) (by decide!)
        (by decide!) (by decide!) (by decide!) (by decide!))
      (by decide!) (Heap.WF.of_wfCheck (by decide!)) (by decide!) (by decide!)
      (by decide!) (by decide!) (by decide!) (by decide!))

/-! ## The compiler only reads what it allocates -/

theorem Heap.lookup_append (p : Nat) (a b : List (Nat × Cell)) :
    Heap.lookup p (a ++ b) = match Heap.lookup p a with
      | some c => some c
      | none => Heap.lookup p b := by
  induction a with
  | nil => rfl
  | cons x xs ih =>
    obtain ⟨q, c⟩ := x
    simp only [List.cons_append, Heap.lookup]
    by_cases h : p = q
    · simp [h]
    · simp [h, ih]

theorem Heap.get?_over_of_get? {h : Heap} {p : Nat} {c : Cell} (hp : h.get? p = some c)
    (old : List (Nat × Cell)) : (h.over old).get? p = some c := by
  unfold Heap.get? at hp ⊢
  simp only [Heap.over, Heap.lookup_append, hp]

theorem Heap.get?_over_of_none {h : Heap} {p : Nat} (hp : h.get? p = none)
    (old : List (Nat × Cell)) : (h.over old).get? p = Heap.lookup p old := by
  unfold Heap.get? at hp ⊢
  simp only [Heap.over, Heap.lookup_append, hp]

theorem Heap.alloc_over (h : Heap) (c : Cell) (old : List (Nat × Cell)) :
    (h.over old).alloc c = ((h.alloc c).1, (h.alloc c).2.over old) := rfl

theorem Heap.set_over (h : Heap) (p : Nat) (c : Cell) (old : List (Nat × Cell)) :
    (h.over old).set p c = (h.set p c).over old := rfl

theorem Heap.setCdr_over {h h1 : Heap} {p v : Nat} (hs : h.setCdr p v = .ok h1)
    (old : List (Nat × Cell)) : (h.over old).setCdr p v = .ok (h1.over old) := by
  unfold Heap.setCdr at hs ⊢
  cases hg : h.get? p with
  | none => simp [hg] at hs
  | some c =>
    cases c with
    | cons a d =>
      simp only [hg, Except.ok.injEq] at hs
      simp only [Heap.get?_over_of_get? hg, Heap.set_over, hs]
    | _ => simp [hg] at hs

theorem SecdList.append_over {l l1 : SecdList} {v : Nat} {h h1 : Heap}
    (ha : l.append v h = .ok (l1, h1)) (old : List (Nat × Cell)) :
    l.append v (h.over old) = .ok (l1, h1.over old) := by
  unfold SecdList.append at ha ⊢
  by_cases hl : l.last_ = Nil
  · simp only [hl, if_true, SecdList.prepend, Except.ok.injEq, Prod.mk.injEq] at ha ⊢
    obtain ⟨rfl, rfl⟩ := ha
    exact ⟨rfl, rfl⟩
  · have hsz : (h.over old).size = h.size := rfl
    simp only [hl, if_false, Heap.alloc_fst, hsz, Heap.alloc_over] at ha ⊢
    cases hs : (h.alloc (.cons v Nil)).2.setCdr l.last_ h.size with
    | error f => rw [hs] at ha; simp at ha
    | ok h2 =>
      rw [hs] at ha
      simp only [Except.ok.injEq, Prod.mk.injEq] at ha
      obtain ⟨rfl, rfl⟩ := ha
      rw [Heap.setCdr_over hs old]

theorem Compiler.local_pure {α : Type} (a : α) : Compiler.Local (pure a : CM α) := by
  intro st r st1 h old
  simp only [M.pure_apply, Res.ok.injEq] at h ⊢
  obtain ⟨rfl, rfl⟩ := h
  exact ⟨rfl, rfl⟩

theorem Compiler.local_raise {α : Type} (e : Error) : Compiler.Local (raise e : CM α) := by
  intro st r st1 h old
  simp at h

theorem Compiler.local_fail {α : Type} (f : Fault) : Compiler.Local (fail f : CM α) := by
  intro st r st1 h old
  simp at h

theorem Compiler.local_bind {α β : Type} {m : CM α} {f : α → CM β} (hm : Compiler.Local m)
    (hf : ∀ a, Compiler.Local (f a)) : Compiler.Local (m >>= f) := by
  intro st r st1 h old
  simp only [M.bind_apply] at h ⊢
  cases hms : m st with
  | ok a st2 =>
    rw [hms] at h
    rw [hm st a st2 hms old]
    exact hf a st2 r st1 h old
  | thrown e st2 => rw [hms] at h; simp at h
  | fault f => rw [hms] at h; simp at h

theorem Compiler.local_newInteger (v : Int) : Compiler.Local (Compiler.newInteger v) := by
  intro st r st1 h old
  simp only [Compiler.newInteger, Res.ok.injEq] at h ⊢
  obtain ⟨rfl, rfl⟩ := h
  exact ⟨rfl, rfl⟩

theorem Compiler.local_newCons (a d : Nat) : Compiler.Local (Compiler.newCons a d) := by
  intro st r st1 h old
  simp only [Compiler.newCons, Res.ok.injEq] at h ⊢
  obtain ⟨rfl, rfl⟩ := h
  exact ⟨rfl, rfl⟩

theorem Compiler.local_add (value : Nat) : Compiler.Local (Code.add value) := by
  intro st r st1 h old
  unfold Code.add at h ⊢
  cases hc : st.code_ with
  | nil => simp [hc] at h
  | cons c parents =>
    have hc1 : (st.over old).code_ = c :: parents := hc
    simp only [hc, hc1] at h ⊢
    cases ha : c.append value st.heap with
    | error f => simp [ha] at h
    | ok x =>
      obtain ⟨l1, h1⟩ := x
      simp only [ha, Res.ok.injEq, true_and] at h
      subst h
      have := SecdList.append_over ha old
      simp only [Compiler.over] at this ⊢
      simp only [this]

theorem Compiler.local_addOpcode (opcode : Int) : Compiler.Local (Code.addOpcode opcode) :=
  Compiler.local_bind (Compiler.local_newInteger opcode) fun v => Compiler.local_add v

theorem Compiler.local_indexOf (symbol : Src) : Compiler.Local (EnvironmentMap.indexOf symbol) := by
  intro st r st1 h old
  cases symbol with
  | symbol p name =>
    have henv : (st.over old).envMap_ = st.envMap_ := rfl
    simp only [EnvironmentMap.indexOf, henv] at h ⊢
    cases hs : EnvironmentMap.search name st.envMap_ 0 with
    | none => simp [hs] at h
    | some x =>
      obtain ⟨depth, i⟩ := x
      simp only [hs] at h ⊢
      exact Compiler.local_bind (Compiler.local_newInteger depth)
        (fun d => Compiler.local_bind (Compiler.local_newInteger i)
          (fun o => Compiler.local_newCons d o)) st r st1 h old
  | _ => simp [EnvironmentMap.indexOf] at h

theorem Compiler.local_addSymbols : ∀ names : Src, Compiler.Local (Compiler.addSymbols names)
  | .cons p arg names => by
    intro st r st1 h old
    have ih := Compiler.local_addSymbols names
    have henv : (st.over old).envMap_ = st.envMap_ := rfl
    simp only [Compiler.addSymbols, henv] at h ⊢
    by_cases hp : p = Nil
    · simp only [hp, if_true, Res.ok.injEq] at h
      obtain ⟨-, rfl⟩ := h
      simp [hp]
    · simp only [hp, if_false] at h ⊢
      cases arg with
      | symbol q name =>
        simp only [Src.isSymbol, Bool.not_true, Bool.false_eq_true, if_false] at h ⊢
        cases he : st.envMap_ with
        | nil => simp [he] at h
        | cons e parents =>
          simp only [he] at h ⊢
          exact ih _ r st1 h old
      | _ => simp [Src.isSymbol] at h
  | .integer q => by
    intro st r st1 h old
    simp only [Compiler.addSymbols] at h ⊢
    split at h
    · rename_i hq
      simp only [Res.ok.injEq] at h
      obtain ⟨-, rfl⟩ := h
      simp [hq]
    · simp at h
  | .symbol q name => by
    intro st r st1 h old
    simp only [Compiler.addSymbols] at h ⊢
    split at h
    · rename_i hq
      simp only [Res.ok.injEq] at h
      obtain ⟨-, rfl⟩ := h
      simp [hq]
    · simp at h
  | .closure q => by
    intro st r st1 h old
    simp only [Compiler.addSymbols] at h ⊢
    split at h
    · rename_i hq
      simp only [Res.ok.injEq] at h
      obtain ⟨-, rfl⟩ := h
      simp [hq]
    · simp at h

theorem Compiler.local_enterNewEnv (names : Src) : Compiler.Local (Compiler.enterNewEnv names) := by
  intro st r st1 h old
  exact Compiler.local_addSymbols names _ r st1 h old

theorem Compiler.local_unrollEnvironmentMap : Compiler.Local Compiler.unrollEnvironmentMap := by
  intro st r st1 h old
  have henv : (st.over old).envMap_ = st.envMap_ := rfl
  simp only [Compiler.unrollEnvironmentMap, henv] at h ⊢
  split at h
  · rename_i heq
    simp only [Res.ok.injEq] at h
    obtain ⟨-, rfl⟩ := h
    rfl
  · simp at h

theorem Compiler.local_enterNewCode : Compiler.Local Compiler.enterNewCode := by
  intro st r st1 h old
  simp only [Compiler.enterNewCode, Res.ok.injEq] at h
  obtain ⟨-, rfl⟩ := h
  rfl

theorem Compiler.local_unrollAndAppendCode : Compiler.Local Compiler.unrollAndAppendCode := by
  intro st r st1 h old
  have hcode : (st.over old).code_ = st.code_ := rfl
  simp only [Compiler.unrollAndAppendCode, hcode] at h ⊢
  split at h
  · exact Compiler.local_add _ _ r st1 h old
  · simp at h

theorem Compiler.local_car (x : Src) : Compiler.Local x.car := by
  cases x <;> first | exact Compiler.local_pure _ | exact Compiler.local_fail _

theorem Compiler.local_cdr (x : Src) : Compiler.Local x.cdr := by
  cases x <;> first | exact Compiler.local_pure _ | exact Compiler.local_fail _

theorem Compiler.local_carSrc (x : Src) : Compiler.Local (carSrc x) := by
  cases x <;> first | exact Compiler.local_pure _ | exact Compiler.local_raise _

theorem Compiler.local_cdrSrc (x : Src) : Compiler.Local (cdrSrc x) := by
  cases x <;> first | exact Compiler.local_pure _ | exact Compiler.local_raise _

theorem Compiler.local_ite {α : Type} (c : Prop) [Decidable c] {a b : CM α}
    (ha : Compiler.Local a) (hb : Compiler.Local b) : Compiler.Local (if c then a else b) := by
  split
  · exact ha
  · exact hb

theorem Compiler.local_Expand2 (x : Src) : Compiler.Local (SecdList.Expand2 x) := by
  unfold SecdList.Expand2
  refine Compiler.local_bind (Compiler.local_car _) fun first => ?_
  refine Compiler.local_bind (Compiler.local_cdr _) fun x1 => ?_
  refine Compiler.local_bind (Compiler.local_car _) fun second => ?_
  refine Compiler.local_bind (Compiler.local_cdr _) fun rest => ?_
  exact Compiler.local_ite _ (Compiler.local_raise _) (Compiler.local_pure _)

theorem Compiler.local_Expand3 (x : Src) : Compiler.Local (SecdList.Expand3 x) := by
  unfold SecdList.Expand3
  refine Compiler.local_bind (Compiler.local_car _) fun first => ?_
  refine Compiler.local_bind (Compiler.local_cdr _) fun x1 => ?_
  refine Compiler.local_bind (Compiler.local_car _) fun second => ?_
  refine Compiler.local_bind (Compiler.local_cdr _) fun x2 => ?_
  refine Compiler.local_bind (Compiler.local_car _) fun third => ?_
  refine Compiler.local_bind (Compiler.local_cdr _) fun rest => ?_
  exact Compiler.local_ite _ (Compiler.local_raise _) (Compiler.local_pure _)

theorem Compiler.local_codeHasParent : Compiler.Local Compiler.codeHasParent := by
  intro st r st1 h old
  have hcode : (st.over old).code_ = st.code_ := rfl
  simp only [Compiler.codeHasParent, hcode] at h ⊢
  split at h
  · simp at h
  · rename_i heq
    simp only [Res.ok.injEq] at h
    obtain ⟨rfl, rfl⟩ := h
    rfl
  · rename_i heq
    simp only [Res.ok.injEq] at h
    obtain ⟨rfl, rfl⟩ := h
    rfl

theorem Compiler.local_addSymbol (name : String) : Compiler.Local (Compiler.addSymbol name) := by
  intro st r st1 h old
  have henv : (st.over old).envMap_ = st.envMap_ := rfl
  simp only [Compiler.addSymbol, henv] at h ⊢
  split at h
  · simp at h
  · rename_i heq
    simp only [Res.ok.injEq] at h
    obtain ⟨-, rfl⟩ := h
    rfl

theorem Compiler.local_compileInteger (code : Src) :
    Compiler.Local (Compiler.compileInteger code) :=
  Compiler.local_bind (Compiler.local_addOpcode _) fun _ => Compiler.local_add _

theorem Compiler.local_compileVariableRead (code : Src) :
    Compiler.Local (Compiler.compileVariableRead code) :=
  Compiler.local_bind (Compiler.local_addOpcode _) fun _ =>
    Compiler.local_bind (Compiler.local_indexOf _) fun _ => Compiler.local_add _

theorem Compiler.local_compileTrue : Compiler.Local Compiler.compileTrue :=
  Compiler.local_bind (Compiler.local_addOpcode _) fun _ => Compiler.local_add _

theorem Compiler.local_compileRead (args : Src) : Compiler.Local (Compiler.compileRead args) :=
  Compiler.local_ite _ (Compiler.local_raise _) (Compiler.local_addOpcode _)

theorem Compiler.local_compileQuote (args : Src) :
    Compiler.Local (Compiler.compileQuote args) := by
  unfold Compiler.compileQuote
  refine Compiler.local_ite _ (Compiler.local_raise _) ?_
  refine Compiler.local_bind (Compiler.local_addOpcode _) fun _ => ?_
  refine Compiler.local_bind (Compiler.local_carSrc _) fun _ => ?_
  refine Compiler.local_bind (Compiler.local_add _) fun _ => ?_
  refine Compiler.local_bind (Compiler.local_cdrSrc _) fun _ => ?_
  exact Compiler.local_ite _ (Compiler.local_raise _) (Compiler.local_pure _)

theorem Compiler.local_compileUnaryOperator (f : Src → CM Unit)
    (hf : ∀ c, Compiler.Local (f c)) (opcode : Int) (args : Src) :
    Compiler.Local (Compiler.compileUnaryOperator f opcode args) := by
  unfold Compiler.compileUnaryOperator
  refine Compiler.local_bind (Compiler.local_carSrc _) fun _ => ?_
  refine Compiler.local_bind (hf _) fun _ => ?_
  refine Compiler.local_bind (Compiler.local_cdrSrc _) fun _ => ?_
  exact Compiler.local_ite _ (Compiler.local_raise _) (Compiler.local_addOpcode _)

theorem Compiler.local_compileBinaryOperator (f : Src → CM Unit)
    (hf : ∀ c, Compiler.Local (f c)) (opcode : Int) (args : Src) :
    Compiler.Local (Compiler.compileBinaryOperator f opcode args) := by
  unfold Compiler.compileBinaryOperator
  refine Compiler.local_bind (Compiler.local_Expand2 _) fun x => ?_
  obtain ⟨lhs, rhs⟩ := x
  refine Compiler.local_bind (hf _) fun _ => ?_
  exact Compiler.local_bind (hf _) fun _ => Compiler.local_addOpcode _

theorem Compiler.local_compileIf (f : Src → CM Unit) (hf : ∀ c, Compiler.Local (f c))
    (args : Src) : Compiler.Local (Compiler.compileIf f args) := by
  unfold Compiler.compileIf
  refine Compiler.local_bind (Compiler.local_carSrc _) fun _ => ?_
  refine Compiler.local_bind (hf _) fun _ => ?_
  refine Compiler.local_bind (Compiler.local_cdrSrc _) fun _ => ?_
  refine Compiler.local_bind (Compiler.local_addOpcode _) fun _ => ?_
  refine Compiler.local_bind Compiler.local_enterNewCode fun _ => ?_
  refine Compiler.local_bind (Compiler.local_carSrc _) fun _ => ?_
  refine Compiler.local_bind (hf _) fun _ => ?_
  refine Compiler.local_bind (Compiler.local_cdrSrc _) fun _ => ?_
  refine Compiler.local_bind (Compiler.local_addOpcode _) fun _ => ?_
  refine Compiler.local_bind Compiler.local_unrollAndAppendCode fun _ => ?_
  refine Compiler.local_bind Compiler.local_enterNewCode fun _ => ?_
  refine Compiler.local_bind (Compiler.local_carSrc _) fun _ => ?_
  refine Compiler.local_bind (hf _) fun _ => ?_
  refine Compiler.local_bind (Compiler.local_addOpcode _) fun _ => ?_
  refine Compiler.local_bind Compiler.local_unrollAndAppendCode fun _ => ?_
  refine Compiler.local_bind (Compiler.local_cdrSrc _) fun _ => ?_
  exact Compiler.local_ite _ (Compiler.local_raise _) (Compiler.local_pure _)

theorem Compiler.local_compileLambda2 (f : Src → CM Unit) (hf : ∀ c, Compiler.Local (f c))
    (argNames body : Src) : Compiler.Local (Compiler.compileLambda2 f argNames body) := by
  unfold Compiler.compileLambda2
  refine Compiler.local_bind (Compiler.local_addOpcode _) fun _ => ?_
  refine Compiler.local_bind Compiler.local_enterNewCode fun _ => ?_
  refine Compiler.local_bind (Compiler.local_enterNewEnv _) fun _ => ?_
  refine Compiler.local_bind (hf _) fun _ => ?_
  refine Compiler.local_bind (Compiler.local_addOpcode _) fun _ => ?_
  exact Compiler.local_bind Compiler.local_unrollAndAppendCode fun _ =>
    Compiler.local_unrollEnvironmentMap

theorem Compiler.local_compileLambda (f : Src → CM Unit) (hf : ∀ c, Compiler.Local (f c))
    (args : Src) : Compiler.Local (Compiler.compileLambda f args) := by
  unfold Compiler.compileLambda
  refine Compiler.local_bind (Compiler.local_Expand2 _) fun x => ?_
  obtain ⟨argNames, body⟩ := x
  exact Compiler.local_compileLambda2 f hf _ _

theorem Compiler.local_compileCallArguments (f : Src → CM Unit)
    (hf : ∀ c, Compiler.Local (f c)) :
    ∀ args : Src, Compiler.Local (Compiler.compileCallArguments f args)
  | .cons p a d => by
    have ih := Compiler.local_compileCallArguments f hf d
    intro st r st1 h old
    simp only [Compiler.compileCallArguments] at h ⊢
    by_cases hp : p = Nil
    · simp only [hp, if_true, Res.ok.injEq] at h
      obtain ⟨-, rfl⟩ := h
      simp [hp]
    · simp only [hp, if_false] at h ⊢
      cases hd : Compiler.compileCallArguments f d st with
      | ok u st2 =>
        rw [hd] at h
        rw [ih st u st2 hd old]
        exact Compiler.local_bind (hf a) (fun _ => Compiler.local_addOpcode _) st2 r st1 h old
      | thrown e st2 => rw [hd] at h; simp at h
      | fault e => rw [hd] at h; simp at h
  | .integer q => by
    unfold Compiler.compileCallArguments
    exact Compiler.local_ite _ (Compiler.local_pure _) (Compiler.local_raise _)
  | .symbol q name => by
    unfold Compiler.compileCallArguments
    exact Compiler.local_ite _ (Compiler.local_pure _) (Compiler.local_raise _)
  | .closure q => by
    unfold Compiler.compileCallArguments
    exact Compiler.local_ite _ (Compiler.local_pure _) (Compiler.local_raise _)

theorem Compiler.local_compileFunctionArgs (f : Src → CM Unit)
    (hf : ∀ c, Compiler.Local (f c)) (args : Src) :
    Compiler.Local (Compiler.compileFunctionArgs f args) :=
  Compiler.local_bind (Compiler.local_addOpcode _) fun _ =>
    Compiler.local_compileCallArguments f hf args

theorem Compiler.local_compileApply (f : Src → CM Unit) (hf : ∀ c, Compiler.Local (f c))
    (args : Src) : Compiler.Local (Compiler.compileApply f args) := by
  unfold Compiler.compileApply
  refine Compiler.local_bind (Compiler.local_carSrc _) fun _ => ?_
  refine Compiler.local_bind (Compiler.local_cdrSrc _) fun _ => ?_
  refine Compiler.local_bind (Compiler.local_cdrSrc _) fun _ => ?_
  refine Compiler.local_ite _ (Compiler.local_raise _) ?_
  refine Compiler.local_bind (Compiler.local_compileFunctionArgs f hf _) fun _ => ?_
  exact Compiler.local_bind (hf _) fun _ => Compiler.local_addOpcode _

theorem Compiler.local_compileLet (f : Src → CM Unit) (hf : ∀ c, Compiler.Local (f c))
    (args : Src) : Compiler.Local (Compiler.compileLet f args) := by
  unfold Compiler.compileLet
  refine Compiler.local_bind (Compiler.local_Expand3 _) fun x => ?_
  obtain ⟨argNames, values, body⟩ := x
  refine Compiler.local_bind (Compiler.local_compileFunctionArgs f hf _) fun _ => ?_
  exact Compiler.local_bind (Compiler.local_compileLambda2 f hf _ _) fun _ =>
    Compiler.local_addOpcode _

theorem Compiler.local_compileLetrec (f : Src → CM Unit) (hf : ∀ c, Compiler.Local (f c))
    (args : Src) : Compiler.Local (Compiler.compileLetrec f args) := by
  unfold Compiler.compileLetrec
  refine Compiler.local_bind (Compiler.local_addOpcode _) fun _ => ?_
  refine Compiler.local_bind (Compiler.local_Expand3 _) fun x => ?_
  obtain ⟨argNames, values, body⟩ := x
  refine Compiler.local_bind (Compiler.local_enterNewEnv _) fun _ => ?_
  refine Compiler.local_bind (Compiler.local_compileFunctionArgs f hf _) fun _ => ?_
  refine Compiler.local_bind (Compiler.local_compileLambda2 f hf _ _) fun _ => ?_
  exact Compiler.local_bind (Compiler.local_addOpcode _) fun _ =>
    Compiler.local_unrollEnvironmentMap

theorem Compiler.local_compilePrognLoop (f : Src → CM Unit) (hf : ∀ c, Compiler.Local (f c)) :
    ∀ args : Src, Compiler.Local (Compiler.compilePrognLoop f args)
  | .cons p a rest => by
    have ih := Compiler.local_compilePrognLoop f hf rest
    intro st r st1 h old
    simp only [Compiler.compilePrognLoop] at h ⊢
    cases ha : f a st with
    | ok u st2 =>
      rw [ha] at h
      rw [hf a st u st2 ha old]
      simp only at h ⊢
      by_cases hr : rest.ptr = Nil
      · simp only [hr, if_true, Res.ok.injEq] at h
        obtain ⟨-, rfl⟩ := h
        simp [hr]
      · simp only [hr, if_false] at h ⊢
        cases hp : Code.addOpcode Instruction.POP st2 with
        | ok u2 st3 =>
          rw [hp] at h
          rw [Compiler.local_addOpcode _ st2 u2 st3 hp old]
          exact ih st3 r st1 h old
        | thrown e st3 => rw [hp] at h; simp at h
        | fault e => rw [hp] at h; simp at h
    | thrown e st2 => rw [ha] at h; simp at h
    | fault e => rw [ha] at h; simp at h
  | .integer q => Compiler.local_fail _
  | .symbol q name => Compiler.local_fail _
  | .closure q => Compiler.local_fail _

theorem Compiler.local_compileProgn (f : Src → CM Unit) (hf : ∀ c, Compiler.Local (f c))
    (args : Src) : Compiler.Local (Compiler.compileProgn f args) :=
  Compiler.local_ite _ (Compiler.local_addOpcode _) (Compiler.local_compilePrognLoop f hf args)

theorem Compiler.local_compileDefun (f : Src → CM Unit) (hf : ∀ c, Compiler.Local (f c))
    (args : Src) : Compiler.Local (Compiler.compileDefun f args) := by
  unfold Compiler.compileDefun
  refine Compiler.local_bind Compiler.local_codeHasParent fun b => ?_
  refine Compiler.local_ite _ (Compiler.local_raise _) ?_
  refine Compiler.local_bind (Compiler.local_carSrc _) fun fname => ?_
  cases fname with
  | symbol q name =>
    refine Compiler.local_bind (Compiler.local_addSymbol _) fun _ => ?_
    refine Compiler.local_bind (Compiler.local_cdrSrc _) fun _ => ?_
    exact Compiler.local_bind (Compiler.local_compileLambda f hf _) fun _ =>
      Compiler.local_addOpcode _
  | _ => exact Compiler.local_raise _

theorem Compiler.local_compileCall (f : Src → CM Unit) (hf : ∀ c, Compiler.Local (f c))
    (code : Src) : Compiler.Local (Compiler.compileCall f code) := by
  unfold Compiler.compileCall
  refine Compiler.local_bind (Compiler.local_car _) fun fname => ?_
  refine Compiler.local_bind (Compiler.local_cdr _) fun args => ?_
  have hgen : Compiler.Local (do
      Compiler.compileFunctionArgs f args
      f fname
      Code.addOpcode Instruction.AP) :=
    Compiler.local_bind (Compiler.local_compileFunctionArgs f hf _) fun _ =>
      Compiler.local_bind (hf _) fun _ => Compiler.local_addOpcode _
  repeat' first
    | exact hgen
    | exact Compiler.local_compileBinaryOperator f hf _ _
    | exact Compiler.local_compileUnaryOperator f hf _ _
    | exact Compiler.local_compileRead _
    | exact Compiler.local_compileIf f hf _
    | exact Compiler.local_compileLambda f hf _
    | exact Compiler.local_compileQuote _
    | exact Compiler.local_compileApply f hf _
    | exact Compiler.local_compileDefun f hf _
    | exact Compiler.local_compileLet f hf _
    | exact Compiler.local_compileLetrec f hf _
    | exact Compiler.local_compileProgn f hf _
    | apply Compiler.local_ite

theorem Compiler.local_compileBody (f : Src → CM Unit) (hf : ∀ c, Compiler.Local (f c))
    (code : Src) : Compiler.Local (Compiler.compileBody f code) := by
  cases code with
  | integer q => exact Compiler.local_compileInteger _
  | symbol p name =>
    exact Compiler.local_ite _ (Compiler.local_addOpcode _)
      (Compiler.local_ite _ Compiler.local_compileTrue (Compiler.local_compileVariableRead _))
  | cons p a d => exact Compiler.local_compileCall f hf _
  | closure q => exact Compiler.local_fail _

theorem Compiler.local_compileFuel : ∀ (n : Nat) (code : Src),
    Compiler.Local (Compiler.compileFuel n code)
  | 0, _ => Compiler.local_fail _
  | n + 1, code => Compiler.local_compileBody _ (Compiler.local_compileFuel n) code

/-- A normal run of the compiler reads no cell but those it allocates: below
the heap it ran on there may be any bindings, the result is the same. -/
theorem Compiler.local_compile (code : Src) : Compiler.Local (Compiler.compile code) :=
  Compiler.local_compileFuel _ code

theorem Compiler.local_compileSource (code : Src) :
    Compiler.Local (Compiler.compileSource code) := by
  intro st r st1 h old
  have henv : (st.over old).envMap_ = st.envMap_ := rfl
  have hcode : (st.over old).code_ = st.code_ := rfl
  simp only [Compiler.compileSource, henv, hcode] at h ⊢
  split at h
  · cases hc : Compiler.compile code { st with code_ := [SecdList.empty] } with
    | ok u st2 =>
      rw [hc] at h
      have := Compiler.local_compile code _ u st2 hc old
      simp only [Compiler.over] at this ⊢
      rw [this]
      simp only at h ⊢
      split at h
      · simp only [Res.ok.injEq] at h
        obtain ⟨rfl, rfl⟩ := h
        rfl
      · simp at h
    | thrown e st2 => rw [hc] at h; simp at h
    | fault e => rw [hc] at h; simp at h
  · simp at h

/-! ## The form `apply` -/

theorem Compiler.compileCall_apply (f : Src → CM Unit) (p : Nat) (name : String) (args : Src) :
    Compiler.compileCall f (.cons p (.symbol Symbol.Apply name) args)
      = Compiler.compileApply f args := by
  simp [Compiler.compileCall, Src.isSymbol, Src.ptr, Symbol.Quote, Symbol.Cons, Symbol.Car,
    Symbol.Cdr, Symbol.Consp, Symbol.Add, Symbol.Sub, Symbol.Mul, Symbol.Div, Symbol.Eq,
    Symbol.Lt, Symbol.Gt, Symbol.Print, Symbol.Read, Symbol.If, Symbol.Lambda, Symbol.Apply]

theorem Src.isListOf_nil (args : Src) (h : args.ptr = Nil) : args.IsListOf [] := by
  cases args <;> exact h

/-- C11 (as amended): a form `(apply f a)` with its two operands compiles to
`NIL`, the code of `a`, `CONS`, the code of `f`, `AP`, which is the code of
the general call of `f` on the one argument `a`: the value of `a` is wrapped
in a fresh one-element list before `AP`. -/
theorem apply_code_wraps_operand (p p1 p2 : Nat) (name : String) (f a tl : Src)
    (hp2 : p2 ≠ Nil) (htl : tl.ptr = Nil) :
    Compiler.compile (.cons p (.symbol Symbol.Apply name) (.cons p1 f (.cons p2 a tl)))
        = (do Code.addOpcode Instruction.NIL
              Compiler.compile a
              Code.addOpcode Instruction.CONS
              Compiler.compile f
              Code.addOpcode Instruction.AP) ∧
      Compiler.compile (.cons p (.symbol Symbol.Apply name) (.cons p1 f (.cons p2 a tl)))
        = Spec.callCode Compiler.compile f [a] := by
  have hargs : Compiler.compileCallArguments Compiler.compile (.cons p2 a tl)
      = (do Compiler.compile a; Code.addOpcode Instruction.CONS) := by
    rw [Compiler.compileCallArguments_eq _ [a] (.cons p2 a tl) ⟨hp2, rfl, Src.isListOf_nil tl htl⟩]
    simp [Spec.argumentCode]
  have h : Compiler.compile (.cons p (.symbol Symbol.Apply name) (.cons p1 f (.cons p2 a tl)))
      = (do Code.addOpcode Instruction.NIL
            Compiler.compile a
            Code.addOpcode Instruction.CONS
            Compiler.compile f
            Code.addOpcode Instruction.AP) := by
    rw [Compiler.compile_cons, Compiler.compileCall_apply]
    simp [Compiler.compileApply, Compiler.compileFunctionArgs, hargs, htl]
  refine ⟨h, ?_⟩
  rw [h]
  simp [Spec.callCode, Spec.argumentCode]

theorem apply_code_wraps_operand_example :
    Sample.apply.src
        = .cons 40 (.symbol Symbol.Apply "apply")
            (.cons 39
              (.cons 36 (.symbol Symbol.Lambda "lambda")
                (.cons 35 (.cons 33 (.symbol 32 "x") (.symbol Nil "nil"))
                  (.cons 34 (.symbol 32 "x") (.symbol Nil "nil"))))
              (.cons 38 (.integer 37) (.symbol Nil "nil"))) ∧
      Compiler.compile
          (.cons 40 (.symbol Symbol.Apply "apply")
            (.cons 39
              (.cons 36 (.symbol Symbol.Lambda "lambda")
                (.cons 35 (.cons 33 (.symbol 32 "x") (.symbol Nil "nil"))
                  (.cons 34 (.symbol 32 "x") (.symbol Nil "nil"))))
              (.cons 38 (.integer 37) (.symbol Nil "nil"))))
        = Spec.callCode Compiler.compile
            (.cons 36 (.symbol Symbol.Lambda "lambda")
              (.cons 35 (.cons 33 (.symbol 32 "x") (.symbol Nil "nil"))
                (.cons 34 (.symbol 32 "x") (.symbol Nil "nil"))))
            [.integer 37] :=
  ⟨by decide!,
    (apply_code_wraps_operand 40 39 38 "apply"
      (.cons 36 (.symbol Symbol.Lambda "lambda")
        (.cons 35 (.cons 33 (.symbol 32 "x") (.symbol Nil "nil"))
          (.cons 34 (.symbol 32 "x") (.symbol Nil "nil"))))
      (.integer 37) (.symbol Nil "nil") (by decide) rfl).2⟩

/-- C11 (as stated) fails for `(apply (lambda (x) x) 7)`: the compiler emits
`NIL, LDC 7, CONS, LDF body, AP`, seven values, where the code of the operand,
the code of the function and `AP` are the five values `LDC 7, LDF body, AP`;
the program returns `7`, the first element of the list the operand was
wrapped in. -/
theorem apply_emits_nil_and_cons :
    Compiler.emitted (Compiler.compile Sample.apply.src) (Compiler.reading Sample.apply)
        = some [some Instruction.NIL, some Instruction.LDC, some 7, some Instruction.CONS,
            some Instruction.LDF, none, some Instruction.AP] ∧
      Compiler.emitted
          (Spec.applyCode Compiler.compile
            (.cons 36 (.symbol Symbol.Lambda "lambda")
              (.cons 35 (.cons 33 (.symbol 32 "x") (.symbol Nil "nil"))
                (.cons 34 (.symbol 32 "x") (.symbol Nil "nil"))))
            (.integer 37))
          (Compiler.reading Sample.apply)
        = some [some Instruction.LDC, some 7, some Instruction.LDF, none,
            some Instruction.AP] ∧
      Compiler.compile Sample.apply.src
        ≠ Spec.applyCode Compiler.compile
            (.cons 36 (.symbol Symbol.Lambda "lambda")
              (.cons 35 (.cons 33 (.symbol 32 "x") (.symbol Nil "nil"))
                (.cons 34 (.symbol 32 "x") (.symbol Nil "nil"))))
            (.integer 37) ∧
      resultInt (fun rt => rt.heap) (Runtime.eval 100 Sample.apply (Runtime.new initialHeap []))
        = some 7 := by
  refine ⟨by decide!, by decide!, ?_, by decide!⟩
  intro h
  have h1 := congrArg (fun m => Compiler.emitted m (Compiler.reading Sample.apply)) h
  revert h1
  decide!

/-! ## `defun` below the global scope -/

theorem M.bind_ok_iff {σ α β : Type} (m : M σ α) (f : α → M σ β) (s s2 : σ) (b : β) :
    (m >>= f) s = .ok b s2 ↔ ∃ a s1, m s = .ok a s1 ∧ f a s1 = .ok b s2 := by
  simp only [M.bind_apply]
  cases hm : m s with
  | ok a s1 =>
    constructor
    · intro h
      exact ⟨a, s1, rfl, h⟩
    · rintro ⟨a1, s3, h1, h2⟩
      simp only [Res.ok.injEq] at h1
      obtain ⟨rfl, rfl⟩ := h1
      exact h2
  | thrown e s1 => simp
  | fault x => simp

theorem Code.add_code {value : Nat} {st st1 : Compiler} (h : Code.add value st = .ok () st1) :
    ∃ c c1 parents, st.code_ = c :: parents ∧ st1.code_ = c1 :: parents ∧
      st1.envMap_ = st.envMap_ := by
  unfold Code.add at h
  cases hc : st.code_ with
  | nil => rw [hc] at h; simp at h
  | cons c parents =>
    rw [hc] at h
    simp only at h
    cases ha : c.append value st.heap with
    | error f => rw [ha] at h; simp at h
    | ok r =>
      rw [ha] at h
      simp only [Res.ok.injEq, true_and] at h
      subst h
      exact ⟨c, r.1, parents, rfl, rfl, rfl⟩

theorem Code.addOpcode_code {opcode : Int} {st st1 : Compiler}
    (h : Code.addOpcode opcode st = .ok () st1) :
    ∃ c c1 parents, st.code_ = c :: parents ∧ st1.code_ = c1 :: parents ∧
      st1.envMap_ = st.envMap_ := by
  unfold Code.addOpcode at h
  obtain ⟨v, s1, h1, h2⟩ := (M.bind_ok_iff _ _ _ _ _).1 h
  simp only [Compiler.newInteger, Res.ok.injEq] at h1
  obtain ⟨-, rfl⟩ := h1
  exact @Code.add_code v { st with heap := (st.heap.alloc (.integer opcode)).2 } st1 h2

theorem Compiler.addSymbols_code : ∀ (names : Src) (st st1 : Compiler),
    Compiler.addSymbols names st = .ok () st1 → st1.code_ = st.code_
  | .cons p arg names, st, st1, h => by
    unfold Compiler.addSymbols at h
    split at h
    · simp only [Res.ok.injEq, true_and] at h
      rw [← h]
    · split at h
      · simp at h
      · split at h
        · have h1 := Compiler.addSymbols_code names _ st1 h
          exact h1
        · simp at h
  | .integer _, st, st1, h => by
    unfold Compiler.addSymbols at h
    split at h <;> simp at h
    rw [← h]
  | .symbol _ _, st, st1, h => by
    unfold Compiler.addSymbols at h
    split at h <;> simp at h
    rw [← h]
  | .closure _, st, st1, h => by
    unfold Compiler.addSymbols at h
    split at h <;> simp at h
    rw [← h]

theorem Compiler.compileCall_defun (f : Src → CM Unit) (p : Nat) (name : String) (args : Src) :
    Compiler.compileCall f (.cons p (.symbol Symbol.Defun name) args)
      = Compiler.compileDefun f args := by
  simp [Compiler.compileCall, Src.isSymbol, Src.ptr, Symbol.Quote, Symbol.Cons, Symbol.Car,
    Symbol.Cdr, Symbol.Consp, Symbol.Add, Symbol.Sub, Symbol.Mul, Symbol.Div, Symbol.Eq,
    Symbol.Lt, Symbol.Gt, Symbol.Print, Symbol.Read, Symbol.If, Symbol.Lambda, Symbol.Apply,
    Symbol.Defun]

theorem Compiler.compile_defun_parent (p : Nat) (name : String) (args : Src) (st : Compiler)
    (c parent : SecdList) (rest : List SecdList) (hc : st.code_ = c :: parent :: rest) :
    Compiler.compile (.cons p (.symbol Symbol.Defun name) args) st
      = .thrown Compiler.defunScopeError st := by
  rw [Compiler.compile_cons, Compiler.compileCall_defun]
  simp [Compiler.compileDefun, Compiler.codeHasParent, hc, Compiler.defunScopeError]

/-- C13: a `defun` form compiled while the current code buffer has a parent
fails with the error `defun can only appear at global scope` and leaves the
compiler state as it was, so nothing is emitted, no `DEFUN` either.  The body
of a function (of a `lambda`, `let`, `letrec` or `defun`, all compiled by
`compileLambda(argNames, body)`) and both arms of an `if` are compiled in a
buffer with a parent: with a `defun` form in that place the enclosing form
fails with this error on reaching it. -/
theorem defun_below_global_scope_rejected (p : Nat) (name : String) (args : Src) :
    (∀ (st : Compiler) (c parent : SecdList) (rest : List SecdList),
      st.code_ = c :: parent :: rest →
      Compiler.compile (.cons p (.symbol Symbol.Defun name) args) st
        = .thrown Compiler.defunScopeError st) ∧
    (∀ (names : Src) (st st1 : Compiler),
      (do Code.addOpcode Instruction.LDF
          Compiler.enterNewCode
          Compiler.enterNewEnv names : CM Unit) st = .ok () st1 →
      Compiler.compileLambda2 Compiler.compile names
          (.cons p (.symbol Symbol.Defun name) args) st
        = .thrown Compiler.defunScopeError st1) ∧
    (∀ (q1 q2 : Nat) (c rest : Src) (st st1 : Compiler),
      (do Compiler.compile c
          Code.addOpcode Instruction.SEL
          Compiler.enterNewCode : CM Unit) st = .ok () st1 →
      Compiler.compileIf Compiler.compile
          (.cons q1 c (.cons q2 (.cons p (.symbol Symbol.Defun name) args) rest)) st
        = .thrown Compiler.defunScopeError st1) ∧
    (∀ (q1 q2 q3 : Nat) (c x rest : Src) (st st1 : Compiler),
      (do Compiler.compile c
          Code.addOpcode Instruction.SEL
          Compiler.enterNewCode
          Compiler.compile x
          Code.addOpcode Instruction.JOIN
          Compiler.unrollAndAppendCode
          Compiler.enterNewCode : CM Unit) st = .ok () st1 →
      Compiler.compileIf Compiler.compile
          (.cons q1 c (.cons q2 x (.cons q3 (.cons p (.symbol Symbol.Defun name) args) rest))) st
        = .thrown Compiler.defunScopeError st1) := by
  refine ⟨fun st c parent rest hc => Compiler.compile_defun_parent p name args st c parent rest hc,
    ?_, ?_, ?_⟩
  · intro names st st1 h
    have hpre := h
    obtain ⟨_, s1, h1, h⟩ := (M.bind_ok_iff _ _ _ _ _).1 h
    obtain ⟨_, s2, h2, h3⟩ := (M.bind_ok_iff _ _ _ _ _).1 h
    obtain ⟨c0, c1, parents, -, hc1, -⟩ := Code.addOpcode_code h1
    simp only [Compiler.enterNewCode, Res.ok.injEq, true_and] at h2
    have hc3 := Compiler.addSymbols_code names _ st1 h3
    have hcode : st1.code_ = SecdList.empty :: c1 :: parents := by
      rw [hc3, ← h2, hc1]
    have heq : Compiler.compileLambda2 Compiler.compile names
          (.cons p (.symbol Symbol.Defun name) args)
        = ((do Code.addOpcode Instruction.LDF
               Compiler.enterNewCode
               Compiler.enterNewEnv names : CM Unit) >>= fun _ =>
            (do Compiler.compile (.cons p (.symbol Symbol.Defun name) args)
                Code.addOpcode Instruction.RTN
                Compiler.unrollAndAppendCode
                Compiler.unrollEnvironmentMap)) := by
      simp [Compiler.compileLambda2, bind_assoc]
    rw [heq, M.bind_apply, hpre]
    simp only [M.bind_apply,
      Compiler.compile_defun_parent p name args st1 _ _ _ hcode]
  · intro q1 q2 c rest st st1 h
    have hpre := h
    obtain ⟨_, s1, -, h⟩ := (M.bind_ok_iff _ _ _ _ _).1 h
    obtain ⟨_, s2, h2, h3⟩ := (M.bind_ok_iff _ _ _ _ _).1 h
    obtain ⟨c0, c1, parents, -, hc1, -⟩ := Code.addOpcode_code h2
    simp only [Compiler.enterNewCode, Res.ok.injEq, true_and] at h3
    have hcode : st1.code_ = SecdList.empty :: c1 :: parents := by
      rw [← h3, hc1]
    have heq : ∀ k : CM Unit,
        (do Compiler.compile c
            Code.addOpcode Instruction.SEL
            Compiler.enterNewCode
            k)
        = ((do Compiler.compile c
               Code.addOpcode Instruction.SEL
               Compiler.enterNewCode : CM Unit) >>= fun _ => k) := by
      intro k
      simp [bind_assoc]
    simp only [Compiler.compileIf, carSrc_cons, cdrSrc_cons, pure_bind]
    rw [heq, M.bind_apply, hpre]
    simp only [M.bind_apply,
      Compiler.compile_defun_parent p name args st1 _ _ _ hcode]
  · intro q1 q2 q3 c x rest st st1 h
    have hpre := h
    obtain ⟨_, s1, -, h⟩ := (M.bind_ok_iff _ _ _ _ _).1 h
    obtain ⟨_, s2, -, h⟩ := (M.bind_ok_iff _ _ _ _ _).1 h
    obtain ⟨_, s3, -, h⟩ := (M.bind_ok_iff _ _ _ _ _).1 h
    obtain ⟨_, s4, -, h⟩ := (M.bind_ok_iff _ _ _ _ _).1 h
    obtain ⟨_, s5, -, h⟩ := (M.bind_ok_iff _ _ _ _ _).1 h
    obtain ⟨_, s6, h6, h7⟩ := (M.bind_ok_iff _ _ _ _ _).1 h
    have hs6 : ∃ c1 parents, s6.code_ = c1 :: parents := by
      unfold Compiler.unrollAndAppendCode at h6
      split at h6
      · obtain ⟨_, c1, parents, -, hc1, -⟩ := Code.add_code h6
        exact ⟨c1, parents, hc1⟩
      · simp at h6
    obtain ⟨c1, parents, hc1⟩ := hs6
    simp only [Compiler.enterNewCode, Res.ok.injEq, true_and] at h7
    have hcode : st1.code_ = SecdList.empty :: c1 :: parents := by
      rw [← h7, hc1]
    have heq : ∀ k : CM Unit,
        (do Compiler.compile c
            Code.addOpcode Instruction.SEL
            Compiler.enterNewCode
            Compiler.compile x
            Code.addOpcode Instruction.JOIN
            Compiler.unrollAndAppendCode
            Compiler.enterNewCode
            k)
        = ((do Compiler.compile c
               Code.addOpcode Instruction.SEL
               Compiler.enterNewCode
               Compiler.compile x
               Code.addOpcode Instruction.JOIN
               Compiler.unrollAndAppendCode
               Compiler.enterNewCode : CM Unit) >>= fun _ => k) := by
      intro k
      simp [bind_assoc]
    simp only [Compiler.compileIf, carSrc_cons, cdrSrc_cons, pure_bind]
    rw [heq, M.bind_apply, hpre]
    simp only [M.bind_apply,
      Compiler.compile_defun_parent p name args st1 _ _ _ hcode]

theorem defun_below_global_scope_rejected_example :
    Compiler.compile
        (.cons 40 (.symbol Symbol.Defun "defun")
          (.cons 39 (.symbol 34 "f")
            (.cons 38 (.cons 36 (.symbol 35 "y") (.symbol Nil "nil"))
              (.cons 37 (.symbol 35 "y") (.symbol Nil "nil")))))
        ⟨initialHeap, [SecdList.empty, SecdList.empty], [[]]⟩
      = .thrown Compiler.defunScopeError
          ⟨initialHeap, [SecdList.empty, SecdList.empty], [[]]⟩ ∧
    Compiler.compileLambda2 Compiler.compile (.cons 33 (.symbol 32 "x") (.symbol Nil "nil"))
        (.cons 40 (.symbol Symbol.Defun "defun")
          (.cons 39 (.symbol 34 "f")
            (.cons 38 (.cons 36 (.symbol 35 "y") (.symbol Nil "nil"))
              (.cons 37 (.symbol 35 "y") (.symbol Nil "nil")))))
        Compiler.started
      = .thrown Compiler.defunScopeError
          (Compiler.stateAfter
            (do Code.addOpcode Instruction.LDF
                Compiler.enterNewCode
                Compiler.enterNewEnv (.cons 33 (.symbol 32 "x") (.symbol Nil "nil")) : CM Unit)
            Compiler.started) ∧
    Compiler.compileIf Compiler.compile
        (.cons 43 (.integer 32)
          (.cons 42
            (.cons 40 (.symbol Symbol.Defun "defun")
              (.cons 39 (.symbol 34 "f")
                (.cons 38 (.cons 36 (.symbol 35 "y") (.symbol Nil "nil"))
                  (.cons 37 (.symbol 35 "y") (.symbol Nil "nil")))))
            (.cons 41 (.integer 33) (.symbol Nil "nil"))))
        Compiler.started
      = .thrown Compiler.defunScopeError
          (Compiler.stateAfter
            (do Compiler.compile (.integer 32)
                Code.addOpcode Instruction.SEL
                Compiler.enterNewCode : CM Unit)
            Compiler.started) ∧
    Compiler.compileIf Compiler.compile
        (.cons 43 (.integer 32)
          (.cons 42 (.integer 33)
            (.cons 41
              (.cons 40 (.symbol Symbol.Defun "defun")
                (.cons 39 (.symbol 34 "f")
                  (.cons 38 (.cons 36 (.symbol 35 "y") (.symbol Nil "nil"))
                    (.cons 37 (.symbol 35 "y") (.symbol Nil "nil")))))
              (.symbol Nil "nil"))))
        Compiler.started
      = .thrown Compiler.defunScopeError
          (Compiler.stateAfter
            (do Compiler.compile (.integer 32)
                Code.addOpcode Instruction.SEL
                Compiler.enterNewCode
                Compiler.compile (.integer 33)
                Code.addOpcode Instruction.JOIN
                Compiler.unrollAndAppendCode
                Compiler.enterNewCode : CM Unit)
            Compiler.started) ∧
    (∀ source ∈ [Sample.defunInLambda, Sample.defunInThen, Sample.defunInElse,
        Sample.defunInLet, Sample.defunInLetrec, Sample.defunInDefun],
      Res.error? (Compiler.compileText source) = some Compiler.defunScopeError) :=
  have h := defun_below_global_scope_rejected 40 "defun"
    (.cons 39 (.symbol 34 "f")
      (.cons 38 (.cons 36 (.symbol 35 "y") (.symbol Nil "nil"))
        (.cons 37 (.symbol 35 "y") (.symbol Nil "nil"))))
  ⟨h.1 _ SecdList.empty SecdList.empty [] rfl,
    h.2.1 _ Compiler.started _ (by decide!),
    h.2.2.1 43 42 (.integer 32) _ Compiler.started _ (by decide!),
    h.2.2.2 43 42 41 (.integer 32) (.integer 33) _ Compiler.started _ (by decide!),
    by decide!⟩

/-- The guard of `compileDefun` looks at the code buffers only: a `defun` form
is accepted exactly when the current code buffer has no parent, with no regard
to the environment chain: with a
parent buffer the form is rejected with the state unchanged; with none, the
name is added to the current frame, the first of the chain, and the form
compiles as the lambda followed by `DEFUN`.  The current frame is the global
frame when the chain consists of the global frame alone. -/
theorem defun_accepted_without_parent_buffer (p p1 q : Nat) (name fname : String) (rest : Src)
    (st : Compiler) (c : SecdList) (buffers : List SecdList) (e : EnvironmentMap)
    (parents : List EnvironmentMap) (hc : st.code_ = c :: buffers)
    (he : st.envMap_ = e :: parents) :
    (buffers ≠ [] →
      Compiler.compile (.cons p (.symbol Symbol.Defun name) (.cons p1 (.symbol q fname) rest)) st
        = .thrown Compiler.defunScopeError st) ∧
    (buffers = [] →
      Compiler.compile (.cons p (.symbol Symbol.Defun name) (.cons p1 (.symbol q fname) rest)) st
        = (do Compiler.compileLambda Compiler.compile rest
              Code.addOpcode Instruction.DEFUN)
            { st with envMap_ := e.addSymbol fname :: parents }) := by
  constructor
  · intro hb
    cases buffers with
    | nil => exact absurd rfl hb
    | cons parent more => exact Compiler.compile_defun_parent p name _ st c parent more hc
  · intro hb
    subst hb
    rw [Compiler.compile_cons, Compiler.compileCall_defun]
    simp [Compiler.compileDefun, Compiler.codeHasParent, hc, Compiler.addSymbol, he]

theorem defun_accepted_without_parent_buffer_example :
    Compiler.compile
        (.cons 40 (.symbol Symbol.Defun "defun")
          (.cons 39 (.symbol 34 "g")
            (.cons 38 (.cons 36 (.symbol 35 "x") (.symbol Nil "nil"))
              (.cons 37 (.symbol 35 "x") (.symbol Nil "nil")))))
        ⟨initialHeap, [SecdList.empty, SecdList.empty], [[]]⟩
      = .thrown Compiler.defunScopeError
          ⟨initialHeap, [SecdList.empty, SecdList.empty], [[]]⟩ ∧
    Compiler.compile
        (.cons 40 (.symbol Symbol.Defun "defun")
          (.cons 39 (.symbol 34 "g")
            (.cons 38 (.cons 36 (.symbol 35 "x") (.symbol Nil "nil"))
              (.cons 37 (.symbol 35 "x") (.symbol Nil "nil")))))
        ⟨initialHeap, [SecdList.empty], [[("f", 0)], []]⟩
      = (do Compiler.compileLambda Compiler.compile
              (.cons 38 (.cons 36 (.symbol 35 "x") (.symbol Nil "nil"))
                (.cons 37 (.symbol 35 "x") (.symbol Nil "nil")))
            Code.addOpcode Instruction.DEFUN)
          ⟨initialHeap, [SecdList.empty],
            [EnvironmentMap.addSymbol [("f", 0)] "g", []]⟩ :=
  ⟨(defun_accepted_without_parent_buffer 40 39 34 "defun" "g"
      (.cons 38 (.cons 36 (.symbol 35 "x") (.symbol Nil "nil"))
        (.cons 37 (.symbol 35 "x") (.symbol Nil "nil")))
      ⟨initialHeap, [SecdList.empty, SecdList.empty], [[]]⟩ SecdList.empty [SecdList.empty]
      [] [] rfl rfl).1 (by decide),
    (defun_accepted_without_parent_buffer 40 39 34 "defun" "g"
      (.cons 38 (.cons 36 (.symbol 35 "x") (.symbol Nil "nil"))
        (.cons 37 (.symbol 35 "x") (.symbol Nil "nil")))
      ⟨initialHeap, [SecdList.empty], [[("f", 0)], []]⟩ SecdList.empty []
      [("f", 0)] [[]] rfl rfl).2 rfl⟩

/-- C14: a `defun` below the global scope gets past the guard of
`compileDefun` in the values of a `letrec`.  For
`(letrec (f) ((defun g (x) x)) 1)` the values of the top-level `letrec` are
compiled into the top-level buffer after the frame of the `letrec` has been
entered, so the guard, which tests the code buffer, accepts the `defun` while
the environment chain has two frames, and `g` is added to the frame of the
`letrec`, not to the global frame.  The program compiles; run, `DEFUN` appends
the closure to the dummy frame and the machine fails the assertion of `RAP`
that the dummy environment is expected. -/
theorem defun_accepted_in_letrec_values :
    (Compiler.stateAfter
        (do Code.addOpcode Instruction.DUM
            Compiler.enterNewEnv (.cons 33 (.symbol 32 "f") (.symbol Nil "nil"))
            Code.addOpcode Instruction.NIL : CM Unit)
        (Compiler.reading Sample.defunInLetrecValues)).envMap_ = [[("f", 0)], []] ∧
      (Compiler.stateAfter
        (do Code.addOpcode Instruction.DUM
            Compiler.enterNewEnv (.cons 33 (.symbol 32 "f") (.symbol Nil "nil"))
            Code.addOpcode Instruction.NIL
            Compiler.compile
              (.cons 40 (.symbol Symbol.Defun "defun")
                (.cons 39 (.symbol 34 "g")
                  (.cons 38 (.cons 36 (.symbol 35 "x") (.symbol Nil "nil"))
                    (.cons 37 (.symbol 35 "x") (.symbol Nil "nil"))))) : CM Unit)
        (Compiler.reading Sample.defunInLetrecValues)).envMap_
        = [[("f", 0), ("g", 1)], []] ∧
      Res.isOk
        ((do Code.addOpcode Instruction.DUM
             Compiler.enterNewEnv (.cons 33 (.symbol 32 "f") (.symbol Nil "nil"))
             Code.addOpcode Instruction.NIL
             Compiler.compile
               (.cons 40 (.symbol Symbol.Defun "defun")
                 (.cons 39 (.symbol 34 "g")
                   (.cons 38 (.cons 36 (.symbol 35 "x") (.symbol Nil "nil"))
                     (.cons 37 (.symbol 35 "x") (.symbol Nil "nil"))))) : CM Unit)
          (Compiler.reading Sample.defunInLetrecValues)) = true ∧
      Res.isOk (Compiler.compileText Sample.defunInLetrecValues) = true ∧
      Runtime.eval 100 Sample.defunInLetrecValues (Runtime.new initialHeap [])
        = .fault .assertion := by
  refine ⟨by decide!, by decide!, by decide!, by decide!, by decide!⟩

/-! ## Rounds of the loop, instruction by instruction -/

theorem Runtime.reaches_zero (rt : Runtime) : Runtime.Reaches 0 rt rt := fun _ => rfl

theorem Runtime.reaches_step {n : Nat} {rt rt1 rt2 : Runtime} (hc : rt.c_ ≠ Nil)
    (hstep : Runtime.step rt = .ok () rt1) (h : Runtime.Reaches n rt1 rt2) :
    Runtime.Reaches (n + 1) rt rt2 := by
  intro fuel
  rw [← Nat.add_assoc]
  simp only [Runtime.loop, if_neg hc, hstep]
  exact h fuel

theorem Runtime.reaches_trans {n m : Nat} {rt rt1 rt2 : Runtime}
    (h1 : Runtime.Reaches n rt rt1) (h2 : Runtime.Reaches m rt1 rt2) :
    Runtime.Reaches (m + n) rt rt2 := by
  intro fuel
  rw [← Nat.add_assoc, h1, h2]

theorem Runtime.loop_of_reaches {n : Nat} {rt rt1 : Runtime} (h : Runtime.Reaches n rt rt1)
    (hc : rt1.c_ = Nil) (fuel : Nat) (hfuel : n ≤ fuel) : Runtime.loop fuel rt = .ok () rt1 := by
  obtain ⟨m, rfl⟩ : ∃ m, fuel = m + n := ⟨fuel - n, by omega⟩
  rw [h m]
  cases m <;> simp [Runtime.loop, hc]

theorem Environment.locate_0_0 (h : Heap) (e index dc oc frame parent v rest : Nat)
    (hi : h.get? index = some (.cons dc oc))
    (hd : h.get? dc = some (.integer 0)) (ho : h.get? oc = some (.integer 0))
    (he : h.get? e = some (.cons frame parent))
    (hf : h.get? frame = some (.cons v rest)) :
    Environment.locate h e index = .ok v := by
  simp [Environment.locate, Heap.car, Heap.cdr, Heap.valueInt, hi, hd, ho, Environment.skip, he,
    hf, bind, Except.bind]

theorem Environment.locate_1_0 (h : Heap) (e index dc oc frame parent frame1 parent1 v rest : Nat)
    (hi : h.get? index = some (.cons dc oc))
    (hd : h.get? dc = some (.integer 1)) (ho : h.get? oc = some (.integer 0))
    (he : h.get? e = some (.cons frame parent))
    (hp : h.get? parent = some (.cons frame1 parent1))
    (hf : h.get? frame1 = some (.cons v rest)) :
    Environment.locate h e index = .ok v := by
  simp [Environment.locate, Heap.car, Heap.cdr, Heap.valueInt, hi, hd, ho, Environment.skip, he,
    hp, hf, bind, Except.bind]

theorem Runtime.step_NIL (rt : Runtime) (op rest : Nat)
    (hc : rt.heap.get? rt.c_ = some (.cons op rest))
    (hop : rt.heap.get? op = some (.integer Instruction.NIL)) :
    Runtime.step rt
      = .ok () { rt with heap := (rt.heap.alloc (.cons Nil rt.s_)).2, s_ := rt.heap.size,
                         c_ := rest } := by
  rw [Runtime.step_fetch rt op rest _ hc hop, Runtime.execute_NIL]

theorem Runtime.step_LDC (rt : Runtime) (op c1 x rest : Nat)
    (hc : rt.heap.get? rt.c_ = some (.cons op c1))
    (hop : rt.heap.get? op = some (.integer Instruction.LDC))
    (hx : rt.heap.get? c1 = some (.cons x rest)) :
    Runtime.step rt
      = .ok () { rt with heap := (rt.heap.alloc (.cons x rt.s_)).2, s_ := rt.heap.size,
                         c_ := rest } := by
  rw [Runtime.step_fetch rt op c1 _ hc hop, Runtime.execute_LDC { rt with c_ := c1 } x rest hx]

theorem Runtime.step_LD (rt : Runtime) (op c1 index rest v : Nat)
    (hc : rt.heap.get? rt.c_ = some (.cons op c1))
    (hop : rt.heap.get? op = some (.integer Instruction.LD))
    (hx : rt.heap.get? c1 = some (.cons index rest))
    (hloc : Environment.locate rt.heap rt.e_ index = .ok v) :
    Runtime.step rt
      = .ok () { rt with heap := (rt.heap.alloc (.cons v rt.s_)).2, s_ := rt.heap.size,
                         c_ := rest } := by
  rw [Runtime.step_fetch rt op c1 _ hc hop]
  simp [Runtime.execute, Instruction.LD, Instruction.NIL, Instruction.LDC, Runtime.popC, hx, hloc,
    Runtime.pushS]

theorem Runtime.step_JOIN (rt : Runtime) (op c1 c d0 : Nat)
    (hc : rt.heap.get? rt.c_ = some (.cons op c1))
    (hop : rt.heap.get? op = some (.integer Instruction.JOIN))
    (hd : rt.heap.get? rt.d_ = some (.cons c d0))
    (hcv : Stack.valid rt.heap c = true) :
    Runtime.step rt = .ok () { rt with c_ := c, d_ := d0 } := by
  rw [Runtime.step_fetch rt op c1 _ hc hop,
    Runtime.execute_JOIN { rt with c_ := c1 } c d0 hd hcv]

theorem Runtime.step_CONS (rt : Runtime) (op rest lhs rhs s1 s0 : Nat)
    (hc : rt.heap.get? rt.c_ = some (.cons op rest))
    (hop : rt.heap.get? op = some (.integer Instruction.CONS))
    (hs : rt.heap.get? rt.s_ = some (.cons lhs s1))
    (hs1 : rt.heap.get? s1 = some (.cons rhs s0)) :
    Runtime.step rt
      = .ok () { rt with
          heap := ((rt.heap.alloc (.cons lhs rhs)).2.alloc (.cons rt.heap.size s0)).2,
          s_ := rt.heap.size + 1, c_ := rest } := by
  rw [Runtime.step_fetch rt op rest _ hc hop,
    Runtime.execute_CONS { rt with c_ := rest } lhs rhs s1 s0 hs hs1]

theorem Runtime.step_binary (bop : BinaryPrimitive) (rt : Runtime) (op rest va vb s1 s0 : Nat)
    (a b : Int)
    (hc : rt.heap.get? rt.c_ = some (.cons op rest))
    (hop : rt.heap.get? op = some (.integer bop.opcode))
    (hs : rt.heap.get? rt.s_ = some (.cons va s1))
    (hs1 : rt.heap.get? s1 = some (.cons vb s0))
    (ha : rt.heap.get? va = some (.integer a)) (hb : rt.heap.get? vb = some (.integer b))
    (hlo : -(2 ^ 63) ≤ bop.specified a b) (hhi : bop.specified a b < 2 ^ 63)
    (hdiv : bop = .div → b ≠ 0) :
    Runtime.step rt
      = .ok () { rt with
          heap := ((rt.heap.alloc (.integer (bop.specified a b))).2.alloc
            (.cons rt.heap.size s0)).2,
          s_ := rt.heap.size + 1, c_ := rest } := by
  rw [Runtime.step_fetch rt op rest _ hc hop,
    Runtime.execute_binary bop { rt with c_ := rest } va vb s1 s0 a b hs hs1 ha hb hlo hhi hdiv]

theorem Runtime.step_EQ (rt : Runtime) (op rest va vb s1 s0 : Nat) (a b : Int)
    (hc : rt.heap.get? rt.c_ = some (.cons op rest))
    (hop : rt.heap.get? op = some (.integer Instruction.EQ))
    (hs : rt.heap.get? rt.s_ = some (.cons va s1))
    (hs1 : rt.heap.get? s1 = some (.cons vb s0))
    (ha : rt.heap.get? va = some (.integer a)) (hb : rt.heap.get? vb = some (.integer b)) :
    Runtime.step rt
      = .ok () { rt with
          heap := ((rt.heap.alloc (.integer (if a = b then 1 else 0))).2.alloc
            (.cons rt.heap.size s0)).2,
          s_ := rt.heap.size + 1, c_ := rest } := by
  rw [Runtime.step_fetch rt op rest _ hc hop]
  simp [Runtime.execute, Instruction.CONS, Instruction.POP,
    Instruction.NIL, Instruction.LDC, Instruction.LD, Instruction.SEL, Instruction.JOIN,
    Instruction.LDF, Instruction.AP, Instruction.RTN, Instruction.DUM, Instruction.RAP,
    Instruction.DEFUN, Instruction.CAR, Instruction.CDR, Instruction.CONSP, Instruction.ADD,
    Instruction.SUB, Instruction.MUL, Instruction.DIV, Instruction.EQ, Runtime.popS, hs, hs1,
    getHeap, Heap.isInteger, ha, hb, valueInt, Heap.valueInt, Runtime.newInteger, Runtime.pushS]

theorem Runtime.step_SEL (rt : Runtime) (op c0 cond s0 trueCase c1 falseCase rest : Nat)
    (hc : rt.heap.get? rt.c_ = some (.cons op c0))
    (hop : rt.heap.get? op = some (.integer Instruction.SEL))
    (hwf : rt.heap.WF) (hcond : (rt.heap.get? cond).isSome = true)
    (hs : rt.heap.get? rt.s_ = some (.cons cond s0))
    (hc0 : rt.heap.get? c0 = some (.cons trueCase c1))
    (hc1 : rt.heap.get? c1 = some (.cons falseCase rest))
    (ht : Stack.valid rt.heap trueCase = true) (hf : Stack.valid rt.heap falseCase = true) :
    Runtime.step rt
      = .ok () { rt with heap := (rt.heap.alloc (.cons rest rt.d_)).2, s_ := s0,
                         c_ := if toBoolean rt.heap cond then trueCase else falseCase,
                         d_ := rt.heap.size } := by
  rw [Runtime.step_fetch rt op c0 _ hc hop,
    Runtime.execute_SEL { rt with c_ := c0 } cond s0 trueCase c1 falseCase rest hwf hcond hs hc0
      hc1 ht hf]

theorem Runtime.step_POP (rt : Runtime) (op rest v s0 : Nat)
    (hc : rt.heap.get? rt.c_ = some (.cons op rest))
    (hop : rt.heap.get? op = some (.integer Instruction.POP))
    (hs : rt.heap.get? rt.s_ = some (.cons v s0)) :
    Runtime.step rt = .ok () { rt with s_ := s0, c_ := rest } := by
  rw [Runtime.step_fetch rt op rest _ hc hop, Runtime.execute_POP { rt with c_ := rest } v s0 hs]

theorem Runtime.step_LDF (rt : Runtime) (op c1 body rest : Nat)
    (hc : rt.heap.get? rt.c_ = some (.cons op c1))
    (hop : rt.heap.get? op = some (.integer Instruction.LDF))
    (hx : rt.heap.get? c1 = some (.cons body rest)) :
    Runtime.step rt
      = .ok () { rt with
          heap := ((rt.heap.alloc (.closure body rt.e_)).2.alloc (.cons rt.heap.size rt.s_)).2,
          s_ := rt.heap.size + 1, c_ := rest } := by
  rw [Runtime.step_fetch rt op c1 _ hc hop]
  simp [Runtime.execute, Instruction.LD, Instruction.NIL, Instruction.LDC, Instruction.SEL,
    Instruction.JOIN, Instruction.LDF, Runtime.popC, hx, Runtime.newClosure, Runtime.pushS]

theorem Runtime.step_DUM (rt : Runtime) (op rest : Nat)
    (hc : rt.heap.get? rt.c_ = some (.cons op rest))
    (hop : rt.heap.get? op = some (.integer Instruction.DUM)) :
    Runtime.step rt
      = .ok () { rt with heap := (rt.heap.alloc (.cons Nil rt.e_)).2, e_ := rt.heap.size,
                         c_ := rest } := by
  rw [Runtime.step_fetch rt op rest _ hc hop]
  simp [Runtime.execute, Instruction.LD, Instruction.NIL, Instruction.LDC, Instruction.SEL,
    Instruction.JOIN, Instruction.LDF, Instruction.AP, Instruction.RTN, Instruction.DUM,
    Environment.insertDummyEnvironment]

theorem Runtime.step_RTN (rt : Runtime) (op rest result s1 ctx d0 s0 ctx1 e0 ctx2 c0 x : Nat)
    (hc : rt.heap.get? rt.c_ = some (.cons op rest))
    (hop : rt.heap.get? op = some (.integer Instruction.RTN))
    (hs : rt.heap.get? rt.s_ = some (.cons result s1))
    (hd : rt.heap.get? rt.d_ = some (.cons ctx d0))
    (hctx : rt.heap.get? ctx = some (.cons s0 ctx1))
    (hctx1 : rt.heap.get? ctx1 = some (.cons e0 ctx2))
    (hctx2 : rt.heap.get? ctx2 = some (.cons c0 x))
    (hs0 : Stack.valid rt.heap s0 = true) (he0 : rt.heap.isCons e0 = true)
    (hc0 : Stack.valid rt.heap c0 = true) :
    Runtime.step rt
      = .ok () { rt with heap := (rt.heap.alloc (.cons result s0)).2, s_ := rt.heap.size,
                         e_ := e0, c_ := c0, d_ := d0 } := by
  rw [Runtime.step_fetch rt op rest _ hc hop]
  simp [Runtime.execute, Instruction.LD, Instruction.NIL, Instruction.LDC, Instruction.SEL,
    Instruction.JOIN, Instruction.LDF, Instruction.AP, Instruction.RTN, Runtime.popS, hs,
    Runtime.popD, hd, getHeap, Heap.car, Heap.cdr, hctx, hctx1, hctx2, Runtime.setS, hs0,
    Runtime.setE, he0, Runtime.setC, hc0, Runtime.pushS]

theorem SecdList.ofValues_three (h : Heap) (a b c : Nat) :
    SecdList.ofValues [a, b, c] h
      = .ok (⟨h.size, h.size + 2⟩,
          ((((h.alloc (.cons a Nil)).2.alloc (.cons b Nil)).2.set h.size
            (.cons a (h.size + 1))).alloc (.cons c Nil)).2.set (h.size + 1)
              (.cons b (h.size + 2))) := by
  simp [SecdList.ofValues, SecdList.appendAll, Heap.setCdr, Heap.get?_set, Heap.get?_alloc]

/-- The heap after `AP` or `RAP` has saved the registers `s`, `e` and `c` on
the dump `d`: the list of the three and the new cell of the dump. -/
theorem Runtime.saveContext_eq (rt : Runtime) :
    Runtime.saveContext rt
      = .ok () { rt with
          heap := ((((((rt.heap.alloc (.cons rt.s_ Nil)).2.alloc (.cons rt.e_ Nil)).2.set
            rt.heap.size (.cons rt.s_ (rt.heap.size + 1))).alloc (.cons rt.c_ Nil)).2.set
              (rt.heap.size + 1) (.cons rt.e_ (rt.heap.size + 2))).alloc
                (.cons rt.heap.size rt.d_)).2,
          d_ := rt.heap.size + 3 } := by
  simp [Runtime.saveContext, SecdList.ofValues_three, Runtime.pushD]

/-! ## Parameter lists and their offsets -/

theorem EnvironmentMap.find_append (m : EnvironmentMap) (n name : String) (v : Int) :
    EnvironmentMap.find (m ++ [(n, v)]) name
      = match EnvironmentMap.find m name with
        | some x => some x
        | none => if n = name then some v else none := by
  unfold EnvironmentMap.find
  rw [List.find?_append]
  cases hf : List.find? (fun e => e.1 == name) m with
  | some x => simp
  | none =>
    by_cases hn : n = name
    · simp [List.find?, hn]
    · have hb : (n == name) = false := by simpa using hn
      simp [List.find?, hn, hb]

theorem EnvironmentMap.find_addSymbol_of_some (m : EnvironmentMap) (n name : String) (v : Int)
    (h : EnvironmentMap.find m name = some v) :
    EnvironmentMap.find (m.addSymbol n) name = some v := by
  unfold EnvironmentMap.addSymbol
  split
  · exact h
  · rw [EnvironmentMap.find_append, h]

theorem EnvironmentMap.find_foldl_of_some (ns : List String) :
    ∀ (m : EnvironmentMap) (name : String) (v : Int), EnvironmentMap.find m name = some v →
      EnvironmentMap.find (ns.foldl EnvironmentMap.addSymbol m) name = some v := by
  induction ns with
  | nil => intro m name v h; exact h
  | cons n ns ih =>
    intro m name v h
    exact ih _ name v (EnvironmentMap.find_addSymbol_of_some m n name v h)

/-- Pairwise distinct names that are new to a frame get the consecutive
offsets that start at the size of the frame. -/
theorem EnvironmentMap.find_foldl_nodup (ns : List String) :
    ∀ (m : EnvironmentMap), ns.Nodup → (∀ n ∈ ns, EnvironmentMap.find m n = none) →
      ∀ (i : Nat) (name : String), ns[i]? = some name →
        EnvironmentMap.find (ns.foldl EnvironmentMap.addSymbol m) name
          = some ((m.length + i : Nat) : Int) := by
  induction ns with
  | nil => intro m _ _ i name h; simp at h
  | cons n ns ih =>
    intro m hnd hnew i name hi
    rw [List.nodup_cons] at hnd
    have hn : EnvironmentMap.find m n = none := hnew n (List.mem_cons_self _ _)
    have hadd : m.addSymbol n = m ++ [(n, (m.length : Int))] := by
      unfold EnvironmentMap.addSymbol
      rw [hn]
    have hfind : EnvironmentMap.find (m.addSymbol n) n = some (m.length : Int) := by
      rw [hadd, EnvironmentMap.find_append, hn]
      simp
    simp only [List.foldl_cons]
    cases i with
    | zero =>
      simp only [List.getElem?_cons_zero, Option.some.injEq] at hi
      subst hi
      simpa using EnvironmentMap.find_foldl_of_some ns _ n _ hfind
    | succ j =>
      simp only [List.getElem?_cons_succ] at hi
      have hnew1 : ∀ n1 ∈ ns, EnvironmentMap.find (m.addSymbol n) n1 = none := by
        intro n1 hn1
        rw [hadd, EnvironmentMap.find_append, hnew n1 (List.mem_cons_of_mem _ hn1)]
        have hne : n ≠ n1 := fun h => hnd.1 (h ▸ hn1)
        simp [hne]
      have h1 := ih (m.addSymbol n) hnd.2 hnew1 j name hi
      rw [h1, hadd]
      simp only [List.length_append, List.length_singleton]
      congr 1
      push_cast
      omega

theorem Compiler.addSymbols_eq : ∀ (ps : List (Nat × String)) (names : Src) (st : Compiler)
    (e : EnvironmentMap) (parents : List EnvironmentMap),
    names.IsListOf (ps.map Src.ofParameter) → st.envMap_ = e :: parents →
    Compiler.addSymbols names st
      = .ok () { st with
          envMap_ := (ps.map Prod.snd).foldl EnvironmentMap.addSymbol e :: parents }
  | [], names, st, e, parents, hl, he => by
    have hp : names.ptr = Nil := by cases names <;> exact hl
    have hst : { st with envMap_ := e :: parents } = st := by rw [← he]
    simp only [List.map_nil, List.foldl_nil, hst]
    cases names with
    | cons p a d =>
      unfold Compiler.addSymbols
      simp only [Src.ptr] at hp
      simp [hp]
    | integer _ => unfold Compiler.addSymbols; simp [hp]
    | symbol _ _ => unfold Compiler.addSymbols; simp [hp]
    | closure _ => unfold Compiler.addSymbols; simp [hp]
  | x :: ps, names, st, e, parents, hl, he => by
    cases names with
    | cons p a d =>
      simp only [List.map_cons, Src.IsListOf] at hl
      obtain ⟨hp, ha, hd⟩ := hl
      subst ha
      unfold Compiler.addSymbols
      simp only [hp, if_false, Src.ofParameter, Src.isSymbol, Bool.not_true, he]
      rw [Compiler.addSymbols_eq ps d _ (e.addSymbol x.2) parents hd rfl]
      simp
    | integer _ => simp [Src.IsListOf] at hl
    | symbol _ _ => simp [Src.IsListOf] at hl
    | closure _ => simp [Src.IsListOf] at hl

theorem Environment.skip_list (h : Heap) : ∀ (k l : Nat) (vs : List Nat) (v : Nat),
    IsList h l vs → vs[k]? = some v →
    ∃ x d, Environment.skip h k l = .ok x ∧ h.get? x = some (.cons v d)
  | 0, l, [], v, _, hv => by simp at hv
  | 0, l, w :: vs, v, hl, hv => by
    simp only [List.getElem?_cons_zero, Option.some.injEq] at hv
    subst hv
    obtain ⟨d, hg, -⟩ := (IsList.cons_iff h l w vs).1 hl
    exact ⟨l, d, rfl, hg⟩
  | k + 1, l, [], v, _, hv => by simp at hv
  | k + 1, l, w :: vs, v, hl, hv => by
    simp only [List.getElem?_cons_succ] at hv
    obtain ⟨d, hg, hrest⟩ := (IsList.cons_iff h l w vs).1 hl
    obtain ⟨x, d1, hs, hx⟩ := Environment.skip_list h k d vs v hrest hv
    refine ⟨x, d1, ?_, hx⟩
    simp only [Environment.skip, Heap.cdr, hg]
    exact hs

theorem Compiler.compile_variable (q : Nat) (name : String) (hq : q ≠ Nil) (hqT : q ≠ Symbol.T) :
    Compiler.compile (.symbol q name) = Compiler.compileVariableRead (.symbol q name) := by
  rw [Compiler.compile_eq]
  simp [Compiler.compileBody, hq, hqT]

/-- Parameter lists without a repeated name: for a parameter list of pairwise
distinct names `(a0 .. a(n-1))`, the new environment frame assigns to the name at position
`k` the offset `k`; a reference to that name compiled with this frame as the
current one is `LD (0 . k)`; and `LD (0 . k)` executed when the first frame of
`E` is the argument list `(v0 .. v(n-1))`, as `AP` leaves it, pushes `vk`. -/
theorem parameter_offset_is_position (ps : List (Nat × String)) (names : Src) (st : Compiler)
    (k q : Nat) (name : String) (rt : Runtime) (ldOp c1 index rest d o argList env v : Nat)
    (vs : List Nat)
    (hnames : names.IsListOf (ps.map Src.ofParameter))
    (hnodup : (ps.map Prod.snd).Nodup)
    (hk : (ps.map Prod.snd)[k]? = some name)
    (hq : q ≠ Nil) (hqT : q ≠ Symbol.T)
    (hc : rt.heap.get? rt.c_ = some (.cons ldOp c1))
    (hld : rt.heap.get? ldOp = some (.integer Instruction.LD))
    (hc1 : rt.heap.get? c1 = some (.cons index rest))
    (hindex : rt.heap.get? index = some (.cons d o))
    (hd : rt.heap.get? d = some (.integer 0))
    (ho : rt.heap.get? o = some (.integer k))
    (he : rt.heap.get? rt.e_ = some (.cons argList env))
    (hargs : IsList rt.heap argList vs) (hv : vs[k]? = some v) :
    (∃ frame : EnvironmentMap,
      Compiler.enterNewEnv names st = .ok () { st with envMap_ := frame :: st.envMap_ } ∧
      EnvironmentMap.find frame name = some (k : Int) ∧
      Compiler.compile (.symbol q name) { st with envMap_ := frame :: st.envMap_ }
        = (do Code.addOpcode Instruction.LD
              let index ← (do let d ← Compiler.newInteger 0
                              let o ← Compiler.newInteger k
                              Compiler.newCons d o)
              Code.add index) { st with envMap_ := frame :: st.envMap_ }) ∧
    Runtime.step rt
      = .ok () { rt with heap := (rt.heap.alloc (.cons v rt.s_)).2, s_ := rt.heap.size,
                         c_ := rest } := by
  constructor
  · refine ⟨(ps.map Prod.snd).foldl EnvironmentMap.addSymbol [], ?_, ?_, ?_⟩
    · unfold Compiler.enterNewEnv
      rw [Compiler.addSymbols_eq ps names _ [] st.envMap_ hnames rfl]
    · have h := EnvironmentMap.find_foldl_nodup (ps.map Prod.snd) [] hnodup
        (fun n _ => rfl) k name hk
      simpa using h
    · have hfind : EnvironmentMap.find ((ps.map Prod.snd).foldl EnvironmentMap.addSymbol []) name
          = some (k : Int) := by
        have h := EnvironmentMap.find_foldl_nodup (ps.map Prod.snd) [] hnodup
          (fun n _ => rfl) k name hk
        simpa using h
      rw [Compiler.compile_variable q name hq hqT]
      simp only [Compiler.compileVariableRead, M.bind_apply]
      cases hop : Code.addOpcode Instruction.LD
          { st with envMap_ := (ps.map Prod.snd).foldl EnvironmentMap.addSymbol [] :: st.envMap_ } with
      | ok u s1 =>
        obtain ⟨_, _, _, _, _, henv⟩ := Code.addOpcode_code hop
        simp only
        have hidx : EnvironmentMap.indexOf (.symbol q name) s1
            = (do let d ← Compiler.newInteger 0
                  let o ← Compiler.newInteger k
                  Compiler.newCons d o) s1 := by
          unfold EnvironmentMap.indexOf
          simp only [henv, EnvironmentMap.search, hfind]
        rw [hidx]
        simp only [M.bind_apply]
      | thrown e s1 => rfl
      | fault f => rfl
  · obtain ⟨x, d1, hs, hx⟩ := Environment.skip_list rt.heap k argList vs v hargs hv
    apply Runtime.step_LD rt ldOp c1 index rest v hc hld hc1
    simp [Environment.locate, Heap.car, Heap.cdr, Heap.valueInt, hindex, hd, ho, Environment.skip,
      he, bind, Except.bind, hs, hx]

theorem parameter_offset_is_position_example :
    (∃ frame : EnvironmentMap,
      Compiler.enterNewEnv
          (.cons 37 (.symbol 32 "a")
            (.cons 36 (.symbol 33 "b") (.cons 35 (.symbol 34 "c") (.symbol Nil "nil"))))
          Compiler.started
        = .ok () { Compiler.started with envMap_ := frame :: Compiler.started.envMap_ } ∧
      EnvironmentMap.find frame "c" = some ((2 : Nat) : Int) ∧
      Compiler.compile (.symbol 34 "c")
          { Compiler.started with envMap_ := frame :: Compiler.started.envMap_ }
        = (do Code.addOpcode Instruction.LD
              let index ← (do let d ← Compiler.newInteger 0
                              let o ← Compiler.newInteger (2 : Nat)
                              Compiler.newCons d o)
              Code.add index)
            { Compiler.started with envMap_ := frame :: Compiler.started.envMap_ }) ∧
    Runtime.step (Runtime.after 9 (Runtime.loaded Sample.thirdParameter))
      = .ok ()
          { Runtime.after 9 (Runtime.loaded Sample.thirdParameter) with
            heap := ((Runtime.after 9 (Runtime.loaded Sample.thirdParameter)).heap.alloc
              (.cons 43 (Runtime.after 9 (Runtime.loaded Sample.thirdParameter)).s_)).2,
            s_ := (Runtime.after 9 (Runtime.loaded Sample.thirdParameter)).heap.size,
            c_ := 74 } :=
  parameter_offset_is_position [(32, "a"), (33, "b"), (34, "c")]
    (.cons 37 (.symbol 32 "a")
      (.cons 36 (.symbol 33 "b") (.cons 35 (.symbol 34 "c") (.symbol Nil "nil"))))
    Compiler.started 2 34 "c" (Runtime.after 9 (Runtime.loaded Sample.thirdParameter))
    67 72 71 74 69 70 86 31 43 [41, 42, 43]
    ⟨by decide, rfl, by decide, rfl, by decide, rfl, rfl⟩ (by decide) rfl (by decide) (by decide)
    (by decide!) (by decide!) (by decide!) (by decide!) (by decide!) (by decide!) (by decide!)
    (by decide!) rfl

/-- C12: the offsets of a frame are not the positions of the parameters when
a name is repeated.  `EnvironmentMap::addSymbol` inserts a name with the
current size of the map and does nothing for a name the map holds, so for the
parameter list `(a a b)` the frame is `a -> 0, b -> 1`: `b` has the offset 1
while it occurs at position 2 only, and `((lambda (a a b) b) 1 2 3)` returns
2, the argument passed at position 1, where the argument passed for `b` is
3. -/
theorem duplicate_parameter_shifts_offsets :
    Compiler.enterNewEnv
        (.cons 36 (.symbol 32 "a")
          (.cons 35 (.symbol 32 "a") (.cons 34 (.symbol 33 "b") (.symbol Nil "nil"))))
        Compiler.started
      = .ok () { Compiler.started with envMap_ := [[("a", 0), ("b", 1)], []] } ∧
    Sample.duplicateParameter.src
      = .cons 46
          (.cons 39 (.symbol Symbol.Lambda "lambda")
            (.cons 38
              (.cons 36 (.symbol 32 "a")
                (.cons 35 (.symbol 32 "a") (.cons 34 (.symbol 33 "b") (.symbol Nil "nil"))))
              (.cons 37 (.symbol 33 "b") (.symbol Nil "nil"))))
          (.cons 45 (.integer 40)
            (.cons 44 (.integer 41) (.cons 43 (.integer 42) (.symbol Nil "nil")))) ∧
    resultInt (fun rt => rt.heap)
        (Runtime.eval 100 Sample.duplicateParameter (Runtime.new initialHeap []))
      = some 2 := by
  refine ⟨by decide!, by decide!, by decide!⟩

/-! ## Arity of the primitives -/

theorem Compiler.compileCall_binaryOp (f : Src → CM Unit) (x : Nat × Int)
    (hx : x ∈ Primitive.binary) (p : Nat) (name : String) (args : Src) :
    Compiler.compileCall f (.cons p (.symbol x.1 name) args)
      = Compiler.compileBinaryOperator f x.2 args := by
  simp only [Primitive.binary, List.mem_cons, List.mem_singleton, List.not_mem_nil, or_false] at hx
  rcases hx with rfl | rfl | rfl | rfl | rfl | rfl | rfl | rfl <;>
    simp [Compiler.compileCall, Src.isSymbol, Src.ptr, Symbol.Cons, Symbol.Car,
      Symbol.Cdr, Symbol.Consp, Symbol.Add, Symbol.Sub, Symbol.Mul, Symbol.Div, Symbol.Eq,
      Symbol.Lt, Symbol.Gt]

theorem Compiler.compileCall_unaryOp (f : Src → CM Unit) (x : Nat × Int)
    (hx : x ∈ Primitive.unary) (p : Nat) (name : String) (args : Src) :
    Compiler.compileCall f (.cons p (.symbol x.1 name) args)
      = Compiler.compileUnaryOperator f x.2 args := by
  simp only [Primitive.unary, List.mem_cons, List.mem_singleton, List.not_mem_nil, or_false] at hx
  rcases hx with rfl | rfl | rfl | rfl <;>
    simp [Compiler.compileCall, Src.isSymbol, Src.ptr, Symbol.Cons, Symbol.Car,
      Symbol.Cdr, Symbol.Consp, Symbol.Add, Symbol.Sub, Symbol.Mul, Symbol.Div, Symbol.Eq,
      Symbol.Lt, Symbol.Gt, Symbol.Print]

theorem Compiler.compileCall_read (f : Src → CM Unit) (p : Nat) (name : String) (args : Src) :
    Compiler.compileCall f (.cons p (.symbol Symbol.Read name) args)
      = Compiler.compileRead args := by
  simp [Compiler.compileCall, Src.isSymbol, Src.ptr, Symbol.Cons, Symbol.Car,
    Symbol.Cdr, Symbol.Consp, Symbol.Add, Symbol.Sub, Symbol.Mul, Symbol.Div, Symbol.Eq,
    Symbol.Lt, Symbol.Gt, Symbol.Print, Symbol.Read]

theorem Compiler.compileSource_of_thrown (code : Src) (st st1 : Compiler) (g : EnvironmentMap)
    (e : Error) (hg : st.envMap_ = [g]) (hc : st.code_ = [])
    (h : Compiler.compile code { st with code_ := [SecdList.empty] } = .thrown e st1) :
    Compiler.compileSource code st = .thrown e (Compiler.cleanup st1) := by
  unfold Compiler.compileSource
  rw [hg] at h
  rw [hg, hc]
  simp only [h]

theorem Compiler.compileSource_of_fault (code : Src) (st : Compiler) (g : EnvironmentMap)
    (x : Fault) (hg : st.envMap_ = [g]) (hc : st.code_ = [])
    (h : Compiler.compile code { st with code_ := [SecdList.empty] } = .fault x) :
    Compiler.compileSource code st = .fault x := by
  unfold Compiler.compileSource
  rw [hg] at h
  rw [hg, hc]
  simp only [h]

theorem Compiler.cleanup_entered (st : Compiler) (g : EnvironmentMap) (hg : st.envMap_ = [g])
    (hc : st.code_ = []) : Compiler.cleanup { st with code_ := [SecdList.empty] } = st := by
  cases st
  simp_all [Compiler.cleanup]

/-- C15: what `compileSource` does with a primitive applied to a wrong number
of arguments.  A primitive of arity 2 with no or one argument ends in a failed
assertion, not in an exception: `List::Expand` reads the `car` of `Nil` through
`Value::car`, which asserts, where `compileUnaryOperator` uses the throwing
`car`.  In the other cases an exception reaches the caller and no code is
returned: arity 2 with more than two arguments (before anything is compiled),
arity 1 with no argument, arity 1 with more than one argument (after the first
argument has compiled), and `read` with any argument. -/
theorem primitive_arity_mismatch (st : Compiler) (g : EnvironmentMap) (p : Nat) (name : String)
    (hg : st.envMap_ = [g]) (hc : st.code_ = []) :
    (∀ x ∈ Primitive.binary,
      Compiler.compileSource (.cons p (.symbol x.1 name) (.symbol Nil "nil")) st
        = .fault .assertion ∧
      (∀ (p1 : Nat) (a : Src),
        Compiler.compileSource
            (.cons p (.symbol x.1 name) (.cons p1 a (.symbol Nil "nil"))) st
          = .fault .assertion) ∧
      (∀ (p1 p2 : Nat) (a b rest : Src), rest.ptr ≠ Nil →
        Compiler.compileSource
            (.cons p (.symbol x.1 name) (.cons p1 a (.cons p2 b rest))) st
          = .thrown (.cString "Expected two elements in a list, but more found") st)) ∧
    (∀ x ∈ Primitive.unary,
      Compiler.compileSource (.cons p (.symbol x.1 name) (.symbol Nil "nil")) st
        = .thrown (.runtimeError "Cannot obtain car from cell " (some Nil)) st ∧
      (∀ (p1 : Nat) (a rest : Src) (st1 : Compiler), rest.ptr ≠ Nil →
        Compiler.compile a { st with code_ := [SecdList.empty] } = .ok () st1 →
        Compiler.compileSource (.cons p (.symbol x.1 name) (.cons p1 a rest)) st
          = .thrown (.runtimeError "Too many arguments to binary operator" none)
              (Compiler.cleanup st1))) ∧
    (∀ args : Src, args.ptr ≠ Nil →
      Compiler.compileSource (.cons p (.symbol Symbol.Read name) args) st
        = .thrown (.runtimeError "Read does not take any arguments" none) st) := by
  have hclean := Compiler.cleanup_entered st g hg hc
  refine ⟨fun x hx => ⟨?_, ?_, ?_⟩, fun x hx => ⟨?_, ?_⟩, ?_⟩
  · apply Compiler.compileSource_of_fault _ st g _ hg hc
    rw [Compiler.compile_cons, Compiler.compileCall_binaryOp _ x hx]
    rfl
  · intro p1 a
    apply Compiler.compileSource_of_fault _ st g _ hg hc
    rw [Compiler.compile_cons, Compiler.compileCall_binaryOp _ x hx]
    rfl
  · intro p1 p2 a b rest hrest
    have h := Compiler.compileSource_of_thrown
      (.cons p (.symbol x.1 name) (.cons p1 a (.cons p2 b rest))) st
      { st with code_ := [SecdList.empty] } g
      (.cString "Expected two elements in a list, but more found") hg hc (by
        rw [Compiler.compile_cons, Compiler.compileCall_binaryOp _ x hx]
        simp [Compiler.compileBinaryOperator, SecdList.Expand2, hrest])
    rw [hclean] at h
    exact h
  · have h := Compiler.compileSource_of_thrown
      (.cons p (.symbol x.1 name) (.symbol Nil "nil")) st
      { st with code_ := [SecdList.empty] } g
      (.runtimeError "Cannot obtain car from cell " (some Nil)) hg hc (by
        rw [Compiler.compile_cons, Compiler.compileCall_unaryOp _ x hx]
        rfl)
    rw [hclean] at h
    exact h
  · intro p1 a rest st1 hrest ha
    apply Compiler.compileSource_of_thrown _ st st1 g _ hg hc
    rw [Compiler.compile_cons, Compiler.compileCall_unaryOp _ x hx]
    simp [Compiler.compileUnaryOperator, ha, hrest]
  · intro args hargs
    have h := Compiler.compileSource_of_thrown
      (.cons p (.symbol Symbol.Read name) args) st
      { st with code_ := [SecdList.empty] } g
      (.runtimeError "Read does not take any arguments" none) hg hc (by
        rw [Compiler.compile_cons, Compiler.compileCall_read]
        simp [Compiler.compileRead, hargs])
    rw [hclean] at h
    exact h

theorem primitive_arity_mismatch_example :
    Compiler.compileSource
        (.cons 33 (.symbol Symbol.Add "+") (.cons 32 (.integer 31) (.symbol Nil "nil")))
        (Compiler.new initialHeap)
      = .fault .assertion ∧
    Compiler.compileSource
        (.cons 35 (.symbol Symbol.Add "+")
          (.cons 34 (.integer 31)
            (.cons 33 (.integer 31) (.cons 32 (.integer 31) (.symbol Nil "nil")))))
        (Compiler.new initialHeap)
      = .thrown (.cString "Expected two elements in a list, but more found")
          (Compiler.new initialHeap) ∧
    Compiler.compileSource (.cons 31 (.symbol Symbol.Car "car") (.symbol Nil "nil"))
        (Compiler.new initialHeap)
      = .thrown (.runtimeError "Cannot obtain car from cell " (some Nil))
          (Compiler.new initialHeap) ∧
    Compiler.compileSource
        (.cons 31 (.symbol Symbol.Read "read") (.cons 32 (.integer 31) (.symbol Nil "nil")))
        (Compiler.new initialHeap)
      = .thrown (.runtimeError "Read does not take any arguments" none)
          (Compiler.new initialHeap) ∧
    (∀ n ∈ Primitive.binaryNames,
      Compiler.compileText (SExpr.list [.atom n]) = .fault .assertion ∧
      Compiler.compileText (SExpr.list [.atom n, .num 1]) = .fault .assertion ∧
      Res.error? (Compiler.compileText (SExpr.list [.atom n, .num 1, .num 2, .num 3]))
        = some (.cString "Expected two elements in a list, but more found")) ∧
    (∀ n ∈ Primitive.unaryNames,
      Res.error? (Compiler.compileText (SExpr.list [.atom n]))
        = some (.runtimeError "Cannot obtain car from cell " (some Nil)) ∧
      Res.error? (Compiler.compileText (SExpr.list [.atom n, .num 1, .num 2]))
        = some (.runtimeError "Too many arguments to binary operator" none)) ∧
    Res.error? (Compiler.compileText (SExpr.list [.atom "read", .num 1]))
      = some (.runtimeError "Read does not take any arguments" none) :=
  have h := primitive_arity_mismatch (Compiler.new initialHeap) [] 33 "+" rfl rfl
  have h1 := primitive_arity_mismatch (Compiler.new initialHeap) [] 35 "+" rfl rfl
  have h2 := primitive_arity_mismatch (Compiler.new initialHeap) [] 31 "car" rfl rfl
  have h3 := primitive_arity_mismatch (Compiler.new initialHeap) [] 31 "read" rfl rfl
  ⟨(h.1 (Symbol.Add, Instruction.ADD) (by decide)).2.1 32 (.integer 31),
    (h1.1 (Symbol.Add, Instruction.ADD) (by decide)).2.2 34 33 (.integer 31) (.integer 31)
      (.cons 32 (.integer 31) (.symbol Nil "nil")) (by decide),
    (h2.2.1 (Symbol.Car, Instruction.CAR) (by decide)).1,
    h3.2.2 (.cons 32 (.integer 31) (.symbol Nil "nil")) (by decide),
    by decide!, by decide!, by decide!⟩

/-! ## Properties of the compiler state kept on every exit -/

theorem M.bind_thrown_iff {σ α β : Type} (m : M σ α) (f : α → M σ β) (s s2 : σ) (e : Error) :
    (m >>= f) s = .thrown e s2 ↔
      m s = .thrown e s2 ∨ ∃ a s1, m s = .ok a s1 ∧ f a s1 = .thrown e s2 := by
  simp only [M.bind_apply]
  cases hm : m s with
  | ok a s1 =>
    constructor
    · intro h
      exact Or.inr ⟨a, s1, rfl, h⟩
    · rintro (h | ⟨a1, s3, h1, h2⟩)
      · simp at h
      · simp only [Res.ok.injEq] at h1
        obtain ⟨rfl, rfl⟩ := h1
        exact h2
  | thrown e1 s1 => simp
  | fault x => simp

theorem Compiler.keeps_pure {α : Type} (P : Compiler → Prop) (a : α) :
    Compiler.Keeps P (pure a : CM α) := by
  intro st hst
  constructor
  · intro r st1 h
    simp only [M.pure_apply, Res.ok.injEq] at h
    exact h.2 ▸ hst
  · intro e st1 h
    simp at h

theorem Compiler.keeps_raise {α : Type} (P : Compiler → Prop) (e : Error) :
    Compiler.Keeps P (raise e : CM α) := by
  intro st hst
  constructor
  · intro r st1 h
    simp at h
  · intro e1 st1 h
    simp only [raise_apply, Res.thrown.injEq] at h
    exact h.2 ▸ hst

theorem Compiler.keeps_fail {α : Type} (P : Compiler → Prop) (f : Fault) :
    Compiler.Keeps P (fail f : CM α) := by
  intro st hst
  constructor
  · intro r st1 h
    simp at h
  · intro e1 st1 h
    simp at h

theorem Compiler.keeps_bind {α β : Type} {P : Compiler → Prop} {m : CM α} {f : α → CM β}
    (hm : Compiler.Keeps P m) (hf : ∀ a, Compiler.Keeps P (f a)) :
    Compiler.Keeps P (m >>= f) := by
  intro st hst
  constructor
  · intro r st1 h
    obtain ⟨a, s1, h1, h2⟩ := (M.bind_ok_iff _ _ _ _ _).1 h
    exact (hf a s1 ((hm st hst).1 a s1 h1)).1 r st1 h2
  · intro e st1 h
    rcases (M.bind_thrown_iff _ _ _ _ _).1 h with h1 | ⟨a, s1, h1, h2⟩
    · exact (hm st hst).2 e st1 h1
    · exact (hf a s1 ((hm st hst).1 a s1 h1)).2 e st1 h2

theorem Compiler.keeps_ite {α : Type} {P : Compiler → Prop} (c : Prop) [Decidable c]
    {a b : CM α} (ha : Compiler.Keeps P a) (hb : Compiler.Keeps P b) :
    Compiler.Keeps P (if c then a else b) := by
  split
  · exact ha
  · exact hb

theorem Compiler.keeps_car (P : Compiler → Prop) (x : Src) : Compiler.Keeps P x.car := by
  cases x <;> first | exact Compiler.keeps_pure P _ | exact Compiler.keeps_fail P _

theorem Compiler.keeps_cdr (P : Compiler → Prop) (x : Src) : Compiler.Keeps P x.cdr := by
  cases x <;> first | exact Compiler.keeps_pure P _ | exact Compiler.keeps_fail P _

theorem Compiler.keeps_carSrc (P : Compiler → Prop) (x : Src) : Compiler.Keeps P (carSrc x) := by
  cases x <;> first | exact Compiler.keeps_pure P _ | exact Compiler.keeps_raise P _

theorem Compiler.keeps_cdrSrc (P : Compiler → Prop) (x : Src) : Compiler.Keeps P (cdrSrc x) := by
  cases x <;> first | exact Compiler.keeps_pure P _ | exact Compiler.keeps_raise P _

theorem Compiler.keeps_Expand2 (P : Compiler → Prop) (x : Src) :
    Compiler.Keeps P (SecdList.Expand2 x) := by
  unfold SecdList.Expand2
  refine Compiler.keeps_bind (Compiler.keeps_car P _) fun first => ?_
  refine Compiler.keeps_bind (Compiler.keeps_cdr P _) fun x1 => ?_
  refine Compiler.keeps_bind (Compiler.keeps_car P _) fun second => ?_
  refine Compiler.keeps_bind (Compiler.keeps_cdr P _) fun rest => ?_
  exact Compiler.keeps_ite _ (Compiler.keeps_raise P _) (Compiler.keeps_pure P _)

theorem Compiler.keeps_Expand3 (P : Compiler → Prop) (x : Src) :
    Compiler.Keeps P (SecdList.Expand3 x) := by
  unfold SecdList.Expand3
  refine Compiler.keeps_bind (Compiler.keeps_car P _) fun first => ?_
  refine Compiler.keeps_bind (Compiler.keeps_cdr P _) fun x1 => ?_
  refine Compiler.keeps_bind (Compiler.keeps_car P _) fun second => ?_
  refine Compiler.keeps_bind (Compiler.keeps_cdr P _) fun x2 => ?_
  refine Compiler.keeps_bind (Compiler.keeps_car P _) fun third => ?_
  refine Compiler.keeps_bind (Compiler.keeps_cdr P _) fun rest => ?_
  exact Compiler.keeps_ite _ (Compiler.keeps_raise P _) (Compiler.keeps_pure P _)

theorem Compiler.keeps_codeHasParent (P : Compiler → Prop) :
    Compiler.Keeps P Compiler.codeHasParent := by
  intro st hst
  constructor
  · intro r st1 h
    unfold Compiler.codeHasParent at h
    split at h
    · simp at h
    · simp only [Res.ok.injEq] at h
      exact h.2 ▸ hst
    · simp only [Res.ok.injEq] at h
      exact h.2 ▸ hst
  · intro e st1 h
    unfold Compiler.codeHasParent at h
    split at h <;> simp at h

theorem Compiler.compileCallArguments_cons (f : Src → CM Unit) (p : Nat) (a d : Src) :
    Compiler.compileCallArguments f (.cons p a d)
      = if p = Nil then pure ()
        else (do Compiler.compileCallArguments f d
                 f a
                 Code.addOpcode Instruction.CONS) := by
  funext st
  by_cases hp : p = Nil
  · simp [Compiler.compileCallArguments, hp]
  · simp only [Compiler.compileCallArguments, hp, if_false, M.bind_apply]
    cases Compiler.compileCallArguments f d st <;> rfl

theorem Compiler.compilePrognLoop_cons (f : Src → CM Unit) (p : Nat) (a rest : Src) :
    Compiler.compilePrognLoop f (.cons p a rest)
      = (do f a
            if rest.ptr = Nil then pure ()
            else (do Code.addOpcode Instruction.POP
                     Compiler.compilePrognLoop f rest)) := by
  funext st
  simp only [Compiler.compilePrognLoop, M.bind_apply]
  cases f a st with
  | ok u st1 =>
    by_cases hr : rest.ptr = Nil
    · simp [hr]
    · simp only [hr, if_false, M.bind_apply]
      cases Code.addOpcode Instruction.POP st1 <;> rfl
  | thrown e st1 => rfl
  | fault x => rfl

theorem Compiler.keeps_compileCallArguments {P : Compiler → Prop} (hP : Compiler.Stable P)
    (f : Src → CM Unit) (hf : ∀ c, Compiler.Keeps P (f c)) :
    ∀ args : Src, Compiler.Keeps P (Compiler.compileCallArguments f args)
  | .cons p a d => by
    rw [Compiler.compileCallArguments_cons]
    refine Compiler.keeps_ite _ (Compiler.keeps_pure P _) ?_
    refine Compiler.keeps_bind (Compiler.keeps_compileCallArguments hP f hf d) fun _ => ?_
    exact Compiler.keeps_bind (hf _) fun _ => hP.addOpcode _
  | .integer q => by
    unfold Compiler.compileCallArguments
    exact Compiler.keeps_ite _ (Compiler.keeps_pure P _) (Compiler.keeps_raise P _)
  | .symbol q name => by
    unfold Compiler.compileCallArguments
    exact Compiler.keeps_ite _ (Compiler.keeps_pure P _) (Compiler.keeps_raise P _)
  | .closure q => by
    unfold Compiler.compileCallArguments
    exact Compiler.keeps_ite _ (Compiler.keeps_pure P _) (Compiler.keeps_raise P _)

theorem Compiler.keeps_compilePrognLoop {P : Compiler → Prop} (hP : Compiler.Stable P)
    (f : Src → CM Unit) (hf : ∀ c, Compiler.Keeps P (f c)) :
    ∀ args : Src, Compiler.Keeps P (Compiler.compilePrognLoop f args)
  | .cons p a rest => by
    rw [Compiler.compilePrognLoop_cons]
    refine Compiler.keeps_bind (hf _) fun _ => ?_
    refine Compiler.keeps_ite _ (Compiler.keeps_pure P _) ?_
    exact Compiler.keeps_bind (hP.addOpcode _) fun _ =>
      Compiler.keeps_compilePrognLoop hP f hf rest
  | .integer q => Compiler.keeps_fail P _
  | .symbol q name => Compiler.keeps_fail P _
  | .closure q => Compiler.keeps_fail P _

theorem Compiler.keeps_compileInteger {P : Compiler → Prop} (hP : Compiler.Stable P) (code : Src) :
    Compiler.Keeps P (Compiler.compileInteger code) :=
  Compiler.keeps_bind (hP.addOpcode _) fun _ => hP.add _

theorem Compiler.keeps_compileVariableRead {P : Compiler → Prop} (hP : Compiler.Stable P) (code : Src) :
    Compiler.Keeps P (Compiler.compileVariableRead code) :=
  Compiler.keeps_bind (hP.addOpcode _) fun _ =>
    Compiler.keeps_bind (hP.indexOf _) fun _ => hP.add _

theorem Compiler.keeps_compileTrue {P : Compiler → Prop} (hP : Compiler.Stable P) : Compiler.Keeps P Compiler.compileTrue :=
  Compiler.keeps_bind (hP.addOpcode _) fun _ => hP.add _

theorem Compiler.keeps_compileRead {P : Compiler → Prop} (hP : Compiler.Stable P) (args : Src) : Compiler.Keeps P (Compiler.compileRead args) :=
  Compiler.keeps_ite _ (Compiler.keeps_raise P _) (hP.addOpcode _)

theorem Compiler.keeps_compileQuote {P : Compiler → Prop} (hP : Compiler.Stable P) (args : Src) :
    Compiler.Keeps P (Compiler.compileQuote args) := by
  unfold Compiler.compileQuote
  refine Compiler.keeps_ite _ (Compiler.keeps_raise P _) ?_
  refine Compiler.keeps_bind (hP.addOpcode _) fun _ => ?_
  refine Compiler.keeps_bind (Compiler.keeps_carSrc P _) fun _ => ?_
  refine Compiler.keeps_bind (hP.add _) fun _ => ?_
  refine Compiler.keeps_bind (Compiler.keeps_cdrSrc P _) fun _ => ?_
  exact Compiler.keeps_ite _ (Compiler.keeps_raise P _) (Compiler.keeps_pure P _)

theorem Compiler.keeps_compileUnaryOperator {P : Compiler → Prop} (hP : Compiler.Stable P) (f : Src → CM Unit)
    (hf : ∀ c, Compiler.Keeps P (f c)) (opcode : Int) (args : Src) :
    Compiler.Keeps P (Compiler.compileUnaryOperator f opcode args) := by
  unfold Compiler.compileUnaryOperator
  refine Compiler.keeps_bind (Compiler.keeps_carSrc P _) fun _ => ?_
  refine Compiler.keeps_bind (hf _) fun _ => ?_
  refine Compiler.keeps_bind (Compiler.keeps_cdrSrc P _) fun _ => ?_
  exact Compiler.keeps_ite _ (Compiler.keeps_raise P _) (hP.addOpcode _)

theorem Compiler.keeps_compileBinaryOperator {P : Compiler → Prop} (hP : Compiler.Stable P) (f : Src → CM Unit)
    (hf : ∀ c, Compiler.Keeps P (f c)) (opcode : Int) (args : Src) :
    Compiler.Keeps P (Compiler.compileBinaryOperator f opcode args) := by
  unfold Compiler.compileBinaryOperator
  refine Compiler.keeps_bind (Compiler.keeps_Expand2 P _) fun x => ?_
  obtain ⟨lhs, rhs⟩ := x
  refine Compiler.keeps_bind (hf _) fun _ => ?_
  exact Compiler.keeps_bind (hf _) fun _ => hP.addOpcode _

theorem Compiler.keeps_compileIf {P : Compiler → Prop} (hP : Compiler.Stable P) (f : Src → CM Unit) (hf : ∀ c, Compiler.Keeps P (f c))
    (args : Src) : Compiler.Keeps P (Compiler.compileIf f args) := by
  unfold Compiler.compileIf
  refine Compiler.keeps_bind (Compiler.keeps_carSrc P _) fun _ => ?_
  refine Compiler.keeps_bind (hf _) fun _ => ?_
  refine Compiler.keeps_bind (Compiler.keeps_cdrSrc P _) fun _ => ?_
  refine Compiler.keeps_bind (hP.addOpcode _) fun _ => ?_
  refine Compiler.keeps_bind hP.enterNewCode fun _ => ?_
  refine Compiler.keeps_bind (Compiler.keeps_carSrc P _) fun _ => ?_
  refine Compiler.keeps_bind (hf _) fun _ => ?_
  refine Compiler.keeps_bind (Compiler.keeps_cdrSrc P _) fun _ => ?_
  refine Compiler.keeps_bind (hP.addOpcode _) fun _ => ?_
  refine Compiler.keeps_bind hP.unrollAndAppendCode fun _ => ?_
  refine Compiler.keeps_bind hP.enterNewCode fun _ => ?_
  refine Compiler.keeps_bind (Compiler.keeps_carSrc P _) fun _ => ?_
  refine Compiler.keeps_bind (hf _) fun _ => ?_
  refine Compiler.keeps_bind (hP.addOpcode _) fun _ => ?_
  refine Compiler.keeps_bind hP.unrollAndAppendCode fun _ => ?_
  refine Compiler.keeps_bind (Compiler.keeps_cdrSrc P _) fun _ => ?_
  exact Compiler.keeps_ite _ (Compiler.keeps_raise P _) (Compiler.keeps_pure P _)

theorem Compiler.keeps_compileLambda2 {P : Compiler → Prop} (hP : Compiler.Stable P) (f : Src → CM Unit) (hf : ∀ c, Compiler.Keeps P (f c))
    (argNames body : Src) : Compiler.Keeps P (Compiler.compileLambda2 f argNames body) := by
  unfold Compiler.compileLambda2
  refine Compiler.keeps_bind (hP.addOpcode _) fun _ => ?_
  refine Compiler.keeps_bind hP.enterNewCode fun _ => ?_
  refine Compiler.keeps_bind (hP.enterNewEnv _) fun _ => ?_
  refine Compiler.keeps_bind (hf _) fun _ => ?_
  refine Compiler.keeps_bind (hP.addOpcode _) fun _ => ?_
  exact Compiler.keeps_bind hP.unrollAndAppendCode fun _ =>
    hP.unrollEnvironmentMap

theorem Compiler.keeps_compileLambda {P : Compiler → Prop} (hP : Compiler.Stable P) (f : Src → CM Unit) (hf : ∀ c, Compiler.Keeps P (f c))
    (args : Src) : Compiler.Keeps P (Compiler.compileLambda f args) := by
  unfold Compiler.compileLambda
  refine Compiler.keeps_bind (Compiler.keeps_Expand2 P _) fun x => ?_
  obtain ⟨argNames, body⟩ := x
  exact Compiler.keeps_compileLambda2 hP f hf _ _

theorem Compiler.keeps_compileFunctionArgs {P : Compiler → Prop} (hP : Compiler.Stable P) (f : Src → CM Unit)
    (hf : ∀ c, Compiler.Keeps P (f c)) (args : Src) :
    Compiler.Keeps P (Compiler.compileFunctionArgs f args) :=
  Compiler.keeps_bind (hP.addOpcode _) fun _ =>
    Compiler.keeps_compileCallArguments hP f hf args

theorem Compiler.keeps_compileApply {P : Compiler → Prop} (hP : Compiler.Stable P) (f : Src → CM Unit) (hf : ∀ c, Compiler.Keeps P (f c))
    (args : Src) : Compiler.Keeps P (Compiler.compileApply f args) := by
  unfold Compiler.compileApply
  refine Compiler.keeps_bind (Compiler.keeps_carSrc P _) fun _ => ?_
  refine Compiler.keeps_bind (Compiler.keeps_cdrSrc P _) fun _ => ?_
  refine Compiler.keeps_bind (Compiler.keeps_cdrSrc P _) fun _ => ?_
  refine Compiler.keeps_ite _ (Compiler.keeps_raise P _) ?_
  refine Compiler.keeps_bind (Compiler.keeps_compileFunctionArgs hP f hf _) fun _ => ?_
  exact Compiler.keeps_bind (hf _) fun _ => hP.addOpcode _

theorem Compiler.keeps_compileLet {P : Compiler → Prop} (hP : Compiler.Stable P) (f : Src → CM Unit) (hf : ∀ c, Compiler.Keeps P (f c))
    (args : Src) : Compiler.Keeps P (Compiler.compileLet f args) := by
  unfold Compiler.compileLet
  refine Compiler.keeps_bind (Compiler.keeps_Expand3 P _) fun x => ?_
  obtain ⟨argNames, values, body⟩ := x
  refine Compiler.keeps_bind (Compiler.keeps_compileFunctionArgs hP f hf _) fun _ => ?_
  exact Compiler.keeps_bind (Compiler.keeps_compileLambda2 hP f hf _ _) fun _ =>
    hP.addOpcode _

theorem Compiler.keeps_compileLetrec {P : Compiler → Prop} (hP : Compiler.Stable P) (f : Src → CM Unit) (hf : ∀ c, Compiler.Keeps P (f c))
    (args : Src) : Compiler.Keeps P (Compiler.compileLetrec f args) := by
  unfold Compiler.compileLetrec
  refine Compiler.keeps_bind (hP.addOpcode _) fun _ => ?_
  refine Compiler.keeps_bind (Compiler.keeps_Expand3 P _) fun x => ?_
  obtain ⟨argNames, values, body⟩ := x
  refine Compiler.keeps_bind (hP.enterNewEnv _) fun _ => ?_
  refine Compiler.keeps_bind (Compiler.keeps_compileFunctionArgs hP f hf _) fun _ => ?_
  refine Compiler.keeps_bind (Compiler.keeps_compileLambda2 hP f hf _ _) fun _ => ?_
  exact Compiler.keeps_bind (hP.addOpcode _) fun _ =>
    hP.unrollEnvironmentMap

theorem Compiler.keeps_compileProgn {P : Compiler → Prop} (hP : Compiler.Stable P) (f : Src → CM Unit) (hf : ∀ c, Compiler.Keeps P (f c))
    (args : Src) : Compiler.Keeps P (Compiler.compileProgn f args) :=
  Compiler.keeps_ite _ (hP.addOpcode _) (Compiler.keeps_compilePrognLoop hP f hf args)

theorem Compiler.keeps_compileDefun {P : Compiler → Prop} (hP : Compiler.Stable P) (f : Src → CM Unit) (hf : ∀ c, Compiler.Keeps P (f c))
    (args : Src) : Compiler.Keeps P (Compiler.compileDefun f args) := by
  unfold Compiler.compileDefun
  refine Compiler.keeps_bind (Compiler.keeps_codeHasParent P) fun b => ?_
  refine Compiler.keeps_ite _ (Compiler.keeps_raise P _) ?_
  refine Compiler.keeps_bind (Compiler.keeps_carSrc P _) fun fname => ?_
  cases fname with
  | symbol q name =>
    refine Compiler.keeps_bind (hP.addSymbol _) fun _ => ?_
    refine Compiler.keeps_bind (Compiler.keeps_cdrSrc P _) fun _ => ?_
    exact Compiler.keeps_bind (Compiler.keeps_compileLambda hP f hf _) fun _ =>
      hP.addOpcode _
  | _ => exact Compiler.keeps_raise P _

theorem Compiler.keeps_compileCall {P : Compiler → Prop} (hP : Compiler.Stable P) (f : Src → CM Unit) (hf : ∀ c, Compiler.Keeps P (f c))
    (code : Src) : Compiler.Keeps P (Compiler.compileCall f code) := by
  unfold Compiler.compileCall
  refine Compiler.keeps_bind (Compiler.keeps_car P _) fun fname => ?_
  refine Compiler.keeps_bind (Compiler.keeps_cdr P _) fun args => ?_
  have hgen : Compiler.Keeps P (do
      Compiler.compileFunctionArgs f args
      f fname
      Code.addOpcode Instruction.AP) :=
    Compiler.keeps_bind (Compiler.keeps_compileFunctionArgs hP f hf _) fun _ =>
      Compiler.keeps_bind (hf _) fun _ => hP.addOpcode _
  repeat' first
    | exact hgen
    | exact Compiler.keeps_compileBinaryOperator hP f hf _ _
    | exact Compiler.keeps_compileUnaryOperator hP f hf _ _
    | exact Compiler.keeps_compileRead hP _
    | exact Compiler.keeps_compileIf hP f hf _
    | exact Compiler.keeps_compileLambda hP f hf _
    | exact Compiler.keeps_compileQuote hP _
    | exact Compiler.keeps_compileApply hP f hf _
    | exact Compiler.keeps_compileDefun hP f hf _
    | exact Compiler.keeps_compileLet hP f hf _
    | exact Compiler.keeps_compileLetrec hP f hf _
    | exact Compiler.keeps_compileProgn hP f hf _
    | apply Compiler.keeps_ite

theorem Compiler.keeps_compileBody {P : Compiler → Prop} (hP : Compiler.Stable P) (f : Src → CM Unit) (hf : ∀ c, Compiler.Keeps P (f c))
    (code : Src) : Compiler.Keeps P (Compiler.compileBody f code) := by
  cases code with
  | integer q => exact Compiler.keeps_compileInteger hP _
  | symbol p name =>
    exact Compiler.keeps_ite _ (hP.addOpcode _)
      (Compiler.keeps_ite _ (Compiler.keeps_compileTrue hP) (Compiler.keeps_compileVariableRead hP _))
  | cons p a d => exact Compiler.keeps_compileCall hP f hf _
  | closure q => exact Compiler.keeps_fail P _

theorem Compiler.keeps_compileFuel {P : Compiler → Prop} (hP : Compiler.Stable P) : ∀ (n : Nat) (code : Src),
    Compiler.Keeps P (Compiler.compileFuel n code)
  | 0, _ => Compiler.keeps_fail P _
  | n + 1, code => Compiler.keeps_compileBody hP _ (Compiler.keeps_compileFuel hP n) code

/-- Every exit of `Compiler::compile`, normal or by an exception, keeps a
property that the operations on the buffer and the chain keep. -/
theorem Compiler.keeps_compile {P : Compiler → Prop} (hP : Compiler.Stable P) (code : Src) :
    Compiler.Keeps P (Compiler.compile code) :=
  Compiler.keeps_compileFuel hP _ code

/-! ## The environment chain is never empty -/

theorem Code.add_not_thrown (value : Nat) (st st1 : Compiler) (e : Error) :
    Code.add value st ≠ .thrown e st1 := by
  unfold Code.add
  cases st.code_ with
  | nil => simp
  | cons c parents =>
    simp only
    cases c.append value st.heap <;> simp

theorem Compiler.keeps_add_frame (value : Nat) :
    Compiler.Keeps Compiler.HasFrame (Code.add value) := by
  intro st hst
  constructor
  · intro r st1 h
    obtain ⟨_, _, _, _, _, henv⟩ := Code.add_code h
    unfold Compiler.HasFrame
    rw [henv]
    exact hst
  · intro e st1 h
    exact absurd h (Code.add_not_thrown value st st1 e)

theorem Compiler.keeps_newInteger_frame (v : Int) :
    Compiler.Keeps Compiler.HasFrame (Compiler.newInteger v) := by
  intro st hst
  constructor
  · intro r st1 h
    simp only [Compiler.newInteger, Res.ok.injEq] at h
    rw [← h.2]
    exact hst
  · intro e st1 h
    simp [Compiler.newInteger] at h

theorem Compiler.keeps_newCons_frame (a d : Nat) :
    Compiler.Keeps Compiler.HasFrame (Compiler.newCons a d) := by
  intro st hst
  constructor
  · intro r st1 h
    simp only [Compiler.newCons, Res.ok.injEq] at h
    rw [← h.2]
    exact hst
  · intro e st1 h
    simp [Compiler.newCons] at h

theorem Compiler.keeps_addOpcode_frame (opcode : Int) :
    Compiler.Keeps Compiler.HasFrame (Code.addOpcode opcode) :=
  Compiler.keeps_bind (Compiler.keeps_newInteger_frame _) fun _ => Compiler.keeps_add_frame _

theorem Compiler.keeps_indexOf_frame (symbol : Src) :
    Compiler.Keeps Compiler.HasFrame (EnvironmentMap.indexOf symbol) := by
  intro st hst
  have hnew : ∀ x : Int × Int, Compiler.Keeps Compiler.HasFrame
      (do let d ← Compiler.newInteger x.1
          let o ← Compiler.newInteger x.2
          Compiler.newCons d o : CM Nat) := fun x =>
    Compiler.keeps_bind (Compiler.keeps_newInteger_frame _) fun _ =>
      Compiler.keeps_bind (Compiler.keeps_newInteger_frame _) fun _ =>
        Compiler.keeps_newCons_frame _ _
  cases symbol with
  | symbol p name =>
    unfold EnvironmentMap.indexOf
    cases hs : EnvironmentMap.search name st.envMap_ 0 with
    | none =>
      constructor
      · intro r st1 h
        simp [hs] at h
      · intro e st1 h
        simp only [hs, Res.thrown.injEq] at h
        exact h.2 ▸ hst
    | some x =>
      obtain ⟨depth, i⟩ := x
      have hx := hnew (depth, i) st hst
      constructor
      · intro r st1 h
        simp only [hs] at h
        exact hx.1 r st1 h
      · intro e st1 h
        simp only [hs] at h
        exact hx.2 e st1 h
  | _ =>
    constructor
    · intro r st1 h
      simp [EnvironmentMap.indexOf] at h
    · intro e st1 h
      simp [EnvironmentMap.indexOf] at h

theorem Compiler.keeps_addSymbols_frame : ∀ names : Src,
    Compiler.Keeps Compiler.HasFrame (Compiler.addSymbols names)
  | .cons p arg names => by
    have ih := Compiler.keeps_addSymbols_frame names
    intro st hst
    unfold Compiler.addSymbols
    by_cases hp : p = Nil
    · simp only [hp, if_true]
      exact Compiler.keeps_pure _ () st hst
    · simp only [hp, if_false]
      cases arg with
      | symbol q name =>
        simp only [Src.isSymbol, Bool.not_true, Bool.false_eq_true, if_false]
        cases he : st.envMap_ with
        | nil => exact absurd he hst
        | cons e parents =>
          simp only
          exact ih _ (by simp [Compiler.HasFrame])
      | _ =>
        simp only [Src.isSymbol, Bool.not_false, if_true]
        exact Compiler.keeps_raise _ _ st hst
  | .integer q => by
    intro st hst
    unfold Compiler.addSymbols
    split
    · exact Compiler.keeps_pure _ () st hst
    · exact Compiler.keeps_fail _ Fault.assertion st hst
  | .symbol q name => by
    intro st hst
    unfold Compiler.addSymbols
    split
    · exact Compiler.keeps_pure _ () st hst
    · exact Compiler.keeps_fail _ Fault.assertion st hst
  | .closure q => by
    intro st hst
    unfold Compiler.addSymbols
    split
    · exact Compiler.keeps_pure _ () st hst
    · exact Compiler.keeps_fail _ Fault.assertion st hst

/-- The operations of the compiler never leave it without an environment
frame. -/
theorem Compiler.stable_hasFrame : Compiler.Stable Compiler.HasFrame where
  add := Compiler.keeps_add_frame
  addOpcode := Compiler.keeps_addOpcode_frame
  indexOf := Compiler.keeps_indexOf_frame
  enterNewEnv := fun names st _ =>
    Compiler.keeps_addSymbols_frame names _ (by simp [Compiler.HasFrame])
  unrollEnvironmentMap := by
    intro st hst
    constructor
    · intro r st1 h
      unfold Compiler.unrollEnvironmentMap at h
      split at h
      · simp only [Res.ok.injEq] at h
        rw [← h.2]
        simp [Compiler.HasFrame]
      · simp at h
    · intro e st1 h
      unfold Compiler.unrollEnvironmentMap at h
      split at h <;> simp at h
  enterNewCode := by
    intro st hst
    constructor
    · intro r st1 h
      simp only [Compiler.enterNewCode, Res.ok.injEq] at h
      rw [← h.2]
      exact hst
    · intro e st1 h
      simp [Compiler.enterNewCode] at h
  unrollAndAppendCode := by
    intro st hst
    unfold Compiler.unrollAndAppendCode
    split
    · exact Compiler.keeps_add_frame _ _ hst
    · exact Compiler.keeps_fail _ _ st hst
  addSymbol := by
    intro name st hst
    constructor
    · intro r st1 h
      unfold Compiler.addSymbol at h
      split at h
      · simp at h
      · simp only [Res.ok.injEq] at h
        rw [← h.2]
        simp [Compiler.HasFrame]
    · intro e st1 h
      unfold Compiler.addSymbol at h
      split at h <;> simp at h

/-! ## A failed compilation leaves the compiler ready for the next one -/

theorem List.drop_length_pred_singleton {α : Type} :
    ∀ l : List α, l ≠ [] → ∃ g, l.drop (l.length - 1) = [g]
  | [], h => absurd rfl h
  | [a], _ => ⟨a, rfl⟩
  | a :: b :: t, _ => by
    obtain ⟨g, hg⟩ := List.drop_length_pred_singleton (b :: t) (by simp)
    refine ⟨g, ?_⟩
    simpa using hg

/-- C16: whenever `compileSource` ends with an exception, the compiler it
leaves holds no code buffer (`code_` is null) and an environment chain of one
frame, whatever the expression and however deep in it the error was; so the
next call of `compileSource` passes its two entry assertions and goes on to
compile. -/
theorem compile_error_resets_compiler (code : Src) (st st1 : Compiler) (e : Error)
    (h : Compiler.compileSource code st = .thrown e st1) :
    st1.code_ = [] ∧ (∃ g, st1.envMap_ = [g]) ∧
      ∀ next : Src, Compiler.compileSource next st1
        = match Compiler.compile next { st1 with code_ := [SecdList.empty] } with
          | .ok _ st2 =>
            match st2.code_ with
            | [c] => .ok c.first_ { st2 with code_ := [] }
            | _ => .fault .assertion
          | .thrown e2 st2 => .thrown e2 (Compiler.cleanup st2)
          | .fault f => .fault f := by
  have hmain : st1.code_ = [] ∧ ∃ g, st1.envMap_ = [g] := by
    unfold Compiler.compileSource at h
    split at h
    · rename_i g0 henv hcode
      cases hc : Compiler.compile code { st with code_ := [SecdList.empty] } with
      | ok u st2 =>
        rw [hc] at h
        simp only at h
        split at h <;> simp at h
      | thrown e2 st2 =>
        rw [hc] at h
        simp only [Res.thrown.injEq] at h
        obtain ⟨-, rfl⟩ := h
        have hframe : st2.envMap_ ≠ [] :=
          (Compiler.keeps_compile Compiler.stable_hasFrame code
            { st with code_ := [SecdList.empty] } (by simp [Compiler.HasFrame, henv])).2
            e2 st2 hc
        exact ⟨rfl, List.drop_length_pred_singleton st2.envMap_ hframe⟩
      | fault f =>
        rw [hc] at h
        simp at h
    · simp at h
  obtain ⟨hcode, g, henv⟩ := hmain
  refine ⟨hcode, ⟨g, henv⟩, fun next => ?_⟩
  unfold Compiler.compileSource
  simp only [henv, hcode]

theorem compile_error_resets_compiler_example :
    (Compiler.stateAfter (Compiler.compile Sample.nestedError.src)
        (Compiler.reading Sample.nestedError)).envMap_
      = [[("n", 0)], [("f", 0)], [("x", 0)], []] ∧
    (Compiler.stateAfter (Compiler.compile Sample.nestedError.src)
        (Compiler.reading Sample.nestedError)).code_.length = 4 ∧
    (Compiler.stateAfter (Compiler.compileSource Sample.nestedError.src)
        (Compiler.new (Compiler.reading Sample.nestedError).heap)).code_ = [] ∧
    (∃ g, (Compiler.stateAfter (Compiler.compileSource Sample.nestedError.src)
        (Compiler.new (Compiler.reading Sample.nestedError).heap)).envMap_ = [g]) :=
  have h := compile_error_resets_compiler Sample.nestedError.src
    (Compiler.new (Compiler.reading Sample.nestedError).heap)
    (Compiler.stateAfter (Compiler.compileSource Sample.nestedError.src)
      (Compiler.new (Compiler.reading Sample.nestedError).heap))
    (.runtimeError "Unknown variable " (some 38)) (by decide!)
  ⟨by decide!, by decide!, h.1, h.2.1⟩

/-! ## Division by zero -/

theorem Runtime.reaches_after : ∀ (n : Nat) (rt : Runtime), Runtime.runs n rt = true →
    Runtime.Reaches n rt (Runtime.after n rt)
  | 0, rt, _ => Runtime.reaches_zero rt
  | n + 1, rt, h => by
    unfold Runtime.runs at h
    split at h
    · simp at h
    · rename_i hc
      cases hs : Runtime.step rt with
      | ok u rt1 =>
        rw [hs] at h
        simp only at h
        have h1 := Runtime.reaches_after n rt1 h
        have hafter : Runtime.after (n + 1) rt = Runtime.after n rt1 := by
          simp only [Runtime.after, hs]
        rw [hafter]
        exact Runtime.reaches_step hc hs h1
      | thrown e rt1 => rw [hs] at h; simp at h
      | fault f => rw [hs] at h; simp at h

/-- C18 (as amended): `DIV` with the Integer 0 as divisor (the second value
popped) is no runtime error of the machine.  The round of `DIV` divides with
no check, which is undefined for a zero divisor: nothing is thrown, so the
loop has no result, and a run that reaches such a state never enters the
`catch` block of `run`: it reports nothing and resets no register. -/
theorem div_by_zero_is_undefined (rt : Runtime) (divOp rest lhs rhs s1 s0 : Nat) (a : Int)
    (hc : rt.heap.get? rt.c_ = some (.cons divOp rest))
    (hop : rt.heap.get? divOp = some (.integer Instruction.DIV))
    (hs : rt.heap.get? rt.s_ = some (.cons lhs s1))
    (hs1 : rt.heap.get? s1 = some (.cons rhs s0))
    (ha : rt.heap.get? lhs = some (.integer a))
    (hb : rt.heap.get? rhs = some (.integer 0))
    (hnil : rt.c_ ≠ Nil) :
    Runtime.step rt = .fault .undefinedBehaviour ∧
      (∀ fuel, Runtime.loop (fuel + 1) rt = .fault .undefinedBehaviour) ∧
      ∀ (n fuel code : Nat) (rt0 : Runtime), rt0.c_ = Nil → Stack.valid rt0.heap code = true →
        Runtime.Reaches n { rt0 with c_ := code } rt →
        Runtime.run (fuel + 1 + n) code rt0 = .fault .undefinedBehaviour := by
  have hstep : Runtime.step rt = .fault .undefinedBehaviour := by
    rw [Runtime.step_fetch rt divOp rest Instruction.DIV hc hop]
    have hpop := Runtime.popIntegers_eq { rt with c_ := rest } lhs rhs s1 s0 a 0 hs hs1 ha hb
    simp [Runtime.execute, Instruction.DIV, Instruction.NIL, Instruction.LDC, Instruction.LD,
      Instruction.SEL, Instruction.JOIN, Instruction.LDF, Instruction.AP, Instruction.RTN,
      Instruction.DUM, Instruction.RAP, Instruction.DEFUN, Instruction.POP, Instruction.CONS,
      Instruction.CAR, Instruction.CDR, Instruction.CONSP, Instruction.ADD, Instruction.SUB,
      Instruction.MUL, hpop, divide]
  have hloop : ∀ fuel, Runtime.loop (fuel + 1) rt = .fault .undefinedBehaviour := by
    intro fuel
    simp only [Runtime.loop, if_neg hnil, hstep]
  refine ⟨hstep, hloop, ?_⟩
  intro n fuel code rt0 hc0 hvalid hreach
  have hl : Runtime.loop (fuel + 1 + n) { rt0 with c_ := code } = .fault .undefinedBehaviour := by
    rw [hreach (fuel + 1)]
    exact hloop fuel
  simp [Runtime.run, Runtime.runBody, hc0, assert, Runtime.setC, hvalid, hl]

theorem div_by_zero_is_undefined_example :
    Runtime.step
        (Runtime.after 4 { Runtime.ready Sample.divideByDifference with
          c_ := Runtime.program Sample.divideByDifference })
        = .fault .undefinedBehaviour ∧
      ∀ fuel, Runtime.run (fuel + 1 + 4) (Runtime.program Sample.divideByDifference)
          (Runtime.ready Sample.divideByDifference)
        = .fault .undefinedBehaviour :=
  have h := div_by_zero_is_undefined
    (Runtime.after 4 { Runtime.ready Sample.divideByDifference with
      c_ := Runtime.program Sample.divideByDifference })
    52 29 32 56 57 29 10 (by decide!) (by decide!) (by decide!) (by decide!) (by decide!) (by decide!)
    (by decide!)
  ⟨h.1, fun fuel =>
    h.2.2 4 fuel (Runtime.program Sample.divideByDifference)
      (Runtime.ready Sample.divideByDifference) rfl (by decide!)
      (Runtime.reaches_after 4 { Runtime.ready Sample.divideByDifference with
        c_ := Runtime.program Sample.divideByDifference } (by decide!))⟩

/-- C18 (as stated) fails for `(/ 10 (- 2 2))`: both operands evaluate, the
divisor to the Integer 0, and the run then ends in the undefined division of
`DIV`; it ends with no exception, so nothing is reported to the caller and the
registers are not reset. -/
theorem div_by_zero_throws_nothing :
    (Runtime.after 4 (Runtime.loaded Sample.divideByDifference)).topInt? = some 10 ∧
      Runtime.eval 100 Sample.divideByDifference (Runtime.new initialHeap [])
        = .fault .undefinedBehaviour ∧
      ¬ ∃ e rt1, Runtime.eval 100 Sample.divideByDifference (Runtime.new initialHeap [])
        = .thrown e rt1 := by
  have h : Runtime.eval 100 Sample.divideByDifference (Runtime.new initialHeap [])
      = .fault .undefinedBehaviour := by decide!
  refine ⟨by decide!, h, ?_⟩
  rintro ⟨e, rt1, h1⟩
  rw [h] at h1
  cases h1

/-! ## The mark phase counts the reachable cells -/

theorem GC.MarkInv.skip {g : GC} {cells : List GC.Cell} {q : List GC.Word} {S : Finset Nat}
    {a : Nat} (h : GC.MarkInv g cells (.ptr (some a) :: q) S) (ha : a ∈ S) :
    GC.MarkInv g cells q S where
  length := h.length
  shape := h.shape
  marked := h.marked
  sound := h.sound
  queue := fun b hb => h.queue b (List.mem_cons_of_mem _ hb)
  roots := by
    intro l hl p hp
    rcases h.roots l hl p hp with hm | hq
    · exact Or.inl hm
    · rcases List.mem_cons.1 hq with heq | hq
      · simp only [GC.Word.ptr.injEq] at heq
        exact Or.inl ⟨a, heq, ha⟩
      · exact Or.inr hq
  closed := by
    intro b hb c hc hk w hw
    rcases h.closed b hb c hc hk w hw with hq | hm
    · rcases List.mem_cons.1 hq with heq | hq
      · exact Or.inr ⟨a, heq, ha⟩
      · exact Or.inl hq
    · exact Or.inr hm

theorem GC.MarkInv.mark {g : GC} {cells : List GC.Cell} {q q1 : List GC.Word} {S : Finset Nat}
    {a : Nat} {c : GC.Cell} (h : GC.MarkInv g cells (.ptr (some a) :: q) S)
    (hc : cells[a]? = some c) (hs : c.status ≠ .Marked)
    (hsub : ∀ w ∈ q, w ∈ q1)
    (hnew : ∀ w ∈ q1, w ∈ q ∨ ((c.kind = .Cons ∨ c.kind = .Closure) ∧ (w = c.car ∨ w = c.cdr)))
    (hnode : (c.kind = .Cons ∨ c.kind = .Closure) → c.car ∈ q1 ∧ c.cdr ∈ q1) :
    GC.MarkInv g (cells.set a { c with status := .Marked }) q1 (insert a S) := by
  have halt : a < cells.length := by
    rcases Nat.lt_or_ge a cells.length with hlt | hge
    · exact hlt
    · rw [List.getElem?_eq_none hge] at hc
      cases hc
  have hreach : GC.Reaches g a := h.queue a (List.mem_cons_self _ _)
  have hget : ∀ b, (cells.set a { c with status := .Marked })[b]?
      = if a = b then some { c with status := .Marked } else cells[b]? := by
    intro b
    rw [List.getElem?_set]
    by_cases hab : a = b
    · subst hab
      simp [halt]
    · simp [hab]
  refine ⟨by simp [h.length], ?_, ?_, ?_, ?_, ?_, ?_⟩
  · intro b cb hb
    rw [hget] at hb
    by_cases hab : a = b
    · subst hab
      simp only [if_true, Option.some.injEq] at hb
      subst hb
      exact h.shape a c hc
    · simp only [hab, if_false] at hb
      exact h.shape b cb hb
  · intro b
    rw [hget, Finset.mem_insert]
    by_cases hab : a = b
    · subst hab
      simp
    · simp only [hab, if_false]
      rw [h.marked b]
      constructor
      · rintro (heq | hm)
        · exact absurd heq.symm hab
        · exact hm
      · intro hm
        exact Or.inr hm
  · intro b hb
    rcases Finset.mem_insert.1 hb with heq | hm
    · exact heq ▸ hreach
    · exact h.sound b hm
  · intro b hb
    rcases hnew _ hb with hq | ⟨hk, hw⟩
    · exact h.queue b (List.mem_cons_of_mem _ hq)
    · obtain ⟨c0, hc0, hkind, hcar, hcdr⟩ := h.shape a c hc
      rcases hw with hw | hw
      · exact GC.Reaches.car a b c0 hreach hc0 (hkind ▸ hk) (hcar.trans hw.symm)
      · exact GC.Reaches.cdr a b c0 hreach hc0 (hkind ▸ hk) (hcdr.trans hw.symm)
  · intro l hl p hp
    rcases h.roots l hl p hp with ⟨b, hb, hm⟩ | hq
    · exact Or.inl ⟨b, hb, Finset.mem_insert_of_mem hm⟩
    · rcases List.mem_cons.1 hq with heq | hq
      · simp only [GC.Word.ptr.injEq] at heq
        exact Or.inl ⟨a, heq, Finset.mem_insert_self _ _⟩
      · exact Or.inr (hsub _ hq)
  · intro b hb cb hcb hk w hw
    rw [hget] at hcb
    by_cases hab : a = b
    · subst hab
      simp only [if_true, Option.some.injEq] at hcb
      subst hcb
      have hn := hnode hk
      rcases hw with hw | hw
      · exact Or.inl (hw ▸ hn.1)
      · exact Or.inl (hw ▸ hn.2)
    · simp only [hab, if_false] at hcb
      have hbS : b ∈ S := by
        rcases Finset.mem_insert.1 hb with heq | hm
        · exact absurd heq.symm hab
        · exact hm
      rcases h.closed b hbS cb hcb hk w hw with hq | ⟨b1, hb1, hm⟩
      · rcases List.mem_cons.1 hq with heq | hq
        · exact Or.inr ⟨a, heq, Finset.mem_insert_self _ _⟩
        · exact Or.inl (hsub _ hq)
      · exact Or.inr ⟨b1, hb1, Finset.mem_insert_of_mem hm⟩

/-- With the worklist empty the marked cells are exactly the reachable
ones. -/
theorem GC.MarkInv.complete {g : GC} {cells : List GC.Cell} {S : Finset Nat}
    (h : GC.MarkInv g cells [] S) (a : Nat) : a ∈ S ↔ GC.Reaches g a := by
  constructor
  · exact h.sound a
  · intro hr
    induction hr with
    | root l a hl hd =>
      rcases h.roots l hl _ hd with ⟨b, hb, hm⟩ | hq
      · simp only [Option.some.injEq] at hb
        exact hb ▸ hm
      · simp at hq
    | car a b c0 _ hc0 hk hcar ih =>
      have halt : a < cells.length := by
        rw [h.length]
        rcases Nat.lt_or_ge a g.cells.length with hlt | hge
        · exact hlt
        · rw [List.getElem?_eq_none hge] at hc0
          cases hc0
      obtain ⟨c1, hc1, hkind, hcar1, -⟩ := h.shape a cells[a] (List.getElem?_eq_getElem halt)
      rw [hc0] at hc1
      simp only [Option.some.injEq] at hc1
      subst hc1
      rcases h.closed a ih _ (List.getElem?_eq_getElem halt) (hkind ▸ hk) c0.car
          (Or.inl hcar1) with hq | ⟨b1, hb1, hm⟩
      · simp at hq
      · rw [hcar] at hb1
        simp only [GC.Word.ptr.injEq, Option.some.injEq] at hb1
        exact hb1 ▸ hm
    | cdr a b c0 _ hc0 hk hcdr ih =>
      have halt : a < cells.length := by
        rw [h.length]
        rcases Nat.lt_or_ge a g.cells.length with hlt | hge
        · exact hlt
        · rw [List.getElem?_eq_none hge] at hc0
          cases hc0
      obtain ⟨c1, hc1, hkind, -, hcdr1⟩ := h.shape a cells[a] (List.getElem?_eq_getElem halt)
      rw [hc0] at hc1
      simp only [Option.some.injEq] at hc1
      subst hc1
      rcases h.closed a ih _ (List.getElem?_eq_getElem halt) (hkind ▸ hk) c0.cdr
          (Or.inr hcdr1) with hq | ⟨b1, hb1, hm⟩
      · simp at hq
      · rw [hcdr] at hb1
        simp only [GC.Word.ptr.injEq, Option.some.injEq] at hb1
        exact hb1 ▸ hm

theorem GC.markLoop_spec (g : GC) : ∀ (fuel : Nat) (cells : List GC.Cell) (q : List GC.Word)
    (live : Nat) (S : Finset Nat) (cells1 : List GC.Cell) (live1 : Nat),
    GC.MarkInv g cells q S → live = S.card →
    GC.markLoop fuel cells q live = .ok (cells1, live1) →
    ∃ S1 : Finset Nat, GC.MarkInv g cells1 [] S1 ∧ live1 = S1.card
  | 0, cells, q, live, S, cells1, live1, _, _, h => by
    simp [GC.markLoop] at h
  | fuel + 1, cells, [], live, S, cells1, live1, hinv, hlive, h => by
    simp only [GC.markLoop, Except.ok.injEq, Prod.mk.injEq] at h
    obtain ⟨rfl, rfl⟩ := h
    exact ⟨S, hinv, hlive⟩
  | fuel + 1, cells, x :: q, live, S, cells1, live1, hinv, hlive, h => by
    cases x with
    | ptr p =>
      cases p with
      | none => simp [GC.markLoop] at h
      | some a =>
        simp only [GC.markLoop] at h
        cases hc : cells[a]? with
        | none => rw [hc] at h; simp at h
        | some c =>
          rw [hc] at h
          simp only at h
          by_cases hs : c.status = .Marked
          · rw [if_pos hs] at h
            exact GC.markLoop_spec g fuel cells q live S cells1 live1
              (hinv.skip ((hinv.marked a).2 ⟨c, hc, hs⟩)) hlive h
          · rw [if_neg hs] at h
            have hnot : a ∉ S := by
              intro ha
              obtain ⟨c1, hc1, hs1⟩ := (hinv.marked a).1 ha
              rw [hc] at hc1
              simp only [Option.some.injEq] at hc1
              exact hs (hc1 ▸ hs1)
            have hcard : live + 1 = (insert a S).card := by
              rw [Finset.card_insert_of_not_mem hnot, hlive]
            have hnode : ∀ hk : c.kind = .Cons ∨ c.kind = .Closure,
                GC.MarkInv g (cells.set a { c with status := .Marked }) (c.cdr :: c.car :: q)
                  (insert a S) := fun hk =>
              hinv.mark hc hs
                (fun w hw => List.mem_cons_of_mem _ (List.mem_cons_of_mem _ hw))
                (fun w hw => by
                  rcases List.mem_cons.1 hw with heq | hw
                  · exact Or.inr ⟨hk, Or.inr heq⟩
                  · rcases List.mem_cons.1 hw with heq | hw
                    · exact Or.inr ⟨hk, Or.inl heq⟩
                    · exact Or.inl hw)
                (fun _ => ⟨List.mem_cons_of_mem _ (List.mem_cons_self _ _),
                  List.mem_cons_self _ _⟩)
            have hleaf : ¬ (c.kind = .Cons ∨ c.kind = .Closure) →
                GC.MarkInv g (cells.set a { c with status := .Marked }) q (insert a S) :=
              fun hk =>
              hinv.mark hc hs (fun w hw => hw) (fun w hw => Or.inl hw)
                (fun hk1 => absurd hk1 hk)
            generalize cells.set a { c with status := .Marked } = cells2 at h hnode hleaf
            cases hk : c.kind with
            | Cons =>
              rw [hk] at h
              exact GC.markLoop_spec g fuel _ _ _ _ cells1 live1 (hnode (Or.inl hk)) hcard h
            | Closure =>
              rw [hk] at h
              exact GC.markLoop_spec g fuel _ _ _ _ cells1 live1 (hnode (Or.inr hk)) hcard h
            | Integer =>
              rw [hk] at h
              exact GC.markLoop_spec g fuel _ _ _ _ cells1 live1
                (hleaf (by simp [hk])) hcard h
            | Symbol =>
              rw [hk] at h
              exact GC.markLoop_spec g fuel _ _ _ _ cells1 live1
                (hleaf (by simp [hk])) hcard h
            | unset =>
              rw [hk] at h
              exact GC.markLoop_spec g fuel _ _ _ _ cells1 live1
                (hleaf (by simp [hk])) hcard h
    | ones => simp [GC.markLoop] at h
    | int v => simp [GC.markLoop] at h
    | name s => simp [GC.markLoop] at h

theorem GC.rootTargets_spec (data_ : List (Nat × Option Nat)) :
    ∀ (roots : List Nat) (q0 q : List GC.Word), GC.rootTargets data_ roots q0 = .ok q →
      (∀ w ∈ q, w ∈ q0 ∨ ∃ l ∈ roots, ∃ p, GC.deref data_ l = some p ∧ w = .ptr p) ∧
      (∀ l ∈ roots, ∀ p, GC.deref data_ l = some p → GC.Word.ptr p ∈ q) ∧
      (∀ w ∈ q0, w ∈ q) ∧ q.length = q0.length + roots.length
  | [], q0, q, h => by
    simp only [GC.rootTargets, Except.ok.injEq] at h
    subst h
    exact ⟨fun w hw => Or.inl hw, fun l hl => by simp at hl, fun w hw => hw, rfl⟩
  | l :: rest, q0, q, h => by
    simp only [GC.rootTargets] at h
    cases hd : GC.deref data_ l with
    | none => rw [hd] at h; simp at h
    | some p =>
      rw [hd] at h
      simp only at h
      obtain ⟨h1, h2, h3, h4⟩ := GC.rootTargets_spec data_ rest _ q h
      refine ⟨?_, ?_, ?_, ?_⟩
      · intro w hw
        rcases h1 w hw with hq | ⟨l1, hl1, p1, hp1, hw1⟩
        · rcases List.mem_cons.1 hq with heq | hq
          · exact Or.inr ⟨l, List.mem_cons_self _ _, p, hd, heq⟩
          · exact Or.inl hq
        · exact Or.inr ⟨l1, List.mem_cons_of_mem _ hl1, p1, hp1, hw1⟩
      · intro l1 hl1 p1 hp1
        rcases List.mem_cons.1 hl1 with heq | hl1
        · subst heq
          rw [hd] at hp1
          simp only [Option.some.injEq] at hp1
          exact h3 _ (hp1 ▸ List.mem_cons_self _ _)
        · exact h2 l1 hl1 p1 hp1
      · intro w hw
        exact h3 w (List.mem_cons_of_mem _ hw)
      · rw [h4]
        simp only [List.length_cons]
        omega

/-- With no cell marked at its start, `GC::Mark`, when it returns, has marked
exactly the reachable cells and counted each of them once. -/
theorem GC.Mark_spec (g g1 : GC) (hm : g.NoMarked) (h : GC.Mark g = .ok () g1) :
    ∃ S : Finset Nat, GC.MarkInv g g1.cells [] S ∧ g1.liveObjects_ = S.card ∧
      g1.roots_ = g.roots_ ∧ g1.data_ = g.data_ ∧ g1.bank_ = g.bank_ ∧
      g1.freeList_ = g.freeList_ ∧ g1.numBanks_ = g.numBanks_ := by
  unfold GC.Mark at h
  cases hq : GC.rootTargets g.data_ g.roots_ [] with
  | error f => rw [hq] at h; simp at h
  | ok q =>
    rw [hq] at h
    simp only at h
    cases hl : GC.markLoop (g.roots_.length + 2 * g.cells.length + 1) g.cells q 0 with
    | error f => rw [hl] at h; simp at h
    | ok r =>
      obtain ⟨cells, live⟩ := r
      rw [hl] at h
      simp only [Res.ok.injEq, true_and] at h
      subst h
      obtain ⟨h1, h2, -, -⟩ := GC.rootTargets_spec g.data_ g.roots_ [] q hq
      have hinv : GC.MarkInv g g.cells q ∅ := by
        refine ⟨rfl, fun a c hc => ⟨c, hc, rfl, rfl, rfl⟩, ?_, ?_, ?_, ?_, ?_⟩
        · intro a
          constructor
          · intro ha
            simp at ha
          · rintro ⟨c, hc, hs⟩
            exact absurd hs (hm c (List.getElem?_mem hc))
        · intro a ha
          simp at ha
        · intro a ha
          rcases h1 _ ha with hq0 | ⟨l, hl1, p, hp, hw⟩
          · simp at hq0
          · simp only [GC.Word.ptr.injEq] at hw
            exact GC.Reaches.root l a hl1 (hw ▸ hp)
        · intro l hl1 p hp
          exact Or.inr (h2 l hl1 p hp)
        · intro a ha
          simp at ha
      obtain ⟨S, hS, hcard⟩ := GC.markLoop_spec g _ _ _ _ ∅ cells live hinv rfl hl
      exact ⟨S, hS, hcard, rfl, rfl, rfl, rfl, rfl⟩

/-! ## The mark phase ends -/

theorem GC.unmarked_set : ∀ (cells : List GC.Cell) (a : Nat) (c : GC.Cell),
    cells[a]? = some c → c.status ≠ .Marked →
    GC.unmarked (cells.set a { c with status := .Marked }) + 1 = GC.unmarked cells
  | [], a, c, hc, _ => by simp at hc
  | x :: xs, 0, c, hc, hs => by
    simp only [List.getElem?_cons_zero, Option.some.injEq] at hc
    subst hc
    simp [GC.unmarked, List.countP_cons, hs]
  | x :: xs, a + 1, c, hc, hs => by
    simp only [List.getElem?_cons_succ] at hc
    have ih := GC.unmarked_set xs a c hc hs
    simp only [GC.unmarked, List.set_cons_succ, List.countP_cons] at ih ⊢
    omega

theorem GC.unmarked_le (cells : List GC.Cell) : GC.unmarked cells ≤ cells.length :=
  List.countP_le_length _

/-- The loop of `GC::Mark` ends within as many rounds as the worklist is long
plus two for every cell not marked yet. -/
theorem GC.markLoop_fuel : ∀ (fuel : Nat) (cells : List GC.Cell) (q : List GC.Word) (live : Nat),
    q.length + 2 * GC.unmarked cells < fuel →
    GC.markLoop fuel cells q live ≠ .error .outOfFuel
  | 0, cells, q, live, h => by omega
  | fuel + 1, cells, [], live, _ => by simp [GC.markLoop]
  | fuel + 1, cells, x :: q, live, h => by
    simp only [List.length_cons] at h
    cases x with
    | ptr p =>
      cases p with
      | none => simp [GC.markLoop]
      | some a =>
        simp only [GC.markLoop]
        cases hc : cells[a]? with
        | none => simp
        | some c =>
          simp only
          by_cases hs : c.status = .Marked
          · rw [if_pos hs]
            exact GC.markLoop_fuel fuel cells q live (by omega)
          · rw [if_neg hs]
            have hset := GC.unmarked_set cells a c hc hs
            generalize cells.set a { c with status := .Marked } = cells2 at hset
            cases hk : c.kind with
            | Cons =>
              exact GC.markLoop_fuel fuel cells2 _ _ (by simp only [List.length_cons]; omega)
            | Closure =>
              exact GC.markLoop_fuel fuel cells2 _ _ (by simp only [List.length_cons]; omega)
            | Integer => exact GC.markLoop_fuel fuel cells2 _ _ (by omega)
            | Symbol => exact GC.markLoop_fuel fuel cells2 _ _ (by omega)
            | unset => exact GC.markLoop_fuel fuel cells2 _ _ (by omega)
    | ones => simp [GC.markLoop]
    | int v => simp [GC.markLoop]
    | name s => simp [GC.markLoop]

theorem GC.rootTargets_fuel (data_ : List (Nat × Option Nat)) :
    ∀ (roots : List Nat) (q0 : List GC.Word),
      GC.rootTargets data_ roots q0 ≠ .error .outOfFuel
  | [], q0 => by simp [GC.rootTargets]
  | l :: rest, q0 => by
    simp only [GC.rootTargets]
    cases GC.deref data_ l with
    | none => simp
    | some p => exact GC.rootTargets_fuel data_ rest _

/-- `GC::Mark` never needs more rounds than its bound. -/
theorem GC.Mark_fuel (g : GC) : GC.Mark g ≠ .fault .outOfFuel := by
  unfold GC.Mark
  cases hq : GC.rootTargets g.data_ g.roots_ [] with
  | error f =>
    simp only
    intro h
    simp only [Res.fault.injEq] at h
    subst h
    exact GC.rootTargets_fuel g.data_ g.roots_ [] hq
  | ok q =>
    simp only
    obtain ⟨-, -, -, hlen⟩ := GC.rootTargets_spec g.data_ g.roots_ [] q hq
    have hf := GC.markLoop_fuel (g.roots_.length + 2 * g.cells.length + 1) g.cells q 0 (by
      have := GC.unmarked_le g.cells
      rw [hlen]
      simp only [List.length_nil]
      omega)
    cases hl : GC.markLoop (g.roots_.length + 2 * g.cells.length + 1) g.cells q 0 with
    | error f =>
      simp only
      intro h
      simp only [Res.fault.injEq] at h
      subst h
      exact hf hl
    | ok r => simp

/-! ## The sweep phase -/

theorem GC.sweepCell_length (a : Nat) (s : List GC.Cell × Option Nat) :
    (GC.sweepCell a s).1.length = s.1.length := by
  unfold GC.sweepCell
  cases s.1[a]? with
  | none => rfl
  | some c =>
    simp only
    cases c.status <;> simp

theorem GC.sweepCell_other (a b : Nat) (s : List GC.Cell × Option Nat) (h : a ≠ b) :
    (GC.sweepCell b s).1[a]? = s.1[a]? := by
  unfold GC.sweepCell
  cases s.1[b]? with
  | none => rfl
  | some c =>
    simp only
    cases c.status <;> simp [List.getElem?_set, Ne.symm h]

theorem GC.sweepCell_marked (a : Nat) (s : List GC.Cell × Option Nat) (c : GC.Cell)
    (hc : s.1[a]? = some c) (hs : c.status = .Marked) :
    (GC.sweepCell a s).1[a]? = some { c with status := .Used } ∧ (GC.sweepCell a s).2 = s.2 := by
  have halt : a < s.1.length := by
    rcases Nat.lt_or_ge a s.1.length with hlt | hge
    · exact hlt
    · rw [List.getElem?_eq_none hge] at hc
      cases hc
  unfold GC.sweepCell
  rw [hc]
  simp only [hs]
  simp [List.getElem?_set, halt]

theorem GC.sweepCells_other (a : Nat) : ∀ (as : List Nat) (s : List GC.Cell × Option Nat),
    a ∉ as → (GC.sweepCells as s).1[a]? = s.1[a]?
  | [], s, _ => rfl
  | b :: rest, s, h => by
    simp only [List.mem_cons, not_or] at h
    show (GC.sweepCells rest (GC.sweepCell b s)).1[a]? = _
    rw [GC.sweepCells_other a rest _ h.2, GC.sweepCell_other a b s h.1]

theorem GC.sweepCells_length : ∀ (as : List Nat) (s : List GC.Cell × Option Nat),
    (GC.sweepCells as s).1.length = s.1.length
  | [], s => rfl
  | b :: rest, s => by
    show (GC.sweepCells rest (GC.sweepCell b s)).1.length = _
    rw [GC.sweepCells_length rest, GC.sweepCell_length]

/-- A marked cell comes out of the sweep with its kind and its two words as
they were, when no address is visited twice. -/
theorem GC.sweepCells_marked (a : Nat) (c : GC.Cell) :
    ∀ (as : List Nat) (s : List GC.Cell × Option Nat), as.Nodup →
      s.1[a]? = some c → c.status = .Marked →
      ∃ st, (GC.sweepCells as s).1[a]? = some { c with status := st }
  | [], s, _, hc, hs => ⟨.Marked, by
      rw [← hs]
      exact hc⟩
  | b :: rest, s, hnd, hc, hs => by
    rw [List.nodup_cons] at hnd
    show ∃ st, (GC.sweepCells rest (GC.sweepCell b s)).1[a]? = _
    by_cases hab : a = b
    · subst hab
      refine ⟨.Used, ?_⟩
      rw [GC.sweepCells_other a rest _ hnd.1]
      exact (GC.sweepCell_marked a s c hc hs).1
    · apply GC.sweepCells_marked a c rest _ hnd.2 _ hs
      rw [GC.sweepCell_other a b s hab]
      exact hc

theorem GC.sweepBank_eq (base : Nat) (s : List GC.Cell × Option Nat) :
    GC.sweepBank base s = GC.sweepCells (GC.bankRange base) s := by
  unfold GC.sweepBank GC.sweepCells GC.bankRange
  rw [List.foldl_map]

theorem GC.sweepBanks_eq : ∀ (bank_ : List Nat) (s : List GC.Cell × Option Nat),
    bank_.foldl (fun s base => GC.sweepBank base s) s = GC.sweepCells (GC.sweepOrder bank_) s
  | [], s => by simp only [List.foldl_nil, GC.sweepOrder, GC.sweepCells]
  | base :: next, s => by
    simp only [List.foldl_cons, GC.sweepOrder]
    rw [GC.sweepBanks_eq next, GC.sweepBank_eq]
    unfold GC.sweepCells
    rw [List.foldl_append]

theorem GC.Sweep_eq (g : GC) :
    GC.Sweep g = .ok () { g with
      cells := (GC.sweepCells (GC.sweepOrder g.bank_) (g.cells, g.freeList_)).1,
      freeList_ := (GC.sweepCells (GC.sweepOrder g.bank_) (g.cells, g.freeList_)).2 } := by
  unfold GC.Sweep
  rw [GC.sweepBanks_eq]

/-! ## A collection -/

theorem GC.Run_of_Mark (g gM : GC) (hM : GC.Mark g = .ok () gM) :
    GC.Run g = .ok ()
      (if (GC.sweepCells (GC.sweepOrder gM.bank_) (gM.cells, gM.freeList_)).2 = none then
        { gM with
          cells := (GC.sweepCells (GC.sweepOrder gM.bank_) (gM.cells, gM.freeList_)).1
            ++ GC.bankCells none,
          bank_ := (GC.sweepCells (GC.sweepOrder gM.bank_) (gM.cells, gM.freeList_)).1.length
            :: gM.bank_,
          freeList_ :=
            some (GC.sweepCells (GC.sweepOrder gM.bank_) (gM.cells, gM.freeList_)).1.length,
          numBanks_ := gM.numBanks_ + 1,
          allocations_ := 0 }
      else
        { gM with
          cells := (GC.sweepCells (GC.sweepOrder gM.bank_) (gM.cells, gM.freeList_)).1,
          freeList_ := (GC.sweepCells (GC.sweepOrder gM.bank_) (gM.cells, gM.freeList_)).2,
          allocations_ := 0 }) := by
  unfold GC.Run
  simp only [M.bind_apply, hM, GC.Sweep_eq]
  by_cases hf : (GC.sweepCells (GC.sweepOrder gM.bank_) (gM.cells, gM.freeList_)).2 = none
  · simp [hf, GC.newBank]
  · simp [hf]

theorem GC.Run_fault_of_Mark (g : GC) (f : Fault) (hM : GC.Mark g = .fault f) :
    GC.Run g = .fault f := by
  unfold GC.Run
  simp only [M.bind_apply, hM]

theorem GC.Mark_not_thrown (g gM : GC) (e : Error) : GC.Mark g ≠ .thrown e gM := by
  unfold GC.Mark
  cases GC.rootTargets g.data_ g.roots_ [] with
  | error f => simp
  | ok q =>
    simp only
    cases GC.markLoop (g.roots_.length + 2 * g.cells.length + 1) g.cells q 0 with
    | error f => simp
    | ok r => simp

/-- What a collection leaves of the state it started in: the counter
`liveObjects_` as `GC::Mark` set it, the roots, and every cell `GC::Mark`
marked with its kind and its two words. -/
theorem GC.Run_spec (g g1 : GC) (hm : g.NoMarked) (hd : g.Disjoint)
    (h : GC.Run g = .ok () g1) :
    ∃ S : Finset Nat, (∀ a, a ∈ S ↔ GC.Reaches g a) ∧ g1.liveObjects_ = S.card ∧
      g1.roots_ = g.roots_ ∧ g1.data_ = g.data_ ∧
      ∀ a ∈ S, ∃ c0 c1 : GC.Cell, g.cells[a]? = some c0 ∧ g1.cells[a]? = some c1 ∧
        c1.kind = c0.kind ∧ c1.car = c0.car ∧ c1.cdr = c0.cdr := by
  cases hM : GC.Mark g with
  | fault f =>
    rw [GC.Run_fault_of_Mark g f hM] at h
    cases h
  | thrown e gM => exact absurd hM (GC.Mark_not_thrown g gM e)
  | ok u gM =>
    obtain ⟨S, hinv, hcard, hroots, hdata, hbank, -, -⟩ := GC.Mark_spec g gM hm hM
    rw [GC.Run_of_Mark g gM hM] at h
    simp only [Res.ok.injEq, true_and] at h
    have hcell : ∀ a ∈ S, ∃ c0 c1 : GC.Cell, g.cells[a]? = some c0 ∧
        (GC.sweepCells (GC.sweepOrder gM.bank_) (gM.cells, gM.freeList_)).1[a]? = some c1 ∧
        c1.kind = c0.kind ∧ c1.car = c0.car ∧ c1.cdr = c0.cdr := by
      intro a ha
      obtain ⟨c, hc, hs⟩ := (hinv.marked a).1 ha
      obtain ⟨c0, hc0, hk, hcar, hcdr⟩ := hinv.shape a c hc
      obtain ⟨st, hst⟩ := GC.sweepCells_marked a c (GC.sweepOrder gM.bank_)
        (gM.cells, gM.freeList_) (hbank ▸ hd) hc hs
      exact ⟨c0, _, hc0, hst, hk.symm, hcar.symm, hcdr.symm⟩
    refine ⟨S, hinv.complete, ?_, ?_, ?_, ?_⟩
    · rw [← h]
      split <;> exact hcard
    · rw [← h]
      split <;> exact hroots
    · rw [← h]
      split <;> exact hdata
    · intro a ha
      obtain ⟨c0, c1, hc0, hc1, hrest⟩ := hcell a ha
      refine ⟨c0, c1, hc0, ?_, hrest⟩
      rw [← h]
      split
      · show (_ ++ _)[a]? = _
        have halt : a < (GC.sweepCells (GC.sweepOrder gM.bank_)
            (gM.cells, gM.freeList_)).1.length := by
          rcases Nat.lt_or_ge a (GC.sweepCells (GC.sweepOrder gM.bank_)
            (gM.cells, gM.freeList_)).1.length with hlt | hge
          · exact hlt
          · rw [List.getElem?_eq_none hge] at hc1
            cases hc1
        rw [List.getElem?_append_left halt]
        exact hc1
      · exact hc1

/-- A collection leaves the reachable cells reachable and makes no other
cell reachable. -/
theorem GC.Run_reaches (g g1 : GC) (hm : g.NoMarked) (hd : g.Disjoint)
    (h : GC.Run g = .ok () g1) (a : Nat) : GC.Reaches g1 a ↔ GC.Reaches g a := by
  obtain ⟨S, hS, -, hroots, hdata, hcell⟩ := GC.Run_spec g g1 hm hd h
  constructor
  · intro hr
    induction hr with
    | root l a hl hdl => exact GC.Reaches.root l a (hroots ▸ hl) (hdata ▸ hdl)
    | car a b c _ hc hk hcar ih =>
      obtain ⟨c0, c1, hc0, hc1, hkind, hcar1, -⟩ := hcell a ((hS a).2 ih)
      rw [hc] at hc1
      simp only [Option.some.injEq] at hc1
      subst hc1
      exact GC.Reaches.car a b c0 ih hc0 (hkind ▸ hk) (hcar1 ▸ hcar)
    | cdr a b c _ hc hk hcdr ih =>
      obtain ⟨c0, c1, hc0, hc1, hkind, -, hcdr1⟩ := hcell a ((hS a).2 ih)
      rw [hc] at hc1
      simp only [Option.some.injEq] at hc1
      subst hc1
      exact GC.Reaches.cdr a b c0 ih hc0 (hkind ▸ hk) (hcdr1 ▸ hcdr)
  · intro hr
    induction hr with
    | root l a hl hdl => exact GC.Reaches.root l a (hroots ▸ hl) (hdata ▸ hdl)
    | car a b c hra hc hk hcar ih =>
      obtain ⟨c0, c1, hc0, hc1, hkind, hcar1, -⟩ := hcell a ((hS a).2 hra)
      rw [hc] at hc0
      simp only [Option.some.injEq] at hc0
      subst hc0
      exact GC.Reaches.car a b c1 ih hc1 (hkind ▸ hk) (hcar1.trans hcar)
    | cdr a b c hra hc hk hcdr ih =>
      obtain ⟨c0, c1, hc0, hc1, hkind, -, hcdr1⟩ := hcell a ((hS a).2 hra)
      rw [hc] at hc0
      simp only [Option.some.injEq] at hc0
      subst hc0
      exact GC.Reaches.cdr a b c1 ih hc1 (hkind ▸ hk) (hcdr1.trans hcdr)

/-! ## The banks -/

theorem GC.mem_bankRange (base x : Nat) :
    x ∈ GC.bankRange base ↔ base ≤ x ∧ x < base + GC.BankSize := by
  unfold GC.bankRange
  simp only [List.mem_map, List.mem_range]
  constructor
  · rintro ⟨i, hi, rfl⟩
    omega
  · rintro ⟨h1, h2⟩
    exact ⟨x - base, by omega, by omega⟩

theorem GC.nodup_bankRange (base : Nat) : (GC.bankRange base).Nodup := by
  unfold GC.bankRange
  exact (List.nodup_range _).map (fun i j h => by simpa using h)

theorem GC.mem_sweepOrder (x : Nat) : ∀ bank_ : List Nat,
    x ∈ GC.sweepOrder bank_ ↔ ∃ base ∈ bank_, base ≤ x ∧ x < base + GC.BankSize
  | [] => by simp [GC.sweepOrder]
  | b :: rest => by
    simp only [GC.sweepOrder, List.mem_append, GC.mem_bankRange, GC.mem_sweepOrder x rest,
      List.mem_cons, exists_eq_or_imp]

theorem GC.nodup_sweepOrder : ∀ bank_ : List Nat,
    bank_.Pairwise (fun b1 b2 => b1 + GC.BankSize ≤ b2 ∨ b2 + GC.BankSize ≤ b1) →
    (GC.sweepOrder bank_).Nodup
  | [], _ => by simp [GC.sweepOrder]
  | b :: rest, h => by
    rw [List.pairwise_cons] at h
    simp only [GC.sweepOrder]
    rw [List.nodup_append]
    refine ⟨GC.nodup_bankRange b, GC.nodup_sweepOrder rest h.2, ?_⟩
    intro x hx hx1
    rw [GC.mem_bankRange] at hx
    obtain ⟨b1, hb1, hlo, hhi⟩ := (GC.mem_sweepOrder x rest).1 hx1
    rcases h.1 b1 hb1 with hsep | hsep <;> omega

theorem GC.Layout.disjoint {g : GC} (h : g.Layout) : g.Disjoint := by
  unfold GC.Disjoint
  apply GC.nodup_sweepOrder
  rw [h.1, List.pairwise_reverse, List.pairwise_map]
  refine (List.pairwise_lt_range g.numBanks_).imp ?_
  intro i j hij
  right
  have hpos : 0 < GC.BankSize := by decide
  calc i * GC.BankSize + GC.BankSize = (i + 1) * GC.BankSize := by ring
    _ ≤ j * GC.BankSize := Nat.mul_le_mul_right _ hij

theorem GC.Layout.covers {g : GC} (h : g.Layout) (a : Nat) (ha : a < g.cells.length) :
    a ∈ GC.sweepOrder g.bank_ := by
  rw [GC.mem_sweepOrder, h.1]
  have hpos : 0 < GC.BankSize := by decide
  rw [h.2] at ha
  refine ⟨a / GC.BankSize * GC.BankSize, ?_, Nat.div_mul_le_self _ _, ?_⟩
  · rw [List.mem_reverse, List.mem_map]
    exact ⟨a / GC.BankSize, List.mem_range.2 ((Nat.div_lt_iff_lt_mul hpos).2 ha), rfl⟩
  · have := Nat.lt_div_mul_add hpos (a := a)
    omega

theorem GC.sweepCell_not_marked (a : Nat) (s : List GC.Cell × Option Nat) (c : GC.Cell)
    (hc : (GC.sweepCell a s).1[a]? = some c) : c.status ≠ .Marked := by
  unfold GC.sweepCell at hc
  cases hs : s.1[a]? with
  | none =>
    rw [hs] at hc
    simp only at hc
    rw [hs] at hc
    cases hc
  | some c0 =>
    have halt : a < s.1.length := by
      rcases Nat.lt_or_ge a s.1.length with hlt | hge
      · exact hlt
      · rw [List.getElem?_eq_none hge] at hs
        cases hs
    rw [hs] at hc
    simp only at hc
    cases hst : c0.status with
    | Marked =>
      rw [hst] at hc
      simp only [List.getElem?_set, halt, if_true, Option.some.injEq] at hc
      subst hc
      simp
    | Used =>
      rw [hst] at hc
      simp only [List.getElem?_set, halt, if_true, Option.some.injEq] at hc
      subst hc
      simp
    | Free =>
      rw [hst] at hc
      simp only at hc
      rw [hs] at hc
      simp only [Option.some.injEq] at hc
      subst hc
      rw [hst]
      simp

/-- No cell that the sweep visits is left marked, when no address is visited
twice. -/
theorem GC.sweepCells_not_marked (a : Nat) :
    ∀ (as : List Nat) (s : List GC.Cell × Option Nat) (c : GC.Cell), as.Nodup → a ∈ as →
      (GC.sweepCells as s).1[a]? = some c → c.status ≠ .Marked
  | [], s, c, _, ha, _ => by simp at ha
  | b :: rest, s, c, hnd, ha, hc => by
    rw [List.nodup_cons] at hnd
    change (GC.sweepCells rest (GC.sweepCell b s)).1[a]? = some c at hc
    by_cases hab : a = b
    · subst hab
      rw [GC.sweepCells_other a rest _ hnd.1] at hc
      exact GC.sweepCell_not_marked a s c hc
    · rcases List.mem_cons.1 ha with heq | hmem
      · exact absurd heq hab
      · exact GC.sweepCells_not_marked a rest _ c hnd.2 hmem hc

theorem GC.Run_fuel (g : GC) : GC.Run g ≠ .fault .outOfFuel := by
  cases hM : GC.Mark g with
  | fault f =>
    rw [GC.Run_fault_of_Mark g f hM]
    intro h
    simp only [Res.fault.injEq] at h
    subst h
    exact GC.Mark_fuel g hM
  | thrown e gM => exact absurd hM (GC.Mark_not_thrown g gM e)
  | ok u gM =>
    rw [GC.Run_of_Mark g gM hM]
    simp

theorem GC.length_bankCells (freeList : Option Nat) :
    (GC.bankCells freeList).length = GC.BankSize := by
  simp only [GC.bankCells, List.length_append, List.length_replicate, List.length_singleton]
  decide

/-- A collection that starts with no cell marked and the banks laid out one
behind the other ends so. -/
theorem GC.Run_valid (g g1 : GC) (hm : g.NoMarked) (hl : g.Layout)
    (h : GC.Run g = .ok () g1) : g1.NoMarked ∧ g1.Layout := by
  cases hM : GC.Mark g with
  | fault f =>
    rw [GC.Run_fault_of_Mark g f hM] at h
    cases h
  | thrown e gM => exact absurd hM (GC.Mark_not_thrown g gM e)
  | ok u gM =>
    obtain ⟨S, hinv, -, -, -, hbank, -, hnum⟩ := GC.Mark_spec g gM hm hM
    have hlM : gM.Layout := ⟨by rw [hbank, hnum]; exact hl.1, by rw [hinv.length, hnum]; exact hl.2⟩
    rw [GC.Run_of_Mark g gM hM] at h
    simp only [Res.ok.injEq, true_and] at h
    have hlen := GC.sweepCells_length (GC.sweepOrder gM.bank_) (gM.cells, gM.freeList_)
    have hswept : ∀ c ∈ (GC.sweepCells (GC.sweepOrder gM.bank_) (gM.cells, gM.freeList_)).1,
        c.status ≠ .Marked := by
      intro c hc
      obtain ⟨a, hlt, hget⟩ := List.mem_iff_getElem.1 hc
      have hget1 : (GC.sweepCells (GC.sweepOrder gM.bank_) (gM.cells, gM.freeList_)).1[a]?
          = some c := by
        rw [List.getElem?_eq_getElem hlt, hget]
      exact GC.sweepCells_not_marked a _ _ c hlM.disjoint
        (hlM.covers a (by rw [← hlen]; exact hlt)) hget1
    rw [← h]
    split
    · refine ⟨?_, ?_, ?_⟩
      · intro c hc
        rcases List.mem_append.1 hc with hc | hc
        · exact hswept c hc
        · simp only [GC.bankCells, List.mem_append, List.mem_replicate, List.mem_singleton] at hc
          rcases hc with ⟨-, rfl⟩ | rfl <;> simp
      · show _ :: gM.bank_ = ((List.range (gM.numBanks_ + 1)).map fun k => k * GC.BankSize).reverse
        rw [List.range_succ, List.map_append, List.reverse_append]
        simp only [List.map_singleton, List.reverse_singleton, List.singleton_append]
        exact congrArg₂ List.cons (hlen.trans hlM.2) hlM.1
      · show ((GC.sweepCells (GC.sweepOrder gM.bank_) (gM.cells, gM.freeList_)).1
            ++ GC.bankCells none).length = (gM.numBanks_ + 1) * GC.BankSize
        rw [List.length_append, hlen, GC.length_bankCells]
        show gM.cells.length + GC.BankSize = _
        rw [hlM.2]
        ring
    · exact ⟨hswept, hlM.1, by
        show (GC.sweepCells _ _).1.length = _
        rw [hlen]
        exact hlM.2⟩

theorem GC.initial_valid : GC.initial.NoMarked ∧ GC.initial.Layout := by
  refine ⟨fun c hc => by simp [GC.initial] at hc, rfl, rfl⟩

/-- C20: a collection that starts with no cell marked and no cell in two
banks never needs more rounds than its bound and, when it returns, leaves in
`liveObjects_` the number of distinct cells reachable from the root set:
reachable from the cells the registered root locations point to through the
two words of Cons and Closure cells, the same cells before and after the
collection, each counted once. -/
theorem live_objects_counts_reachable (g : GC) (hm : g.NoMarked) (hd : g.Disjoint) :
    GC.Run g ≠ .fault .outOfFuel ∧
      ∀ g1, GC.Run g = .ok () g1 →
        (∃ S : Finset Nat, (∀ a, a ∈ S ↔ GC.Reaches g1 a) ∧ g1.liveObjects_ = S.card) ∧
        ∀ a, GC.Reaches g1 a ↔ GC.Reaches g a := by
  refine ⟨GC.Run_fuel g, fun g1 h => ?_⟩
  obtain ⟨S, hS, hcard, -, -, -⟩ := GC.Run_spec g g1 hm hd h
  have hr := GC.Run_reaches g g1 hm hd h
  exact ⟨⟨S, fun a => (hS a).trans (hr a).symm, hcard⟩, hr⟩

theorem GC.Sample.shared_valid : GC.Sample.shared.NoMarked ∧ GC.Sample.shared.Layout := by
  refine ⟨?_, ?_⟩
  · unfold GC.NoMarked
    decide!
  · unfold GC.Layout
    decide!

theorem GC.Sample.shared_marked :
    GC.Mark GC.Sample.shared = .ok () (GC.stateAfter GC.Mark GC.Sample.shared) ∧
      (GC.stateAfter GC.Mark GC.Sample.shared).liveObjects_ = 3 := by
  decide!

theorem GC.Run_liveObjects (g gM g1 : GC) (hM : GC.Mark g = .ok () gM)
    (h : GC.Run g = .ok () g1) : g1.liveObjects_ = gM.liveObjects_ := by
  rw [GC.Run_of_Mark g gM hM] at h
  simp only [Res.ok.injEq, true_and] at h
  rw [← h]
  split <;> rfl

theorem live_objects_counts_reachable_example :
    GC.Run GC.Sample.shared ≠ .fault .outOfFuel ∧
      ∃ g1, GC.Run GC.Sample.shared = .ok () g1 ∧ g1.liveObjects_ = 3 ∧
        (∃ S : Finset Nat, (∀ a, a ∈ S ↔ GC.Reaches g1 a) ∧ g1.liveObjects_ = S.card) ∧
        ∀ a, GC.Reaches g1 a ↔ GC.Reaches GC.Sample.shared a :=
  have h := live_objects_counts_reachable GC.Sample.shared GC.Sample.shared_valid.1
    GC.Sample.shared_valid.2.disjoint
  have hrun := GC.Run_of_Mark GC.Sample.shared _ GC.Sample.shared_marked.1
  ⟨h.1, _, hrun,
    (GC.Run_liveObjects _ _ _ GC.Sample.shared_marked.1 hrun).trans GC.Sample.shared_marked.2,
    (h.2 _ hrun).1, (h.2 _ hrun).2⟩

/-! ## The stack discipline of compiled code -/

theorem IsSeg.mono_seg {P P1 : Nat → Prop} {h h1 : Heap}
    (hP : ∀ p, P p → P1 p ∧ h1.get? p = h.get? p) :
    ∀ (items : List Nat) (c r : Nat), IsSeg P h c items r → IsSeg P1 h1 c items r
  | [], _, _, hs => hs
  | _ :: xs, c, r, ⟨hc, d, hd, hs⟩ =>
    ⟨(hP c hc).1, d, (hP c hc).2.trans hd, IsSeg.mono_seg hP xs d r hs⟩

theorem Code.Run.mono_run {P P1 V V1 : Nat → Prop} {h h1 : Heap}
    (hP : ∀ p, P p → P1 p ∧ h1.get? p = h.get? p) (hV : ∀ x, V x → V1 x)
    {K : Code.End} {τ τ1 : Code.Pend} {items : List Nat}
    (hr : Code.Run P V h K τ items τ1) : Code.Run P1 V1 h1 K τ items τ1 := by
  induction hr with
  | nil K τ => exact .nil K τ
  | forget _ ih => exact .forget ih
  | op hx ho he _ ih => exact .op (hP _ hx).1 ((hP _ hx).2.trans ho) he ih
  | ldc hx _ ih => exact .ldc (hV _ hx) ih
  | ld _ ih => exact .ld ih
  | sel0 hs _ _ ih1 ih2 => exact .sel0 (IsSeg.mono_seg hP _ _ _ hs) ih1 ih2
  | sel1 hs _ _ ih1 ih2 => exact .sel1 (IsSeg.mono_seg hP _ _ _ hs) ih1 ih2
  | ldf hs _ _ ih1 ih2 => exact .ldf (IsSeg.mono_seg hP _ _ _ hs) ih1 ih2

theorem Code.Rest.mono_rest {P P1 V V1 : Nat → Prop} {h h1 : Heap}
    (hP : ∀ p, P p → P1 p ∧ h1.get? p = h.get? p) (hV : ∀ x, V x → V1 x)
    {K : Code.End} {τ : Code.Pend} {c : Nat}
    (hr : Code.Rest P V h K τ c) : Code.Rest P1 V1 h1 K τ c := by
  obtain ⟨items, r, τf, hs, hrun, hf⟩ := hr
  exact ⟨items, r, τf, IsSeg.mono_seg hP _ _ _ hs, hrun.mono_run hP hV, hf⟩

theorem Regions.Ext.refl_ext (g : Regions) (h : Heap) : g.Ext h g h :=
  ⟨Nat.le_refl _, fun _ hp => ⟨hp, rfl⟩, fun _ hp => ⟨hp, fun a _ hc => ⟨a, hc⟩⟩,
    fun _ _ hp => hp, fun _ _ hp => hp⟩

theorem Regions.Ext.trans_ext {g g1 g2 : Regions} {h h1 h2 : Heap}
    (h01 : g.Ext h g1 h1) (h12 : g1.Ext h1 g2 h2) : g.Ext h g2 h2 := by
  refine ⟨Nat.le_trans h01.size h12.size, fun p hp => ?_, fun p hp => ?_, fun p hlt hp => ?_,
    fun p hlt hp => ?_⟩
  · exact ⟨(h12.ctl p (h01.ctl p hp).1).1, (h12.ctl p (h01.ctl p hp).1).2.trans (h01.ctl p hp).2⟩
  · refine ⟨(h12.env p (h01.env p hp).1).1, fun a b hc => ?_⟩
    obtain ⟨a1, hc1⟩ := (h01.env p hp).2 a b hc
    exact (h12.env p (h01.env p hp).1).2 a1 b hc1
  · exact h01.ctl_old p hlt (h12.ctl_old p (Nat.lt_of_lt_of_le hlt h01.size) hp)
  · exact h01.env_old p hlt (h12.env_old p (Nat.lt_of_lt_of_le hlt h01.size) hp)

theorem Regions.Ext.val {g g1 : Regions} {h h1 : Heap} (hx : g.Ext h g1 h1) {x : Nat}
    (hv : g.val h x) : g1.val h1 x :=
  ⟨Nat.lt_of_lt_of_le hv.1 hx.size, fun hc => hv.2.1 (hx.ctl_old x hv.1 hc),
    fun he => hv.2.2 (hx.env_old x hv.1 he)⟩

theorem Regions.Ext.rest {g g1 : Regions} {h h1 : Heap} (hx : g.Ext h g1 h1)
    {K : Code.End} {τ : Code.Pend} {c : Nat} (hr : Code.Rest g.ctl (g.val h) h K τ c) :
    Code.Rest g1.ctl (g1.val h1) h1 K τ c :=
  hr.mono_rest hx.ctl fun _ hv => hx.val hv

theorem Regions.Ext.slist {g g1 : Regions} {h h1 : Heap} (hx : g.Ext h g1 h1) :
    ∀ (n s : Nat), Runtime.SList g h s n → Runtime.SList g1 h1 s n
  | 0, _, hs => hs
  | n + 1, s, ⟨hc, v, d, hg, hv, hs⟩ =>
    ⟨(hx.ctl s hc).1, v, d, (hx.ctl s hc).2.trans hg, hx.val hv, Regions.Ext.slist hx n d hs⟩

theorem Regions.Ext.envAt {g g1 : Regions} {h h1 : Heap} (hx : g.Ext h g1 h1) :
    ∀ (k e : Nat), Runtime.EnvAt g h e k → Runtime.EnvAt g1 h1 e k
  | 0, e, he => (hx.env e he).1
  | k + 1, e, ⟨he, a, b, hg, hk⟩ => by
    obtain ⟨a1, hg1⟩ := (hx.env e he).2 a b hg
    exact ⟨(hx.env e he).1, a1, b, hg1, Regions.Ext.envAt hx k b hk⟩

theorem Regions.Ext.dump {g g1 : Regions} {h h1 : Heap} (hx : g.Ext h g1 h1)
    {d : Nat} {K : Code.End} (hd : Runtime.Dump g h d K) : Runtime.Dump g1 h1 d K := by
  induction hd with
  | top => exact .top
  | join hc hg hr _ ih =>
    exact .join (hx.ctl _ hc).1 ((hx.ctl _ hc).2.trans hg) (hx.rest hr) ih
  | rtn hc hg hc1 hg1 hc2 hg2 hc3 hg3 hs he hr _ ih =>
    exact .rtn (hx.ctl _ hc).1 ((hx.ctl _ hc).2.trans hg) (hx.ctl _ hc1).1
      ((hx.ctl _ hc1).2.trans hg1) (hx.ctl _ hc2).1 ((hx.ctl _ hc2).2.trans hg2)
      (hx.ctl _ hc3).1 ((hx.ctl _ hc3).2.trans hg3) (hx.slist _ _ hs) (hx.envAt _ _ he)
      (hx.rest hr) ih

/-- The heap invariant after a change: the cells that were not touched keep
what they had, the others are checked by hand. -/
theorem HeapOK.update {G : Nat} {g g1 : Regions} {h h1 : Heap} (ok : HeapOK G g h)
    (hx : g.Ext h g1 h1) (hv : h1.Valid)
    (hctl : ∀ p, g1.ctl p → p < h1.size) (henv : ∀ p, g1.env p → p < h1.size)
    (hdis : ∀ p, g1.ctl p → ¬ g1.env p)
    (hnew : ∀ p, g1.env p → h.size ≤ p → ∃ c, h1.get? p = some c)
    (hcell : ∀ p c, h1.get? p = some c → h.get? p = some c ∨
      ((g1.env p → ∃ a b, c = .cons a b ∧ g1.val h1 a ∧
          ((p = G ∧ b = Nil) ∨ (p ≠ G ∧ g1.env b ∧ b < p))) ∧
        (∀ a b, g1.val h1 p → c = .cons a b → g1.val h1 a ∧ g1.val h1 b) ∧
        (∀ b e, c = .closure b e → Code.Body g1 h1 b ∧ g1.env e))) :
    HeapOK G g1 h1 := by
  refine ⟨hv, hctl, henv, hdis, (hx.env G ok.global).1, hx.val ok.nil, hx.val ok.t, ?_, ?_, ?_⟩
  · intro p hp
    have hsome : ∃ c, h1.get? p = some c := by
      by_cases hlt : p < h.size
      · obtain ⟨a, b, hc, _⟩ := ok.envCell p (hx.env_old p hlt hp)
        obtain ⟨a1, hc1⟩ := (hx.env p (hx.env_old p hlt hp)).2 a b hc
        exact ⟨_, hc1⟩
      · exact hnew p hp (by omega)
    obtain ⟨c, hc⟩ := hsome
    rcases hcell p c hc with hold | ⟨h1c, _, _⟩
    · have hlt := ok.valid.1.lt hold
      obtain ⟨a, b, hab, hva, hb⟩ := ok.envCell p (hx.env_old p hlt hp)
      refine ⟨a, b, ?_, hx.val hva, ?_⟩
      · rw [hc, ← hab, hold]
      · rcases hb with hb | ⟨hne, hb, hlt⟩
        · exact Or.inl hb
        · exact Or.inr ⟨hne, (hx.env b hb).1, hlt⟩
    · obtain ⟨a, b, rfl, hrest⟩ := h1c hp
      exact ⟨a, b, hc, hrest⟩
  · intro p a b hp hc
    rcases hcell p _ hc with hold | ⟨_, h2c, _⟩
    · have hlt := ok.valid.1.lt hold
      have hpv : g.val h p :=
        ⟨hlt, fun hcp => hp.2.1 (hx.ctl p hcp).1, fun hep => hp.2.2 (hx.env p hep).1⟩
      obtain ⟨ha, hb⟩ := ok.consCell p a b hpv hold
      exact ⟨hx.val ha, hx.val hb⟩
    · exact h2c a b hp rfl
  · intro p b e hc
    rcases hcell p _ hc with hold | ⟨_, _, h3c⟩
    · obtain ⟨hb, he⟩ := ok.closureCell p b e hold
      exact ⟨hx.rest hb, (hx.env e he).1⟩
    · exact h3c b e rfl

/-- New cells of the spines of `S` and `D`. -/
theorem HeapOK.growCtl {G : Nat} {g : Regions} {h : Heap} (ok : HeapOK G g h) (h1 : Heap)
    (hsize : h.size ≤ h1.size) (hv : h1.Valid)
    (hold : ∀ p, p < h.size → h1.get? p = h.get? p)
    (hcells : ∀ p c, h.size ≤ p → h1.get? p = some c → ∃ x y, c = .cons x y) :
    HeapOK G ⟨fun p => g.ctl p ∨ (h.size ≤ p ∧ p < h1.size), g.env⟩ h1 ∧
      g.Ext h ⟨fun p => g.ctl p ∨ (h.size ≤ p ∧ p < h1.size), g.env⟩ h1 := by
  have hx : g.Ext h ⟨fun p => g.ctl p ∨ (h.size ≤ p ∧ p < h1.size), g.env⟩ h1 := by
    refine ⟨hsize, fun p hp => ⟨Or.inl hp, hold p (ok.ctl_lt p hp)⟩,
      fun p hp => ⟨hp, fun a b hc => ⟨a, ?_⟩⟩, fun p hlt hp => ?_, fun p _ hp => hp⟩
    · rw [hold p (ok.env_lt p hp), hc]
    · rcases hp with hp | hp
      · exact hp
      · omega
  refine ⟨ok.update hx hv ?_ ?_ ?_ ?_ ?_, hx⟩
  · rintro p (hp | hp)
    · have := ok.ctl_lt p hp
      omega
    · exact hp.2
  · intro p hp
    have := ok.env_lt p hp
    omega
  · rintro p (hp | hp) he
    · exact ok.disjoint p hp he
    · have := ok.env_lt p he
      omega
  · intro p hp hle
    have := ok.env_lt p hp
    omega
  · intro p c hc
    by_cases hp : p < h.size
    · rw [hold p hp] at hc
      exact Or.inl hc
    · obtain ⟨x, y, rfl⟩ := hcells p c (by omega) hc
      refine Or.inr ⟨fun he => ?_, fun a b hv _ => ?_, fun b e hcl => by cases hcl⟩
      · have := ok.env_lt p he
        omega
      · exact absurd (Or.inr ⟨by omega, hv.1⟩) hv.2.1

/-- A new cell that is a value: an integer, a pair of values, or a closure
over code and an environment. -/
theorem HeapOK.allocVal {G : Nat} {g : Regions} {h : Heap} (ok : HeapOK G g h) (c : Cell)
    (hcons : ∀ a b, c = .cons a b → g.val h a ∧ g.val h b)
    (hclo : ∀ b e, c = .closure b e → Code.Body g h b ∧ g.env e) :
    HeapOK G g (h.alloc c).2 ∧ g.Ext h g (h.alloc c).2 ∧ g.val (h.alloc c).2 h.size := by
  have hx : g.Ext h g (h.alloc c).2 := by
    refine ⟨by simp, fun p hp => ⟨hp, ?_⟩, fun p hp => ⟨hp, fun a b hc => ⟨a, ?_⟩⟩,
      fun p _ hp => hp, fun p _ hp => hp⟩
    · rw [Heap.get?_alloc, if_neg (Nat.ne_of_lt (ok.ctl_lt p hp))]
    · rw [Heap.get?_alloc, if_neg (Nat.ne_of_lt (ok.env_lt p hp)), hc]
  have hval : g.val (h.alloc c).2 h.size :=
    ⟨by simp, fun hc => Nat.lt_irrefl _ (ok.ctl_lt _ hc), fun he => Nat.lt_irrefl _ (ok.env_lt _ he)⟩
  refine ⟨ok.update hx (ok.valid.alloc_valid _) ?_ ?_ ok.disjoint ?_ ?_, hx, hval⟩
  · intro p hp
    have := ok.ctl_lt p hp
    simp only [Heap.size_alloc]
    omega
  · intro p hp
    have := ok.env_lt p hp
    simp only [Heap.size_alloc]
    omega
  · intro p hp hle
    have := ok.env_lt p hp
    omega
  · intro p c1 hc
    rw [Heap.get?_alloc] at hc
    by_cases hp : p = h.size
    · rw [if_pos hp] at hc
      simp only [Option.some.injEq] at hc
      subst hc
      refine Or.inr ⟨fun he => ?_, fun a b _ hab => ?_, fun b e hcl => ?_⟩
      · have := ok.env_lt p he
        omega
      · exact ⟨hx.val (hcons a b hab).1, hx.val (hcons a b hab).2⟩
      · exact ⟨hx.rest (hclo b e hcl).1, (hclo b e hcl).2⟩
    · rw [if_neg hp] at hc
      exact Or.inl hc

/-- A new environment cell: a frame of values on top of an environment. -/
theorem HeapOK.allocEnv {G : Nat} {g : Regions} {h : Heap} (ok : HeapOK G g h) (a e : Nat)
    (ha : g.val h a) (he : g.env e) :
    HeapOK G ⟨g.ctl, fun p => g.env p ∨ p = h.size⟩ (h.alloc (.cons a e)).2 ∧
      g.Ext h ⟨g.ctl, fun p => g.env p ∨ p = h.size⟩ (h.alloc (.cons a e)).2 := by
  have hx : g.Ext h ⟨g.ctl, fun p => g.env p ∨ p = h.size⟩ (h.alloc (.cons a e)).2 := by
    refine ⟨by simp, fun p hp => ⟨hp, ?_⟩, fun p hp => ⟨Or.inl hp, fun a b hc => ⟨a, ?_⟩⟩,
      fun p _ hp => hp, fun p hlt hp => ?_⟩
    · rw [Heap.get?_alloc, if_neg (Nat.ne_of_lt (ok.ctl_lt p hp))]
    · rw [Heap.get?_alloc, if_neg (Nat.ne_of_lt (ok.env_lt p hp)), hc]
    · rcases hp with hp | hp
      · exact hp
      · omega
  refine ⟨ok.update hx (ok.valid.alloc_valid _) ?_ ?_ ?_ ?_ ?_, hx⟩
  · intro p hp
    have := ok.ctl_lt p hp
    simp only [Heap.size_alloc]
    omega
  · rintro p (hp | hp)
    · have := ok.env_lt p hp
      simp only [Heap.size_alloc]
      omega
    · simp only [Heap.size_alloc]
      omega
  · rintro p hc (hp | hp)
    · exact ok.disjoint p hc hp
    · have := ok.ctl_lt p hc
      omega
  · intro p _ hle
    refine ⟨.cons a e, ?_⟩
    rw [Heap.get?_alloc]
    by_cases hp : p = h.size
    · rw [if_pos hp]
    · exfalso
      rename_i hp1
      rcases hp1 with hp1 | hp1
      · have := ok.env_lt p hp1
        omega
      · exact hp hp1
  · intro p c hc
    rw [Heap.get?_alloc] at hc
    by_cases hp : p = h.size
    · rw [if_pos hp] at hc
      simp only [Option.some.injEq] at hc
      subst hc
      refine Or.inr ⟨fun _ => ⟨a, e, rfl, hx.val ha, Or.inr ⟨?_, Or.inl he, ?_⟩⟩,
        fun a b hv _ => ?_, fun b e hcl => ?_⟩
      · have := ok.env_lt G ok.global
        omega
      · have := ok.env_lt e he
        omega
      · exact absurd (Or.inr hp) hv.2.2
      · cases hcl
    · rw [if_neg hp] at hc
      exact Or.inl hc

/-- A new frame in an environment cell. -/
theorem HeapOK.setCarEnv {G : Nat} {g : Regions} {h : Heap} (ok : HeapOK G g h) (p a b a1 : Nat)
    (hp : g.env p) (hc : h.get? p = some (.cons a b)) (ha : g.val h a1) :
    HeapOK G g (h.set p (.cons a1 b)) ∧ g.Ext h g (h.set p (.cons a1 b)) := by
  have hx : g.Ext h g (h.set p (.cons a1 b)) := by
    refine ⟨by simp, fun q hq => ⟨hq, ?_⟩, fun q hq => ⟨hq, fun x y hxy => ?_⟩,
      fun p _ hp => hp, fun p _ hp => hp⟩
    · rw [Heap.get?_set, if_neg]
      rintro rfl
      exact ok.disjoint _ hq hp
    · rw [Heap.get?_set]
      by_cases hqp : q = p
      · subst hqp
        rw [hc] at hxy
        simp only [Option.some.injEq, Cell.cons.injEq] at hxy
        rw [if_pos rfl, ← hxy.2]
        exact ⟨a1, rfl⟩
      · rw [if_neg hqp]
        exact ⟨x, hxy⟩
  refine ⟨ok.update hx (ok.valid.set_cons hc _) ok.ctl_lt ok.env_lt ok.disjoint ?_ ?_, hx⟩
  · intro q hq hle
    have := ok.env_lt q hq
    omega
  · intro q c hq
    rw [Heap.get?_set] at hq
    by_cases hqp : q = p
    · rw [if_pos hqp] at hq
      simp only [Option.some.injEq] at hq
      subst hq hqp
      refine Or.inr ⟨fun _ => ?_, fun x y hv _ => absurd hp hv.2.2, fun x y hcl => by cases hcl⟩
      obtain ⟨a0, b0, hc0, _, hb⟩ := ok.envCell q hp
      rw [hc] at hc0
      simp only [Option.some.injEq, Cell.cons.injEq] at hc0
      rw [← hc0.2] at hb
      exact ⟨a1, b, rfl, hx.val ha, hb⟩
    · rw [if_neg hqp] at hq
      exact Or.inl hq

/-- A new `cdr` in a pair that is a value. -/
theorem HeapOK.setCdrVal {G : Nat} {g : Regions} {h : Heap} (ok : HeapOK G g h) (p a b b1 : Nat)
    (hp : g.val h p) (hc : h.get? p = some (.cons a b)) (hb : g.val h b1) :
    HeapOK G g (h.set p (.cons a b1)) ∧ g.Ext h g (h.set p (.cons a b1)) := by
  have hx : g.Ext h g (h.set p (.cons a b1)) := by
    refine ⟨by simp, fun q hq => ⟨hq, ?_⟩, fun q hq => ⟨hq, fun x y hxy => ⟨x, ?_⟩⟩,
      fun p _ hp => hp, fun p _ hp => hp⟩
    · rw [Heap.get?_set, if_neg]
      rintro rfl
      exact hp.2.1 hq
    · rw [Heap.get?_set, if_neg, hxy]
      rintro rfl
      exact hp.2.2 hq
  refine ⟨ok.update hx (ok.valid.set_cons hc _) ok.ctl_lt ok.env_lt ok.disjoint ?_ ?_, hx⟩
  · intro q hq hle
    have := ok.env_lt q hq
    omega
  · intro q c hq
    rw [Heap.get?_set] at hq
    by_cases hqp : q = p
    · rw [if_pos hqp] at hq
      simp only [Option.some.injEq] at hq
      subst hq hqp
      refine Or.inr ⟨fun he => absurd he hp.2.2, fun x y _ hxy => ?_, fun x y hcl => by cases hcl⟩
      simp only [Cell.cons.injEq] at hxy
      rw [← hxy.1, ← hxy.2]
      exact ⟨hx.val (ok.consCell q a b hp hc).1, hx.val hb⟩
    · rw [if_neg hqp] at hq
      exact Or.inl hq

theorem Code.effect_loaded {K : Code.End} {o : Int} {n k : Nat} {τ : Code.Pend}
    (h : Code.effect K o false n k = some τ) : Code.effect K o true n k = some τ := by
  unfold Code.effect at h ⊢
  by_cases ho : o = Instruction.RAP
  · simp [ho] at h
  · simpa only [if_neg ho] using h

theorem Code.Run.fetch_run {P V : Nat → Prop} {h : Heap} {K : Code.End} {fl : Bool} {n k x : Nat}
    {xs : List Nat} {τ : Code.Pend} (hr : Code.Run P V h K (.ready fl n k) (x :: xs) τ) :
    ∃ o τ1, P x ∧ h.get? x = some (.integer o) ∧ Code.effect K o fl n k = some τ1 ∧
      Code.Run P V h K τ1 xs τ := by
  cases hr with
  | forget h1 =>
    cases h1 with
    | op hx ho he hr => exact ⟨_, _, hx, ho, Code.effect_loaded he, hr⟩
  | op hx ho he hr => exact ⟨_, _, hx, ho, he, hr⟩

theorem Code.Run.ready_nil {P V : Nat → Prop} {h : Heap} {K : Code.End} {fl : Bool} {n k : Nat}
    {τ : Code.Pend} (hr : Code.Run P V h K (.ready fl n k) [] τ) :
    ∃ fl1, τ = .ready fl1 n k := by
  cases hr with
  | nil => exact ⟨_, rfl⟩
  | forget h1 =>
    cases h1 with
    | nil => exact ⟨_, rfl⟩

/-- The machine at the end of a code list: the list is the top-level program
and `S` holds one value. -/
theorem Code.Rest.stop {P V : Nat → Prop} {h : Heap} (hv : h.Valid) {K : Code.End} {fl : Bool}
    {n k : Nat} (hr : Code.Rest P V h K (.ready fl n k) Nil) : K = .top ∧ n = 1 := by
  obtain ⟨items, r, τf, hs, hrun, hf⟩ := hr
  cases items with
  | nil =>
    obtain ⟨fl1, rfl⟩ := hrun.ready_nil
    cases K <;> simp_all [Code.Final]
  | cons x xs =>
    obtain ⟨_, d, hd, _⟩ := hs
    exact absurd hd (hv.nil_not_cons x d)

/-- The machine in front of an instruction: its opcode and what follows. -/
theorem Code.Rest.fetch {P V : Nat → Prop} {h : Heap} (hv : h.Valid) {K : Code.End} {fl : Bool}
    {n k c x d : Nat} (hr : Code.Rest P V h K (.ready fl n k) c)
    (hc : h.get? c = some (.cons x d)) :
    ∃ o τ1, h.get? x = some (.integer o) ∧ Code.effect K o fl n k = some τ1 ∧
      Code.Rest P V h K τ1 d := by
  obtain ⟨items, r, τf, hs, hrun, hf⟩ := hr
  cases items with
  | nil =>
    obtain ⟨fl1, rfl⟩ := hrun.ready_nil
    have hr : c = r := hs
    cases K with
    | top =>
      obtain ⟨_, rfl⟩ : n = 1 ∧ r = Nil := hf
      rw [hr] at hc
      exact absurd hc (hv.nil_not_cons x d)
    | join _ _ => exact absurd hf (by simp [Code.Final])
    | rtn => exact absurd hf (by simp [Code.Final])
  | cons y ys =>
    obtain ⟨_, d1, hd, hs1⟩ := hs
    rw [hc] at hd
    simp only [Option.some.injEq, Cell.cons.injEq] at hd
    obtain ⟨rfl, rfl⟩ := hd
    obtain ⟨o, τ1, _, ho, he, hr1⟩ := hrun.fetch_run
    exact ⟨o, τ1, ho, he, ys, r, τf, hs1, hr1, hf⟩

theorem Code.Rest.operand {P V : Nat → Prop} {h : Heap} {K : Code.End} {τ : Code.Pend}
    {c : Nat} (hr : Code.Rest P V h K τ c) (hτ : ∀ fl n k, τ ≠ .ready fl n k) (hd : τ ≠ .done) :
    ∃ x xs r τf d, P c ∧ h.get? c = some (.cons x d) ∧ IsSeg P h d xs r ∧
      Code.Run P V h K τ (x :: xs) τf ∧ Code.Final K τf r := by
  obtain ⟨items, r, τf, hs, hrun, hf⟩ := hr
  cases items with
  | nil =>
    cases hrun with
    | nil => cases K <;> cases τ <;> simp_all [Code.Final]
    | forget _ => exact absurd rfl (hτ _ _ _)
  | cons x xs =>
    obtain ⟨hc, d, hd, hs1⟩ := hs
    exact ⟨x, xs, r, τf, d, hc, hd, hs1, hrun, hf⟩

theorem Code.Rest.ldc {P V : Nat → Prop} {h : Heap} {K : Code.End} {n k c x d : Nat}
    (hr : Code.Rest P V h K (.ldc n k) c) (hc : h.get? c = some (.cons x d)) :
    V x ∧ Code.Rest P V h K (.ready false (n + 1) k) d := by
  obtain ⟨x1, xs, r, τf, d1, _, hd, hs, hrun, hf⟩ := hr.operand (by simp) (by simp)
  rw [hc] at hd
  simp only [Option.some.injEq, Cell.cons.injEq] at hd
  obtain ⟨rfl, rfl⟩ := hd
  cases hrun with
  | ldc hx hr1 => exact ⟨hx, xs, r, τf, hs, hr1, hf⟩

theorem Code.Rest.ld {P V : Nat → Prop} {h : Heap} {K : Code.End} {n k c x d : Nat}
    (hr : Code.Rest P V h K (.ld n k) c) (hc : h.get? c = some (.cons x d)) :
    Code.Rest P V h K (.ready false (n + 1) k) d := by
  obtain ⟨x1, xs, r, τf, d1, _, hd, hs, hrun, hf⟩ := hr.operand (by simp) (by simp)
  rw [hc] at hd
  simp only [Option.some.injEq, Cell.cons.injEq] at hd
  obtain ⟨rfl, rfl⟩ := hd
  cases hrun with
  | ld hr1 => exact ⟨xs, r, τf, hs, hr1, hf⟩

theorem Code.Rest.sel0 {P V : Nat → Prop} {h : Heap} {K : Code.End} {n k c x d : Nat}
    (hr : Code.Rest P V h K (.sel0 n k) c) (hc : h.get? c = some (.cons x d)) :
    Code.Rest P V h (.join (n + 1) k) (.ready false n k) x ∧ Code.Rest P V h K (.sel1 n k) d := by
  obtain ⟨x1, xs, r, τf, d1, _, hd, hs, hrun, hf⟩ := hr.operand (by simp) (by simp)
  rw [hc] at hd
  simp only [Option.some.injEq, Cell.cons.injEq] at hd
  obtain ⟨rfl, rfl⟩ := hd
  cases hrun with
  | sel0 hseg hr0 hr1 => exact ⟨⟨_, _, _, hseg, hr0, trivial⟩, xs, r, τf, hs, hr1, hf⟩

theorem Code.Rest.sel1 {P V : Nat → Prop} {h : Heap} {K : Code.End} {n k c x d : Nat}
    (hr : Code.Rest P V h K (.sel1 n k) c) (hc : h.get? c = some (.cons x d)) :
    Code.Rest P V h (.join (n + 1) k) (.ready false n k) x ∧
      Code.Rest P V h K (.ready false (n + 1) k) d := by
  obtain ⟨x1, xs, r, τf, d1, _, hd, hs, hrun, hf⟩ := hr.operand (by simp) (by simp)
  rw [hc] at hd
  simp only [Option.some.injEq, Cell.cons.injEq] at hd
  obtain ⟨rfl, rfl⟩ := hd
  cases hrun with
  | sel1 hseg hr0 hr1 => exact ⟨⟨_, _, _, hseg, hr0, trivial⟩, xs, r, τf, hs, hr1, hf⟩

theorem Code.Rest.ldf {P V : Nat → Prop} {h : Heap} {K : Code.End} {n k c x d : Nat}
    (hr : Code.Rest P V h K (.ldf n k) c) (hc : h.get? c = some (.cons x d)) :
    Code.Rest P V h .rtn (.ready false 0 0) x ∧ Code.Rest P V h K (.ready true (n + 1) k) d := by
  obtain ⟨x1, xs, r, τf, d1, _, hd, hs, hrun, hf⟩ := hr.operand (by simp) (by simp)
  rw [hc] at hd
  simp only [Option.some.injEq, Cell.cons.injEq] at hd
  obtain ⟨rfl, rfl⟩ := hd
  cases hrun with
  | ldf hseg hr0 hr1 => exact ⟨⟨_, _, _, hseg, hr0, trivial⟩, xs, r, τf, hs, hr1, hf⟩

theorem Heap.Grow.refl_grow (h : Heap) : h.Grow h := ⟨Nat.le_refl _, fun _ _ => rfl⟩

theorem Heap.Grow.trans_grow {h h1 h2 : Heap} (h01 : h.Grow h1) (h12 : h1.Grow h2) : h.Grow h2 :=
  ⟨Nat.le_trans h01.1 h12.1, fun p hp =>
    (h12.2 p (Nat.lt_of_lt_of_le hp h01.1)).trans (h01.2 p hp)⟩

theorem Heap.Grow.of_alloc (h : Heap) (c : Cell) : h.Grow (h.alloc c).2 :=
  ⟨by simp, fun p hp => by rw [Heap.get?_alloc, if_neg (Nat.ne_of_lt hp)]⟩

theorem Runtime.Grows.refl_grows (G : Nat) (h : Heap) : Runtime.Grows G h h :=
  fun vs hf => ⟨[], by simpa using hf⟩

theorem Runtime.Grows.trans_grows {G : Nat} {h h1 h2 : Heap} (h01 : Runtime.Grows G h h1)
    (h12 : Runtime.Grows G h1 h2) : Runtime.Grows G h h2 := by
  intro vs hf
  obtain ⟨ws, h1f⟩ := h01 vs hf
  obtain ⟨ws1, h2f⟩ := h12 _ h1f
  exact ⟨ws ++ ws1, by simpa using h2f⟩

theorem Heap.Grow.grows {h h1 : Heap} (hg : h.Grow h1) (hwf : h.WF) (G : Nat) :
    Runtime.Grows G h h1 := by
  rintro vs ⟨a, b, hG, hl⟩
  have hmono : ∀ q c, h.get? q = some c → h1.get? q = some c := fun q c hq =>
    (hg.2 q (hwf.lt hq)).trans hq
  exact ⟨[], a, b, hmono _ _ hG, by simpa using IsList.mono_heap hmono _ _ hl⟩

theorem Runtime.SList.pop {g : Regions} {h : Heap} {s n v d : Nat}
    (hs : Runtime.SList g h s n) (hc : h.get? s = some (.cons v d)) (hv : h.Valid) :
    ∃ m, n = m + 1 ∧ g.val h v ∧ Runtime.SList g h d m := by
  cases n with
  | zero =>
    have : s = Nil := hs
    rw [this] at hc
    exact absurd hc (hv.nil_not_cons v d)
  | succ m =>
    obtain ⟨_, v1, d1, hc1, hv1, hs1⟩ := hs
    rw [hc] at hc1
    simp only [Option.some.injEq, Cell.cons.injEq] at hc1
    obtain ⟨rfl, rfl⟩ := hc1
    exact ⟨m, rfl, hv1, hs1⟩

theorem Runtime.popS_ok {rt rt1 : Runtime} {v : Nat} (h : Runtime.popS rt = .ok v rt1) :
    ∃ d, rt.heap.get? rt.s_ = some (.cons v d) ∧ rt1 = { rt with s_ := d } := by
  unfold Runtime.popS at h
  split at h
  · rename_i a d hc
    simp only [Res.ok.injEq] at h
    exact ⟨d, h.1 ▸ hc, h.2.symm⟩
  · cases h

theorem Runtime.popC_ok {rt rt1 : Runtime} {v : Nat} (h : Runtime.popC rt = .ok v rt1) :
    ∃ d, rt.heap.get? rt.c_ = some (.cons v d) ∧ rt1 = { rt with c_ := d } := by
  unfold Runtime.popC at h
  split at h
  · rename_i a d hc
    simp only [Res.ok.injEq] at h
    exact ⟨d, h.1 ▸ hc, h.2.symm⟩
  · cases h

theorem Runtime.popD_ok {rt rt1 : Runtime} {v : Nat} (h : Runtime.popD rt = .ok v rt1) :
    ∃ d, rt.heap.get? rt.d_ = some (.cons v d) ∧ rt1 = { rt with d_ := d } := by
  unfold Runtime.popD at h
  split at h
  · rename_i a d hc
    simp only [Res.ok.injEq] at h
    exact ⟨d, h.1 ▸ hc, h.2.symm⟩
  · cases h

theorem valueInt_ok {rt rt1 : Runtime} {v : Nat} {k : Int} (h : valueInt v rt = .ok k rt1) :
    rt.heap.get? v = some (.integer k) ∧ rt1 = rt := by
  unfold valueInt Heap.valueInt at h
  split at h
  · rename_i k1 hc
    simp only [liftF_ok, Res.ok.injEq] at h
    exact ⟨h.1 ▸ hc, h.2.symm⟩
  · cases h

theorem Runtime.step_ok {rt rt1 : Runtime} (h : Runtime.step rt = .ok () rt1) :
    ∃ x d o, rt.heap.get? rt.c_ = some (.cons x d) ∧ rt.heap.get? x = some (.integer o) ∧
      Runtime.execute o { rt with c_ := d } = .ok () rt1 := by
  unfold Runtime.step at h
  obtain ⟨x, s1, h1, h2⟩ := (M.bind_ok_iff _ _ _ _ _).1 h
  obtain ⟨o, s2, h3, h4⟩ := (M.bind_ok_iff _ _ _ _ _).1 h2
  obtain ⟨d, hc, rfl⟩ := Runtime.popC_ok h1
  obtain ⟨ho, rfl⟩ := valueInt_ok h3
  exact ⟨x, d, o, hc, ho, h4⟩

/-- The registers after `popS`. -/
theorem Runtime.Pieces.popS {G : Nat} {g : Regions} {K : Code.End} {τ : Code.Pend} {n k : Nat}
    {rt rt1 : Runtime} {v : Nat} (hp : Runtime.Pieces G g K τ n k rt)
    (h : Runtime.popS rt = .ok v rt1) :
    ∃ m, n = m + 1 ∧ g.val rt.heap v ∧ rt1.heap = rt.heap ∧ rt1.e_ = rt.e_ ∧
      Runtime.Pieces G g K τ m k rt1 := by
  obtain ⟨d, hc, rfl⟩ := Runtime.popS_ok h
  obtain ⟨m, hn, hv, hs⟩ := hp.stack.pop hc hp.ok.valid
  exact ⟨m, hn, hv, rfl, rfl, hp.ok, hp.code, hs, hp.dump, hp.env⟩

/-- The registers after `pushS` of a value. -/
theorem Runtime.Pieces.pushS {G : Nat} {g : Regions} {K : Code.End} {τ : Code.Pend} {n k : Nat}
    {rt rt1 : Runtime} {v : Nat} (hp : Runtime.Pieces G g K τ n k rt) (hv : g.val rt.heap v)
    (h : Runtime.pushS v rt = .ok () rt1) :
    rt.heap.Grow rt1.heap ∧ rt1.e_ = rt.e_ ∧
      rt1.heap.get? rt1.s_ = some (.cons v rt.s_) ∧
      ∃ g1, g.Ext rt.heap g1 rt1.heap ∧ Runtime.Pieces G g1 K τ (n + 1) k rt1 := by
  unfold Runtime.pushS at h
  simp only [Res.ok.injEq, true_and] at h
  subst h
  have hgrow := Heap.Grow.of_alloc rt.heap (.cons v rt.s_)
  obtain ⟨ok1, hx⟩ := hp.ok.growCtl (rt.heap.alloc (.cons v rt.s_)).2 hgrow.1
    (hp.ok.valid.alloc_valid _) hgrow.2 (fun p c hle hc => by
      rw [Heap.get?_alloc] at hc
      by_cases hps : p = rt.heap.size
      · rw [if_pos hps] at hc
        simp only [Option.some.injEq] at hc
        exact ⟨_, _, hc.symm⟩
      · rw [if_neg hps] at hc
        have := hp.ok.valid.1.lt hc
        omega)
  refine ⟨hgrow, rfl, by simp, _, hx, ok1, hx.rest hp.code, ?_, hx.dump hp.dump,
    hx.envAt _ _ hp.env⟩
  refine ⟨Or.inr ⟨Nat.le_refl _, by simp⟩, v, rt.s_, by simp, hx.val hv, hx.slist _ _ hp.stack⟩

theorem Runtime.Pieces.inv {G : Nat} {g : Regions} {K : Code.End} {n k : Nat} {rt : Runtime}
    (hp : Runtime.Pieces G g K (.ready false n k) n k rt) : Runtime.Inv G rt :=
  ⟨g, K, false, n, k, hp, by simp⟩

theorem Runtime.Pieces.congr {G : Nat} {g : Regions} {K : Code.End} {τ : Code.Pend} {n k : Nat}
    {rt rt1 : Runtime} (hp : Runtime.Pieces G g K τ n k rt) (hh : rt1.heap = rt.heap)
    (hc : rt1.c_ = rt.c_) (hs : rt1.s_ = rt.s_) (hd : rt1.d_ = rt.d_) (he : rt1.e_ = rt.e_) :
    Runtime.Pieces G g K τ n k rt1 := by
  obtain ⟨h1, h2, h3, h4, h5⟩ := hp
  refine ⟨?_, ?_, ?_, ?_, ?_⟩
  · rw [hh]; exact h1
  · rw [hh, hc]; exact h2
  · rw [hh, hs]; exact h3
  · rw [hh, hd]; exact h4
  · rw [hh, he]; exact h5

/-- The registers after the allocation of a value. -/
theorem Runtime.Pieces.newValue {G : Nat} {g : Regions} {K : Code.End} {τ : Code.Pend} {n k : Nat}
    {rt : Runtime} (hp : Runtime.Pieces G g K τ n k rt) (c : Cell)
    (hcons : ∀ a b, c = .cons a b → g.val rt.heap a ∧ g.val rt.heap b)
    (hclo : ∀ b e, c = .closure b e → Code.Body g rt.heap b ∧ g.env e) :
    Runtime.Pieces G g K τ n k { rt with heap := (rt.heap.alloc c).2 } ∧
      g.val (rt.heap.alloc c).2 rt.heap.size ∧ g.Ext rt.heap g (rt.heap.alloc c).2 := by
  obtain ⟨ok1, hx, hv⟩ := hp.ok.allocVal c hcons hclo
  exact ⟨⟨ok1, hx.rest hp.code, hx.slist _ _ hp.stack, hx.dump hp.dump, hx.envAt _ _ hp.env⟩,
    hv, hx⟩

theorem Runtime.execute_NIL_def : Runtime.execute Instruction.NIL = Runtime.pushS Nil := rfl

theorem Runtime.Pieces.exec_NIL {G : Nat} {g : Regions} {K : Code.End} {n k : Nat}
    {rt rt1 : Runtime} (hp : Runtime.Pieces G g K (.ready false (n + 1) k) n k rt)
    (h : Runtime.execute Instruction.NIL rt = .ok () rt1) :
    Runtime.Inv G rt1 ∧ Runtime.Grows G rt.heap rt1.heap := by
  rw [Runtime.execute_NIL_def] at h
  obtain ⟨hg, _, _, g1, _, hp1⟩ := hp.pushS hp.ok.nil h
  exact ⟨hp1.inv, hg.grows hp.ok.valid.1 G⟩

theorem Runtime.execute_CONS_def : Runtime.execute Instruction.CONS = (do
    let lhs ← Runtime.popS
    let rhs ← Runtime.popS
    Runtime.pushS (← Runtime.newCons lhs rhs)) := rfl

theorem Runtime.Pieces.exec_CONS {G : Nat} {g : Regions} {K : Code.End} {n k : Nat}
    {rt rt1 : Runtime} (hp : Runtime.Pieces G g K (.ready false (n - 1) k) n k rt)
    (h : Runtime.execute Instruction.CONS rt = .ok () rt1) :
    Runtime.Inv G rt1 ∧ Runtime.Grows G rt.heap rt1.heap := by
  rw [Runtime.execute_CONS_def] at h
  simp only [M.bind_ok_iff] at h
  obtain ⟨lhs, r1, h1, rhs, r2, h2, p, r3, h3, h4⟩ := h
  obtain ⟨m1, hn1, hv1, hh1, he1, hp1⟩ := hp.popS h1
  obtain ⟨m2, hn2, hv2, hh2, he2, hp2⟩ := hp1.popS h2
  unfold Runtime.newCons at h3
  simp only [Res.ok.injEq] at h3
  obtain ⟨rfl, rfl⟩ := h3
  rw [hh1] at hv2
  obtain ⟨hp3, hv3, hx3⟩ := hp2.newValue (.cons lhs rhs)
    (fun a b hab => by
      simp only [Cell.cons.injEq] at hab
      rw [← hab.1, ← hab.2, hh2, hh1]
      exact ⟨hv1, hv2⟩)
    (fun b e hcl => by cases hcl)
  obtain ⟨hg, _, _, g1, _, hp4⟩ := hp3.pushS hv3 h4
  have hn : n - 1 = m2 + 1 := by omega
  rw [hn] at hp4
  refine ⟨hp4.inv, Heap.Grow.grows ?_ hp.ok.valid.1 G⟩
  have := (Heap.Grow.of_alloc r2.heap (.cons lhs rhs)).trans_grow hg
  rwa [hh2, hh1] at this

theorem liftF_okk {σ α : Type} {r : Except Fault α} {s s1 : σ} {a : α}
    (h : (liftF r : M σ α) s = .ok a s1) : r = .ok a ∧ s1 = s := by
  cases r with
  | ok b =>
    simp only [liftF_ok, Res.ok.injEq] at h
    exact ⟨by rw [h.1], h.2.symm⟩
  | error f => simp at h

theorem getHeap_ok {rt rt1 : Runtime} {h : Heap} (hh : getHeap rt = .ok h rt1) :
    h = rt.heap ∧ rt1 = rt := by
  unfold getHeap at hh
  simp only [Res.ok.injEq] at hh
  exact ⟨hh.1.symm, hh.2.symm⟩

theorem car_ok {rt rt1 : Runtime} {v a : Nat} (h : car v rt = .ok a rt1) :
    (∃ d, rt.heap.get? v = some (.cons a d)) ∧ rt1 = rt := by
  unfold car at h
  split at h
  · rename_i a1 d hc
    simp only [Res.ok.injEq] at h
    exact ⟨⟨d, h.1 ▸ hc⟩, h.2.symm⟩
  · cases h

theorem cdr_ok {rt rt1 : Runtime} {v d : Nat} (h : cdr v rt = .ok d rt1) :
    (∃ a, rt.heap.get? v = some (.cons a d)) ∧ rt1 = rt := by
  unfold cdr at h
  split at h
  · rename_i a d1 hc
    simp only [Res.ok.injEq] at h
    exact ⟨⟨a, h.1 ▸ hc⟩, h.2.symm⟩
  · cases h

theorem Heap.car_eq_ok {h : Heap} {v a : Nat} (hc : h.car v = .ok a) :
    ∃ d, h.get? v = some (.cons a d) := by
  unfold Heap.car at hc
  split at hc
  · rename_i a1 d hg
    simp only [Except.ok.injEq] at hc
    exact ⟨d, hc ▸ hg⟩
  · cases hc

theorem Heap.cdr_eq_ok {h : Heap} {v d : Nat} (hc : h.cdr v = .ok d) :
    ∃ a, h.get? v = some (.cons a d) := by
  unfold Heap.cdr at hc
  split at hc
  · rename_i a d1 hg
    simp only [Except.ok.injEq] at hc
    exact ⟨a, hc ▸ hg⟩
  · cases hc

/-- The registers after the allocation of an integer. -/
theorem Runtime.Pieces.newInteger {G : Nat} {g : Regions} {K : Code.End} {τ : Code.Pend}
    {n k : Nat} {rt rt1 : Runtime} {v : Int} {p : Nat} (hp : Runtime.Pieces G g K τ n k rt)
    (h : Runtime.newInteger v rt = .ok p rt1) :
    rt.heap.Grow rt1.heap ∧ rt1.e_ = rt.e_ ∧ g.val rt1.heap p ∧ Runtime.Pieces G g K τ n k rt1 := by
  unfold Runtime.newInteger at h
  simp only [Res.ok.injEq] at h
  obtain ⟨rfl, rfl⟩ := h
  obtain ⟨hp1, hv, _⟩ := hp.newValue (.integer v) (fun a b hab => by cases hab)
    (fun b e hcl => by cases hcl)
  exact ⟨Heap.Grow.of_alloc _ _, rfl, hv, hp1⟩

/-- The registers after `popC` of the operand of `LDC`. -/
theorem Runtime.Pieces.popC_ldc {G : Nat} {g : Regions} {K : Code.End} {n m k : Nat}
    {rt rt1 : Runtime} {x : Nat} (hp : Runtime.Pieces G g K (.ldc m k) n k rt)
    (h : Runtime.popC rt = .ok x rt1) :
    g.val rt.heap x ∧ rt1.heap = rt.heap ∧ rt1.e_ = rt.e_ ∧
      Runtime.Pieces G g K (.ready false (m + 1) k) n k rt1 := by
  obtain ⟨d, hc, rfl⟩ := Runtime.popC_ok h
  obtain ⟨hv, hr⟩ := hp.code.ldc hc
  exact ⟨hv, rfl, rfl, hp.ok, hr, hp.stack, hp.dump, hp.env⟩

/-- The registers after `popC` of the operand of `LD`. -/
theorem Runtime.Pieces.popC_ld {G : Nat} {g : Regions} {K : Code.End} {n m k : Nat}
    {rt rt1 : Runtime} {x : Nat} (hp : Runtime.Pieces G g K (.ld m k) n k rt)
    (h : Runtime.popC rt = .ok x rt1) :
    rt1.heap = rt.heap ∧ rt1.e_ = rt.e_ ∧
      Runtime.Pieces G g K (.ready false (m + 1) k) n k rt1 := by
  obtain ⟨d, hc, rfl⟩ := Runtime.popC_ok h
  exact ⟨rfl, rfl, hp.ok, hp.code.ld hc, hp.stack, hp.dump, hp.env⟩

theorem Runtime.execute_LDC_def : Runtime.execute Instruction.LDC = (do
    Runtime.pushS (← Runtime.popC)) := rfl

theorem Runtime.Pieces.exec_LDC {G : Nat} {g : Regions} {K : Code.End} {n k : Nat}
    {rt rt1 : Runtime} (hp : Runtime.Pieces G g K (.ldc n k) n k rt)
    (h : Runtime.execute Instruction.LDC rt = .ok () rt1) :
    Runtime.Inv G rt1 ∧ Runtime.Grows G rt.heap rt1.heap := by
  rw [Runtime.execute_LDC_def] at h
  simp only [M.bind_ok_iff] at h
  obtain ⟨x, r1, h1, h2⟩ := h
  obtain ⟨hv, hh1, _, hp1⟩ := hp.popC_ldc h1
  rw [← hh1] at hv
  obtain ⟨hg, _, _, g1, _, hp2⟩ := hp1.pushS hv h2
  rw [hh1] at hg
  exact ⟨hp2.inv, hg.grows hp.ok.valid.1 G⟩

theorem Environment.skip_env {G : Nat} {g : Regions} {h : Heap} (ok : HeapOK G g h) :
    ∀ (d e x : Nat), Environment.skip h d e = .ok x → g.env e ∨ e = Nil → g.env x ∨ x = Nil
  | 0, e, x, hs, he => by
    simp only [Environment.skip, Except.ok.injEq] at hs
    exact hs ▸ he
  | d + 1, e, x, hs, he => by
    unfold Environment.skip at hs
    split at hs
    · rename_i b hb
      obtain ⟨a, hc⟩ := Heap.cdr_eq_ok hb
      rcases he with he | he
      · obtain ⟨a1, b1, hc1, _, hb1⟩ := ok.envCell e he
        rw [hc] at hc1
        simp only [Option.some.injEq, Cell.cons.injEq] at hc1
        refine Environment.skip_env ok d b x hs ?_
        rcases hb1 with hb1 | hb1
        · exact Or.inr (hc1.2.trans hb1.2)
        · exact Or.inl (hc1.2 ▸ hb1.2.1)
      · rw [he] at hc
        exact absurd hc (ok.valid.nil_not_cons a b)
    · cases hs

theorem Environment.skip_val {G : Nat} {g : Regions} {h : Heap} (ok : HeapOK G g h) :
    ∀ (d e x : Nat), Environment.skip h d e = .ok x → g.val h e → g.val h x
  | 0, e, x, hs, he => by
    simp only [Environment.skip, Except.ok.injEq] at hs
    exact hs ▸ he
  | d + 1, e, x, hs, he => by
    unfold Environment.skip at hs
    split at hs
    · rename_i b hb
      obtain ⟨a, hc⟩ := Heap.cdr_eq_ok hb
      exact Environment.skip_val ok d b x hs (ok.consCell e a b he hc).2
    · cases hs

theorem Except.bind_eq_ok {ε α β : Type} (x : Except ε α) (f : α → Except ε β) (b : β) :
    (x >>= f) = .ok b ↔ ∃ a, x = .ok a ∧ f a = .ok b := by
  cases x <;> simp [bind, Except.bind]

/-- What `LD` finds in the environment is a value. -/
theorem Environment.locate_val {G : Nat} {g : Regions} {h : Heap} (ok : HeapOK G g h)
    {e index x : Nat} (he : g.env e) (hl : Environment.locate h e index = .ok x) :
    g.val h x := by
  unfold Environment.locate at hl
  simp only [Except.bind_eq_ok] at hl
  obtain ⟨_, _, _, _, _, _, _, _, fr0, hskip, fr, hcar, last, hskip2, hlast⟩ := hl
  rcases Environment.skip_env ok _ _ _ hskip (Or.inl he) with hx | hx
  · obtain ⟨d, hc⟩ := Heap.car_eq_ok hcar
    obtain ⟨a1, b1, hc1, hv1, _⟩ := ok.envCell _ hx
    rw [hc] at hc1
    simp only [Option.some.injEq, Cell.cons.injEq] at hc1
    have hfr : g.val h fr := hc1.1 ▸ hv1
    have hl1 := Environment.skip_val ok _ _ _ hskip2 hfr
    obtain ⟨d2, hc2⟩ := Heap.car_eq_ok hlast
    exact (ok.consCell _ _ _ hl1 hc2).1
  · obtain ⟨d, hc⟩ := Heap.car_eq_ok hcar
    rw [hx] at hc
    exact absurd hc (ok.valid.nil_not_cons _ _)

theorem Runtime.EnvAt.env_of {g : Regions} {h : Heap} {e k : Nat} (he : Runtime.EnvAt g h e k) :
    g.env e := by
  cases k with
  | zero => exact he
  | succ k => exact he.1

theorem Runtime.execute_LD_def : Runtime.execute Instruction.LD = (do
    let index ← Runtime.popC
    let x ← (fun rt => liftF (Environment.locate rt.heap rt.e_ index) rt : RM Nat)
    Runtime.pushS x) := rfl

theorem Runtime.Pieces.exec_LD {G : Nat} {g : Regions} {K : Code.End} {n k : Nat}
    {rt rt1 : Runtime} (hp : Runtime.Pieces G g K (.ld n k) n k rt)
    (h : Runtime.execute Instruction.LD rt = .ok () rt1) :
    Runtime.Inv G rt1 ∧ Runtime.Grows G rt.heap rt1.heap := by
  rw [Runtime.execute_LD_def] at h
  simp only [M.bind_ok_iff] at h
  obtain ⟨index, r1, h1, x, r2, h2, h3⟩ := h
  obtain ⟨hh1, he1, hp1⟩ := hp.popC_ld h1
  obtain ⟨hl, rfl⟩ := liftF_okk h2
  have hv := Environment.locate_val hp1.ok hp1.env.env_of hl
  obtain ⟨hg, _, _, g1, _, hp2⟩ := hp1.pushS hv h3
  rw [hh1] at hg
  exact ⟨hp2.inv, hg.grows hp.ok.valid.1 G⟩

theorem Runtime.execute_POP_def : Runtime.execute Instruction.POP = (do
    let _ ← Runtime.popS
    pure ()) := rfl

theorem Runtime.Pieces.exec_POP {G : Nat} {g : Regions} {K : Code.End} {n k : Nat}
    {rt rt1 : Runtime} (hp : Runtime.Pieces G g K (.ready false (n - 1) k) n k rt)
    (h : Runtime.execute Instruction.POP rt = .ok () rt1) :
    Runtime.Inv G rt1 ∧ Runtime.Grows G rt.heap rt1.heap := by
  rw [Runtime.execute_POP_def] at h
  simp only [M.bind_ok_iff, M.pure_apply, Res.ok.injEq, true_and] at h
  obtain ⟨v, r1, h1, rfl⟩ := h
  obtain ⟨m, hn, _, hh1, _, hp1⟩ := hp.popS h1
  have hm : n - 1 = m := by omega
  rw [hm] at hp1
  rw [hh1]
  exact ⟨hp1.inv, Runtime.Grows.refl_grows G _⟩

theorem Runtime.execute_CAR_def : Runtime.execute Instruction.CAR = (do
    Runtime.pushS (← car (← Runtime.popS))) := rfl

theorem Runtime.execute_CDR_def : Runtime.execute Instruction.CDR = (do
    Runtime.pushS (← cdr (← Runtime.popS))) := rfl

theorem Runtime.Pieces.exec_CAR {G : Nat} {g : Regions} {K : Code.End} {n k : Nat}
    {rt rt1 : Runtime} (hn : 1 ≤ n) (hp : Runtime.Pieces G g K (.ready false n k) n k rt)
    (h : Runtime.execute Instruction.CAR rt = .ok () rt1) :
    Runtime.Inv G rt1 ∧ Runtime.Grows G rt.heap rt1.heap := by
  rw [Runtime.execute_CAR_def] at h
  simp only [M.bind_ok_iff] at h
  obtain ⟨v, r1, h1, a, r2, h2, h3⟩ := h
  obtain ⟨m, hm, hv, hh1, _, hp1⟩ := hp.popS h1
  obtain ⟨⟨d, hc⟩, rfl⟩ := car_ok h2
  rw [hh1] at hc
  have ha := (hp.ok.consCell v a d hv hc).1
  rw [← hh1] at ha
  obtain ⟨hg, _, _, g1, _, hp2⟩ := hp1.pushS ha h3
  rw [hh1] at hg
  rw [← hm] at hp2
  exact ⟨hp2.inv, hg.grows hp.ok.valid.1 G⟩

theorem Runtime.Pieces.exec_CDR {G : Nat} {g : Regions} {K : Code.End} {n k : Nat}
    {rt rt1 : Runtime} (hn : 1 ≤ n) (hp : Runtime.Pieces G g K (.ready false n k) n k rt)
    (h : Runtime.execute Instruction.CDR rt = .ok () rt1) :
    Runtime.Inv G rt1 ∧ Runtime.Grows G rt.heap rt1.heap := by
  rw [Runtime.execute_CDR_def] at h
  simp only [M.bind_ok_iff] at h
  obtain ⟨v, r1, h1, d, r2, h2, h3⟩ := h
  obtain ⟨m, hm, hv, hh1, _, hp1⟩ := hp.popS h1
  obtain ⟨⟨a, hc⟩, rfl⟩ := cdr_ok h2
  rw [hh1] at hc
  have hd := (hp.ok.consCell v a d hv hc).2
  rw [← hh1] at hd
  obtain ⟨hg, _, _, g1, _, hp2⟩ := hp1.pushS hd h3
  rw [hh1] at hg
  rw [← hm] at hp2
  exact ⟨hp2.inv, hg.grows hp.ok.valid.1 G⟩

theorem Runtime.execute_CONSP_def : Runtime.execute Instruction.CONSP = (do
    let x ← cdr (← Runtime.popS)
    if (← getHeap).isCons x then
      Runtime.pushS T
    else
      Runtime.pushS Nil) := rfl

theorem Runtime.Pieces.exec_CONSP {G : Nat} {g : Regions} {K : Code.End} {n k : Nat}
    {rt rt1 : Runtime} (hn : 1 ≤ n) (hp : Runtime.Pieces G g K (.ready false n k) n k rt)
    (h : Runtime.execute Instruction.CONSP rt = .ok () rt1) :
    Runtime.Inv G rt1 ∧ Runtime.Grows G rt.heap rt1.heap := by
  rw [Runtime.execute_CONSP_def] at h
  simp only [M.bind_ok_iff] at h
  obtain ⟨v, r1, h1, d, r2, h2, hp0, r3, h3, h4⟩ := h
  obtain ⟨m, hm, hv, hh1, _, hp1⟩ := hp.popS h1
  obtain ⟨_, rfl⟩ := cdr_ok h2
  obtain ⟨_, rfl⟩ := getHeap_ok h3
  split at h4
  · obtain ⟨hg, _, _, g1, _, hp2⟩ := hp1.pushS hp1.ok.t h4
    rw [hh1] at hg
    rw [← hm] at hp2
    exact ⟨hp2.inv, hg.grows hp.ok.valid.1 G⟩
  · obtain ⟨hg, _, _, g1, _, hp2⟩ := hp1.pushS hp1.ok.nil h4
    rw [hh1] at hg
    rw [← hm] at hp2
    exact ⟨hp2.inv, hg.grows hp.ok.valid.1 G⟩

theorem Runtime.execute_PRINT_def : Runtime.execute Instruction.PRINT = (do
    print (← Runtime.topS)) := rfl

theorem Runtime.Pieces.exec_PRINT {G : Nat} {g : Regions} {K : Code.End} {n k : Nat}
    {rt rt1 : Runtime} (hp : Runtime.Pieces G g K (.ready false n k) n k rt)
    (h : Runtime.execute Instruction.PRINT rt = .ok () rt1) :
    Runtime.Inv G rt1 ∧ Runtime.Grows G rt.heap rt1.heap := by
  rw [Runtime.execute_PRINT_def] at h
  simp only [M.bind_ok_iff] at h
  obtain ⟨v, r1, h1, h2⟩ := h
  obtain ⟨_, rfl⟩ := liftF_okk h1
  unfold print at h2
  simp only [Res.ok.injEq, true_and] at h2
  subst h2
  exact ⟨Runtime.Pieces.inv (hp.congr rfl rfl rfl rfl rfl), Runtime.Grows.refl_grows G _⟩

theorem Runtime.execute_READ_def : Runtime.execute Instruction.READ = (do
    Runtime.pushS (← read)) := rfl

theorem Runtime.Pieces.exec_READ {G : Nat} {g : Regions} {K : Code.End} {n k : Nat}
    {rt rt1 : Runtime} (hp : Runtime.Pieces G g K (.ready false (n + 1) k) n k rt)
    (h : Runtime.execute Instruction.READ rt = .ok () rt1) :
    Runtime.Inv G rt1 ∧ Runtime.Grows G rt.heap rt1.heap := by
  rw [Runtime.execute_READ_def] at h
  simp only [M.bind_ok_iff] at h
  obtain ⟨v, r1, h1, h2⟩ := h
  have hp0 : ∀ inp, Runtime.Pieces G g K (.ready false (n + 1) k) n k { rt with input := inp } :=
    fun _ => hp.congr rfl rfl rfl rfl rfl
  have hend : ∀ (x : Int) inp, Runtime.newInteger x { rt with input := inp } = .ok v r1 →
      Runtime.Inv G rt1 ∧ Runtime.Grows G rt.heap rt1.heap := by
    intro x inp h1
    obtain ⟨hg1, _, hv, hp1⟩ := (hp0 inp).newInteger h1
    obtain ⟨hg, _, _, g1, _, hp2⟩ := hp1.pushS hv h2
    exact ⟨hp2.inv, (hg1.trans_grow hg).grows hp.ok.valid.1 G⟩
  unfold read at h1
  split at h1
  · cases h1
  · split at h1
    · exact hend _ _ h1
    · split at h1
      · exact hend _ _ h1
      · exact hend _ _ h1

/-- The registers after the two operands of an arithmetic instruction were
popped. -/
theorem Runtime.Pieces.popIntegers {G : Nat} {g : Regions} {K : Code.End} {τ : Code.Pend}
    {n k : Nat} {rt rt1 : Runtime} {x : Int × Int} (hp : Runtime.Pieces G g K τ n k rt)
    (h : Runtime.popIntegers rt = .ok x rt1) :
    ∃ m, n = m + 2 ∧ rt1.heap = rt.heap ∧ rt1.e_ = rt.e_ ∧ Runtime.Pieces G g K τ m k rt1 := by
  unfold Runtime.popIntegers at h
  simp only [M.bind_ok_iff, M.pure_apply, Res.ok.injEq] at h
  obtain ⟨lhs, r1, h1, rhs, r2, h2, a, r3, h3, b, r4, h4, _, rfl⟩ := h
  obtain ⟨m1, hn1, _, hh1, he1, hp1⟩ := hp.popS h1
  obtain ⟨m2, hn2, _, hh2, he2, hp2⟩ := hp1.popS h2
  obtain ⟨_, rfl⟩ := valueInt_ok h3
  obtain ⟨_, rfl⟩ := valueInt_ok h4
  exact ⟨m2, by omega, hh2.trans hh1, he2.trans he1, hp2⟩

theorem divide_ok {rt rt1 : Runtime} {a b q : Int} (h : divide a b rt = .ok q rt1) : rt1 = rt := by
  unfold divide at h
  split at h
  · cases h
  · split at h
    · cases h
    · simp only [M.pure_apply, Res.ok.injEq] at h
      exact h.2.symm

theorem Runtime.execute_ADD_def : Runtime.execute Instruction.ADD = (do
    let (a, b) ← Runtime.popIntegers
    Runtime.pushS (← Runtime.newInteger (wrap64 (a + b)))) := rfl

theorem Runtime.Pieces.exec_ADD {G : Nat} {g : Regions} {K : Code.End} {n k : Nat}
    {rt rt1 : Runtime} (hp : Runtime.Pieces G g K (.ready false (n - 1) k) n k rt)
    (h : Runtime.execute Instruction.ADD rt = .ok () rt1) :
    Runtime.Inv G rt1 ∧ Runtime.Grows G rt.heap rt1.heap := by
  rw [Runtime.execute_ADD_def] at h
  simp only [M.bind_ok_iff] at h
  obtain ⟨⟨a, b⟩, r1, h1, v, r2, h2, h3⟩ := h
  obtain ⟨m, hn, hh1, _, hp1⟩ := hp.popIntegers h1
  obtain ⟨hg1, _, hv, hp2⟩ := hp1.newInteger h2
  obtain ⟨hg, _, _, g1, _, hp3⟩ := hp2.pushS hv h3
  have hm : n - 1 = m + 1 := by omega
  rw [hm] at hp3
  rw [hh1] at hg1
  exact ⟨hp3.inv, (hg1.trans_grow hg).grows hp.ok.valid.1 G⟩

theorem Runtime.execute_SUB_def : Runtime.execute Instruction.SUB = (do
    let (a, b) ← Runtime.popIntegers
    Runtime.pushS (← Runtime.newInteger (wrap64 (a - b)))) := rfl

theorem Runtime.Pieces.exec_SUB {G : Nat} {g : Regions} {K : Code.End} {n k : Nat}
    {rt rt1 : Runtime} (hp : Runtime.Pieces G g K (.ready false (n - 1) k) n k rt)
    (h : Runtime.execute Instruction.SUB rt = .ok () rt1) :
    Runtime.Inv G rt1 ∧ Runtime.Grows G rt.heap rt1.heap := by
  rw [Runtime.execute_SUB_def] at h
  simp only [M.bind_ok_iff] at h
  obtain ⟨⟨a, b⟩, r1, h1, v, r2, h2, h3⟩ := h
  obtain ⟨m, hn, hh1, _, hp1⟩ := hp.popIntegers h1
  obtain ⟨hg1, _, hv, hp2⟩ := hp1.newInteger h2
  obtain ⟨hg, _, _, g1, _, hp3⟩ := hp2.pushS hv h3
  have hm : n - 1 = m + 1 := by omega
  rw [hm] at hp3
  rw [hh1] at hg1
  exact ⟨hp3.inv, (hg1.trans_grow hg).grows hp.ok.valid.1 G⟩

theorem Runtime.execute_MUL_def : Runtime.execute Instruction.MUL = (do
    let (a, b) ← Runtime.popIntegers
    Runtime.pushS (← Runtime.newInteger (wrap64 (a * b)))) := rfl

theorem Runtime.Pieces.exec_MUL {G : Nat} {g : Regions} {K : Code.End} {n k : Nat}
    {rt rt1 : Runtime} (hp : Runtime.Pieces G g K (.ready false (n - 1) k) n k rt)
    (h : Runtime.execute Instruction.MUL rt = .ok () rt1) :
    Runtime.Inv G rt1 ∧ Runtime.Grows G rt.heap rt1.heap := by
  rw [Runtime.execute_MUL_def] at h
  simp only [M.bind_ok_iff] at h
  obtain ⟨⟨a, b⟩, r1, h1, v, r2, h2, h3⟩ := h
  obtain ⟨m, hn, hh1, _, hp1⟩ := hp.popIntegers h1
  obtain ⟨hg1, _, hv, hp2⟩ := hp1.newInteger h2
  obtain ⟨hg, _, _, g1, _, hp3⟩ := hp2.pushS hv h3
  have hm : n - 1 = m + 1 := by omega
  rw [hm] at hp3
  rw [hh1] at hg1
  exact ⟨hp3.inv, (hg1.trans_grow hg).grows hp.ok.valid.1 G⟩

theorem Runtime.execute_LT_def : Runtime.execute Instruction.LT = (do
    let (a, b) ← Runtime.popIntegers
    Runtime.pushS (← Runtime.newInteger (if a < b then 1 else 0))) := rfl

theorem Runtime.Pieces.exec_LT {G : Nat} {g : Regions} {K : Code.End} {n k : Nat}
    {rt rt1 : Runtime} (hp : Runtime.Pieces G g K (.ready false (n - 1) k) n k rt)
    (h : Runtime.execute Instruction.LT rt = .ok () rt1) :
    Runtime.Inv G rt1 ∧ Runtime.Grows G rt.heap rt1.heap := by
  rw [Runtime.execute_LT_def] at h
  simp only [M.bind_ok_iff] at h
  obtain ⟨⟨a, b⟩, r1, h1, v, r2, h2, h3⟩ := h
  obtain ⟨m, hn, hh1, _, hp1⟩ := hp.popIntegers h1
  obtain ⟨hg1, _, hv, hp2⟩ := hp1.newInteger h2
  obtain ⟨hg, _, _, g1, _, hp3⟩ := hp2.pushS hv h3
  have hm : n - 1 = m + 1 := by omega
  rw [hm] at hp3
  rw [hh1] at hg1
  exact ⟨hp3.inv, (hg1.trans_grow hg).grows hp.ok.valid.1 G⟩

theorem Runtime.execute_GT_def : Runtime.execute Instruction.GT = (do
    let (a, b) ← Runtime.popIntegers
    Runtime.pushS (← Runtime.newInteger (if a > b then 1 else 0))) := rfl

theorem Runtime.Pieces.exec_GT {G : Nat} {g : Regions} {K : Code.End} {n k : Nat}
    {rt rt1 : Runtime} (hp : Runtime.Pieces G g K (.ready false (n - 1) k) n k rt)
    (h : Runtime.execute Instruction.GT rt = .ok () rt1) :
    Runtime.Inv G rt1 ∧ Runtime.Grows G rt.heap rt1.heap := by
  rw [Runtime.execute_GT_def] at h
  simp only [M.bind_ok_iff] at h
  obtain ⟨⟨a, b⟩, r1, h1, v, r2, h2, h3⟩ := h
  obtain ⟨m, hn, hh1, _, hp1⟩ := hp.popIntegers h1
  obtain ⟨hg1, _, hv, hp2⟩ := hp1.newInteger h2
  obtain ⟨hg, _, _, g1, _, hp3⟩ := hp2.pushS hv h3
  have hm : n - 1 = m + 1 := by omega
  rw [hm] at hp3
  rw [hh1] at hg1
  exact ⟨hp3.inv, (hg1.trans_grow hg).grows hp.ok.valid.1 G⟩

theorem Runtime.execute_DIV_def : Runtime.execute Instruction.DIV = (do
    let (a, b) ← Runtime.popIntegers
    Runtime.pushS (← Runtime.newInteger (← divide a b))) := rfl

theorem Runtime.Pieces.exec_DIV {G : Nat} {g : Regions} {K : Code.End} {n k : Nat}
    {rt rt1 : Runtime} (hp : Runtime.Pieces G g K (.ready false (n - 1) k) n k rt)
    (h : Runtime.execute Instruction.DIV rt = .ok () rt1) :
    Runtime.Inv G rt1 ∧ Runtime.Grows G rt.heap rt1.heap := by
  rw [Runtime.execute_DIV_def] at h
  simp only [M.bind_ok_iff] at h
  obtain ⟨⟨a, b⟩, r1, h1, q, r0, h0, v, r2, h2, h3⟩ := h
  obtain ⟨m, hn, hh1, _, hp1⟩ := hp.popIntegers h1
  obtain rfl := divide_ok h0
  obtain ⟨hg1, _, hv, hp2⟩ := hp1.newInteger h2
  obtain ⟨hg, _, _, g1, _, hp3⟩ := hp2.pushS hv h3
  have hm : n - 1 = m + 1 := by omega
  rw [hm] at hp3
  rw [hh1] at hg1
  exact ⟨hp3.inv, (hg1.trans_grow hg).grows hp.ok.valid.1 G⟩

theorem Runtime.execute_EQ_def : Runtime.execute Instruction.EQ = (do
    let lhs ← Runtime.popS
    let rhs ← Runtime.popS
    let h ← getHeap
    let result ←
      if h.isInteger lhs && h.isInteger rhs then do
        let a ← valueInt lhs
        let b ← valueInt rhs
        pure (if a = b then (1 : Int) else 0)
      else
        pure (if lhs = rhs then (1 : Int) else 0)
    Runtime.pushS (← Runtime.newInteger result)) := rfl

theorem Runtime.Pieces.exec_EQ {G : Nat} {g : Regions} {K : Code.End} {n k : Nat}
    {rt rt1 : Runtime} (hp : Runtime.Pieces G g K (.ready false (n - 1) k) n k rt)
    (h : Runtime.execute Instruction.EQ rt = .ok () rt1) :
    Runtime.Inv G rt1 ∧ Runtime.Grows G rt.heap rt1.heap := by
  rw [Runtime.execute_EQ_def] at h
  simp only [M.bind_ok_iff] at h
  obtain ⟨lhs, r1, h1, rhs, r2, h2, hh, r3, h3, h4⟩ := h
  obtain ⟨m1, hn1, _, hh1, _, hp1⟩ := hp.popS h1
  obtain ⟨m2, hn2, _, hh2, _, hp2⟩ := hp1.popS h2
  obtain ⟨_, rfl⟩ := getHeap_ok h3
  have hm : n - 1 = m2 + 1 := by omega
  split at h4
  · simp only [M.bind_ok_iff, M.pure_apply, Res.ok.injEq] at h4
    obtain ⟨a, s1, ha, b, s2, hb, y, s3, ⟨_, rfl⟩, v, r5, h5, h6⟩ := h4
    obtain ⟨_, rfl⟩ := valueInt_ok ha
    obtain ⟨_, rfl⟩ := valueInt_ok hb
    obtain ⟨hg1, _, hv, hp3⟩ := hp2.newInteger h5
    obtain ⟨hg, _, _, g1, _, hp4⟩ := hp3.pushS hv h6
    rw [hm] at hp4
    rw [hh2, hh1] at hg1
    exact ⟨hp4.inv, (hg1.trans_grow hg).grows hp.ok.valid.1 G⟩
  · simp only [M.bind_ok_iff, M.pure_apply, Res.ok.injEq] at h4
    obtain ⟨y, s3, ⟨_, rfl⟩, v, r5, h5, h6⟩ := h4
    obtain ⟨hg1, _, hv, hp3⟩ := hp2.newInteger h5
    obtain ⟨hg, _, _, g1, _, hp4⟩ := hp3.pushS hv h6
    rw [hm] at hp4
    rw [hh2, hh1] at hg1
    exact ⟨hp4.inv, (hg1.trans_grow hg).grows hp.ok.valid.1 G⟩

theorem Runtime.setC_ok {rt rt1 : Runtime} {v : Nat} (h : Runtime.setC v rt = .ok () rt1) :
    rt1 = { rt with c_ := v } := by
  unfold Runtime.setC at h
  split at h
  · simp only [Res.ok.injEq, true_and] at h
    exact h.symm
  · cases h

theorem Runtime.setS_ok {rt rt1 : Runtime} {v : Nat} (h : Runtime.setS v rt = .ok () rt1) :
    rt1 = { rt with s_ := v } := by
  unfold Runtime.setS at h
  split at h
  · simp only [Res.ok.injEq, true_and] at h
    exact h.symm
  · cases h

theorem Runtime.setE_ok {rt rt1 : Runtime} {v : Nat} (h : Runtime.setE v rt = .ok () rt1) :
    rt1 = { rt with e_ := v } := by
  unfold Runtime.setE at h
  split at h
  · simp only [Res.ok.injEq, true_and] at h
    exact h.symm
  · cases h

/-- New cells of a spine in the registers of the machine. -/
theorem Runtime.Pieces.grow {G : Nat} {g : Regions} {K : Code.End} {τ : Code.Pend} {n k : Nat}
    {rt : Runtime} (hp : Runtime.Pieces G g K τ n k rt) (h1 : Heap)
    (hsize : rt.heap.size ≤ h1.size) (hv : h1.Valid)
    (hold : ∀ p, p < rt.heap.size → h1.get? p = rt.heap.get? p)
    (hcells : ∀ p c, rt.heap.size ≤ p → h1.get? p = some c → ∃ x y, c = .cons x y) :
    ∃ g1, g.Ext rt.heap g1 h1 ∧ (∀ p, rt.heap.size ≤ p → p < h1.size → g1.ctl p) ∧
      Runtime.Pieces G g1 K τ n k { rt with heap := h1 } := by
  obtain ⟨ok1, hx⟩ := hp.ok.growCtl h1 hsize hv hold hcells
  exact ⟨_, hx, fun p h1 h2 => Or.inr ⟨h1, h2⟩, ok1, hx.rest hp.code, hx.slist _ _ hp.stack,
    hx.dump hp.dump, hx.envAt _ _ hp.env⟩

theorem Runtime.execute_SEL_def : Runtime.execute Instruction.SEL = (do
    let cond ← Runtime.popS
    let trueCase ← Runtime.popC
    let falseCase ← Runtime.popC
    Runtime.pushD (← (fun rt => .ok rt.c_ rt : RM Nat))
    if toBoolean (← getHeap) cond then
      Runtime.setC trueCase
    else
      Runtime.setC falseCase) := rfl

theorem Runtime.Pieces.exec_SEL {G : Nat} {g : Regions} {K : Code.End} {n k : Nat}
    {rt rt1 : Runtime} (hn : 1 ≤ n) (hp : Runtime.Pieces G g K (.sel0 (n - 1) k) n k rt)
    (h : Runtime.execute Instruction.SEL rt = .ok () rt1) :
    Runtime.Inv G rt1 ∧ Runtime.Grows G rt.heap rt1.heap := by
  rw [Runtime.execute_SEL_def] at h
  simp only [M.bind_ok_iff] at h
  obtain ⟨cond, r1, h1, t, r2, h2, f, r3, h3, c, r4, h4, u, r5, h5, hh, r6, h6, h7⟩ := h
  obtain ⟨m, hm, _, hh1, _, hp1⟩ := hp.popS h1
  have hnm : n - 1 = m := by omega
  rw [hnm] at hp1
  obtain ⟨d2, hc2, rfl⟩ := Runtime.popC_ok h2
  obtain ⟨hrt, hr2⟩ := hp1.code.sel0 hc2
  obtain ⟨d3, hc3, rfl⟩ := Runtime.popC_ok h3
  obtain ⟨hrf, hr3⟩ := hr2.sel1 hc3
  simp only [Res.ok.injEq] at h4
  obtain ⟨rfl, rfl⟩ := h4
  unfold Runtime.pushD at h5
  simp only [Res.ok.injEq, true_and] at h5
  subst h5
  obtain ⟨_, rfl⟩ := getHeap_ok h6
  have hgrow := Heap.Grow.of_alloc r1.heap (.cons d3 r1.d_)
  obtain ⟨g1, hx, hnew, hp2⟩ := hp1.grow (r1.heap.alloc (.cons d3 r1.d_)).2 hgrow.1
    (hp1.ok.valid.alloc_valid _) hgrow.2 (fun p c hle hc => by
      rw [Heap.get?_alloc] at hc
      by_cases hps : p = r1.heap.size
      · rw [if_pos hps] at hc
        simp only [Option.some.injEq] at hc
        exact ⟨_, _, hc.symm⟩
      · rw [if_neg hps] at hc
        have := hp1.ok.valid.1.lt hc
        omega)
  have hdump : Runtime.Dump g1 (r1.heap.alloc (.cons d3 r1.d_)).2 r1.heap.size (.join (m + 1) k) :=
    .join (hnew _ (Nat.le_refl _) (by simp)) (by simp) (hx.rest hr3) hp2.dump
  have hgr : Runtime.Grows G rt.heap rt1.heap → Runtime.Inv G rt1 ∧
      Runtime.Grows G rt.heap rt1.heap → Runtime.Inv G rt1 ∧ Runtime.Grows G rt.heap rt1.heap :=
    fun _ x => x
  have hG : Runtime.Grows G rt.heap (r1.heap.alloc (.cons d3 r1.d_)).2 := by
    rw [hh1] at hgrow ⊢
    exact hgrow.grows hp.ok.valid.1 G
  split at h7
  · obtain rfl := Runtime.setC_ok h7
    exact ⟨Runtime.Pieces.inv ⟨hp2.ok, hx.rest hrt, hp2.stack, hdump, hp2.env⟩, hG⟩
  · obtain rfl := Runtime.setC_ok h7
    exact ⟨Runtime.Pieces.inv ⟨hp2.ok, hx.rest hrf, hp2.stack, hdump, hp2.env⟩, hG⟩

theorem Runtime.Dump.join_inv {g : Regions} {h : Heap} {d n k : Nat}
    (hd : Runtime.Dump g h d (.join n k)) :
    ∃ c d1 K1, g.ctl d ∧ h.get? d = some (.cons c d1) ∧
      Code.Rest g.ctl (g.val h) h K1 (.ready false n k) c ∧ Runtime.Dump g h d1 K1 := by
  cases hd with
  | join hc hg hr hd1 => exact ⟨_, _, _, hc, hg, hr, hd1⟩

theorem Runtime.Dump.rtn_inv {g : Regions} {h : Heap} {d : Nat}
    (hd : Runtime.Dump g h d .rtn) :
    ∃ f d1 s f1 e f2 c f3 n k K1, h.get? d = some (.cons f d1) ∧
      h.get? f = some (.cons s f1) ∧ h.get? f1 = some (.cons e f2) ∧
      h.get? f2 = some (.cons c f3) ∧ Runtime.SList g h s n ∧ Runtime.EnvAt g h e k ∧
      Code.Rest g.ctl (g.val h) h K1 (.ready false (n + 1) k) c ∧ Runtime.Dump g h d1 K1 := by
  cases hd with
  | rtn _ hg _ hg1 _ hg2 _ hg3 hs he hr hd1 =>
    exact ⟨_, _, _, _, _, _, _, _, _, _, _, hg, hg1, hg2, hg3, hs, he, hr, hd1⟩

theorem Runtime.execute_JOIN_def : Runtime.execute Instruction.JOIN = (do
    Runtime.setC (← Runtime.popD)) := rfl

theorem Runtime.Pieces.exec_JOIN {G : Nat} {g : Regions} {n k : Nat}
    {rt rt1 : Runtime} (hp : Runtime.Pieces G g (.join n k) .done n k rt)
    (h : Runtime.execute Instruction.JOIN rt = .ok () rt1) :
    Runtime.Inv G rt1 ∧ Runtime.Grows G rt.heap rt1.heap := by
  rw [Runtime.execute_JOIN_def] at h
  simp only [M.bind_ok_iff] at h
  obtain ⟨c, r1, h1, h2⟩ := h
  obtain ⟨d1, hd, rfl⟩ := Runtime.popD_ok h1
  obtain rfl := Runtime.setC_ok h2
  obtain ⟨c1, d2, K1, _, hg, hr, hd1⟩ := hp.dump.join_inv
  rw [hd] at hg
  simp only [Option.some.injEq, Cell.cons.injEq] at hg
  obtain ⟨rfl, rfl⟩ := hg
  exact ⟨Runtime.Pieces.inv ⟨hp.ok, hr, hp.stack, hd1, hp.env⟩, Runtime.Grows.refl_grows G _⟩

theorem Runtime.execute_LDF_def : Runtime.execute Instruction.LDF = (do
    let body ← Runtime.popC
    let closure ← (fun rt => Runtime.newClosure body rt.e_ rt : RM Nat)
    Runtime.pushS closure) := rfl

theorem Runtime.Pieces.exec_LDF {G : Nat} {g : Regions} {K : Code.End} {n k : Nat}
    {rt rt1 : Runtime} (hp : Runtime.Pieces G g K (.ldf n k) n k rt)
    (h : Runtime.execute Instruction.LDF rt = .ok () rt1) :
    Runtime.Inv G rt1 ∧ Runtime.Grows G rt.heap rt1.heap := by
  rw [Runtime.execute_LDF_def] at h
  simp only [M.bind_ok_iff] at h
  obtain ⟨body, r1, h1, p, r2, h2, h3⟩ := h
  obtain ⟨d, hc, rfl⟩ := Runtime.popC_ok h1
  obtain ⟨hb, hr⟩ := hp.code.ldf hc
  unfold Runtime.newClosure at h2
  simp only [Res.ok.injEq] at h2
  obtain ⟨rfl, rfl⟩ := h2
  have hp0 : Runtime.Pieces G g K (.ready true (n + 1) k) n k { rt with c_ := d } :=
    ⟨hp.ok, hr, hp.stack, hp.dump, hp.env⟩
  obtain ⟨hp1, hv, _⟩ := hp0.newValue (.closure body rt.e_) (fun a b hab => by cases hab)
    (fun b e hcl => by
      simp only [Cell.closure.injEq] at hcl
      rw [← hcl.1, ← hcl.2]
      exact ⟨hb, hp.env.env_of⟩)
  obtain ⟨hg, he, hs, g1, _, hp2⟩ := hp1.pushS hv h3
  refine ⟨⟨g1, K, true, n + 1, k, hp2, fun _ => ⟨_, _, body, hs, ?_⟩⟩,
    ((Heap.Grow.of_alloc _ _).trans_grow hg).grows hp.ok.valid.1 G⟩
  rw [hg.2 _ (by simp), he]
  simp

theorem Runtime.execute_DUM_def :
    Runtime.execute Instruction.DUM = Environment.insertDummyEnvironment := rfl

theorem Runtime.Pieces.exec_DUM {G : Nat} {g : Regions} {K : Code.End} {n k : Nat}
    {rt rt1 : Runtime} (hp : Runtime.Pieces G g K (.ready false n (k + 1)) n k rt)
    (h : Runtime.execute Instruction.DUM rt = .ok () rt1) :
    Runtime.Inv G rt1 ∧ Runtime.Grows G rt.heap rt1.heap := by
  rw [Runtime.execute_DUM_def] at h
  unfold Environment.insertDummyEnvironment at h
  simp only [Res.ok.injEq, true_and] at h
  subst h
  obtain ⟨ok1, hx⟩ := hp.ok.allocEnv Nil rt.e_ hp.ok.nil hp.env.env_of
  refine ⟨Runtime.Pieces.inv ⟨ok1, hx.rest hp.code, hx.slist _ _ hp.stack, hx.dump hp.dump, ?_⟩,
    (Heap.Grow.of_alloc _ _).grows hp.ok.valid.1 G⟩
  exact ⟨Or.inr rfl, Nil, rt.e_, by simp, hx.envAt _ _ hp.env⟩

theorem Heap.environment_ok {h : Heap} {p e : Nat} (hc : h.environment p = .ok e) :
    ∃ b, h.get? p = some (.closure b e) := by
  unfold Heap.environment at hc
  split at hc
  · rename_i b e1 hg
    simp only [Except.ok.injEq] at hc
    exact ⟨b, hc ▸ hg⟩
  · cases hc

theorem Heap.body_ok {h : Heap} {p b : Nat} (hc : h.body p = .ok b) :
    ∃ e, h.get? p = some (.closure b e) := by
  unfold Heap.body at hc
  split at hc
  · rename_i b1 e hg
    simp only [Except.ok.injEq] at hc
    exact ⟨e, hc ▸ hg⟩
  · cases hc

/-- The heap and the registers after `AP` or `RAP` has saved the registers on
the dump. -/
theorem Runtime.saveContext_ok {rt rt1 : Runtime} (h : Runtime.saveContext rt = .ok () rt1) :
    rt1.s_ = rt.s_ ∧ rt1.e_ = rt.e_ ∧ rt1.c_ = rt.c_ ∧ rt1.d_ = rt.heap.size + 3 ∧
      rt1.heap.size = rt.heap.size + 4 ∧
      (∀ p, p < rt.heap.size → rt1.heap.get? p = rt.heap.get? p) ∧
      rt1.heap.get? rt.heap.size = some (.cons rt.s_ (rt.heap.size + 1)) ∧
      rt1.heap.get? (rt.heap.size + 1) = some (.cons rt.e_ (rt.heap.size + 2)) ∧
      rt1.heap.get? (rt.heap.size + 2) = some (.cons rt.c_ Nil) ∧
      rt1.heap.get? (rt.heap.size + 3) = some (.cons rt.heap.size rt.d_) ∧
      (rt.heap.Valid → rt1.heap.Valid) := by
  rw [Runtime.saveContext_eq] at h
  simp only [Res.ok.injEq, true_and] at h
  subst h
  have e1 : ¬ rt.heap.size = rt.heap.size + 1 + 1 + 1 := by omega
  have e2 : ¬ rt.heap.size = rt.heap.size + 1 + 1 := by omega
  have e3 : ¬ rt.heap.size + 1 = rt.heap.size + 1 + 1 + 1 := by omega
  have e4 : ¬ rt.heap.size + 2 = rt.heap.size + 1 + 1 + 1 := by omega
  refine ⟨rfl, rfl, rfl, rfl, by simp, fun p hp => ?_, by simp [e1, e2], by simp [e3],
    by simp [e4], by simp, fun hv => ?_⟩
  · have h1 : p ≠ rt.heap.size := by omega
    have h2 : p ≠ rt.heap.size + 1 := by omega
    have h3 : p ≠ rt.heap.size + 2 := by omega
    have h4 : p ≠ rt.heap.size + 3 := by omega
    simp [h1, h2, h3, h4]
  · refine Heap.Valid.alloc_valid ?_ _
    refine Heap.Valid.set_cons (a := rt.e_) (d := Nil) ?_ (by simp) _
    refine Heap.Valid.alloc_valid ?_ _
    refine Heap.Valid.set_cons (a := rt.s_) (d := Nil) ?_ (by simp) _
    exact (hv.alloc_valid _).alloc_valid _

/-- The registers after `AP` or `RAP` has saved them on the dump: the dump
is what `RTN` expects. -/
theorem Runtime.Pieces.saveContext {G : Nat} {g : Regions} {K : Code.End} {n k : Nat}
    {rt rt1 : Runtime} (hp : Runtime.Pieces G g K (.ready false (n + 1) k) n k rt)
    (h : Runtime.saveContext rt = .ok () rt1) :
    rt.heap.Grow rt1.heap ∧ rt1.s_ = rt.s_ ∧ rt1.e_ = rt.e_ ∧ rt1.c_ = rt.c_ ∧
      ∃ g1, g.Ext rt.heap g1 rt1.heap ∧ HeapOK G g1 rt1.heap ∧
        Runtime.Dump g1 rt1.heap rt1.d_ .rtn := by
  obtain ⟨hs, he, hc, hd, hsize, hold, h0, h1, h2, h3, hv⟩ := Runtime.saveContext_ok h
  have hp1 := hp.grow rt1.heap (by omega) (hv hp.ok.valid) hold (fun p c hle hc => by
    have hlt := (hv hp.ok.valid).1.lt hc
    have hcases : p = rt.heap.size ∨ p = rt.heap.size + 1 ∨ p = rt.heap.size + 2 ∨
        p = rt.heap.size + 3 := by omega
    rcases hcases with rfl | rfl | rfl | rfl
    · rw [h0] at hc
      simp only [Option.some.injEq] at hc
      exact ⟨_, _, hc.symm⟩
    · rw [h1] at hc
      simp only [Option.some.injEq] at hc
      exact ⟨_, _, hc.symm⟩
    · rw [h2] at hc
      simp only [Option.some.injEq] at hc
      exact ⟨_, _, hc.symm⟩
    · rw [h3] at hc
      simp only [Option.some.injEq] at hc
      exact ⟨_, _, hc.symm⟩)
  obtain ⟨g1, hx, hnew, hp2⟩ := hp1
  refine ⟨⟨by omega, hold⟩, hs, he, hc, g1, hx, hp2.ok, ?_⟩
  rw [hd]
  exact .rtn (hnew _ (by omega) (by omega)) h3 (hnew _ (by omega) (by omega)) h0
    (hnew _ (by omega) (by omega)) h1 (hnew _ (by omega) (by omega)) h2
    hp2.stack hp2.env hp2.code hp2.dump

theorem Runtime.execute_AP_def : Runtime.execute Instruction.AP = (do
    let closure ← Runtime.popS
    if ! (← getHeap).isClosure closure then
      raise (.runtimeError "AP expects closure on stack, but " (some closure))
    else do
      let argList ← Runtime.popS
      Runtime.saveContext
      Runtime.setS Nil
      let env ← liftF ((← getHeap).environment closure)
      Runtime.setE (← Runtime.newCons argList env)
      Runtime.setC (← liftF ((← getHeap).body closure))) := rfl

theorem Runtime.Pieces.exec_AP {G : Nat} {g : Regions} {K : Code.End} {n k : Nat}
    {rt rt1 : Runtime} (hn : 2 ≤ n) (hp : Runtime.Pieces G g K (.ready false (n - 1) k) n k rt)
    (h : Runtime.execute Instruction.AP rt = .ok () rt1) :
    Runtime.Inv G rt1 ∧ Runtime.Grows G rt.heap rt1.heap := by
  rw [Runtime.execute_AP_def] at h
  simp only [M.bind_ok_iff] at h
  obtain ⟨cl, r1, h1, hh, r2, h2, h3⟩ := h
  obtain ⟨m1, hm1, hvc, hh1, _, hp1⟩ := hp.popS h1
  obtain ⟨_, rfl⟩ := getHeap_ok h2
  split at h3
  · cases h3
  · simp only [M.bind_ok_iff] at h3
    obtain ⟨al, r3, h4, u1, r4, h5, u2, r5, h6, hh5, r6, h7, env, r7, h8, ne, r8, h9, u3, r9,
      h10, hh9, r10, h11, b, r11, h12, h13⟩ := h3
    obtain ⟨m2, hm2, hva, hh3, he3, hp3⟩ := hp1.popS h4
    have hnm : n - 1 = m2 + 1 := by omega
    rw [hnm] at hp3
    obtain ⟨hg5, hs5, he5, hc5, g1, hx1, ok1, hd1⟩ := hp3.saveContext h5
    obtain rfl := Runtime.setS_ok h6
    obtain ⟨rfl, rfl⟩ := getHeap_ok h7
    obtain ⟨henv, rfl⟩ := liftF_okk h8
    obtain ⟨b0, hcl⟩ := Heap.environment_ok henv
    unfold Runtime.newCons at h9
    simp only [Res.ok.injEq] at h9
    obtain ⟨rfl, rfl⟩ := h9
    obtain rfl := Runtime.setE_ok h10
    obtain ⟨rfl, rfl⟩ := getHeap_ok h11
    obtain ⟨hbody, rfl⟩ := liftF_okk h12
    obtain ⟨e0, hcl2⟩ := Heap.body_ok hbody
    obtain rfl := Runtime.setC_ok h13
    have hcl3 : r4.heap.get? cl = some (.closure b e0) := by
      simpa [Heap.get?_alloc, Nat.ne_of_lt (ok1.valid.1.lt hcl)] using hcl2
    rw [hcl] at hcl3
    simp only [Option.some.injEq, Cell.closure.injEq] at hcl3
    obtain ⟨rfl, rfl⟩ := hcl3
    obtain ⟨hbd, henv0⟩ := ok1.closureCell cl b0 env hcl
    rw [hh1] at hva
    rw [hh3, hh1] at hx1 hg5
    obtain ⟨ok2, hx2⟩ := ok1.allocEnv al env (hx1.val hva) henv0
    refine ⟨Runtime.Pieces.inv ⟨ok2, hx2.rest hbd, rfl, hx2.dump hd1, Or.inr rfl⟩,
      (hg5.trans_grow (Heap.Grow.of_alloc _ _)).grows hp.ok.valid.1 G⟩

theorem Runtime.execute_RTN_def : Runtime.execute Instruction.RTN = (do
    let result ← Runtime.popS
    let callerContext ← Runtime.popD
    Runtime.setS (← liftF ((← getHeap).car callerContext))
    let callerContext ← liftF ((← getHeap).cdr callerContext)
    Runtime.setE (← liftF ((← getHeap).car callerContext))
    let callerContext ← liftF ((← getHeap).cdr callerContext)
    Runtime.setC (← liftF ((← getHeap).car callerContext))
    Runtime.pushS result) := rfl

theorem Runtime.Pieces.exec_RTN {G : Nat} {g : Regions} {n k : Nat}
    {rt rt1 : Runtime} (hp : Runtime.Pieces G g .rtn .done n k rt)
    (h : Runtime.execute Instruction.RTN rt = .ok () rt1) :
    Runtime.Inv G rt1 ∧ Runtime.Grows G rt.heap rt1.heap := by
  rw [Runtime.execute_RTN_def] at h
  simp only [M.bind_ok_iff] at h
  obtain ⟨res, r1, h1, ctx, r2, h2, hh2, r3, h3, s, r4, h4, u1, r5, h5, hh5, r6, h6, ctx1, r7, h7,
    hh7, r8, h8, e, r9, h9, u2, r10, h10, hh10, r11, h11, ctx2, r12, h12, hh12, r13, h13, c, r14,
    h14, u3, r15, h15, h16⟩ := h
  obtain ⟨m, hm, hv, hh1, _, hp1⟩ := hp.popS h1
  obtain ⟨d1, hd, rfl⟩ := Runtime.popD_ok h2
  obtain ⟨rfl, rfl⟩ := getHeap_ok h3
  obtain ⟨hs, rfl⟩ := liftF_okk h4
  obtain rfl := Runtime.setS_ok h5
  obtain ⟨rfl, rfl⟩ := getHeap_ok h6
  obtain ⟨hc1, rfl⟩ := liftF_okk h7
  obtain ⟨rfl, rfl⟩ := getHeap_ok h8
  obtain ⟨he, rfl⟩ := liftF_okk h9
  obtain rfl := Runtime.setE_ok h10
  obtain ⟨rfl, rfl⟩ := getHeap_ok h11
  obtain ⟨hc2, rfl⟩ := liftF_okk h12
  obtain ⟨rfl, rfl⟩ := getHeap_ok h13
  obtain ⟨hc, rfl⟩ := liftF_okk h14
  obtain rfl := Runtime.setC_ok h15
  obtain ⟨f, d2, s0, f1, e0, f2, c0, f3, n0, k0, K1, hg, hg1, hg2, hg3, hsl, hea, hr, hd1⟩ :=
    hp1.dump.rtn_inv
  rw [hd] at hg
  simp only [Option.some.injEq, Cell.cons.injEq] at hg
  obtain ⟨rfl, rfl⟩ := hg
  obtain ⟨x1, hs1⟩ := Heap.car_eq_ok hs
  obtain ⟨x2, hc11⟩ := Heap.cdr_eq_ok hc1
  obtain ⟨x3, he1⟩ := Heap.car_eq_ok he
  obtain ⟨x4, hc21⟩ := Heap.cdr_eq_ok hc2
  obtain ⟨x5, hcc⟩ := Heap.car_eq_ok hc
  simp only at hs1 hc11 he1 hc21 hcc
  rw [hg1] at hs1 hc11
  simp only [Option.some.injEq, Cell.cons.injEq] at hs1 hc11
  obtain ⟨rfl, _⟩ := hs1
  obtain ⟨_, rfl⟩ := hc11
  rw [hg2] at he1 hc21
  simp only [Option.some.injEq, Cell.cons.injEq] at he1 hc21
  obtain ⟨rfl, _⟩ := he1
  obtain ⟨_, rfl⟩ := hc21
  rw [hg3] at hcc
  simp only [Option.some.injEq, Cell.cons.injEq] at hcc
  obtain ⟨rfl, _⟩ := hcc
  have hp2 : Runtime.Pieces G g K1 (.ready false (n0 + 1) k0) n0 k0
      { r1 with d_ := d1, s_ := s0, e_ := e0, c_ := c0 } := ⟨hp1.ok, hr, hsl, hd1, hea⟩
  have hv2 : g.val r1.heap res := hh1 ▸ hv
  obtain ⟨hgr, _, _, g1, _, hp3⟩ := hp2.pushS hv2 h16
  have hgr2 : rt.heap.Grow rt1.heap := hh1 ▸ hgr
  exact ⟨hp3.inv, hgr2.grows hp.ok.valid.1 G⟩

theorem IsList.of_nil {h : Heap} (hv : h.Valid) {vs : List Nat} (hl : IsList h Nil vs) :
    vs = [] := by
  cases vs with
  | nil => rfl
  | cons v vs =>
    rw [IsList.cons_iff] at hl
    obtain ⟨d, hg, _⟩ := hl
    exact absurd hg (hv.nil_not_cons v d)

/-- A list of values in a heap that differs only in cells that are no
values. -/
theorem IsList.of_val {G : Nat} {g : Regions} {h h1 : Heap} (ok : HeapOK G g h)
    (hagree : ∀ q, g.val h q → h1.get? q = h.get? q) :
    ∀ (vs : List Nat) (p : Nat), g.val h p → IsList h p vs → IsList h1 p vs
  | [], p, _, hl => by
    rw [IsList.nil_iff] at hl ⊢
    exact hl
  | v :: vs, p, hp, hl => by
    rw [IsList.cons_iff] at hl ⊢
    obtain ⟨d, hg, hrest⟩ := hl
    exact ⟨d, (hagree p hp).trans hg, IsList.of_val ok hagree vs d (ok.consCell p v d hp hg).2 hrest⟩

/-- A new frame in an environment cell other than `G` leaves the frame of `G`
as it is. -/
theorem Runtime.Grows.setCar_other {G : Nat} {g : Regions} {h : Heap} (ok : HeapOK G g h)
    {p : Nat} (hp : g.env p) (hne : p ≠ G) (c : Cell) : Runtime.Grows G h (h.set p c) := by
  rintro vs ⟨a, b, hG, hl⟩
  obtain ⟨a1, b1, hG1, hva, _⟩ := ok.envCell G ok.global
  rw [hG] at hG1
  simp only [Option.some.injEq, Cell.cons.injEq] at hG1
  obtain ⟨rfl, rfl⟩ := hG1
  refine ⟨[], a, b, ?_, ?_⟩
  · rw [Heap.get?_set, if_neg (Ne.symm hne), hG]
  · rw [List.append_nil]
    refine IsList.of_val ok (fun q hq => ?_) vs a hva hl
    rw [Heap.get?_set, if_neg]
    rintro rfl
    exact hq.2.2 hp

/-- The first frame put into the environment cell `G`. -/
theorem Runtime.Grows.setCar_global {G : Nat} {h : Heap} (hv : h.Valid) {b a1 : Nat}
    {ws : List Nat} (hG : h.get? G = some (.cons Nil b))
    (hl : IsList (h.set G (.cons a1 b)) a1 ws) : Runtime.Grows G h (h.set G (.cons a1 b)) := by
  rintro vs ⟨a, b0, hG0, hl0⟩
  rw [hG] at hG0
  simp only [Option.some.injEq, Cell.cons.injEq] at hG0
  obtain ⟨rfl, rfl⟩ := hG0
  obtain rfl := IsList.of_nil hv hl0
  exact ⟨ws, a1, b, by simp, by simpa using hl⟩

theorem IsList.append_cell {h : Heap} (hv : h.Valid) {p x b1 fn : Nat}
    (hp : h.get? p = some (.cons x Nil)) (hb : h.get? b1 = some (.cons fn Nil)) (hne : b1 ≠ p) :
    ∀ (vs : List Nat) (a : Nat), IsList h a vs →
      ∃ ws, IsList (h.set p (.cons x b1)) a (vs ++ ws)
  | [], a, hl => by
    rw [IsList.nil_iff] at hl
    exact ⟨[], by simpa [IsList.nil_iff] using hl⟩
  | v :: vs, a, hl => by
    rw [IsList.cons_iff] at hl
    obtain ⟨d, hg, hrest⟩ := hl
    by_cases hap : a = p
    · subst hap
      rw [hp] at hg
      simp only [Option.some.injEq, Cell.cons.injEq] at hg
      obtain ⟨rfl, rfl⟩ := hg
      obtain rfl := IsList.of_nil hv hrest
      refine ⟨[fn], ?_⟩
      simp only [List.singleton_append]
      rw [IsList.cons_iff]
      refine ⟨b1, by simp, ?_⟩
      rw [IsList.cons_iff]
      refine ⟨Nil, ?_, by simp [IsList.nil_iff]⟩
      rw [Heap.get?_set, if_neg hne, hb]
    · obtain ⟨ws, hws⟩ := IsList.append_cell hv hp hb hne vs d hrest
      refine ⟨ws, ?_⟩
      simp only [List.cons_append]
      rw [IsList.cons_iff]
      exact ⟨d, by rw [Heap.get?_set, if_neg hap, hg], hws⟩

/-- A cell appended to a list: the frame of `G` keeps what it holds. -/
theorem Runtime.Grows.setCdr_append {G : Nat} {h : Heap} (hv : h.Valid) {p x b1 fn : Nat}
    (hp : h.get? p = some (.cons x Nil)) (hb : h.get? b1 = some (.cons fn Nil)) (hne : b1 ≠ p)
    (hG : G ≠ p) : Runtime.Grows G h (h.set p (.cons x b1)) := by
  rintro vs ⟨a, b, hGc, hl⟩
  obtain ⟨ws, hws⟩ := IsList.append_cell hv hp hb hne vs a hl
  exact ⟨ws, a, b, by rw [Heap.get?_set, if_neg hG, hGc], hws⟩

theorem Environment.lastCell_val {G : Nat} {g : Regions} {h : Heap} (ok : HeapOK G g h) :
    ∀ (n e last : Nat), Environment.lastCell h n e = .ok last → g.val h e →
      g.val h last ∧ ∃ x, h.get? last = some (.cons x Nil)
  | 0, _, _, hl, _ => by cases hl
  | n + 1, e, last, hl, he => by
    unfold Environment.lastCell at hl
    split at hl
    · rename_i d hd
      obtain ⟨a, hc⟩ := Heap.cdr_eq_ok hd
      split at hl
      · exact Environment.lastCell_val ok n d last hl (ok.consCell e a d he hc).2
      · rename_i hdn
        simp only [ne_eq, Decidable.not_not] at hdn
        simp only [Except.ok.injEq] at hl
        subst hl hdn
        exact ⟨he, a, hc⟩
    · cases hl

/-- What `Environment::append` does to the heap: the new cell is the first
frame of an environment without one, or follows the last cell of the
frame. -/
theorem Environment.append_ok {rt rt1 : Runtime} {fn : Nat} (hwf : rt.heap.WF)
    (h : Environment.append fn rt = .ok () rt1) :
    ∃ a b, rt.heap.get? rt.e_ = some (.cons a b) ∧
      ((a = Nil ∧ rt1 = { rt with heap := ((rt.heap.alloc (.cons fn Nil)).2.set rt.e_
          (.cons rt.heap.size b)) }) ∨
        (a ≠ Nil ∧ ∃ last x, Environment.lastCell rt.heap (rt.heap.size + 1) a = .ok last ∧
          rt.heap.get? last = some (.cons x Nil) ∧
          rt1 = { rt with heap := ((rt.heap.alloc (.cons fn Nil)).2.set last
            (.cons x rt.heap.size)) })) := by
  unfold Environment.append at h
  split at h
  · cases h
  · rename_i a ha
    obtain ⟨b, hc⟩ := Heap.car_eq_ok ha
    refine ⟨a, b, hc, ?_⟩
    have hlt := Nat.ne_of_lt (hwf.lt hc)
    split at h
    · rename_i hnil
      left
      refine ⟨hnil, ?_⟩
      simp only [Heap.setCar, Heap.get?_alloc, if_neg hlt, hc, Heap.alloc_fst, Res.ok.injEq,
        true_and] at h
      exact h.symm
    · rename_i hnil
      right
      refine ⟨hnil, ?_⟩
      split at h
      · cases h
      · rename_i last hlast
        have hcell : ∃ x, rt.heap.get? last = some (.cons x Nil) := by
          have key : ∀ (n e l : Nat), Environment.lastCell rt.heap n e = .ok l →
              ∃ x, rt.heap.get? l = some (.cons x Nil) := by
            intro n
            induction n with
            | zero => intro e l hl; cases hl
            | succ n ih =>
              intro e l hl
              unfold Environment.lastCell at hl
              split at hl
              · rename_i d hd
                obtain ⟨a1, hc1⟩ := Heap.cdr_eq_ok hd
                split at hl
                · exact ih d l hl
                · rename_i hdn
                  simp only [ne_eq, Decidable.not_not] at hdn
                  simp only [Except.ok.injEq] at hl
                  subst hl hdn
                  exact ⟨a1, hc1⟩
              · cases hl
          exact key _ _ _ hlast
        obtain ⟨x, hx⟩ := hcell
        have hlt2 := Nat.ne_of_lt (hwf.lt hx)
        refine ⟨last, x, hlast, hx, ?_⟩
        simp only [Heap.setCdr, Heap.get?_alloc, if_neg hlt2, hx, Heap.alloc_fst, Res.ok.injEq,
          true_and] at h
        exact h.symm

theorem Runtime.execute_DEFUN_def : Runtime.execute Instruction.DEFUN = (do
    let fn ← Runtime.popS
    Environment.append fn
    Runtime.pushS Nil) := rfl

theorem Runtime.Pieces.exec_DEFUN {G : Nat} {g : Regions} {K : Code.End} {n k : Nat}
    {rt rt1 : Runtime} (hn : 1 ≤ n) (hp : Runtime.Pieces G g K (.ready false n k) n k rt)
    (h : Runtime.execute Instruction.DEFUN rt = .ok () rt1) :
    Runtime.Inv G rt1 ∧ Runtime.Grows G rt.heap rt1.heap := by
  rw [Runtime.execute_DEFUN_def] at h
  simp only [M.bind_ok_iff] at h
  obtain ⟨fn, r1, h1, u, r2, h2, h3⟩ := h
  obtain ⟨m, hm, hv, hh1, he1, hp1⟩ := hp.popS h1
  rw [← hh1] at hv ⊢
  obtain ⟨a, b, hc, hcase⟩ := Environment.append_ok hp1.ok.valid.1 h2
  have hlt := Nat.ne_of_lt (hp1.ok.valid.1.lt hc)
  obtain ⟨hpA, hvnew, hx1⟩ := hp1.newValue (.cons fn Nil)
    (fun a b hab => by
      simp only [Cell.cons.injEq] at hab
      rw [← hab.1, ← hab.2]
      exact ⟨hv, hp1.ok.nil⟩)
    (fun b e hcl => by cases hcl)
  have hg1 := (Heap.Grow.of_alloc r1.heap (.cons fn Nil)).grows hp1.ok.valid.1 G
  have hnewcell : (r1.heap.alloc (.cons fn Nil)).2.get? r1.heap.size = some (.cons fn Nil) := by
    simp
  rcases hcase with ⟨rfl, rfl⟩ | ⟨hne, last, x, hlast, hx, rfl⟩
  · have hc1 : (r1.heap.alloc (.cons fn Nil)).2.get? r1.e_ = some (.cons Nil b) := by
      rw [Heap.get?_alloc, if_neg hlt, hc]
    obtain ⟨ok2, hx2⟩ := hpA.ok.setCarEnv r1.e_ Nil b r1.heap.size hp1.env.env_of hc1 hvnew
    have hp2 : Runtime.Pieces G g K (.ready false n k) m k
        { r1 with heap := ((r1.heap.alloc (.cons fn Nil)).2.set r1.e_ (.cons r1.heap.size b)) } :=
      ⟨ok2, hx2.rest hpA.code, hx2.slist _ _ hpA.stack, hx2.dump hpA.dump,
        hx2.envAt _ _ hpA.env⟩
    obtain ⟨hg3, _, _, g1, _, hp3⟩ := hp2.pushS ok2.nil h3
    rw [← hm] at hp3
    refine ⟨hp3.inv, (hg1.trans_grows ?_).trans_grows (hg3.grows ok2.valid.1 G)⟩
    by_cases heG : r1.e_ = G
    · rw [← heG]
      refine @Runtime.Grows.setCar_global _ _ hpA.ok.valid _ _ [fn] hc1 ?_
      rw [IsList.cons_iff]
      refine ⟨Nil, ?_, by simp [IsList.nil_iff]⟩
      rw [Heap.get?_set, if_neg (Ne.symm hlt), hnewcell]
    · exact Runtime.Grows.setCar_other hpA.ok hp1.env.env_of heG _
  · obtain ⟨a0, b0, hc0, hva, _⟩ := hp1.ok.envCell r1.e_ hp1.env.env_of
    rw [hc] at hc0
    simp only [Option.some.injEq, Cell.cons.injEq] at hc0
    obtain ⟨rfl, rfl⟩ := hc0
    obtain ⟨hvl, _⟩ := Environment.lastCell_val hp1.ok _ _ _ hlast hva
    have hlt2 := Nat.ne_of_lt (hp1.ok.valid.1.lt hx)
    have hx1c : (r1.heap.alloc (.cons fn Nil)).2.get? last = some (.cons x Nil) := by
      rw [Heap.get?_alloc, if_neg hlt2, hx]
    obtain ⟨ok2, hx2⟩ := hpA.ok.setCdrVal last x Nil r1.heap.size (hx1.val hvl) hx1c hvnew
    have hp2 : Runtime.Pieces G g K (.ready false n k) m k
        { r1 with heap := ((r1.heap.alloc (.cons fn Nil)).2.set last (.cons x r1.heap.size)) } :=
      ⟨ok2, hx2.rest hpA.code, hx2.slist _ _ hpA.stack, hx2.dump hpA.dump,
        hx2.envAt _ _ hpA.env⟩
    obtain ⟨hg3, _, _, g1, _, hp3⟩ := hp2.pushS ok2.nil h3
    rw [← hm] at hp3
    refine ⟨hp3.inv, (hg1.trans_grows ?_).trans_grows (hg3.grows ok2.valid.1 G)⟩
    refine Runtime.Grows.setCdr_append hpA.ok.valid hx1c hnewcell (Ne.symm hlt2) ?_
    rintro rfl
    exact hvl.2.2 hp1.ok.global

theorem Environment.popDummyEnvironment_ok {rt rt1 : Runtime}
    (h : Environment.popDummyEnvironment rt = .ok () rt1) :
    ∃ d, rt.heap.get? rt.e_ = some (.cons Nil d) ∧ rt1 = { rt with e_ := d } := by
  unfold Environment.popDummyEnvironment at h
  split at h
  · rename_i a d hc
    split at h
    · rename_i ha
      simp only [Res.ok.injEq, true_and] at h
      exact ⟨d, ha ▸ hc, h.symm⟩
    · cases h
  · cases h

theorem assert_ok {σ : Type} {c : Bool} {s s1 : σ} (h : (assert c : M σ Unit) s = .ok () s1) :
    c = true ∧ s1 = s := by
  unfold assert at h
  split at h
  · rename_i hc
    simp only [M.pure_apply, Res.ok.injEq, true_and] at h
    exact ⟨hc, h.symm⟩
  · cases h

theorem Runtime.execute_RAP_def : Runtime.execute Instruction.RAP = (do
    Environment.popDummyEnvironment
    let closure ← Runtime.popS
    let argList ← Runtime.popS
    let closureEnv ← liftF ((← getHeap).environment closure)
    let dummy ← liftF ((← getHeap).car closureEnv)
    assert (dummy = Nil)
    (fun rt => match rt.heap.setCar closureEnv argList with
      | .ok h2 => .ok () { rt with heap := h2 }
      | .error f => .fault f : RM Unit)
    Runtime.saveContext
    Runtime.setS Nil
    Runtime.setE closureEnv
    Runtime.setC (← liftF ((← getHeap).body closure))) := rfl

theorem Runtime.Pieces.exec_RAP {G : Nat} {g : Regions} {K : Code.End} {n k : Nat}
    {rt rt1 : Runtime} (hn : 2 ≤ n) (hk : 1 ≤ k)
    (hp : Runtime.Pieces G g K (.ready false (n - 1) (k - 1)) n k rt)
    (hfl : ∃ p d b, rt.heap.get? rt.s_ = some (.cons p d) ∧
      rt.heap.get? p = some (.closure b rt.e_))
    (h : Runtime.execute Instruction.RAP rt = .ok () rt1) :
    Runtime.Inv G rt1 ∧ Runtime.Grows G rt.heap rt1.heap := by
  rw [Runtime.execute_RAP_def] at h
  simp only [M.bind_ok_iff] at h
  obtain ⟨u0, r1, h1, cl, r2, h2, al, r3, h3, hh3, r4, h4, ce, r5, h5, hh5, r6, h6, dm, r7, h7,
    u1, r8, h8, u2, r9, h9, u3, r10, h10, u4, r11, h11, u5, r12, h12, hh12, r13, h13, b, r14,
    h14, h15⟩ := h
  obtain ⟨p, d0, b0, hs, hcl⟩ := hfl
  obtain ⟨d, hd, rfl⟩ := Environment.popDummyEnvironment_ok h1
  obtain ⟨k1, rfl⟩ : ∃ k1, k = k1 + 1 := ⟨k - 1, by omega⟩
  obtain ⟨henv, a1, b1, hc1, hea⟩ := hp.env
  rw [hd] at hc1
  simp only [Option.some.injEq, Cell.cons.injEq] at hc1
  obtain ⟨rfl, rfl⟩ := hc1
  have hp0 : Runtime.Pieces G g K (.ready false (n - 1) k1) n k1 { rt with e_ := d } :=
    ⟨hp.ok, hp.code, hp.stack, hp.dump, hea⟩
  obtain ⟨m1, hm1, hvc, hh1, _, hp1⟩ := hp0.popS h2
  obtain ⟨d1, hs1, _⟩ := Runtime.popS_ok h2
  rw [hs] at hs1
  simp only [Option.some.injEq, Cell.cons.injEq] at hs1
  obtain ⟨rfl, rfl⟩ := hs1
  obtain ⟨m2, hm2, hva, hh2, he2, hp2⟩ := hp1.popS h3
  obtain ⟨rfl, rfl⟩ := getHeap_ok h4
  obtain ⟨hce, rfl⟩ := liftF_okk h5
  obtain ⟨bb, hce1⟩ := Heap.environment_ok hce
  rw [hh2, hh1] at hce1
  simp only at hce1
  rw [hcl] at hce1
  simp only [Option.some.injEq, Cell.closure.injEq] at hce1
  obtain ⟨rfl, rfl⟩ := hce1
  obtain ⟨rfl, rfl⟩ := getHeap_ok h6
  obtain ⟨_, rfl⟩ := liftF_okk h7
  obtain ⟨_, rfl⟩ := assert_ok h8
  have hd2 : r8.heap.get? rt.e_ = some (.cons Nil d) := by rw [hh2, hh1]; exact hd
  have h9a : r9 = { r8 with heap := r8.heap.set rt.e_ (.cons al d) } := by
    simp only [Heap.setCar, hd2, Res.ok.injEq, true_and] at h9
    exact h9.symm
  subst h9a
  have hval : g.val r8.heap al := by rw [hh2]; exact hva
  have henv3 : g.env rt.e_ := henv
  obtain ⟨ok2, hx2⟩ := hp2.ok.setCarEnv rt.e_ Nil d al henv3 hd2 hval
  have hnm : n - 1 = m2 + 1 := by omega
  have hp3 : Runtime.Pieces G g K (.ready false (m2 + 1) k1) m2 k1
      { r8 with heap := r8.heap.set rt.e_ (.cons al d) } := by
    rw [← hnm]
    exact ⟨ok2, hx2.rest hp2.code, hx2.slist _ _ hp2.stack, hx2.dump hp2.dump,
      hx2.envAt _ _ hp2.env⟩
  obtain ⟨hg5, hs5, he5, hc5, g1, hx1, ok1, hd1⟩ := hp3.saveContext h10
  obtain rfl := Runtime.setS_ok h11
  obtain rfl := Runtime.setE_ok h12
  obtain ⟨rfl, rfl⟩ := getHeap_ok h13
  obtain ⟨hbody, rfl⟩ := liftF_okk h14
  obtain ⟨e0, hcl2⟩ := Heap.body_ok hbody
  obtain rfl := Runtime.setC_ok h15
  have hne : rt.e_ ≠ G := by
    obtain ⟨a2, b2, hc2, _, hb2⟩ := hp.ok.envCell rt.e_ henv
    rw [hd] at hc2
    simp only [Option.some.injEq, Cell.cons.injEq] at hc2
    obtain ⟨rfl, rfl⟩ := hc2
    rcases hb2 with ⟨_, hb2⟩ | ⟨hb2, _⟩
    · exact absurd (hb2 ▸ hea.env_of) hp.ok.nil.2.2
    · exact hb2
  have hclp : r10.heap.get? p = some (.closure b0 rt.e_) := by
    have hplt := hp.ok.valid.1.lt hcl
    have hpne : p ≠ rt.e_ := by
      rintro rfl
      rw [hd] at hcl
      cases hcl
    rw [hg5.2 p (by simpa [hh2, hh1] using hplt)]
    simp only [Heap.get?_set, if_neg hpne, hh2, hh1]
    exact hcl
  simp only at hcl2
  rw [hclp] at hcl2
  simp only [Option.some.injEq, Cell.closure.injEq] at hcl2
  obtain ⟨rfl, _⟩ := hcl2
  obtain ⟨hbd, henv0⟩ := ok1.closureCell p b0 rt.e_ hclp
  refine ⟨Runtime.Pieces.inv ⟨ok1, hbd, rfl, hd1, henv0⟩, ?_⟩
  have hgr1 : Runtime.Grows G rt.heap (r8.heap.set rt.e_ (.cons al d)) := by
    have := Runtime.Grows.setCar_other hp2.ok henv3 hne (.cons al d)
    have h8 : r8.heap = rt.heap := hh2.trans hh1
    rw [h8] at this ⊢
    exact this
  exact hgr1.trans_grows (hg5.grows ok2.valid.1 G)

/-- An instruction that finds its operands keeps the invariant, and the frame
of the global environment cell keeps what it holds. -/
theorem Runtime.Pieces.execute_inv {G : Nat} {g : Regions} {K : Code.End} {fl : Bool}
    {n k : Nat} {o : Int} {τ1 : Code.Pend} {r rt1 : Runtime}
    (heff : Code.effect K o fl n k = some τ1) (hp1 : Runtime.Pieces G g K τ1 n k r)
    (hfl : fl = true → ∃ p d b, r.heap.get? r.s_ = some (.cons p d) ∧
      r.heap.get? p = some (.closure b r.e_))
    (hex : Runtime.execute o r = .ok () rt1) :
    Runtime.Inv G rt1 ∧ Runtime.Grows G r.heap rt1.heap := by
  unfold Code.effect at heff
  by_cases h0 : o = Instruction.RAP
  · rw [if_pos h0] at heff
    subst h0
    split at heff
    · rename_i hc
      simp only [Option.some.injEq] at heff
      subst heff
      exact Runtime.Pieces.exec_RAP hc.2.1 hc.2.2 hp1 (hfl hc.1) hex
    · cases heff
  rw [if_neg h0] at heff
  by_cases h1 : o = Instruction.NIL ∨ o = Instruction.READ
  · rw [if_pos h1] at heff
    simp only [Option.some.injEq] at heff
    subst heff
    rcases h1 with rfl | rfl
    · exact hp1.exec_NIL hex
    · exact hp1.exec_READ hex
  rw [if_neg h1] at heff
  by_cases h2 : o = Instruction.LDC
  · rw [if_pos h2] at heff
    simp only [Option.some.injEq] at heff
    subst heff h2
    exact hp1.exec_LDC hex
  rw [if_neg h2] at heff
  by_cases h3 : o = Instruction.LD
  · rw [if_pos h3] at heff
    simp only [Option.some.injEq] at heff
    subst heff h3
    exact hp1.exec_LD hex
  rw [if_neg h3] at heff
  by_cases h4 : o = Instruction.SEL
  · rw [if_pos h4] at heff
    subst h4
    split at heff
    · rename_i hc
      simp only [Option.some.injEq] at heff
      subst heff
      exact Runtime.Pieces.exec_SEL hc hp1 hex
    · cases heff
  rw [if_neg h4] at heff
  by_cases h5 : o = Instruction.JOIN
  · rw [if_pos h5] at heff
    subst h5
    split at heff
    · rename_i hc
      simp only [Option.some.injEq] at heff
      subst heff hc
      exact hp1.exec_JOIN hex
    · cases heff
  rw [if_neg h5] at heff
  by_cases h6 : o = Instruction.LDF
  · rw [if_pos h6] at heff
    simp only [Option.some.injEq] at heff
    subst heff h6
    exact hp1.exec_LDF hex
  rw [if_neg h6] at heff
  by_cases h7 : o = Instruction.AP
  · rw [if_pos h7] at heff
    subst h7
    split at heff
    · rename_i hc
      simp only [Option.some.injEq] at heff
      subst heff
      exact Runtime.Pieces.exec_AP hc hp1 hex
    · cases heff
  rw [if_neg h7] at heff
  by_cases h8 : o = Instruction.RTN
  · rw [if_pos h8] at heff
    subst h8
    split at heff
    · rename_i hc
      simp only [Option.some.injEq] at heff
      obtain ⟨rfl, _⟩ := hc
      subst heff
      exact hp1.exec_RTN hex
    · cases heff
  rw [if_neg h8] at heff
  by_cases h9 : o = Instruction.DUM
  · rw [if_pos h9] at heff
    simp only [Option.some.injEq] at heff
    subst heff h9
    exact hp1.exec_DUM hex
  rw [if_neg h9] at heff
  by_cases h10 : o = Instruction.DEFUN ∨ o = Instruction.CAR ∨ o = Instruction.CDR ∨
      o = Instruction.CONSP ∨ o = Instruction.PRINT
  · rw [if_pos h10] at heff
    split at heff
    · rename_i hc
      simp only [Option.some.injEq] at heff
      subst heff
      rcases h10 with rfl | rfl | rfl | rfl | rfl
      · exact Runtime.Pieces.exec_DEFUN hc hp1 hex
      · exact Runtime.Pieces.exec_CAR hc hp1 hex
      · exact Runtime.Pieces.exec_CDR hc hp1 hex
      · exact Runtime.Pieces.exec_CONSP hc hp1 hex
      · exact hp1.exec_PRINT hex
    · cases heff
  rw [if_neg h10] at heff
  by_cases h11 : o = Instruction.POP
  · rw [if_pos h11] at heff
    subst h11
    split at heff
    · simp only [Option.some.injEq] at heff
      subst heff
      exact hp1.exec_POP hex
    · cases heff
  rw [if_neg h11] at heff
  by_cases h12 : o = Instruction.CONS ∨ o = Instruction.ADD ∨ o = Instruction.SUB ∨
      o = Instruction.MUL ∨ o = Instruction.DIV ∨ o = Instruction.EQ ∨
      o = Instruction.LT ∨ o = Instruction.GT
  · rw [if_pos h12] at heff
    split at heff
    · simp only [Option.some.injEq] at heff
      subst heff
      rcases h12 with rfl | rfl | rfl | rfl | rfl | rfl | rfl | rfl
      · exact hp1.exec_CONS hex
      · exact hp1.exec_ADD hex
      · exact hp1.exec_SUB hex
      · exact hp1.exec_MUL hex
      · exact hp1.exec_DIV hex
      · exact hp1.exec_EQ hex
      · exact hp1.exec_LT hex
      · exact hp1.exec_GT hex
    · cases heff
  rw [if_neg h12] at heff
  cases heff

/-- One round of the loop keeps the invariant, and the frame of the global
environment cell keeps what it holds. -/
theorem Runtime.Inv.step_inv {G : Nat} {rt rt1 : Runtime} (hinv : Runtime.Inv G rt)
    (h : Runtime.step rt = .ok () rt1) :
    Runtime.Inv G rt1 ∧ Runtime.Grows G rt.heap rt1.heap := by
  obtain ⟨g, K, fl, n, k, hp, hfl⟩ := hinv
  obtain ⟨x, d, o, hc, ho, hex⟩ := Runtime.step_ok h
  obtain ⟨o1, τ1, ho1, heff, hrest⟩ := hp.code.fetch hp.ok.valid hc
  rw [ho] at ho1
  simp only [Option.some.injEq, Cell.integer.injEq] at ho1
  subst ho1
  have hp1 : Runtime.Pieces G g K τ1 n k { rt with c_ := d } :=
    ⟨hp.ok, hrest, hp.stack, hp.dump, hp.env⟩
  have hres := Runtime.Pieces.execute_inv heff hp1 hfl hex
  exact hres

/-- The loop keeps the invariant: when it ends the code is used up, and the
frame of the global environment cell keeps what it holds. -/
theorem Runtime.Inv.loop_inv {G : Nat} : ∀ (fuel : Nat) (rt rt1 : Runtime), Runtime.Inv G rt →
    Runtime.loop fuel rt = .ok () rt1 →
    Runtime.Inv G rt1 ∧ rt1.c_ = Nil ∧ Runtime.Grows G rt.heap rt1.heap
  | 0, rt, rt1, hinv, h => by
    unfold Runtime.loop at h
    split at h
    · rename_i hc
      simp only [Res.ok.injEq, true_and] at h
      subst h
      exact ⟨hinv, hc, Runtime.Grows.refl_grows G _⟩
    · cases h
  | fuel + 1, rt, rt1, hinv, h => by
    unfold Runtime.loop at h
    split at h
    · rename_i hc
      simp only [Res.ok.injEq, true_and] at h
      subst h
      exact ⟨hinv, hc, Runtime.Grows.refl_grows G _⟩
    · split at h
      · rename_i u r1 hs
        obtain ⟨hi1, hg1⟩ := hinv.step_inv hs
        obtain ⟨hi2, hc2, hg2⟩ := Runtime.Inv.loop_inv fuel r1 rt1 hi1 h
        exact ⟨hi2, hc2, hg1.trans_grows hg2⟩
      · cases h
      · cases h

/-- A loop that ends by an exception: the round that throws starts in a
state with the invariant. -/
theorem Runtime.Inv.loop_thrown {G : Nat} : ∀ (fuel : Nat) (rt rt1 : Runtime) (e : Error),
    Runtime.Inv G rt → Runtime.loop fuel rt = .thrown e rt1 →
    ∃ rt0, Runtime.Inv G rt0 ∧ Runtime.Grows G rt.heap rt0.heap ∧
      Runtime.step rt0 = .thrown e rt1
  | 0, rt, rt1, e, hinv, h => by
    unfold Runtime.loop at h
    split at h <;> cases h
  | fuel + 1, rt, rt1, e, hinv, h => by
    unfold Runtime.loop at h
    split at h
    · cases h
    · split at h
      · rename_i u r1 hs
        obtain ⟨hi1, hg1⟩ := hinv.step_inv hs
        obtain ⟨rt0, hi0, hg0, hs0⟩ := Runtime.Inv.loop_thrown fuel r1 rt1 e hi1 h
        exact ⟨rt0, hi0, hg1.trans_grows hg0, hs0⟩
      · rename_i e1 r1 hs
        simp only [Res.thrown.injEq] at h
        obtain ⟨rfl, rfl⟩ := h
        exact ⟨rt, hinv, Runtime.Grows.refl_grows G _, hs⟩
      · cases h

/-- The `catch` block of `run` walks down the environment chain to the global
environment cell. -/
theorem Runtime.trimE_global {G : Nat} {g : Regions} : ∀ (fuel : Nat) (rt : Runtime),
    HeapOK G g rt.heap → g.env rt.e_ → rt.e_ < fuel →
    Runtime.trimE fuel rt = .ok () { rt with e_ := G }
  | 0, _, _, _, hlt => absurd hlt (Nat.not_lt_zero _)
  | fuel + 1, rt, ok, he, hlt => by
    obtain ⟨a, b, hc, _, hb⟩ := ok.envCell rt.e_ he
    unfold Runtime.trimE
    simp only [cdr, hc]
    rcases hb with ⟨hG, rfl⟩ | ⟨_, hbe, hblt⟩
    · simp only [ne_eq, not_true_eq_false, if_false, Res.ok.injEq, true_and]
      rw [← hG]
    · have hbn : b ≠ Nil := by
        rintro rfl
        exact ok.nil.2.2 hbe
      obtain ⟨a1, b1, hc1, _⟩ := ok.envCell b hbe
      simp only [ne_eq, hbn, not_false_eq_true, if_true, Runtime.setE, Heap.isCons, hc1]
      rw [Runtime.trimE_global fuel { rt with e_ := b } ok hbe (by simp only; omega)]

theorem NoThrow.elim_thrown {σ α : Type} {m : M σ α} (hm : NoThrow m) {s s1 : σ} {e : Error}
    (h : m s = .thrown e s1) : False := hm.never s e s1 h

theorem nothrow_bind {σ α β : Type} {m : M σ α} {f : α → M σ β} (hm : NoThrow m)
    (hf : ∀ a, NoThrow (f a)) : NoThrow (m >>= f) := by
  refine ⟨fun s e s1 h => ?_⟩
  rcases (M.bind_thrown_iff _ _ _ _ _).1 h with h1 | ⟨a, s2, _, h2⟩
  · exact hm.never _ _ _ h1
  · exact (hf a).never _ _ _ h2

theorem nothrow_pure {σ α : Type} (a : α) : NoThrow (pure a : M σ α) := by
  refine ⟨fun s e s1 h => ?_⟩
  simp at h

theorem nothrow_fail {σ α : Type} (f : Fault) : NoThrow (fail f : M σ α) := by
  refine ⟨fun s e s1 h => ?_⟩
  simp at h

theorem nothrow_liftF {σ α : Type} (r : Except Fault α) : NoThrow (liftF r : M σ α) := by
  refine ⟨fun s e s1 h => ?_⟩
  cases r <;> simp at h

theorem nothrow_assert {σ : Type} (c : Bool) : NoThrow (assert c : M σ Unit) := by
  refine ⟨fun s e s1 h => ?_⟩
  unfold assert at h
  split at h <;> simp at h

theorem nothrow_ite {σ α : Type} (c : Prop) [Decidable c] {a b : M σ α} (ha : NoThrow a)
    (hb : NoThrow b) : NoThrow (if c then a else b) := by
  split
  · exact ha
  · exact hb

theorem nothrow_popS : NoThrow Runtime.popS := by
  refine ⟨fun s e s1 h => ?_⟩
  unfold Runtime.popS at h
  split at h <;> cases h

theorem nothrow_popC : NoThrow Runtime.popC := by
  refine ⟨fun s e s1 h => ?_⟩
  unfold Runtime.popC at h
  split at h <;> cases h

theorem nothrow_popD : NoThrow Runtime.popD := by
  refine ⟨fun s e s1 h => ?_⟩
  unfold Runtime.popD at h
  split at h <;> cases h

theorem nothrow_pushS (v : Nat) : NoThrow (Runtime.pushS v) := by
  refine ⟨fun s e s1 h => ?_⟩
  cases h

theorem nothrow_pushD (v : Nat) : NoThrow (Runtime.pushD v) := by
  refine ⟨fun s e s1 h => ?_⟩
  cases h

theorem nothrow_setC (v : Nat) : NoThrow (Runtime.setC v) := by
  refine ⟨fun s e s1 h => ?_⟩
  unfold Runtime.setC at h
  split at h <;> cases h

theorem nothrow_setS (v : Nat) : NoThrow (Runtime.setS v) := by
  refine ⟨fun s e s1 h => ?_⟩
  unfold Runtime.setS at h
  split at h <;> cases h

theorem nothrow_setE (v : Nat) : NoThrow (Runtime.setE v) := by
  refine ⟨fun s e s1 h => ?_⟩
  unfold Runtime.setE at h
  split at h <;> cases h

theorem nothrow_getHeap : NoThrow getHeap := by
  refine ⟨fun s e s1 h => ?_⟩
  cases h

theorem nothrow_valueInt (v : Nat) : NoThrow (valueInt v) := by
  refine ⟨fun s e s1 h => ?_⟩
  unfold valueInt at h
  exact (nothrow_liftF _).never _ _ _ h

theorem nothrow_newInteger (v : Int) : NoThrow (Runtime.newInteger v) := by
  refine ⟨fun s e s1 h => ?_⟩
  cases h

theorem nothrow_newCons (a d : Nat) : NoThrow (Runtime.newCons a d) := by
  refine ⟨fun s e s1 h => ?_⟩
  cases h

theorem nothrow_newClosure (a d : Nat) : NoThrow (Runtime.newClosure a d) := by
  refine ⟨fun s e s1 h => ?_⟩
  cases h

theorem nothrow_saveContext : NoThrow Runtime.saveContext := by
  refine ⟨fun s e s1 h => ?_⟩
  rw [Runtime.saveContext_eq] at h
  cases h

theorem nothrow_insertDummyEnvironment : NoThrow Environment.insertDummyEnvironment := by
  refine ⟨fun s e s1 h => ?_⟩
  cases h

theorem nothrow_popDummyEnvironment : NoThrow Environment.popDummyEnvironment := by
  refine ⟨fun s e s1 h => ?_⟩
  unfold Environment.popDummyEnvironment at h
  split at h
  · split at h <;> cases h
  · cases h

theorem nothrow_append (v : Nat) : NoThrow (Environment.append v) := by
  refine ⟨fun s e s1 h => ?_⟩
  unfold Environment.append at h
  split at h
  · cases h
  · split at h
    · simp only at h
      split at h <;> cases h
    · split at h
      · cases h
      · simp only at h
        split at h <;> cases h

theorem nothrow_print (v : Nat) : NoThrow (print v) := by
  refine ⟨fun s e s1 h => ?_⟩
  cases h

theorem nothrow_read : NoThrow read := by
  refine ⟨fun s e s1 h => ?_⟩
  unfold read at h
  split at h
  · cases h
  · split at h
    · cases h
    · split at h <;> cases h

theorem nothrow_divide (a b : Int) : NoThrow (divide a b : RM Int) := by
  unfold divide
  exact nothrow_ite _ (nothrow_fail _) (nothrow_ite _ (nothrow_fail _) (nothrow_pure _))

theorem nothrow_topS : NoThrow Runtime.topS := by
  refine ⟨fun s e s1 h => ?_⟩
  unfold Runtime.topS at h
  exact (nothrow_liftF _).never _ _ _ h

theorem nothrow_popIntegers : NoThrow Runtime.popIntegers := by
  unfold Runtime.popIntegers
  refine nothrow_bind nothrow_popS fun _ => ?_
  refine nothrow_bind nothrow_popS fun _ => ?_
  refine nothrow_bind (nothrow_valueInt _) fun _ => ?_
  exact nothrow_bind (nothrow_valueInt _) fun _ => nothrow_pure _

theorem nothrow_ok {σ α : Type} (f : σ → α) : NoThrow (fun s => .ok (f s) s : M σ α) := by
  refine ⟨fun s e s1 h => ?_⟩
  cases h

theorem nothrow_locate (index : Nat) :
    NoThrow (fun rt => liftF (Environment.locate rt.heap rt.e_ index) rt : RM Nat) := by
  refine ⟨fun s e s1 h => ?_⟩
  exact (nothrow_liftF _).never _ _ _ h

theorem nothrow_closure (body : Nat) :
    NoThrow (fun rt => Runtime.newClosure body rt.e_ rt : RM Nat) := by
  refine ⟨fun s e s1 h => ?_⟩
  cases h

theorem nothrow_setCar (p v : Nat) :
    NoThrow (fun rt => match rt.heap.setCar p v with
      | .ok h2 => .ok () { rt with heap := h2 }
      | .error f => .fault f : RM Unit) := by
  refine ⟨fun s e s1 h => ?_⟩
  simp only at h
  split at h <;> cases h

theorem car_thrown {rt rt1 : Runtime} {v : Nat} {e : Error} (h : car v rt = .thrown e rt1) :
    rt1 = rt := by
  unfold car at h
  split at h
  · cases h
  · simp only [Res.thrown.injEq] at h
    exact h.2.symm

theorem cdr_thrown {rt rt1 : Runtime} {v : Nat} {e : Error} (h : cdr v rt = .thrown e rt1) :
    rt1 = rt := by
  unfold cdr at h
  split at h
  · cases h
  · simp only [Res.thrown.injEq] at h
    exact h.2.symm

theorem Runtime.execute_nothrow {o : Int} (hcar : ¬ o = Instruction.CAR)
    (hcdr : ¬ o = Instruction.CDR) (hconsp : ¬ o = Instruction.CONSP)
    (hap : ¬ o = Instruction.AP) : NoThrow (Runtime.execute o) := by
  unfold Runtime.execute
  simp only [if_neg hcar, if_neg hcdr, if_neg hconsp, if_neg hap]
  refine nothrow_ite _ ?_ ?_
  · exact nothrow_pushS _
  refine nothrow_ite _ ?_ ?_
  · exact nothrow_bind nothrow_popC fun _ =>
      nothrow_pushS _
  refine nothrow_ite _ ?_ ?_
  · exact nothrow_bind nothrow_popC fun _ =>
      nothrow_bind (nothrow_locate _) fun _ =>
      nothrow_pushS _
  refine nothrow_ite _ ?_ ?_
  · exact nothrow_bind nothrow_popS fun _ =>
      nothrow_bind nothrow_popC fun _ =>
      nothrow_bind nothrow_popC fun _ =>
      nothrow_bind (nothrow_ok _) fun _ =>
      nothrow_bind (nothrow_pushD _) fun _ =>
      nothrow_bind nothrow_getHeap fun _ =>
      nothrow_ite _ (nothrow_setC _) (nothrow_setC _)
  refine nothrow_ite _ ?_ ?_
  · exact nothrow_bind nothrow_popD fun _ =>
      nothrow_setC _
  refine nothrow_ite _ ?_ ?_
  · exact nothrow_bind nothrow_popC fun _ =>
      nothrow_bind (nothrow_closure _) fun _ =>
      nothrow_pushS _
  refine nothrow_ite _ ?_ ?_
  · exact nothrow_bind nothrow_popS fun _ =>
      nothrow_bind nothrow_popD fun _ =>
      nothrow_bind nothrow_getHeap fun _ =>
      nothrow_bind (nothrow_liftF _) fun _ =>
      nothrow_bind (nothrow_setS _) fun _ =>
      nothrow_bind nothrow_getHeap fun _ =>
      nothrow_bind (nothrow_liftF _) fun _ =>
      nothrow_bind nothrow_getHeap fun _ =>
      nothrow_bind (nothrow_liftF _) fun _ =>
      nothrow_bind (nothrow_setE _) fun _ =>
      nothrow_bind nothrow_getHeap fun _ =>
      nothrow_bind (nothrow_liftF _) fun _ =>
      nothrow_bind nothrow_getHeap fun _ =>
      nothrow_bind (nothrow_liftF _) fun _ =>
      nothrow_bind (nothrow_setC _) fun _ =>
      nothrow_pushS _
  refine nothrow_ite _ ?_ ?_
  · exact nothrow_insertDummyEnvironment
  refine nothrow_ite _ ?_ ?_
  · exact nothrow_bind nothrow_popDummyEnvironment fun _ =>
      nothrow_bind nothrow_popS fun _ =>
      nothrow_bind nothrow_popS fun _ =>
      nothrow_bind nothrow_getHeap fun _ =>
      nothrow_bind (nothrow_liftF _) fun _ =>
      nothrow_bind nothrow_getHeap fun _ =>
      nothrow_bind (nothrow_liftF _) fun _ =>
      nothrow_bind (nothrow_assert _) fun _ =>
      nothrow_bind (nothrow_setCar _ _) fun _ =>
      nothrow_bind nothrow_saveContext fun _ =>
      nothrow_bind (nothrow_setS _) fun _ =>
      nothrow_bind (nothrow_setE _) fun _ =>
      nothrow_bind nothrow_getHeap fun _ =>
      nothrow_bind (nothrow_liftF _) fun _ =>
      nothrow_setC _
  refine nothrow_ite _ ?_ ?_
  · exact nothrow_bind nothrow_popS fun _ =>
      nothrow_bind (nothrow_append _) fun _ =>
      nothrow_pushS _
  refine nothrow_ite _ ?_ ?_
  · exact nothrow_bind nothrow_popS fun _ =>
      nothrow_pure _
  refine nothrow_ite _ ?_ ?_
  · exact nothrow_bind nothrow_popS fun _ =>
      nothrow_bind nothrow_popS fun _ =>
      nothrow_bind (nothrow_newCons _ _) fun _ =>
      nothrow_pushS _
  refine nothrow_ite _ ?_ ?_
  · exact nothrow_bind nothrow_popIntegers fun x => by
      obtain ⟨a, b⟩ := x
      exact nothrow_bind (nothrow_newInteger _) fun _ => nothrow_pushS _
  refine nothrow_ite _ ?_ ?_
  · exact nothrow_bind nothrow_popIntegers fun x => by
      obtain ⟨a, b⟩ := x
      exact nothrow_bind (nothrow_newInteger _) fun _ => nothrow_pushS _
  refine nothrow_ite _ ?_ ?_
  · exact nothrow_bind nothrow_popIntegers fun x => by
      obtain ⟨a, b⟩ := x
      exact nothrow_bind (nothrow_newInteger _) fun _ => nothrow_pushS _
  refine nothrow_ite _ ?_ ?_
  · exact nothrow_bind nothrow_popIntegers fun x => by
      obtain ⟨a, b⟩ := x
      exact nothrow_bind (nothrow_divide _ _) fun _ =>
        nothrow_bind (nothrow_newInteger _) fun _ => nothrow_pushS _
  refine nothrow_ite _ ?_ ?_
  · exact nothrow_bind nothrow_popS fun _ =>
      nothrow_bind nothrow_popS fun _ =>
      nothrow_bind nothrow_getHeap fun _ =>
      nothrow_ite _
        (nothrow_bind (nothrow_valueInt _) fun _ => nothrow_bind (nothrow_valueInt _) fun _ =>
          nothrow_bind (nothrow_pure _) fun _ => nothrow_bind (nothrow_newInteger _) fun _ =>
            nothrow_pushS _)
        (nothrow_bind (nothrow_pure _) fun _ => nothrow_bind (nothrow_newInteger _) fun _ =>
          nothrow_pushS _)
  refine nothrow_ite _ ?_ ?_
  · exact nothrow_bind nothrow_popIntegers fun x => by
      obtain ⟨a, b⟩ := x
      exact nothrow_bind (nothrow_newInteger _) fun _ => nothrow_pushS _
  refine nothrow_ite _ ?_ ?_
  · exact nothrow_bind nothrow_popIntegers fun x => by
      obtain ⟨a, b⟩ := x
      exact nothrow_bind (nothrow_newInteger _) fun _ => nothrow_pushS _
  refine nothrow_ite _ ?_ ?_
  · exact nothrow_bind nothrow_topS fun _ =>
      nothrow_print _
  refine nothrow_ite _ ?_ ?_
  · exact nothrow_bind nothrow_read fun _ =>
      nothrow_pushS _
  exact nothrow_fail _

/-- An instruction that throws leaves the heap and the register `E` as they
are. -/
theorem Runtime.execute_thrown {o : Int} {rt rt1 : Runtime} {e : Error}
    (h : Runtime.execute o rt = .thrown e rt1) : rt1.heap = rt.heap ∧ rt1.e_ = rt.e_ := by
  by_cases hcar : o = Instruction.CAR
  · subst hcar
    rw [Runtime.execute_CAR_def] at h
    rcases (M.bind_thrown_iff _ _ _ _ _).1 h with h1 | ⟨v, s1, h1, h2⟩
    · exact (nothrow_popS.never _ _ _ h1).elim
    · obtain ⟨d, _, rfl⟩ := Runtime.popS_ok h1
      rcases (M.bind_thrown_iff _ _ _ _ _).1 h2 with h3 | ⟨a, s2, _, h4⟩
      · obtain rfl := car_thrown h3
        exact ⟨rfl, rfl⟩
      · exact ((nothrow_pushS _).never _ _ _ h4).elim
  by_cases hcdr : o = Instruction.CDR
  · subst hcdr
    rw [Runtime.execute_CDR_def] at h
    rcases (M.bind_thrown_iff _ _ _ _ _).1 h with h1 | ⟨v, s1, h1, h2⟩
    · exact (nothrow_popS.never _ _ _ h1).elim
    · obtain ⟨d, _, rfl⟩ := Runtime.popS_ok h1
      rcases (M.bind_thrown_iff _ _ _ _ _).1 h2 with h3 | ⟨a, s2, _, h4⟩
      · obtain rfl := cdr_thrown h3
        exact ⟨rfl, rfl⟩
      · exact ((nothrow_pushS _).never _ _ _ h4).elim
  by_cases hconsp : o = Instruction.CONSP
  · subst hconsp
    rw [Runtime.execute_CONSP_def] at h
    rcases (M.bind_thrown_iff _ _ _ _ _).1 h with h1 | ⟨v, s1, h1, h2⟩
    · exact (nothrow_popS.never _ _ _ h1).elim
    · obtain ⟨d, _, rfl⟩ := Runtime.popS_ok h1
      rcases (M.bind_thrown_iff _ _ _ _ _).1 h2 with h3 | ⟨a, s2, _, h4⟩
      · obtain rfl := cdr_thrown h3
        exact ⟨rfl, rfl⟩
      · refine (NoThrow.elim_thrown ?_ h4).elim
        refine nothrow_bind nothrow_getHeap fun _ => ?_
        exact nothrow_ite _ (nothrow_pushS _) (nothrow_pushS _)
  by_cases hap : o = Instruction.AP
  · subst hap
    rw [Runtime.execute_AP_def] at h
    rcases (M.bind_thrown_iff _ _ _ _ _).1 h with h1 | ⟨v, s1, h1, h2⟩
    · exact (nothrow_popS.never _ _ _ h1).elim
    · obtain ⟨d, _, rfl⟩ := Runtime.popS_ok h1
      rcases (M.bind_thrown_iff _ _ _ _ _).1 h2 with h3 | ⟨hh, s2, h3, h4⟩
      · exact (nothrow_getHeap.never _ _ _ h3).elim
      · obtain ⟨_, rfl⟩ := getHeap_ok h3
        split at h4
        · simp only [raise_apply, Res.thrown.injEq] at h4
          rw [← h4.2]
          exact ⟨rfl, rfl⟩
        · refine (NoThrow.elim_thrown ?_ h4).elim
          refine nothrow_bind nothrow_popS fun _ => ?_
          refine nothrow_bind nothrow_saveContext fun _ => ?_
          refine nothrow_bind (nothrow_setS _) fun _ => ?_
          refine nothrow_bind nothrow_getHeap fun _ => ?_
          refine nothrow_bind (nothrow_liftF _) fun _ => ?_
          refine nothrow_bind (nothrow_newCons _ _) fun _ => ?_
          refine nothrow_bind (nothrow_setE _) fun _ => ?_
          refine nothrow_bind nothrow_getHeap fun _ => ?_
          refine nothrow_bind (nothrow_liftF _) fun _ => ?_
          exact nothrow_setC _
  exact ((Runtime.execute_nothrow hcar hcdr hconsp hap).never _ _ _ h).elim

/-- A round of the loop that throws leaves the heap and the register `E` as
they are. -/
theorem Runtime.step_thrown {rt rt1 : Runtime} {e : Error}
    (h : Runtime.step rt = .thrown e rt1) : rt1.heap = rt.heap ∧ rt1.e_ = rt.e_ := by
  unfold Runtime.step at h
  rcases (M.bind_thrown_iff _ _ _ _ _).1 h with h1 | ⟨x, s1, h1, h2⟩
  · exact (nothrow_popC.never _ _ _ h1).elim
  · obtain ⟨d, _, rfl⟩ := Runtime.popC_ok h1
    rcases (M.bind_thrown_iff _ _ _ _ _).1 h2 with h3 | ⟨o, s2, h3, h4⟩
    · exact ((nothrow_valueInt _).never _ _ _ h3).elim
    · obtain ⟨_, rfl⟩ := valueInt_ok h3
      have hres := Runtime.execute_thrown h4
      exact hres

/-! ## The compiler emits code that keeps the stack discipline -/

theorem IsSeg.not_nil {P : Nat → Prop} {h : Heap} (hv : h.Valid) {items : List Nat} {l : Nat}
    {a d : Nat} (hl : h.get? l = some (.cons a d)) (hs : IsSeg P h Nil items l) : False := by
  cases items with
  | nil =>
    have : Nil = l := hs
    rw [← this] at hl
    exact hv.nil_not_cons _ _ hl
  | cons x xs =>
    obtain ⟨_, d1, hd1, _⟩ := hs
    exact hv.nil_not_cons _ _ hd1

/-- A segment after the `cdr` of a cell that ended a list was set: the
segment holds the same values. -/
theorem IsSeg.set_cdr {P : Nat → Prop} {h : Heap} (hv : h.Valid) {q a v : Nat}
    (hq : h.get? q = some (.cons a Nil)) :
    ∀ (items : List Nat) (c r : Nat), IsSeg P h c items r →
      ∃ r1, IsSeg P (h.set q (.cons a v)) c items r1
  | [], c, r, hs => ⟨r, hs⟩
  | [x], c, r, ⟨hc, d, hd, hs⟩ => by
    by_cases hcq : c = q
    · subst hcq
      rw [hq] at hd
      simp only [Option.some.injEq, Cell.cons.injEq] at hd
      obtain ⟨rfl, rfl⟩ := hd
      exact ⟨v, hc, v, by simp, rfl⟩
    · exact ⟨d, hc, d, by rw [Heap.get?_set, if_neg hcq, hd], rfl⟩
  | x :: y :: ys, c, r, ⟨hc, d, hd, hs⟩ => by
    obtain ⟨r1, hs1⟩ := IsSeg.set_cdr hv hq (y :: ys) d r hs
    refine ⟨r1, hc, d, ?_, hs1⟩
    rw [Heap.get?_set, if_neg, hd]
    rintro rfl
    rw [hq] at hd
    simp only [Option.some.injEq, Cell.cons.injEq] at hd
    obtain ⟨_, rfl⟩ := hd
    obtain ⟨_, d2, hd2, _⟩ := hs
    exact hv.nil_not_cons _ _ hd2

/-- Code after the `cdr` of a cell that ended a list was set: it is the same
code. -/
theorem Code.Run.set_cdr_run {P V : Nat → Prop} {h : Heap} (hv : h.Valid) {q a v : Nat}
    (hq : h.get? q = some (.cons a Nil)) {K : Code.End} {τ τ1 : Code.Pend} {items : List Nat}
    (hr : Code.Run P V h K τ items τ1) : Code.Run P V (h.set q (.cons a v)) K τ items τ1 := by
  induction hr with
  | nil K τ => exact .nil K τ
  | forget _ ih => exact .forget ih
  | op hx ho he _ ih =>
    refine .op hx ?_ he ih
    rw [Heap.get?_set, if_neg, ho]
    rintro rfl
    rw [hq] at ho
    cases ho
  | ldc hx _ ih => exact .ldc hx ih
  | ld _ ih => exact .ld ih
  | sel0 hs _ _ ih1 ih2 =>
    obtain ⟨r1, hs1⟩ := IsSeg.set_cdr hv hq _ _ _ hs
    exact .sel0 hs1 ih1 ih2
  | sel1 hs _ _ ih1 ih2 =>
    obtain ⟨r1, hs1⟩ := IsSeg.set_cdr hv hq _ _ _ hs
    exact .sel1 hs1 ih1 ih2
  | ldf hs _ _ ih1 ih2 =>
    obtain ⟨r1, hs1⟩ := IsSeg.set_cdr hv hq _ _ _ hs
    exact .ldf hs1 ih1 ih2

/-- Code followed by code. -/
theorem Code.Run.append_run {P V : Nat → Prop} {h : Heap} {K : Code.End} {τ τ1 τ2 : Code.Pend}
    {xs ys : List Nat} (h1 : Code.Run P V h K τ xs τ1) (h2 : Code.Run P V h K τ1 ys τ2) :
    Code.Run P V h K τ (xs ++ ys) τ2 := by
  induction h1 with
  | nil K τ => exact h2
  | forget _ ih => exact .forget (ih h2)
  | op hx ho he _ ih => exact .op hx ho he (ih h2)
  | ldc hx _ ih => exact .ldc hx (ih h2)
  | ld _ ih => exact .ld (ih h2)
  | sel0 hs hr0 _ _ ih2 => exact .sel0 hs hr0 (ih2 h2)
  | sel1 hs hr0 _ _ ih2 => exact .sel1 hs hr0 (ih2 h2)
  | ldf hs hr0 _ _ ih2 => exact .ldf hs hr0 (ih2 h2)

/-- A list extended by one cell at its end. -/
theorem IsSeg.snoc_cell {P : Nat → Prop} {h h2 : Heap} (hv : h.Valid) {l x0 u : Nat}
    (hl : h.get? l = some (.cons x0 Nil)) (hPl : P l)
    (hagree : ∀ p, p ≠ l → P p → h2.get? p = h.get? p)
    (hl2 : h2.get? l = some (.cons x0 u)) :
    ∀ (pre : List Nat) (c : Nat), IsSeg P h c pre l → IsSeg P h2 c (pre ++ [x0]) u
  | [], c, hs => by
    have : c = l := hs
    subst this
    exact ⟨hPl, u, hl2, rfl⟩
  | x :: xs, c, ⟨hc, d, hd, hs⟩ => by
    have hcl : c ≠ l := by
      rintro rfl
      rw [hl] at hd
      simp only [Option.some.injEq, Cell.cons.injEq] at hd
      obtain ⟨_, rfl⟩ := hd
      exact IsSeg.not_nil hv hl hs
    exact ⟨hc, d, (hagree c hcl hc).trans hd, IsSeg.snoc_cell hv hl hPl hagree hl2 xs d hs⟩

/-- The buffers that wait for the current one are not touched by what is
written above them. -/
theorem Compiler.Stack.below {A : Nat} {V : Nat → Prop} {h h1 : Heap} :
    ∀ (bs : List SecdList) (fs : List Code.Frame) (σ : Nat),
      (∀ q, q < σ → h1.get? q = h.get? q) → Compiler.Stack A V h bs fs σ →
      Compiler.Stack A V h1 bs fs σ
  | [], [], _, _, _ => trivial
  | [], _ :: _, _, _, hs => hs.elim
  | _ :: _, [], _, _, hs => hs.elim
  | b :: bs, f :: fs, u, hag, ⟨σ, items, hA, hσ, hopen, hrun, hrest⟩ => by
    refine ⟨σ, items, hA, hσ, ?_, ?_, ?_⟩
    · rcases hopen with hempty | ⟨pre, x, hi, hseg, hP, hlast⟩
      · exact Or.inl hempty
      · exact Or.inr ⟨pre, x, hi, IsSeg.mono_seg (fun p hp => ⟨hp, hag p hp.2⟩) _ _ _ hseg, hP,
          (hag _ hP.2).trans hlast⟩
    · exact hrun.mono_run (fun p hp => ⟨hp, hag p hp.2⟩) fun _ hx => hx
    · exact Compiler.Stack.below bs fs σ (fun q hq => hag q (by omega)) hrest

theorem Compiler.addSymbols_heap : ∀ (names : Src) (st st1 : Compiler),
    Compiler.addSymbols names st = .ok () st1 → st1.heap = st.heap
  | .cons p arg names, st, st1, h => by
    unfold Compiler.addSymbols at h
    split at h
    · simp only [Res.ok.injEq, true_and] at h
      rw [← h]
    · split at h
      · simp at h
      · split at h
        · have h1 := Compiler.addSymbols_heap names _ st1 h
          exact h1
        · simp at h
  | .integer _, st, st1, h => by
    unfold Compiler.addSymbols at h
    split at h <;> simp at h
    rw [← h]
  | .symbol _ _, st, st1, h => by
    unfold Compiler.addSymbols at h
    split at h <;> simp at h
    rw [← h]
  | .closure _, st, st1, h => by
    unfold Compiler.addSymbols at h
    split at h <;> simp at h
    rw [← h]

/-- The code buffers in a heap that has grown. -/
theorem Compiler.Stack.grow_stack {A : Nat} {V : Nat → Prop} {h h1 : Heap} :
    ∀ (bs : List SecdList) (fs : List Code.Frame) (u u1 : Nat), u ≤ u1 →
      (∀ q, q < u → h1.get? q = h.get? q) → Compiler.Stack A V h bs fs u →
      Compiler.Stack A V h1 bs fs u1
  | [], [], _, _, _, _, _ => trivial
  | [], _ :: _, _, _, _, _, hs => hs.elim
  | _ :: _, [], _, _, _, _, hs => hs.elim
  | b :: bs, f :: fs, u, u1, hle, hag, ⟨σ, items, hA, hσ, hopen, hrun, hrest⟩ => by
    refine ⟨σ, items, hA, by omega, ?_, ?_, ?_⟩
    · rcases hopen with hempty | ⟨pre, x, hi, hseg, hP, hlast⟩
      · exact Or.inl hempty
      · exact Or.inr ⟨pre, x, hi,
          IsSeg.mono_seg (fun p hp => ⟨⟨hp.1, by omega⟩, hag p hp.2⟩) _ _ _ hseg,
          ⟨hP.1, by omega⟩, (hag _ hP.2).trans hlast⟩
    · exact hrun.mono_run (fun p hp => ⟨⟨hp.1, by omega⟩, hag p hp.2⟩) fun _ hx => hx
    · exact Compiler.Stack.below bs fs σ (fun q hq => hag q (by omega)) hrest

/-- The state of the compiler after an allocation. -/
theorem Compiler.Typing.alloc_cell {A : Nat} {V : Nat → Prop} {h0 : Heap} {fs : List Code.Frame}
    {st : Compiler} (ht : Compiler.Typing A V h0 fs st) (c : Cell) :
    Compiler.Typing A V h0 fs { st with heap := (st.heap.alloc c).2 } := by
  obtain ⟨hv, hA, hag, hstack⟩ := ht
  have hgrow := Heap.Grow.of_alloc st.heap c
  refine ⟨hv.alloc_valid c, Nat.le_trans hA hgrow.1, fun q hq => ?_, ?_⟩
  · exact (hgrow.2 q (by omega)).trans (hag q hq)
  · exact Compiler.Stack.grow_stack _ _ _ _ hgrow.1 hgrow.2 hstack

theorem Code.Run.start_nil {P V : Nat → Prop} {h : Heap} {K : Code.End} {n k : Nat}
    {τ : Code.Pend} (hr : Code.Run P V h K (.ready false n k) [] τ) : τ = .ready false n k := by
  cases hr with
  | nil => rfl

/-- A value appended to the current buffer: the buffer holds the code it
held, followed by the value. -/
theorem Compiler.Typing.add {A : Nat} {V : Nat → Prop} {h0 : Heap} {K : Code.End}
    {n0 k0 : Nat} {τ τ1 : Code.Pend} {fs : List Code.Frame} {st st1 : Compiler} {x : Nat}
    (ht : Compiler.Typing A V h0 (⟨K, n0, k0, τ⟩ :: fs) st)
    (hx : Code.Run (fun p => A ≤ p ∧ p < st.heap.size) V st.heap K τ [x] τ1)
    (hadd : Code.add x st = .ok () st1) :
    Compiler.Typing A V h0 (⟨K, n0, k0, τ1⟩ :: fs) st1 := by
  obtain ⟨hv, hA, hag, hstack⟩ := ht
  unfold Code.add at hadd
  cases hc : st.code_ with
  | nil =>
    rw [hc] at hadd
    cases hadd
  | cons b bs =>
    rw [hc] at hadd hstack
    obtain ⟨σ, items, hAσ, hσ, hopen, hrun, hrest⟩ := hstack
    dsimp only at hrun
    have hgrow := Heap.Grow.of_alloc st.heap (.cons x Nil)
    rcases hopen with ⟨hf, hl, rfl⟩ | ⟨pre, x0, rfl, hseg, hP, hlast⟩
    · obtain rfl := hrun.start_nil
      simp only [SecdList.append, hl, if_true, SecdList.prepend, hf] at hadd
      simp only [Res.ok.injEq, true_and] at hadd
      subst hadd
      refine ⟨hv.alloc_valid _, Nat.le_trans hA hgrow.1, fun q hq => ?_, ?_⟩
      · exact (hgrow.2 q (by omega)).trans (hag q hq)
      · simp only [hc]
        refine ⟨st.heap.size, [x], hA, by simp, Or.inr ⟨[], x, rfl, rfl, ⟨Nat.le_refl _, by simp⟩,
          by simp⟩, ?_, ?_⟩
        · exact hx.mono_run (fun p hp => ⟨⟨hp.1, by simp only [Heap.size_alloc]; omega⟩,
            hgrow.2 p hp.2⟩) fun _ h => h
        · exact Compiler.Stack.grow_stack _ _ _ _ hσ (fun q hq => hgrow.2 q (by omega)) hrest
    · have hlne : b.last_ ≠ Nil := by
        rintro hn
        rw [hn] at hlast
        exact hv.nil_not_cons _ _ hlast
      have hlu : b.last_ ≠ st.heap.size := Nat.ne_of_lt hP.2
      simp only [SecdList.append, if_neg hlne, Heap.setCdr, Heap.get?_alloc, if_neg hlu, hlast,
        Heap.alloc_fst] at hadd
      simp only [Res.ok.injEq, true_and] at hadd
      subst hadd
      have hv1 := hv.alloc_valid (.cons x Nil)
      have hlast1 : (st.heap.alloc (.cons x Nil)).2.get? b.last_ = some (.cons x0 Nil) := by
        rw [Heap.get?_alloc, if_neg hlu, hlast]
      refine ⟨hv1.set_cons hlast1 _, by simp only [Heap.size_set, Heap.size_alloc]; omega,
        fun q hq => ?_, ?_⟩
      · rw [Heap.get?_set, if_neg (by omega), Heap.get?_alloc, if_neg (by omega)]
        exact hag q hq
      · simp only [hc, Heap.size_set, Heap.size_alloc]
        refine ⟨σ, (pre ++ [x0]) ++ [x], hAσ, by omega, Or.inr ⟨pre ++ [x0], x, rfl, ?_,
          ⟨by show σ ≤ st.heap.size; omega, by show st.heap.size < st.heap.size + 1; omega⟩,
          by simp [Ne.symm hlu]⟩, ?_, ?_⟩
        · have hseg1 : IsSeg (fun p => σ ≤ p ∧ p < st.heap.size + 1)
              (st.heap.alloc (.cons x Nil)).2 b.first_ pre b.last_ :=
            IsSeg.mono_seg (fun p hp => ⟨⟨hp.1, by omega⟩, hgrow.2 p hp.2⟩) _ _ _ hseg
          refine IsSeg.snoc_cell hv1 hlast1 ⟨hP.1, by omega⟩ (fun p hp _ => ?_) (by simp) pre _
            hseg1
          rw [Heap.get?_set, if_neg hp]
        · have hrun1 : Code.Run (fun p => A ≤ p ∧ p < st.heap.size + 1) V
              (st.heap.alloc (.cons x Nil)).2 K (.ready false n0 k0) (pre ++ [x0]) τ :=
            hrun.mono_run (fun p hp => ⟨⟨hp.1, by omega⟩, hgrow.2 p hp.2⟩) fun _ h => h
          have hx1 : Code.Run (fun p => A ≤ p ∧ p < st.heap.size + 1) V
              (st.heap.alloc (.cons x Nil)).2 K τ [x] τ1 :=
            hx.mono_run (fun p hp => ⟨⟨hp.1, by omega⟩, hgrow.2 p hp.2⟩) fun _ h => h
          exact (hrun1.set_cdr_run hv1 hlast1).append_run (hx1.set_cdr_run hv1 hlast1)
        · refine Compiler.Stack.below _ _ σ (fun q hq => ?_) hrest
          rw [Heap.get?_set, if_neg (by omega), Heap.get?_alloc, if_neg (by omega)]

/-- The flag of a closure just loaded may be dropped. -/
theorem Compiler.Typing.forget {A : Nat} {V : Nat → Prop} {h0 : Heap} {K : Code.End}
    {n0 k0 n k : Nat} {fs : List Code.Frame} {st : Compiler}
    (ht : Compiler.Typing A V h0 (⟨K, n0, k0, .ready true n k⟩ :: fs) st) :
    Compiler.Typing A V h0 (⟨K, n0, k0, .ready false n k⟩ :: fs) st := by
  obtain ⟨hv, hA, hag, hstack⟩ := ht
  refine ⟨hv, hA, hag, ?_⟩
  cases hc : st.code_ with
  | nil =>
    rw [hc] at hstack
    exact hstack.elim
  | cons b bs =>
    rw [hc] at hstack
    obtain ⟨σ, items, hAσ, hσ, hopen, hrun, hrest⟩ := hstack
    dsimp only at hrun
    refine ⟨σ, items, hAσ, hσ, hopen, ?_, hrest⟩
    have := hrun.append_run (.forget (.nil K (.ready false n k)))
    simpa using this

theorem Compiler.Triple.bind {α β : Type} {P : Compiler → Prop} {m : CM α}
    {Q : α → Compiler → Prop} {f : α → CM β} {R : β → Compiler → Prop}
    (hm : Compiler.Triple P m Q) (hf : ∀ a, Compiler.Triple (Q a) (f a) R) :
    Compiler.Triple P (m >>= f) R := by
  intro st hst r st1 h
  obtain ⟨a, s1, h1, h2⟩ := (M.bind_ok_iff _ _ _ _ _).1 h
  exact hf a s1 (hm st hst a s1 h1) r st1 h2

theorem Compiler.Triple.pure {α : Type} {P : Compiler → Prop} (a : α) :
    Compiler.Triple P (Pure.pure a : CM α) (fun _ => P) := by
  intro st hst r st1 h
  simp only [M.pure_apply, Res.ok.injEq] at h
  exact h.2 ▸ hst

theorem Compiler.Triple.raise {α : Type} {P : Compiler → Prop} {Q : α → Compiler → Prop}
    (e : Error) : Compiler.Triple P (Secd.raise e : CM α) Q := by
  intro st hst r st1 h
  simp at h

theorem Compiler.Triple.fail {α : Type} {P : Compiler → Prop} {Q : α → Compiler → Prop}
    (f : Fault) : Compiler.Triple P (Secd.fail f : CM α) Q := by
  intro st hst r st1 h
  simp at h

theorem Compiler.Triple.ite {α : Type} {P : Compiler → Prop} {Q : α → Compiler → Prop}
    (c : Prop) [Decidable c] {a b : CM α} (ha : Compiler.Triple P a Q)
    (hb : Compiler.Triple P b Q) : Compiler.Triple P (if c then a else b) Q := by
  split
  · exact ha
  · exact hb

theorem Compiler.Triple.given {α : Type} {P : Compiler → Prop} {φ : Prop} {m : CM α}
    {Q : α → Compiler → Prop} (h : φ → Compiler.Triple P m Q) :
    Compiler.Triple (fun st => P st ∧ φ) m Q :=
  fun st hst => h hst.2 st hst.1

theorem Src.All.ptr_of {V : Nat → Prop} {x : Src} (h : Src.All V x) : V x.ptr := by
  cases x with
  | cons p a d => exact h.1
  | integer p => exact h
  | symbol p name => exact h
  | closure p => exact h

theorem Compiler.Triple.carSrc {P : Compiler → Prop} {V : Nat → Prop} {x : Src}
    (hall : Src.All V x) :
    Compiler.Triple P (Secd.carSrc x) (fun a st => P st ∧ Src.All V a) := by
  intro st hst r st1 h
  cases x with
  | cons p a d =>
    simp only [Secd.carSrc, M.pure_apply, Res.ok.injEq] at h
    obtain ⟨rfl, rfl⟩ := h
    exact ⟨hst, hall.2.1⟩
  | integer p => simp [Secd.carSrc] at h
  | symbol p name => simp [Secd.carSrc] at h
  | closure p => simp [Secd.carSrc] at h

theorem Compiler.Triple.cdrSrc {P : Compiler → Prop} {V : Nat → Prop} {x : Src}
    (hall : Src.All V x) :
    Compiler.Triple P (Secd.cdrSrc x) (fun a st => P st ∧ Src.All V a) := by
  intro st hst r st1 h
  cases x with
  | cons p a d =>
    simp only [Secd.cdrSrc, M.pure_apply, Res.ok.injEq] at h
    obtain ⟨rfl, rfl⟩ := h
    exact ⟨hst, hall.2.2⟩
  | integer p => simp [Secd.cdrSrc] at h
  | symbol p name => simp [Secd.cdrSrc] at h
  | closure p => simp [Secd.cdrSrc] at h

theorem Compiler.Triple.car {P : Compiler → Prop} {V : Nat → Prop} {x : Src}
    (hall : Src.All V x) :
    Compiler.Triple P x.car (fun a st => P st ∧ Src.All V a) := by
  intro st hst r st1 h
  cases x with
  | cons p a d =>
    simp only [Src.car, M.pure_apply, Res.ok.injEq] at h
    obtain ⟨rfl, rfl⟩ := h
    exact ⟨hst, hall.2.1⟩
  | integer p => simp [Src.car] at h
  | symbol p name => simp [Src.car] at h
  | closure p => simp [Src.car] at h

theorem Compiler.Triple.cdr {P : Compiler → Prop} {V : Nat → Prop} {x : Src}
    (hall : Src.All V x) :
    Compiler.Triple P x.cdr (fun a st => P st ∧ Src.All V a) := by
  intro st hst r st1 h
  cases x with
  | cons p a d =>
    simp only [Src.cdr, M.pure_apply, Res.ok.injEq] at h
    obtain ⟨rfl, rfl⟩ := h
    exact ⟨hst, hall.2.2⟩
  | integer p => simp [Src.cdr] at h
  | symbol p name => simp [Src.cdr] at h
  | closure p => simp [Src.cdr] at h

theorem Compiler.Triple.Expand2 {P : Compiler → Prop} {V : Nat → Prop} {x : Src}
    (hall : Src.All V x) :
    Compiler.Triple P (SecdList.Expand2 x)
      (fun r st => P st ∧ (Src.All V r.1 ∧ Src.All V r.2)) := by
  unfold SecdList.Expand2
  refine Compiler.Triple.bind (Compiler.Triple.car hall) fun a => Compiler.Triple.given fun ha => ?_
  refine Compiler.Triple.bind (Compiler.Triple.cdr hall) fun d => Compiler.Triple.given fun hd => ?_
  refine Compiler.Triple.bind (Compiler.Triple.car hd) fun b => Compiler.Triple.given fun hb => ?_
  refine Compiler.Triple.bind (Compiler.Triple.cdr hd) fun _ => Compiler.Triple.given fun _ => ?_
  refine Compiler.Triple.ite _ (Compiler.Triple.raise _) ?_
  intro st hst r st1 h
  simp only [M.pure_apply, Res.ok.injEq] at h
  obtain ⟨rfl, rfl⟩ := h
  exact ⟨hst, ha, hb⟩

theorem Compiler.Triple.Expand3 {P : Compiler → Prop} {V : Nat → Prop} {x : Src}
    (hall : Src.All V x) :
    Compiler.Triple P (SecdList.Expand3 x)
      (fun r st => P st ∧ (Src.All V r.1 ∧ Src.All V r.2.1 ∧ Src.All V r.2.2)) := by
  unfold SecdList.Expand3
  refine Compiler.Triple.bind (Compiler.Triple.car hall) fun a => Compiler.Triple.given fun ha => ?_
  refine Compiler.Triple.bind (Compiler.Triple.cdr hall) fun d => Compiler.Triple.given fun hd => ?_
  refine Compiler.Triple.bind (Compiler.Triple.car hd) fun b => Compiler.Triple.given fun hb => ?_
  refine Compiler.Triple.bind (Compiler.Triple.cdr hd) fun d2 => Compiler.Triple.given fun hd2 => ?_
  refine Compiler.Triple.bind (Compiler.Triple.car hd2) fun c => Compiler.Triple.given fun hc => ?_
  refine Compiler.Triple.bind (Compiler.Triple.cdr hd2) fun _ => Compiler.Triple.given fun _ => ?_
  refine Compiler.Triple.ite _ (Compiler.Triple.raise _) ?_
  intro st hst r st1 h
  simp only [M.pure_apply, Res.ok.injEq] at h
  obtain ⟨rfl, rfl⟩ := h
  exact ⟨hst, ha, hb, hc⟩

/-- An opcode that finds its operands, emitted into the current buffer. -/
theorem Compiler.Emits.addOpcode {A : Nat} {V : Nat → Prop} {h0 : Heap} {fs : List Code.Frame}
    {K : Code.End} {n0 k0 : Nat} {fl : Bool} {n k : Nat} {τ1 : Code.Pend} {o : Int}
    (heff : Code.effect K o fl n k = some τ1) :
    Compiler.Emits A V h0 fs K n0 k0 (.ready fl n k) τ1 (Code.addOpcode o) := by
  intro st hst r st1 h
  unfold Code.addOpcode at h
  obtain ⟨v, s1, h1, h2⟩ := (M.bind_ok_iff _ _ _ _ _).1 h
  simp only [Compiler.newInteger, Res.ok.injEq] at h1
  obtain ⟨rfl, rfl⟩ := h1
  refine (hst.alloc_cell (.integer o)).add ?_ h2
  exact .op ⟨hst.2.1, by simp⟩ (by simp) heff (.nil _ _)

/-- The operand of `LDC`, emitted into the current buffer. -/
theorem Compiler.Emits.add_ldc {A : Nat} {V : Nat → Prop} {h0 : Heap} {fs : List Code.Frame}
    {K : Code.End} {n0 k0 n k x : Nat} (hx : V x) :
    Compiler.Emits A V h0 fs K n0 k0 (.ldc n k) (.ready false (n + 1) k) (Code.add x) := by
  intro st hst r st1 h
  exact hst.add (.ldc hx (.nil _ _)) h

/-- The operand of `LD`, emitted into the current buffer. -/
theorem Compiler.Emits.add_ld {A : Nat} {V : Nat → Prop} {h0 : Heap} {fs : List Code.Frame}
    {K : Code.End} {n0 k0 n k : Nat} (x : Nat) :
    Compiler.Emits A V h0 fs K n0 k0 (.ld n k) (.ready false (n + 1) k) (Code.add x) := by
  intro st hst r st1 h
  exact hst.add (.ld (.nil _ _)) h

theorem Compiler.Triple.indexOf {A : Nat} {V : Nat → Prop} {h0 : Heap} {fs : List Code.Frame}
    (symbol : Src) :
    Compiler.Triple (Compiler.Typing A V h0 fs) (EnvironmentMap.indexOf symbol)
      (fun _ => Compiler.Typing A V h0 fs) := by
  intro st hst r st1 h
  unfold EnvironmentMap.indexOf at h
  split at h
  · split at h
    · simp only [M.bind_ok_iff, Compiler.newInteger, Compiler.newCons, Res.ok.injEq] at h
      obtain ⟨d, s1, ⟨rfl, rfl⟩, o, s2, ⟨rfl, rfl⟩, rfl, rfl⟩ := h
      exact ((hst.alloc_cell _).alloc_cell _).alloc_cell _
    · cases h
  · cases h

/-- A computation that leaves the heap and the code buffers alone. -/
theorem Compiler.Triple.of_same {α : Type} {A : Nat} {V : Nat → Prop} {h0 : Heap}
    {fs : List Code.Frame} {m : CM α}
    (hm : ∀ st r st1, m st = .ok r st1 → st1.heap = st.heap ∧ st1.code_ = st.code_) :
    Compiler.Triple (Compiler.Typing A V h0 fs) m (fun _ => Compiler.Typing A V h0 fs) := by
  intro st hst r st1 h
  obtain ⟨hh, hc⟩ := hm st r st1 h
  unfold Compiler.Typing
  rw [hh, hc]
  exact hst

theorem Compiler.Triple.enterNewEnv {A : Nat} {V : Nat → Prop} {h0 : Heap}
    {fs : List Code.Frame} (names : Src) :
    Compiler.Triple (Compiler.Typing A V h0 fs) (Compiler.enterNewEnv names)
      (fun _ => Compiler.Typing A V h0 fs) :=
  Compiler.Triple.of_same fun st r st1 h => by
    have h1 : Compiler.addSymbols names { st with envMap_ := [] :: st.envMap_ } = .ok () st1 := h
    have h2 := Compiler.addSymbols_heap names _ st1 h1
    have h3 := Compiler.addSymbols_code names _ st1 h1
    exact ⟨h2, h3⟩

theorem Compiler.Triple.unrollEnvironmentMap {A : Nat} {V : Nat → Prop} {h0 : Heap}
    {fs : List Code.Frame} :
    Compiler.Triple (Compiler.Typing A V h0 fs) Compiler.unrollEnvironmentMap
      (fun _ => Compiler.Typing A V h0 fs) :=
  Compiler.Triple.of_same fun st r st1 h => by
    unfold Compiler.unrollEnvironmentMap at h
    split at h
    · simp only [Res.ok.injEq, true_and] at h
      subst h
      exact ⟨rfl, rfl⟩
    · cases h

theorem Compiler.Triple.addSymbol {A : Nat} {V : Nat → Prop} {h0 : Heap}
    {fs : List Code.Frame} (name : String) :
    Compiler.Triple (Compiler.Typing A V h0 fs) (Compiler.addSymbol name)
      (fun _ => Compiler.Typing A V h0 fs) :=
  Compiler.Triple.of_same fun st r st1 h => by
    unfold Compiler.addSymbol at h
    split at h
    · cases h
    · simp only [Res.ok.injEq, true_and] at h
      subst h
      exact ⟨rfl, rfl⟩

theorem Compiler.Triple.codeHasParent {A : Nat} {V : Nat → Prop} {h0 : Heap}
    {fs : List Code.Frame} :
    Compiler.Triple (Compiler.Typing A V h0 fs) Compiler.codeHasParent
      (fun _ => Compiler.Typing A V h0 fs) :=
  Compiler.Triple.of_same fun st r st1 h => by
    unfold Compiler.codeHasParent at h
    split at h
    · cases h
    · simp only [Res.ok.injEq] at h
      rw [← h.2]
      exact ⟨rfl, rfl⟩
    · simp only [Res.ok.injEq] at h
      rw [← h.2]
      exact ⟨rfl, rfl⟩

/-- A new, empty buffer on top of the current one. -/
theorem Compiler.Triple.enterNewCode {A : Nat} {V : Nat → Prop} {h0 : Heap}
    {fs : List Code.Frame} (K : Code.End) (n k : Nat) :
    Compiler.Triple (Compiler.Typing A V h0 fs) Compiler.enterNewCode
      (fun _ => Compiler.Typing A V h0 (⟨K, n, k, .ready false n k⟩ :: fs)) := by
  intro st hst r st1 h
  unfold Compiler.enterNewCode at h
  simp only [Res.ok.injEq, true_and] at h
  subst h
  obtain ⟨hv, hA, hag, hstack⟩ := hst
  exact ⟨hv, hA, hag, st.heap.size, [], hA, Nat.le_refl _, Or.inl ⟨rfl, rfl, rfl⟩, .nil _ _,
    hstack⟩

theorem IsSeg.snoc_same {P : Nat → Prop} {h : Heap} {l x r : Nat} (hPl : P l)
    (hl : h.get? l = some (.cons x r)) :
    ∀ (pre : List Nat) (c : Nat), IsSeg P h c pre l → IsSeg P h c (pre ++ [x]) r
  | [], c, hs => by
    have : c = l := hs
    subst this
    exact ⟨hPl, r, hl, rfl⟩
  | y :: ys, c, ⟨hc, d, hd, hs⟩ => ⟨hc, d, hd, IsSeg.snoc_same hPl hl ys d hs⟩

/-- The finished buffer on top, appended to the one below as the operand it
waits for. -/
theorem Compiler.Typing.unroll {A : Nat} {V : Nat → Prop} {h0 : Heap} {fs : List Code.Frame}
    {K1 K : Code.End} {n1 k1 n0 k0 : Nat} {τ τ1 : Code.Pend} {st st1 : Compiler}
    (ht : Compiler.Typing A V h0 (⟨K1, n1, k1, .done⟩ :: ⟨K, n0, k0, τ⟩ :: fs) st)
    (hstep : ∀ (P : Nat → Prop) (h : Heap) (t r : Nat) (its : List Nat), IsSeg P h t its r →
      Code.Run P V h K1 (.ready false n1 k1) its .done → Code.Run P V h K τ [t] τ1)
    (h : Compiler.unrollAndAppendCode st = .ok () st1) :
    Compiler.Typing A V h0 (⟨K, n0, k0, τ1⟩ :: fs) st1 := by
  obtain ⟨hv, hA, hag, hstack⟩ := ht
  unfold Compiler.unrollAndAppendCode at h
  cases hc : st.code_ with
  | nil =>
    rw [hc] at hstack
    exact hstack.elim
  | cons c rest =>
    cases rest with
    | nil =>
      rw [hc] at hstack
      obtain ⟨_, _, _, _, _, _, hrest⟩ := hstack
      exact hrest.elim
    | cons parent rest =>
      rw [hc] at hstack h
      simp only at h
      obtain ⟨σ, items, hAσ, hσ, hopen, hrun, hrest⟩ := hstack
      dsimp only at hrun
      have ht1 : Compiler.Typing A V h0 (⟨K, n0, k0, τ⟩ :: fs)
          { st with code_ := parent :: rest } :=
        ⟨hv, hA, hag, Compiler.Stack.grow_stack _ _ _ _ hσ (fun _ _ => rfl) hrest⟩
      refine ht1.add ?_ h
      rcases hopen with ⟨_, _, rfl⟩ | ⟨pre, x, rfl, hseg, hP, hlast⟩
      · cases hrun.start_nil
      · have hseg1 := IsSeg.snoc_same hP hlast pre _ hseg
        exact hstep _ _ _ _ _
          (IsSeg.mono_seg (fun p hp => ⟨⟨by omega, hp.2⟩, rfl⟩) _ _ _ hseg1) hrun

theorem Code.effect_NIL (K : Code.End) (fl : Bool) (n k : Nat) :
    Code.effect K Instruction.NIL fl n k = some (.ready false (n + 1) k) := by
  simp [Code.effect, Instruction.NIL, Instruction.LDC, Instruction.LD, Instruction.SEL, Instruction.JOIN, Instruction.LDF, Instruction.AP, Instruction.RTN, Instruction.DUM, Instruction.RAP, Instruction.DEFUN, Instruction.POP, Instruction.CONS, Instruction.CAR, Instruction.CDR, Instruction.CONSP, Instruction.ADD, Instruction.SUB, Instruction.MUL, Instruction.DIV, Instruction.EQ, Instruction.LT, Instruction.GT, Instruction.PRINT, Instruction.READ]

theorem Code.effect_READ (K : Code.End) (fl : Bool) (n k : Nat) :
    Code.effect K Instruction.READ fl n k = some (.ready false (n + 1) k) := by
  simp [Code.effect, Instruction.NIL, Instruction.LDC, Instruction.LD, Instruction.SEL, Instruction.JOIN, Instruction.LDF, Instruction.AP, Instruction.RTN, Instruction.DUM, Instruction.RAP, Instruction.DEFUN, Instruction.POP, Instruction.CONS, Instruction.CAR, Instruction.CDR, Instruction.CONSP, Instruction.ADD, Instruction.SUB, Instruction.MUL, Instruction.DIV, Instruction.EQ, Instruction.LT, Instruction.GT, Instruction.PRINT, Instruction.READ]

theorem Code.effect_LDC (K : Code.End) (fl : Bool) (n k : Nat) :
    Code.effect K Instruction.LDC fl n k = some (.ldc n k) := by
  simp [Code.effect, Instruction.NIL, Instruction.LDC, Instruction.LD, Instruction.SEL, Instruction.JOIN, Instruction.LDF, Instruction.AP, Instruction.RTN, Instruction.DUM, Instruction.RAP, Instruction.DEFUN, Instruction.POP, Instruction.CONS, Instruction.CAR, Instruction.CDR, Instruction.CONSP, Instruction.ADD, Instruction.SUB, Instruction.MUL, Instruction.DIV, Instruction.EQ, Instruction.LT, Instruction.GT, Instruction.PRINT, Instruction.READ]

theorem Code.effect_LD (K : Code.End) (fl : Bool) (n k : Nat) :
    Code.effect K Instruction.LD fl n k = some (.ld n k) := by
  simp [Code.effect, Instruction.NIL, Instruction.LDC, Instruction.LD, Instruction.SEL, Instruction.JOIN, Instruction.LDF, Instruction.AP, Instruction.RTN, Instruction.DUM, Instruction.RAP, Instruction.DEFUN, Instruction.POP, Instruction.CONS, Instruction.CAR, Instruction.CDR, Instruction.CONSP, Instruction.ADD, Instruction.SUB, Instruction.MUL, Instruction.DIV, Instruction.EQ, Instruction.LT, Instruction.GT, Instruction.PRINT, Instruction.READ]

theorem Code.effect_SEL (K : Code.End) (fl : Bool) (n k : Nat) :
    Code.effect K Instruction.SEL fl (n + 1) k = some (.sel0 n k) := by
  simp [Code.effect, Instruction.NIL, Instruction.LDC, Instruction.LD, Instruction.SEL, Instruction.JOIN, Instruction.LDF, Instruction.AP, Instruction.RTN, Instruction.DUM, Instruction.RAP, Instruction.DEFUN, Instruction.POP, Instruction.CONS, Instruction.CAR, Instruction.CDR, Instruction.CONSP, Instruction.ADD, Instruction.SUB, Instruction.MUL, Instruction.DIV, Instruction.EQ, Instruction.LT, Instruction.GT, Instruction.PRINT, Instruction.READ]

theorem Code.effect_LDF (K : Code.End) (fl : Bool) (n k : Nat) :
    Code.effect K Instruction.LDF fl n k = some (.ldf n k) := by
  simp [Code.effect, Instruction.NIL, Instruction.LDC, Instruction.LD, Instruction.SEL, Instruction.JOIN, Instruction.LDF, Instruction.AP, Instruction.RTN, Instruction.DUM, Instruction.RAP, Instruction.DEFUN, Instruction.POP, Instruction.CONS, Instruction.CAR, Instruction.CDR, Instruction.CONSP, Instruction.ADD, Instruction.SUB, Instruction.MUL, Instruction.DIV, Instruction.EQ, Instruction.LT, Instruction.GT, Instruction.PRINT, Instruction.READ]

theorem Code.effect_AP (K : Code.End) (fl : Bool) (n k : Nat) :
    Code.effect K Instruction.AP fl (n + 2) k = some (.ready false (n + 1) k) := by
  simp [Code.effect, Instruction.NIL, Instruction.LDC, Instruction.LD, Instruction.SEL, Instruction.JOIN, Instruction.LDF, Instruction.AP, Instruction.RTN, Instruction.DUM, Instruction.RAP, Instruction.DEFUN, Instruction.POP, Instruction.CONS, Instruction.CAR, Instruction.CDR, Instruction.CONSP, Instruction.ADD, Instruction.SUB, Instruction.MUL, Instruction.DIV, Instruction.EQ, Instruction.LT, Instruction.GT, Instruction.PRINT, Instruction.READ]

theorem Code.effect_DUM (K : Code.End) (fl : Bool) (n k : Nat) :
    Code.effect K Instruction.DUM fl n k = some (.ready false n (k + 1)) := by
  simp [Code.effect, Instruction.NIL, Instruction.LDC, Instruction.LD, Instruction.SEL, Instruction.JOIN, Instruction.LDF, Instruction.AP, Instruction.RTN, Instruction.DUM, Instruction.RAP, Instruction.DEFUN, Instruction.POP, Instruction.CONS, Instruction.CAR, Instruction.CDR, Instruction.CONSP, Instruction.ADD, Instruction.SUB, Instruction.MUL, Instruction.DIV, Instruction.EQ, Instruction.LT, Instruction.GT, Instruction.PRINT, Instruction.READ]

theorem Code.effect_DEFUN (K : Code.End) (fl : Bool) (n k : Nat) :
    Code.effect K Instruction.DEFUN fl (n + 1) k = some (.ready false (n + 1) k) := by
  simp [Code.effect, Instruction.NIL, Instruction.LDC, Instruction.LD, Instruction.SEL, Instruction.JOIN, Instruction.LDF, Instruction.AP, Instruction.RTN, Instruction.DUM, Instruction.RAP, Instruction.DEFUN, Instruction.POP, Instruction.CONS, Instruction.CAR, Instruction.CDR, Instruction.CONSP, Instruction.ADD, Instruction.SUB, Instruction.MUL, Instruction.DIV, Instruction.EQ, Instruction.LT, Instruction.GT, Instruction.PRINT, Instruction.READ]

theorem Code.effect_CAR (K : Code.End) (fl : Bool) (n k : Nat) :
    Code.effect K Instruction.CAR fl (n + 1) k = some (.ready false (n + 1) k) := by
  simp [Code.effect, Instruction.NIL, Instruction.LDC, Instruction.LD, Instruction.SEL, Instruction.JOIN, Instruction.LDF, Instruction.AP, Instruction.RTN, Instruction.DUM, Instruction.RAP, Instruction.DEFUN, Instruction.POP, Instruction.CONS, Instruction.CAR, Instruction.CDR, Instruction.CONSP, Instruction.ADD, Instruction.SUB, Instruction.MUL, Instruction.DIV, Instruction.EQ, Instruction.LT, Instruction.GT, Instruction.PRINT, Instruction.READ]

theorem Code.effect_CDR (K : Code.End) (fl : Bool) (n k : Nat) :
    Code.effect K Instruction.CDR fl (n + 1) k = some (.ready false (n + 1) k) := by
  simp [Code.effect, Instruction.NIL, Instruction.LDC, Instruction.LD, Instruction.SEL, Instruction.JOIN, Instruction.LDF, Instruction.AP, Instruction.RTN, Instruction.DUM, Instruction.RAP, Instruction.DEFUN, Instruction.POP, Instruction.CONS, Instruction.CAR, Instruction.CDR, Instruction.CONSP, Instruction.ADD, Instruction.SUB, Instruction.MUL, Instruction.DIV, Instruction.EQ, Instruction.LT, Instruction.GT, Instruction.PRINT, Instruction.READ]

theorem Code.effect_CONSP (K : Code.End) (fl : Bool) (n k : Nat) :
    Code.effect K Instruction.CONSP fl (n + 1) k = some (.ready false (n + 1) k) := by
  simp [Code.effect, Instruction.NIL, Instruction.LDC, Instruction.LD, Instruction.SEL, Instruction.JOIN, Instruction.LDF, Instruction.AP, Instruction.RTN, Instruction.DUM, Instruction.RAP, Instruction.DEFUN, Instruction.POP, Instruction.CONS, Instruction.CAR, Instruction.CDR, Instruction.CONSP, Instruction.ADD, Instruction.SUB, Instruction.MUL, Instruction.DIV, Instruction.EQ, Instruction.LT, Instruction.GT, Instruction.PRINT, Instruction.READ]

theorem Code.effect_PRINT (K : Code.End) (fl : Bool) (n k : Nat) :
    Code.effect K Instruction.PRINT fl (n + 1) k = some (.ready false (n + 1) k) := by
  simp [Code.effect, Instruction.NIL, Instruction.LDC, Instruction.LD, Instruction.SEL, Instruction.JOIN, Instruction.LDF, Instruction.AP, Instruction.RTN, Instruction.DUM, Instruction.RAP, Instruction.DEFUN, Instruction.POP, Instruction.CONS, Instruction.CAR, Instruction.CDR, Instruction.CONSP, Instruction.ADD, Instruction.SUB, Instruction.MUL, Instruction.DIV, Instruction.EQ, Instruction.LT, Instruction.GT, Instruction.PRINT, Instruction.READ]

theorem Code.effect_POP (K : Code.End) (fl : Bool) (n k : Nat) :
    Code.effect K Instruction.POP fl (n + 1) k = some (.ready false n k) := by
  simp [Code.effect, Instruction.NIL, Instruction.LDC, Instruction.LD, Instruction.SEL, Instruction.JOIN, Instruction.LDF, Instruction.AP, Instruction.RTN, Instruction.DUM, Instruction.RAP, Instruction.DEFUN, Instruction.POP, Instruction.CONS, Instruction.CAR, Instruction.CDR, Instruction.CONSP, Instruction.ADD, Instruction.SUB, Instruction.MUL, Instruction.DIV, Instruction.EQ, Instruction.LT, Instruction.GT, Instruction.PRINT, Instruction.READ]

theorem Code.effect_CONS (K : Code.End) (fl : Bool) (n k : Nat) :
    Code.effect K Instruction.CONS fl (n + 2) k = some (.ready false (n + 1) k) := by
  simp [Code.effect, Instruction.NIL, Instruction.LDC, Instruction.LD, Instruction.SEL, Instruction.JOIN, Instruction.LDF, Instruction.AP, Instruction.RTN, Instruction.DUM, Instruction.RAP, Instruction.DEFUN, Instruction.POP, Instruction.CONS, Instruction.CAR, Instruction.CDR, Instruction.CONSP, Instruction.ADD, Instruction.SUB, Instruction.MUL, Instruction.DIV, Instruction.EQ, Instruction.LT, Instruction.GT, Instruction.PRINT, Instruction.READ]

theorem Code.effect_ADD (K : Code.End) (fl : Bool) (n k : Nat) :
    Code.effect K Instruction.ADD fl (n + 2) k = some (.ready false (n + 1) k) := by
  simp [Code.effect, Instruction.NIL, Instruction.LDC, Instruction.LD, Instruction.SEL, Instruction.JOIN, Instruction.LDF, Instruction.AP, Instruction.RTN, Instruction.DUM, Instruction.RAP, Instruction.DEFUN, Instruction.POP, Instruction.CONS, Instruction.CAR, Instruction.CDR, Instruction.CONSP, Instruction.ADD, Instruction.SUB, Instruction.MUL, Instruction.DIV, Instruction.EQ, Instruction.LT, Instruction.GT, Instruction.PRINT, Instruction.READ]

theorem Code.effect_SUB (K : Code.End) (fl : Bool) (n k : Nat) :
    Code.effect K Instruction.SUB fl (n + 2) k = some (.ready false (n + 1) k) := by
  simp [Code.effect, Instruction.NIL, Instruction.LDC, Instruction.LD, Instruction.SEL, Instruction.JOIN, Instruction.LDF, Instruction.AP, Instruction.RTN, Instruction.DUM, Instruction.RAP, Instruction.DEFUN, Instruction.POP, Instruction.CONS, Instruction.CAR, Instruction.CDR, Instruction.CONSP, Instruction.ADD, Instruction.SUB, Instruction.MUL, Instruction.DIV, Instruction.EQ, Instruction.LT, Instruction.GT, Instruction.PRINT, Instruction.READ]

theorem Code.effect_MUL (K : Code.End) (fl : Bool) (n k : Nat) :
    Code.effect K Instruction.MUL fl (n + 2) k = some (.ready false (n + 1) k) := by
  simp [Code.effect, Instruction.NIL, Instruction.LDC, Instruction.LD, Instruction.SEL, Instruction.JOIN, Instruction.LDF, Instruction.AP, Instruction.RTN, Instruction.DUM, Instruction.RAP, Instruction.DEFUN, Instruction.POP, Instruction.CONS, Instruction.CAR, Instruction.CDR, Instruction.CONSP, Instruction.ADD, Instruction.SUB, Instruction.MUL, Instruction.DIV, Instruction.EQ, Instruction.LT, Instruction.GT, Instruction.PRINT, Instruction.READ]

theorem Code.effect_DIV (K : Code.End) (fl : Bool) (n k : Nat) :
    Code.effect K Instruction.DIV fl (n + 2) k = some (.ready false (n + 1) k) := by
  simp [Code.effect, Instruction.NIL, Instruction.LDC, Instruction.LD, Instruction.SEL, Instruction.JOIN, Instruction.LDF, Instruction.AP, Instruction.RTN, Instruction.DUM, Instruction.RAP, Instruction.DEFUN, Instruction.POP, Instruction.CONS, Instruction.CAR, Instruction.CDR, Instruction.CONSP, Instruction.ADD, Instruction.SUB, Instruction.MUL, Instruction.DIV, Instruction.EQ, Instruction.LT, Instruction.GT, Instruction.PRINT, Instruction.READ]

theorem Code.effect_EQ (K : Code.End) (fl : Bool) (n k : Nat) :
    Code.effect K Instruction.EQ fl (n + 2) k = some (.ready false (n + 1) k) := by
  simp [Code.effect, Instruction.NIL, Instruction.LDC, Instruction.LD, Instruction.SEL, Instruction.JOIN, Instruction.LDF, Instruction.AP, Instruction.RTN, Instruction.DUM, Instruction.RAP, Instruction.DEFUN, Instruction.POP, Instruction.CONS, Instruction.CAR, Instruction.CDR, Instruction.CONSP, Instruction.ADD, Instruction.SUB, Instruction.MUL, Instruction.DIV, Instruction.EQ, Instruction.LT, Instruction.GT, Instruction.PRINT, Instruction.READ]

theorem Code.effect_LT (K : Code.End) (fl : Bool) (n k : Nat) :
    Code.effect K Instruction.LT fl (n + 2) k = some (.ready false (n + 1) k) := by
  simp [Code.effect, Instruction.NIL, Instruction.LDC, Instruction.LD, Instruction.SEL, Instruction.JOIN, Instruction.LDF, Instruction.AP, Instruction.RTN, Instruction.DUM, Instruction.RAP, Instruction.DEFUN, Instruction.POP, Instruction.CONS, Instruction.CAR, Instruction.CDR, Instruction.CONSP, Instruction.ADD, Instruction.SUB, Instruction.MUL, Instruction.DIV, Instruction.EQ, Instruction.LT, Instruction.GT, Instruction.PRINT, Instruction.READ]

theorem Code.effect_GT (K : Code.End) (fl : Bool) (n k : Nat) :
    Code.effect K Instruction.GT fl (n + 2) k = some (.ready false (n + 1) k) := by
  simp [Code.effect, Instruction.NIL, Instruction.LDC, Instruction.LD, Instruction.SEL, Instruction.JOIN, Instruction.LDF, Instruction.AP, Instruction.RTN, Instruction.DUM, Instruction.RAP, Instruction.DEFUN, Instruction.POP, Instruction.CONS, Instruction.CAR, Instruction.CDR, Instruction.CONSP, Instruction.ADD, Instruction.SUB, Instruction.MUL, Instruction.DIV, Instruction.EQ, Instruction.LT, Instruction.GT, Instruction.PRINT, Instruction.READ]

theorem Code.effect_JOIN (fl : Bool) (n k : Nat) :
    Code.effect (.join n k) Instruction.JOIN fl n k = some .done := by
  simp [Code.effect, Instruction.NIL, Instruction.LDC, Instruction.LD, Instruction.SEL, Instruction.JOIN, Instruction.LDF, Instruction.AP, Instruction.RTN, Instruction.DUM, Instruction.RAP, Instruction.DEFUN, Instruction.POP, Instruction.CONS, Instruction.CAR, Instruction.CDR, Instruction.CONSP, Instruction.ADD, Instruction.SUB, Instruction.MUL, Instruction.DIV, Instruction.EQ, Instruction.LT, Instruction.GT, Instruction.PRINT, Instruction.READ]

theorem Code.effect_RTN (fl : Bool) (n k : Nat) :
    Code.effect .rtn Instruction.RTN fl (n + 1) k = some .done := by
  simp [Code.effect, Instruction.NIL, Instruction.LDC, Instruction.LD, Instruction.SEL, Instruction.JOIN, Instruction.LDF, Instruction.AP, Instruction.RTN, Instruction.DUM, Instruction.RAP, Instruction.DEFUN, Instruction.POP, Instruction.CONS, Instruction.CAR, Instruction.CDR, Instruction.CONSP, Instruction.ADD, Instruction.SUB, Instruction.MUL, Instruction.DIV, Instruction.EQ, Instruction.LT, Instruction.GT, Instruction.PRINT, Instruction.READ]

theorem Code.effect_RAP (K : Code.End) (n k : Nat) :
    Code.effect K Instruction.RAP true (n + 2) (k + 1) = some (.ready false (n + 1) k) := by
  simp [Code.effect, Instruction.NIL, Instruction.LDC, Instruction.LD, Instruction.SEL, Instruction.JOIN, Instruction.LDF, Instruction.AP, Instruction.RTN, Instruction.DUM, Instruction.RAP, Instruction.DEFUN, Instruction.POP, Instruction.CONS, Instruction.CAR, Instruction.CDR, Instruction.CONSP, Instruction.ADD, Instruction.SUB, Instruction.MUL, Instruction.DIV, Instruction.EQ, Instruction.LT, Instruction.GT, Instruction.PRINT, Instruction.READ]

theorem Compiler.Triple.weaken {α : Type} {P : Compiler → Prop} {m : CM α}
    {Q R : α → Compiler → Prop} (hm : Compiler.Triple P m Q)
    (hq : ∀ a st, Q a st → R a st) : Compiler.Triple P m R :=
  fun st hst r st1 h => hq r st1 (hm st hst r st1 h)

theorem Compiler.Triple.unroll_code {A : Nat} {V : Nat → Prop} {h0 : Heap} {fs : List Code.Frame}
    {K1 K : Code.End} {n1 k1 n0 k0 : Nat} {τ : Code.Pend} (τ1 : Code.Pend)
    (hstep : ∀ (P : Nat → Prop) (h : Heap) (t r : Nat) (its : List Nat), IsSeg P h t its r →
      Code.Run P V h K1 (.ready false n1 k1) its .done → Code.Run P V h K τ [t] τ1) :
    Compiler.Triple (Compiler.Typing A V h0 (⟨K1, n1, k1, .done⟩ :: ⟨K, n0, k0, τ⟩ :: fs))
      Compiler.unrollAndAppendCode
      (fun _ => Compiler.Typing A V h0 (⟨K, n0, k0, τ1⟩ :: fs)) :=
  fun _ hst _ _ h => hst.unroll hstep h

theorem Compiler.Emits.forget_loaded {α : Type} {A : Nat} {V : Nat → Prop} {h0 : Heap}
    {fs : List Code.Frame} {K : Code.End} {n0 k0 n k : Nat} {τ : Code.Pend} {m : CM α}
    (hm : Compiler.Emits A V h0 fs K n0 k0 τ (.ready true n k) m) :
    Compiler.Emits A V h0 fs K n0 k0 τ (.ready false n k) m :=
  Compiler.Triple.weaken hm fun _ _ h => h.forget

theorem Compiler.Emits.compileInteger {A : Nat} {V : Nat → Prop} {h0 : Heap}
    {code : Src} (hall : Src.All V code) (fs : List Code.Frame) (K : Code.End)
    (n0 k0 n k : Nat) :
    Compiler.Emits A V h0 fs K n0 k0 (.ready false n k) (.ready false (n + 1) k)
      (Compiler.compileInteger code) :=
  Compiler.Triple.bind (Compiler.Emits.addOpcode (Code.effect_LDC K false n k)) fun _ =>
    Compiler.Emits.add_ldc hall.ptr_of

theorem Compiler.Emits.compileNil {A : Nat} {V : Nat → Prop} {h0 : Heap}
    (fs : List Code.Frame) (K : Code.End) (n0 k0 n k : Nat) :
    Compiler.Emits A V h0 fs K n0 k0 (.ready false n k) (.ready false (n + 1) k)
      Compiler.compileNil :=
  Compiler.Emits.addOpcode (Code.effect_NIL K false n k)

theorem Compiler.Emits.compileTrue {A : Nat} {V : Nat → Prop} {h0 : Heap} (hT : V T)
    (fs : List Code.Frame) (K : Code.End) (n0 k0 n k : Nat) :
    Compiler.Emits A V h0 fs K n0 k0 (.ready false n k) (.ready false (n + 1) k)
      Compiler.compileTrue :=
  Compiler.Triple.bind (Compiler.Emits.addOpcode (Code.effect_LDC K false n k)) fun _ =>
    Compiler.Emits.add_ldc hT

theorem Compiler.Emits.compileVariableRead {A : Nat} {V : Nat → Prop} {h0 : Heap}
    (code : Src) (fs : List Code.Frame) (K : Code.End) (n0 k0 n k : Nat) :
    Compiler.Emits A V h0 fs K n0 k0 (.ready false n k) (.ready false (n + 1) k)
      (Compiler.compileVariableRead code) :=
  Compiler.Triple.bind (Compiler.Emits.addOpcode (Code.effect_LD K false n k)) fun _ =>
    Compiler.Triple.bind (Compiler.Triple.indexOf code) fun x => Compiler.Emits.add_ld x

theorem Compiler.Emits.compileRead {A : Nat} {V : Nat → Prop} {h0 : Heap}
    (args : Src) (fs : List Code.Frame) (K : Code.End) (n0 k0 n k : Nat) :
    Compiler.Emits A V h0 fs K n0 k0 (.ready false n k) (.ready false (n + 1) k)
      (Compiler.compileRead args) :=
  Compiler.Triple.ite _ (Compiler.Triple.raise _)
    (Compiler.Emits.addOpcode (Code.effect_READ K false n k))

theorem Compiler.Emits.compileQuote {A : Nat} {V : Nat → Prop} {h0 : Heap}
    {args : Src} (hall : Src.All V args) (fs : List Code.Frame) (K : Code.End)
    (n0 k0 n k : Nat) :
    Compiler.Emits A V h0 fs K n0 k0 (.ready false n k) (.ready false (n + 1) k)
      (Compiler.compileQuote args) := by
  unfold Compiler.compileQuote
  refine Compiler.Triple.ite _ (Compiler.Triple.raise _) ?_
  refine Compiler.Triple.bind (Compiler.Emits.addOpcode (Code.effect_LDC K false n k)) fun _ => ?_
  refine Compiler.Triple.bind (Compiler.Triple.carSrc hall) fun x =>
    Compiler.Triple.given fun hx => ?_
  refine Compiler.Triple.bind (Compiler.Emits.add_ldc hx.ptr_of) fun _ => ?_
  refine Compiler.Triple.bind (Compiler.Triple.cdrSrc hall) fun rest =>
    Compiler.Triple.given fun _ => ?_
  exact Compiler.Triple.ite _ (Compiler.Triple.raise _) (Compiler.Triple.pure _)

theorem Compiler.Emits.compileUnaryOperator {A : Nat} {V : Nat → Prop} {h0 : Heap}
    {f : Src → CM Unit} (hf : Compiler.Sound A V h0 f) (opcode : Int)
    (heff : ∀ K n k, Code.effect K opcode false (n + 1) k = some (.ready false (n + 1) k))
    {args : Src} (hall : Src.All V args) (fs : List Code.Frame) (K : Code.End)
    (n0 k0 n k : Nat) :
    Compiler.Emits A V h0 fs K n0 k0 (.ready false n k) (.ready false (n + 1) k)
      (Compiler.compileUnaryOperator f opcode args) := by
  unfold Compiler.compileUnaryOperator
  refine Compiler.Triple.bind (Compiler.Triple.carSrc hall) fun x =>
    Compiler.Triple.given fun hx => ?_
  refine Compiler.Triple.bind (hf x hx fs K n0 k0 n k) fun _ => ?_
  refine Compiler.Triple.bind (Compiler.Triple.cdrSrc hall) fun rest =>
    Compiler.Triple.given fun _ => ?_
  exact Compiler.Triple.ite _ (Compiler.Triple.raise _)
    (Compiler.Emits.addOpcode (heff K n k))

theorem Compiler.Emits.compileBinaryOperator {A : Nat} {V : Nat → Prop} {h0 : Heap}
    {f : Src → CM Unit} (hf : Compiler.Sound A V h0 f) (opcode : Int)
    (heff : ∀ K n k, Code.effect K opcode false (n + 2) k = some (.ready false (n + 1) k))
    {args : Src} (hall : Src.All V args) (fs : List Code.Frame) (K : Code.End)
    (n0 k0 n k : Nat) :
    Compiler.Emits A V h0 fs K n0 k0 (.ready false n k) (.ready false (n + 1) k)
      (Compiler.compileBinaryOperator f opcode args) := by
  unfold Compiler.compileBinaryOperator
  refine Compiler.Triple.bind (Compiler.Triple.Expand2 hall) fun x =>
    Compiler.Triple.given fun hx => ?_
  refine Compiler.Triple.bind (hf x.2 hx.2 fs K n0 k0 n k) fun _ => ?_
  refine Compiler.Triple.bind (hf x.1 hx.1 fs K n0 k0 (n + 1) k) fun _ => ?_
  exact Compiler.Emits.addOpcode (heff K n k)

theorem Compiler.Emits.compileIf {A : Nat} {V : Nat → Prop} {h0 : Heap}
    {f : Src → CM Unit} (hf : Compiler.Sound A V h0 f)
    {args : Src} (hall : Src.All V args) (fs : List Code.Frame) (K : Code.End)
    (n0 k0 n k : Nat) :
    Compiler.Emits A V h0 fs K n0 k0 (.ready false n k) (.ready false (n + 1) k)
      (Compiler.compileIf f args) := by
  unfold Compiler.compileIf
  refine Compiler.Triple.bind (Compiler.Triple.carSrc hall) fun c =>
    Compiler.Triple.given fun hc => ?_
  refine Compiler.Triple.bind (hf c hc fs K n0 k0 n k) fun _ => ?_
  refine Compiler.Triple.bind (Compiler.Triple.cdrSrc hall) fun args1 =>
    Compiler.Triple.given fun hall1 => ?_
  refine Compiler.Triple.bind (Compiler.Emits.addOpcode (Code.effect_SEL K false n k)) fun _ => ?_
  refine Compiler.Triple.bind (Compiler.Triple.enterNewCode (.join (n + 1) k) n k) fun _ => ?_
  refine Compiler.Triple.bind (Compiler.Triple.carSrc hall1) fun t =>
    Compiler.Triple.given fun ht => ?_
  refine Compiler.Triple.bind (hf t ht _ (.join (n + 1) k) n k n k) fun _ => ?_
  refine Compiler.Triple.bind (Compiler.Triple.cdrSrc hall1) fun args2 =>
    Compiler.Triple.given fun hall2 => ?_
  refine Compiler.Triple.bind
    (Compiler.Emits.addOpcode (Code.effect_JOIN false (n + 1) k)) fun _ => ?_
  refine Compiler.Triple.bind
    (Compiler.Triple.unroll_code (.sel1 n k)
      fun P h t r its hs hr => .sel0 hs hr (.nil _ _)) fun _ => ?_
  refine Compiler.Triple.bind (Compiler.Triple.enterNewCode (.join (n + 1) k) n k) fun _ => ?_
  refine Compiler.Triple.bind (Compiler.Triple.carSrc hall2) fun e =>
    Compiler.Triple.given fun he => ?_
  refine Compiler.Triple.bind (hf e he _ (.join (n + 1) k) n k n k) fun _ => ?_
  refine Compiler.Triple.bind
    (Compiler.Emits.addOpcode (Code.effect_JOIN false (n + 1) k)) fun _ => ?_
  refine Compiler.Triple.bind
    (Compiler.Triple.unroll_code (.ready false (n + 1) k)
      fun P h t r its hs hr => .sel1 hs hr (.nil _ _)) fun _ => ?_
  refine Compiler.Triple.bind (Compiler.Triple.cdrSrc hall2) fun rest =>
    Compiler.Triple.given fun _ => ?_
  exact Compiler.Triple.ite _ (Compiler.Triple.raise _) (Compiler.Triple.pure _)

theorem Compiler.Emits.compileLambda2 {A : Nat} {V : Nat → Prop} {h0 : Heap}
    {f : Src → CM Unit} (hf : Compiler.Sound A V h0 f) (argNames : Src)
    {body : Src} (hall : Src.All V body) (fs : List Code.Frame) (K : Code.End)
    (n0 k0 n k : Nat) :
    Compiler.Emits A V h0 fs K n0 k0 (.ready false n k) (.ready true (n + 1) k)
      (Compiler.compileLambda2 f argNames body) := by
  unfold Compiler.compileLambda2
  refine Compiler.Triple.bind (Compiler.Emits.addOpcode (Code.effect_LDF K false n k)) fun _ => ?_
  refine Compiler.Triple.bind (Compiler.Triple.enterNewCode .rtn 0 0) fun _ => ?_
  refine Compiler.Triple.bind (Compiler.Triple.enterNewEnv argNames) fun _ => ?_
  refine Compiler.Triple.bind (hf body hall _ .rtn 0 0 0 0) fun _ => ?_
  refine Compiler.Triple.bind (Compiler.Emits.addOpcode (Code.effect_RTN false 0 0)) fun _ => ?_
  refine Compiler.Triple.bind
    (Compiler.Triple.unroll_code (.ready true (n + 1) k)
      fun P h t r its hs hr => .ldf hs hr (.nil _ _)) fun _ => ?_
  exact Compiler.Triple.unrollEnvironmentMap

theorem Compiler.Emits.compileLambda {A : Nat} {V : Nat → Prop} {h0 : Heap}
    {f : Src → CM Unit} (hf : Compiler.Sound A V h0 f)
    {args : Src} (hall : Src.All V args) (fs : List Code.Frame) (K : Code.End)
    (n0 k0 n k : Nat) :
    Compiler.Emits A V h0 fs K n0 k0 (.ready false n k) (.ready true (n + 1) k)
      (Compiler.compileLambda f args) := by
  unfold Compiler.compileLambda
  refine Compiler.Triple.bind (Compiler.Triple.Expand2 hall) fun x =>
    Compiler.Triple.given fun hx => ?_
  exact Compiler.Emits.compileLambda2 hf x.1 hx.2 fs K n0 k0 n k

theorem Compiler.Emits.compileCallArguments {A : Nat} {V : Nat → Prop} {h0 : Heap}
    {f : Src → CM Unit} (hf : Compiler.Sound A V h0 f) (fs : List Code.Frame) (K : Code.End)
    (n0 k0 n k : Nat) : ∀ (args : Src), Src.All V args →
    Compiler.Emits A V h0 fs K n0 k0 (.ready false (n + 1) k) (.ready false (n + 1) k)
      (Compiler.compileCallArguments f args)
  | .cons p a d, hall => by
    rw [Compiler.compileCallArguments_cons]
    refine Compiler.Triple.ite _ (Compiler.Triple.pure _) ?_
    refine Compiler.Triple.bind
      (Compiler.Emits.compileCallArguments hf fs K n0 k0 n k d hall.2.2) fun _ => ?_
    refine Compiler.Triple.bind (hf a hall.2.1 fs K n0 k0 (n + 1) k) fun _ => ?_
    exact Compiler.Emits.addOpcode (Code.effect_CONS K false n k)
  | .integer p, _ => by
    unfold Compiler.compileCallArguments
    exact Compiler.Triple.ite _ (Compiler.Triple.pure _) (Compiler.Triple.raise _)
  | .symbol p name, _ => by
    unfold Compiler.compileCallArguments
    exact Compiler.Triple.ite _ (Compiler.Triple.pure _) (Compiler.Triple.raise _)
  | .closure p, _ => by
    unfold Compiler.compileCallArguments
    exact Compiler.Triple.ite _ (Compiler.Triple.pure _) (Compiler.Triple.raise _)

theorem Compiler.Emits.compileFunctionArgs {A : Nat} {V : Nat → Prop} {h0 : Heap}
    {f : Src → CM Unit} (hf : Compiler.Sound A V h0 f)
    {args : Src} (hall : Src.All V args) (fs : List Code.Frame) (K : Code.End)
    (n0 k0 n k : Nat) :
    Compiler.Emits A V h0 fs K n0 k0 (.ready false n k) (.ready false (n + 1) k)
      (Compiler.compileFunctionArgs f args) :=
  Compiler.Triple.bind (Compiler.Emits.addOpcode (Code.effect_NIL K false n k)) fun _ =>
    Compiler.Emits.compileCallArguments hf fs K n0 k0 n k args hall

theorem Compiler.Emits.compileApply {A : Nat} {V : Nat → Prop} {h0 : Heap}
    {f : Src → CM Unit} (hf : Compiler.Sound A V h0 f)
    {args : Src} (hall : Src.All V args) (fs : List Code.Frame) (K : Code.End)
    (n0 k0 n k : Nat) :
    Compiler.Emits A V h0 fs K n0 k0 (.ready false n k) (.ready false (n + 1) k)
      (Compiler.compileApply f args) := by
  unfold Compiler.compileApply
  refine Compiler.Triple.bind (Compiler.Triple.carSrc hall) fun func =>
    Compiler.Triple.given fun hfunc => ?_
  refine Compiler.Triple.bind (Compiler.Triple.cdrSrc hall) fun args1 =>
    Compiler.Triple.given fun hall1 => ?_
  refine Compiler.Triple.bind (Compiler.Triple.cdrSrc hall1) fun rest =>
    Compiler.Triple.given fun _ => ?_
  refine Compiler.Triple.ite _ (Compiler.Triple.raise _) ?_
  refine Compiler.Triple.bind (Compiler.Emits.compileFunctionArgs hf hall1 fs K n0 k0 n k)
    fun _ => ?_
  refine Compiler.Triple.bind (hf func hfunc fs K n0 k0 (n + 1) k) fun _ => ?_
  exact Compiler.Emits.addOpcode (Code.effect_AP K false n k)

theorem Compiler.Emits.compileLet {A : Nat} {V : Nat → Prop} {h0 : Heap}
    {f : Src → CM Unit} (hf : Compiler.Sound A V h0 f)
    {args : Src} (hall : Src.All V args) (fs : List Code.Frame) (K : Code.End)
    (n0 k0 n k : Nat) :
    Compiler.Emits A V h0 fs K n0 k0 (.ready false n k) (.ready false (n + 1) k)
      (Compiler.compileLet f args) := by
  unfold Compiler.compileLet
  refine Compiler.Triple.bind (Compiler.Triple.Expand3 hall) fun x =>
    Compiler.Triple.given fun hx => ?_
  refine Compiler.Triple.bind (Compiler.Emits.compileFunctionArgs hf hx.2.1 fs K n0 k0 n k)
    fun _ => ?_
  refine Compiler.Triple.bind (Compiler.Emits.compileLambda2 hf x.1 hx.2.2 fs K n0 k0 (n + 1) k)
    fun _ => ?_
  exact Compiler.Emits.addOpcode (Code.effect_AP K true n k)

theorem Compiler.Emits.compileLetrec {A : Nat} {V : Nat → Prop} {h0 : Heap}
    {f : Src → CM Unit} (hf : Compiler.Sound A V h0 f)
    {args : Src} (hall : Src.All V args) (fs : List Code.Frame) (K : Code.End)
    (n0 k0 n k : Nat) :
    Compiler.Emits A V h0 fs K n0 k0 (.ready false n k) (.ready false (n + 1) k)
      (Compiler.compileLetrec f args) := by
  unfold Compiler.compileLetrec
  refine Compiler.Triple.bind (Compiler.Emits.addOpcode (Code.effect_DUM K false n k)) fun _ => ?_
  refine Compiler.Triple.bind (Compiler.Triple.Expand3 hall) fun x =>
    Compiler.Triple.given fun hx => ?_
  refine Compiler.Triple.bind (Compiler.Triple.enterNewEnv x.1) fun _ => ?_
  refine Compiler.Triple.bind
    (Compiler.Emits.compileFunctionArgs hf hx.2.1 fs K n0 k0 n (k + 1)) fun _ => ?_
  refine Compiler.Triple.bind
    (Compiler.Emits.compileLambda2 hf x.1 hx.2.2 fs K n0 k0 (n + 1) (k + 1)) fun _ => ?_
  refine Compiler.Triple.bind (Compiler.Emits.addOpcode (Code.effect_RAP K n k)) fun _ => ?_
  exact Compiler.Triple.unrollEnvironmentMap

theorem Compiler.Emits.compilePrognLoop {A : Nat} {V : Nat → Prop} {h0 : Heap}
    {f : Src → CM Unit} (hf : Compiler.Sound A V h0 f) (fs : List Code.Frame) (K : Code.End)
    (n0 k0 n k : Nat) : ∀ (args : Src), Src.All V args →
    Compiler.Emits A V h0 fs K n0 k0 (.ready false n k) (.ready false (n + 1) k)
      (Compiler.compilePrognLoop f args)
  | .cons p a rest, hall => by
    rw [Compiler.compilePrognLoop_cons]
    refine Compiler.Triple.bind (hf a hall.2.1 fs K n0 k0 n k) fun _ => ?_
    refine Compiler.Triple.ite _ (Compiler.Triple.pure _) ?_
    refine Compiler.Triple.bind (Compiler.Emits.addOpcode (Code.effect_POP K false n k))
      fun _ => ?_
    exact Compiler.Emits.compilePrognLoop hf fs K n0 k0 n k rest hall.2.2
  | .integer p, _ => by
    unfold Compiler.compilePrognLoop
    exact Compiler.Triple.fail _
  | .symbol p name, _ => by
    unfold Compiler.compilePrognLoop
    exact Compiler.Triple.fail _
  | .closure p, _ => by
    unfold Compiler.compilePrognLoop
    exact Compiler.Triple.fail _

theorem Compiler.Emits.compileProgn {A : Nat} {V : Nat → Prop} {h0 : Heap}
    {f : Src → CM Unit} (hf : Compiler.Sound A V h0 f)
    {args : Src} (hall : Src.All V args) (fs : List Code.Frame) (K : Code.End)
    (n0 k0 n k : Nat) :
    Compiler.Emits A V h0 fs K n0 k0 (.ready false n k) (.ready false (n + 1) k)
      (Compiler.compileProgn f args) :=
  Compiler.Triple.ite _ (Compiler.Emits.addOpcode (Code.effect_NIL K false n k))
    (Compiler.Emits.compilePrognLoop hf fs K n0 k0 n k args hall)

theorem Compiler.Emits.compileDefun {A : Nat} {V : Nat → Prop} {h0 : Heap}
    {f : Src → CM Unit} (hf : Compiler.Sound A V h0 f)
    {args : Src} (hall : Src.All V args) (fs : List Code.Frame) (K : Code.End)
    (n0 k0 n k : Nat) :
    Compiler.Emits A V h0 fs K n0 k0 (.ready false n k) (.ready false (n + 1) k)
      (Compiler.compileDefun f args) := by
  unfold Compiler.compileDefun
  refine Compiler.Triple.bind Compiler.Triple.codeHasParent fun b => ?_
  refine Compiler.Triple.ite _ (Compiler.Triple.raise _) ?_
  refine Compiler.Triple.bind (Compiler.Triple.carSrc hall) fun fname =>
    Compiler.Triple.given fun _ => ?_
  cases fname with
  | symbol q name =>
    refine Compiler.Triple.bind (Compiler.Triple.addSymbol name) fun _ => ?_
    refine Compiler.Triple.bind (Compiler.Triple.cdrSrc hall) fun args1 =>
      Compiler.Triple.given fun hall1 => ?_
    refine Compiler.Triple.bind (Compiler.Emits.compileLambda hf hall1 fs K n0 k0 n k)
      fun _ => ?_
    exact Compiler.Emits.addOpcode (Code.effect_DEFUN K true n k)
  | _ => exact Compiler.Triple.raise _

theorem Compiler.Emits.compileCall {A : Nat} {V : Nat → Prop} {h0 : Heap}
    {f : Src → CM Unit} (hf : Compiler.Sound A V h0 f)
    {code : Src} (hall : Src.All V code) (fs : List Code.Frame) (K : Code.End)
    (n0 k0 n k : Nat) :
    Compiler.Emits A V h0 fs K n0 k0 (.ready false n k) (.ready false (n + 1) k)
      (Compiler.compileCall f code) := by
  unfold Compiler.compileCall
  refine Compiler.Triple.bind (Compiler.Triple.car hall) fun fname =>
    Compiler.Triple.given fun hfname => ?_
  refine Compiler.Triple.bind (Compiler.Triple.cdr hall) fun args =>
    Compiler.Triple.given fun hargs => ?_
  have hgen : Compiler.Emits A V h0 fs K n0 k0 (.ready false n k) (.ready false (n + 1) k) (do
      Compiler.compileFunctionArgs f args
      f fname
      Code.addOpcode Instruction.AP) :=
    Compiler.Triple.bind (Compiler.Emits.compileFunctionArgs hf hargs fs K n0 k0 n k) fun _ =>
      Compiler.Triple.bind (hf fname hfname fs K n0 k0 (n + 1) k) fun _ =>
        Compiler.Emits.addOpcode (Code.effect_AP K false n k)
  refine Compiler.Triple.ite _ ?_ hgen
  refine Compiler.Triple.ite _ (Compiler.Emits.compileBinaryOperator hf _
    (fun K n k => Code.effect_CONS K false n k) hargs fs K n0 k0 n k) ?_
  refine Compiler.Triple.ite _ (Compiler.Emits.compileUnaryOperator hf _
    (fun K n k => Code.effect_CAR K false n k) hargs fs K n0 k0 n k) ?_
  refine Compiler.Triple.ite _ (Compiler.Emits.compileUnaryOperator hf _
    (fun K n k => Code.effect_CDR K false n k) hargs fs K n0 k0 n k) ?_
  refine Compiler.Triple.ite _ (Compiler.Emits.compileUnaryOperator hf _
    (fun K n k => Code.effect_CONSP K false n k) hargs fs K n0 k0 n k) ?_
  refine Compiler.Triple.ite _ (Compiler.Emits.compileBinaryOperator hf _
    (fun K n k => Code.effect_ADD K false n k) hargs fs K n0 k0 n k) ?_
  refine Compiler.Triple.ite _ (Compiler.Emits.compileBinaryOperator hf _
    (fun K n k => Code.effect_SUB K false n k) hargs fs K n0 k0 n k) ?_
  refine Compiler.Triple.ite _ (Compiler.Emits.compileBinaryOperator hf _
    (fun K n k => Code.effect_MUL K false n k) hargs fs K n0 k0 n k) ?_
  refine Compiler.Triple.ite _ (Compiler.Emits.compileBinaryOperator hf _
    (fun K n k => Code.effect_DIV K false n k) hargs fs K n0 k0 n k) ?_
  refine Compiler.Triple.ite _ (Compiler.Emits.compileBinaryOperator hf _
    (fun K n k => Code.effect_EQ K false n k) hargs fs K n0 k0 n k) ?_
  refine Compiler.Triple.ite _ (Compiler.Emits.compileBinaryOperator hf _
    (fun K n k => Code.effect_LT K false n k) hargs fs K n0 k0 n k) ?_
  refine Compiler.Triple.ite _ (Compiler.Emits.compileBinaryOperator hf _
    (fun K n k => Code.effect_GT K false n k) hargs fs K n0 k0 n k) ?_
  refine Compiler.Triple.ite _ (Compiler.Emits.compileUnaryOperator hf _
    (fun K n k => Code.effect_PRINT K false n k) hargs fs K n0 k0 n k) ?_
  refine Compiler.Triple.ite _ (Compiler.Emits.compileRead _ fs K n0 k0 n k) ?_
  refine Compiler.Triple.ite _ (Compiler.Emits.compileIf hf hargs fs K n0 k0 n k) ?_
  refine Compiler.Triple.ite _ (Compiler.Emits.compileLambda hf hargs fs K n0 k0 n k).forget_loaded ?_
  refine Compiler.Triple.ite _ (Compiler.Emits.compileQuote hargs fs K n0 k0 n k) ?_
  refine Compiler.Triple.ite _ (Compiler.Emits.compileApply hf hargs fs K n0 k0 n k) ?_
  refine Compiler.Triple.ite _ (Compiler.Emits.compileDefun hf hargs fs K n0 k0 n k) ?_
  refine Compiler.Triple.ite _ (Compiler.Emits.compileLet hf hargs fs K n0 k0 n k) ?_
  refine Compiler.Triple.ite _ (Compiler.Emits.compileLetrec hf hargs fs K n0 k0 n k) ?_
  exact Compiler.Triple.ite _ (Compiler.Emits.compileProgn hf hargs fs K n0 k0 n k) hgen

theorem Compiler.Sound.compileBody {A : Nat} {V : Nat → Prop} {h0 : Heap} (hT : V T)
    {f : Src → CM Unit} (hf : Compiler.Sound A V h0 f) :
    Compiler.Sound A V h0 (Compiler.compileBody f) := by
  intro code hall fs K n0 k0 n k
  cases code with
  | integer q => exact Compiler.Emits.compileInteger hall fs K n0 k0 n k
  | symbol p name =>
    exact Compiler.Triple.ite _ (Compiler.Emits.compileNil fs K n0 k0 n k)
      (Compiler.Triple.ite _ (Compiler.Emits.compileTrue hT fs K n0 k0 n k)
        (Compiler.Emits.compileVariableRead _ fs K n0 k0 n k))
  | cons p a d => exact Compiler.Emits.compileCall hf hall fs K n0 k0 n k
  | closure q => exact Compiler.Triple.fail _

theorem Compiler.Sound.compileFuel {A : Nat} {V : Nat → Prop} {h0 : Heap} (hT : V T) :
    ∀ (n : Nat), Compiler.Sound A V h0 (Compiler.compileFuel n)
  | 0 => fun _ _ _ _ _ _ _ _ => Compiler.Triple.fail _
  | n + 1 => Compiler.Sound.compileBody hT (Compiler.Sound.compileFuel hT n)

theorem Compiler.Sound.compile {A : Nat} {V : Nat → Prop} {h0 : Heap} (hT : V T) :
    Compiler.Sound A V h0 Compiler.compile :=
  fun c hall fs K n0 k0 n k => Compiler.Sound.compileFuel hT c.depth c hall fs K n0 k0 n k

theorem Heap.Plain.alloc_plain {A : Nat} {h : Heap} (hp : h.Plain A) (c : Cell)
    (hc : ∀ b e, c ≠ .closure b e) : (h.alloc c).2.Plain A := by
  intro q b e hq
  rw [Heap.get?_alloc] at hq
  split at hq
  · simp only [Option.some.injEq] at hq
    exact absurd hq (hc b e)
  · exact hp q b e hq

theorem Heap.Plain.setCdr_plain {A : Nat} {h h2 : Heap} {p v : Nat} (hp : h.Plain A)
    (hs : h.setCdr p v = .ok h2) : h2.Plain A := by
  unfold Heap.setCdr at hs
  split at hs
  · simp only [Except.ok.injEq] at hs
    subst hs
    intro q b e hq
    rw [Heap.get?_set] at hq
    split at hq
    · simp at hq
    · exact hp q b e hq
  · cases hs

theorem SecdList.append_plain {A : Nat} {l : SecdList} {v : Nat} {h : Heap}
    {r : SecdList × Heap} (hp : h.Plain A) (hr : l.append v h = .ok r) : r.2.Plain A := by
  unfold SecdList.append at hr
  split at hr
  · simp only [Except.ok.injEq] at hr
    subst hr
    unfold SecdList.prepend
    split <;> exact hp.alloc_plain _ (by simp)
  · simp only at hr
    cases hs : (h.alloc (Cell.cons v Nil)).2.setCdr l.last_ (h.alloc (Cell.cons v Nil)).1 with
    | ok h2 =>
      rw [hs] at hr
      simp only [Except.ok.injEq] at hr
      subst hr
      exact (hp.alloc_plain _ (by simp)).setCdr_plain hs
    | error f =>
      rw [hs] at hr
      cases hr

theorem Compiler.keeps_add_plain (A : Nat) (value : Nat) :
    Compiler.Keeps (Compiler.Plain A) (Code.add value) := by
  intro st hst
  constructor
  · intro r st1 h
    unfold Code.add at h
    split at h
    · cases h
    · split at h
      · rename_i r1 hr
        simp only [Res.ok.injEq, true_and] at h
        subst h
        exact SecdList.append_plain hst hr
      · cases h
  · intro e st1 h
    exact absurd h (Code.add_not_thrown value st st1 e)

theorem Compiler.keeps_newInteger_plain (A : Nat) (v : Int) :
    Compiler.Keeps (Compiler.Plain A) (Compiler.newInteger v) := by
  intro st hst
  constructor
  · intro r st1 h
    simp only [Compiler.newInteger, Res.ok.injEq] at h
    rw [← h.2]
    exact hst.alloc_plain _ (by simp)
  · intro e st1 h
    simp [Compiler.newInteger] at h

theorem Compiler.keeps_newCons_plain (A : Nat) (a d : Nat) :
    Compiler.Keeps (Compiler.Plain A) (Compiler.newCons a d) := by
  intro st hst
  constructor
  · intro r st1 h
    simp only [Compiler.newCons, Res.ok.injEq] at h
    rw [← h.2]
    exact hst.alloc_plain _ (by simp)
  · intro e st1 h
    simp [Compiler.newCons] at h

theorem Compiler.keeps_indexOf_plain (A : Nat) (symbol : Src) :
    Compiler.Keeps (Compiler.Plain A) (EnvironmentMap.indexOf symbol) := by
  intro st hst
  have hnew : ∀ x : Int × Int, Compiler.Keeps (Compiler.Plain A)
      (do let d ← Compiler.newInteger x.1
          let o ← Compiler.newInteger x.2
          Compiler.newCons d o : CM Nat) := fun x =>
    Compiler.keeps_bind (Compiler.keeps_newInteger_plain A _) fun _ =>
      Compiler.keeps_bind (Compiler.keeps_newInteger_plain A _) fun _ =>
        Compiler.keeps_newCons_plain A _ _
  cases symbol with
  | symbol p name =>
    unfold EnvironmentMap.indexOf
    cases hs : EnvironmentMap.search name st.envMap_ 0 with
    | none =>
      constructor
      · intro r st1 h
        simp [hs] at h
      · intro e st1 h
        simp only [hs, Res.thrown.injEq] at h
        exact h.2 ▸ hst
    | some x =>
      obtain ⟨depth, i⟩ := x
      have hx := hnew (depth, i) st hst
      constructor
      · intro r st1 h
        simp only [hs] at h
        exact hx.1 r st1 h
      · intro e st1 h
        simp only [hs] at h
        exact hx.2 e st1 h
  | _ =>
    constructor
    · intro r st1 h
      simp [EnvironmentMap.indexOf] at h
    · intro e st1 h
      simp [EnvironmentMap.indexOf] at h

theorem Compiler.keeps_addSymbols_plain (A : Nat) : ∀ names : Src,
    Compiler.Keeps (Compiler.Plain A) (Compiler.addSymbols names)
  | .cons p arg names => by
    have ih := Compiler.keeps_addSymbols_plain A names
    intro st hst
    unfold Compiler.addSymbols
    by_cases hp : p = Nil
    · simp only [hp, if_true]
      exact Compiler.keeps_pure _ () st hst
    · simp only [hp, if_false]
      cases arg with
      | symbol q name =>
        simp only [Src.isSymbol, Bool.not_true, Bool.false_eq_true, if_false]
        cases he : st.envMap_ with
        | nil =>
          simp only
          exact Compiler.keeps_fail _ Fault.assertion st hst
        | cons e parents =>
          simp only
          exact ih _ hst
      | _ =>
        simp only [Src.isSymbol, Bool.not_false, if_true]
        exact Compiler.keeps_raise _ _ st hst
  | .integer q => by
    intro st hst
    unfold Compiler.addSymbols
    split
    · exact Compiler.keeps_pure _ () st hst
    · exact Compiler.keeps_fail _ Fault.assertion st hst
  | .symbol q name => by
    intro st hst
    unfold Compiler.addSymbols
    split
    · exact Compiler.keeps_pure _ () st hst
    · exact Compiler.keeps_fail _ Fault.assertion st hst
  | .closure q => by
    intro st hst
    unfold Compiler.addSymbols
    split
    · exact Compiler.keeps_pure _ () st hst
    · exact Compiler.keeps_fail _ Fault.assertion st hst

/-- The operations of the compiler make no closure. -/
theorem Compiler.stable_plain (A : Nat) : Compiler.Stable (Compiler.Plain A) where
  add := Compiler.keeps_add_plain A
  addOpcode := fun _ =>
    Compiler.keeps_bind (Compiler.keeps_newInteger_plain A _) fun _ =>
      Compiler.keeps_add_plain A _
  indexOf := Compiler.keeps_indexOf_plain A
  enterNewEnv := fun names st hst => Compiler.keeps_addSymbols_plain A names _ hst
  unrollEnvironmentMap := by
    intro st hst
    constructor
    · intro r st1 h
      unfold Compiler.unrollEnvironmentMap at h
      split at h
      · simp only [Res.ok.injEq] at h
        rw [← h.2]
        exact hst
      · simp at h
    · intro e st1 h
      unfold Compiler.unrollEnvironmentMap at h
      split at h <;> simp at h
  enterNewCode := by
    intro st hst
    constructor
    · intro r st1 h
      simp only [Compiler.enterNewCode, Res.ok.injEq] at h
      rw [← h.2]
      exact hst
    · intro e st1 h
      simp [Compiler.enterNewCode] at h
  unrollAndAppendCode := by
    intro st hst
    unfold Compiler.unrollAndAppendCode
    split
    · exact Compiler.keeps_add_plain A _ _ hst
    · exact Compiler.keeps_fail _ _ st hst
  addSymbol := by
    intro name st hst
    constructor
    · intro r st1 h
      unfold Compiler.addSymbol at h
      split at h
      · simp at h
      · simp only [Res.ok.injEq] at h
        rw [← h.2]
        exact hst
    · intro e st1 h
      unfold Compiler.addSymbol at h
      split at h <;> simp at h

/-- New cells that are code: integers and pairs that nothing overwrites. -/
theorem HeapOK.growCode {G : Nat} {g : Regions} {h : Heap} (ok : HeapOK G g h) (h1 : Heap)
    (hsize : h.size ≤ h1.size) (hv : h1.Valid)
    (hold : ∀ p, p < h.size → h1.get? p = h.get? p)
    (hcells : ∀ p b e, h1.get? p = some (.closure b e) → p < h.size) :
    HeapOK G ⟨fun p => g.ctl p ∨ (h.size ≤ p ∧ p < h1.size), g.env⟩ h1 ∧
      g.Ext h ⟨fun p => g.ctl p ∨ (h.size ≤ p ∧ p < h1.size), g.env⟩ h1 := by
  have hx : g.Ext h ⟨fun p => g.ctl p ∨ (h.size ≤ p ∧ p < h1.size), g.env⟩ h1 := by
    refine ⟨hsize, fun p hp => ⟨Or.inl hp, hold p (ok.ctl_lt p hp)⟩,
      fun p hp => ⟨hp, fun a b hc => ⟨a, ?_⟩⟩, fun p hlt hp => ?_, fun p _ hp => hp⟩
    · rw [hold p (ok.env_lt p hp), hc]
    · rcases hp with hp | hp
      · exact hp
      · omega
  refine ⟨ok.update hx hv ?_ ?_ ?_ ?_ ?_, hx⟩
  · rintro p (hp | hp)
    · have := ok.ctl_lt p hp
      omega
    · exact hp.2
  · intro p hp
    have := ok.env_lt p hp
    omega
  · rintro p (hp | hp) he
    · exact ok.disjoint p hp he
    · have := ok.env_lt p he
      omega
  · intro p hp hle
    have := ok.env_lt p hp
    omega
  · intro p c hc
    by_cases hp : p < h.size
    · rw [hold p hp] at hc
      exact Or.inl hc
    · refine Or.inr ⟨fun he => ?_, fun a b hv _ => ?_, fun b e hcl => ?_⟩
      · have := ok.env_lt p he
        omega
      · exact absurd (Or.inr ⟨by omega, hv.1⟩) hv.2.1
      · rw [hcl] at hc
        exact absurd (hcells p b e hc) hp

/-- The code that `compileSource` returns is a program: every instruction
finds its operands, and at the end exactly one value is on `S`.  The cells of
the code are new, and the compilation makes no closure and leaves the old
cells alone. -/
theorem Compiler.compileSource_typed {V : Nat → Prop} {code : Src} {st st1 : Compiler} {c : Nat}
    (hv : st.heap.Valid) (hT : V T) (hall : Src.All V code)
    (h : Compiler.compileSource code st = .ok c st1) :
    st1.heap.Valid ∧ st.heap.size ≤ st1.heap.size ∧
      (∀ q, q < st.heap.size → st1.heap.get? q = st.heap.get? q) ∧
      st1.heap.Plain st.heap.size ∧
      Code.Rest (fun p => st.heap.size ≤ p ∧ p < st1.heap.size) V st1.heap .top
        (.ready false 0 0) c := by
  unfold Compiler.compileSource at h
  split at h
  · rename_i m henv hcode
    cases hc : Compiler.compile code { st with code_ := [SecdList.empty] } with
    | ok r st2 =>
      rw [hc] at h
      simp only at h
      have h0 : Compiler.Typing st.heap.size V st.heap [⟨.top, 0, 0, .ready false 0 0⟩]
          { st with code_ := [SecdList.empty] } :=
        ⟨hv, Nat.le_refl _, fun _ _ => rfl, st.heap.size, [], Nat.le_refl _, Nat.le_refl _,
          Or.inl ⟨rfl, rfl, rfl⟩, .nil _ _, trivial⟩
      have h1 := Compiler.Sound.compile hT code hall [] .top 0 0 0 0 _ h0 r st2 hc
      have hplain0 : Compiler.Plain st.heap.size { st with code_ := [SecdList.empty] } :=
        fun q b e hq => hv.1 q (by rw [hq]; rfl)
      have h2 := ((Compiler.keeps_compile (Compiler.stable_plain st.heap.size) code) _
        hplain0).1 r st2 hc
      obtain ⟨hv2, hA, hag, hstack⟩ := h1
      cases hcode2 : st2.code_ with
      | nil =>
        rw [hcode2] at hstack
        exact hstack.elim
      | cons b rest =>
        cases rest with
        | cons b2 rest2 =>
          rw [hcode2] at hstack
          obtain ⟨_, _, _, _, _, _, hrest⟩ := hstack
          exact hrest.elim
        | nil =>
          rw [hcode2] at hstack h
          simp only [Res.ok.injEq] at h
          obtain ⟨rfl, rfl⟩ := h
          obtain ⟨σ, items, hAσ, hσ, hopen, hrun, _⟩ := hstack
          dsimp only at hrun
          refine ⟨hv2, hA, hag, h2, ?_⟩
          rcases hopen with ⟨_, _, rfl⟩ | ⟨pre, x, rfl, hseg, hP, hlast⟩
          · cases hrun.start_nil
          · have hseg1 := IsSeg.snoc_same hP hlast pre _ hseg
            exact ⟨pre ++ [x], Nil, _,
              IsSeg.mono_seg (fun p hp => ⟨⟨by omega, hp.2⟩, rfl⟩) _ _ _ hseg1, hrun,
              ⟨rfl, rfl⟩⟩
    | thrown e st2 =>
      rw [hc] at h
      cases h
    | fault f =>
      rw [hc] at h
      cases h
  · cases h

theorem Code.Rest.top_cons {P V : Nat → Prop} {h : Heap} {c : Nat}
    (hr : Code.Rest P V h .top (.ready false 0 0) c) :
    ∃ x d, h.get? c = some (.cons x d) := by
  obtain ⟨items, r, τf, hs, hrun, hf⟩ := hr
  cases items with
  | nil =>
    cases hrun.start_nil
    exact absurd hf.1 (by decide)
  | cons x xs =>
    obtain ⟨_, d, hd, _⟩ := hs
    exact ⟨x, d, hd⟩

/-- The code of a program compiled between two programs, loaded into `C`, is
a state that the invariant of the machine holds in. -/
theorem Runtime.Good.compiled {G : Nat} {g : Regions} {rt rt1 : Runtime} {source : Src}
    {code : Nat} (hgood : Runtime.Good G g rt) (hsrc : Src.All (g.val rt.heap) source)
    (hc : Runtime.compile source rt = .ok code rt1) :
    (∃ g1, Runtime.Pieces G g1 .top (.ready false 0 0) 0 0 { rt1 with c_ := code }) ∧
      Heap.Grow rt.heap rt1.heap ∧ rt1.c_ = Nil ∧ Stack.valid rt1.heap code = true := by
  unfold Runtime.compile at hc
  cases hcs : Compiler.compileSource source ⟨rt.heap, rt.code_, rt.envMap_⟩ with
  | ok c st =>
    rw [hcs] at hc
    simp only [Res.ok.injEq] at hc
    obtain ⟨rfl, rfl⟩ := hc
    obtain ⟨hv, hsize, hag, hplain, hrest⟩ :=
      Compiler.compileSource_typed hgood.ok.valid hgood.ok.t hsrc hcs
    dsimp only at hv hsize hag hplain hrest
    obtain ⟨ok1, hx⟩ := hgood.ok.growCode st.heap hsize hv hag hplain
    obtain ⟨x, d, hcell⟩ := hrest.top_cons
    refine ⟨⟨_, ok1, ?_, ?_, ?_, ?_⟩, ⟨hsize, hag⟩, hgood.c, ?_⟩
    · exact hrest.mono_rest (fun p hp => ⟨Or.inr hp, rfl⟩) fun _ hval => hx.val hval
    · show Runtime.SList _ _ rt.s_ 0
      rw [hgood.s]
      rfl
    · show Runtime.Dump _ _ rt.d_ .top
      rw [hgood.d]
      exact .top
    · show Regions.env _ rt.e_
      rw [hgood.e]
      exact ok1.global
    · simp [Stack.valid, Heap.isCons, hcell]
  | thrown e st =>
    rw [hcs] at hc
    cases hc
  | fault f =>
    rw [hcs] at hc
    cases hc

/-- When the machine has consumed all of `C`, exactly one value is on `S`. -/
theorem Runtime.Inv.finish {G : Nat} {rt : Runtime} (hinv : Runtime.Inv G rt)
    (hc : rt.c_ = Nil) : ∃ v, rt.heap.get? rt.s_ = some (.cons v Nil) := by
  obtain ⟨g, K, fl, n, k, hp, _⟩ := hinv
  have hcode := hp.code
  rw [hc] at hcode
  obtain ⟨rfl, rfl⟩ := hcode.stop hp.ok.valid
  obtain ⟨_, v, d, hcell, _, hd⟩ := hp.stack
  have hd0 : d = Nil := hd
  subst hd0
  exact ⟨v, hcell⟩

theorem Runtime.runBody_ok {fuel code v : Nat} {rt1 rt2 : Runtime} (hc : rt1.c_ = Nil)
    (hvalid : Stack.valid rt1.heap code = true)
    (hl : Runtime.loop fuel { rt1 with c_ := code } = .ok () rt2)
    (hs : rt2.heap.get? rt2.s_ = some (.cons v Nil)) (hnil : rt2.s_ ≠ Nil) :
    Runtime.runBody fuel code rt1 = .ok v { rt2 with s_ := Nil } := by
  simp [Runtime.runBody, hc, assert, Runtime.setC, hvalid, hl, Runtime.popS, hs, hnil]

theorem Runtime.runBody_thrown {fuel code : Nat} {rt1 rt2 : Runtime} {e : Error}
    (h : Runtime.runBody fuel code rt1 = .thrown e rt2) :
    Runtime.loop fuel { rt1 with c_ := code } = .thrown e rt2 := by
  unfold Runtime.runBody at h
  rcases (M.bind_thrown_iff _ _ _ _ _).1 h with h1 | ⟨x, s1, h1, h2⟩
  · cases h1
  · simp only [Res.ok.injEq] at h1
    obtain ⟨rfl, rfl⟩ := h1
    rcases (M.bind_thrown_iff _ _ _ _ _).1 h2 with h3 | ⟨_, s2, h3, h4⟩
    · exact (nothrow_assert _).never _ _ _ h3 |>.elim
    · obtain ⟨_, rfl⟩ := assert_ok h3
      rcases (M.bind_thrown_iff _ _ _ _ _).1 h4 with h5 | ⟨_, s3, h5, h6⟩
      · exact (nothrow_setC _).never _ _ _ h5 |>.elim
      · obtain rfl := Runtime.setC_ok h5
        rcases (M.bind_thrown_iff _ _ _ _ _).1 h6 with h7 | ⟨_, s4, h7, h8⟩
        · exact h7
        · exfalso
          rcases (M.bind_thrown_iff _ _ _ _ _).1 h8 with h9 | ⟨x1, s5, h9, h10⟩
          · cases h9
          · rcases (M.bind_thrown_iff _ _ _ _ _).1 h10 with h11 | ⟨_, s6, h11, h12⟩
            · exact (nothrow_assert _).never _ _ _ h11
            · rcases (M.bind_thrown_iff _ _ _ _ _).1 h12 with h13 | ⟨_, s7, h13, h14⟩
              · exact nothrow_popS.never _ _ _ h13
              · rcases (M.bind_thrown_iff _ _ _ _ _).1 h14 with h15 | ⟨_, s8, h15, h16⟩
                · cases h15
                · rcases (M.bind_thrown_iff _ _ _ _ _).1 h16 with h17 | ⟨_, s9, h17, h18⟩
                  · exact (nothrow_assert _).never _ _ _ h17
                  · cases h18

theorem HeapOK.nthCdr_global {G : Nat} {g : Regions} {h : Heap} (ok : HeapOK G g h) :
    ∀ (b e : Nat), e < b → g.env e → ∃ n, h.nthCdr n e = some G
  | 0, _, hlt, _ => absurd hlt (Nat.not_lt_zero _)
  | b + 1, e, hlt, he => by
    obtain ⟨a, d, hc, _, hd⟩ := ok.envCell e he
    rcases hd with ⟨rfl, _⟩ | ⟨_, hde, hdlt⟩
    · exact ⟨0, rfl⟩
    · obtain ⟨n, hn⟩ := HeapOK.nthCdr_global ok b d (by omega) hde
      exact ⟨n + 1, by simp only [Heap.nthCdr, hc]; exact hn⟩

theorem Src.All.mono_all {V V1 : Nat → Prop} (hV : ∀ x, V x → V1 x) :
    ∀ (x : Src), Src.All V x → Src.All V1 x
  | .cons _ a d, h => ⟨hV _ h.1, Src.All.mono_all hV a h.2.1, Src.All.mono_all hV d h.2.2⟩
  | .integer _, h => hV _ h
  | .symbol _ _, h => hV _ h
  | .closure _, h => hV _ h

theorem Symbol.GetCellForName_val {G : Nat} {g : Regions} (name : String) (st : Interner)
    (ok : HeapOK G g st.heap) (hsym : ∀ e ∈ st.symbols_, g.val st.heap e.2) :
    HeapOK G g (Symbol.GetCellForName name st).2.heap ∧
      g.Ext st.heap g (Symbol.GetCellForName name st).2.heap ∧
      (∀ e ∈ (Symbol.GetCellForName name st).2.symbols_,
        g.val (Symbol.GetCellForName name st).2.heap e.2) ∧
      g.val (Symbol.GetCellForName name st).2.heap (Symbol.GetCellForName name st).1 := by
  unfold Symbol.GetCellForName
  cases hf : List.find? (fun e => e.1 == name) st.symbols_ with
  | some e =>
    exact ⟨ok, Regions.Ext.refl_ext _ _, hsym, hsym e (List.mem_of_find?_eq_some hf)⟩
  | none =>
    obtain ⟨ok1, hx, hval⟩ := ok.allocVal (.symbol name) (fun _ _ h => by cases h)
      (fun _ _ h => by cases h)
    refine ⟨ok1, hx, fun e he => ?_, hval⟩
    simp only [List.mem_append, List.mem_singleton] at he
    rcases he with he | rfl
    · exact hx.val (hsym e he)
    · exact hval

theorem SExpr.read_pair (a d : SExpr) (st : Interner) :
    SExpr.read (.pair a d) st
      = (.cons (SExpr.read d (SExpr.read a st).2).2.heap.size (SExpr.read a st).1
            (SExpr.read d (SExpr.read a st).2).1,
          ⟨((SExpr.read d (SExpr.read a st).2).2.heap.alloc
              (.cons (SExpr.read a st).1.ptr (SExpr.read d (SExpr.read a st).2).1.ptr)).2,
            (SExpr.read d (SExpr.read a st).2).2.symbols_⟩) := rfl

/-- The reader makes values: the cells of the expression it returns, and the
cells of the interning table, are values of every later heap. -/
theorem SExpr.read_val {G : Nat} {g : Regions} : ∀ (x : SExpr) (st : Interner),
    HeapOK G g st.heap → (∀ e ∈ st.symbols_, g.val st.heap e.2) →
    HeapOK G g (x.read st).2.heap ∧ g.Ext st.heap g (x.read st).2.heap ∧
      (∀ e ∈ (x.read st).2.symbols_, g.val (x.read st).2.heap e.2) ∧
      Src.All (g.val (x.read st).2.heap) (x.read st).1
  | .num n, st, ok, hsym => by
    obtain ⟨ok1, hx, hval⟩ := ok.allocVal (.integer n) (fun _ _ h => by cases h)
      (fun _ _ h => by cases h)
    exact ⟨ok1, hx, fun e he => hx.val (hsym e he), hval⟩
  | .atom name, st, ok, hsym => by
    obtain ⟨ok1, hx, hsym1, hval⟩ := Symbol.GetCellForName_val name st ok hsym
    exact ⟨ok1, hx, hsym1, hval⟩
  | .pair a d, st, ok, hsym => by
    obtain ⟨ok1, hx1, hsym1, hall1⟩ := SExpr.read_val a st ok hsym
    obtain ⟨ok2, hx2, hsym2, hall2⟩ := SExpr.read_val d (SExpr.read a st).2 ok1 hsym1
    have hcar := hx2.val hall1.ptr_of
    obtain ⟨ok3, hx3, hval⟩ := ok2.allocVal
      (.cons (SExpr.read a st).1.ptr (SExpr.read d (SExpr.read a st).2).1.ptr)
      (fun _ _ h => by
        simp only [Cell.cons.injEq] at h
        rw [← h.1, ← h.2]
        exact ⟨hcar, hall2.ptr_of⟩)
      (fun _ _ h => by cases h)
    rw [SExpr.read_pair]
    refine ⟨ok3, hx1.trans_ext (hx2.trans_ext hx3), fun e he => hx3.val (hsym2 e he), hval,
      ?_, ?_⟩
    · exact Src.All.mono_all (fun _ hv => hx3.val (hx2.val hv)) _ hall1
    · exact Src.All.mono_all (fun _ hv => hx3.val hv) _ hall2

/-- The machine as `Runtime::Runtime()` leaves it on the initial heap is in a
state between two programs: the global environment cell is the one cell it
allocates, and every other cell is a value. -/
theorem Runtime.Good.fresh (input : List Int) :
    Runtime.Good initialHeap.size ⟨fun _ => False, fun p => p = initialHeap.size⟩
        (Runtime.new initialHeap input) ∧
      ∀ e ∈ (Runtime.new initialHeap input).symbols_,
        Regions.val ⟨fun _ => False, fun p => p = initialHeap.size⟩
          (Runtime.new initialHeap input).heap e.2 := by
  have hcells : ∀ p, p < 31 → initialHeap.isCons p = false ∧ initialHeap.isClosure p = false := by
    decide
  have hv : (Runtime.new initialHeap input).heap.Valid := initialHeap_valid.alloc_valid _
  have hget : ∀ p, (Runtime.new initialHeap input).heap.get? p
      = if p = 31 then some (.cons Nil Nil) else initialHeap.get? p := fun p =>
    Heap.get?_alloc initialHeap _ p
  have hsize : (Runtime.new initialHeap input).heap.size = 32 := rfl
  have hval : ∀ p, p < 31 → Regions.val ⟨fun _ => False, fun p => p = initialHeap.size⟩
      (Runtime.new initialHeap input).heap p := fun p hp =>
    ⟨by rw [hsize]; omega, fun h => h, fun h => by
      have h1 : p = 31 := h
      omega⟩
  have hold : ∀ p c, p ≠ 31 → (Runtime.new initialHeap input).heap.get? p = some c →
      p < 31 ∧ initialHeap.get? p = some c := by
    intro p c hne hc
    rw [hget, if_neg hne] at hc
    exact ⟨initialHeap_valid.1.lt hc, hc⟩
  refine ⟨⟨⟨hv, fun _ h => h.elim, fun p hp => ?_, fun _ h => h.elim, rfl, hval _ (by decide),
    hval _ (by decide), ?_, ?_, ?_⟩, rfl, rfl, rfl, rfl⟩, ?_⟩
  · have h1 : p = 31 := hp
    rw [hsize, h1]
    decide
  · intro p hp
    have h1 : p = 31 := hp
    subst h1
    exact ⟨Nil, Nil, by rw [hget, if_pos rfl], hval _ (by decide), Or.inl ⟨rfl, rfl⟩⟩
  · intro p a b hp hc
    have hne : p ≠ 31 := fun h => hp.2.2 h
    obtain ⟨hlt, hc1⟩ := hold p _ hne hc
    have := (hcells p hlt).1
    simp [Heap.isCons, hc1] at this
  · intro p b e hc
    by_cases hne : p = 31
    · rw [hget, if_pos hne] at hc
      cases hc
    · obtain ⟨hlt, hc1⟩ := hold p _ hne hc
      have := (hcells p hlt).2
      simp [Heap.isClosure, hc1] at this
  · intro e he
    have hlt : ∀ e ∈ initialSymbols, e.2 < 31 := by decide
    exact hval _ (hlt e he)

/-- The machine that has read a text on the initial heap is in a state
between two programs, and the cells of the expression read are values. -/
theorem Runtime.Good.reading (source : SExpr) :
    Runtime.Good initialHeap.size ⟨fun _ => False, fun p => p = initialHeap.size⟩
        (Runtime.reading source) ∧
      Src.All (Regions.val ⟨fun _ => False, fun p => p = initialHeap.size⟩
        (Runtime.reading source).heap) source.src := by
  obtain ⟨hgood, hsym⟩ := Runtime.Good.fresh []
  obtain ⟨ok1, _, _, hall⟩ := SExpr.read_val source
    ⟨(Runtime.new initialHeap []).heap, initialSymbols⟩ hgood.ok hsym
  exact ⟨⟨ok1, rfl, rfl, rfl, rfl⟩, hall⟩

/-- C19: for every source that `compileSource` compiles, in a state of the
machine between two programs (`S`, `C` and `D` empty), when the loop of `run`
consumes all of the code without an error then `S` holds exactly one value
when `C` is empty: both assertions at the end of `run` pass and `run` returns
that value.  The sources are the expressions whose cells are values of the
heap, as the reader makes them. -/
theorem compiled_program_leaves_one_value {G : Nat} {g : Regions} {rt rt1 rt2 : Runtime}
    {source : Src} {code fuel : Nat}
    (hgood : Runtime.Good G g rt) (hsrc : Src.All (g.val rt.heap) source)
    (hcompile : Runtime.compile source rt = .ok code rt1)
    (hloop : Runtime.loop fuel { rt1 with c_ := code } = .ok () rt2) :
    rt2.c_ = Nil ∧ ∃ v, rt2.heap.get? rt2.s_ = some (.cons v Nil) ∧
      Runtime.run fuel code rt1 = .ok v { rt2 with s_ := Nil } := by
  obtain ⟨⟨g1, hp⟩, _, hc1, hvalid⟩ := hgood.compiled hsrc hcompile
  obtain ⟨hinv, hc2, _⟩ := Runtime.Inv.loop_inv fuel _ _ hp.inv hloop
  obtain ⟨v, hs⟩ := hinv.finish hc2
  obtain ⟨g2, _, _, _, _, hp2, _⟩ := hinv
  have hnil : rt2.s_ ≠ Nil := fun h => by
    rw [h] at hs
    exact hp2.ok.valid.nil_not_cons _ _ hs
  refine ⟨hc2, v, hs, ?_⟩
  unfold Runtime.run
  rw [Runtime.runBody_ok hc1 hvalid hloop hs hnil]

theorem compiled_program_leaves_one_value_example :
    (Runtime.stateAfter (Runtime.loop 100)
        { Runtime.ready Sample.countDown with c_ := Runtime.program Sample.countDown }).c_ = Nil ∧
      ∃ v, (Runtime.stateAfter (Runtime.loop 100)
            { Runtime.ready Sample.countDown with c_ := Runtime.program Sample.countDown }).heap.get?
          (Runtime.stateAfter (Runtime.loop 100)
            { Runtime.ready Sample.countDown with c_ := Runtime.program Sample.countDown }).s_
          = some (.cons v Nil) ∧
        Runtime.run 100 (Runtime.program Sample.countDown) (Runtime.ready Sample.countDown)
          = .ok v { Runtime.stateAfter (Runtime.loop 100)
              { Runtime.ready Sample.countDown with c_ := Runtime.program Sample.countDown } with
              s_ := Nil } :=
  compiled_program_leaves_one_value (Runtime.Good.reading Sample.countDown).1
    (Runtime.Good.reading Sample.countDown).2 (by decide!) (by decide!)

/-- C17: when `run`, called between two programs with code that
`compileSource` made, ends with a runtime error (any exception, such as `CAR`
or `CDR` of a value that is no cons), then on exit `S`, `C` and `D` are `Nil`
and `E` is the global environment cell `G` the machine had before: the cell
reached through `cdr` from the environment at the time of the error, with
`cdr` `Nil`, and its frame starts with the values it held before the
program. -/
theorem runtime_error_resets_registers {G : Nat} {g : Regions} {rt rt1 rt2 : Runtime}
    {source : Src} {code fuel : Nat} {e : Error}
    (hgood : Runtime.Good G g rt) (hsrc : Src.All (g.val rt.heap) source)
    (hcompile : Runtime.compile source rt = .ok code rt1)
    (hrun : Runtime.run fuel code rt1 = .thrown e rt2) :
    rt2.s_ = Nil ∧ rt2.c_ = Nil ∧ rt2.d_ = Nil ∧ rt2.e_ = G ∧ rt.e_ = G ∧
      (∃ a, rt2.heap.get? G = some (.cons a Nil)) ∧
      (∃ rtE, Runtime.runBody fuel code rt1 = .thrown e rtE ∧ rt2.heap = rtE.heap ∧
        ∃ n, rtE.heap.nthCdr n rtE.e_ = some G) ∧
      Runtime.Grows G rt.heap rt2.heap ∧ ∃ g2, Runtime.Good G g2 rt2 := by
  obtain ⟨⟨g1, hp⟩, hgrow, hc1, hvalid⟩ := hgood.compiled hsrc hcompile
  unfold Runtime.run at hrun
  cases hb : Runtime.runBody fuel code rt1 with
  | ok v rtE =>
    rw [hb] at hrun
    cases hrun
  | fault f =>
    rw [hb] at hrun
    cases hrun
  | thrown e1 rtE =>
    rw [hb] at hrun
    simp only at hrun
    obtain ⟨rt0, hinv, hgrows, hstep⟩ :=
      Runtime.Inv.loop_thrown fuel _ _ _ hp.inv (Runtime.runBody_thrown hb)
    obtain ⟨hh, he⟩ := Runtime.step_thrown hstep
    obtain ⟨g0, K, fl, n, k, hp0, _⟩ := hinv
    have ok0 : HeapOK G g0 rtE.heap := by
      rw [hh]
      exact hp0.ok
    have henv : g0.env rtE.e_ := by
      rw [he]
      exact hp0.env.env_of
    have hrec : Runtime.recover rtE
        = .ok () { rtE with c_ := Nil, s_ := Nil, d_ := Nil, e_ := G } :=
      Runtime.trimE_global (rtE.heap.size + 1) { rtE with c_ := Nil, s_ := Nil, d_ := Nil } ok0
        henv (Nat.lt_succ_of_lt (ok0.env_lt _ henv))
    rw [hrec] at hrun
    simp only [Res.thrown.injEq] at hrun
    obtain ⟨rfl, rfl⟩ := hrun
    obtain ⟨a, b, hcell, _, hb1⟩ := ok0.envCell G ok0.global
    have hbnil : b = Nil := by
      rcases hb1 with ⟨_, h1⟩ | ⟨h1, _⟩
      · exact h1
      · exact absurd rfl h1
    subst hbnil
    refine ⟨rfl, rfl, rfl, rfl, hgood.e, ⟨a, hcell⟩,
      ⟨rtE, rfl, rfl, ok0.nthCdr_global (rtE.e_ + 1) rtE.e_ (Nat.lt_succ_self _) henv⟩, ?_,
      ⟨g0, ok0, rfl, rfl, rfl, rfl⟩⟩
    have h1 : Runtime.Grows G rt.heap rt1.heap := hgrow.grows hgood.ok.valid.1 G
    have h2 : Runtime.Grows G rt1.heap rtE.heap := by
      rw [hh]
      exact hgrows
    exact h1.trans_grows h2

theorem runtime_error_resets_registers_example :
    (Runtime.stateAfter
        (Runtime.run 100 (Runtime.program Sample.carOfInteger))
        (Runtime.ready Sample.carOfInteger)).s_ = Nil ∧
      (Runtime.stateAfter
        (Runtime.run 100 (Runtime.program Sample.carOfInteger))
        (Runtime.ready Sample.carOfInteger)).e_ = 31 ∧
      (Runtime.stateAfter
        (Runtime.run 100 (Runtime.program Sample.carOfInteger))
        (Runtime.ready Sample.carOfInteger)).heap.get? 31 = some (.cons 67 Nil) ∧
      Runtime.Grows 31 (Runtime.reading Sample.carOfInteger).heap
        (Runtime.stateAfter
          (Runtime.run 100 (Runtime.program Sample.carOfInteger))
          (Runtime.ready Sample.carOfInteger)).heap :=
  have h := runtime_error_resets_registers
    (Runtime.Good.reading Sample.carOfInteger).1
    (Runtime.Good.reading Sample.carOfInteger).2
    (by decide! : Runtime.compile Sample.carOfInteger.src (Runtime.reading Sample.carOfInteger)
      = .ok (Runtime.program Sample.carOfInteger) (Runtime.ready Sample.carOfInteger))
    (by decide! : Runtime.run 100 (Runtime.program Sample.carOfInteger)
        (Runtime.ready Sample.carOfInteger)
      = .thrown (.runtimeError "Cannot obtain car from cell " (some 39))
          (Runtime.stateAfter (Runtime.run 100 (Runtime.program Sample.carOfInteger))
            (Runtime.ready Sample.carOfInteger)))
  ⟨h.1, h.2.2.2.1, by decide!, h.2.2.2.2.2.2.2.1⟩

theorem Spec.eqResult_integers {h : Heap} {a b : Nat} {x y : Int}
    (ha : h.get? a = some (.integer x)) (hb : h.get? b = some (.integer y)) :
    Spec.eqResult h a b = if x = y then 1 else 0 := by
  simp [Spec.eqResult, ha, hb]

theorem Spec.eqResult_identity {h : Heap} {a b : Nat}
    (hab : (h.isInteger a && h.isInteger b) = false) :
    Spec.eqResult h a b = if a = b then 1 else 0 := by
  unfold Spec.eqResult
  split
  · rename_i x y ha hb
    simp [Heap.isInteger, ha, hb] at hab
  · rfl

/-- C26: `EQ` pops `a`, then `b`, and pushes a new Integer cell that holds 0
or 1: when both are Integer cells, 1 exactly when their integers are equal,
whichever cells they are; otherwise 1 exactly when `a` and `b` are the same
cell.  So `EQ` of a value with itself gives 1, the result does not depend on
the order of the two values, and an Integer cell and a cell that is no
Integer give 0. -/
theorem eq_compares_integers_by_value (rt : Runtime) (op rest a b s1 s0 : Nat)
    (hc : rt.heap.get? rt.c_ = some (.cons op rest))
    (hop : rt.heap.get? op = some (.integer Instruction.EQ))
    (hs : rt.heap.get? rt.s_ = some (.cons a s1))
    (hs1 : rt.heap.get? s1 = some (.cons b s0)) :
    Runtime.step rt
        = .ok () { rt with
            heap := ((rt.heap.alloc (.integer (Spec.eqResult rt.heap a b))).2.alloc
              (.cons rt.heap.size s0)).2,
            s_ := rt.heap.size + 1, c_ := rest } ∧
      (Spec.eqResult rt.heap a b = 0 ∨ Spec.eqResult rt.heap a b = 1) ∧
      (∀ x y, rt.heap.get? a = some (.integer x) → rt.heap.get? b = some (.integer y) →
        (Spec.eqResult rt.heap a b = 1 ↔ x = y)) ∧
      ((rt.heap.isInteger a && rt.heap.isInteger b) = false →
        (Spec.eqResult rt.heap a b = 1 ↔ a = b)) ∧
      Spec.eqResult rt.heap a a = 1 ∧
      Spec.eqResult rt.heap a b = Spec.eqResult rt.heap b a ∧
      (rt.heap.isInteger a = true → rt.heap.isInteger b = false →
        Spec.eqResult rt.heap a b = 0) := by
  refine ⟨?_, ?_, ?_, ?_, ?_, ?_, ?_⟩
  · rw [Runtime.step_fetch rt op rest Instruction.EQ hc hop]
    by_cases hab : (rt.heap.isInteger a && rt.heap.isInteger b) = true
    · simp only [Bool.and_eq_true] at hab
      obtain ⟨x, hx⟩ : ∃ x, rt.heap.get? a = some (.integer x) := by
        have := hab.1
        unfold Heap.isInteger at this
        split at this
        · rename_i x hx
          exact ⟨x, hx⟩
        · cases this
      obtain ⟨y, hy⟩ : ∃ y, rt.heap.get? b = some (.integer y) := by
        have := hab.2
        unfold Heap.isInteger at this
        split at this
        · rename_i y hy
          exact ⟨y, hy⟩
        · cases this
      rw [Spec.eqResult_integers hx hy]
      simp [Runtime.execute, Instruction.EQ, Instruction.NIL, Instruction.LDC, Instruction.LD,
        Instruction.SEL, Instruction.JOIN, Instruction.LDF, Instruction.AP, Instruction.RTN,
        Instruction.DUM, Instruction.RAP, Instruction.DEFUN, Instruction.POP, Instruction.CONS,
        Instruction.CAR, Instruction.CDR, Instruction.CONSP, Instruction.ADD, Instruction.SUB,
        Instruction.MUL, Instruction.DIV, Runtime.popS, hs, hs1, getHeap, Heap.isInteger, hx, hy,
        valueInt, Heap.valueInt, Runtime.newInteger, Runtime.pushS]
    · simp only [Bool.not_eq_true] at hab
      rw [Spec.eqResult_identity hab]
      have hab1 : ¬ (rt.heap.isInteger a = true ∧ rt.heap.isInteger b = true) := by
        intro h
        simp [h.1, h.2] at hab
      simp [Runtime.execute, Instruction.EQ, Instruction.NIL, Instruction.LDC, Instruction.LD,
        Instruction.SEL, Instruction.JOIN, Instruction.LDF, Instruction.AP, Instruction.RTN,
        Instruction.DUM, Instruction.RAP, Instruction.DEFUN, Instruction.POP, Instruction.CONS,
        Instruction.CAR, Instruction.CDR, Instruction.CONSP, Instruction.ADD, Instruction.SUB,
        Instruction.MUL, Instruction.DIV, Runtime.popS, hs, hs1, getHeap, hab1,
        Runtime.newInteger, Runtime.pushS]
  · unfold Spec.eqResult
    split <;> split <;> simp
  · intro x y hx hy
    rw [Spec.eqResult_integers hx hy]
    split <;> simp [*]
  · intro hab
    rw [Spec.eqResult_identity hab]
    split <;> simp [*]
  · unfold Spec.eqResult
    split <;> simp_all
  · unfold Spec.eqResult
    cases ha : rt.heap.get? a with
    | none => simp [eq_comm]
    | some ca =>
      cases hb : rt.heap.get? b with
      | none => simp [eq_comm]
      | some cb => cases ca <;> cases cb <;> simp [eq_comm]
  · intro ha hb
    have hab : (rt.heap.isInteger a && rt.heap.isInteger b) = false := by simp [hb]
    rw [Spec.eqResult_identity hab, if_neg]
    rintro rfl
    rw [ha] at hb
    cases hb

theorem eq_compares_integers_by_value_example :
    Runtime.step (Runtime.after 2 (Runtime.loaded Sample.eqIntegers))
        = .ok () (Runtime.after 3 (Runtime.loaded Sample.eqIntegers)) ∧
      (Runtime.after 3 (Runtime.loaded Sample.eqIntegers)).topInt? = some 1 ∧
      (Runtime.after 2 (Runtime.loaded Sample.eqIntegers)).top? = some 32 ∧
      Spec.eqResult (Runtime.after 2 (Runtime.loaded Sample.eqIntegers)).heap 32 33 = 1 :=
  have h := eq_compares_integers_by_value (Runtime.after 2 (Runtime.loaded Sample.eqIntegers))
    43 Nil 32 33 45 Nil (by decide!) (by decide!) (by decide!) (by decide!)
  ⟨by decide!, by decide!, by decide!, (h.2.2.1 7 7 (by decide!) (by decide!)).2 rfl⟩

/-- C27 (as stated) fails for `(consp 1)`: the value on top of `S` is the
Integer 1, and `CONSP` pushes nothing: its round ends in the exception of
`cdr`, and so does the run. -/
theorem consp_of_integer_throws :
    (Runtime.after 1 (Runtime.loaded Sample.conspOfInteger)).topInt? = some 1 ∧
      Runtime.step (Runtime.after 1 (Runtime.loaded Sample.conspOfInteger))
        = .thrown (.runtimeError "Cannot obtain cdr from cell " (some 32))
            { Runtime.after 1 (Runtime.loaded Sample.conspOfInteger) with
              s_ := Nil, c_ := Nil } ∧
      Runtime.run 100 (Runtime.program Sample.conspOfInteger)
          (Runtime.ready Sample.conspOfInteger)
        = .thrown (.runtimeError "Cannot obtain cdr from cell " (some 32))
            (Runtime.stateAfter (Runtime.run 100 (Runtime.program Sample.conspOfInteger))
              (Runtime.ready Sample.conspOfInteger)) := by
  decide!

/-- C27 (amended): `CONSP` pops the value `v` on top of `S`.  When `v` is a
Cons cell it pushes `T` if the `cdr` of `v` is a Cons cell and `Nil` if not.
When `v` is no Cons cell it pushes nothing: the round ends in the exception
"Cannot obtain cdr from cell" of `cdr`, with `v` popped. -/
theorem consp_tests_cdr_of_cons (rt : Runtime) (op rest v s0 : Nat)
    (hc : rt.heap.get? rt.c_ = some (.cons op rest))
    (hop : rt.heap.get? op = some (.integer Instruction.CONSP))
    (hs : rt.heap.get? rt.s_ = some (.cons v s0)) :
    (∀ a d, rt.heap.get? v = some (.cons a d) →
      Runtime.step rt
        = .ok () { rt with
            heap := (rt.heap.alloc (.cons (if rt.heap.isCons d then T else Nil) s0)).2,
            s_ := rt.heap.size, c_ := rest }) ∧
      (rt.heap.isCons v = false →
        Runtime.step rt
          = .thrown (.runtimeError "Cannot obtain cdr from cell " (some v))
              { rt with s_ := s0, c_ := rest }) := by
  rw [Runtime.step_fetch rt op rest Instruction.CONSP hc hop]
  constructor
  · intro a d hv
    by_cases hd : rt.heap.isCons d = true
    · simp [Runtime.execute, Instruction.NIL, Instruction.LDC, Instruction.LD,
        Instruction.SEL, Instruction.JOIN, Instruction.LDF, Instruction.AP, Instruction.RTN,
        Instruction.DUM, Instruction.RAP, Instruction.DEFUN, Instruction.POP, Instruction.CONS,
        Instruction.CAR, Instruction.CDR, Instruction.CONSP, Runtime.popS, hs, cdr, hv, getHeap,
        hd, Runtime.pushS]
    · simp [Runtime.execute, Instruction.NIL, Instruction.LDC, Instruction.LD,
        Instruction.SEL, Instruction.JOIN, Instruction.LDF, Instruction.AP, Instruction.RTN,
        Instruction.DUM, Instruction.RAP, Instruction.DEFUN, Instruction.POP, Instruction.CONS,
        Instruction.CAR, Instruction.CDR, Instruction.CONSP, Runtime.popS, hs, cdr, hv, getHeap,
        hd, Runtime.pushS]
  · intro hv
    have hcdr : cdr v { rt with s_ := s0, c_ := rest }
        = .thrown (.runtimeError "Cannot obtain cdr from cell " (some v))
            { rt with s_ := s0, c_ := rest } := by
      unfold cdr
      split
      · rename_i a d hcell
        have hcell1 : rt.heap.get? v = some (.cons a d) := hcell
        simp [Heap.isCons, hcell1] at hv
      · rfl
    simp [Runtime.execute, Instruction.NIL, Instruction.LDC, Instruction.LD,
      Instruction.SEL, Instruction.JOIN, Instruction.LDF, Instruction.AP, Instruction.RTN,
      Instruction.DUM, Instruction.RAP, Instruction.DEFUN, Instruction.POP, Instruction.CONS,
      Instruction.CAR, Instruction.CDR, Instruction.CONSP, Runtime.popS, hs, hcdr]

theorem consp_tests_cdr_of_cons_example :
    Runtime.step (Runtime.after 5 (Runtime.loaded Sample.conspOfList))
        = .ok () { Runtime.after 5 (Runtime.loaded Sample.conspOfList) with
            heap := ((Runtime.after 5 (Runtime.loaded Sample.conspOfList)).heap.alloc
              (.cons (if (Runtime.after 5 (Runtime.loaded Sample.conspOfList)).heap.isCons 60
                then T else Nil) Nil)).2,
            s_ := (Runtime.after 5 (Runtime.loaded Sample.conspOfList)).heap.size,
            c_ := Nil } ∧
      (Runtime.after 6 (Runtime.loaded Sample.conspOfList)).top? = some T :=
  ⟨(consp_tests_cdr_of_cons (Runtime.after 5 (Runtime.loaded Sample.conspOfList))
      56 Nil 63 Nil (by decide!) (by decide!) (by decide!)).1 32 60 (by decide!),
    by decide!⟩

theorem Heap.pushContext_size (h : Heap) (s e c d : Nat) :
    (h.pushContext s e c d).size = h.size + 4 := rfl

theorem Heap.pushContext_old (h : Heap) (s e c d : Nat) {p : Nat} (hp : p < h.size) :
    (h.pushContext s e c d).get? p = h.get? p := by
  have e1 : p ≠ h.size := by omega
  have e2 : p ≠ h.size + 1 := by omega
  have e3 : p ≠ h.size + 1 + 1 := by omega
  have e4 : p ≠ h.size + 1 + 1 + 1 := by omega
  simp [Heap.pushContext, Heap.get?_alloc, Heap.get?_set, e1, e2, e3, e4]

theorem Heap.pushContext_cells (h : Heap) (s e c d : Nat) :
    (h.pushContext s e c d).get? h.size = some (.cons s (h.size + 1)) ∧
      (h.pushContext s e c d).get? (h.size + 1) = some (.cons e (h.size + 2)) ∧
      (h.pushContext s e c d).get? (h.size + 2) = some (.cons c Nil) ∧
      (h.pushContext s e c d).get? (h.size + 3) = some (.cons h.size d) := by
  have e1 : ¬ h.size = h.size + 1 + 1 + 1 := by omega
  have e2 : ¬ h.size = h.size + 1 + 1 := by omega
  have e3 : ¬ h.size = h.size + 1 := by omega
  have e4 : ¬ h.size + 1 = h.size + 1 + 1 + 1 := by omega
  have e5 : ¬ h.size + 1 = h.size + 1 + 1 := by omega
  have e6 : ¬ h.size + 2 = h.size + 1 + 1 + 1 := by omega
  have e7 : ¬ h.size + 2 = h.size + 1 := by omega
  have e8 : h.size + 2 = h.size + 1 + 1 := rfl
  have e9 : h.size + 3 = h.size + 1 + 1 + 1 := rfl
  refine ⟨?_, ?_, ?_, ?_⟩ <;>
    simp [Heap.pushContext, Heap.get?_alloc, Heap.get?_set, e1, e2, e3, e4, e5, e6, e7]

/-- The list pushed on the dump is the list of the three saved registers. -/
theorem Heap.pushContext_list (h : Heap) (s e c d : Nat) :
    IsList (h.pushContext s e c d) h.size [s, e, c] := by
  obtain ⟨h1, h2, h3, _⟩ := Heap.pushContext_cells h s e c d
  rw [IsList.cons_iff]
  refine ⟨_, h1, ?_⟩
  rw [IsList.cons_iff]
  refine ⟨_, h2, ?_⟩
  rw [IsList.cons_iff]
  exact ⟨_, h3, (IsList.nil_iff _ _).2 rfl⟩

theorem Runtime.saveContext_push (rt : Runtime) :
    Runtime.saveContext rt
      = .ok () { rt with heap := rt.heap.pushContext rt.s_ rt.e_ rt.c_ rt.d_,
                         d_ := rt.heap.size + 3 } :=
  Runtime.saveContext_eq rt

/-- The round of `AP` with a closure on top of `S`. -/
theorem Runtime.step_AP (rt : Runtime) (op rest k a s1 s0 body env : Nat)
    (hc : rt.heap.get? rt.c_ = some (.cons op rest))
    (hop : rt.heap.get? op = some (.integer Instruction.AP))
    (hs : rt.heap.get? rt.s_ = some (.cons k s1))
    (hs1 : rt.heap.get? s1 = some (.cons a s0))
    (hk : rt.heap.get? k = some (.closure body env))
    (hwf : rt.heap.WF) (hbody : Stack.valid rt.heap body = true) :
    Runtime.step rt
      = .ok () { rt with
          heap := ((rt.heap.pushContext s0 rt.e_ rest rt.d_).alloc (.cons a env)).2,
          s_ := Nil, e_ := rt.heap.size + 4, c_ := body, d_ := rt.heap.size + 3 } := by
  rw [Runtime.step_fetch rt op rest _ hc hop]
  have hklt : k < rt.heap.size := hwf.lt hk
  have hk1 : (rt.heap.pushContext s0 rt.e_ rest rt.d_).get? k = some (.closure body env) := by
    rw [Heap.pushContext_old _ _ _ _ _ hklt, hk]
  have hk2 : ((rt.heap.pushContext s0 rt.e_ rest rt.d_).alloc (.cons a env)).2.get? k
      = some (.closure body env) := by
    rw [Heap.get?_alloc, if_neg, hk1]
    rw [Heap.pushContext_size]
    omega
  have hb2 : Stack.valid ((rt.heap.pushContext s0 rt.e_ rest rt.d_).alloc (.cons a env)).2 body
      = true := by
    unfold Stack.valid at hbody ⊢
    simp only [Bool.or_eq_true, decide_eq_true_eq] at hbody ⊢
    rcases hbody with hb | hb
    · exact Or.inl hb
    · right
      unfold Heap.isCons at hb ⊢
      split at hb
      · rename_i x y hcell
        have hlt : body < rt.heap.size := hwf.lt hcell
        rw [Heap.get?_alloc, if_neg (by rw [Heap.pushContext_size]; omega),
          Heap.pushContext_old _ _ _ _ _ hlt, hcell]
      · cases hb
  have hsave := Runtime.saveContext_push { rt with s_ := s0, c_ := rest }
  simp only at hsave
  have hnil : ∀ h : Heap, Stack.valid h Nil = true := fun h => by simp [Stack.valid]
  have he : ((rt.heap.pushContext s0 rt.e_ rest rt.d_).alloc (.cons a env)).2.isCons
      (rt.heap.size + 4) = true := by
    simp [Heap.isCons, Heap.pushContext_size]
  simp [Runtime.execute, Instruction.LD, Instruction.NIL, Instruction.LDC, Instruction.SEL,
    Instruction.JOIN, Instruction.LDF, Instruction.AP, Runtime.popS, hs, hs1, getHeap,
    Heap.isClosure, hk, hsave, Runtime.setS, hnil, Heap.environment, hk1,
    Runtime.newCons, Runtime.setE, he, Heap.body, hk2, Runtime.setC, hb2, Heap.pushContext_size]

/-- C28: `AP` with a closure `k` on top of `S`, an argument list `a` below it
and the stack `s0` below that sets `S` to `Nil`, `E` to a new cell
`cons(a, k.environment)` and `C` to `k.body`, and pushes on `D` the list of
`s0`, the old `E` and the rest of `C`.  `RTN` in any state whose `S` has a
value `v` on top and whose `D` has that list on top of the dump of before the
`AP` (the three saved registers still being two stacks and an environment)
sets `S` to `cons(v, s0)`, `E` and `C` to the saved values and `D` to the dump
of before the `AP`. -/
theorem ap_then_rtn_restores_caller (rt : Runtime) (op rest k a s1 s0 body env : Nat)
    (hc : rt.heap.get? rt.c_ = some (.cons op rest))
    (hop : rt.heap.get? op = some (.integer Instruction.AP))
    (hs : rt.heap.get? rt.s_ = some (.cons k s1))
    (hs1 : rt.heap.get? s1 = some (.cons a s0))
    (hk : rt.heap.get? k = some (.closure body env))
    (hwf : rt.heap.WF) (hbody : Stack.valid rt.heap body = true) :
    ∃ rt1, Runtime.step rt = .ok () rt1 ∧ rt1.s_ = Nil ∧
      rt1.heap.get? rt1.e_ = some (.cons a env) ∧ rt1.c_ = body ∧
      rt1.heap.get? rt1.d_ = some (.cons rt.heap.size rt.d_) ∧
      IsList rt1.heap rt.heap.size [s0, rt.e_, rest] ∧
      ∀ (rt2 : Runtime) (op2 rest2 v s2 : Nat),
        rt2.heap.get? rt2.c_ = some (.cons op2 rest2) →
        rt2.heap.get? op2 = some (.integer Instruction.RTN) →
        rt2.heap.get? rt2.s_ = some (.cons v s2) →
        rt2.heap.get? rt2.d_ = some (.cons rt.heap.size rt.d_) →
        IsList rt2.heap rt.heap.size [s0, rt.e_, rest] →
        Stack.valid rt2.heap s0 = true → rt2.heap.isCons rt.e_ = true →
        Stack.valid rt2.heap rest = true →
        Runtime.step rt2
          = .ok () { rt2 with heap := (rt2.heap.alloc (.cons v s0)).2, s_ := rt2.heap.size,
                              e_ := rt.e_, c_ := rest, d_ := rt.d_ } := by
  refine ⟨_, Runtime.step_AP rt op rest k a s1 s0 body env hc hop hs hs1 hk hwf hbody, rfl,
    ?_, rfl, ?_, ?_, ?_⟩
  · show ((rt.heap.pushContext s0 rt.e_ rest rt.d_).alloc (.cons a env)).2.get?
      (rt.heap.size + 4) = _
    rw [Heap.get?_alloc, if_pos (Heap.pushContext_size _ _ _ _ _).symm]
  · show ((rt.heap.pushContext s0 rt.e_ rest rt.d_).alloc (.cons a env)).2.get?
      (rt.heap.size + 3) = _
    rw [Heap.get?_alloc, if_neg (by rw [Heap.pushContext_size]; omega)]
    exact (Heap.pushContext_cells _ _ _ _ _).2.2.2
  · refine IsList.mono_heap (fun q c hq => ?_) _ _ (Heap.pushContext_list rt.heap s0 rt.e_ rest rt.d_)
    have hne : q ≠ (rt.heap.pushContext s0 rt.e_ rest rt.d_).size := by
      intro heq
      have hwf1 : (rt.heap.pushContext s0 rt.e_ rest rt.d_).WF :=
        (((((hwf.alloc _).alloc _).set (by simp only [Heap.size_alloc]; omega) _).alloc _).set
          (by simp only [Heap.size_alloc, Heap.size_set]; omega) _).alloc _
      have := hwf1.lt hq
      omega
    show ((rt.heap.pushContext s0 rt.e_ rest rt.d_).alloc (.cons a env)).2.get? q = some c
    rw [Heap.get?_alloc, if_neg hne, hq]
  · intro rt2 op2 rest2 v s2 hc2 hop2 hs2 hd2 hl hs0 he0 hrest
    rw [IsList.cons_iff] at hl
    obtain ⟨t1, ht, hl⟩ := hl
    rw [IsList.cons_iff] at hl
    obtain ⟨t2, ht1, hl⟩ := hl
    rw [IsList.cons_iff] at hl
    obtain ⟨t3, ht2, _⟩ := hl
    exact Runtime.step_RTN rt2 op2 rest2 v s2 rt.heap.size rt.d_ s0 t1 rt.e_ t2 rest t3 hc2 hop2
      hs2 hd2 ht ht1 ht2 hs0 he0 hrest

theorem ap_then_rtn_restores_caller_example :
    Runtime.step (Runtime.after 4 (Runtime.loaded Sample.identityCall))
        = .ok () (Runtime.after 5 (Runtime.loaded Sample.identityCall)) ∧
      (Runtime.after 5 (Runtime.loaded Sample.identityCall)).d_ = 69 ∧
      Runtime.step (Runtime.after 6 (Runtime.loaded Sample.identityCall))
        = .ok () { Runtime.after 6 (Runtime.loaded Sample.identityCall) with
            heap := ((Runtime.after 6 (Runtime.loaded Sample.identityCall)).heap.alloc
              (.cons 37 Nil)).2,
            s_ := (Runtime.after 6 (Runtime.loaded Sample.identityCall)).heap.size,
            e_ := (Runtime.after 4 (Runtime.loaded Sample.identityCall)).e_, c_ := Nil,
            d_ := (Runtime.after 4 (Runtime.loaded Sample.identityCall)).d_ } :=
  have h := ap_then_rtn_restores_caller (Runtime.after 4 (Runtime.loaded Sample.identityCall))
    58 Nil 64 62 63 Nil 50 31 (by decide!) (by decide!) (by decide!) (by decide!) (by decide!)
    (Heap.WF.of_wfCheck (by decide!)) (by decide!)
  ⟨by decide!, by decide!,
    h.choose_spec.2.2.2.2.2.2 (Runtime.after 6 (Runtime.loaded Sample.identityCall))
      55 Nil 37 Nil (by decide!) (by decide!) (by decide!) (by decide!) (by decide!) (by decide!)
      (by decide!) (by decide!)⟩

theorem IsList.unique {h : Heap} : ∀ (vs ws : List Nat) (p : Nat),
    IsList h p vs → IsList h p ws → h.Valid → vs = ws
  | [], [], _, _, _, _ => rfl
  | [], w :: ws, p, h1, h2, hv => by
    rw [IsList.nil_iff] at h1
    rw [IsList.cons_iff] at h2
    obtain ⟨d, hd, _⟩ := h2
    rw [h1] at hd
    exact absurd hd (hv.nil_not_cons _ _)
  | v :: vs, [], p, h1, h2, hv => by
    rw [IsList.nil_iff] at h2
    rw [IsList.cons_iff] at h1
    obtain ⟨d, hd, _⟩ := h1
    rw [h2] at hd
    exact absurd hd (hv.nil_not_cons _ _)
  | v :: vs, w :: ws, p, h1, h2, hv => by
    rw [IsList.cons_iff] at h1 h2
    obtain ⟨d, hd, h1⟩ := h1
    obtain ⟨d2, hd2, h2⟩ := h2
    rw [hd] at hd2
    simp only [Option.some.injEq, Cell.cons.injEq] at hd2
    obtain ⟨rfl, rfl⟩ := hd2
    rw [IsList.unique vs ws d h1 h2 hv]

/-- The cells of a proper list are distinct cells of the heap. -/
theorem IsList.spine {h : Heap} (hv : h.Valid) : ∀ (vs : List Nat) (p : Nat), IsList h p vs →
    ∃ S : Finset Nat, S.card = vs.length ∧
      ∀ x ∈ S, x < h.size ∧ ∃ ws, IsList h x ws ∧ 0 < ws.length ∧ ws.length ≤ vs.length
  | [], _, _ => ⟨∅, rfl, fun x hx => by simp at hx⟩
  | v :: vs, p, hl => by
    have hl0 := hl
    rw [IsList.cons_iff] at hl
    obtain ⟨d, hd, hrest⟩ := hl
    obtain ⟨S, hcard, hS⟩ := IsList.spine hv vs d hrest
    have hp : p ∉ S := by
      intro hp
      obtain ⟨_, ws, hws, _, hlen⟩ := hS p hp
      have := IsList.unique _ _ p hl0 hws hv
      rw [← this] at hlen
      simp at hlen
    refine ⟨insert p S, by rw [Finset.card_insert_of_not_mem hp, hcard]; rfl, fun x hx => ?_⟩
    rcases Finset.mem_insert.1 hx with rfl | hx
    · exact ⟨hv.1.lt hd, v :: vs, hl0, by simp, Nat.le_refl _⟩
    · obtain ⟨hlt, ws, hws, hpos, hlen⟩ := hS x hx
      exact ⟨hlt, ws, hws, hpos, Nat.le_succ_of_le hlen⟩

theorem IsList.length_le {h : Heap} (hv : h.Valid) {vs : List Nat} {p : Nat}
    (hl : IsList h p vs) : vs.length ≤ h.size := by
  obtain ⟨S, hcard, hS⟩ := IsList.spine hv vs p hl
  have hsub : S ⊆ Finset.range h.size := fun x hx => Finset.mem_range.2 (hS x hx).1
  have := Finset.card_le_card hsub
  rw [Finset.card_range, hcard] at this
  exact this

/-- The loop of `Environment::append` on a proper list that is not empty ends
at the last cell of the list, and the list with a new cell linked behind that
cell is the list with one more value. -/
theorem Environment.lastCell_list {h : Heap} (hv : h.Valid) (v : Nat) :
    ∀ (us : List Nat) (u a fuel : Nat), IsList h a (u :: us) → us.length < fuel →
      ∃ q x, Environment.lastCell h fuel a = .ok q ∧ h.get? q = some (.cons x Nil) ∧
        h.nthCdr us.length a = some q ∧
        IsList ((h.alloc (.cons v Nil)).2.set q (.cons x h.size)) a (u :: us ++ [v])
  | _, _, _, 0, _, hf => absurd hf (Nat.not_lt_zero _)
  | [], u, a, fuel + 1, hl, _ => by
    rw [IsList.cons_iff] at hl
    obtain ⟨d, hd, hrest⟩ := hl
    rw [IsList.nil_iff] at hrest
    subst hrest
    have halt : a < h.size := hv.1.lt hd
    refine ⟨a, u, ?_, hd, rfl, ?_⟩
    · simp [Environment.lastCell, Heap.cdr, hd]
    · simp only [List.nil_append, List.cons_append]
      rw [IsList.cons_iff]
      refine ⟨h.size, by simp, ?_⟩
      rw [IsList.cons_iff]
      refine ⟨Nil, ?_, (IsList.nil_iff _ _).2 rfl⟩
      rw [Heap.get?_set, if_neg (by omega), Heap.get?_alloc, if_pos rfl]
  | w :: us, u, a, fuel + 1, hl, hf => by
    rw [IsList.cons_iff] at hl
    obtain ⟨d, hd, hrest⟩ := hl
    have hdne : d ≠ Nil := by
      rintro rfl
      cases IsList.of_nil hv hrest
    obtain ⟨q, x, hlast, hq, hnth, hlist⟩ :=
      Environment.lastCell_list hv v us w d fuel hrest (by simpa using hf)
    have haq : a ≠ q := by
      rintro rfl
      rw [hd] at hq
      simp only [Option.some.injEq, Cell.cons.injEq] at hq
      exact hdne hq.2
    have halt : a < h.size := hv.1.lt hd
    refine ⟨q, x, ?_, hq, ?_, ?_⟩
    · simp [Environment.lastCell, Heap.cdr, hd, hdne, hlast]
    · simp only [List.length_cons, Heap.nthCdr, hd]
      exact hnth
    · simp only [List.cons_append]
      rw [IsList.cons_iff]
      refine ⟨d, ?_, hlist⟩
      rw [Heap.get?_set, if_neg haq, Heap.get?_alloc, if_neg (by omega), hd]

/-- C30: `DEFUN` pops the value `v` from `S`, appends it in place to the
first frame of `E` (a proper list `vs` whose last cell is not the cell `E`
itself) and pushes `Nil`.  Afterwards `E` is
the same cell with the same `cdr`, its first frame is the list `vs` followed
by `v`, so it is longer by one and holds every old element at its old offset,
also when `vs` is empty; `C` is the rest of the code and `D` is unchanged.  One
old cell is overwritten, the cell `E` itself when the frame was empty and
else the last cell of the frame; every other old cell, so every closure, is
unchanged, and a closure whose environment is the cell `E` finds the new
element in that cell. -/
theorem defun_appends_to_first_frame (rt : Runtime) (op rest v s0 frame parent : Nat)
    (vs : List Nat)
    (hc : rt.heap.get? rt.c_ = some (.cons op rest))
    (hop : rt.heap.get? op = some (.integer Instruction.DEFUN))
    (hs : rt.heap.get? rt.s_ = some (.cons v s0))
    (he : rt.heap.get? rt.e_ = some (.cons frame parent))
    (hframe : IsList rt.heap frame vs)
    (hsep : rt.heap.nthCdr (vs.length - 1) frame ≠ some rt.e_) (hv : rt.heap.Valid) :
    ∃ rt1, Runtime.step rt = .ok () rt1 ∧ rt1.e_ = rt.e_ ∧ rt1.c_ = rest ∧ rt1.d_ = rt.d_ ∧
      rt1.heap.get? rt1.s_ = some (.cons Nil s0) ∧
      (∃ frame1, rt1.heap.get? rt.e_ = some (.cons frame1 parent) ∧
        IsList rt1.heap frame1 (vs ++ [v])) ∧
      (∃ q, (∀ p, p ≠ q → p < rt.heap.size → rt1.heap.get? p = rt.heap.get? p) ∧
        (vs = [] → q = rt.e_) ∧
        (vs ≠ [] → rt.heap.nthCdr (vs.length - 1) frame = some q)) ∧
      ∀ p b, rt.heap.get? p = some (.closure b rt.e_) →
        rt1.heap.get? p = some (.closure b rt.e_) := by
  rw [Runtime.step_fetch rt op rest _ hc hop]
  have helt : rt.e_ < rt.heap.size := hv.1.lt he
  have hopc : Runtime.execute Instruction.DEFUN { rt with c_ := rest }
      = (do Environment.append v; Runtime.pushS Nil : RM Unit) { rt with s_ := s0, c_ := rest } := by
    simp [Runtime.execute, Instruction.LD, Instruction.NIL, Instruction.LDC, Instruction.SEL,
      Instruction.JOIN, Instruction.LDF, Instruction.AP, Instruction.RTN, Instruction.DUM,
      Instruction.RAP, Instruction.DEFUN, Runtime.popS, hs]
  rw [hopc]
  cases vs with
  | nil =>
    rw [IsList.nil_iff] at hframe
    subst hframe
    have happ : Environment.append v { rt with s_ := s0, c_ := rest }
        = .ok () { rt with
            heap := ((rt.heap.alloc (.cons v Nil)).2.set rt.e_ (.cons rt.heap.size parent)),
            s_ := s0, c_ := rest } := by
      simp [Environment.append, Heap.car, he, Heap.setCar, Heap.get?_alloc,
        Nat.ne_of_lt helt]
    have hstep : (do Environment.append v; Runtime.pushS Nil : RM Unit)
          { rt with s_ := s0, c_ := rest }
        = .ok () { rt with
            heap := (((rt.heap.alloc (.cons v Nil)).2.set rt.e_
              (.cons rt.heap.size parent)).alloc (.cons Nil s0)).2,
            s_ := rt.heap.size + 1, c_ := rest } := by
      simp only [M.bind_apply, happ, Runtime.pushS]
      rfl
    refine ⟨_, hstep, rfl, rfl, rfl, ?_, ?_, ?_, ?_⟩
    · simp
    · refine ⟨rt.heap.size, ?_, ?_⟩
      · show ((((rt.heap.alloc (.cons v Nil)).2.set rt.e_ (.cons rt.heap.size parent)).alloc
          (.cons Nil s0)).2).get? rt.e_ = _
        rw [Heap.get?_alloc, if_neg (by simp only [Heap.size_set, Heap.size_alloc]; omega),
          Heap.get?_set, if_pos rfl]
      · simp only [List.nil_append]
        rw [IsList.cons_iff]
        refine ⟨Nil, ?_, (IsList.nil_iff _ _).2 rfl⟩
        show ((((rt.heap.alloc (.cons v Nil)).2.set rt.e_ (.cons rt.heap.size parent)).alloc
          (.cons Nil s0)).2).get? rt.heap.size = _
        rw [Heap.get?_alloc, if_neg (by simp only [Heap.size_set, Heap.size_alloc]; omega),
          Heap.get?_set, if_neg (by omega), Heap.get?_alloc, if_pos rfl]
    · refine ⟨rt.e_, fun p hpq hp => ?_, fun _ => rfl, fun h => absurd rfl h⟩
      show ((((rt.heap.alloc (.cons v Nil)).2.set rt.e_ (.cons rt.heap.size parent)).alloc
        (.cons Nil s0)).2).get? p = _
      rw [Heap.get?_alloc, if_neg (by simp only [Heap.size_set, Heap.size_alloc]; omega),
        Heap.get?_set, if_neg hpq, Heap.get?_alloc, if_neg (by omega)]
    · intro p b hp
      have hplt := hv.1.lt hp
      have hpe : p ≠ rt.e_ := by
        rintro rfl
        rw [he] at hp
        cases hp
      show ((((rt.heap.alloc (.cons v Nil)).2.set rt.e_ (.cons rt.heap.size parent)).alloc
        (.cons Nil s0)).2).get? p = _
      rw [Heap.get?_alloc, if_neg (by simp only [Heap.size_set, Heap.size_alloc]; omega),
        Heap.get?_set, if_neg hpe, Heap.get?_alloc, if_neg (by omega), hp]
  | cons u us =>
    have hlen := IsList.length_le hv hframe
    obtain ⟨q, x, hlast, hq, hnth, hlist⟩ :=
      Environment.lastCell_list hv v us u frame (rt.heap.size + 1) hframe
        (by simp only [List.length_cons] at hlen; omega)
    have hfne : frame ≠ Nil := by
      rintro rfl
      cases IsList.of_nil hv hframe
    have hqlt : q < rt.heap.size := hv.1.lt hq
    have happ : Environment.append v { rt with s_ := s0, c_ := rest }
        = .ok () { rt with
            heap := ((rt.heap.alloc (.cons v Nil)).2.set q (.cons x rt.heap.size)),
            s_ := s0, c_ := rest } := by
      simp [Environment.append, Heap.car, he, hfne, hlast, Heap.setCdr, Heap.get?_alloc,
        Nat.ne_of_lt hqlt, hq]
    have hqe : rt.e_ ≠ q := by
      rintro rfl
      exact hsep hnth
    have hstep : (do Environment.append v; Runtime.pushS Nil : RM Unit)
          { rt with s_ := s0, c_ := rest }
        = .ok () { rt with
            heap := (((rt.heap.alloc (.cons v Nil)).2.set q
              (.cons x rt.heap.size)).alloc (.cons Nil s0)).2,
            s_ := rt.heap.size + 1, c_ := rest } := by
      simp only [M.bind_apply, happ, Runtime.pushS]
      rfl
    refine ⟨_, hstep, rfl, rfl, rfl, ?_, ?_, ?_, ?_⟩
    · simp
    · refine ⟨frame, ?_, ?_⟩
      · show ((((rt.heap.alloc (.cons v Nil)).2.set q (.cons x rt.heap.size)).alloc
          (.cons Nil s0)).2).get? rt.e_ = _
        rw [Heap.get?_alloc, if_neg (by simp only [Heap.size_set, Heap.size_alloc]; omega),
          Heap.get?_set, if_neg hqe, Heap.get?_alloc, if_neg (by omega), he]
      · refine IsList.mono_heap (fun p c hp => ?_) _ _ hlist
        have hwf1 : ((rt.heap.alloc (.cons v Nil)).2.set q (.cons x rt.heap.size)).WF :=
          (hv.1.alloc _).set (by simp only [Heap.size_alloc]; omega) _
        have hplt := hwf1.lt hp
        show ((((rt.heap.alloc (.cons v Nil)).2.set q (.cons x rt.heap.size)).alloc
          (.cons Nil s0)).2).get? p = _
        rw [Heap.get?_alloc, if_neg (Nat.ne_of_lt hplt), hp]
    · refine ⟨q, fun p hpq hp => ?_, fun h => (List.cons_ne_nil _ _ h).elim, fun _ => hnth⟩
      show ((((rt.heap.alloc (.cons v Nil)).2.set q (.cons x rt.heap.size)).alloc
        (.cons Nil s0)).2).get? p = _
      rw [Heap.get?_alloc, if_neg (by simp only [Heap.size_set, Heap.size_alloc]; omega),
        Heap.get?_set, if_neg hpq, Heap.get?_alloc, if_neg (by omega)]
    · intro p b hp
      have hplt := hv.1.lt hp
      have hpq : p ≠ q := by
        rintro rfl
        rw [hq] at hp
        cases hp
      show ((((rt.heap.alloc (.cons v Nil)).2.set q (.cons x rt.heap.size)).alloc
        (.cons Nil s0)).2).get? p = _
      rw [Heap.get?_alloc, if_neg (by simp only [Heap.size_set, Heap.size_alloc]; omega),
        Heap.get?_set, if_neg hpq, Heap.get?_alloc, if_neg (by omega), hp]

theorem defun_appends_to_first_frame_example :
    (∃ rt1, Runtime.step (Runtime.after 4 (Runtime.loaded Sample.twoDefuns)) = .ok () rt1 ∧
      rt1.e_ = (Runtime.after 4 (Runtime.loaded Sample.twoDefuns)).e_ ∧
      ∃ frame1,
        rt1.heap.get? (Runtime.after 4 (Runtime.loaded Sample.twoDefuns)).e_
          = some (.cons frame1 Nil) ∧
        IsList rt1.heap frame1 ([83] ++ [87])) ∧
      (Runtime.after 4 (Runtime.loaded Sample.twoDefuns)).e_ = 31 ∧
      (Runtime.after 5 (Runtime.loaded Sample.twoDefuns)).heap.get? 85 = some (.cons 83 89) :=
  have h := defun_appends_to_first_frame (Runtime.after 4 (Runtime.loaded Sample.twoDefuns))
    76 79 87 Nil 85 Nil [83] (by decide!) (by decide!) (by decide!) (by decide!) (by decide!)
    (by decide!) ⟨Heap.WF.of_wfCheck (by decide!), "nil", by decide!⟩
  ⟨h.elim fun rt1 h1 => ⟨rt1, h1.1, h1.2.1, h1.2.2.2.2.2.1⟩, by decide!, by decide!⟩

theorem IsCode.nil_code_iff (h : Heap) (c r : Nat) : IsCode h [] c r ↔ c = r := by
  simp [IsCode, Heap.isCode]

theorem IsCode.op_iff (h : Heap) (k : Int) (items : List Code.Item) (c r : Nat) :
    IsCode h (.op k :: items) c r ↔
      ∃ o d, h.get? c = some (.cons o d) ∧ h.get? o = some (.integer k) ∧ IsCode h items d r := by
  unfold IsCode
  rw [Heap.isCode]
  cases hg : h.get? c with
  | none => simp
  | some cell =>
    cases cell with
    | cons o d =>
      simp only [Bool.and_eq_true, beq_iff_eq, Option.some.injEq, Cell.cons.injEq]
      constructor
      · rintro ⟨h1, h2⟩
        exact ⟨o, d, ⟨rfl, rfl⟩, h1, h2⟩
      · rintro ⟨o1, d1, ⟨rfl, rfl⟩, h1, h2⟩
        exact ⟨h1, h2⟩
    | integer v => simp
    | symbol s => simp
    | closure b e => simp

theorem IsCode.arg_iff (h : Heap) (x : Nat) (items : List Code.Item) (c r : Nat) :
    IsCode h (.arg x :: items) c r ↔
      ∃ d, h.get? c = some (.cons x d) ∧ IsCode h items d r := by
  unfold IsCode
  rw [Heap.isCode]
  cases hg : h.get? c with
  | none => simp
  | some cell =>
    cases cell with
    | cons o d =>
      simp only [Bool.and_eq_true, decide_eq_true_eq, Option.some.injEq, Cell.cons.injEq]
      constructor
      · rintro ⟨rfl, h2⟩
        exact ⟨d, ⟨rfl, rfl⟩, h2⟩
      · rintro ⟨d1, ⟨rfl, rfl⟩, h2⟩
        exact ⟨rfl, h2⟩
    | integer v => simp
    | symbol s => simp
    | closure b e => simp

theorem IsCode.mono_code {h h1 : Heap} (hmono : ∀ q c, h.get? q = some c → h1.get? q = some c) :
    ∀ (items : List Code.Item) (c r : Nat), IsCode h items c r → IsCode h1 items c r
  | [], c, r, hc => by
    rw [IsCode.nil_code_iff] at hc ⊢
    exact hc
  | .op k :: items, c, r, hc => by
    rw [IsCode.op_iff] at hc ⊢
    obtain ⟨o, d, h1c, h2c, h3c⟩ := hc
    exact ⟨o, d, hmono _ _ h1c, hmono _ _ h2c, IsCode.mono_code hmono items d r h3c⟩
  | .arg x :: items, c, r, hc => by
    rw [IsCode.arg_iff] at hc ⊢
    obtain ⟨d, h1c, h3c⟩ := hc
    exact ⟨d, hmono _ _ h1c, IsCode.mono_code hmono items d r h3c⟩

theorem IsCode.append_iff (h : Heap) : ∀ (xs ys : List Code.Item) (c r : Nat),
    IsCode h (xs ++ ys) c r ↔ ∃ m, IsCode h xs c m ∧ IsCode h ys m r
  | [], ys, c, r => by
    simp only [List.nil_append, IsCode.nil_code_iff]
    constructor
    · intro hc
      exact ⟨c, rfl, hc⟩
    · rintro ⟨m, rfl, hc⟩
      exact hc
  | .op k :: xs, ys, c, r => by
    simp only [List.cons_append, IsCode.op_iff, IsCode.append_iff h xs ys]
    constructor
    · rintro ⟨o, d, h1, h2, m, h3, h4⟩
      exact ⟨m, ⟨o, d, h1, h2, h3⟩, h4⟩
    · rintro ⟨m, ⟨o, d, h1, h2, h3⟩, h4⟩
      exact ⟨o, d, h1, h2, m, h3, h4⟩
  | .arg x :: xs, ys, c, r => by
    simp only [List.cons_append, IsCode.arg_iff, IsCode.append_iff h xs ys]
    constructor
    · rintro ⟨d, h1, m, h3, h4⟩
      exact ⟨m, ⟨d, h1, h3⟩, h4⟩
    · rintro ⟨m, ⟨d, h1, h3⟩, h4⟩
      exact ⟨d, h1, m, h3, h4⟩

theorem Heap.Grow.cell {h h1 : Heap} (hg : h.Grow h1) (hwf : h.WF) {q : Nat} {c : Cell}
    (hq : h.get? q = some c) : h1.get? q = some c :=
  (hg.2 q (hwf.lt hq)).trans hq

theorem Heap.areClosures_append (h : Heap) (e : Nat) : ∀ (fs bs : List Nat) (f b : Nat),
    h.areClosures e fs bs = true → h.get? f = some (.closure b e) →
    h.areClosures e (fs ++ [f]) (bs ++ [b]) = true
  | [], [], f, b, _, hf => by simp [Heap.areClosures, hf]
  | [], _ :: _, _, _, h1, _ => by simp [Heap.areClosures] at h1
  | _ :: _, [], _, _, h1, _ => by simp [Heap.areClosures] at h1
  | f0 :: fs, b0 :: bs, f, b, h1, hf => by
    simp only [Heap.areClosures, Bool.and_eq_true, List.cons_append] at h1 ⊢
    exact ⟨h1.1, Heap.areClosures_append h e fs bs f b h1.2 hf⟩

theorem Heap.areClosures_grow {h h1 : Heap} (hg : h.Grow h1) (hwf : h.WF) (e : Nat) :
    ∀ (fs bs : List Nat), h.areClosures e fs bs = true → h1.areClosures e fs bs = true
  | [], [], _ => rfl
  | [], _ :: _, h1 => by simp [Heap.areClosures] at h1
  | _ :: _, [], h1 => by simp [Heap.areClosures] at h1
  | f :: fs, b :: bs, h1 => by
    simp only [Heap.areClosures, Bool.and_eq_true, beq_iff_eq] at h1 ⊢
    exact ⟨hg.cell hwf h1.1, Heap.areClosures_grow hg hwf e fs bs h1.2⟩

theorem Heap.areClosures_length (h : Heap) (e : Nat) : ∀ (fs bs : List Nat),
    h.areClosures e fs bs = true → fs.length = bs.length
  | [], [], _ => rfl
  | [], _ :: _, h1 => by simp [Heap.areClosures] at h1
  | _ :: _, [], h1 => by simp [Heap.areClosures] at h1
  | f :: fs, b :: bs, h1 => by
    simp only [Heap.areClosures, Bool.and_eq_true] at h1
    simp [Heap.areClosures_length h e fs bs h1.2]

theorem Heap.areClosures_mem (h : Heap) (e : Nat) : ∀ (fs bs : List Nat),
    h.areClosures e fs bs = true → ∀ f ∈ fs, ∃ b, b ∈ bs ∧ h.get? f = some (.closure b e)
  | [], _, _ => fun f hf => by simp at hf
  | _ :: _, [], h1 => by simp [Heap.areClosures] at h1
  | f0 :: fs, b0 :: bs, h1 => by
    simp only [Heap.areClosures, Bool.and_eq_true, beq_iff_eq] at h1
    intro f hf
    rcases List.mem_cons.1 hf with rfl | hf
    · exact ⟨b0, List.mem_cons_self _ _, h1.1⟩
    · obtain ⟨b, hb, hc⟩ := Heap.areClosures_mem h e fs bs h1.2 f hf
      exact ⟨b, List.mem_cons_of_mem _ hb, hc⟩

theorem Runtime.steps_step {n : Nat} {rt rt1 : Runtime} (h : Runtime.step rt = .ok () rt1) :
    Runtime.steps (n + 1) rt = Runtime.steps n rt1 := by
  rw [Runtime.steps, h]

/-- The rounds of `LDF` and `CONS` that build the argument list of closures:
each closure is made with the current environment and put, in a new cell,
in front of the list on top of `S`. -/
theorem Runtime.closureArgs_run : ∀ (bs : List Nat) (rt : Runtime) (r acc s0 : Nat),
    rt.heap.WF → IsCode rt.heap (Spec.closureArgs bs) rt.c_ r →
    rt.heap.get? rt.s_ = some (.cons acc s0) →
    ∃ rt1 fs acc1, Runtime.steps (2 * bs.length) rt = .ok () rt1 ∧ rt1.c_ = r ∧
      rt1.e_ = rt.e_ ∧ rt1.d_ = rt.d_ ∧ rt1.heap.WF ∧ rt.heap.Grow rt1.heap ∧
      rt1.heap.get? rt1.s_ = some (.cons acc1 s0) ∧
      IsSeg (fun p => rt.heap.size ≤ p ∧ p < rt1.heap.size) rt1.heap acc1 fs acc ∧
      rt1.heap.areClosures rt.e_ fs bs.reverse = true
  | [], rt, r, acc, s0, hwf, hcode, hs => by
    rw [Spec.closureArgs, IsCode.nil_code_iff] at hcode
    exact ⟨rt, [], acc, rfl, hcode, rfl, rfl, hwf, Heap.Grow.refl_grow _, hs, rfl, rfl⟩
  | b :: bs, rt, r, acc, s0, hwf, hcode, hs => by
    rw [Spec.closureArgs] at hcode
    simp only [List.cons_append, List.nil_append] at hcode
    rw [IsCode.op_iff] at hcode
    obtain ⟨o1, c1, hc, ho1, hcode⟩ := hcode
    rw [IsCode.arg_iff] at hcode
    obtain ⟨c2, hc1, hcode⟩ := hcode
    rw [IsCode.op_iff] at hcode
    obtain ⟨o2, c3, hc2, ho2, hcode⟩ := hcode
    have hstep1 := Runtime.step_LDF rt o1 c1 b c2 hc ho1 hc1
    have hwf1 : ((rt.heap.alloc (.closure b rt.e_)).2.alloc (.cons rt.heap.size rt.s_)).2.WF :=
      (hwf.alloc _).alloc _
    have hg1 : rt.heap.Grow ((rt.heap.alloc (.closure b rt.e_)).2.alloc
        (.cons rt.heap.size rt.s_)).2 :=
      (Heap.Grow.of_alloc _ _).trans_grow (Heap.Grow.of_alloc _ _)
    have hstep2 := Runtime.step_CONS
      { rt with
        heap := ((rt.heap.alloc (.closure b rt.e_)).2.alloc (.cons rt.heap.size rt.s_)).2,
        s_ := rt.heap.size + 1, c_ := c2 }
      o2 c3 rt.heap.size acc rt.s_ s0 (hg1.cell hwf hc2) (hg1.cell hwf ho2)
      (by simp) (hg1.cell hwf hs)
    simp only [Heap.size_alloc] at hstep2
    have hwf2 := (hwf1.alloc (.cons rt.heap.size acc)).alloc (.cons (rt.heap.size + 1 + 1) s0)
    have hg2 : rt.heap.Grow
        ((((rt.heap.alloc (.closure b rt.e_)).2.alloc (.cons rt.heap.size rt.s_)).2.alloc
          (.cons rt.heap.size acc)).2.alloc (.cons (rt.heap.size + 1 + 1) s0)).2 :=
      hg1.trans_grow ((Heap.Grow.of_alloc _ _).trans_grow (Heap.Grow.of_alloc _ _))
    have e1 : ¬ rt.heap.size = rt.heap.size + 1 + 1 + 1 := by omega
    have e2 : ¬ rt.heap.size = rt.heap.size + 1 + 1 := by omega
    have e3 : ¬ rt.heap.size = rt.heap.size + 1 := by omega
    have e4 : ¬ rt.heap.size + 1 + 1 = rt.heap.size + 1 + 1 + 1 := by omega
    have hf : ((((rt.heap.alloc (.closure b rt.e_)).2.alloc (.cons rt.heap.size rt.s_)).2.alloc
        (.cons rt.heap.size acc)).2.alloc (.cons (rt.heap.size + 1 + 1) s0)).2.get? rt.heap.size
        = some (.closure b rt.e_) := by
      simp [e1, e2, e3]
    have hcell : ((((rt.heap.alloc (.closure b rt.e_)).2.alloc
        (.cons rt.heap.size rt.s_)).2.alloc (.cons rt.heap.size acc)).2.alloc
          (.cons (rt.heap.size + 1 + 1) s0)).2.get? (rt.heap.size + 1 + 1)
        = some (.cons rt.heap.size acc) := by
      simp [e4]
    obtain ⟨rt1, fs, acc1, hrun, hc1', he1, hd1, hwf3, hg3, hs3, hl3, hcl3⟩ :=
      Runtime.closureArgs_run bs
        { rt with
          heap := ((((rt.heap.alloc (.closure b rt.e_)).2.alloc
            (.cons rt.heap.size rt.s_)).2.alloc (.cons rt.heap.size acc)).2.alloc
              (.cons (rt.heap.size + 1 + 1) s0)).2,
          s_ := rt.heap.size + 1 + 1 + 1, c_ := c3 }
        r (rt.heap.size + 1 + 1) s0 hwf2
        (IsCode.mono_code (fun q c hq => hg2.cell hwf hq) _ _ _ hcode)
        (by simp)
    refine ⟨rt1, fs ++ [rt.heap.size], acc1, ?_, hc1', he1, hd1, hwf3, hg2.trans_grow hg3, hs3,
      ?_, ?_⟩
    · have : 2 * (b :: bs).length = 2 * bs.length + 1 + 1 := by
        simp only [List.length_cons]
        omega
      rw [this, Runtime.steps_step hstep1, Runtime.steps_step hstep2]
      exact hrun
    · refine IsSeg.snoc_same (P := fun p => rt.heap.size ≤ p ∧ p < rt1.heap.size)
        ⟨by omega, hwf3.lt (hg3.cell hwf2 hcell)⟩ (hg3.cell hwf2 hcell) _ _ ?_
      exact IsSeg.mono_seg
        (fun p hp => ⟨⟨by simp only [Heap.size_alloc] at hp; omega, hp.2⟩, rfl⟩) _ _ _ hl3
    · rw [List.reverse_cons]
      exact Heap.areClosures_append _ _ _ _ _ _ hcl3 (hg3.cell hwf2 hf)

/-- The round of `RAP` with a dummy frame in front of `E`, a closure on top
of `S` and a dummy frame in front of the environment of the closure. -/
theorem Runtime.step_RAP (rt : Runtime) (op rest e0 k a s1 s0 body cenv cd : Nat)
    (hc : rt.heap.get? rt.c_ = some (.cons op rest))
    (hop : rt.heap.get? op = some (.integer Instruction.RAP))
    (he : rt.heap.get? rt.e_ = some (.cons Nil e0))
    (hs : rt.heap.get? rt.s_ = some (.cons k s1))
    (hs1 : rt.heap.get? s1 = some (.cons a s0))
    (hk : rt.heap.get? k = some (.closure body cenv))
    (hce : rt.heap.get? cenv = some (.cons Nil cd))
    (hwf : rt.heap.WF) (hbody : Stack.valid rt.heap body = true) :
    Runtime.step rt
      = .ok () { rt with
          heap := (rt.heap.set cenv (.cons a cd)).pushContext s0 e0 rest rt.d_,
          s_ := Nil, e_ := cenv, c_ := body, d_ := rt.heap.size + 3 } := by
  rw [Runtime.step_fetch rt op rest _ hc hop]
  have hklt : k < rt.heap.size := hwf.lt hk
  have hcelt : cenv < rt.heap.size := hwf.lt hce
  have hkce : k ≠ cenv := by
    rintro rfl
    rw [hk] at hce
    cases hce
  have hk1 : (rt.heap.set cenv (.cons a cd)).get? k = some (.closure body cenv) := by
    rw [Heap.get?_set, if_neg hkce, hk]
  have hk2 : ((rt.heap.set cenv (.cons a cd)).pushContext s0 e0 rest rt.d_).get? k
      = some (.closure body cenv) := by
    rw [Heap.pushContext_old _ _ _ _ _ (by simpa using hklt), hk1]
  have hce2 : ((rt.heap.set cenv (.cons a cd)).pushContext s0 e0 rest rt.d_).isCons cenv
      = true := by
    unfold Heap.isCons
    rw [Heap.pushContext_old _ _ _ _ _ (by simpa using hcelt), Heap.get?_set, if_pos rfl]
  have hb2 : Stack.valid ((rt.heap.set cenv (.cons a cd)).pushContext s0 e0 rest rt.d_) body
      = true := by
    unfold Stack.valid at hbody ⊢
    simp only [Bool.or_eq_true, decide_eq_true_eq] at hbody ⊢
    rcases hbody with hb | hb
    · exact Or.inl hb
    · right
      unfold Heap.isCons at hb ⊢
      split at hb
      · rename_i x y hcell
        have hlt : body < rt.heap.size := hwf.lt hcell
        rw [Heap.pushContext_old _ _ _ _ _ (by simpa using hlt), Heap.get?_set]
        by_cases hbc : body = cenv
        · rw [if_pos hbc]
        · rw [if_neg hbc, hcell]
      · cases hb
  have hsave := Runtime.saveContext_push
    { rt with heap := rt.heap.set cenv (.cons a cd), s_ := s0, e_ := e0, c_ := rest }
  simp only [Heap.size_set] at hsave
  have hnil : ∀ h : Heap, Stack.valid h Nil = true := fun h => by simp [Stack.valid]
  simp [Runtime.execute, Instruction.LD, Instruction.NIL, Instruction.LDC, Instruction.SEL,
    Instruction.JOIN, Instruction.LDF, Instruction.AP, Instruction.RTN, Instruction.DUM,
    Instruction.RAP, Environment.popDummyEnvironment, he, Runtime.popS, hs, hs1, getHeap,
    Heap.environment, hk, Heap.car, hce, assert, Heap.setCar, hsave, Runtime.setS, hnil,
    Runtime.setE, hce2, Heap.body, hk2, Runtime.setC, hb2]

theorem IsSeg.isList {P : Nat → Prop} {h : Heap} : ∀ (items : List Nat) (c : Nat),
    IsSeg P h c items Nil → IsList h c items
  | [], c, hs => by
    have : c = Nil := hs
    rw [IsList.nil_iff]
    exact this
  | x :: xs, c, ⟨_, d, hd, hs⟩ => by
    rw [IsList.cons_iff]
    exact ⟨d, hd, IsSeg.isList xs d hs⟩

theorem Heap.areClosures_mono {h h1 : Heap} {e : Nat}
    (hmono : ∀ f b, h.get? f = some (.closure b e) → h1.get? f = some (.closure b e)) :
    ∀ (fs bs : List Nat), h.areClosures e fs bs = true → h1.areClosures e fs bs = true
  | [], [], _ => rfl
  | [], _ :: _, h1 => by simp [Heap.areClosures] at h1
  | _ :: _, [], h1 => by simp [Heap.areClosures] at h1
  | f :: fs, b :: bs, h1 => by
    simp only [Heap.areClosures, Bool.and_eq_true, beq_iff_eq] at h1 ⊢
    exact ⟨hmono _ _ h1.1, Heap.areClosures_mono hmono fs bs h1.2⟩

/-- C29: the instruction sequence of a `letrec` whose values are lambdas:
`DUM`, `NIL`, for each value `LDF` and `CONS`, `LDF` with the body, `RAP`.
After the round of `RAP` the register `E` is the cell that `DUM` made, whose
`car` is now the argument list and whose `cdr` is the environment of before
the `DUM`; every closure made in between, the arguments and the closure of
the body, has that cell as its environment, so each argument is an element of
the first frame of its own environment; `S` is `Nil`, `C` is the body, and the
list pushed on `D` holds the stack, the environment of before the `DUM` and the
rest of the code. -/
theorem letrec_ties_the_knot (rt : Runtime) (bs : List Nat) (body r : Nat)
    (hcode : IsCode rt.heap (Spec.letrecCode bs body) rt.c_ r)
    (hwf : rt.heap.WF) (hbody : Stack.valid rt.heap body = true) :
    ∃ rt0 rt1 fs args k t,
      Runtime.step rt = .ok () rt0 ∧ rt0.heap.get? rt0.e_ = some (.cons Nil rt.e_) ∧
      rt.heap.get? rt0.e_ = none ∧
      Runtime.steps (2 * bs.length + 4) rt = .ok () rt1 ∧
      rt1.e_ = rt0.e_ ∧ rt1.heap.get? rt1.e_ = some (.cons args rt.e_) ∧
      IsList rt1.heap args fs ∧ rt1.heap.areClosures rt1.e_ fs bs.reverse = true ∧
      (∀ f ∈ fs, ∃ b, b ∈ bs ∧ rt1.heap.get? f = some (.closure b rt1.e_)) ∧
      rt1.heap.get? k = some (.closure body rt1.e_) ∧ rt.heap.get? k = none ∧
      rt1.s_ = Nil ∧ rt1.c_ = body ∧
      rt1.heap.get? rt1.d_ = some (.cons t rt.d_) ∧ IsList rt1.heap t [rt.s_, rt.e_, r] := by
  simp only [Spec.letrecCode, List.cons_append, List.nil_append, List.append_assoc] at hcode
  rw [IsCode.op_iff] at hcode
  obtain ⟨oD, c1, hc, hoD, hcode⟩ := hcode
  rw [IsCode.op_iff] at hcode
  obtain ⟨oN, c2, hc1, hoN, hcode⟩ := hcode
  rw [IsCode.append_iff] at hcode
  obtain ⟨m, hargs, hcode⟩ := hcode
  rw [IsCode.op_iff] at hcode
  obtain ⟨oL, c4, hm, hoL, hcode⟩ := hcode
  rw [IsCode.arg_iff] at hcode
  obtain ⟨c5, hc4, hcode⟩ := hcode
  rw [IsCode.op_iff] at hcode
  obtain ⟨oR, r1, hc5, hoR, hcode⟩ := hcode
  rw [IsCode.nil_code_iff] at hcode
  rw [hcode] at hc5
  -- `DUM`
  have hstepD := Runtime.step_DUM rt oD c1 hc hoD
  have hgA : rt.heap.Grow (rt.heap.alloc (.cons Nil rt.e_)).2 := Heap.Grow.of_alloc _ _
  have hwfA := hwf.alloc (.cons Nil rt.e_)
  -- `NIL`
  have hstepN := Runtime.step_NIL
    { rt with heap := (rt.heap.alloc (.cons Nil rt.e_)).2, e_ := rt.heap.size, c_ := c1 }
    oN c2 (hgA.cell hwf hc1) (hgA.cell hwf hoN)
  simp only [Heap.size_alloc] at hstepN
  have hgB : rt.heap.Grow ((rt.heap.alloc (.cons Nil rt.e_)).2.alloc (.cons Nil rt.s_)).2 :=
    hgA.trans_grow (Heap.Grow.of_alloc _ _)
  have hwfB := hwfA.alloc (.cons Nil rt.s_)
  -- the arguments
  obtain ⟨rtC, fs, acc1, hrunC, hcC, heC, hdC, hwfC, hgC, hsC, hsegC, hclC⟩ :=
    Runtime.closureArgs_run bs
      { rt with heap := ((rt.heap.alloc (.cons Nil rt.e_)).2.alloc (.cons Nil rt.s_)).2,
                s_ := rt.heap.size + 1, e_ := rt.heap.size, c_ := c2 }
      m Nil rt.s_ hwfB (IsCode.mono_code (fun q c hq => hgB.cell hwf hq) _ _ _ hargs)
      (by simp)
  simp only at hcC heC hdC hgC hsC hsegC hclC
  simp only [Heap.size_alloc] at hsegC
  have hgRC : rt.heap.Grow rtC.heap := hgB.trans_grow hgC
  have hdum : rtC.heap.get? rt.heap.size = some (.cons Nil rt.e_) :=
    hgC.cell hwfB (by
      have e1 : ¬ rt.heap.size = rt.heap.size + 1 := by omega
      simp [e1])
  -- `LDF` with the body
  have hstepL := Runtime.step_LDF rtC oL c4 body c5 (hcC ▸ hgRC.cell hwf hm)
    (hgRC.cell hwf hoL) (hgRC.cell hwf hc4)
  simp only [heC, hdC] at hstepL
  have hgD : rtC.heap.Grow ((rtC.heap.alloc (.closure body rt.heap.size)).2.alloc
      (.cons rtC.heap.size rtC.s_)).2 :=
    (Heap.Grow.of_alloc _ _).trans_grow (Heap.Grow.of_alloc _ _)
  have hwfD := (hwfC.alloc (.closure body rt.heap.size)).alloc (.cons rtC.heap.size rtC.s_)
  have hgRD := hgRC.trans_grow hgD
  have hkD : ((rtC.heap.alloc (.closure body rt.heap.size)).2.alloc
      (.cons rtC.heap.size rtC.s_)).2.get? rtC.heap.size
      = some (.closure body rt.heap.size) := by
    have e1 : ¬ rtC.heap.size = rtC.heap.size + 1 := by omega
    simp [e1]
  have hbodyD : Stack.valid ((rtC.heap.alloc (.closure body rt.heap.size)).2.alloc
      (.cons rtC.heap.size rtC.s_)).2 body = true := by
    unfold Stack.valid at hbody ⊢
    simp only [Bool.or_eq_true, decide_eq_true_eq] at hbody ⊢
    rcases hbody with hb | hb
    · exact Or.inl hb
    · right
      unfold Heap.isCons at hb ⊢
      split at hb
      · rename_i x y hcell
        rw [hgRD.cell hwf hcell]
      · cases hb
  -- `RAP`
  have hstepR := Runtime.step_RAP
    { rtC with
      heap := ((rtC.heap.alloc (.closure body rt.heap.size)).2.alloc
        (.cons rtC.heap.size rtC.s_)).2,
      s_ := rtC.heap.size + 1, c_ := c5 }
    oR r rt.e_ rtC.heap.size acc1 rtC.s_ rt.s_ body rt.heap.size rt.e_
    (hgRD.cell hwf hc5) (hgRD.cell hwf hoR)
    (by rw [heC]; exact hgD.cell hwfC hdum) (by simp) (hgD.cell hwfC hsC) hkD
    (hgD.cell hwfC hdum) hwfD hbodyD
  simp only [heC, hdC] at hstepR
  have hsizeC : rt.heap.size + 1 + 1 ≤ rtC.heap.size := hgC.1
  obtain ⟨rtF, hstepF, hheapF, hsF, heF, hcF, hdF⟩ : ∃ rtF : Runtime,
      Runtime.step { rtC with
        heap := ((rtC.heap.alloc (.closure body rt.heap.size)).2.alloc
          (.cons rtC.heap.size rtC.s_)).2,
        s_ := rtC.heap.size + 1, e_ := rt.heap.size, c_ := c5, d_ := rt.d_ } = .ok () rtF ∧
      rtF.heap = ((((rtC.heap.alloc (.closure body rt.heap.size)).2.alloc
        (.cons rtC.heap.size rtC.s_)).2.set rt.heap.size (.cons acc1 rt.e_)).pushContext
          rt.s_ rt.e_ r rt.d_) ∧
      rtF.s_ = Nil ∧ rtF.e_ = rt.heap.size ∧ rtF.c_ = body ∧
      rtF.d_ = rtC.heap.size + 1 + 1 + 3 :=
    ⟨_, hstepR, rfl, rfl, rfl, rfl, by simp only [Heap.size_alloc]⟩
  have hsteps : Runtime.steps (2 * bs.length + 4) rt = .ok () rtF := by
    have : 2 * bs.length + 4 = 1 + (1 + (2 * bs.length + (1 + 1))) := by omega
    rw [this, Runtime.steps_add _ _ _ _ (by rw [Runtime.steps_one]; exact hstepD),
      Runtime.steps_add _ _ _ _ (by rw [Runtime.steps_one]; exact hstepN),
      Runtime.steps_add _ _ _ _ hrunC, Runtime.steps_step hstepL, Runtime.steps_one]
    exact hstepF
  -- the heap after `RAP`
  have hold : ∀ p, p ≠ rt.heap.size → p < rtC.heap.size →
      rtF.heap.get? p = rtC.heap.get? p := by
    intro p hne hp
    rw [hheapF,
      Heap.pushContext_old _ _ _ _ _ (by simp only [Heap.size_set, Heap.size_alloc]; omega),
      Heap.get?_set, if_neg hne, Heap.get?_alloc, if_neg (by simp only [Heap.size_alloc]; omega),
      Heap.get?_alloc, if_neg (by omega)]
  have hnew : ∀ p c, p ≠ rt.heap.size → rtC.heap.get? p = some c →
      rtF.heap.get? p = some c := by
    intro p c hp hcell
    rw [hold p hp (hwfC.lt hcell)]
    exact hcell
  have hclos : ∀ f b, rtC.heap.get? f = some (.closure b rt.heap.size) →
      rtF.heap.get? f = some (.closure b rt.heap.size) := by
    intro f b hf
    refine hnew f _ ?_ hf
    intro hfe
    rw [hfe, hdum] at hf
    cases hf
  refine ⟨_, rtF, fs, acc1, rtC.heap.size, rtC.heap.size + 1 + 1, hstepD, by simp, ?_, hsteps,
    heF, ?_, ?_, ?_, ?_, ?_, ?_, hsF, hcF, ?_, ?_⟩
  · cases hnone : rt.heap.get? rt.heap.size with
    | none => rfl
    | some c => exact absurd (hwf.lt hnone) (Nat.lt_irrefl _)
  · rw [heF, hheapF,
      Heap.pushContext_old _ _ _ _ _ (by simp only [Heap.size_set, Heap.size_alloc]; omega),
      Heap.get?_set, if_pos rfl]
  · refine IsSeg.isList _ _ (@IsSeg.mono_seg (fun p => rt.heap.size + 1 + 1 ≤ p ∧ p < rtC.heap.size)
      (fun _ => True) _ _ (fun p hp => ⟨trivial, hold p (by omega) hp.2⟩) _ _ _ hsegC)
  · rw [heF]
    exact Heap.areClosures_mono hclos _ _ hclC
  · rw [heF]
    intro f hf
    obtain ⟨b, hb, hcell⟩ :=
      Heap.areClosures_mem _ _ _ _ (Heap.areClosures_mono hclos _ _ hclC) f hf
    exact ⟨b, List.mem_reverse.1 hb, hcell⟩
  · rw [heF, hheapF,
      Heap.pushContext_old _ _ _ _ _ (by simp only [Heap.size_set, Heap.size_alloc]; omega),
      Heap.get?_set, if_neg (by omega), hkD]
  · cases hnone : rt.heap.get? rtC.heap.size with
    | none => rfl
    | some c =>
      have := hwf.lt hnone
      omega
  · rw [hdF, hheapF]
    have := (Heap.pushContext_cells ((((rtC.heap.alloc (.closure body rt.heap.size)).2.alloc
      (.cons rtC.heap.size rtC.s_)).2.set rt.heap.size (.cons acc1 rt.e_))) rt.s_ rt.e_ r rt.d_).2.2.2
    simp only [Heap.size_set, Heap.size_alloc] at this
    exact this
  · rw [hheapF]
    have := Heap.pushContext_list ((((rtC.heap.alloc (.closure body rt.heap.size)).2.alloc
      (.cons rtC.heap.size rtC.s_)).2.set rt.heap.size (.cons acc1 rt.e_))) rt.s_ rt.e_ r rt.d_
    simp only [Heap.size_set, Heap.size_alloc] at this
    exact this

/-- The code of `(letrec (f g) ((lambda (x) (g x)) (lambda (y) y)) (f 1))` is
the sequence of C29 with the two lambda bodies, and running it ties the knot. -/
theorem letrec_ties_the_knot_example :
    IsCode (Runtime.loaded Sample.mutualLetrec).heap (Spec.letrecCode [64, 77] 102)
      (Runtime.loaded Sample.mutualLetrec).c_ Nil ∧
    ∃ rt0 rt1 fs args k t,
      Runtime.step (Runtime.loaded Sample.mutualLetrec) = .ok () rt0 ∧
      rt0.heap.get? rt0.e_ = some (.cons Nil (Runtime.loaded Sample.mutualLetrec).e_) ∧
      (Runtime.loaded Sample.mutualLetrec).heap.get? rt0.e_ = none ∧
      Runtime.steps (2 * [64, 77].length + 4) (Runtime.loaded Sample.mutualLetrec)
        = .ok () rt1 ∧
      rt1.e_ = rt0.e_ ∧
      rt1.heap.get? rt1.e_ = some (.cons args (Runtime.loaded Sample.mutualLetrec).e_) ∧
      IsList rt1.heap args fs ∧ rt1.heap.areClosures rt1.e_ fs [64, 77].reverse = true ∧
      (∀ f ∈ fs, ∃ b, b ∈ [64, 77] ∧ rt1.heap.get? f = some (.closure b rt1.e_)) ∧
      rt1.heap.get? k = some (.closure 102 rt1.e_) ∧
      (Runtime.loaded Sample.mutualLetrec).heap.get? k = none ∧
      rt1.s_ = Nil ∧ rt1.c_ = 102 ∧
      rt1.heap.get? rt1.d_ = some (.cons t (Runtime.loaded Sample.mutualLetrec).d_) ∧
      IsList rt1.heap t [(Runtime.loaded Sample.mutualLetrec).s_,
        (Runtime.loaded Sample.mutualLetrec).e_, Nil] :=
  ⟨by decide!,
    letrec_ties_the_knot (Runtime.loaded Sample.mutualLetrec) [64, 77] 102 Nil (by decide!)
      (Heap.WF.of_wfCheck (by decide!)) (by decide!)⟩

/-! ## The collector under handles and symbols -/

theorem Store.static_check :
    Store.applyAll Store.staticOps Store.initial = .ok () Store.static ∧
    Store.static.gc.freeList_ = some 31 ∧ Store.static.gc.numBanks_ = 1 ∧
    Store.static.gc.roots_ = List.range 31 ∧
    Store.static.symbols_ = initialSymbols ∧
    Store.static.gc.cells[29]? = some ⟨.Used, .Symbol, .name "nil", .ones⟩ ∧
    Store.static.gc.cells[30]? = some ⟨.Used, .Integer, .int 1, .ones⟩ ∧
    Store.static.gc.cells[31]? = some ⟨.Free, .unset, .ones, .ones⟩ := by
  decide!

theorem GC.getElem?_lt {cells : List GC.Cell} {a : Nat} {c : GC.Cell}
    (h : cells[a]? = some c) : a < cells.length := by
  rcases Nat.lt_or_ge a cells.length with hlt | hge
  · exact hlt
  · rw [List.getElem?_eq_none hge] at h
    cases h

/-- The loop of `GC::Mark` changes nothing of a cell but its status, and
that to `Marked` only. -/
theorem GC.markLoop_status : ∀ (fuel : Nat) (cells : List GC.Cell) (q : List GC.Word)
    (live : Nat) (cells1 : List GC.Cell) (live1 : Nat),
    GC.markLoop fuel cells q live = .ok (cells1, live1) →
    ∀ (a : Nat) (c1 : GC.Cell), cells1[a]? = some c1 →
      ∃ c, cells[a]? = some c ∧ (c1 = c ∨ c1 = { c with status := .Marked })
  | 0, cells, q, live, cells1, live1, h => by simp [GC.markLoop] at h
  | fuel + 1, cells, [], live, cells1, live1, h => by
    simp only [GC.markLoop, Except.ok.injEq, Prod.mk.injEq] at h
    intro a c1 hc1
    exact ⟨c1, h.1 ▸ hc1, Or.inl rfl⟩
  | fuel + 1, cells, x :: q, live, cells1, live1, h => by
    cases x with
    | ptr p =>
      cases p with
      | none => simp [GC.markLoop] at h
      | some a0 =>
        simp only [GC.markLoop] at h
        cases hc : cells[a0]? with
        | none => rw [hc] at h; simp at h
        | some c0 =>
          rw [hc] at h
          simp only at h
          by_cases hs : c0.status = .Marked
          · rw [if_pos hs] at h
            exact GC.markLoop_status fuel cells q live cells1 live1 h
          · rw [if_neg hs] at h
            have hstep : ∀ (q1 : List GC.Word) (live2 : Nat),
                GC.markLoop fuel (cells.set a0 { c0 with status := .Marked }) q1 live2
                  = .ok (cells1, live1) →
                ∀ (a : Nat) (c1 : GC.Cell), cells1[a]? = some c1 →
                  ∃ c, cells[a]? = some c ∧ (c1 = c ∨ c1 = { c with status := .Marked }) := by
              intro q1 live2 h2 a c1 hc1
              obtain ⟨c2, hc2, hrel⟩ := GC.markLoop_status fuel _ q1 live2 cells1 live1 h2 a c1 hc1
              by_cases ha : a = a0
              · subst ha
                rw [List.getElem?_set_self (GC.getElem?_lt hc)] at hc2
                simp only [Option.some.injEq] at hc2
                subst hc2
                refine ⟨c0, hc, Or.inr ?_⟩
                rcases hrel with h3 | h3 <;> exact h3
              · rw [List.getElem?_set_ne (Ne.symm ha)] at hc2
                exact ⟨c2, hc2, hrel⟩
            split at h <;> exact hstep _ _ h
    | ones => simp [GC.markLoop] at h
    | int v => simp [GC.markLoop] at h
    | name s => simp [GC.markLoop] at h

/-- `GC::Mark` changes nothing of a cell but its status, and that to
`Marked` only. -/
theorem GC.Mark_status (g g1 : GC) (h : GC.Mark g = .ok () g1) (a : Nat) (c1 : GC.Cell)
    (hc1 : g1.cells[a]? = some c1) :
    ∃ c, g.cells[a]? = some c ∧ (c1 = c ∨ c1 = { c with status := .Marked }) := by
  unfold GC.Mark at h
  cases hq : GC.rootTargets g.data_ g.roots_ [] with
  | error f => rw [hq] at h; simp at h
  | ok q =>
    rw [hq] at h
    simp only at h
    cases hl : GC.markLoop (g.roots_.length + 2 * g.cells.length + 1) g.cells q 0 with
    | error f => rw [hl] at h; simp at h
    | ok r =>
      obtain ⟨cells, live⟩ := r
      rw [hl] at h
      simp only [Res.ok.injEq, true_and] at h
      subst h
      exact GC.markLoop_status _ _ _ _ _ _ hl a c1 hc1

/-- A cell that is not reachable from the roots comes out of `GC::Mark` as it
was. -/
theorem GC.Mark_unreached (g g1 : GC) (hm : g.NoMarked) (h : GC.Mark g = .ok () g1) (a : Nat)
    (c : GC.Cell) (hc : g.cells[a]? = some c) (hr : ¬ GC.Reaches g a) :
    g1.cells[a]? = some c := by
  obtain ⟨S, hinv, -⟩ := GC.Mark_spec g g1 hm h
  have hlt : a < g1.cells.length := by
    rw [hinv.length]
    exact GC.getElem?_lt hc
  obtain ⟨c0, hc0, hrel⟩ := GC.Mark_status g g1 h a _ (List.getElem?_eq_getElem hlt)
  rw [hc] at hc0
  simp only [Option.some.injEq] at hc0
  subst hc0
  rcases hrel with h1 | h1
  · rw [List.getElem?_eq_getElem hlt, h1]
  · exfalso
    apply hr
    apply hinv.sound
    rw [hinv.marked]
    exact ⟨_, List.getElem?_eq_getElem hlt, by rw [h1]⟩

theorem GC.sweepCell_used (a : Nat) (s : List GC.Cell × Option Nat) (c : GC.Cell)
    (hc : s.1[a]? = some c) (hs : c.status = .Used) :
    GC.sweepCell a s = (s.1.set a { c with car := .ptr s.2, status := .Free }, some a) := by
  unfold GC.sweepCell
  rw [hc]
  simp only [hs]

/-- A cell that is `Used` when the sweep comes to it is put on the free list:
it is `Free` afterwards, with its `car` the list of before. -/
theorem GC.sweepCells_used (a : Nat) (c : GC.Cell) :
    ∀ (as : List Nat) (s : List GC.Cell × Option Nat), as.Nodup → a ∈ as →
      s.1[a]? = some c → c.status = .Used →
      ∃ p, (GC.sweepCells as s).1[a]? = some { c with car := .ptr p, status := .Free }
  | [], s, _, ha, _, _ => by simp at ha
  | b :: rest, s, hnd, ha, hc, hs => by
    rw [List.nodup_cons] at hnd
    show ∃ p, (GC.sweepCells rest (GC.sweepCell b s)).1[a]? = _
    by_cases hab : a = b
    · subst hab
      refine ⟨s.2, ?_⟩
      rw [GC.sweepCells_other a rest _ hnd.1, GC.sweepCell_used a s c hc hs]
      exact List.getElem?_set_self (GC.getElem?_lt hc)
    · rcases List.mem_cons.1 ha with heq | hmem
      · exact absurd heq hab
      · apply GC.sweepCells_used a c rest _ hnd.2 hmem _ hs
        rw [GC.sweepCell_other a b s hab]
        exact hc

/-- The sweep leaves the first word of a cell as it was or stores a cell
pointer in it. -/
theorem GC.sweepCells_car (a : Nat) :
    ∀ (as : List Nat) (s : List GC.Cell × Option Nat) (c1 : GC.Cell),
      (GC.sweepCells as s).1[a]? = some c1 →
      ∃ c, s.1[a]? = some c ∧ (c1.car = c.car ∨ ∃ p, c1.car = .ptr p)
  | [], s, c1, h => ⟨c1, h, Or.inl rfl⟩
  | b :: rest, s, c1, h => by
    change (GC.sweepCells rest (GC.sweepCell b s)).1[a]? = some c1 at h
    obtain ⟨c2, hc2, hrel⟩ := GC.sweepCells_car a rest _ c1 h
    by_cases hab : a = b
    · subst hab
      cases hb : s.1[a]? with
      | none =>
        have : GC.sweepCell a s = s := by
          unfold GC.sweepCell
          rw [hb]
        rw [this, hb] at hc2
        cases hc2
      | some c =>
        refine ⟨c, rfl, ?_⟩
        unfold GC.sweepCell at hc2
        rw [hb] at hc2
        simp only at hc2
        cases hst : c.status with
        | Marked =>
          rw [hst] at hc2
          simp only [List.getElem?_set_self (GC.getElem?_lt hb), Option.some.injEq] at hc2
          subst hc2
          exact hrel
        | Used =>
          rw [hst] at hc2
          simp only [List.getElem?_set_self (GC.getElem?_lt hb), Option.some.injEq] at hc2
          subst hc2
          rcases hrel with h1 | h1
          · exact Or.inr ⟨_, h1⟩
          · exact Or.inr h1
        | Free =>
          rw [hst] at hc2
          simp only at hc2
          rw [hb] at hc2
          simp only [Option.some.injEq] at hc2
          subst hc2
          exact hrel
    · rw [GC.sweepCell_other a b s hab] at hc2
      exact ⟨c2, hc2, hrel⟩

/-- The free list after the sweep is the one of before, or its head is a
cell the sweep has freed, whose `car` is a cell pointer. -/
theorem GC.sweepCells_head : ∀ (as : List Nat) (s : List GC.Cell × Option Nat) (fl : Option Nat),
    (s.2 = fl ∨ ∃ a c p, s.2 = some a ∧ s.1[a]? = some c ∧ c.status = .Free ∧ c.car = .ptr p) →
    ((GC.sweepCells as s).2 = fl ∨ ∃ a c p, (GC.sweepCells as s).2 = some a ∧
      (GC.sweepCells as s).1[a]? = some c ∧ c.status = .Free ∧ c.car = .ptr p)
  | [], s, fl, h => h
  | b :: rest, s, fl, h => by
    show (GC.sweepCells rest (GC.sweepCell b s)).2 = fl ∨ _
    apply GC.sweepCells_head rest (GC.sweepCell b s) fl
    cases hb : s.1[b]? with
    | none =>
      have : GC.sweepCell b s = s := by
        unfold GC.sweepCell
        rw [hb]
      rw [this]
      exact h
    | some cb =>
      cases hst : cb.status with
      | Used =>
        rw [GC.sweepCell_used b s cb hb hst]
        exact Or.inr ⟨b, _, s.2, rfl, List.getElem?_set_self (GC.getElem?_lt hb), rfl, rfl⟩
      | Marked =>
        have h2 := (GC.sweepCell_marked b s cb hb hst).2
        rcases h with h | ⟨a, c, p, h1, h3, h4, h5⟩
        · exact Or.inl (h2.trans h)
        · refine Or.inr ⟨a, c, p, h2.trans h1, ?_, h4, h5⟩
          have hab : a ≠ b := by
            rintro rfl
            rw [hb] at h3
            simp only [Option.some.injEq] at h3
            subst h3
            rw [hst] at h4
            cases h4
          rw [GC.sweepCell_other a b s hab]
          exact h3
      | Free =>
        have : GC.sweepCell b s = s := by
          unfold GC.sweepCell
          rw [hb]
          simp only [hst]
        rw [this]
        exact h

/-- The sweep of cells none of which is `Used` leaves the free list as it
was. -/
theorem GC.sweepCells_none_used : ∀ (as : List Nat) (s : List GC.Cell × Option Nat), as.Nodup →
    (∀ a ∈ as, ∀ c, s.1[a]? = some c → c.status ≠ .Used) → (GC.sweepCells as s).2 = s.2
  | [], s, _, _ => rfl
  | b :: rest, s, hnd, h => by
    rw [List.nodup_cons] at hnd
    show (GC.sweepCells rest (GC.sweepCell b s)).2 = _
    have hrest : ∀ a ∈ rest, ∀ c, (GC.sweepCell b s).1[a]? = some c → c.status ≠ .Used := by
      intro a ha c hc
      have hab : a ≠ b := by
        rintro rfl
        exact hnd.1 ha
      rw [GC.sweepCell_other a b s hab] at hc
      exact h a (List.mem_cons_of_mem _ ha) c hc
    rw [GC.sweepCells_none_used rest _ hnd.2 hrest]
    cases hb : s.1[b]? with
    | none =>
      unfold GC.sweepCell
      rw [hb]
    | some cb =>
      cases hst : cb.status with
      | Used => exact absurd hst (h b (List.mem_cons_self _ _) cb hb)
      | Marked => exact (GC.sweepCell_marked b s cb hb hst).2
      | Free =>
        unfold GC.sweepCell
        rw [hb]
        simp only [hst]

theorem GC.sweepCells_append (as bs : List Nat) (s : List GC.Cell × Option Nat) :
    GC.sweepCells (as ++ bs) s = GC.sweepCells bs (GC.sweepCells as s) := by
  unfold GC.sweepCells
  rw [List.foldl_append]

/-- The last cell in the order of the sweep that is `Used` is the head of the
free list afterwards. -/
theorem GC.sweepCells_last_used (front back : List Nat) (a : Nat) (c : GC.Cell)
    (s : List GC.Cell × Option Nat) (hnd : (front ++ a :: back).Nodup)
    (hc : s.1[a]? = some c) (hs : c.status = .Used)
    (hback : ∀ b ∈ back, ∀ cb, s.1[b]? = some cb → cb.status ≠ .Used) :
    (GC.sweepCells (front ++ a :: back) s).2 = some a ∧
    (GC.sweepCells (front ++ a :: back) s).1[a]? =
      some { c with car := .ptr (GC.sweepCells front s).2, status := .Free } := by
  have hnd1 := List.nodup_append.1 hnd
  have hnd2 := List.nodup_cons.1 hnd1.2.1
  have hfront : a ∉ front := fun h => hnd1.2.2 h (List.mem_cons_self _ _)
  have hca : (GC.sweepCells front s).1[a]? = some c := by
    rw [GC.sweepCells_other a front s hfront]
    exact hc
  have hstep : GC.sweepCells (front ++ a :: back) s
      = GC.sweepCells back ((GC.sweepCells front s).1.set a
          { c with car := .ptr (GC.sweepCells front s).2, status := .Free }, some a) := by
    rw [GC.sweepCells_append]
    show GC.sweepCells back (GC.sweepCell a _) = _
    rw [GC.sweepCell_used a _ c hca hs]
  rw [hstep]
  constructor
  · rw [GC.sweepCells_none_used back _ hnd2.2]
    intro b hb cb hcb
    have hba : b ≠ a := by
      rintro rfl
      exact hnd2.1 hb
    have hbf : b ∉ front := fun h => hnd1.2.2 h (List.mem_cons_of_mem _ hb)
    simp only [List.getElem?_set_ne (Ne.symm hba)] at hcb
    rw [GC.sweepCells_other b front s hbf] at hcb
    exact hback b hb cb hcb
  · rw [GC.sweepCells_other a back _ hnd2.1]
    exact List.getElem?_set_self (GC.getElem?_lt hca)

/-- An allocation with a cell at the head of the free list hands out that
cell, without a collection. -/
theorem GC.AllocateCell_head (g : GC) (a : Nat) (c : GC.Cell) (hf : g.freeList_ = some a)
    (hc : g.cells[a]? = some c) (hcar : c.car.isOnes = true ∨ ∃ p, c.car = .ptr p) :
    ∃ g2, GC.AllocateCell g = .ok a g2 ∧ g2.numBanks_ = g.numBanks_ ∧ g2.bank_ = g.bank_ ∧
      g2.roots_ = g.roots_ ∧ g2.data_ = g.data_ ∧
      g2.cells = g.cells.set a { c with status := .Used } ∧
      g2.freeList_ = (if c.car.isOnes = true then some (a + 1)
        else match c.car with
          | .ptr p => p
          | _ => none) := by
  unfold GC.AllocateCell
  simp only [M.bind_apply, hf]
  simp only [reduceCtorEq, if_false]
  simp only [pure_bind, hf, hc]
  by_cases hones : c.car.isOnes = true
  · simp only [hones, if_true]
    exact ⟨_, rfl, rfl, rfl, rfl, rfl, rfl, rfl⟩
  · simp only [hones, if_false]
    rcases hcar with h1 | ⟨p, hp⟩
    · exact absurd h1 hones
    · rw [hp]
      exact ⟨_, rfl, rfl, rfl, rfl, rfl, rfl, by simp⟩

theorem GC.Run_ok_Mark (g g1 : GC) (h : GC.Run g = .ok () g1) :
    ∃ gM, GC.Mark g = .ok () gM := by
  cases hM : GC.Mark g with
  | fault f =>
    rw [GC.Run_fault_of_Mark g f hM] at h
    cases h
  | thrown e gM => exact absurd hM (GC.Mark_not_thrown g gM e)
  | ok u gM => exact ⟨gM, rfl⟩

theorem GC.stateAfter_sweep (g gM : GC) (hM : GC.Mark g = .ok () gM) :
    GC.stateAfter (do GC.Mark; GC.Sweep) g = { gM with
      cells := (GC.sweepCells (GC.sweepOrder gM.bank_) (gM.cells, gM.freeList_)).1,
      freeList_ := (GC.sweepCells (GC.sweepOrder gM.bank_) (gM.cells, gM.freeList_)).2 } := by
  unfold GC.stateAfter
  simp only [M.bind_apply, hM, GC.Sweep_eq]

theorem GC.bankCells_first (freeList : Option Nat) :
    (GC.bankCells freeList)[0]? = some ⟨.Free, .unset, .ones, .ones⟩ := by
  unfold GC.bankCells
  rw [List.getElem?_append_left (by simp only [List.length_replicate]; decide)]
  rw [List.getElem?_replicate]
  simp only [GC.BankSize]
  decide

/-- C24: when `GC::Run` returns, the free list is not empty, and with the
head of the free list of before, if there was one, a free cell that holds a
link, the allocation that follows hands out the head of the free list without
another collection.  A bank is appended, and `numBanks_` incremented by one,
exactly when the free list is empty after the sweep; otherwise the banks are
as they were.  When every cell is in use and reachable from the roots, a bank
is appended. -/
theorem run_leaves_a_free_cell (g g1 : GC) (hm : g.NoMarked) (hl : g.Layout)
    (hhead : ∀ a, g.freeList_ = some a → ∃ c, g.cells[a]? = some c ∧ c.status = .Free ∧
      (c.car.isOnes = true ∨ ∃ p, c.car = .ptr p))
    (h : GC.Run g = .ok () g1) :
    g1.freeList_ ≠ none ∧
    (∃ a g2, g1.freeList_ = some a ∧ GC.AllocateCell g1 = .ok a g2 ∧
      g2.numBanks_ = g1.numBanks_) ∧
    ((GC.stateAfter (do GC.Mark; GC.Sweep) g).freeList_ = none →
      g1.numBanks_ = g.numBanks_ + 1 ∧ g1.bank_ = g.cells.length :: g.bank_ ∧
      g1.cells.length = g.cells.length + GC.BankSize ∧ g1.freeList_ = some g.cells.length) ∧
    ((GC.stateAfter (do GC.Mark; GC.Sweep) g).freeList_ ≠ none →
      g1.numBanks_ = g.numBanks_ ∧ g1.bank_ = g.bank_ ∧ g1.cells.length = g.cells.length ∧
      g1.freeList_ = (GC.stateAfter (do GC.Mark; GC.Sweep) g).freeList_) ∧
    ((∀ a c, g.cells[a]? = some c → c.status = .Used ∧ GC.Reaches g a) →
      g1.numBanks_ = g.numBanks_ + 1) := by
  obtain ⟨gM, hM⟩ := GC.Run_ok_Mark g g1 h
  obtain ⟨S, hinv, -, -, -, hbank, hfree, hnum⟩ := GC.Mark_spec g gM hm hM
  have hlen := GC.sweepCells_length (GC.sweepOrder gM.bank_) (gM.cells, gM.freeList_)
  have hlenM : gM.cells.length = g.cells.length := hinv.length
  simp only at hlen
  rw [GC.stateAfter_sweep g gM hM]
  rw [GC.Run_of_Mark g gM hM] at h
  simp only [Res.ok.injEq, true_and] at h
  have hheadS := GC.sweepCells_head (GC.sweepOrder gM.bank_) (gM.cells, gM.freeList_)
    gM.freeList_ (Or.inl rfl)
  -- the banks
  have hbanks : ((GC.sweepCells (GC.sweepOrder gM.bank_) (gM.cells, gM.freeList_)).2 = none →
      g1.numBanks_ = g.numBanks_ + 1 ∧ g1.bank_ = g.cells.length :: g.bank_ ∧
      g1.cells.length = g.cells.length + GC.BankSize ∧ g1.freeList_ = some g.cells.length) ∧
    ((GC.sweepCells (GC.sweepOrder gM.bank_) (gM.cells, gM.freeList_)).2 ≠ none →
      g1.numBanks_ = g.numBanks_ ∧ g1.bank_ = g.bank_ ∧ g1.cells.length = g.cells.length ∧
      g1.freeList_ = (GC.sweepCells (GC.sweepOrder gM.bank_) (gM.cells, gM.freeList_)).2) := by
    constructor
    · intro hnone
      rw [if_pos hnone] at h
      subst h
      refine ⟨by rw [← hnum], ?_, ?_, ?_⟩
      · show _ :: gM.bank_ = _
        rw [hlen, hlenM, hbank]
      · show List.length (_ ++ _) = _
        rw [List.length_append, hlen, hlenM, GC.length_bankCells]
      · show some _ = _
        rw [hlen, hlenM]
    · intro hsome
      rw [if_neg hsome] at h
      subst h
      exact ⟨hnum, hbank, hlen.trans hlenM, rfl⟩
  refine ⟨?_, ?_, hbanks.1, hbanks.2, ?_⟩
  · by_cases hnone : (GC.sweepCells (GC.sweepOrder gM.bank_) (gM.cells, gM.freeList_)).2 = none
    · rw [(hbanks.1 hnone).2.2.2]
      simp
    · rw [(hbanks.2 hnone).2.2.2]
      exact hnone
  · by_cases hnone : (GC.sweepCells (GC.sweepOrder gM.bank_) (gM.cells, gM.freeList_)).2 = none
    · have hcells : g1.cells[g.cells.length]? = some ⟨.Free, .unset, .ones, .ones⟩ := by
        rw [if_pos hnone] at h
        subst h
        show (_ ++ _)[g.cells.length]? = _
        rw [List.getElem?_append_right (by rw [hlen, hlenM]), hlen, hlenM, Nat.sub_self]
        exact GC.bankCells_first none
      obtain ⟨g2, hg2, hn2, -⟩ := GC.AllocateCell_head g1 _ _ (hbanks.1 hnone).2.2.2 hcells
        (Or.inl rfl)
      exact ⟨_, g2, (hbanks.1 hnone).2.2.2, hg2, hn2⟩
    · obtain ⟨a, ha⟩ := Option.ne_none_iff_exists'.1 hnone
      have hf1 : g1.freeList_ = some a := by rw [(hbanks.2 hnone).2.2.2, ha]
      have hcells1 : g1.cells = (GC.sweepCells (GC.sweepOrder gM.bank_)
          (gM.cells, gM.freeList_)).1 := by
        rw [if_neg hnone] at h
        subst h
        rfl
      have hcell : ∃ c, g1.cells[a]? = some c ∧ (c.car.isOnes = true ∨ ∃ p, c.car = .ptr p) := by
        rw [hcells1]
        rcases hheadS with hold | ⟨a1, c, p, h1, h2, -, h4⟩
        · rw [ha, hfree] at hold
          obtain ⟨c0, hc0, -, hcar0⟩ := hhead a hold.symm
          have hlt : a < (GC.sweepCells (GC.sweepOrder gM.bank_)
              (gM.cells, gM.freeList_)).1.length := by
            rw [hlen, hlenM]
            exact GC.getElem?_lt hc0
          refine ⟨_, List.getElem?_eq_getElem hlt, ?_⟩
          obtain ⟨cM, hcM, hrel⟩ := GC.sweepCells_car a _ _ _ (List.getElem?_eq_getElem hlt)
          obtain ⟨c0a, hc0a, hrelM⟩ := GC.Mark_status g gM hM a cM hcM
          rw [hc0] at hc0a
          simp only [Option.some.injEq] at hc0a
          subst hc0a
          have hcarM : cM.car = c0.car := by
            rcases hrelM with h5 | h5 <;> rw [h5]
          rcases hrel with h6 | h6
          · rw [h6, hcarM]
            exact hcar0
          · exact Or.inr h6
        · rw [ha] at h1
          simp only [Option.some.injEq] at h1
          subst h1
          exact ⟨c, h2, Or.inr ⟨p, h4⟩⟩
      obtain ⟨c, hc, hcar⟩ := hcell
      obtain ⟨g2, hg2, hn2, -⟩ := GC.AllocateCell_head g1 a c hf1 hc hcar
      exact ⟨a, g2, hf1, hg2, hn2⟩
  · intro hall
    apply (hbanks.1 _).1
    have hlM : gM.Layout :=
      ⟨by rw [hbank, hnum]; exact hl.1, by rw [hinv.length, hnum]; exact hl.2⟩
    rw [GC.sweepCells_none_used _ _ hlM.disjoint]
    · show gM.freeList_ = none
      rw [hfree]
      cases hf : g.freeList_ with
      | none => rfl
      | some a =>
        obtain ⟨c, hc, hst, -⟩ := hhead a hf
        rw [(hall a c hc).1] at hst
        cases hst
    · intro a _ c hc
      obtain ⟨c0, hc0, -⟩ := GC.Mark_status g gM hM a c hc
      obtain ⟨c1, hc1, hst1⟩ := (hinv.marked a).1 ((hinv.complete a).2 (hall a c0 hc0).2)
      rw [hc] at hc1
      simp only [Option.some.injEq] at hc1
      subst hc1
      rw [hst1]
      simp

theorem GC.Sample.shared_head : GC.Sample.shared.freeList_ = some 4 ∧
    GC.Sample.shared.cells[4]? = some ⟨.Free, .unset, .ones, .ones⟩ := by
  decide!

theorem GC.initial_run : GC.Run GC.initial = .ok () (GC.stateAfter GC.Run GC.initial) ∧
    (GC.stateAfter GC.Run GC.initial).numBanks_ = 1 := by
  decide!

/-- The first collection, on the memory without a bank, appends the first
bank; a collection on the sample heap, whose free list is not empty, returns
with a free cell, and the allocation after it succeeds. -/
theorem run_leaves_a_free_cell_example :
    (∃ g1, GC.Run GC.initial = .ok () g1 ∧ g1.numBanks_ = 1 ∧
      g1.freeList_ ≠ none ∧
      (∃ a g2, g1.freeList_ = some a ∧ GC.AllocateCell g1 = .ok a g2 ∧
        g2.numBanks_ = g1.numBanks_) ∧
      ((GC.stateAfter (do GC.Mark; GC.Sweep) GC.initial).freeList_ = none →
        g1.numBanks_ = GC.initial.numBanks_ + 1 ∧ g1.bank_ = GC.initial.cells.length :: GC.initial.bank_ ∧
        g1.cells.length = GC.initial.cells.length + GC.BankSize ∧
        g1.freeList_ = some GC.initial.cells.length) ∧
      ((GC.stateAfter (do GC.Mark; GC.Sweep) GC.initial).freeList_ ≠ none →
        g1.numBanks_ = GC.initial.numBanks_ ∧ g1.bank_ = GC.initial.bank_ ∧
        g1.cells.length = GC.initial.cells.length ∧
        g1.freeList_ = (GC.stateAfter (do GC.Mark; GC.Sweep) GC.initial).freeList_) ∧
      ((∀ a c, GC.initial.cells[a]? = some c → c.status = .Used ∧ GC.Reaches GC.initial a) →
        g1.numBanks_ = GC.initial.numBanks_ + 1)) ∧
    (∃ g1, GC.Run GC.Sample.shared = .ok () g1 ∧
      g1.freeList_ ≠ none ∧
      (∃ a g2, g1.freeList_ = some a ∧ GC.AllocateCell g1 = .ok a g2 ∧
        g2.numBanks_ = g1.numBanks_) ∧
      ((GC.stateAfter (do GC.Mark; GC.Sweep) GC.Sample.shared).freeList_ = none →
        g1.numBanks_ = GC.Sample.shared.numBanks_ + 1 ∧ g1.bank_ = GC.Sample.shared.cells.length :: GC.Sample.shared.bank_ ∧
        g1.cells.length = GC.Sample.shared.cells.length + GC.BankSize ∧
        g1.freeList_ = some GC.Sample.shared.cells.length) ∧
      ((GC.stateAfter (do GC.Mark; GC.Sweep) GC.Sample.shared).freeList_ ≠ none →
        g1.numBanks_ = GC.Sample.shared.numBanks_ ∧ g1.bank_ = GC.Sample.shared.bank_ ∧
        g1.cells.length = GC.Sample.shared.cells.length ∧
        g1.freeList_ = (GC.stateAfter (do GC.Mark; GC.Sweep) GC.Sample.shared).freeList_) ∧
      ((∀ a c, GC.Sample.shared.cells[a]? = some c → c.status = .Used ∧ GC.Reaches GC.Sample.shared a) →
        g1.numBanks_ = GC.Sample.shared.numBanks_ + 1)) :=
  ⟨⟨GC.stateAfter GC.Run GC.initial, GC.initial_run.1, GC.initial_run.2,
      run_leaves_a_free_cell GC.initial (GC.stateAfter GC.Run GC.initial) GC.initial_valid.1
        GC.initial_valid.2 (fun a ha => by cases ha) GC.initial_run.1⟩,
    ⟨_, GC.Run_of_Mark GC.Sample.shared _ GC.Sample.shared_marked.1,
      run_leaves_a_free_cell GC.Sample.shared _ GC.Sample.shared_valid.1
        GC.Sample.shared_valid.2
        (fun a ha => by
          rw [GC.Sample.shared_head.1] at ha
          cases ha
          exact ⟨_, GC.Sample.shared_head.2, rfl, Or.inl rfl⟩)
        (GC.Run_of_Mark GC.Sample.shared _ GC.Sample.shared_marked.1)⟩⟩

theorem Store.lift_ok {α : Type} (m : M GC α) (st : Store) (a : α) (g : GC)
    (h : m st.gc = .ok a g) : Store.lift m st = .ok a { st with gc := g } := by
  unfold Store.lift
  rw [h]

theorem Store.lift_ok_iff {α : Type} (m : M GC α) (st st1 : Store) (a : α) :
    Store.lift m st = .ok a st1 ↔ m st.gc = .ok a st1.gc ∧ st1.symbols_ = st.symbols_ := by
  unfold Store.lift
  cases h : m st.gc with
  | ok b g =>
    simp only [Res.ok.injEq]
    constructor
    · rintro ⟨rfl, rfl⟩
      exact ⟨⟨rfl, rfl⟩, rfl⟩
    · rintro ⟨⟨rfl, rfl⟩, h2⟩
      refine ⟨rfl, ?_⟩
      cases st1
      simp only at h2
      subst h2
      rfl
  | thrown e g => simp
  | fault f => simp

theorem Store.applyAll_append : ∀ (xs ys : List Store.Op) (st st1 : Store),
    Store.applyAll xs st = .ok () st1 →
    Store.applyAll (xs ++ ys) st = Store.applyAll ys st1
  | [], ys, st, st1, h => by
    simp only [Store.applyAll, Res.ok.injEq, true_and] at h
    subst h
    rfl
  | x :: xs, ys, st, st1, h => by
    simp only [Store.applyAll, List.cons_append] at h ⊢
    cases hx : x.apply st with
    | ok u st2 =>
      rw [hx] at h
      simp only at h ⊢
      exact Store.applyAll_append xs ys st2 st1 h
    | thrown e st2 => rw [hx] at h; simp at h
    | fault f => rw [hx] at h; simp at h

theorem Store.applyAll_one (op : Store.Op) (st st1 : Store) (h : op.apply st = .ok () st1) :
    Store.applyAll [op] st = .ok () st1 := by
  simp only [Store.applyAll, h]

/-- `Symbol::ForName` with a name the table holds: the handle gets the cell
of the table, whatever that cell is by now. -/
theorem Store.ForName_held (st : Store) (location : Nat) (name : String) (e : String × Nat)
    (h : st.symbols_.find? (fun e => e.1 == name) = some e) :
    ∃ st1, Store.ForName location name st = .ok () st1 ∧
      st1.symbols_ = st.symbols_ ∧
      st1.gc.data_ = (location, some e.2) :: st.gc.data_ ∧
      st1.gc.roots_ =
        (if location ∈ st.gc.roots_ then st.gc.roots_ else st.gc.roots_ ++ [location]) ∧
      st1.gc.cells = st.gc.cells ∧ st1.gc.freeList_ = st.gc.freeList_ := by
  unfold Store.ForName
  simp only [M.bind_apply]
  unfold Store.GetCellForName
  simp only [h]
  unfold Store.lift GC.newHandle GC.AddRoot
  simp only [M.bind_apply]
  exact ⟨_, rfl, rfl, rfl, rfl, rfl, rfl⟩

/-- `Symbol::ForName` with a name the table does not hold, when the free
list is not empty: the head of the free list becomes the Symbol cell of the
name and is inserted. -/
theorem Store.ForName_new (st : Store) (location : Nat) (name : String) (a : Nat) (c : GC.Cell)
    (h : st.symbols_.find? (fun e => e.1 == name) = none) (hf : st.gc.freeList_ = some a)
    (hc : st.gc.cells[a]? = some c) (hcar : c.car.isOnes = true ∨ ∃ p, c.car = .ptr p) :
    ∃ st1, Store.ForName location name st = .ok () st1 ∧
      st1.symbols_ = st.symbols_ ++ [(name, a)] ∧
      st1.gc.data_ = (location, some a) :: st.gc.data_ ∧
      st1.gc.roots_ =
        (if location ∈ st.gc.roots_ then st.gc.roots_ else st.gc.roots_ ++ [location]) ∧
      st1.gc.cells = (st.gc.cells.set a { c with status := .Used }).set a
        ⟨.Used, .Symbol, .name name, c.cdr⟩ := by
  obtain ⟨g2, hg2, -, -, hroots, hdata, hcells, -⟩ := GC.AllocateCell_head st.gc a c hf hc hcar
  have hlt := GC.getElem?_lt hc
  have hget : g2.cells[a]? = some { c with status := .Used } := by
    rw [hcells]
    exact List.getElem?_set_self hlt
  unfold Store.ForName
  simp only [M.bind_apply]
  unfold Store.GetCellForName
  simp only [h]
  unfold GC.newSymbolCell
  simp only [M.bind_apply, hg2, hget]
  unfold Store.lift GC.newHandle GC.AddRoot
  simp only [M.bind_apply]
  exact ⟨_, rfl, rfl, by simp only [hdata], by simp only [hroots], by simp only [hcells]⟩

theorem Store.Sample.dropped_check :
    Store.applyAll [.forName 31 "x", .destroy 31] Store.static = .ok () Store.Sample.dropped ∧
    Store.Sample.dropped.symbols_.find? (fun e => e.1 == "x") = some ("x", 31) ∧
    Store.Sample.dropped.symbols_.find? (fun e => e.1 == "y") = none ∧
    Store.Sample.dropped.gc.roots_ = List.range 31 ∧
    Store.Sample.dropped.gc.cells[31]? = some ⟨.Used, .Symbol, .name "x", .ones⟩ := by
  decide!

theorem Store.Sample.dropped_valid :
    Store.Sample.dropped.gc.NoMarked ∧ Store.Sample.dropped.gc.Layout := by
  refine ⟨?_, ?_⟩
  · unfold GC.NoMarked
    decide!
  · unfold GC.Layout
    decide!

theorem Store.Sample.dropped_marked :
    GC.Mark Store.Sample.dropped.gc = .ok () (GC.stateAfter GC.Mark Store.Sample.dropped.gc) ∧
    (GC.stateAfter GC.Mark Store.Sample.dropped.gc).cells[31]?
      = some ⟨.Used, .Symbol, .name "x", .ones⟩ ∧
    Store.Sample.dropped.gc.freeList_ = some 32 ∧
    (∀ cb ∈ (GC.stateAfter GC.Mark Store.Sample.dropped.gc).cells.take 31, cb.status ≠ .Used) ∧
    (∀ cb ∈ (GC.stateAfter GC.Mark Store.Sample.dropped.gc).cells.drop 32, cb.status ≠ .Used) ∧
    GC.sweepOrder (GC.stateAfter GC.Mark Store.Sample.dropped.gc).bank_
      = List.range 31 ++ 31 :: List.range' 32 968 := by
  decide!

theorem GC.mem_drop_of_getElem? {cells : List GC.Cell} {n b : Nat} {cb : GC.Cell}
    (hb : n ≤ b) (hcb : cells[b]? = some cb) : cb ∈ cells.drop n := by
  apply List.getElem?_mem (n := b - n)
  rw [List.getElem?_drop, Nat.add_sub_cancel' hb]
  exact hcb

theorem GC.mem_take_of_getElem? {cells : List GC.Cell} {n b : Nat} {cb : GC.Cell}
    (hb : b < n) (hcb : cells[b]? = some cb) : cb ∈ cells.take n := by
  apply List.getElem?_mem (n := b)
  rw [List.getElem?_take_of_lt hb]
  exact hcb

/-- A collection in which exactly one cell is `Used` and not reached from the
roots: the cell is freed and becomes the head of the free list, with the free
list of before in its `car`; the table is as it was. -/
theorem Store.collect_one (st : Store) (gM : GC) (front back : List Nat) (a : Nat)
    (c : GC.Cell) (hm : st.gc.NoMarked) (hl : st.gc.Layout)
    (hM : GC.Mark st.gc = .ok () gM)
    (horder : GC.sweepOrder gM.bank_ = front ++ a :: back)
    (hc : gM.cells[a]? = some c) (hs : c.status = .Used)
    (hfront : ∀ b ∈ front, ∀ cb, gM.cells[b]? = some cb → cb.status ≠ .Used)
    (hback : ∀ b ∈ back, ∀ cb, gM.cells[b]? = some cb → cb.status ≠ .Used) :
    ∃ st1, Store.lift GC.Run st = .ok () st1 ∧ st1.symbols_ = st.symbols_ ∧
      st1.gc.freeList_ = some a ∧
      st1.gc.cells[a]? = some { c with car := .ptr st.gc.freeList_, status := .Free } ∧
      st1.gc.roots_ = st.gc.roots_ := by
  obtain ⟨S, hinv, -, hroots, -, hbank, hfree, hnum⟩ := GC.Mark_spec st.gc gM hm hM
  have hnd : (GC.sweepOrder gM.bank_).Nodup := by
    rw [hbank]
    exact hl.disjoint
  have hnd2 := hnd
  rw [horder] at hnd2
  have hnd3 := (List.nodup_append.1 hnd2).1
  have hsw := GC.sweepCells_last_used front back a c (gM.cells, gM.freeList_) hnd2 hc hs hback
  rw [GC.sweepCells_none_used front _ hnd3 hfront, ← horder] at hsw
  have hrun := GC.Run_of_Mark st.gc gM hM
  rw [if_neg (by rw [hsw.1]; simp)] at hrun
  exact ⟨_, Store.lift_ok GC.Run _ _ _ hrun, rfl, hsw.1, by rw [← hfree]; exact hsw.2, hroots⟩

/-- The collection in the sample state: the cell of `x`, which no root
reaches, is freed and becomes the head of the free list; the table holds it
as before. -/
theorem Store.Sample.collected :
    ∃ st, Store.applyAll [.forName 31 "x", .destroy 31, .collect] Store.static = .ok () st ∧
      st.symbols_ = Store.Sample.dropped.symbols_ ∧
      st.gc.freeList_ = some 31 ∧
      st.gc.cells[31]? = some ⟨.Free, .Symbol, .ptr (some 32), .ones⟩ ∧
      st.gc.roots_ = List.range 31 := by
  obtain ⟨hM, hc31, hfl, htake, hdrop, horder⟩ := Store.Sample.dropped_marked
  obtain ⟨st1, hrun, hsym, hhead, hcell, hroots⟩ := Store.collect_one Store.Sample.dropped
    (GC.stateAfter GC.Mark Store.Sample.dropped.gc) (List.range 31) (List.range' 32 968) 31
    ⟨.Used, .Symbol, .name "x", .ones⟩ Store.Sample.dropped_valid.1
    Store.Sample.dropped_valid.2 hM horder hc31 rfl
    (fun b hb cb hcb => htake cb (GC.mem_take_of_getElem? (List.mem_range.1 hb) hcb))
    (fun b hb cb hcb => hdrop cb (GC.mem_drop_of_getElem? (List.mem_range'_1.1 hb).1 hcb))
  refine ⟨st1, ?_, hsym, hhead, ?_, ?_⟩
  · exact (Store.applyAll_append [.forName 31 "x", .destroy 31] [.collect] _ _
      Store.Sample.dropped_check.1).trans (Store.applyAll_one .collect _ _ hrun)
  · rw [hcell, hfl]
  · rw [hroots]
    exact Store.Sample.dropped_check.2.2.2.1

/-- A cell that `GC::Mark` has left unmarked is not reachable from the
roots. -/
theorem GC.not_reaches_of_Mark (g gM : GC) (hm : g.NoMarked) (hM : GC.Mark g = .ok () gM)
    (a : Nat) (c : GC.Cell) (hc : gM.cells[a]? = some c) (hs : c.status ≠ .Marked) :
    ¬ GC.Reaches g a := by
  obtain ⟨S, hinv, -⟩ := GC.Mark_spec g gM hm hM
  intro hr
  obtain ⟨c1, hc1, hs1⟩ := (hinv.marked a).1 ((hinv.complete a).2 hr)
  rw [hc] at hc1
  simp only [Option.some.injEq] at hc1
  subst hc1
  exact hs hs1

/-- C21: after static initialisation, make the symbol `x`, destroy its
handle, collect, and call `Symbol::ForName` with `x` again: the handle
returned, a registered root location, points to the cell 31, which is `Free`
and the head of the free list. -/
theorem handle_points_to_free_cell :
    ∃ st, Store.applyAll Store.Sample.internAgain Store.static = .ok () st ∧
      32 ∈ st.gc.roots_ ∧ GC.deref st.gc.data_ 32 = some (some 31) ∧
      st.gc.cells[31]? = some ⟨.Free, .Symbol, .ptr (some 32), .ones⟩ ∧
      st.gc.freeList_ = some 31 := by
  obtain ⟨st3, hrun, hsym, hhead, hcell, hroots⟩ := Store.Sample.collected
  have hfind : st3.symbols_.find? (fun e => e.1 == "x") = some ("x", 31) := by
    rw [hsym]
    exact Store.Sample.dropped_check.2.1
  obtain ⟨st4, hnew, -, hdata4, hroots4, hcells4, hfree4⟩ :=
    Store.ForName_held st3 32 "x" _ hfind
  refine ⟨st4, ?_, ?_, ?_, ?_, ?_⟩
  · exact (Store.applyAll_append [.forName 31 "x", .destroy 31, .collect] [.forName 32 "x"] _ _
      hrun).trans (Store.applyAll_one (.forName 32 "x") _ _ hnew)
  · rw [hroots4, hroots]
    decide
  · rw [hdata4]
    simp [GC.deref]
  · rw [hcells4]
    exact hcell
  · rw [hfree4]
    exact hhead

/-- C22: a collection frees the cell that the table holds for a name when no
root reaches the cell: afterwards `Symbol::GetCellForName` still returns the
cell for the name, and the cell is `Free`, its first word, which held the
name, a link of the free list. -/
theorem unreached_symbol_cell_is_freed (st st1 : Store) (name : String) (a : Nat)
    (c : GC.Cell) (hm : st.gc.NoMarked) (hl : st.gc.Layout)
    (htab : st.symbols_.find? (fun e => e.1 == name) = some (name, a))
    (hc : st.gc.cells[a]? = some c) (hs : c.status = .Used) (hr : ¬ GC.Reaches st.gc a)
    (h : Store.lift GC.Run st = .ok () st1) :
    Store.GetCellForName name st1 = .ok a st1 ∧
    ∃ p, st1.gc.cells[a]? = some { c with car := .ptr p, status := .Free } := by
  rw [Store.lift_ok_iff] at h
  obtain ⟨hrun, hsym⟩ := h
  obtain ⟨gM, hM⟩ := GC.Run_ok_Mark st.gc st1.gc hrun
  obtain ⟨S, hinv, -, -, -, hbank, -, hnum⟩ := GC.Mark_spec st.gc gM hm hM
  have hlM : gM.Layout :=
    ⟨by rw [hbank, hnum]; exact hl.1, by rw [hinv.length, hnum]; exact hl.2⟩
  have hcM := GC.Mark_unreached st.gc gM hm hM a c hc hr
  obtain ⟨p, hp⟩ := GC.sweepCells_used a c (GC.sweepOrder gM.bank_) (gM.cells, gM.freeList_)
    hlM.disjoint (hlM.covers a (GC.getElem?_lt hcM)) hcM hs
  constructor
  · unfold Store.GetCellForName
    rw [hsym, htab]
  · refine ⟨p, ?_⟩
    rw [GC.Run_of_Mark st.gc gM hM] at hrun
    simp only [Res.ok.injEq, true_and] at hrun
    rw [← hrun]
    split
    · show (_ ++ _)[a]? = _
      rw [List.getElem?_append_left (GC.getElem?_lt hp)]
      exact hp
    · exact hp

/-- In the sample state the cell 31 of the symbol `x`, whose only handle was
destroyed, is freed by the collection while the table holds it. -/
theorem unreached_symbol_cell_is_freed_example :
    ∃ st1, Store.lift GC.Run Store.Sample.dropped = .ok () st1 ∧
      Store.GetCellForName "x" st1 = .ok 31 st1 ∧
      ∃ p, st1.gc.cells[31]? = some { (⟨.Used, .Symbol, .name "x", .ones⟩ : GC.Cell) with
        car := .ptr p, status := .Free } := by
  obtain ⟨hM, hc31, hfl, htake, hdrop, horder⟩ := Store.Sample.dropped_marked
  obtain ⟨st1, hrun, -⟩ := Store.collect_one Store.Sample.dropped
    (GC.stateAfter GC.Mark Store.Sample.dropped.gc) (List.range 31) (List.range' 32 968) 31
    ⟨.Used, .Symbol, .name "x", .ones⟩ Store.Sample.dropped_valid.1
    Store.Sample.dropped_valid.2 hM horder hc31 rfl
    (fun b hb cb hcb => htake cb (GC.mem_take_of_getElem? (List.mem_range.1 hb) hcb))
    (fun b hb cb hcb => hdrop cb (GC.mem_drop_of_getElem? (List.mem_range'_1.1 hb).1 hcb))
  exact ⟨st1, hrun, unreached_symbol_cell_is_freed Store.Sample.dropped st1 "x" 31
    ⟨.Used, .Symbol, .name "x", .ones⟩ Store.Sample.dropped_valid.1
    Store.Sample.dropped_valid.2 Store.Sample.dropped_check.2.1
    Store.Sample.dropped_check.2.2.2.2 rfl
    (GC.not_reaches_of_Mark _ _ Store.Sample.dropped_valid.1 hM 31 _ hc31 (by simp)) hrun⟩

/-- C23: after static initialisation, make the symbol `x`, destroy its
handle, collect, and call `Symbol::ForName` with `y` and then with `x`: the
two handles returned point to the same cell 31, which is the Symbol cell of
`y`, so `Value::operator==` holds of them, though the names differ. -/
theorem distinct_names_share_a_cell :
    ∃ st, Store.applyAll Store.Sample.internOther Store.static = .ok () st ∧
      32 ∈ st.gc.roots_ ∧ 33 ∈ st.gc.roots_ ∧
      GC.deref st.gc.data_ 32 = some (some 31) ∧ GC.deref st.gc.data_ 33 = some (some 31) ∧
      Store.equal st 32 33 = true ∧
      st.gc.cells[31]? = some ⟨.Used, .Symbol, .name "y", .ones⟩ ∧
      st.symbols_.find? (fun e => e.1 == "y") = some ("y", 31) ∧
      st.symbols_.find? (fun e => e.1 == "x") = some ("x", 31) := by
  obtain ⟨st3, hrun, hsym, hhead, hcell, hroots⟩ := Store.Sample.collected
  have hfindy : st3.symbols_.find? (fun e => e.1 == "y") = none := by
    rw [hsym]
    exact Store.Sample.dropped_check.2.2.1
  obtain ⟨st4, hy, hsym4, hdata4, hroots4, hcells4⟩ :=
    Store.ForName_new st3 32 "y" 31 _ hfindy hhead hcell (Or.inr ⟨_, rfl⟩)
  have hfindx : st4.symbols_.find? (fun e => e.1 == "x") = some ("x", 31) := by
    rw [hsym4, hsym, List.find?_append, Store.Sample.dropped_check.2.1]
    rfl
  have hfindy4 : st4.symbols_.find? (fun e => e.1 == "y") = some ("y", 31) := by
    rw [hsym4, hsym, List.find?_append, Store.Sample.dropped_check.2.2.1]
    rfl
  obtain ⟨st5, hx, hsym5, hdata5, hroots5, hcells5, -⟩ :=
    Store.ForName_held st4 33 "x" _ hfindx
  have hr4 : st4.gc.roots_ = List.range 31 ++ [32] := by
    rw [hroots4, hroots]
    decide
  have hd32 : GC.deref st5.gc.data_ 32 = some (some 31) := by
    rw [hdata5, hdata4]
    simp [GC.deref]
  have hd33 : GC.deref st5.gc.data_ 33 = some (some 31) := by
    rw [hdata5]
    simp [GC.deref]
  refine ⟨st5, ?_, ?_, ?_, hd32, hd33, ?_, ?_, ?_, ?_⟩
  · exact (Store.applyAll_append [.forName 31 "x", .destroy 31, .collect]
      [.forName 32 "y", .forName 33 "x"] _ _ hrun).trans
        ((Store.applyAll_append [.forName 32 "y"] [.forName 33 "x"] _ _
          (Store.applyAll_one (.forName 32 "y") _ _ hy)).trans
            (Store.applyAll_one (.forName 33 "x") _ _ hx))
  · rw [hroots5, hr4]
    decide
  · rw [hroots5, hr4]
    decide
  · unfold Store.equal
    rw [hd32, hd33]
    rfl
  · rw [hcells5, hcells4]
    rw [List.getElem?_set_self (by
      rw [List.length_set]
      exact GC.getElem?_lt hcell)]
  · rw [hsym5]
    exact hfindy4
  · rw [hsym5]
    exact hfindx

/-- C25: `GC::AddRoot` with a location that is in the root set returns
normally: the root set is as before and `rootChanges_` counts one more
change; whereas `GC::RemoveRoot` with a location that is not in the root set
fails its assertion. -/
theorem add_root_accepts_registered_location (g : GC) (location : Nat)
    (h : location ∈ g.roots_) :
    GC.AddRoot location g = .ok () { g with rootChanges_ := g.rootChanges_ + 1 } ∧
    ∀ other, other ∉ g.roots_ → GC.RemoveRoot other g = .fault .assertion := by
  constructor
  · unfold GC.AddRoot
    rw [if_pos h]
  · intro other ho
    unfold GC.RemoveRoot
    rw [if_neg ho]

theorem GC.Sample.shared_roots : GC.Sample.shared.roots_ = [0, 1] := by
  decide!

/-- The location 0 of the sample heap, which is a root, is accepted
again. -/
theorem add_root_accepts_registered_location_example :
    GC.AddRoot 0 GC.Sample.shared
      = .ok () { GC.Sample.shared with rootChanges_ := GC.Sample.shared.rootChanges_ + 1 } ∧
    ∀ other, other ∉ GC.Sample.shared.roots_ →
      GC.RemoveRoot other GC.Sample.shared = .fault .assertion :=
  add_root_accepts_registered_location GC.Sample.shared 0 (by
    rw [GC.Sample.shared_roots]
    decide)

/-! ## Division truncates -/

/-- The division of the machine integers is the quotient truncated toward
zero. -/
theorem Spec.truncatedQuotient_eq (a b : Int) : Int.tdiv a b = Spec.truncatedQuotient a b := by
  unfold Spec.truncatedQuotient
  rcases Int.lt_or_le a 0 with ha | ha <;> rcases Int.lt_or_le b 0 with hb | hb
  · obtain ⟨m, rfl⟩ : ∃ m : Nat, a = -(m : Int) := ⟨a.natAbs, by omega⟩
    obtain ⟨n, rfl⟩ : ∃ n : Nat, b = -(n : Int) := ⟨b.natAbs, by omega⟩
    rw [Int.neg_tdiv_neg, if_pos (by simp [ha, hb])]
    simp
    exact Int.tdiv_eq_ediv (Int.ofNat_nonneg m) (Int.ofNat_nonneg n)
  · obtain ⟨m, rfl⟩ : ∃ m : Nat, a = -(m : Int) := ⟨a.natAbs, by omega⟩
    obtain ⟨n, rfl⟩ : ∃ n : Nat, b = (n : Int) := ⟨b.natAbs, by omega⟩
    rw [Int.neg_tdiv, if_neg (by simp only [eq_iff_iff]; omega)]
    simp
    exact Int.tdiv_eq_ediv (Int.ofNat_nonneg m) (Int.ofNat_nonneg n)
  · obtain ⟨m, rfl⟩ : ∃ m : Nat, a = (m : Int) := ⟨a.natAbs, by omega⟩
    obtain ⟨n, rfl⟩ : ∃ n : Nat, b = -(n : Int) := ⟨b.natAbs, by omega⟩
    rw [Int.tdiv_neg, if_neg (by simp only [eq_iff_iff]; omega)]
    simp
    exact Int.tdiv_eq_ediv (Int.ofNat_nonneg m) (Int.ofNat_nonneg n)
  · obtain ⟨m, rfl⟩ : ∃ m : Nat, a = (m : Int) := ⟨a.natAbs, by omega⟩
    obtain ⟨n, rfl⟩ : ∃ n : Nat, b = (n : Int) := ⟨b.natAbs, by omega⟩
    rw [if_pos (by simp only [eq_iff_iff]; omega)]
    simp
    exact Int.tdiv_eq_ediv (Int.ofNat_nonneg m) (Int.ofNat_nonneg n)

theorem Int.natAbs_tdiv_le (a b : Int) : (Int.tdiv a b).natAbs ≤ a.natAbs := by
  rw [Int.natAbs_tdiv]
  exact Nat.div_le_self _ _

theorem Sample.quotient_read (a b : Int) :
    SExpr.read (Sample.quotient a b) ⟨(Runtime.new initialHeap []).heap, initialSymbols⟩
      = (Sample.quotientSrc,
          ⟨(⟨37, []⟩ : Heap).over (Sample.quotientCells a b), initialSymbols⟩) := rfl

theorem Sample.quotient_compiled :
    Compiler.compileSource Sample.quotientSrc ⟨⟨37, []⟩, [], [[]]⟩
      = .ok 38 Sample.quotientCompiled ∧
    Sample.quotientCompiled.heap.size = 45 ∧
    Sample.quotientCompiled.code_ = [] ∧ Sample.quotientCompiled.envMap_ = [[]] ∧
    Sample.quotientCompiled.heap.get? 38 = some (.cons 37 39) ∧
    Sample.quotientCompiled.heap.get? 37 = some (.integer Instruction.LDC) ∧
    Sample.quotientCompiled.heap.get? 39 = some (.cons 33 41) ∧
    Sample.quotientCompiled.heap.get? 41 = some (.cons 40 42) ∧
    Sample.quotientCompiled.heap.get? 40 = some (.integer Instruction.LDC) ∧
    Sample.quotientCompiled.heap.get? 42 = some (.cons 32 44) ∧
    Sample.quotientCompiled.heap.get? 44 = some (.cons 43 Nil) ∧
    Sample.quotientCompiled.heap.get? 43 = some (.integer Instruction.DIV) ∧
    Sample.quotientCompiled.heap.get? 32 = none ∧
    Sample.quotientCompiled.heap.get? 33 = none ∧
    Sample.quotientCompiled.heap.get? Nil = none ∧
    Sample.quotientCompiled.heap.wfCheck = true := by
  decide!

/-- The code `LDC y`, `LDC x`, `DIV` run from empty registers `S` and `C`:
the result is a new Integer cell that holds the quotient of the integer of `x`
by the integer of `y`, truncated toward zero. -/
theorem Runtime.run_quotient (rt : Runtime) (fuel : Nat) (a b : Int)
    (c0 o0 c1 x c2 o1 c3 y c4 o2 : Nat) (hfuel : 3 ≤ fuel)
    (hc : rt.c_ = Nil) (hs : rt.s_ = Nil)
    (h0 : rt.heap.get? c0 = some (.cons o0 c1))
    (ho0 : rt.heap.get? o0 = some (.integer Instruction.LDC))
    (h1 : rt.heap.get? c1 = some (.cons y c2))
    (h2 : rt.heap.get? c2 = some (.cons o1 c3))
    (ho1 : rt.heap.get? o1 = some (.integer Instruction.LDC))
    (h3 : rt.heap.get? c3 = some (.cons x c4))
    (h4 : rt.heap.get? c4 = some (.cons o2 Nil))
    (ho2 : rt.heap.get? o2 = some (.integer Instruction.DIV))
    (hx : rt.heap.get? x = some (.integer a)) (hy : rt.heap.get? y = some (.integer b))
    (hwf : rt.heap.WF) (hnil : rt.heap.get? Nil = some (.symbol "nil"))
    (hlo : -(2 ^ 63) ≤ Int.tdiv a b) (hhi : Int.tdiv a b < 2 ^ 63) (hb0 : b ≠ 0) :
    ∃ rt1, Runtime.run fuel c0 rt = .ok (rt.heap.size + 2) rt1 ∧
      rt1.heap.get? (rt.heap.size + 2) = some (.integer (Int.tdiv a b)) := by
  have hne : ∀ {p : Nat} {c : Cell}, rt.heap.get? p = some c → p < rt.heap.size :=
    fun h => hwf.lt h
  have hcons : ∀ {p u v : Nat}, rt.heap.get? p = some (.cons u v) → p ≠ Nil := by
    intro p u v h hp
    rw [hp, hnil] at h
    cases h
  -- first `LDC`
  have hstep1 := Runtime.step_LDC { rt with c_ := c0 } o0 c1 y c2 h0 ho0 h1
  have e0 : ∀ {p : Nat} {c : Cell}, rt.heap.get? p = some c →
      (rt.heap.alloc (.cons y rt.s_)).2.get? p = some c := by
    intro p c h
    rw [Heap.get?_alloc, if_neg (by have := hne h; omega)]
    exact h
  -- second `LDC`
  have hstep2 := Runtime.step_LDC
    { rt with heap := (rt.heap.alloc (.cons y rt.s_)).2, s_ := rt.heap.size, c_ := c2 }
    o1 c3 x c4 (e0 h2) (e0 ho1) (e0 h3)
  simp only [Heap.size_alloc] at hstep2
  have e1 : ∀ {p : Nat} {c : Cell}, rt.heap.get? p = some c →
      ((rt.heap.alloc (.cons y rt.s_)).2.alloc (.cons x rt.heap.size)).2.get? p = some c := by
    intro p c h
    rw [Heap.get?_alloc, if_neg (by simp only [Heap.size_alloc]; have := hne h; omega)]
    exact e0 h
  -- `DIV`
  have hstep3 := Runtime.step_binary .div
    { rt with heap := ((rt.heap.alloc (.cons y rt.s_)).2.alloc (.cons x rt.heap.size)).2,
              s_ := rt.heap.size + 1, c_ := c4 }
    o2 Nil x y rt.heap.size rt.s_ a b (e1 h4) (e1 ho2)
    (by simp [Heap.get?_alloc])
    (by
      have e : ¬ rt.heap.size = rt.heap.size + 1 := by omega
      simp [Heap.get?_alloc, e])
    (e1 hx) (e1 hy) hlo hhi (fun _ => hb0)
  simp only [Heap.size_alloc, BinaryPrimitive.specified] at hstep3
  obtain ⟨rtF, hstepF, hsF, hcF, hheapF⟩ : ∃ rtF : Runtime,
      Runtime.step { rt with heap := ((rt.heap.alloc (.cons y rt.s_)).2.alloc
          (.cons x rt.heap.size)).2, s_ := rt.heap.size + 1, c_ := c4 } = .ok () rtF ∧
      rtF.s_ = rt.heap.size + 1 + 1 + 1 ∧ rtF.c_ = Nil ∧
      rtF.heap = ((((rt.heap.alloc (.cons y rt.s_)).2.alloc (.cons x rt.heap.size)).2.alloc
        (.integer (Int.tdiv a b))).2.alloc (.cons (rt.heap.size + 1 + 1) rt.s_)).2 :=
    ⟨_, hstep3, rfl, rfl, rfl⟩
  have hreach : Runtime.Reaches 3 { rt with c_ := c0 } rtF :=
    Runtime.reaches_step (hcons h0) hstep1
      (Runtime.reaches_step (hcons h2) hstep2
        (Runtime.reaches_step (hcons h4) hstepF (Runtime.reaches_zero _)))
  have hloop := Runtime.loop_of_reaches hreach hcF fuel hfuel
  have hvalid : Stack.valid rt.heap c0 = true := by
    simp [Stack.valid, Heap.isCons, h0]
  have htop : rtF.heap.get? rtF.s_ = some (.cons (rt.heap.size + 2) Nil) := by
    rw [hsF, hheapF]
    simp [Heap.get?_alloc, hs]
  have hsne : rtF.s_ ≠ Nil := by
    intro h
    rw [h] at htop
    have hn : rtF.heap.get? Nil = some (.symbol "nil") := by
      rw [hheapF]
      have := hne hnil
      have e1 : ¬ Nil = rt.heap.size := by omega
      have e2 : ¬ Nil = rt.heap.size + 1 := by omega
      have e3 : ¬ Nil = rt.heap.size + 1 + 1 := by omega
      have e4 : ¬ Nil = rt.heap.size + 1 + 1 + 1 := by omega
      simp [Heap.get?_alloc, e1, e2, e3, e4, hnil]
    rw [hn] at htop
    cases htop
  have hbody := Runtime.runBody_ok hc hvalid hloop htop hsne
  refine ⟨{ rtF with s_ := Nil }, ?_, ?_⟩
  · unfold Runtime.run
    rw [hbody]
  · show rtF.heap.get? _ = _
    rw [hheapF]
    have e : ¬ rt.heap.size + 2 = rt.heap.size + 1 + 1 + 1 := by omega
    simp [Heap.get?_alloc, e]

theorem Int.tdiv_range (a b : Int) (halo : -(2 ^ 63) ≤ a) (hahi : a < 2 ^ 63) (hb0 : b ≠ 0)
    (hov : ¬ (a = -(2 ^ 63) ∧ b = -1)) :
    -(2 ^ 63) ≤ Int.tdiv a b ∧ Int.tdiv a b < 2 ^ 63 := by
  have hq := Int.natAbs_tdiv a b
  have hle : (a.natAbs).div (b.natAbs) ≤ a.natAbs := Nat.div_le_self _ _
  by_cases hb1 : b = -1
  · subst hb1
    have : Int.tdiv a (-1) = -a := by
      rw [Int.tdiv_neg]
      simp
    rw [this]
    have : a ≠ -(2 ^ 63) := fun h => hov ⟨h, rfl⟩
    omega
  · by_cases hb2 : b = 1
    · subst hb2
      simp only [Int.tdiv_one]
      omega
    · have hb3 : 2 ≤ b.natAbs := by omega
      have : (a.natAbs).div (b.natAbs) ≤ a.natAbs / 2 :=
        Nat.div_le_div_left hb3 (by decide)
      omega

/-- C38: the text `(/ a b)` with 64-bit integers `a` and `b`, `b` not zero
and the quotient in the 64-bit range (so not `a = -2^63` with `b = -1`), is
read, compiled and run to an Integer cell that holds the quotient of `a` by
`b` truncated toward zero: the quotient of the absolute values with the sign
of the exact quotient. -/
theorem quotient_truncates_toward_zero (a b : Int) (fuel : Nat) (hfuel : 3 ≤ fuel)
    (halo : -(2 ^ 63) ≤ a) (hahi : a < 2 ^ 63) (hb0 : b ≠ 0)
    (hov : ¬ (a = -(2 ^ 63) ∧ b = -1)) :
    ∃ p rt1, Runtime.eval fuel (Sample.quotient a b) (Runtime.new initialHeap []) = .ok p rt1 ∧
      rt1.heap.get? p = some (.integer (Spec.truncatedQuotient a b)) ∧
      Spec.truncatedQuotient a b = Int.tdiv a b := by
  obtain ⟨hcomp, hsize, hcode, henv, h38, h37, h39, h41, h40, h42, h44, h43, h32, h33, h29,
    hwfc⟩ :=
    Sample.quotient_compiled
  have hrange := Int.tdiv_range a b halo hahi hb0 hov
  -- the heap after reading and compiling
  have hlocal := Compiler.local_compileSource Sample.quotientSrc _ _ _ hcomp
    (Sample.quotientCells a b)
  have hcompile : Runtime.compile Sample.quotientSrc
      { Runtime.new initialHeap [] with
        heap := (⟨37, []⟩ : Heap).over (Sample.quotientCells a b), symbols_ := initialSymbols }
      = .ok 38 { Runtime.new initialHeap [] with
          heap := Sample.quotientCompiled.heap.over (Sample.quotientCells a b),
          symbols_ := initialSymbols } := by
    unfold Runtime.compile
    have : (⟨(⟨37, []⟩ : Heap).over (Sample.quotientCells a b),
        (Runtime.new initialHeap []).code_, (Runtime.new initialHeap []).envMap_⟩ : Compiler)
        = Compiler.over ⟨⟨37, []⟩, [], [[]]⟩ (Sample.quotientCells a b) := rfl
    simp only [this, hlocal]
    simp only [Compiler.over, hcode, henv]
    rfl
  have hwf : (Sample.quotientCompiled.heap.over (Sample.quotientCells a b)).WF := by
    apply Heap.WF.of_wfCheck
    unfold Heap.wfCheck at hwfc ⊢
    simp only [Heap.over, List.all_append, hwfc, Bool.true_and, hsize]
    rfl
  obtain ⟨rt1, hrun, hres⟩ := Runtime.run_quotient
    { Runtime.new initialHeap [] with
      heap := Sample.quotientCompiled.heap.over (Sample.quotientCells a b),
      symbols_ := initialSymbols }
    fuel a b 38 37 39 32 41 40 42 33 44 43 hfuel rfl rfl
    (Heap.get?_over_of_get? h38 _) (Heap.get?_over_of_get? h37 _)
    (Heap.get?_over_of_get? h39 _) (Heap.get?_over_of_get? h41 _)
    (Heap.get?_over_of_get? h40 _) (Heap.get?_over_of_get? h42 _)
    (Heap.get?_over_of_get? h44 _) (Heap.get?_over_of_get? h43 _)
    ((Heap.get?_over_of_none h32 _).trans rfl) ((Heap.get?_over_of_none h33 _).trans rfl)
    hwf ((Heap.get?_over_of_none h29 _).trans rfl) hrange.1 hrange.2 hb0
  refine ⟨(Sample.quotientCompiled.heap.over (Sample.quotientCells a b)).size + 2, rt1, ?_, ?_,
    (Spec.truncatedQuotient_eq a b).symm⟩
  · unfold Runtime.eval
    have hread := Sample.quotient_read a b
    simp only [hread, M.bind_apply, hcompile]
    exact hrun
  · rw [← Spec.truncatedQuotient_eq]
    exact hres

/-- The texts `(/ -7 2)` and `(/ 7 -2)` both evaluate to -3, where the floor
of the exact quotient is -4. -/
theorem quotient_truncates_toward_zero_example :
    (∃ p rt1, Runtime.eval 100 (Sample.quotient (-7) 2) (Runtime.new initialHeap [])
        = .ok p rt1 ∧
      rt1.heap.get? p = some (.integer (Spec.truncatedQuotient (-7) 2)) ∧
      Spec.truncatedQuotient (-7) 2 = Int.tdiv (-7) 2) ∧
    (∃ p rt1, Runtime.eval 100 (Sample.quotient 7 (-2)) (Runtime.new initialHeap [])
        = .ok p rt1 ∧
      rt1.heap.get? p = some (.integer (Spec.truncatedQuotient 7 (-2))) ∧
      Spec.truncatedQuotient 7 (-2) = Int.tdiv 7 (-2)) ∧
    Spec.truncatedQuotient (-7) 2 = -3 ∧ Spec.truncatedQuotient 7 (-2) = -3 ∧
    Int.fdiv (-7) 2 = -4 ∧ Int.fdiv 7 (-2) = -4 ∧ (-7 : Int) / 2 = -4 :=
  ⟨quotient_truncates_toward_zero (-7) 2 100 (by decide) (by decide) (by decide) (by decide)
      (by decide),
    quotient_truncates_toward_zero 7 (-2) 100 (by decide) (by decide) (by decide) (by decide)
      (by decide),
    by decide, by decide, by decide, by decide, by decide⟩

/-! ## The code buffer -/

theorem Code.addAll_append : ∀ (vs ws : List Nat) (st st1 : Compiler),
    Code.addAll vs st = .ok () st1 → Code.addAll (vs ++ ws) st = Code.addAll ws st1
  | [], ws, st, st1, h => by
    simp only [Code.addAll, Res.ok.injEq, true_and] at h
    subst h
    rfl
  | v :: vs, ws, st, st1, h => by
    simp only [Code.addAll, List.cons_append] at h ⊢
    cases hv : Code.add v st with
    | ok u st2 =>
      rw [hv] at h
      simp only at h ⊢
      exact Code.addAll_append vs ws st2 st1 h
    | thrown e st2 => rw [hv] at h; simp at h
    | fault f => rw [hv] at h; simp at h

theorem Code.addAll_one (v : Nat) (st st1 : Compiler) (h : Code.add v st = .ok () st1) :
    Code.addAll [v] st = .ok () st1 := by
  simp only [Code.addAll, h]

/-- A chain is a proper list that ends in `Nil`. -/
theorem IsChain.to_isList {h : Heap} : ∀ (items : List Nat) (first last : Nat),
    IsChain h first items last → IsList h first items
  | [], first, last, hc => (IsList.nil_iff h first).2 hc.1
  | [v], first, last, hc => by
    rw [IsList.cons_iff]
    exact ⟨Nil, hc.2, (IsList.nil_iff h Nil).2 rfl⟩
  | v :: w :: vs, first, last, hc => by
    rw [isChain_cons_cons] at hc
    obtain ⟨d, hget, hrest⟩ := hc
    rw [IsList.cons_iff]
    exact ⟨d, hget, IsChain.to_isList (w :: vs) d last hrest⟩

/-- What holds after the calls `add` for `values` on a buffer that was empty
in the state `st`. -/
theorem Code.addAll_spec (st : Compiler) (parents : List SecdList)
    (hcode : st.code_ = SecdList.empty :: parents) (hv : st.heap.Valid) :
    ∀ values : List Nat, ∃ st1, Code.addAll values st = .ok () st1 ∧
      st1.Buffer values parents ∧ st.heap.size ≤ st1.heap.size ∧
      (values ≠ [] → st.heap.size ≤ st1.lastCell) ∧
      (∀ q, q < st.heap.size → st1.heap.get? q = st.heap.get? q) := by
  intro values
  induction values using List.reverseRecOn with
  | nil =>
    exact ⟨st, rfl, ⟨_, hcode, ⟨rfl, rfl⟩, hv⟩, Nat.le_refl _, fun h => absurd rfl h,
      fun _ _ => rfl⟩
  | append_singleton vs v ih =>
    obtain ⟨st1, hrun, hbuf, hsize, hlast, hold⟩ := ih
    obtain ⟨st2, hadd, hbuf2, -, hsize2, hnil, hframe, hlc⟩ :=
      Code.add_spec st1 v vs parents hbuf
    refine ⟨st2, ?_, hbuf2, by omega, fun _ => by rw [hlc]; exact hsize, ?_⟩
    · rw [Code.addAll_append vs [v] st st1 hrun]
      exact Code.addAll_one v st1 st2 hadd
    · intro q hq
      by_cases hvs : vs = []
      · subst hvs
        obtain ⟨c, hc, hchain, -⟩ := hbuf
        have hl : st1.lastCell = Nil := by
          simp only [Compiler.lastCell, hc]
          exact hchain.2
        have hq1 : q < st1.heap.size := by omega
        by_cases hqn : q = Nil
        · subst hqn
          rw [hnil]
          exact hold Nil hq
        · rw [hframe q hq1 (by rw [hl]; exact hqn)]
          exact hold q hq
      · have hq1 : q < st1.heap.size := by omega
        rw [hframe q hq1 (by have := hlast hvs; omega)]
        exact hold q hq

/-- `Code::add` on a buffer that is not empty: a new cell is allocated and
the `cdr` of the last cell is set to it. -/
theorem Code.add_last (st : Compiler) (c : SecdList) (parents : List SecdList)
    (value x d : Nat) (hc : st.code_ = c :: parents)
    (hl : st.heap.get? c.last_ = some (.cons x d)) (hv : st.heap.Valid) :
    Code.add value st = .ok () { st with
      heap := ((st.heap.alloc (.cons value Nil)).2).set c.last_ (.cons x st.heap.size),
      code_ := ⟨c.first_, st.heap.size⟩ :: parents } := by
  have hne : c.last_ ≠ Nil := by
    intro h
    rw [h] at hl
    exact hv.nil_not_cons _ _ hl
  have hall := hv.1.get?_alloc_of_get? (.cons value Nil) hl
  simp [Code.add, hc, SecdList.append, hne, Heap.setCdr, hall]

/-- C32: the calls `add` for the values `values`, in this order, on a code
buffer that is empty, leave a buffer whose list value is the proper list of
`values` that ends in `Nil`, with `last_` the last cons cell of the list that
starts in `first_` (both `Nil` for no value); no cell that existed before the
calls has changed; and one more call changes no cell but the `cdr` of that
last cell, keeps `first_` of a non-empty buffer and makes the new cell
`last_`. -/
theorem code_buffer_append_is_snoc (st : Compiler) (parents : List SecdList)
    (hcode : st.code_ = SecdList.empty :: parents) (hv : st.heap.Valid) (values : List Nat) :
    ∃ st1 c, Code.addAll values st = .ok () st1 ∧ st1.code_ = c :: parents ∧
      IsList st1.heap c.first_ values ∧ IsChain st1.heap c.first_ values c.last_ ∧
      (∀ q, q < st.heap.size → st1.heap.get? q = st.heap.get? q) ∧
      ∀ v, ∃ st2 c2, Code.add v st1 = .ok () st2 ∧
        Code.addAll (values ++ [v]) st = .ok () st2 ∧ st2.code_ = c2 :: parents ∧
        IsList st2.heap c2.first_ (values ++ [v]) ∧ c2.last_ = st1.heap.size ∧
        (values ≠ [] → c2.first_ = c.first_) ∧
        (∀ q, q < st1.heap.size → q ≠ c.last_ → st2.heap.get? q = st1.heap.get? q) ∧
        ∀ x d, st1.heap.get? c.last_ = some (.cons x d) →
          st2.heap.get? c.last_ = some (.cons x c2.last_) := by
  obtain ⟨st1, hrun, hbuf, -, -, hold⟩ := Code.addAll_spec st parents hcode hv values
  obtain ⟨c, hc, hchain, hv1⟩ := hbuf
  refine ⟨st1, c, hrun, hc, hchain.to_isList, hchain, hold, ?_⟩
  intro v
  obtain ⟨st2, hadd, hbuf2, -, hsize2, -, hframe, hlc⟩ :=
    Code.add_spec st1 v values parents ⟨c, hc, hchain, hv1⟩
  obtain ⟨c2, hc2, hchain2, hv2⟩ := hbuf2
  have hl2 : c2.last_ = st1.heap.size := by
    simpa [Compiler.lastCell, hc2] using hlc
  have hframe1 : ∀ q, q < st1.heap.size → q ≠ c.last_ → st2.heap.get? q = st1.heap.get? q := by
    intro q hq hne
    exact hframe q hq (by simpa [Compiler.lastCell, hc] using hne)
  have hcase : ∀ x d, st1.heap.get? c.last_ = some (.cons x d) →
      c2.first_ = c.first_ ∧ st2.heap.get? c.last_ = some (.cons x c2.last_) := by
    intro x d hx
    have h2 := (Code.add_last st1 c parents v x d hc hx hv1).symm.trans hadd
    simp only [Res.ok.injEq, true_and] at h2
    rw [← h2] at hc2
    simp only [List.cons.injEq, and_true] at hc2
    rw [← hc2, ← h2]
    exact ⟨rfl, by simp [Heap.get?_set]⟩
  refine ⟨st2, c2, hadd, ?_, hc2, hchain2.to_isList, hl2, ?_, hframe1, fun x d hx => (hcase x d hx).2⟩
  · rw [Code.addAll_append values [v] st st1 hrun]
    exact Code.addAll_one v st1 st2 hadd
  · intro hne
    obtain ⟨init, x, rfl⟩ := (List.eq_nil_or_concat values).resolve_left hne
    rw [List.concat_eq_append] at hchain
    exact (hcase x Nil (IsChain.last_cell x hchain)).1

/-- Three symbols appended to the empty top-level buffer on the initial
heap. -/
theorem code_buffer_append_is_snoc_example :
    ∃ st1 c, Code.addAll [6, 7, 8] Compiler.started = .ok () st1 ∧ st1.code_ = c :: [] ∧
      IsList st1.heap c.first_ [6, 7, 8] ∧ IsChain st1.heap c.first_ [6, 7, 8] c.last_ ∧
      (∀ q, q < Compiler.started.heap.size →
        st1.heap.get? q = Compiler.started.heap.get? q) ∧
      ∀ v, ∃ st2 c2, Code.add v st1 = .ok () st2 ∧
        Code.addAll ([6, 7, 8] ++ [v]) Compiler.started = .ok () st2 ∧ st2.code_ = c2 :: [] ∧
        IsList st2.heap c2.first_ ([6, 7, 8] ++ [v]) ∧ c2.last_ = st1.heap.size ∧
        (([6, 7, 8] : List Nat) ≠ [] → c2.first_ = c.first_) ∧
        (∀ q, q < st1.heap.size → q ≠ c.last_ → st2.heap.get? q = st1.heap.get? q) ∧
        ∀ x d, st1.heap.get? c.last_ = some (.cons x d) →
          st2.heap.get? c.last_ = some (.cons x c2.last_) :=
  code_buffer_append_is_snoc Compiler.started [] rfl initialHeap_valid [6, 7, 8]

/-! ## Scopes of `letrec` and `defun` -/

/-- C33: in `((lambda (x) (letrec (f) ((lambda (y) y)) x)) 5)` the compiler
emits `LD (2 . 0)` for the `x` of the body of the `letrec`: it has entered a
frame for the names of the `letrec` and, in `compileLambda`, a second one.
When the machine comes to that `LD`, after 11 rounds, the environment that
`RAP` installed has one frame for the `letrec`, the list of the closure `f`;
the frame below it is the list of the argument 5, and the one below that, at
depth 2, is the empty global frame.  The round of `LD` fails an assertion of
`Environment::locate`, and so does the evaluation of the text; likewise a
call of a global function from the body of a `letrec`. -/
theorem letrec_body_misses_outer_scope :
    Runtime.steps 11 (Runtime.loaded Sample.letrecOuter)
      = .ok () (Runtime.after 11 (Runtime.loaded Sample.letrecOuter)) ∧
    (Runtime.after 11 (Runtime.loaded Sample.letrecOuter)).c_ = 81 ∧
    (Runtime.after 11 (Runtime.loaded Sample.letrecOuter)).heap.get? 81 = some (.cons 80 85) ∧
    (Runtime.after 11 (Runtime.loaded Sample.letrecOuter)).heap.get? 80
      = some (.integer Instruction.LD) ∧
    (Runtime.after 11 (Runtime.loaded Sample.letrecOuter)).heap.get? 85 = some (.cons 84 87) ∧
    (Runtime.after 11 (Runtime.loaded Sample.letrecOuter)).heap.get? 84 = some (.cons 82 83) ∧
    (Runtime.after 11 (Runtime.loaded Sample.letrecOuter)).heap.get? 82 = some (.integer 2) ∧
    (Runtime.after 11 (Runtime.loaded Sample.letrecOuter)).heap.get? 83 = some (.integer 0) ∧
    (Runtime.after 11 (Runtime.loaded Sample.letrecOuter)).e_ = 107 ∧
    (Runtime.after 11 (Runtime.loaded Sample.letrecOuter)).heap.get? 107
      = some (.cons 111 106) ∧
    IsList (Runtime.after 11 (Runtime.loaded Sample.letrecOuter)).heap 111 [109] ∧
    (Runtime.after 11 (Runtime.loaded Sample.letrecOuter)).heap.get? 109
      = some (.closure 68 107) ∧
    (Runtime.after 11 (Runtime.loaded Sample.letrecOuter)).heap.get? 106
      = some (.cons 98 31) ∧
    IsList (Runtime.after 11 (Runtime.loaded Sample.letrecOuter)).heap 98 [49] ∧
    (Runtime.after 11 (Runtime.loaded Sample.letrecOuter)).heap.get? 49 = some (.integer 5) ∧
    (Runtime.after 11 (Runtime.loaded Sample.letrecOuter)).heap.get? 31
      = some (.cons Nil Nil) ∧
    (match Environment.locate (Runtime.after 11 (Runtime.loaded Sample.letrecOuter)).heap 107
        84 with
      | .error f => some f
      | .ok _ => none) = some Fault.assertion ∧
    Runtime.step (Runtime.after 11 (Runtime.loaded Sample.letrecOuter)) = .fault .assertion ∧
    Runtime.eval 1000 Sample.letrecOuter (Runtime.new initialHeap []) = .fault .assertion ∧
    Runtime.session 1000 Sample.letrecGlobal (Runtime.new initialHeap [])
      = .fault .assertion := by
  decide!

/-- C34: after `(defun f (x) 1)` and `(defun f (x) 2)` the global frame of
the compiler holds the one name `f` with offset 0 and the global frame of the
machine two closures; `(f 0)` then returns 1, the value of the first
definition.  After `(defun g (x) 3)` the compiler has `g` at offset 1 while
the closure of `g` is the third of the frame, and `(g 0)` returns 2, the value
of the second definition of `f`. -/
theorem redefinition_puts_frames_out_of_step :
    Runtime.session 1000 Sample.redefinition (Runtime.new initialHeap [])
      = .ok [Nil, Nil, 35, Nil, 55]
        (Runtime.stateAfter (Runtime.session 1000 Sample.redefinition)
          (Runtime.new initialHeap [])) ∧
    (Runtime.stateAfter (Runtime.session 1000 Sample.redefinition)
      (Runtime.new initialHeap [])).heap.get? 35 = some (.integer 1) ∧
    (Runtime.stateAfter (Runtime.session 1000 Sample.redefinition)
      (Runtime.new initialHeap [])).heap.get? 55 = some (.integer 2) ∧
    (Runtime.stateAfter (Runtime.session 1000 Sample.redefinition)
      (Runtime.new initialHeap [])).envMap_ = [[("f", 0), ("g", 1)]] ∧
    (Runtime.stateAfter (Runtime.session 1000 Sample.redefinition)
      (Runtime.new initialHeap [])).e_ = 31 ∧
    (Runtime.stateAfter (Runtime.session 1000 Sample.redefinition)
      (Runtime.new initialHeap [])).heap.get? 31 = some (.cons 52 Nil) ∧
    IsList (Runtime.stateAfter (Runtime.session 1000 Sample.redefinition)
      (Runtime.new initialHeap [])).heap 52 [50, 70, 121] ∧
    (Runtime.stateAfter (Runtime.session 1000 (Sample.redefinition.take 2))
      (Runtime.new initialHeap [])).envMap_ = [[("f", 0)]] ∧
    IsList (Runtime.stateAfter (Runtime.session 1000 (Sample.redefinition.take 2))
      (Runtime.new initialHeap [])).heap 52 [50, 70] := by
  decide!

/-- C35: `compileSource` of `(defun f (x) (quote))` on a new compiler ends
with the compile error of `quote`, and the global frame of the compiler it
leaves holds the name `f`, which it did not hold before.  On that compiler
`(f 1)` compiles, where a new compiler reports an unknown variable, and its
run fails an assertion of `Environment::locate`, the global frame of the
machine being empty; and after `(defun g (x) 3)` the call `(f 1)` returns 3,
the value of `g`. -/
theorem failed_defun_leaves_name_bound :
    Compiler.compileText Sample.defunBadBody
      = .thrown (.runtimeError "Not enough arguments to quote" none)
        (Compiler.stateAfter (fun _ => Compiler.compileText Sample.defunBadBody)
          (Compiler.new initialHeap)) ∧
    (Compiler.new initialHeap).envMap_ = [[]] ∧
    (Compiler.stateAfter (fun _ => Compiler.compileText Sample.defunBadBody)
      (Compiler.new initialHeap)).envMap_ = [[("f", 0)]] ∧
    (Compiler.stateAfter (fun _ => Compiler.compileText Sample.defunBadBody)
      (Compiler.new initialHeap)).code_ = [] ∧
    Runtime.eval 1000 Sample.defunBadBody (Runtime.new initialHeap [])
      = .thrown (.runtimeError "Not enough arguments to quote" none)
        (Runtime.stateAfter (Runtime.eval 1000 Sample.defunBadBody)
          (Runtime.new initialHeap [])) ∧
    (Runtime.stateAfter (Runtime.eval 1000 Sample.defunBadBody)
      (Runtime.new initialHeap [])).envMap_ = [[("f", 0)]] ∧
    (Runtime.stateAfter (Runtime.eval 1000 Sample.defunBadBody)
      (Runtime.new initialHeap [])).heap.get? 31 = some (.cons Nil Nil) ∧
    Runtime.eval 1000 Sample.callF (Runtime.new initialHeap [])
      = .thrown (.runtimeError "Unknown variable " (some 32))
        (Runtime.stateAfter (Runtime.eval 1000 Sample.callF) (Runtime.new initialHeap [])) ∧
    Runtime.eval 1000 Sample.callF
      (Runtime.stateAfter (Runtime.eval 1000 Sample.defunBadBody)
        (Runtime.new initialHeap [])) = .fault .assertion ∧
    resultInt Runtime.heap (Runtime.eval 1000 Sample.callF
      (Runtime.stateAfter (Runtime.session 1000 (Sample.defineGCallF.take 1))
        (Runtime.stateAfter (Runtime.eval 1000 Sample.defunBadBody)
          (Runtime.new initialHeap [])))) = some 3 := by
  decide!

/-! ## `GC::Mark` returns -/

theorem GC.deref_some_inj {data_ : List (Nat × Option Nat)} {l : Nat} {p q : Option Nat}
    (hp : GC.deref data_ l = some p) (hq : GC.deref data_ l = some q) : p = q := by
  rw [hp] at hq
  exact Option.some.inj hq

/-- A reachable cell of a closed memory is a cell of a bank. -/
theorem GC.Closed.reaches_lt {g : GC} (hc : g.Closed) {a : Nat} (hr : GC.Reaches g a) :
    a < g.cells.length := by
  induction hr with
  | root l a hl hd =>
    obtain ⟨a1, h1, hlt⟩ := hc.roots l hl
    have := GC.deref_some_inj hd h1
    simp only [Option.some.injEq] at this
    omega
  | car a b c hra hcell hk hcar _ =>
    obtain ⟨x, y, hx, -, hxl, -⟩ := hc.cells a c hra hcell hk
    rw [hcar] at hx
    simp only [GC.Word.ptr.injEq, Option.some.injEq] at hx
    omega
  | cdr a b c hra hcell hk hcdr _ =>
    obtain ⟨x, y, -, hy, -, hyl⟩ := hc.cells a c hra hcell hk
    rw [hcdr] at hy
    simp only [GC.Word.ptr.injEq, Option.some.injEq] at hy
    omega

/-- The loop of `GC::Mark` returns when every word of the worklist points to
a reachable cell of a closed memory and the cells differ from those of the
memory in their status only. -/
theorem GC.markLoop_returns (g : GC) (hc : g.Closed) :
    ∀ (fuel : Nat) (cells : List GC.Cell) (q : List GC.Word) (live : Nat),
      cells.length = g.cells.length →
      (∀ (a : Nat) (c : GC.Cell), cells[a]? = some c →
        ∃ c0 : GC.Cell, g.cells[a]? = some c0 ∧ c0.kind = c.kind ∧ c0.car = c.car ∧
          c0.cdr = c.cdr) →
      (∀ w ∈ q, ∃ a, w = .ptr (some a) ∧ GC.Reaches g a) →
      q.length + 2 * GC.unmarked cells < fuel →
      ∃ r, GC.markLoop fuel cells q live = .ok r
  | 0, cells, q, live, _, _, _, h => by omega
  | fuel + 1, cells, [], live, _, _, _, _ => ⟨(cells, live), by simp [GC.markLoop]⟩
  | fuel + 1, cells, x :: q, live, hlen, hshape, hq, h => by
    simp only [List.length_cons] at h
    obtain ⟨a, rfl, hra⟩ := hq x (List.mem_cons_self _ _)
    have hq1 : ∀ w ∈ q, ∃ a, w = .ptr (some a) ∧ GC.Reaches g a :=
      fun w hw => hq w (List.mem_cons_of_mem _ hw)
    have halt : a < cells.length := by
      rw [hlen]
      exact hc.reaches_lt hra
    simp only [GC.markLoop]
    rw [List.getElem?_eq_getElem halt]
    simp only
    by_cases hs : cells[a].status = .Marked
    · rw [if_pos hs]
      exact GC.markLoop_returns g hc fuel cells q live hlen hshape hq1 (by omega)
    · rw [if_neg hs]
      have hset := GC.unmarked_set cells a cells[a] (List.getElem?_eq_getElem halt) hs
      obtain ⟨c0, hc0, hk0, hcar0, hcdr0⟩ := hshape a cells[a] (List.getElem?_eq_getElem halt)
      have hlen2 : (cells.set a { cells[a] with status := .Marked }).length = g.cells.length := by
        rw [List.length_set]
        exact hlen
      have hshape2 : ∀ (b : Nat) (c : GC.Cell),
          (cells.set a { cells[a] with status := .Marked })[b]? = some c →
          ∃ c0 : GC.Cell, g.cells[b]? = some c0 ∧ c0.kind = c.kind ∧ c0.car = c.car ∧
            c0.cdr = c.cdr := by
        intro b c hb
        by_cases hba : b = a
        · subst hba
          rw [List.getElem?_set_self halt] at hb
          simp only [Option.some.injEq] at hb
          subst hb
          exact ⟨c0, hc0, hk0, hcar0, hcdr0⟩
        · rw [List.getElem?_set_ne (Ne.symm hba)] at hb
          exact hshape b c hb
      have hpush : (cells[a].kind = .Cons ∨ cells[a].kind = .Closure) →
          ∀ w ∈ cells[a].cdr :: cells[a].car :: q, ∃ b, w = .ptr (some b) ∧ GC.Reaches g b := by
        intro hk w hw
        obtain ⟨x, y, hx, hy, -, -⟩ := hc.cells a c0 hra hc0 (hk0 ▸ hk)
        rcases List.mem_cons.1 hw with rfl | hw
        · exact ⟨y, by rw [← hcdr0, hy], GC.Reaches.cdr a y c0 hra hc0 (hk0 ▸ hk) hy⟩
        · rcases List.mem_cons.1 hw with rfl | hw
          · exact ⟨x, by rw [← hcar0, hx], GC.Reaches.car a x c0 hra hc0 (hk0 ▸ hk) hx⟩
          · exact hq1 w hw
      generalize hgen : cells.set a { cells[a] with status := .Marked } = cells2
        at hset hlen2 hshape2
      split
      · rename_i hk
        exact GC.markLoop_returns g hc fuel cells2 _ _ hlen2 hshape2 (hpush (Or.inl hk))
          (by simp only [List.length_cons]; omega)
      · rename_i hk
        exact GC.markLoop_returns g hc fuel cells2 _ _ hlen2 hshape2 (hpush (Or.inr hk))
          (by simp only [List.length_cons]; omega)
      · exact GC.markLoop_returns g hc fuel cells2 _ _ hlen2 hshape2 hq1 (by omega)

/-- Every marking of the loop of `GC::Mark` marks a cell that was not marked:
the count of the markings and the number of the cells not marked add up to the
same number throughout. -/
theorem GC.markLoop_count : ∀ (fuel : Nat) (cells : List GC.Cell) (q : List GC.Word)
    (live : Nat) (cells1 : List GC.Cell) (live1 : Nat),
    GC.markLoop fuel cells q live = .ok (cells1, live1) →
    live1 + GC.unmarked cells1 = live + GC.unmarked cells
  | 0, cells, q, live, cells1, live1, h => by simp [GC.markLoop] at h
  | fuel + 1, cells, [], live, cells1, live1, h => by
    simp only [GC.markLoop, Except.ok.injEq, Prod.mk.injEq] at h
    rw [h.1, h.2]
  | fuel + 1, cells, x :: q, live, cells1, live1, h => by
    cases x with
    | ptr p =>
      cases p with
      | none => simp [GC.markLoop] at h
      | some a0 =>
        simp only [GC.markLoop] at h
        cases hc : cells[a0]? with
        | none => rw [hc] at h; simp at h
        | some c0 =>
          rw [hc] at h
          simp only at h
          by_cases hs : c0.status = .Marked
          · rw [if_pos hs] at h
            exact GC.markLoop_count fuel cells q live cells1 live1 h
          · rw [if_neg hs] at h
            have hset := GC.unmarked_set cells a0 c0 hc hs
            have hstep : ∀ (q1 : List GC.Word),
                GC.markLoop fuel (cells.set a0 { c0 with status := .Marked }) q1 (live + 1)
                  = .ok (cells1, live1) →
                live1 + GC.unmarked cells1 = live + GC.unmarked cells := by
              intro q1 h2
              have := GC.markLoop_count fuel _ q1 (live + 1) cells1 live1 h2
              omega
            split at h <;> exact hstep _ h
    | ones => simp [GC.markLoop] at h
    | int v => simp [GC.markLoop] at h
    | name s => simp [GC.markLoop] at h

/-- `GC::Mark` returns on a closed memory. -/
theorem GC.Mark_returns (g : GC) (hc : g.Closed) :
    ∃ g1, GC.Mark g = .ok () g1 ∧
      g1.liveObjects_ + GC.unmarked g1.cells = GC.unmarked g.cells := by
  unfold GC.Mark
  cases hq : GC.rootTargets g.data_ g.roots_ [] with
  | error f =>
    exfalso
    have : ∀ (roots : List Nat) (q0 : List GC.Word), (∀ l ∈ roots, l ∈ g.roots_) →
        ∀ f, GC.rootTargets g.data_ roots q0 ≠ .error f := by
      intro roots
      induction roots with
      | nil => intro q0 _ f; simp [GC.rootTargets]
      | cons l rest ih =>
        intro q0 hsub f
        obtain ⟨a, ha, -⟩ := hc.roots l (hsub l (List.mem_cons_self _ _))
        simp only [GC.rootTargets, ha]
        exact ih _ (fun l1 h1 => hsub l1 (List.mem_cons_of_mem _ h1)) f
    exact this g.roots_ [] (fun _ h => h) f hq
  | ok q =>
    simp only
    obtain ⟨h1, -, -, hlen⟩ := GC.rootTargets_spec g.data_ g.roots_ [] q hq
    have hqv : ∀ w ∈ q, ∃ a, w = .ptr (some a) ∧ GC.Reaches g a := by
      intro w hw
      rcases h1 w hw with h0 | ⟨l, hl, p, hp, rfl⟩
      · simp at h0
      · obtain ⟨a, ha, -⟩ := hc.roots l hl
        have := GC.deref_some_inj hp ha
        subst this
        exact ⟨a, rfl, GC.Reaches.root l a hl ha⟩
    obtain ⟨r, hr⟩ := GC.markLoop_returns g hc (g.roots_.length + 2 * g.cells.length + 1)
      g.cells q 0 rfl (fun a c h => ⟨c, h, rfl, rfl, rfl⟩) hqv (by
        have := GC.unmarked_le g.cells
        rw [hlen]
        simp only [List.length_nil]
        omega)
    obtain ⟨cells1, live1⟩ := r
    rw [hr]
    refine ⟨_, rfl, ?_⟩
    have := GC.markLoop_count _ _ _ _ _ _ hr
    simpa using this

theorem GC.Closed.of_closedCheck {g : GC} (h : g.closedCheck = true) : g.Closed := by
  unfold GC.closedCheck at h
  rw [Bool.and_eq_true, List.all_eq_true, List.all_eq_true] at h
  obtain ⟨hroots, hcells⟩ := h
  refine ⟨?_, ?_⟩
  · intro l hl
    have := hroots l hl
    cases hd : GC.deref g.data_ l with
    | none => rw [hd] at this; simp at this
    | some p =>
      cases p with
      | none => rw [hd] at this; simp at this
      | some a =>
        rw [hd] at this
        exact ⟨a, rfl, by simpa using this⟩
  · intro a c _ hc hk
    have := hcells c (List.getElem?_mem hc)
    rw [if_pos hk, Bool.and_eq_true] at this
    obtain ⟨h1, h2⟩ := this
    have hw : ∀ w : GC.Word, w.isCellBelow g.cells.length = true →
        ∃ x, w = .ptr (some x) ∧ x < g.cells.length := by
      intro w hw
      cases w with
      | ptr p =>
        cases p with
        | none => simp [GC.Word.isCellBelow] at hw
        | some x => exact ⟨x, rfl, by simpa [GC.Word.isCellBelow] using hw⟩
      | ones => simp [GC.Word.isCellBelow] at hw
      | int v => simp [GC.Word.isCellBelow] at hw
      | name s => simp [GC.Word.isCellBelow] at hw
    obtain ⟨x, hx, hxl⟩ := hw _ h1
    obtain ⟨y, hy, hyl⟩ := hw _ h2
    exact ⟨x, y, hx, hy, hxl, hyl⟩

/-- C36: on a memory in which every pointer that is followed points to a
cell, with or without cycles, `GC::Mark` returns: the worklist becomes empty
within the bound of the loop.  Every marking marks a cell that was not marked,
so no cell is marked twice and `liveObjects_` is at most the number of cells;
and with no cell marked at the start the cells marked at the end are exactly
the reachable ones. -/
theorem mark_terminates (g : GC) (hc : g.Closed) :
    ∃ g1, GC.Mark g = .ok () g1 ∧
      g1.liveObjects_ + GC.unmarked g1.cells = GC.unmarked g.cells ∧
      g1.liveObjects_ ≤ g.cells.length ∧
      (g.NoMarked →
        ∀ a, (∃ c, g1.cells[a]? = some c ∧ c.status = .Marked) ↔ GC.Reaches g a) := by
  obtain ⟨g1, hM, hcount⟩ := GC.Mark_returns g hc
  refine ⟨g1, hM, hcount, ?_, ?_⟩
  · have := GC.unmarked_le g.cells
    omega
  · intro hm a
    obtain ⟨S, hinv, -⟩ := GC.Mark_spec g g1 hm hM
    rw [← hinv.marked a]
    exact hinv.complete a

theorem GC.Sample.knot_check :
    GC.Sample.knot.closedCheck = true ∧
    GC.Sample.knot.roots_ = [0] ∧ GC.deref GC.Sample.knot.data_ 0 = some (some 5) ∧
    GC.Sample.knot.cells[5]? = some ⟨.Used, .Cons, .ptr (some 7), .ptr (some 2)⟩ ∧
    GC.Sample.knot.cells[7]? = some ⟨.Used, .Cons, .ptr (some 6), .ptr (some 0)⟩ ∧
    GC.Sample.knot.cells[6]? = some ⟨.Used, .Closure, .ptr (some 1), .ptr (some 5)⟩ ∧
    GC.Sample.knot.cells[2]? = some ⟨.Used, .Cons, .ptr (some 4), .ptr (some 0)⟩ ∧
    GC.Sample.knot.cells[4]? = some ⟨.Used, .Cons, .ptr (some 3), .ptr (some 0)⟩ ∧
    GC.Sample.knot.cells[3]? = some ⟨.Used, .Closure, .ptr (some 1), .ptr (some 2)⟩ ∧
    (GC.stateAfter GC.Mark GC.Sample.knot).liveObjects_ = 8 := by
  decide!

/-- The sample heap with the two cycles of `letrec` and `defun`: the mark
phase returns and has marked its eight cells once each. -/
theorem mark_terminates_example :
    ∃ g1, GC.Mark GC.Sample.knot = .ok () g1 ∧
      g1.liveObjects_ + GC.unmarked g1.cells = GC.unmarked GC.Sample.knot.cells ∧
      g1.liveObjects_ ≤ GC.Sample.knot.cells.length ∧
      (GC.Sample.knot.NoMarked →
        ∀ a, (∃ c, g1.cells[a]? = some c ∧ c.status = .Marked) ↔
          GC.Reaches GC.Sample.knot a) :=
  mark_terminates GC.Sample.knot (GC.Closed.of_closedCheck GC.Sample.knot_check.1)

/-! ## Allocation from a fresh bank -/

theorem GC.bankCells_inner (freeList : Option Nat) (i : Nat) (hi : i + 1 < GC.BankSize) :
    (GC.bankCells freeList)[i]? = some ⟨.Free, .unset, .ones, .ones⟩ := by
  unfold GC.bankCells
  rw [List.getElem?_append_left (by simp only [List.length_replicate]; omega)]
  rw [List.getElem?_replicate, if_pos (by omega)]

theorem GC.bankCells_last (freeList : Option Nat) :
    (GC.bankCells freeList)[GC.BankSize - 1]? = some ⟨.Free, .unset, .ptr freeList, .ones⟩ := by
  unfold GC.bankCells
  rw [List.getElem?_append_right (by simp only [List.length_replicate]; omega)]
  simp only [List.length_replicate, Nat.sub_self, List.getElem?_cons_zero]

/-- An allocation with a cell at the head of the free list: the state it
leaves. -/
theorem GC.AllocateCell_eq (g : GC) (a : Nat) (c : GC.Cell) (next : Option Nat)
    (hf : g.freeList_ = some a) (hc : g.cells[a]? = some c)
    (hcar : (c.car.isOnes = true ∧ next = some (a + 1)) ∨
      (c.car.isOnes = false ∧ c.car = .ptr next)) :
    GC.AllocateCell g = .ok a { g with
      cells := g.cells.set a { c with status := .Used },
      freeList_ := next, allocations_ := g.allocations_ + 1 } := by
  unfold GC.AllocateCell
  simp only [M.bind_apply, hf]
  simp only [reduceCtorEq, if_false]
  simp only [pure_bind, hf, hc]
  rcases hcar with ⟨h1, rfl⟩ | ⟨h1, h2⟩
  · simp only [h1, if_true]
  · have h3 : (GC.Word.ptr next).isOnes = false := rfl
    simp only [h2, h3]
    simp

/-- One cell made while the free list is what is left of a fresh bank. -/
theorem GC.New.apply_fresh (x : GC.New) (base k : Nat) (g : GC) (hf : GC.Fresh base k g)
    (hk : k < GC.BankSize) :
    ∃ g1, x.apply g = .ok (base + k) g1 ∧
      (k + 1 < GC.BankSize → GC.Fresh base (k + 1) g1) ∧
      (k + 1 = GC.BankSize → g1.freeList_ = none) ∧
      g1.numBanks_ = g.numBanks_ ∧ g1.bank_ = g.bank_ ∧ g1.liveObjects_ = g.liveObjects_ ∧
      g1.allocations_ = g.allocations_ + 1 ∧ g1.roots_ = g.roots_ ∧ g1.data_ = g.data_ ∧
      g1.cells.length = g.cells.length ∧
      ∀ b, b ≠ base + k → g1.cells[b]? = g.cells[b]? := by
  obtain ⟨hhead, hcells⟩ := hf
  -- the cell at the head and what follows it
  obtain ⟨c, next, hc, hcar, hnext1, hnext2⟩ : ∃ (c : GC.Cell) (next : Option Nat),
      g.cells[base + k]? = some c ∧
      ((c.car.isOnes = true ∧ next = some (base + k + 1)) ∨
        (c.car.isOnes = false ∧ c.car = .ptr next)) ∧
      (k + 1 < GC.BankSize → next = some (base + (k + 1))) ∧
      (k + 1 = GC.BankSize → next = none) := by
    by_cases hlast : k + 1 < GC.BankSize
    · refine ⟨⟨.Free, .unset, .ones, .ones⟩, some (base + (k + 1)),
        (hcells k (Nat.le_refl _) hk).trans
        (GC.bankCells_inner none k hlast), Or.inl ⟨rfl, rfl⟩, fun _ => rfl, fun h => by omega⟩
    · have hk1 : k = GC.BankSize - 1 := by omega
      refine ⟨⟨.Free, .unset, .ptr none, .ones⟩, none,
        (hcells k (Nat.le_refl _) hk).trans (hk1 ▸ GC.bankCells_last none),
        Or.inr ⟨rfl, rfl⟩, fun h => absurd h hlast, fun _ => rfl⟩
  have halloc := GC.AllocateCell_eq g (base + k) c next hhead hc hcar
  have hlt := GC.getElem?_lt hc
  have hget : (g.cells.set (base + k) { c with status := .Used })[base + k]?
      = some { c with status := .Used } := List.getElem?_set_self hlt
  -- the state after the constructor has written the cell
  have hmain : ∀ c1 : GC.Cell, ∀ g1 : GC,
      g1 = { g with
        cells := (g.cells.set (base + k) { c with status := .Used }).set (base + k) c1,
        freeList_ := next, allocations_ := g.allocations_ + 1 } →
      (k + 1 < GC.BankSize → GC.Fresh base (k + 1) g1) ∧
      (k + 1 = GC.BankSize → g1.freeList_ = none) ∧
      g1.numBanks_ = g.numBanks_ ∧ g1.bank_ = g.bank_ ∧ g1.liveObjects_ = g.liveObjects_ ∧
      g1.allocations_ = g.allocations_ + 1 ∧ g1.roots_ = g.roots_ ∧ g1.data_ = g.data_ ∧
      g1.cells.length = g.cells.length ∧
      ∀ b, b ≠ base + k → g1.cells[b]? = g.cells[b]? := by
    intro c1 g1 hg1
    subst hg1
    have hother : ∀ b, b ≠ base + k →
        ((g.cells.set (base + k) { c with status := .Used }).set (base + k) c1)[b]?
          = g.cells[b]? := by
      intro b hb
      rw [List.getElem?_set_ne (Ne.symm hb), List.getElem?_set_ne (Ne.symm hb)]
    refine ⟨fun h => ⟨hnext1 h, ?_⟩, hnext2, rfl, rfl, rfl, rfl, rfl, rfl, ?_, hother⟩
    · intro i hi1 hi2
      show ((g.cells.set (base + k) { c with status := .Used }).set (base + k) c1)[base + i]?
        = _
      rw [hother (base + i) (by omega)]
      exact hcells i (by omega) hi2
    · show ((g.cells.set (base + k) { c with status := .Used }).set (base + k) c1).length = _
      rw [List.length_set, List.length_set]
  cases x with
  | integer value =>
    refine ⟨_, ?_, hmain { c with status := .Used, kind := .Integer, car := .int value } _ rfl⟩
    simp only [GC.New.apply, GC.newIntegerCell, M.bind_apply, halloc, hget]
  | symbol name =>
    refine ⟨_, ?_, hmain { c with status := .Used, kind := .Symbol, car := .name name } _ rfl⟩
    simp only [GC.New.apply, GC.newSymbolCell, M.bind_apply, halloc, hget]
  | pair kind car cdr =>
    refine ⟨_, ?_,
      hmain { c with status := .Used, kind := kind, car := .ptr car, cdr := .ptr cdr } _ rfl⟩
    simp only [GC.New.apply, GC.newPairCell, M.bind_apply, halloc, hget]

/-- The cells made one after the other from what is left of a fresh bank are
its cells in ascending order. -/
theorem GC.newCells_fresh : ∀ (news : List GC.New) (base k : Nat) (g : GC),
    GC.Fresh base k g → k + news.length ≤ GC.BankSize →
    ∃ g1, GC.newCells news g = .ok (List.range' (base + k) news.length) g1 ∧
      (k + news.length < GC.BankSize → GC.Fresh base (k + news.length) g1) ∧
      (k + news.length = GC.BankSize → news ≠ [] → g1.freeList_ = none) ∧
      g1.numBanks_ = g.numBanks_ ∧ g1.bank_ = g.bank_ ∧ g1.liveObjects_ = g.liveObjects_ ∧
      g1.allocations_ = g.allocations_ + news.length ∧ g1.roots_ = g.roots_ ∧
      g1.data_ = g.data_ ∧ g1.cells.length = g.cells.length ∧
      ∀ b, b < base + k → g1.cells[b]? = g.cells[b]?
  | [], base, k, g, hf, _ =>
    ⟨g, rfl, fun _ => hf, fun _ h => absurd rfl h, rfl, rfl, rfl, rfl, rfl, rfl, rfl,
      fun _ _ => rfl⟩
  | x :: xs, base, k, g, hf, hle => by
    simp only [List.length_cons] at hle
    obtain ⟨g1, hx, hfresh1, hnone1, hn1, hb1, hl1, ha1, hr1, hd1, hlen1, hc1⟩ :=
      GC.New.apply_fresh x base k g hf (by omega)
    by_cases hlast : k + 1 < GC.BankSize
    · obtain ⟨g2, hxs, hfresh2, hnone2, hn2, hb2, hl2, ha2, hr2, hd2, hlen2, hc2⟩ :=
        GC.newCells_fresh xs base (k + 1) g1 (hfresh1 hlast) (by omega)
      refine ⟨g2, ?_, ?_, ?_, hn2.trans hn1, hb2.trans hb1, hl2.trans hl1, ?_, hr2.trans hr1,
        hd2.trans hd1, hlen2.trans hlen1, ?_⟩
      · simp only [GC.newCells, hx, hxs, List.length_cons, List.range'_succ]
        rfl
      · intro h
        have := hfresh2 (by simp only [List.length_cons] at h; omega)
        simpa only [List.length_cons, Nat.add_assoc, Nat.add_comm 1] using this
      · intro h _
        by_cases hxs0 : xs = []
        · subst hxs0
          simp only [List.length_cons, List.length_nil] at h
          omega
        · exact hnone2 (by simp only [List.length_cons] at h; omega) hxs0
      · rw [ha2, ha1]
        simp only [List.length_cons]
        omega
      · intro b hb
        rw [hc2 b (by omega), hc1 b (by omega)]
    · have hxs0 : xs = [] := by
        cases xs with
        | nil => rfl
        | cons y ys =>
          simp only [List.length_cons] at hle
          omega
      subst hxs0
      refine ⟨g1, ?_, ?_, ?_, hn1, hb1, hl1, ha1, hr1, hd1, hlen1, ?_⟩
      · simp only [GC.newCells, hx, List.length_cons, List.length_nil, List.range'_succ,
          List.range'_zero, Nat.zero_add]
      · intro h
        simp only [List.length_cons, List.length_nil] at h
        omega
      · intro _ _
        exact hnone1 (by omega)
      · intro b hb
        exact hc1 b (by omega)

theorem GC.Run_freeList (g g1 : GC) (h : GC.Run g = .ok () g1) : g1.freeList_ ≠ none := by
  obtain ⟨gM, hM⟩ := GC.Run_ok_Mark g g1 h
  rw [GC.Run_of_Mark g gM hM] at h
  simp only [Res.ok.injEq, true_and] at h
  rw [← h]
  split
  · simp
  · assumption

/-- An allocation with the free list empty runs the collector first. -/
theorem GC.AllocateCell_collects (g : GC) (hf : g.freeList_ = none) :
    (∀ g3, GC.Run g = .ok () g3 → GC.AllocateCell g = GC.AllocateCell g3) ∧
    ∀ f, GC.Run g = .fault f → GC.AllocateCell g = .fault f := by
  constructor
  · intro g3 hrun
    have hne := GC.Run_freeList g g3 hrun
    unfold GC.AllocateCell
    simp only [M.bind_apply, hf, if_true, hrun, hne, if_false, pure_bind]
  · intro f hrun
    unfold GC.AllocateCell
    simp only [M.bind_apply, hf, if_true, hrun]

/-- A collection that appends a bank leaves the whole bank as the free
list. -/
theorem GC.Run_fresh (g g1 : GC) (hm : g.NoMarked) (h : GC.Run g = .ok () g1)
    (hnone : (GC.stateAfter (do GC.Mark; GC.Sweep) g).freeList_ = none) :
    GC.Fresh g.cells.length 0 g1 ∧ g1.bank_ = g.cells.length :: g.bank_ ∧
      g1.numBanks_ = g.numBanks_ + 1 ∧ g1.allocations_ = 0 ∧
      g1.cells.length = g.cells.length + GC.BankSize := by
  obtain ⟨gM, hM⟩ := GC.Run_ok_Mark g g1 h
  obtain ⟨S, hinv, -, -, -, hbank, -, hnum⟩ := GC.Mark_spec g gM hm hM
  have hlen := GC.sweepCells_length (GC.sweepOrder gM.bank_) (gM.cells, gM.freeList_)
  have hlenM : gM.cells.length = g.cells.length := hinv.length
  simp only at hlen
  rw [GC.stateAfter_sweep g gM hM] at hnone
  rw [GC.Run_of_Mark g gM hM, if_pos hnone] at h
  simp only [Res.ok.injEq, true_and] at h
  subst h
  refine ⟨⟨?_, ?_⟩, ?_, ?_, rfl, ?_⟩
  · show some _ = _
    rw [hlen, hlenM]
    rfl
  · intro i _ _
    show (_ ++ _)[g.cells.length + i]? = _
    rw [List.getElem?_append_right (by rw [hlen, hlenM]; omega), hlen, hlenM,
      Nat.add_sub_cancel_left]
  · show _ :: gM.bank_ = _
    rw [hlen, hlenM, hbank]
  · show gM.numBanks_ + 1 = _
    rw [hnum]
  · show List.length (_ ++ _) = _
    rw [List.length_append, hlen, hlenM, GC.length_bankCells]

/-- Where the test of `AllocateCell` holds for a word of all ones: after a
collection that has appended a bank, the free list having
been empty after the sweep, the next cells made, up to `BankSize` of them,
are the cells of the new bank in ascending order, pairwise distinct; no
collection runs in between: `allocations_` counts them from zero and the
banks and `liveObjects_` stay as they are.  While fewer than `BankSize` cells
were made the head of the free list is the next cell of the bank; after
`BankSize` cells the free list is empty, and the allocation that follows runs
the collector first. -/
theorem fresh_bank_serves_bank_size_cells (g g1 : GC) (hm : g.NoMarked)
    (h : GC.Run g = .ok () g1)
    (hnone : (GC.stateAfter (do GC.Mark; GC.Sweep) g).freeList_ = none)
    (news : List GC.New) (hlen : news.length ≤ GC.BankSize) :
    g1.bank_ = g.cells.length :: g.bank_ ∧ g1.freeList_ = some g.cells.length ∧
    ∃ g2, GC.newCells news g1 = .ok (List.range' g.cells.length news.length) g2 ∧
      (List.range' g.cells.length news.length).Nodup ∧
      g2.allocations_ = news.length ∧ g2.numBanks_ = g1.numBanks_ ∧ g2.bank_ = g1.bank_ ∧
      g2.liveObjects_ = g1.liveObjects_ ∧
      (news.length < GC.BankSize → g2.freeList_ = some (g.cells.length + news.length)) ∧
      (news.length = GC.BankSize → g2.freeList_ = none ∧
        (∀ g3, GC.Run g2 = .ok () g3 → GC.AllocateCell g2 = GC.AllocateCell g3) ∧
        ∀ f, GC.Run g2 = .fault f → GC.AllocateCell g2 = .fault f) := by
  obtain ⟨hfresh, hbank, -, halloc, -⟩ := GC.Run_fresh g g1 hm h hnone
  obtain ⟨g2, hnew, hf2, hn2, hnum2, hb2, hl2, ha2, -⟩ :=
    GC.newCells_fresh news g.cells.length 0 g1 hfresh (by omega)
  simp only [Nat.add_zero, Nat.zero_add] at hnew hf2 hn2
  refine ⟨hbank, hfresh.1, g2, hnew, List.nodup_range' _ _, ?_, hnum2, hb2, hl2, ?_, ?_⟩
  · rw [ha2, halloc, Nat.zero_add]
  · intro hlt
    exact (hf2 hlt).1
  · intro heq
    have hne : news ≠ [] := by
      intro h0
      rw [h0] at heq
      simp only [List.length_nil] at heq
      exact absurd heq (by decide)
    have hfree := hn2 heq hne
    exact ⟨hfree, GC.AllocateCell_collects g2 hfree⟩

theorem GC.initial_swept : (GC.stateAfter (do GC.Mark; GC.Sweep) GC.initial).freeList_ = none := by
  decide!

/-- The first collection appends the first bank, and a thousand Integer cells
made after it are the cells 0 to 999. -/
theorem fresh_bank_serves_bank_size_cells_example :
    (GC.stateAfter GC.Run GC.initial).bank_ = GC.initial.cells.length :: GC.initial.bank_ ∧
    (GC.stateAfter GC.Run GC.initial).freeList_ = some GC.initial.cells.length ∧
    ∃ g2, GC.newCells (List.replicate 1000 (.integer 7)) (GC.stateAfter GC.Run GC.initial)
        = .ok (List.range' GC.initial.cells.length
            (List.replicate 1000 (GC.New.integer 7)).length) g2 ∧
      (List.range' GC.initial.cells.length
        (List.replicate 1000 (GC.New.integer 7)).length).Nodup ∧
      g2.allocations_ = (List.replicate 1000 (GC.New.integer 7)).length ∧
      g2.numBanks_ = (GC.stateAfter GC.Run GC.initial).numBanks_ ∧
      g2.bank_ = (GC.stateAfter GC.Run GC.initial).bank_ ∧
      g2.liveObjects_ = (GC.stateAfter GC.Run GC.initial).liveObjects_ ∧
      ((List.replicate 1000 (GC.New.integer 7)).length < GC.BankSize →
        g2.freeList_ = some (GC.initial.cells.length
          + (List.replicate 1000 (GC.New.integer 7)).length)) ∧
      ((List.replicate 1000 (GC.New.integer 7)).length = GC.BankSize → g2.freeList_ = none ∧
        (∀ g3, GC.Run g2 = .ok () g3 → GC.AllocateCell g2 = GC.AllocateCell g3) ∧
        ∀ f, GC.Run g2 = .fault f → GC.AllocateCell g2 = .fault f) :=
  fresh_bank_serves_bank_size_cells GC.initial (GC.stateAfter GC.Run GC.initial)
    GC.initial_valid.1 GC.initial_run.1 GC.initial_swept (List.replicate 1000 (.integer 7))
    (by rw [List.length_replicate]; exact Nat.le_refl _)

/-! ## The free list through a collection -/

theorem GC.nextFree_congr {cells cells1 : List GC.Cell} {a : Nat}
    (h : cells1[a]? = cells[a]?) : GC.nextFree cells1 a = GC.nextFree cells a := by
  unfold GC.nextFree
  rw [h]

theorem GC.Listed.not_none {cells : List GC.Cell} {a : Nat} : ¬ GC.Listed cells none a := by
  intro h
  generalize hh : (none : Option Nat) = head at h
  induction h with
  | head a => cases hh
  | next h a b _ _ ih => exact ih hh

/-- The list is the same in a memory that agrees on its cells. -/
theorem GC.Listed.transfer {cells cells1 : List GC.Cell} {head : Option Nat}
    (hagree : ∀ x, GC.Listed cells head x → cells1[x]? = cells[x]?) {y : Nat}
    (h : GC.Listed cells head y) : GC.Listed cells1 head y := by
  induction h with
  | head a => exact GC.Listed.head a
  | next h a b hab hnext ih =>
    exact GC.Listed.next h a b (ih hagree) ((GC.nextFree_congr (hagree a hab)).trans hnext)

theorem GC.Listed.transfer_rev {cells cells1 : List GC.Cell} {head : Option Nat}
    (hagree : ∀ x, GC.Listed cells head x → cells1[x]? = cells[x]?) {y : Nat}
    (h : GC.Listed cells1 head y) : GC.Listed cells head y := by
  induction h with
  | head a => exact GC.Listed.head a
  | next h a b _ hnext ih =>
    have ha := ih hagree
    exact GC.Listed.next h a b ha ((GC.nextFree_congr (hagree a ha)).symm.trans hnext)

/-- A cell put in front of the list, with the old head as its successor. -/
theorem GC.Listed.push {cells cells1 : List GC.Cell} {head : Option Nat} {b : Nat}
    (hagree : ∀ x, GC.Listed cells head x → cells1[x]? = cells[x]?)
    (hb : GC.nextFree cells1 b = head) {x : Nat} (h : GC.Listed cells head x) :
    GC.Listed cells1 (some b) x := by
  induction h with
  | head a => exact GC.Listed.next _ b a (GC.Listed.head b) hb
  | next h a y hla hnext ih =>
    exact GC.Listed.next _ a y (ih hagree hb)
      ((GC.nextFree_congr (hagree a hla)).trans hnext)

/-- The list that starts with `head` holds free cells only. -/
def GC.FreeCells (s : List GC.Cell × Option Nat) : Prop :=
  ∀ a, GC.Listed s.1 s.2 a → ∃ c, s.1[a]? = some c ∧ c.status = .Free

theorem GC.sweepCell_free (a b : Nat) (s : List GC.Cell × Option Nat) (c : GC.Cell)
    (hc : s.1[a]? = some c) (hs : c.status = .Free) : (GC.sweepCell b s).1[a]? = some c := by
  by_cases hab : a = b
  · subst hab
    unfold GC.sweepCell
    rw [hc]
    simp only [hs]
    exact hc
  · rw [GC.sweepCell_other a b s hab]
    exact hc

theorem GC.sweepCells_free (a : Nat) (c : GC.Cell) :
    ∀ (as : List Nat) (s : List GC.Cell × Option Nat), s.1[a]? = some c → c.status = .Free →
      (GC.sweepCells as s).1[a]? = some c
  | [], _, hc, _ => hc
  | b :: rest, s, hc, hs =>
    GC.sweepCells_free a c rest (GC.sweepCell b s) (GC.sweepCell_free a b s c hc hs) hs

/-- A cell that is `Marked` when the sweep comes to it is `Used` afterwards,
with its kind and its two words as they were. -/
theorem GC.sweepCells_marked_used (a : Nat) (c : GC.Cell) :
    ∀ (as : List Nat) (s : List GC.Cell × Option Nat), as.Nodup → a ∈ as →
      s.1[a]? = some c → c.status = .Marked →
      (GC.sweepCells as s).1[a]? = some { c with status := .Used }
  | [], s, _, ha, _, _ => by simp at ha
  | b :: rest, s, hnd, ha, hc, hs => by
    rw [List.nodup_cons] at hnd
    show (GC.sweepCells rest (GC.sweepCell b s)).1[a]? = _
    by_cases hab : a = b
    · subst hab
      rw [GC.sweepCells_other a rest _ hnd.1]
      exact (GC.sweepCell_marked a s c hc hs).1
    · rcases List.mem_cons.1 ha with heq | hmem
      · exact absurd heq hab
      · apply GC.sweepCells_marked_used a c rest _ hnd.2 hmem _ hs
        rw [GC.sweepCell_other a b s hab]
        exact hc

/-- One round of the sweep: the list afterwards is the list of before,
with the cell of the round in front when it was `Used`. -/
theorem GC.sweepCell_listed (b : Nat) (s : List GC.Cell × Option Nat) (hok : GC.FreeCells s) :
    GC.FreeCells (GC.sweepCell b s) ∧
    ∀ x, GC.Listed (GC.sweepCell b s).1 (GC.sweepCell b s).2 x ↔
      (GC.Listed s.1 s.2 x ∨ (x = b ∧ ∃ c, s.1[b]? = some c ∧ c.status = .Used)) := by
  -- a round that leaves the list cells and the head as they are
  have hsame : (GC.sweepCell b s).2 = s.2 →
      (∀ x, GC.Listed s.1 s.2 x → (GC.sweepCell b s).1[x]? = s.1[x]?) →
      (∀ c, s.1[b]? = some c → c.status ≠ .Used) →
      GC.FreeCells (GC.sweepCell b s) ∧
      ∀ x, GC.Listed (GC.sweepCell b s).1 (GC.sweepCell b s).2 x ↔
        (GC.Listed s.1 s.2 x ∨ (x = b ∧ ∃ c, s.1[b]? = some c ∧ c.status = .Used)) := by
    intro hhead hagree hnot
    have hiff : ∀ x, GC.Listed (GC.sweepCell b s).1 (GC.sweepCell b s).2 x ↔
        GC.Listed s.1 s.2 x := by
      intro x
      rw [hhead]
      exact ⟨GC.Listed.transfer_rev hagree, GC.Listed.transfer hagree⟩
    refine ⟨?_, ?_⟩
    · intro a ha
      have ha1 := (hiff a).1 ha
      obtain ⟨c, hc, hs⟩ := hok a ha1
      exact ⟨c, (hagree a ha1).trans hc, hs⟩
    · intro x
      rw [hiff x]
      constructor
      · exact Or.inl
      · rintro (h | ⟨-, c, hc, hs⟩)
        · exact h
        · exact absurd hs (hnot c hc)
  have hcases : s.1[b]? = none ∨ ∃ cb, s.1[b]? = some cb := by
    cases s.1[b]? with
    | none => exact Or.inl rfl
    | some cb => exact Or.inr ⟨cb, rfl⟩
  rcases hcases with hb | ⟨cb, hb⟩
  · have heq : GC.sweepCell b s = s := by
      unfold GC.sweepCell
      rw [hb]
    exact hsame (by rw [heq]) (fun x _ => by rw [heq]) (fun c hc => by
      rw [hb] at hc
      cases hc)
  · cases hst : cb.status with
    | Free =>
      have heq : GC.sweepCell b s = s := by
        unfold GC.sweepCell
        rw [hb]
        simp only [hst]
      exact hsame (by rw [heq]) (fun x _ => by rw [heq]) (fun c hc => by
        rw [hb] at hc
        simp only [Option.some.injEq] at hc
        subst hc
        rw [hst]
        simp)
    | Marked =>
      refine hsame (GC.sweepCell_marked b s cb hb hst).2 ?_ (fun c hc => by
        rw [hb] at hc
        simp only [Option.some.injEq] at hc
        subst hc
        rw [hst]
        simp)
      intro x hx
      obtain ⟨c, hc, hs⟩ := hok x hx
      have hxb : x ≠ b := by
        rintro rfl
        rw [hb] at hc
        simp only [Option.some.injEq] at hc
        subst hc
        rw [hst] at hs
        cases hs
      exact GC.sweepCell_other x b s hxb
    | Used =>
      have heq := GC.sweepCell_used b s cb hb hst
      have hlt := GC.getElem?_lt hb
      have hnot : ∀ x, GC.Listed s.1 s.2 x → x ≠ b := by
        intro x hx
        obtain ⟨c, hc, hs⟩ := hok x hx
        rintro rfl
        rw [hb] at hc
        simp only [Option.some.injEq] at hc
        subst hc
        rw [hst] at hs
        cases hs
      have hagree : ∀ x, GC.Listed s.1 s.2 x →
          (s.1.set b { cb with car := .ptr s.2, status := .Free })[x]? = s.1[x]? :=
        fun x hx => List.getElem?_set_ne (Ne.symm (hnot x hx))
      have hnextb : GC.nextFree (s.1.set b { cb with car := .ptr s.2, status := .Free }) b
          = s.2 := by
        unfold GC.nextFree
        rw [List.getElem?_set_self hlt]
        rfl
      have hiff : ∀ x, GC.Listed (s.1.set b { cb with car := .ptr s.2, status := .Free })
          (some b) x ↔ (GC.Listed s.1 s.2 x ∨ x = b) := by
        intro x
        constructor
        · intro hx
          generalize hh : some b = head at hx
          induction hx with
          | head a =>
            simp only [Option.some.injEq] at hh
            exact Or.inr hh.symm
          | next h a y _ hnext ih =>
            rcases ih hh with hl | rfl
            · left
              exact GC.Listed.next _ a y hl
                ((GC.nextFree_congr (hagree a hl)).symm.trans hnext)
            · left
              rw [hnextb] at hnext
              rw [hnext]
              exact GC.Listed.head y
        · rintro (hl | rfl)
          · exact GC.Listed.push hagree hnextb hl
          · exact GC.Listed.head x
      rw [heq]
      refine ⟨?_, ?_⟩
      · intro a ha
        rcases (hiff a).1 ha with hl | rfl
        · obtain ⟨c, hc, hs⟩ := hok a hl
          exact ⟨c, (hagree a hl).trans hc, hs⟩
        · exact ⟨_, List.getElem?_set_self hlt, rfl⟩
      · intro x
        rw [hiff x]
        constructor
        · rintro (h | h)
          · exact Or.inl h
          · exact Or.inr ⟨h, cb, hb, hst⟩
        · rintro (h | ⟨h, -⟩)
          · exact Or.inl h
          · exact Or.inr h

/-- The whole sweep: the list afterwards holds the cells of the list of
before and the swept cells that were `Used`, and nothing else. -/
theorem GC.sweepCells_listed :
    ∀ (as : List Nat) (s : List GC.Cell × Option Nat), as.Nodup → GC.FreeCells s →
      GC.FreeCells (GC.sweepCells as s) ∧
      ∀ x, GC.Listed (GC.sweepCells as s).1 (GC.sweepCells as s).2 x ↔
        (GC.Listed s.1 s.2 x ∨ (x ∈ as ∧ ∃ c, s.1[x]? = some c ∧ c.status = .Used))
  | [], s, _, hok => ⟨hok, fun x => by
      show GC.Listed s.1 s.2 x ↔ _
      simp⟩
  | b :: rest, s, hnd, hok => by
    rw [List.nodup_cons] at hnd
    obtain ⟨hok1, hiff1⟩ := GC.sweepCell_listed b s hok
    obtain ⟨hok2, hiff2⟩ := GC.sweepCells_listed rest (GC.sweepCell b s) hnd.2 hok1
    refine ⟨hok2, ?_⟩
    intro x
    show GC.Listed (GC.sweepCells rest (GC.sweepCell b s)).1
      (GC.sweepCells rest (GC.sweepCell b s)).2 x ↔ _
    rw [hiff2 x, hiff1 x]
    constructor
    · rintro ((h | ⟨rfl, c, hc, hs⟩) | ⟨hmem, c, hc, hs⟩)
      · exact Or.inl h
      · exact Or.inr ⟨List.mem_cons_self _ _, c, hc, hs⟩
      · have hxb : x ≠ b := fun h => hnd.1 (h ▸ hmem)
        rw [GC.sweepCell_other x b s hxb] at hc
        exact Or.inr ⟨List.mem_cons_of_mem _ hmem, c, hc, hs⟩
    · rintro (h | ⟨hmem, c, hc, hs⟩)
      · exact Or.inl (Or.inl h)
      · by_cases hxb : x = b
        · subst hxb
          exact Or.inl (Or.inr ⟨rfl, c, hc, hs⟩)
        · rcases List.mem_cons.1 hmem with heq | hmem1
          · exact absurd heq hxb
          · right
            refine ⟨hmem1, c, ?_, hs⟩
            rw [GC.sweepCell_other x b s hxb]
            exact hc

/-- The free list of a fresh bank lies in the part of the bank that is not
handed out, and its cells are free. -/
theorem GC.Fresh.listed {base k : Nat} {g : GC} (hf : GC.Fresh base k g)
    (hk : k < GC.BankSize) (x : Nat) (hx : g.OnFreeList x) :
    (base + k ≤ x ∧ x < base + GC.BankSize) ∧ ∃ c, g.cells[x]? = some c ∧ c.status = .Free := by
  have hsize : GC.BankSize = 1000 := rfl
  have hcell : ∀ y, base + k ≤ y → y < base + GC.BankSize →
      ∃ c, g.cells[y]? = some c ∧ c.status = .Free ∧
        (y + 1 < base + GC.BankSize → c.car = .ones) ∧
        (y + 1 = base + GC.BankSize → c.car = .ptr none) := by
    intro y hlo hhi
    have hy : y = base + (y - base) := by omega
    have hget := hf.2 (y - base) (by omega) (by omega)
    rw [← hy] at hget
    by_cases hlast : y + 1 < base + GC.BankSize
    · rw [GC.bankCells_inner none (y - base) (by omega)] at hget
      exact ⟨_, hget, rfl, fun _ => rfl, fun h => by omega⟩
    · have hyb : y - base = GC.BankSize - 1 := by omega
      rw [hyb, GC.bankCells_last none] at hget
      exact ⟨_, hget, rfl, fun h => absurd h hlast, fun _ => rfl⟩
  have hrange : base + k ≤ x ∧ x < base + GC.BankSize := by
    unfold GC.OnFreeList at hx
    rw [hf.1] at hx
    generalize hh : some (base + k) = head at hx
    induction hx with
    | head a =>
      simp only [Option.some.injEq] at hh
      omega
    | next h a b _ hnext ih =>
      have ha := ih hh
      obtain ⟨c, hc, -, hinner, hlast⟩ := hcell a ha.1 ha.2
      unfold GC.nextFree at hnext
      rw [hc] at hnext
      by_cases hl : a + 1 < base + GC.BankSize
      · simp only [hinner hl, GC.Word.isOnes, if_true, Option.some.injEq] at hnext
        omega
      · simp [hlast (by omega), GC.Word.isOnes] at hnext
  obtain ⟨c, hc, hs, -, -⟩ := hcell x hrange.1 hrange.2
  exact ⟨hrange, c, hc, hs⟩

/-- The memory and the free list after the two phases of a collection that
starts with no cell marked, no free cell reachable and free cells only on the
free list. -/
theorem GC.swept_spec (g gM : GC) (hm : g.NoMarked) (hl : g.Layout)
    (hfree : ∀ (a : Nat) (c : GC.Cell), g.cells[a]? = some c → c.status = .Free →
      ¬ GC.Reaches g a)
    (hlist : g.FreeListOK) (hM : GC.Mark g = .ok () gM) :
    GC.FreeCells (GC.sweepCells (GC.sweepOrder gM.bank_) (gM.cells, gM.freeList_)) ∧
    (GC.sweepCells (GC.sweepOrder gM.bank_) (gM.cells, gM.freeList_)).1.length
      = g.cells.length ∧
    (∀ a, GC.Reaches g a → ∃ c, g.cells[a]? = some c ∧
      (GC.sweepCells (GC.sweepOrder gM.bank_) (gM.cells, gM.freeList_)).1[a]?
        = some { c with status := .Used }) ∧
    (∀ (a : Nat) (c : GC.Cell), g.cells[a]? = some c → c.status = .Used → ¬ GC.Reaches g a →
      (∃ p, (GC.sweepCells (GC.sweepOrder gM.bank_) (gM.cells, gM.freeList_)).1[a]?
        = some { c with car := .ptr p, status := .Free }) ∧
      GC.Listed (GC.sweepCells (GC.sweepOrder gM.bank_) (gM.cells, gM.freeList_)).1
        (GC.sweepCells (GC.sweepOrder gM.bank_) (gM.cells, gM.freeList_)).2 a) ∧
    (∀ (a : Nat) (c : GC.Cell), g.cells[a]? = some c → c.status = .Free →
      (GC.sweepCells (GC.sweepOrder gM.bank_) (gM.cells, gM.freeList_)).1[a]? = some c) ∧
    ∀ a, g.OnFreeList a →
      GC.Listed (GC.sweepCells (GC.sweepOrder gM.bank_) (gM.cells, gM.freeList_)).1
        (GC.sweepCells (GC.sweepOrder gM.bank_) (gM.cells, gM.freeList_)).2 a := by
  obtain ⟨S, hinv, -, -, -, hbank, hfl, hnum⟩ := GC.Mark_spec g gM hm hM
  have hlM : gM.Layout :=
    ⟨by rw [hbank, hnum]; exact hl.1, by rw [hinv.length, hnum]; exact hl.2⟩
  have hnd : (GC.sweepOrder gM.bank_).Nodup := hlM.disjoint
  have hagree : ∀ x, GC.Listed g.cells g.freeList_ x → gM.cells[x]? = g.cells[x]? := by
    intro x hx
    obtain ⟨c, hc, hs⟩ := hlist x hx
    rw [hc]
    exact GC.Mark_unreached g gM hm hM x c hc (hfree x c hc hs)
  have hiffM : ∀ x, GC.Listed gM.cells gM.freeList_ x ↔ GC.Listed g.cells g.freeList_ x := by
    intro x
    rw [hfl]
    exact ⟨GC.Listed.transfer_rev hagree, GC.Listed.transfer hagree⟩
  have hokM : GC.FreeCells (gM.cells, gM.freeList_) := by
    intro a ha
    have ha1 := (hiffM a).1 ha
    obtain ⟨c, hc, hs⟩ := hlist a ha1
    exact ⟨c, (hagree a ha1).trans hc, hs⟩
  obtain ⟨hok, hiff⟩ := GC.sweepCells_listed (GC.sweepOrder gM.bank_) (gM.cells, gM.freeList_)
    hnd hokM
  have hlen := GC.sweepCells_length (GC.sweepOrder gM.bank_) (gM.cells, gM.freeList_)
  refine ⟨hok, hlen.trans hinv.length, ?_, ?_, ?_, ?_⟩
  · intro a hr
    obtain ⟨cM, hcM, hsM⟩ := (hinv.marked a).1 ((hinv.complete a).2 hr)
    obtain ⟨c, hc, hor⟩ := GC.Mark_status g gM hM a cM hcM
    have hcm : c.status ≠ .Marked := hm c (List.mem_iff_getElem?.2 ⟨a, hc⟩)
    have hcMeq : cM = { c with status := .Marked } := by
      rcases hor with h | h
      · rw [h] at hsM
        exact absurd hsM hcm
      · exact h
    refine ⟨c, hc, ?_⟩
    have := GC.sweepCells_marked_used a cM (GC.sweepOrder gM.bank_) (gM.cells, gM.freeList_)
      hnd (hlM.covers a (GC.getElem?_lt hcM)) hcM hsM
    rw [this, hcMeq]
  · intro a c hc hs hr
    have hcM : gM.cells[a]? = some c := GC.Mark_unreached g gM hm hM a c hc hr
    have hmem := hlM.covers a (GC.getElem?_lt hcM)
    exact ⟨GC.sweepCells_used a c _ (gM.cells, gM.freeList_) hnd hmem hcM hs,
      (hiff a).2 (Or.inr ⟨hmem, c, hcM, hs⟩)⟩
  · intro a c hc hs
    have hcM : gM.cells[a]? = some c := GC.Mark_unreached g gM hm hM a c hc (hfree a c hc hs)
    exact GC.sweepCells_free a c _ (gM.cells, gM.freeList_) hcM hs
  · intro a ha
    exact (hiff a).2 (Or.inl ((hiffM a).2 ha))

/-- What `GC::Run` makes of the swept memory: the cells of before stay where
they are, and the free list is the one of the sweep, or the new bank when the
sweep left none. -/
theorem GC.Run_listed (g gM g1 : GC) (hM : GC.Mark g = .ok () gM) (h : GC.Run g = .ok () g1)
    (hok : GC.FreeCells (GC.sweepCells (GC.sweepOrder gM.bank_) (gM.cells, gM.freeList_))) :
    (∀ (a : Nat) (c : GC.Cell),
      (GC.sweepCells (GC.sweepOrder gM.bank_) (gM.cells, gM.freeList_)).1[a]? = some c →
      g1.cells[a]? = some c) ∧
    (∀ a, g1.OnFreeList a →
      GC.Listed (GC.sweepCells (GC.sweepOrder gM.bank_) (gM.cells, gM.freeList_)).1
        (GC.sweepCells (GC.sweepOrder gM.bank_) (gM.cells, gM.freeList_)).2 a ∨
      (GC.sweepCells (GC.sweepOrder gM.bank_) (gM.cells, gM.freeList_)).1.length ≤ a) ∧
    (∀ a, GC.Listed (GC.sweepCells (GC.sweepOrder gM.bank_) (gM.cells, gM.freeList_)).1
        (GC.sweepCells (GC.sweepOrder gM.bank_) (gM.cells, gM.freeList_)).2 a →
      g1.OnFreeList a) ∧
    g1.FreeListOK := by
  rw [GC.Run_of_Mark g gM hM] at h
  simp only [Res.ok.injEq, true_and] at h
  generalize GC.sweepCells (GC.sweepOrder gM.bank_) (gM.cells, gM.freeList_) = sw at h hok ⊢
  by_cases hnone : sw.2 = none
  · rw [if_pos hnone] at h
    subst h
    have hfresh : GC.Fresh sw.1.length 0
        { gM with
          cells := sw.1 ++ GC.bankCells none, bank_ := sw.1.length :: gM.bank_,
          freeList_ := some sw.1.length, numBanks_ := gM.numBanks_ + 1,
          allocations_ := 0 } := by
      refine ⟨rfl, fun i _ _ => ?_⟩
      show (sw.1 ++ GC.bankCells none)[sw.1.length + i]? = _
      rw [List.getElem?_append_right (Nat.le_add_right _ _), Nat.add_sub_cancel_left]
    refine ⟨?_, ?_, ?_, ?_⟩
    · intro a c hc
      show (sw.1 ++ GC.bankCells none)[a]? = some c
      rw [List.getElem?_append_left (GC.getElem?_lt hc)]
      exact hc
    · intro a ha
      exact Or.inr (hfresh.listed (by decide) a ha).1.1
    · intro a ha
      rw [hnone] at ha
      exact absurd ha GC.Listed.not_none
    · intro a ha
      exact (hfresh.listed (by decide) a ha).2
  · rw [if_neg hnone] at h
    subst h
    exact ⟨fun a c hc => hc, fun a ha => Or.inl ha, fun a ha => ha, hok⟩

/-- C31, amended: from a state in which no cell is marked, no free cell is
reachable from the roots and the free list holds free cells only, `GC::Run`
(which returns when the roots and the reachable Cons and Closure cells hold
pointers to cells) leaves every reachable cell `Used`, with its kind and its
two words as they were, and off the free list; every cell that was `Used` and
is not reachable `Free`, its first word a link, and on the free list; every
cell that was `Free` as it was; and no cell marked.  The state after the
collection satisfies what was asked of the state before it. -/
theorem collection_frees_exactly_unreachable (g : GC) (hm : g.NoMarked) (hl : g.Layout)
    (hfree : ∀ (a : Nat) (c : GC.Cell), g.cells[a]? = some c → c.status = .Free →
      ¬ GC.Reaches g a)
    (hlist : g.FreeListOK) :
    (g.Closed → ∃ g1, GC.Run g = .ok () g1) ∧
    ∀ g1, GC.Run g = .ok () g1 →
      (∀ a, GC.Reaches g a → ∃ c, g.cells[a]? = some c ∧
        g1.cells[a]? = some { c with status := .Used } ∧ ¬ g1.OnFreeList a) ∧
      (∀ (a : Nat) (c : GC.Cell), g.cells[a]? = some c → c.status = .Used →
        ¬ GC.Reaches g a →
        (∃ p, g1.cells[a]? = some { c with car := .ptr p, status := .Free }) ∧
          g1.OnFreeList a) ∧
      (∀ (a : Nat) (c : GC.Cell), g.cells[a]? = some c → c.status = .Free →
        g1.cells[a]? = some c) ∧
      g1.NoMarked ∧ g1.Layout ∧ g1.FreeListOK ∧
      ∀ (a : Nat) (c : GC.Cell), g1.cells[a]? = some c → c.status = .Free →
        ¬ GC.Reaches g1 a := by
  refine ⟨fun hc => ?_, fun g1 h => ?_⟩
  · obtain ⟨gM, hM, -⟩ := GC.Mark_returns g hc
    exact ⟨_, GC.Run_of_Mark g gM hM⟩
  · obtain ⟨gM, hM⟩ := GC.Run_ok_Mark g g1 h
    obtain ⟨hok, hlen, hreach, hused, hfr, -⟩ := GC.swept_spec g gM hm hl hfree hlist hM
    obtain ⟨hcells, hon, hoff, hlist1⟩ := GC.Run_listed g gM g1 hM h hok
    obtain ⟨hm1, hl1⟩ := GC.Run_valid g g1 hm hl h
    have hr := GC.Run_reaches g g1 hm hl.disjoint h
    have hfirst : ∀ a, GC.Reaches g a → ∃ c, g.cells[a]? = some c ∧
        g1.cells[a]? = some { c with status := .Used } ∧ ¬ g1.OnFreeList a := by
      intro a ha
      obtain ⟨c, hc, hsw⟩ := hreach a ha
      refine ⟨c, hc, hcells a _ hsw, ?_⟩
      intro hlisted
      rcases hon a hlisted with h1 | h1
      · obtain ⟨c1, hc1, hs1⟩ := hok a h1
        rw [hsw] at hc1
        simp only [Option.some.injEq] at hc1
        rw [← hc1] at hs1
        cases hs1
      · rw [hlen] at h1
        exact absurd (GC.getElem?_lt hc) (Nat.not_lt.2 h1)
    refine ⟨hfirst, ?_, ?_, hm1, hl1, hlist1, ?_⟩
    · intro a c hc hs hnr
      obtain ⟨⟨p, hp⟩, hl⟩ := hused a c hc hs hnr
      exact ⟨⟨p, hcells a _ hp⟩, hoff a hl⟩
    · intro a c hc hs
      exact hcells a c (hfr a c hc hs)
    · intro a c hc hs hra
      obtain ⟨c0, -, hc1, -⟩ := hfirst a ((hr a).1 hra)
      rw [hc] at hc1
      simp only [Option.some.injEq] at hc1
      rw [hc1] at hs
      cases hs

theorem GC.Sample.shared_check :
    GC.Sample.shared.closedCheck = true ∧
    GC.Sample.shared.cells.drop 4 = (GC.bankCells none).drop 4 ∧
    (∀ c ∈ GC.Sample.shared.cells.take 4, c.status ≠ .Free) ∧
    (∀ c ∈ (GC.stateAfter GC.Mark GC.Sample.shared).cells.drop 4, c.status ≠ .Marked) ∧
    GC.Sample.shared.cells[1]? = some ⟨.Used, .Integer, .int 8, .ones⟩ ∧
    (GC.stateAfter GC.Mark GC.Sample.shared).cells[1]?
      = some ⟨.Used, .Integer, .int 8, .ones⟩ := by
  decide!

/-- The free list of the sample heap is the rest of its bank. -/
theorem GC.Sample.shared_fresh : GC.Fresh 0 4 GC.Sample.shared := by
  refine ⟨GC.Sample.shared_head.1, fun i hi _ => ?_⟩
  have h := congrArg (fun l : List GC.Cell => l[i - 4]?) GC.Sample.shared_check.2.1
  simp only [List.getElem?_drop] at h
  rw [Nat.add_sub_cancel' hi] at h
  rw [Nat.zero_add]
  exact h

/-- No free cell of the sample heap is reachable from its roots. -/
theorem GC.Sample.shared_free (a : Nat) (c : GC.Cell)
    (hc : GC.Sample.shared.cells[a]? = some c) (hs : c.status = .Free) :
    ¬ GC.Reaches GC.Sample.shared a := by
  rcases Nat.lt_or_ge a 4 with hlt | hge
  · exact absurd hs (GC.Sample.shared_check.2.2.1 c (GC.mem_take_of_getElem? hlt hc))
  · obtain ⟨gM, hM, -⟩ := GC.Mark_returns GC.Sample.shared
      (GC.Closed.of_closedCheck GC.Sample.shared_check.1)
    have hMeq : GC.stateAfter GC.Mark GC.Sample.shared = gM := by
      unfold GC.stateAfter
      rw [hM]
    obtain ⟨S, hinv, -⟩ := GC.Mark_spec GC.Sample.shared gM GC.Sample.shared_valid.1 hM
    have hlt : a < gM.cells.length := by
      rw [hinv.length]
      exact GC.getElem?_lt hc
    have hcM : gM.cells[a]? = some (gM.cells.get ⟨a, hlt⟩) := List.getElem?_eq_getElem hlt
    refine GC.not_reaches_of_Mark GC.Sample.shared gM GC.Sample.shared_valid.1 hM a _ hcM ?_
    apply GC.Sample.shared_check.2.2.2.1
    rw [hMeq]
    exact GC.mem_drop_of_getElem? hge hcM

/-- The sample heap, whose Integer 8 no handle points to: the collection
returns and frees that cell, putting it on the free list, and leaves the three
reachable cells in use. -/
theorem collection_frees_exactly_unreachable_example :
    GC.Sample.shared.NoMarked ∧ GC.Sample.shared.Layout ∧ GC.Sample.shared.FreeListOK ∧
    GC.Sample.shared.Closed ∧
    GC.Sample.shared.cells[1]? = some ⟨.Used, .Integer, .int 8, .ones⟩ ∧
    ¬ GC.Reaches GC.Sample.shared 1 ∧
    ((GC.Sample.shared.Closed → ∃ g1, GC.Run GC.Sample.shared = .ok () g1) ∧
    ∀ g1, GC.Run GC.Sample.shared = .ok () g1 →
      (∀ a, GC.Reaches GC.Sample.shared a → ∃ c, GC.Sample.shared.cells[a]? = some c ∧
        g1.cells[a]? = some { c with status := .Used } ∧ ¬ g1.OnFreeList a) ∧
      (∀ (a : Nat) (c : GC.Cell), GC.Sample.shared.cells[a]? = some c → c.status = .Used →
        ¬ GC.Reaches GC.Sample.shared a →
        (∃ p, g1.cells[a]? = some { c with car := .ptr p, status := .Free }) ∧
          g1.OnFreeList a) ∧
      (∀ (a : Nat) (c : GC.Cell), GC.Sample.shared.cells[a]? = some c → c.status = .Free →
        g1.cells[a]? = some c) ∧
      g1.NoMarked ∧ g1.Layout ∧ g1.FreeListOK ∧
      ∀ (a : Nat) (c : GC.Cell), g1.cells[a]? = some c → c.status = .Free →
        ¬ GC.Reaches g1 a) :=
  ⟨GC.Sample.shared_valid.1, GC.Sample.shared_valid.2,
    fun a ha => (GC.Sample.shared_fresh.listed (by decide) a ha).2,
    GC.Closed.of_closedCheck GC.Sample.shared_check.1,
    GC.Sample.shared_check.2.2.2.2.1,
    GC.not_reaches_of_Mark GC.Sample.shared _ GC.Sample.shared_valid.1
      GC.Sample.shared_marked.1 1 _ GC.Sample.shared_check.2.2.2.2.2 (by decide),
    collection_frees_exactly_unreachable GC.Sample.shared GC.Sample.shared_valid.1
      GC.Sample.shared_valid.2 GC.Sample.shared_free
      (fun a ha => (GC.Sample.shared_fresh.listed (by decide) a ha).2)⟩

/-! ## A collection with a free cell in reach -/

theorem GC.sweepCell_kind (a b : Nat) (s : List GC.Cell × Option Nat) (c1 : GC.Cell)
    (h : (GC.sweepCell b s).1[a]? = some c1) : ∃ c, s.1[a]? = some c ∧ c.kind = c1.kind := by
  by_cases hab : a = b
  · subst hab
    have hcases : s.1[a]? = none ∨ ∃ c, s.1[a]? = some c := by
      cases s.1[a]? with
      | none => exact Or.inl rfl
      | some c => exact Or.inr ⟨c, rfl⟩
    rcases hcases with hn | ⟨c, hc⟩
    · unfold GC.sweepCell at h
      rw [hn] at h
      simp only at h
      rw [hn] at h
      cases h
    · refine ⟨c, hc, ?_⟩
      have hlt := GC.getElem?_lt hc
      unfold GC.sweepCell at h
      rw [hc] at h
      cases hs : c.status with
      | Used =>
        simp only [hs] at h
        rw [List.getElem?_set_self hlt] at h
        simp only [Option.some.injEq] at h
        rw [← h]
      | Marked =>
        simp only [hs] at h
        rw [List.getElem?_set_self hlt] at h
        simp only [Option.some.injEq] at h
        rw [← h]
      | Free =>
        simp only [hs] at h
        rw [hc] at h
        simp only [Option.some.injEq] at h
        rw [h]
  · rw [GC.sweepCell_other a b s hab] at h
    exact ⟨c1, h, rfl⟩

theorem GC.sweepCells_kind (a : Nat) (c1 : GC.Cell) :
    ∀ (as : List Nat) (s : List GC.Cell × Option Nat), (GC.sweepCells as s).1[a]? = some c1 →
      ∃ c, s.1[a]? = some c ∧ c.kind = c1.kind
  | [], _, h => ⟨c1, h, rfl⟩
  | b :: rest, s, h => by
    obtain ⟨c2, hc2, hk2⟩ := GC.sweepCells_kind a c1 rest (GC.sweepCell b s) h
    obtain ⟨c, hc, hk⟩ := GC.sweepCell_kind a b s c2 hc2
    exact ⟨c, hc, hk.trans hk2⟩

/-- A collection changes the kind of no cell and takes no cell away; the
cells of a new bank have no kind yet. -/
theorem GC.Run_kind (g g1 : GC) (hm : g.NoMarked) (h : GC.Run g = .ok () g1) :
    g.cells.length ≤ g1.cells.length ∧
    ∀ (a : Nat) (c1 : GC.Cell), g1.cells[a]? = some c1 →
      (∃ c, g.cells[a]? = some c ∧ c.kind = c1.kind) ∨ c1.kind = .unset := by
  obtain ⟨gM, hM⟩ := GC.Run_ok_Mark g g1 h
  obtain ⟨S, hinv, -⟩ := GC.Mark_spec g gM hm hM
  have hlen := GC.sweepCells_length (GC.sweepOrder gM.bank_) (gM.cells, gM.freeList_)
  have hold : ∀ (a : Nat) (c1 : GC.Cell),
      (GC.sweepCells (GC.sweepOrder gM.bank_) (gM.cells, gM.freeList_)).1[a]? = some c1 →
      ∃ c, g.cells[a]? = some c ∧ c.kind = c1.kind := by
    intro a c1 hc1
    obtain ⟨cM, hcM, hkM⟩ := GC.sweepCells_kind a c1 _ _ hc1
    obtain ⟨c, hc, hk, -, -⟩ := hinv.shape a cM hcM
    exact ⟨c, hc, hk.trans hkM⟩
  rw [GC.Run_of_Mark g gM hM] at h
  simp only [Res.ok.injEq, true_and] at h
  rw [← h]
  split
  · refine ⟨?_, ?_⟩
    · show _ ≤ List.length (_ ++ _)
      rw [List.length_append, hlen]
      exact (Nat.le_of_eq hinv.length.symm).trans (Nat.le_add_right _ _)
    · intro a c1 hc1
      change ((GC.sweepCells (GC.sweepOrder gM.bank_) (gM.cells, gM.freeList_)).1
        ++ GC.bankCells none)[a]? = some c1 at hc1
      rcases Nat.lt_or_ge a
        (GC.sweepCells (GC.sweepOrder gM.bank_) (gM.cells, gM.freeList_)).1.length with hlt | hge
      · rw [List.getElem?_append_left hlt] at hc1
        exact Or.inl (hold a c1 hc1)
      · rw [List.getElem?_append_right hge] at hc1
        right
        have hmem := List.getElem?_mem hc1
        simp only [GC.bankCells, List.mem_append, List.mem_replicate, List.mem_singleton]
          at hmem
        rcases hmem with ⟨-, rfl⟩ | rfl <;> rfl
  · refine ⟨?_, ?_⟩
    · show _ ≤ List.length _
      rw [hlen, hinv.length]
    · intro a c1 hc1
      exact Or.inl (hold a c1 hc1)

/-- A collection that starts with no cell marked leaves every reachable cell
`Used`, whatever its status was, with its kind and its two words as they
were. -/
theorem GC.Run_marks_used (g g1 : GC) (hm : g.NoMarked) (hl : g.Layout)
    (h : GC.Run g = .ok () g1) (a : Nat) (hr : GC.Reaches g a) :
    ∃ c, g.cells[a]? = some c ∧ g1.cells[a]? = some { c with status := .Used } := by
  obtain ⟨gM, hM⟩ := GC.Run_ok_Mark g g1 h
  obtain ⟨S, hinv, -, -, -, hbank, -, hnum⟩ := GC.Mark_spec g gM hm hM
  have hlM : gM.Layout :=
    ⟨by rw [hbank, hnum]; exact hl.1, by rw [hinv.length, hnum]; exact hl.2⟩
  obtain ⟨cM, hcM, hsM⟩ := (hinv.marked a).1 ((hinv.complete a).2 hr)
  obtain ⟨c, hc, hor⟩ := GC.Mark_status g gM hM a cM hcM
  have hcm : c.status ≠ .Marked := hm c (List.mem_iff_getElem?.2 ⟨a, hc⟩)
  have hcMeq : cM = { c with status := .Marked } := by
    rcases hor with h1 | h1
    · rw [h1] at hsM
      exact absurd hsM hcm
    · exact h1
  have hsw := GC.sweepCells_marked_used a cM (GC.sweepOrder gM.bank_) (gM.cells, gM.freeList_)
    hlM.disjoint (hlM.covers a (GC.getElem?_lt hcM)) hcM hsM
  rw [hcMeq] at hsw
  refine ⟨c, hc, ?_⟩
  rw [GC.Run_of_Mark g gM hM] at h
  simp only [Res.ok.injEq, true_and] at h
  rw [← h]
  split
  · show (_ ++ _)[a]? = _
    rw [List.getElem?_append_left (GC.getElem?_lt hsw)]
    exact hsw
  · exact hsw

theorem Store.applyAll_one_inv (op : Store.Op) (st st1 : Store)
    (h : Store.applyAll [op] st = .ok () st1) : op.apply st = .ok () st1 := by
  simp only [Store.applyAll] at h
  cases hop : op.apply st with
  | ok u st2 =>
    rw [hop] at h
    simp only [Res.ok.injEq, true_and] at h
    rw [h]
  | thrown e st2 =>
    rw [hop] at h
    cases h
  | fault f =>
    rw [hop] at h
    cases h

/-- `Symbol::ForName` with a name the table holds changes nothing of the
collector but the handle it makes. -/
theorem Store.ForName_held_gc (st : Store) (location : Nat) (name : String) (e : String × Nat)
    (h : st.symbols_.find? (fun e => e.1 == name) = some e) :
    ∃ st1, Store.ForName location name st = .ok () st1 ∧
      st1.gc.data_ = (location, some e.2) :: st.gc.data_ ∧
      st1.gc.roots_ =
        (if location ∈ st.gc.roots_ then st.gc.roots_ else st.gc.roots_ ++ [location]) ∧
      st1.gc.cells = st.gc.cells ∧ st1.gc.bank_ = st.gc.bank_ ∧
      st1.gc.numBanks_ = st.gc.numBanks_ := by
  unfold Store.ForName
  simp only [M.bind_apply]
  unfold Store.GetCellForName
  simp only [h]
  unfold Store.lift GC.newHandle GC.AddRoot
  simp only [M.bind_apply]
  exact ⟨_, rfl, rfl, rfl, rfl, rfl, rfl⟩

theorem Store.Sample.dropped_kinds :
    Store.Sample.dropped.gc.closedCheck = true ∧
    ∀ c ∈ Store.Sample.dropped.gc.cells, c.kind ≠ .Cons ∧ c.kind ≠ .Closure := by
  decide!

theorem GC.deref_cons_ne (data_ : List (Nat × Option Nat)) (location l : Nat)
    (p : Option Nat) (h : location ≠ l) :
    GC.deref ((location, p) :: data_) l = GC.deref data_ l := by
  unfold GC.deref
  rw [List.find?_cons_of_neg]
  simpa using h

/-- C31 as stated fails: the state after static initialisation, the symbol
`x` made, its handle destroyed, a collection, and `Symbol::ForName` with `x`
again has no cell marked, and its cell 31 is `Free` and reachable from the
root location 32.  `GC::Run` returns and leaves that cell `Used`: a cell that
was `Free` is not `Free` any more. -/
theorem collection_revives_reachable_free_cell :
    ∃ st g1, Store.applyAll Store.Sample.internAgain Store.static = .ok () st ∧
      st.gc.NoMarked ∧ st.gc.Layout ∧
      32 ∈ st.gc.roots_ ∧ GC.deref st.gc.data_ 32 = some (some 31) ∧ GC.Reaches st.gc 31 ∧
      st.gc.cells[31]? = some ⟨.Free, .Symbol, .ptr (some 32), .ones⟩ ∧
      GC.Run st.gc = .ok () g1 ∧
      g1.cells[31]? = some ⟨.Used, .Symbol, .ptr (some 32), .ones⟩ := by
  obtain ⟨st3, hrun, hsym, -, hcell, hroots⟩ := Store.Sample.collected
  have hcol : Store.applyAll [.collect] Store.Sample.dropped = .ok () st3 := by
    rw [← Store.applyAll_append [.forName 31 "x", .destroy 31] [.collect] _ _
      Store.Sample.dropped_check.1]
    exact hrun
  have hlift := Store.applyAll_one_inv .collect _ _ hcol
  rw [show Store.Op.collect.apply = Store.lift GC.Run from rfl] at hlift
  obtain ⟨hgc, -⟩ := (Store.lift_ok_iff GC.Run _ _ ()).1 hlift
  obtain ⟨hm3, hl3⟩ := GC.Run_valid _ _ Store.Sample.dropped_valid.1
    Store.Sample.dropped_valid.2 hgc
  obtain ⟨S, -, -, -, hdata3, -⟩ := GC.Run_spec _ _ Store.Sample.dropped_valid.1
    Store.Sample.dropped_valid.2.disjoint hgc
  obtain ⟨hlen3, hkind3⟩ := GC.Run_kind _ _ Store.Sample.dropped_valid.1 hgc
  have hfind : st3.symbols_.find? (fun e => e.1 == "x") = some ("x", 31) := by
    rw [hsym]
    exact Store.Sample.dropped_check.2.1
  obtain ⟨st4, hnew, hdata4, hroots4, hcells4, hbank4, hnum4⟩ :=
    Store.ForName_held_gc st3 32 "x" _ hfind
  have hm4 : st4.gc.NoMarked := by
    unfold GC.NoMarked
    rw [hcells4]
    exact hm3
  have hl4 : st4.gc.Layout :=
    ⟨by rw [hbank4, hnum4]; exact hl3.1, by rw [hcells4, hnum4]; exact hl3.2⟩
  have hroots5 : st4.gc.roots_ = List.range 31 ++ [32] := by
    rw [hroots4, hroots]
    decide
  have hmem : 32 ∈ st4.gc.roots_ := by
    rw [hroots5]
    decide
  have hderef : GC.deref st4.gc.data_ 32 = some (some 31) := by
    rw [hdata4]
    simp [GC.deref]
  have hcell4 : st4.gc.cells[31]? = some ⟨.Free, .Symbol, .ptr (some 32), .ones⟩ := by
    rw [hcells4]
    exact hcell
  have hclosed : st4.gc.Closed := by
    refine ⟨?_, ?_⟩
    · intro l hl
      rw [hroots5] at hl
      rcases List.mem_append.1 hl with hl | hl
      · obtain ⟨a, ha, halt⟩ := (GC.Closed.of_closedCheck Store.Sample.dropped_kinds.1).roots l
          (by rw [Store.Sample.dropped_check.2.2.2.1]; exact hl)
        refine ⟨a, ?_, ?_⟩
        · rw [hdata4, hdata3, GC.deref_cons_ne _ _ _ _
            (Nat.ne_of_gt (Nat.lt_trans (List.mem_range.1 hl) (by decide)))]
          exact ha
        · rw [hcells4]
          exact Nat.lt_of_lt_of_le halt hlen3
      · simp only [List.mem_singleton] at hl
        subst hl
        exact ⟨31, hderef, GC.getElem?_lt hcell4⟩
    · intro a c _ hc hk
      exfalso
      rw [hcells4] at hc
      rcases hkind3 a c hc with ⟨c0, hc0, hk0⟩ | hun
      · have hno := Store.Sample.dropped_kinds.2 c0 (List.getElem?_mem hc0)
        rw [hk0] at hno
        rcases hk with h | h
        · exact hno.1 h
        · exact hno.2 h
      · rw [hun] at hk
        rcases hk with h | h <;> cases h
  obtain ⟨gM, hM, -⟩ := GC.Mark_returns st4.gc hclosed
  have hrun4 := GC.Run_of_Mark st4.gc gM hM
  have hreach : GC.Reaches st4.gc 31 := GC.Reaches.root 32 31 hmem hderef
  obtain ⟨c, hc, hc1⟩ := GC.Run_marks_used st4.gc _ hm4 hl4 hrun4 31 hreach
  rw [hcell4] at hc
  simp only [Option.some.injEq] at hc
  subst hc
  refine ⟨st4, _, ?_, hm4, hl4, hmem, hderef, hreach, hcell4, hrun4, hc1⟩
  exact (Store.applyAll_append [.forName 31 "x", .destroy 31, .collect] [.forName 32 "x"] _ _
    hrun).trans (Store.applyAll_one (.forName 32 "x") _ _ hnew)

/-! ## Rounds of the loop on a heap that is known in part -/

theorem Heap.Ext.refl (h : Heap) : Heap.Ext h h := fun _ _ hp => hp

theorem Heap.Ext.trans {h h1 h2 : Heap} (a : Heap.Ext h h1) (b : Heap.Ext h1 h2) :
    Heap.Ext h h2 := fun p c hp => b p c (a p c hp)

theorem Heap.ext_alloc {h : Heap} (hwf : h.WF) (c : Cell) : Heap.Ext h (h.alloc c).2 :=
  fun _ _ hp => hwf.get?_alloc_of_get? c hp

theorem Heap.ext_pushContext {h : Heap} (hwf : h.WF) (s e c d : Nat) :
    Heap.Ext h (h.pushContext s e c d) := by
  intro p x hp
  rw [Heap.pushContext_old _ _ _ _ _ (hwf.lt hp)]
  exact hp

theorem Heap.WF.pushContext {h : Heap} (hwf : h.WF) (s e c d : Nat) :
    (h.pushContext s e c d).WF := by
  unfold Heap.pushContext
  apply Heap.WF.alloc
  apply Heap.WF.set
  · apply Heap.WF.alloc
    apply Heap.WF.set
    · exact (hwf.alloc _).alloc _
    · simp only [Heap.size_alloc]
      omega
  · simp only [Heap.size_alloc, Heap.size_set]
    omega

theorem Runtime.Leads.andThen {n m : Nat} {rt rt1 rt2 : Runtime} (a : Runtime.Leads n rt rt1)
    (b : Runtime.Leads m rt1 rt2) : Runtime.Leads (n + m) rt rt2 :=
  ⟨Nat.add_comm m n ▸ Runtime.reaches_trans a.reaches b.reaches, a.ext.trans b.ext, b.wf,
    b.code.trans a.code, b.envMap.trans a.envMap, b.symbols.trans a.symbols⟩

theorem Runtime.fetch_ne_nil {rt : Runtime} {op rest : Nat}
    (hnil : rt.heap.get? Nil = some (.symbol "nil"))
    (hc : rt.heap.get? rt.c_ = some (.cons op rest)) : rt.c_ ≠ Nil := by
  intro h
  rw [h, hnil] at hc
  cases hc

theorem Runtime.sym_NIL (rt : Runtime) (op rest : Nat) (hwf : rt.heap.WF)
    (hnil : rt.heap.get? Nil = some (.symbol "nil"))
    (hc : rt.heap.get? rt.c_ = some (.cons op rest))
    (hop : rt.heap.get? op = some (.integer Instruction.NIL)) :
    ∃ rt1, Runtime.Leads 1 rt rt1 ∧ rt1.heap.size = rt.heap.size + 1 ∧
      rt1.s_ = rt.heap.size ∧ rt1.e_ = rt.e_ ∧ rt1.c_ = rest ∧ rt1.d_ = rt.d_ ∧
      rt1.heap.get? rt1.s_ = some (.cons Nil rt.s_) :=
  ⟨_, ⟨Runtime.reaches_step (Runtime.fetch_ne_nil hnil hc) (Runtime.step_NIL rt op rest hc hop)
      (Runtime.reaches_zero _), Heap.ext_alloc hwf _, hwf.alloc _, rfl, rfl, rfl⟩,
    rfl, rfl, rfl, rfl, rfl, by simp [Heap.get?_alloc]⟩

theorem Runtime.sym_LDC (rt : Runtime) (op c1 x rest : Nat) (hwf : rt.heap.WF)
    (hnil : rt.heap.get? Nil = some (.symbol "nil"))
    (hc : rt.heap.get? rt.c_ = some (.cons op c1))
    (hop : rt.heap.get? op = some (.integer Instruction.LDC))
    (hx : rt.heap.get? c1 = some (.cons x rest)) :
    ∃ rt1, Runtime.Leads 1 rt rt1 ∧ rt1.heap.size = rt.heap.size + 1 ∧
      rt1.s_ = rt.heap.size ∧ rt1.e_ = rt.e_ ∧ rt1.c_ = rest ∧ rt1.d_ = rt.d_ ∧
      rt1.heap.get? rt1.s_ = some (.cons x rt.s_) :=
  ⟨_, ⟨Runtime.reaches_step (Runtime.fetch_ne_nil hnil hc)
      (Runtime.step_LDC rt op c1 x rest hc hop hx)
      (Runtime.reaches_zero _), Heap.ext_alloc hwf _, hwf.alloc _, rfl, rfl, rfl⟩,
    rfl, rfl, rfl, rfl, rfl, by simp [Heap.get?_alloc]⟩

theorem Runtime.sym_LD (rt : Runtime) (op c1 index rest v : Nat) (hwf : rt.heap.WF)
    (hnil : rt.heap.get? Nil = some (.symbol "nil"))
    (hc : rt.heap.get? rt.c_ = some (.cons op c1))
    (hop : rt.heap.get? op = some (.integer Instruction.LD))
    (hx : rt.heap.get? c1 = some (.cons index rest))
    (hloc : Environment.locate rt.heap rt.e_ index = .ok v) :
    ∃ rt1, Runtime.Leads 1 rt rt1 ∧ rt1.heap.size = rt.heap.size + 1 ∧
      rt1.s_ = rt.heap.size ∧ rt1.e_ = rt.e_ ∧ rt1.c_ = rest ∧ rt1.d_ = rt.d_ ∧
      rt1.heap.get? rt1.s_ = some (.cons v rt.s_) :=
  ⟨_, ⟨Runtime.reaches_step (Runtime.fetch_ne_nil hnil hc)
      (Runtime.step_LD rt op c1 index rest v hc hop hx hloc)
      (Runtime.reaches_zero _), Heap.ext_alloc hwf _, hwf.alloc _, rfl, rfl, rfl⟩,
    rfl, rfl, rfl, rfl, rfl, by simp [Heap.get?_alloc]⟩

theorem Heap.get?_alloc_two (h : Heap) (c d : Cell) :
    ((h.alloc c).2.alloc d).2.get? h.size = some c ∧
    ((h.alloc c).2.alloc d).2.get? (h.size + 1) = some d := by
  have e : ¬ h.size = h.size + 1 := by omega
  simp [Heap.get?_alloc, e]

theorem Runtime.sym_EQ (rt : Runtime) (op rest va vb s1 s0 : Nat) (a b : Int)
    (hwf : rt.heap.WF) (hnil : rt.heap.get? Nil = some (.symbol "nil"))
    (hc : rt.heap.get? rt.c_ = some (.cons op rest))
    (hop : rt.heap.get? op = some (.integer Instruction.EQ))
    (hs : rt.heap.get? rt.s_ = some (.cons va s1))
    (hs1 : rt.heap.get? s1 = some (.cons vb s0))
    (ha : rt.heap.get? va = some (.integer a)) (hb : rt.heap.get? vb = some (.integer b)) :
    ∃ rt1, Runtime.Leads 1 rt rt1 ∧ rt1.heap.size = rt.heap.size + 2 ∧
      rt1.s_ = rt.heap.size + 1 ∧ rt1.e_ = rt.e_ ∧ rt1.c_ = rest ∧ rt1.d_ = rt.d_ ∧
      rt1.heap.get? rt.heap.size = some (.integer (if a = b then 1 else 0)) ∧
      rt1.heap.get? rt1.s_ = some (.cons rt.heap.size s0) :=
  ⟨_, ⟨Runtime.reaches_step (Runtime.fetch_ne_nil hnil hc)
      (Runtime.step_EQ rt op rest va vb s1 s0 a b hc hop hs hs1 ha hb)
      (Runtime.reaches_zero _), (Heap.ext_alloc hwf _).trans (Heap.ext_alloc (hwf.alloc _) _),
      (hwf.alloc _).alloc _, rfl, rfl, rfl⟩,
    rfl, rfl, rfl, rfl, rfl, (Heap.get?_alloc_two _ _ _).1, (Heap.get?_alloc_two _ _ _).2⟩

theorem Runtime.sym_binary (bop : BinaryPrimitive) (rt : Runtime) (op rest va vb s1 s0 : Nat)
    (a b : Int) (hwf : rt.heap.WF) (hnil : rt.heap.get? Nil = some (.symbol "nil"))
    (hc : rt.heap.get? rt.c_ = some (.cons op rest))
    (hop : rt.heap.get? op = some (.integer bop.opcode))
    (hs : rt.heap.get? rt.s_ = some (.cons va s1))
    (hs1 : rt.heap.get? s1 = some (.cons vb s0))
    (ha : rt.heap.get? va = some (.integer a)) (hb : rt.heap.get? vb = some (.integer b))
    (hlo : -(2 ^ 63) ≤ bop.specified a b) (hhi : bop.specified a b < 2 ^ 63)
    (hdiv : bop = .div → b ≠ 0) :
    ∃ rt1, Runtime.Leads 1 rt rt1 ∧ rt1.heap.size = rt.heap.size + 2 ∧
      rt1.s_ = rt.heap.size + 1 ∧ rt1.e_ = rt.e_ ∧ rt1.c_ = rest ∧ rt1.d_ = rt.d_ ∧
      rt1.heap.get? rt.heap.size = some (.integer (bop.specified a b)) ∧
      rt1.heap.get? rt1.s_ = some (.cons rt.heap.size s0) :=
  ⟨_, ⟨Runtime.reaches_step (Runtime.fetch_ne_nil hnil hc)
      (Runtime.step_binary bop rt op rest va vb s1 s0 a b hc hop hs hs1 ha hb hlo hhi hdiv)
      (Runtime.reaches_zero _), (Heap.ext_alloc hwf _).trans (Heap.ext_alloc (hwf.alloc _) _),
      (hwf.alloc _).alloc _, rfl, rfl, rfl⟩,
    rfl, rfl, rfl, rfl, rfl, (Heap.get?_alloc_two _ _ _).1, (Heap.get?_alloc_two _ _ _).2⟩

theorem Runtime.sym_CONS (rt : Runtime) (op rest lhs rhs s1 s0 : Nat)
    (hwf : rt.heap.WF) (hnil : rt.heap.get? Nil = some (.symbol "nil"))
    (hc : rt.heap.get? rt.c_ = some (.cons op rest))
    (hop : rt.heap.get? op = some (.integer Instruction.CONS))
    (hs : rt.heap.get? rt.s_ = some (.cons lhs s1))
    (hs1 : rt.heap.get? s1 = some (.cons rhs s0)) :
    ∃ rt1, Runtime.Leads 1 rt rt1 ∧ rt1.heap.size = rt.heap.size + 2 ∧
      rt1.s_ = rt.heap.size + 1 ∧ rt1.e_ = rt.e_ ∧ rt1.c_ = rest ∧ rt1.d_ = rt.d_ ∧
      rt1.heap.get? rt.heap.size = some (.cons lhs rhs) ∧
      rt1.heap.get? rt1.s_ = some (.cons rt.heap.size s0) :=
  ⟨_, ⟨Runtime.reaches_step (Runtime.fetch_ne_nil hnil hc)
      (Runtime.step_CONS rt op rest lhs rhs s1 s0 hc hop hs hs1)
      (Runtime.reaches_zero _), (Heap.ext_alloc hwf _).trans (Heap.ext_alloc (hwf.alloc _) _),
      (hwf.alloc _).alloc _, rfl, rfl, rfl⟩,
    rfl, rfl, rfl, rfl, rfl, (Heap.get?_alloc_two _ _ _).1, (Heap.get?_alloc_two _ _ _).2⟩

theorem Runtime.sym_LDF (rt : Runtime) (op c1 body rest : Nat)
    (hwf : rt.heap.WF) (hnil : rt.heap.get? Nil = some (.symbol "nil"))
    (hc : rt.heap.get? rt.c_ = some (.cons op c1))
    (hop : rt.heap.get? op = some (.integer Instruction.LDF))
    (hx : rt.heap.get? c1 = some (.cons body rest)) :
    ∃ rt1, Runtime.Leads 1 rt rt1 ∧ rt1.heap.size = rt.heap.size + 2 ∧
      rt1.s_ = rt.heap.size + 1 ∧ rt1.e_ = rt.e_ ∧ rt1.c_ = rest ∧ rt1.d_ = rt.d_ ∧
      rt1.heap.get? rt.heap.size = some (.closure body rt.e_) ∧
      rt1.heap.get? rt1.s_ = some (.cons rt.heap.size rt.s_) :=
  ⟨_, ⟨Runtime.reaches_step (Runtime.fetch_ne_nil hnil hc)
      (Runtime.step_LDF rt op c1 body rest hc hop hx)
      (Runtime.reaches_zero _), (Heap.ext_alloc hwf _).trans (Heap.ext_alloc (hwf.alloc _) _),
      (hwf.alloc _).alloc _, rfl, rfl, rfl⟩,
    rfl, rfl, rfl, rfl, rfl, (Heap.get?_alloc_two _ _ _).1, (Heap.get?_alloc_two _ _ _).2⟩

theorem Runtime.sym_SEL (rt : Runtime) (op c0 cond s0 trueCase c1 falseCase rest : Nat)
    (hwf : rt.heap.WF) (hnil : rt.heap.get? Nil = some (.symbol "nil"))
    (hc : rt.heap.get? rt.c_ = some (.cons op c0))
    (hop : rt.heap.get? op = some (.integer Instruction.SEL))
    (hcond : (rt.heap.get? cond).isSome = true)
    (hs : rt.heap.get? rt.s_ = some (.cons cond s0))
    (hc0 : rt.heap.get? c0 = some (.cons trueCase c1))
    (hc1 : rt.heap.get? c1 = some (.cons falseCase rest))
    (ht : Stack.valid rt.heap trueCase = true) (hf : Stack.valid rt.heap falseCase = true) :
    ∃ rt1, Runtime.Leads 1 rt rt1 ∧ rt1.heap.size = rt.heap.size + 1 ∧
      rt1.s_ = s0 ∧ rt1.e_ = rt.e_ ∧
      rt1.c_ = (if toBoolean rt.heap cond then trueCase else falseCase) ∧
      rt1.d_ = rt.heap.size ∧
      rt1.heap.get? rt1.d_ = some (.cons rest rt.d_) :=
  ⟨_, ⟨Runtime.reaches_step (Runtime.fetch_ne_nil hnil hc)
      (Runtime.step_SEL rt op c0 cond s0 trueCase c1 falseCase rest hc hop hwf hcond hs hc0 hc1
        ht hf)
      (Runtime.reaches_zero _), Heap.ext_alloc hwf _, hwf.alloc _, rfl, rfl, rfl⟩,
    rfl, rfl, rfl, rfl, rfl, by simp [Heap.get?_alloc]⟩

theorem Runtime.sym_JOIN (rt : Runtime) (op c1 c d0 : Nat)
    (hwf : rt.heap.WF) (hnil : rt.heap.get? Nil = some (.symbol "nil"))
    (hc : rt.heap.get? rt.c_ = some (.cons op c1))
    (hop : rt.heap.get? op = some (.integer Instruction.JOIN))
    (hd : rt.heap.get? rt.d_ = some (.cons c d0))
    (hcv : Stack.valid rt.heap c = true) :
    ∃ rt1, Runtime.Leads 1 rt rt1 ∧ rt1.heap.size = rt.heap.size ∧
      rt1.s_ = rt.s_ ∧ rt1.e_ = rt.e_ ∧ rt1.c_ = c ∧ rt1.d_ = d0 :=
  ⟨_, ⟨Runtime.reaches_step (Runtime.fetch_ne_nil hnil hc)
      (Runtime.step_JOIN rt op c1 c d0 hc hop hd hcv)
      (Runtime.reaches_zero _), Heap.Ext.refl _, hwf, rfl, rfl, rfl⟩,
    rfl, rfl, rfl, rfl, rfl⟩

theorem Runtime.sym_POP (rt : Runtime) (op rest v s0 : Nat)
    (hwf : rt.heap.WF) (hnil : rt.heap.get? Nil = some (.symbol "nil"))
    (hc : rt.heap.get? rt.c_ = some (.cons op rest))
    (hop : rt.heap.get? op = some (.integer Instruction.POP))
    (hs : rt.heap.get? rt.s_ = some (.cons v s0)) :
    ∃ rt1, Runtime.Leads 1 rt rt1 ∧ rt1.heap.size = rt.heap.size ∧
      rt1.s_ = s0 ∧ rt1.e_ = rt.e_ ∧ rt1.c_ = rest ∧ rt1.d_ = rt.d_ :=
  ⟨_, ⟨Runtime.reaches_step (Runtime.fetch_ne_nil hnil hc)
      (Runtime.step_POP rt op rest v s0 hc hop hs)
      (Runtime.reaches_zero _), Heap.Ext.refl _, hwf, rfl, rfl, rfl⟩,
    rfl, rfl, rfl, rfl, rfl⟩

theorem Runtime.sym_DUM (rt : Runtime) (op rest : Nat) (hwf : rt.heap.WF)
    (hnil : rt.heap.get? Nil = some (.symbol "nil"))
    (hc : rt.heap.get? rt.c_ = some (.cons op rest))
    (hop : rt.heap.get? op = some (.integer Instruction.DUM)) :
    ∃ rt1, Runtime.Leads 1 rt rt1 ∧ rt1.heap.size = rt.heap.size + 1 ∧
      rt1.s_ = rt.s_ ∧ rt1.e_ = rt.heap.size ∧ rt1.c_ = rest ∧ rt1.d_ = rt.d_ ∧
      rt1.heap.get? rt1.e_ = some (.cons Nil rt.e_) :=
  ⟨_, ⟨Runtime.reaches_step (Runtime.fetch_ne_nil hnil hc) (Runtime.step_DUM rt op rest hc hop)
      (Runtime.reaches_zero _), Heap.ext_alloc hwf _, hwf.alloc _, rfl, rfl, rfl⟩,
    rfl, rfl, rfl, rfl, rfl, by simp [Heap.get?_alloc]⟩

theorem Runtime.sym_AP (rt : Runtime) (op rest k a s1 s0 body env : Nat)
    (hwf : rt.heap.WF) (hnil : rt.heap.get? Nil = some (.symbol "nil"))
    (hc : rt.heap.get? rt.c_ = some (.cons op rest))
    (hop : rt.heap.get? op = some (.integer Instruction.AP))
    (hs : rt.heap.get? rt.s_ = some (.cons k s1))
    (hs1 : rt.heap.get? s1 = some (.cons a s0))
    (hk : rt.heap.get? k = some (.closure body env))
    (hbody : Stack.valid rt.heap body = true) :
    ∃ rt1, Runtime.Leads 1 rt rt1 ∧ rt1.heap.size = rt.heap.size + 5 ∧
      rt1.s_ = Nil ∧ rt1.e_ = rt.heap.size + 4 ∧ rt1.c_ = body ∧ rt1.d_ = rt.heap.size + 3 ∧
      rt1.heap.get? rt.heap.size = some (.cons s0 (rt.heap.size + 1)) ∧
      rt1.heap.get? (rt.heap.size + 1) = some (.cons rt.e_ (rt.heap.size + 2)) ∧
      rt1.heap.get? (rt.heap.size + 2) = some (.cons rest Nil) ∧
      rt1.heap.get? rt1.d_ = some (.cons rt.heap.size rt.d_) ∧
      rt1.heap.get? rt1.e_ = some (.cons a env) := by
  obtain ⟨h0, h1, h2, h3⟩ := Heap.pushContext_cells rt.heap s0 rt.e_ rest rt.d_
  have hwfp := hwf.pushContext s0 rt.e_ rest rt.d_
  refine ⟨_, ⟨Runtime.reaches_step (Runtime.fetch_ne_nil hnil hc)
      (Runtime.step_AP rt op rest k a s1 s0 body env hc hop hs hs1 hk hwf hbody)
      (Runtime.reaches_zero _),
      (Heap.ext_pushContext hwf _ _ _ _).trans (Heap.ext_alloc hwfp _),
      hwfp.alloc _, rfl, rfl, rfl⟩,
    rfl, rfl, rfl, rfl, rfl, hwfp.get?_alloc_of_get? _ h0, hwfp.get?_alloc_of_get? _ h1,
    hwfp.get?_alloc_of_get? _ h2, hwfp.get?_alloc_of_get? _ h3, ?_⟩
  show ((rt.heap.pushContext s0 rt.e_ rest rt.d_).alloc (.cons a env)).2.get?
    (rt.heap.size + 4) = _
  rw [Heap.get?_alloc, if_pos (Heap.pushContext_size _ _ _ _ _).symm]

theorem Runtime.sym_RTN (rt : Runtime) (op rest result s1 ctx d0 s0 ctx1 e0 ctx2 c0 x : Nat)
    (hwf : rt.heap.WF) (hnil : rt.heap.get? Nil = some (.symbol "nil"))
    (hc : rt.heap.get? rt.c_ = some (.cons op rest))
    (hop : rt.heap.get? op = some (.integer Instruction.RTN))
    (hs : rt.heap.get? rt.s_ = some (.cons result s1))
    (hd : rt.heap.get? rt.d_ = some (.cons ctx d0))
    (hctx : rt.heap.get? ctx = some (.cons s0 ctx1))
    (hctx1 : rt.heap.get? ctx1 = some (.cons e0 ctx2))
    (hctx2 : rt.heap.get? ctx2 = some (.cons c0 x))
    (hs0 : Stack.valid rt.heap s0 = true) (he0 : rt.heap.isCons e0 = true)
    (hc0 : Stack.valid rt.heap c0 = true) :
    ∃ rt1, Runtime.Leads 1 rt rt1 ∧ rt1.heap.size = rt.heap.size + 1 ∧
      rt1.s_ = rt.heap.size ∧ rt1.e_ = e0 ∧ rt1.c_ = c0 ∧ rt1.d_ = d0 ∧
      rt1.heap.get? rt1.s_ = some (.cons result s0) :=
  ⟨_, ⟨Runtime.reaches_step (Runtime.fetch_ne_nil hnil hc)
      (Runtime.step_RTN rt op rest result s1 ctx d0 s0 ctx1 e0 ctx2 c0 x hc hop hs hd hctx hctx1
        hctx2 hs0 he0 hc0)
      (Runtime.reaches_zero _), Heap.ext_alloc hwf _, hwf.alloc _, rfl, rfl, rfl⟩,
    rfl, rfl, rfl, rfl, rfl, by simp [Heap.get?_alloc]⟩

theorem Stack.valid_of_cons {h : Heap} {p a d : Nat} (hp : h.get? p = some (.cons a d)) :
    Stack.valid h p = true := by
  simp [Stack.valid, Heap.isCons, hp]

theorem Stack.valid_nil (h : Heap) : Stack.valid h Nil = true := by
  simp [Stack.valid]

theorem Heap.isCons_of_cons {h : Heap} {p a d : Nat} (hp : h.get? p = some (.cons a d)) :
    h.isCons p = true := by
  simp [Heap.isCons, hp]

theorem Stack.valid_ext {h h1 : Heap} (he : Heap.Ext h h1) {p : Nat}
    (hv : Stack.valid h p = true) : Stack.valid h1 p = true := by
  unfold Stack.valid at hv ⊢
  simp only [Bool.or_eq_true, decide_eq_true_eq] at hv ⊢
  rcases hv with hv | hv
  · exact Or.inl hv
  · right
    unfold Heap.isCons at hv ⊢
    split at hv
    · rename_i a d hcell
      rw [he _ _ hcell]
    · cases hv

theorem Heap.isCons_ext {h h1 : Heap} (he : Heap.Ext h h1) {p : Nat}
    (hv : h.isCons p = true) : h1.isCons p = true := by
  unfold Heap.isCons at hv ⊢
  split at hv
  · rename_i a d hcell
    rw [he _ _ hcell]
  · cases hv

/-! ## The factorial by `letrec` -/

theorem Sample.factorial_compiled :
    Compiler.compileSource Sample.factorialSrc ⟨⟨65, []⟩, [], [[]]⟩
      = .ok 66 ⟨Sample.factorialHeap, [], [[]]⟩ := by
  decide!

theorem Sample.factorialHeap_check :
    (∀ b ∈ Sample.factorialCode.drop 3, Sample.factorialHeap.get? b.1 = some b.2) ∧
    (∀ p ∈ List.range 65, Sample.factorialHeap.get? p = none) ∧
    Sample.factorialHeap.wfCheck = true := by
  decide!

theorem Sample.factorial_read (k : Nat) :
    SExpr.read (Sample.factorial k) ⟨(Runtime.new initialHeap []).heap, initialSymbols⟩
      = (Sample.factorialSrc,
          ⟨(⟨65, []⟩ : Heap).over (Sample.factorialCells k),
            initialSymbols ++ [("f", 32), ("n", 34)]⟩) := rfl

/-- The call of the function `f` of `Sample.factorial` up to the branch: `AP`
enters the body with the argument list in front of the environment of the
closure, and `LDC 0`, `LD (0 . 0)`, `EQ`, `SEL` select the arm. -/
theorem Runtime.factorial_enter (k : Int) (rt : Runtime) (op rest clo s1 args s0 env kc ax : Nat)
    (hwf : rt.heap.WF) (hnil : rt.heap.get? Nil = some (.symbol "nil"))
    (hcode : ∀ b ∈ Sample.factorialCode, rt.heap.get? b.1 = some b.2)
    (hc : rt.heap.get? rt.c_ = some (.cons op rest))
    (hop : rt.heap.get? op = some (.integer Instruction.AP))
    (hs : rt.heap.get? rt.s_ = some (.cons clo s1))
    (hs1 : rt.heap.get? s1 = some (.cons args s0))
    (hclo : rt.heap.get? clo = some (.closure 72 env))
    (hargs : rt.heap.get? args = some (.cons kc ax))
    (hkc : rt.heap.get? kc = some (.integer k)) :
    ∃ rt1 d1 ctx ctx1 ctx2, Runtime.Leads 5 rt rt1 ∧ rt1.s_ = Nil ∧
      rt1.c_ = (if k = 0 then 85 else 91) ∧
      rt1.heap.get? rt1.e_ = some (.cons args env) ∧
      rt1.heap.get? rt1.d_ = some (.cons 125 d1) ∧
      rt1.heap.get? d1 = some (.cons ctx rt.d_) ∧
      rt1.heap.get? ctx = some (.cons s0 ctx1) ∧
      rt1.heap.get? ctx1 = some (.cons rt.e_ ctx2) ∧
      rt1.heap.get? ctx2 = some (.cons rest Nil) := by
  -- `AP`
  obtain ⟨r1, l1, -, s1e, -, c1e, -, n10, n11, n12, n1d, n1e⟩ :=
    Runtime.sym_AP rt op rest clo args s1 s0 72 env hwf hnil hc hop hs hs1 hclo
      (Stack.valid_of_cons (hcode (72, Cell.cons 71 73) (by decide)))
  have H1 : ∀ b ∈ Sample.factorialCode, r1.heap.get? b.1 = some b.2 :=
    fun b hb => l1.ext _ _ (hcode b hb)
  -- `LDC 0`
  obtain ⟨r2, l2, -, -, e2, c2e, d2, n2⟩ :=
    Runtime.sym_LDC r1 71 73 36 75 l1.wf (l1.ext _ _ hnil)
      (by rw [c1e]; exact H1 (72, Cell.cons 71 73) (by decide))
      (H1 (71, Cell.integer 1) (by decide)) (H1 (73, Cell.cons 36 75) (by decide))
  have H2 : ∀ b ∈ Sample.factorialCode, r2.heap.get? b.1 = some b.2 :=
    fun b hb => l2.ext _ _ (H1 b hb)
  have x2 := l1.ext.trans l2.ext
  -- `LD (0 . 0)`
  obtain ⟨r3, l3, -, -, e3, c3e, d3, n3⟩ :=
    Runtime.sym_LD r2 74 79 78 81 kc l2.wf (x2 _ _ hnil)
      (by rw [c2e]; exact H2 (75, Cell.cons 74 79) (by decide))
      (H2 (74, Cell.integer 2) (by decide)) (H2 (79, Cell.cons 78 81) (by decide))
      (Environment.locate_0_0 r2.heap r2.e_ 78 76 77 args env kc ax
        (H2 (78, Cell.cons 76 77) (by decide)) (H2 (76, Cell.integer 0) (by decide))
        (H2 (77, Cell.integer 0) (by decide))
        (by rw [e2]; exact l2.ext _ _ n1e) (x2 _ _ hargs))
  have H3 : ∀ b ∈ Sample.factorialCode, r3.heap.get? b.1 = some b.2 :=
    fun b hb => l3.ext _ _ (H2 b hb)
  have x3 := x2.trans l3.ext
  -- `EQ`
  obtain ⟨r4, l4, -, -, e4, c4e, d4, n4v, n4⟩ :=
    Runtime.sym_EQ r3 80 83 kc 36 r2.s_ r1.s_ k 0 l3.wf (x3 _ _ hnil)
      (by rw [c3e]; exact H3 (81, Cell.cons 80 83) (by decide))
      (H3 (80, Cell.integer 104) (by decide)) n3 (l3.ext _ _ n2) (x3 _ _ hkc)
      (H3 (36, Cell.integer 0) (by decide))
  have H4 : ∀ b ∈ Sample.factorialCode, r4.heap.get? b.1 = some b.2 :=
    fun b hb => l4.ext _ _ (H3 b hb)
  have x4 := x3.trans l4.ext
  -- `SEL`
  obtain ⟨r5, l5, -, s5, e5, c5e, -, n5⟩ :=
    Runtime.sym_SEL r4 82 89 r3.heap.size r1.s_ 85 123 91 125 l4.wf (x4 _ _ hnil)
      (by rw [c4e]; exact H4 (83, Cell.cons 82 89) (by decide))
      (H4 (82, Cell.integer 3) (by decide)) (by rw [n4v]; rfl) n4
      (H4 (89, Cell.cons 85 123) (by decide)) (H4 (123, Cell.cons 91 125) (by decide))
      (Stack.valid_of_cons (H4 (85, Cell.cons 84 86) (by decide)))
      (Stack.valid_of_cons (H4 (91, Cell.cons 90 93) (by decide)))
  have x5 := x4.trans l5.ext
  have y5 : Heap.Ext r1.heap r5.heap := ((l2.ext.trans l3.ext).trans l4.ext).trans l5.ext
  have hbool : toBoolean r4.heap r3.heap.size = decide (k = 0) := by
    have hne : r3.heap.size ≠ Nil := by
      intro h
      have := l4.ext _ _ (x3 _ _ hnil)
      rw [← h, n4v] at this
      cases this
    by_cases hk : k = 0
    · rw [decide_eq_true hk, toBoolean_iff]
      refine ⟨hne, ?_⟩
      rw [n4v, if_pos hk]
      simp
    · rw [decide_eq_false hk]
      cases hb : toBoolean r4.heap r3.heap.size with
      | false => rfl
      | true =>
        rw [toBoolean_iff, n4v, if_neg hk] at hb
        exact absurd rfl hb.2
  refine ⟨r5, r1.d_, rt.heap.size, rt.heap.size + 1, rt.heap.size + 2,
    (((l1.andThen l2).andThen l3).andThen l4).andThen l5, ?_, ?_, ?_, ?_, ?_, ?_, ?_, ?_⟩
  · rw [s5, s1e]
  · rw [c5e, hbool]
    by_cases hk : k = 0 <;> simp [hk]
  · rw [e5, e4, e3, e2]
    exact y5 _ _ n1e
  · rw [d4, d3, d2] at n5
    exact n5
  · exact y5 _ _ n1d
  · exact y5 _ _ n10
  · exact y5 _ _ n11
  · exact y5 _ _ n12

/-- The end of a call of `f`: `JOIN` goes back to the `RTN` behind the
branch, which restores the registers of the caller and pushes the result. -/
theorem Runtime.factorial_leave (rt : Runtime)
    (op cx r sx d1 ctx d0 s0 ctx1 e0 ctx2 c0 x : Nat)
    (hwf : rt.heap.WF) (hnil : rt.heap.get? Nil = some (.symbol "nil"))
    (hcode : ∀ b ∈ Sample.factorialCode, rt.heap.get? b.1 = some b.2)
    (hc : rt.heap.get? rt.c_ = some (.cons op cx))
    (hop : rt.heap.get? op = some (.integer Instruction.JOIN))
    (hs : rt.heap.get? rt.s_ = some (.cons r sx))
    (hd : rt.heap.get? rt.d_ = some (.cons 125 d1))
    (hd1 : rt.heap.get? d1 = some (.cons ctx d0))
    (hctx : rt.heap.get? ctx = some (.cons s0 ctx1))
    (hctx1 : rt.heap.get? ctx1 = some (.cons e0 ctx2))
    (hctx2 : rt.heap.get? ctx2 = some (.cons c0 x))
    (hs0 : Stack.valid rt.heap s0 = true) (he0 : rt.heap.isCons e0 = true)
    (hc0 : Stack.valid rt.heap c0 = true) :
    ∃ rt1, Runtime.Leads 2 rt rt1 ∧ rt1.c_ = c0 ∧ rt1.e_ = e0 ∧ rt1.d_ = d0 ∧
      rt1.heap.get? rt1.s_ = some (.cons r s0) := by
  obtain ⟨r1, l1, -, s1e, -, c1e, d1e⟩ :=
    Runtime.sym_JOIN rt op cx 125 d1 hwf hnil hc hop hd
      (Stack.valid_of_cons (hcode (125, Cell.cons 124 29) (by decide)))
  obtain ⟨r2, l2, -, -, e2, c2e, d2e, n2⟩ :=
    Runtime.sym_RTN r1 124 29 r sx ctx d0 s0 ctx1 e0 ctx2 c0 x l1.wf (l1.ext _ _ hnil)
      (by rw [c1e]; exact l1.ext _ _ (hcode (125, Cell.cons 124 29) (by decide)))
      (l1.ext _ _ (hcode (124, Cell.integer 7) (by decide)))
      (by rw [s1e]; exact l1.ext _ _ hs)
      (by rw [d1e]; exact l1.ext _ _ hd1)
      (l1.ext _ _ hctx) (l1.ext _ _ hctx1) (l1.ext _ _ hctx2)
      (Stack.valid_ext l1.ext hs0) (Heap.isCons_ext l1.ext he0) (Stack.valid_ext l1.ext hc0)
  exact ⟨r2, l1.andThen l2, c2e, e2, d2e, n2⟩

/-- A call of the function `f` of `Sample.factorial` with a closure of `f`
whose environment holds the closure itself in its first frame, and with the
argument `k`: after `15 * k + 8` rounds the machine is back behind the `AP`
with the registers of the caller and the Integer `k!` pushed. -/
theorem Runtime.factorial_call (k : Nat) : ∀ (rt : Runtime)
    (op rest clo s1 args s0 env fr par frest kc ax : Nat),
    Nat.factorial k < 2 ^ 63 → rt.heap.WF → rt.heap.get? Nil = some (.symbol "nil") →
    (∀ b ∈ Sample.factorialCode, rt.heap.get? b.1 = some b.2) →
    rt.heap.get? rt.c_ = some (.cons op rest) →
    rt.heap.get? op = some (.integer Instruction.AP) →
    rt.heap.get? rt.s_ = some (.cons clo s1) →
    rt.heap.get? s1 = some (.cons args s0) →
    rt.heap.get? clo = some (.closure 72 env) →
    rt.heap.get? env = some (.cons fr par) →
    rt.heap.get? fr = some (.cons clo frest) →
    rt.heap.get? args = some (.cons kc ax) →
    rt.heap.get? kc = some (.integer k) →
    Stack.valid rt.heap s0 = true → rt.heap.isCons rt.e_ = true →
    Stack.valid rt.heap rest = true →
    ∃ rt1 r, Runtime.Leads (15 * k + 8) rt rt1 ∧ rt1.c_ = rest ∧ rt1.e_ = rt.e_ ∧
      rt1.d_ = rt.d_ ∧ rt1.heap.get? rt1.s_ = some (.cons r s0) ∧
      rt1.heap.get? r = some (.integer (Nat.factorial k)) := by
  induction k with
  | zero =>
    intro rt op rest clo s1 args s0 env fr par frest kc ax _ hwf hnil hcode hc hop hs hs1 hclo
      _ _ hargs hkc hs0 he0 hc0
    obtain ⟨r5, d1, ctx, ctx1, ctx2, l5, s5, c5, -, n5d, n5d1, n5c, n5c1, n5c2⟩ :=
      Runtime.factorial_enter 0 rt op rest clo s1 args s0 env kc ax hwf hnil hcode hc hop hs hs1
        hclo hargs hkc
    rw [if_pos rfl] at c5
    have H5 : ∀ b ∈ Sample.factorialCode, r5.heap.get? b.1 = some b.2 :=
      fun b hb => l5.ext _ _ (hcode b hb)
    -- `LDC 1`
    obtain ⟨r6, l6, -, -, -, c6, d6, n6⟩ :=
      Runtime.sym_LDC r5 84 86 40 88 l5.wf (l5.ext _ _ hnil)
        (by rw [c5]; exact H5 (85, Cell.cons 84 86) (by decide))
        (H5 (84, Cell.integer 1) (by decide)) (H5 (86, Cell.cons 40 88) (by decide))
    have H6 : ∀ b ∈ Sample.factorialCode, r6.heap.get? b.1 = some b.2 :=
      fun b hb => l6.ext _ _ (H5 b hb)
    have x6 := l5.ext.trans l6.ext
    -- `JOIN`, `RTN`
    obtain ⟨r8, l8, c8, e8, d8, n8⟩ :=
      Runtime.factorial_leave r6 87 29 40 r5.s_ d1 ctx rt.d_ s0 ctx1 rt.e_ ctx2 rest Nil l6.wf
        (x6 _ _ hnil) H6
        (by rw [c6]; exact H6 (88, Cell.cons 87 29) (by decide))
        (H6 (87, Cell.integer 4) (by decide)) n6
        (by rw [d6]; exact l6.ext _ _ n5d) (l6.ext _ _ n5d1) (l6.ext _ _ n5c)
        (l6.ext _ _ n5c1) (l6.ext _ _ n5c2)
        (Stack.valid_ext x6 hs0) (Heap.isCons_ext x6 he0) (Stack.valid_ext x6 hc0)
    exact ⟨r8, 40, (l5.andThen l6).andThen l8, c8, e8, d8, n8,
      l8.ext _ _ (H6 (40, Cell.integer 1) (by decide))⟩
  | succ k ih =>
    intro rt op rest clo s1 args s0 env fr par frest kc ax hk hwf hnil hcode hc hop hs hs1 hclo
      henv hfr hargs hkc hs0 he0 hc0
    have hfact : Nat.factorial (k + 1) = (k + 1) * Nat.factorial k := Nat.factorial_succ k
    have hpos : 0 < Nat.factorial k := Nat.factorial_pos k
    have hkf : Nat.factorial k < 2 ^ 63 :=
      Nat.lt_of_le_of_lt (Nat.le_mul_of_pos_left _ (Nat.succ_pos k)) (hfact ▸ hk)
    have hk1 : k + 1 < 2 ^ 63 :=
      Nat.lt_of_le_of_lt (Nat.le_mul_of_pos_right _ hpos) (hfact ▸ hk)
    obtain ⟨r5, d1, ctx, ctx1, ctx2, l5, s5, c5, n5e, n5d, n5d1, n5c, n5c1, n5c2⟩ :=
      Runtime.factorial_enter ((k + 1 : Nat) : Int) rt op rest clo s1 args s0 env kc ax hwf hnil
        hcode hc hop hs hs1 hclo hargs hkc
    rw [if_neg (by omega)] at c5
    have H5 : ∀ b ∈ Sample.factorialCode, r5.heap.get? b.1 = some b.2 :=
      fun b hb => l5.ext _ _ (hcode b hb)
    -- `NIL`
    obtain ⟨r6, l6, -, -, e6, c6, d6, n6⟩ :=
      Runtime.sym_NIL r5 90 93 l5.wf (l5.ext _ _ hnil)
        (by rw [c5]; exact H5 (91, Cell.cons 90 93) (by decide))
        (H5 (90, Cell.integer 0) (by decide))
    have H6 : ∀ b ∈ Sample.factorialCode, r6.heap.get? b.1 = some b.2 :=
      fun b hb => l6.ext _ _ (H5 b hb)
    have x6 := l5.ext.trans l6.ext
    -- `LDC 1`
    obtain ⟨r7, l7, -, -, e7, c7, d7, n7⟩ :=
      Runtime.sym_LDC r6 92 94 41 96 l6.wf (x6 _ _ hnil)
        (by rw [c6]; exact H6 (93, Cell.cons 92 94) (by decide))
        (H6 (92, Cell.integer 1) (by decide)) (H6 (94, Cell.cons 41 96) (by decide))
    have H7 : ∀ b ∈ Sample.factorialCode, r7.heap.get? b.1 = some b.2 :=
      fun b hb => l7.ext _ _ (H6 b hb)
    have x7 := x6.trans l7.ext
    have y7 := l6.ext.trans l7.ext
    have E7 : r7.heap.get? r7.e_ = some (.cons args env) := by
      rw [e7, e6]
      exact y7 _ _ n5e
    -- `LD (0 . 0)`
    obtain ⟨r8, l8, -, -, e8, c8, d8, n8⟩ :=
      Runtime.sym_LD r7 95 100 99 102 kc l7.wf (x7 _ _ hnil)
        (by rw [c7]; exact H7 (96, Cell.cons 95 100) (by decide))
        (H7 (95, Cell.integer 2) (by decide)) (H7 (100, Cell.cons 99 102) (by decide))
        (Environment.locate_0_0 r7.heap r7.e_ 99 97 98 args env kc ax
          (H7 (99, Cell.cons 97 98) (by decide)) (H7 (97, Cell.integer 0) (by decide))
          (H7 (98, Cell.integer 0) (by decide)) E7 (x7 _ _ hargs))
    have H8 : ∀ b ∈ Sample.factorialCode, r8.heap.get? b.1 = some b.2 :=
      fun b hb => l8.ext _ _ (H7 b hb)
    have x8 := x7.trans l8.ext
    have y8 := y7.trans l8.ext
    -- `SUB`
    obtain ⟨r9, l9, -, -, e9, c9, d9, n9v, n9⟩ :=
      Runtime.sym_binary .sub r8 101 104 kc 41 r7.s_ r6.s_ ((k + 1 : Nat) : Int) 1 l8.wf
        (x8 _ _ hnil)
        (by rw [c8]; exact H8 (102, Cell.cons 101 104) (by decide))
        (H8 (101, Cell.integer 101) (by decide)) n8 (l8.ext _ _ n7) (x8 _ _ hkc)
        (H8 (41, Cell.integer 1) (by decide))
        (by simp only [BinaryPrimitive.specified]; omega)
        (by simp only [BinaryPrimitive.specified]; omega)
        (fun h => by cases h)
    have hsub : BinaryPrimitive.specified .sub ((k + 1 : Nat) : Int) 1 = (k : Int) := by
      simp only [BinaryPrimitive.specified]
      omega
    rw [hsub] at n9v
    have H9 : ∀ b ∈ Sample.factorialCode, r9.heap.get? b.1 = some b.2 :=
      fun b hb => l9.ext _ _ (H8 b hb)
    have x9 := x8.trans l9.ext
    have y9 := y8.trans l9.ext
    -- `CONS`
    obtain ⟨r10, l10, -, -, e10, c10, d10, n10v, n10⟩ :=
      Runtime.sym_CONS r9 103 106 r8.heap.size Nil r6.s_ r5.s_ l9.wf (x9 _ _ hnil)
        (by rw [c9]; exact H9 (104, Cell.cons 103 106) (by decide))
        (H9 (103, Cell.integer 90) (by decide)) n9
        (l9.ext _ _ (l8.ext _ _ (l7.ext _ _ n6)))
    have H10 : ∀ b ∈ Sample.factorialCode, r10.heap.get? b.1 = some b.2 :=
      fun b hb => l10.ext _ _ (H9 b hb)
    have x10 := x9.trans l10.ext
    have y10 := y9.trans l10.ext
    have E10 : r10.heap.get? r10.e_ = some (.cons args env) := by
      rw [e10, e9, e8]
      exact l10.ext _ _ (l9.ext _ _ (l8.ext _ _ E7))
    -- `LD (1 . 0)`
    obtain ⟨r11, l11, -, -, e11, c11, d11, n11⟩ :=
      Runtime.sym_LD r10 105 110 109 112 clo l10.wf (x10 _ _ hnil)
        (by rw [c10]; exact H10 (106, Cell.cons 105 110) (by decide))
        (H10 (105, Cell.integer 2) (by decide)) (H10 (110, Cell.cons 109 112) (by decide))
        (Environment.locate_1_0 r10.heap r10.e_ 109 107 108 args env fr par clo frest
          (H10 (109, Cell.cons 107 108) (by decide)) (H10 (107, Cell.integer 1) (by decide))
          (H10 (108, Cell.integer 0) (by decide)) E10 (x10 _ _ henv) (x10 _ _ hfr))
    have H11 : ∀ b ∈ Sample.factorialCode, r11.heap.get? b.1 = some b.2 :=
      fun b hb => l11.ext _ _ (H10 b hb)
    have x11 := x10.trans l11.ext
    have y11 := y10.trans l11.ext
    have E11 : r11.heap.get? r11.e_ = some (.cons args env) := by
      rw [e11]
      exact l11.ext _ _ E10
    -- the recursive call
    obtain ⟨r12, res, l12, c12, e12, d12, n12, n12v⟩ :=
      ih r11 111 114 clo r10.s_ r9.heap.size r5.s_ env fr par frest
        r8.heap.size Nil hkf l11.wf (x11 _ _ hnil) H11
        (by rw [c11]; exact H11 (112, Cell.cons 111 114) (by decide))
        (H11 (111, Cell.integer 6) (by decide)) n11 (l11.ext _ _ n10)
        (x11 _ _ hclo) (x11 _ _ henv) (x11 _ _ hfr)
        (l11.ext _ _ n10v) (l11.ext _ _ (l10.ext _ _ n9v))
        (by rw [s5]; exact Stack.valid_nil _) (Heap.isCons_of_cons E11)
        (Stack.valid_of_cons (H11 (114, Cell.cons 113 118) (by decide)))
    have H12 : ∀ b ∈ Sample.factorialCode, r12.heap.get? b.1 = some b.2 :=
      fun b hb => l12.ext _ _ (H11 b hb)
    have x12 := x11.trans l12.ext
    have y12 := y11.trans l12.ext
    have E12 : r12.heap.get? r12.e_ = some (.cons args env) := by
      rw [e12]
      exact l12.ext _ _ E11
    -- `LD (0 . 0)`
    obtain ⟨r13, l13, -, -, e13, c13, d13, n13⟩ :=
      Runtime.sym_LD r12 113 118 117 120 kc l12.wf (x12 _ _ hnil)
        (by rw [c12]; exact H12 (114, Cell.cons 113 118) (by decide))
        (H12 (113, Cell.integer 2) (by decide)) (H12 (118, Cell.cons 117 120) (by decide))
        (Environment.locate_0_0 r12.heap r12.e_ 117 115 116 args env kc ax
          (H12 (117, Cell.cons 115 116) (by decide)) (H12 (115, Cell.integer 0) (by decide))
          (H12 (116, Cell.integer 0) (by decide)) E12 (x12 _ _ hargs))
    have H13 : ∀ b ∈ Sample.factorialCode, r13.heap.get? b.1 = some b.2 :=
      fun b hb => l13.ext _ _ (H12 b hb)
    have x13 := x12.trans l13.ext
    have y13 := y12.trans l13.ext
    -- `MUL`
    have hmul : BinaryPrimitive.specified .mul ((k + 1 : Nat) : Int) (Nat.factorial k)
        = (Nat.factorial (k + 1) : Int) := by
      simp only [BinaryPrimitive.specified]
      rw [hfact]
      push_cast
      rfl
    obtain ⟨r14, l14, -, -, e14, c14, d14, n14v, n14⟩ :=
      Runtime.sym_binary .mul r13 119 122 kc res r12.s_ r5.s_ ((k + 1 : Nat) : Int)
        (Nat.factorial k) l13.wf (x13 _ _ hnil)
        (by rw [c13]; exact H13 (120, Cell.cons 119 122) (by decide))
        (H13 (119, Cell.integer 102) (by decide)) n13 (l13.ext _ _ n12) (x13 _ _ hkc)
        (l13.ext _ _ n12v)
        (by rw [hmul]; have : (0 : Int) ≤ (Nat.factorial (k + 1) : Int) := Int.ofNat_nonneg _
            omega)
        (by rw [hmul]; exact_mod_cast hk)
        (fun h => by cases h)
    rw [hmul] at n14v
    have H14 : ∀ b ∈ Sample.factorialCode, r14.heap.get? b.1 = some b.2 :=
      fun b hb => l14.ext _ _ (H13 b hb)
    have x14 := x13.trans l14.ext
    have y14 := y13.trans l14.ext
    -- `JOIN`, `RTN`
    obtain ⟨r16, l16, c16, e16, d16, n16⟩ :=
      Runtime.factorial_leave r14 121 29 r13.heap.size r5.s_ d1 ctx rt.d_ s0 ctx1 rt.e_ ctx2 rest
        Nil l14.wf (x14 _ _ hnil) H14
        (by rw [c14]; exact H14 (122, Cell.cons 121 29) (by decide))
        (H14 (121, Cell.integer 4) (by decide)) n14
        (by rw [d14, d13, d12, d11, d10, d9, d8, d7, d6]; exact y14 _ _ n5d)
        (y14 _ _ n5d1) (y14 _ _ n5c) (y14 _ _ n5c1) (y14 _ _ n5c2)
        (Stack.valid_ext x14 hs0) (Heap.isCons_ext x14 he0) (Stack.valid_ext x14 hc0)
    refine ⟨r16, r13.heap.size, ?_, c16, e16, d16, n16, l16.ext _ _ n14v⟩
    have hl := ((((((((((l5.andThen l6).andThen l7).andThen l8).andThen l9).andThen
      l10).andThen l11).andThen l12).andThen l13).andThen l14).andThen l16)
    have hn : 5 + 1 + 1 + 1 + 1 + 1 + 1 + (15 * k + 8) + 1 + 1 + 2 = 15 * (k + 1) + 8 := by
      omega
    rw [hn] at hl
    exact hl

/-- The round of `RAP`: the first frame of the environment of the closure,
which `DUM` left empty, becomes the list of the arguments; every other cell
stays as it is. -/
theorem Runtime.sym_RAP (rt : Runtime) (op rest e0 k a s1 s0 body cenv cd : Nat)
    (hwf : rt.heap.WF) (hnil : rt.heap.get? Nil = some (.symbol "nil"))
    (hc : rt.heap.get? rt.c_ = some (.cons op rest))
    (hop : rt.heap.get? op = some (.integer Instruction.RAP))
    (he : rt.heap.get? rt.e_ = some (.cons Nil e0))
    (hs : rt.heap.get? rt.s_ = some (.cons k s1))
    (hs1 : rt.heap.get? s1 = some (.cons a s0))
    (hk : rt.heap.get? k = some (.closure body cenv))
    (hce : rt.heap.get? cenv = some (.cons Nil cd))
    (hbody : Stack.valid rt.heap body = true) :
    ∃ rt1, Runtime.Reaches 1 rt rt1 ∧ rt1.heap.WF ∧
      (∀ p c, p ≠ cenv → rt.heap.get? p = some c → rt1.heap.get? p = some c) ∧
      rt1.heap.get? cenv = some (.cons a cd) ∧
      rt1.s_ = Nil ∧ rt1.e_ = cenv ∧ rt1.c_ = body ∧
      rt1.heap.get? rt1.d_ = some (.cons rt.heap.size rt.d_) ∧
      rt1.heap.get? rt.heap.size = some (.cons s0 (rt.heap.size + 1)) ∧
      rt1.heap.get? (rt.heap.size + 1) = some (.cons e0 (rt.heap.size + 2)) ∧
      rt1.heap.get? (rt.heap.size + 2) = some (.cons rest Nil) ∧
      rt1.code_ = rt.code_ ∧ rt1.envMap_ = rt.envMap_ ∧ rt1.symbols_ = rt.symbols_ := by
  have hlt : cenv < rt.heap.size := hwf.lt hce
  have hwf1 : (rt.heap.set cenv (.cons a cd)).WF := hwf.set hlt _
  obtain ⟨h0, h1, h2, h3⟩ :=
    Heap.pushContext_cells (rt.heap.set cenv (.cons a cd)) s0 e0 rest rt.d_
  refine ⟨_, Runtime.reaches_step (Runtime.fetch_ne_nil hnil hc)
      (Runtime.step_RAP rt op rest e0 k a s1 s0 body cenv cd hc hop he hs hs1 hk hce hwf hbody)
      (Runtime.reaches_zero _), hwf1.pushContext _ _ _ _, ?_, ?_, rfl, rfl, rfl, h3, h0, h1, h2,
    rfl, rfl, rfl⟩
  · intro p c hp hget
    show ((rt.heap.set cenv (.cons a cd)).pushContext s0 e0 rest rt.d_).get? p = some c
    rw [Heap.pushContext_old _ _ _ _ _ (by simpa using hwf.lt hget), Heap.get?_set, if_neg hp]
    exact hget
  · show ((rt.heap.set cenv (.cons a cd)).pushContext s0 e0 rest rt.d_).get? cenv = _
    rw [Heap.pushContext_old _ _ _ _ _ (by simpa using hlt), Heap.get?_set, if_pos rfl]

/-- The result of `Runtime::run` when the loop, started with the code in `C`,
comes to an empty `C` with one value on `S`. -/
theorem Runtime.run_of_reaches {n code v : Nat} {rt rtF : Runtime} (hc : rt.c_ = Nil)
    (hvalid : Stack.valid rt.heap code = true)
    (hreach : Runtime.Reaches n { rt with c_ := code } rtF) (hcF : rtF.c_ = Nil)
    (hnil : rtF.heap.get? Nil = some (.symbol "nil"))
    (htop : rtF.heap.get? rtF.s_ = some (.cons v Nil)) (fuel : Nat) (hfuel : n ≤ fuel) :
    Runtime.run fuel code rt = .ok v { rtF with s_ := Nil } := by
  have hloop := Runtime.loop_of_reaches hreach hcF fuel hfuel
  have hsne : rtF.s_ ≠ Nil := by
    intro h
    rw [h, hnil] at htop
    cases htop
  unfold Runtime.run
  rw [Runtime.runBody_ok hc hvalid hloop htop hsne]

/-- The program of `Sample.factorial k` run from empty registers `S`, `C`
and `D`: `DUM NIL LDF f CONS LDF body RAP` ties the closure of `f` into its
own environment, the body calls it with `k`, and `RTN` leaves `k!` as the one
value on `S`. -/
theorem Runtime.run_factorial (k : Nat) (rt : Runtime) (g0 g1 : Nat)
    (hk : Nat.factorial k < 2 ^ 63) (hwf : rt.heap.WF)
    (hnil : rt.heap.get? Nil = some (.symbol "nil"))
    (hcode : ∀ b ∈ Sample.factorialCode, rt.heap.get? b.1 = some b.2)
    (h58 : rt.heap.get? 58 = some (.integer k))
    (hc : rt.c_ = Nil) (hs : rt.s_ = Nil) (hd : rt.d_ = Nil)
    (he : rt.heap.get? rt.e_ = some (.cons g0 g1)) :
    ∃ v rtF, (∀ fuel, 15 * k + 19 ≤ fuel → Runtime.run fuel 66 rt = .ok v rtF) ∧
      rtF.heap.get? v = some (.integer (Nat.factorial k)) ∧
      rtF.s_ = Nil ∧ rtF.e_ = rt.e_ ∧ rtF.c_ = Nil ∧ rtF.d_ = Nil := by
  have hA : ∀ b ∈ Sample.factorialCode,
      ({ rt with c_ := 66 } : Runtime).heap.get? b.1 = some b.2 := hcode
  -- `DUM`
  obtain ⟨r1, l1, z1, s1, e1, c1, d1, n1⟩ :=
    Runtime.sym_DUM { rt with c_ := 66 } 65 68 hwf hnil
      (hA (66, Cell.cons 65 68) (by decide)) (hA (65, Cell.integer 8) (by decide))
  have H1 : ∀ b ∈ Sample.factorialCode, r1.heap.get? b.1 = some b.2 :=
    fun b hb => l1.ext _ _ (hA b hb)
  -- `NIL`
  obtain ⟨r2, l2, z2, -, e2, c2, d2, n2⟩ :=
    Runtime.sym_NIL r1 67 70 l1.wf (l1.ext _ _ hnil)
      (by rw [c1]; exact H1 (68, Cell.cons 67 70) (by decide))
      (H1 (67, Cell.integer 0) (by decide))
  have H2 : ∀ b ∈ Sample.factorialCode, r2.heap.get? b.1 = some b.2 :=
    fun b hb => l2.ext _ _ (H1 b hb)
  have x2 := l1.ext.trans l2.ext
  -- `LDF f`
  obtain ⟨r3, l3, z3, -, e3, c3, d3, n3v, n3⟩ :=
    Runtime.sym_LDF r2 69 126 72 128 l2.wf (x2 _ _ hnil)
      (by rw [c2]; exact H2 (70, Cell.cons 69 126) (by decide))
      (H2 (69, Cell.integer 5) (by decide)) (H2 (126, Cell.cons 72 128) (by decide))
  have H3 : ∀ b ∈ Sample.factorialCode, r3.heap.get? b.1 = some b.2 :=
    fun b hb => l3.ext _ _ (H2 b hb)
  have x3 := x2.trans l3.ext
  -- `CONS`
  obtain ⟨r4, l4, z4, -, e4, c4, d4, n4v, n4⟩ :=
    Runtime.sym_CONS r3 127 130 r2.heap.size Nil r2.s_ r1.s_ l3.wf (x3 _ _ hnil)
      (by rw [c3]; exact H3 (128, Cell.cons 127 130) (by decide))
      (H3 (127, Cell.integer 90) (by decide)) n3 (l3.ext _ _ n2)
  have H4 : ∀ b ∈ Sample.factorialCode, r4.heap.get? b.1 = some b.2 :=
    fun b hb => l4.ext _ _ (H3 b hb)
  have x4 := x3.trans l4.ext
  -- `LDF body`
  obtain ⟨r5, l5, z5, -, e5, c5, d5, n5v, n5⟩ :=
    Runtime.sym_LDF r4 129 148 132 150 l4.wf (x4 _ _ hnil)
      (by rw [c4]; exact H4 (130, Cell.cons 129 148) (by decide))
      (H4 (129, Cell.integer 5) (by decide)) (H4 (148, Cell.cons 132 150) (by decide))
  have H5 : ∀ b ∈ Sample.factorialCode, r5.heap.get? b.1 = some b.2 :=
    fun b hb => l5.ext _ _ (H4 b hb)
  have x5 := x4.trans l5.ext
  have y5 : Heap.Ext r1.heap r5.heap := ((l2.ext.trans l3.ext).trans l4.ext).trans l5.ext
  have E5 : r5.e_ = r1.e_ := by rw [e5, e4, e3, e2]
  have E4 : r4.e_ = r1.e_ := by rw [e4, e3, e2]
  -- `RAP`
  obtain ⟨r6, hr6, wf6, keep6, n6e, s6, e6, c6, n6d, n6c0, n6c1, n6c2, -, -, -⟩ :=
    Runtime.sym_RAP r5 149 29 rt.e_ r4.heap.size r3.heap.size r4.s_ r1.s_ 132 r1.e_ rt.e_
      l5.wf (x5 _ _ hnil)
      (by rw [c5]; exact H5 (150, Cell.cons 149 29) (by decide))
      (H5 (149, Cell.integer 9) (by decide))
      (by rw [E5]; exact y5 _ _ n1) n5 (l5.ext _ _ n4)
      (by rw [E4] at n5v; exact n5v) (y5 _ _ n1)
      (Stack.valid_of_cons (H5 (132, Cell.cons 131 134) (by decide)))
  have hE : r1.e_ = rt.heap.size := e1
  have K6 : ∀ p c, rt.heap.get? p = some c → r6.heap.get? p = some c := by
    intro p c hp
    apply keep6 p c _ (x5 _ _ hp)
    have := hwf.lt hp
    omega
  have H6 : ∀ b ∈ Sample.factorialCode, r6.heap.get? b.1 = some b.2 :=
    fun b hb => K6 _ _ (hcode b hb)
  have hz1 : r1.heap.size = rt.heap.size + 1 := z1
  have hclo6 : r6.heap.get? r2.heap.size = some (.closure 72 r1.e_) := by
    apply keep6 _ _ _ (l5.ext _ _ (l4.ext _ _ (by rw [e2] at n3v; exact n3v)))
    omega
  have hfr6 : r6.heap.get? r3.heap.size = some (.cons r2.heap.size Nil) := by
    apply keep6 _ _ _ (l5.ext _ _ n4v)
    omega
  -- `NIL`
  obtain ⟨r7, l7, -, -, e7, c7, d7, n7⟩ :=
    Runtime.sym_NIL r6 131 134 wf6 (K6 _ _ hnil)
      (by rw [c6]; exact H6 (132, Cell.cons 131 134) (by decide))
      (H6 (131, Cell.integer 0) (by decide))
  have H7 : ∀ b ∈ Sample.factorialCode, r7.heap.get? b.1 = some b.2 :=
    fun b hb => l7.ext _ _ (H6 b hb)
  have K7 : ∀ p c, rt.heap.get? p = some c → r7.heap.get? p = some c :=
    fun p c hp => l7.ext _ _ (K6 p c hp)
  -- `LDC k`
  obtain ⟨r8, l8, -, -, e8, c8, d8, n8⟩ :=
    Runtime.sym_LDC r7 133 135 58 137 l7.wf (K7 _ _ hnil)
      (by rw [c7]; exact H7 (134, Cell.cons 133 135) (by decide))
      (H7 (133, Cell.integer 1) (by decide)) (H7 (135, Cell.cons 58 137) (by decide))
  have H8 : ∀ b ∈ Sample.factorialCode, r8.heap.get? b.1 = some b.2 :=
    fun b hb => l8.ext _ _ (H7 b hb)
  have K8 : ∀ p c, rt.heap.get? p = some c → r8.heap.get? p = some c :=
    fun p c hp => l8.ext _ _ (K7 p c hp)
  -- `CONS`
  obtain ⟨r9, l9, -, -, e9, c9, d9, n9v, n9⟩ :=
    Runtime.sym_CONS r8 136 139 58 Nil r7.s_ r6.s_ l8.wf (K8 _ _ hnil)
      (by rw [c8]; exact H8 (137, Cell.cons 136 139) (by decide))
      (H8 (136, Cell.integer 90) (by decide)) n8 (l8.ext _ _ n7)
  have H9 : ∀ b ∈ Sample.factorialCode, r9.heap.get? b.1 = some b.2 :=
    fun b hb => l9.ext _ _ (H8 b hb)
  have K9 : ∀ p c, rt.heap.get? p = some c → r9.heap.get? p = some c :=
    fun p c hp => l9.ext _ _ (K8 p c hp)
  have y9 : Heap.Ext r6.heap r9.heap := (l7.ext.trans l8.ext).trans l9.ext
  have E9 : r9.e_ = r1.e_ := by rw [e9, e8, e7, e6]
  -- `LD (0 . 0)`
  obtain ⟨r10, l10, -, -, e10, c10, d10, n10⟩ :=
    Runtime.sym_LD r9 138 143 142 145 r2.heap.size l9.wf (K9 _ _ hnil)
      (by rw [c9]; exact H9 (139, Cell.cons 138 143) (by decide))
      (H9 (138, Cell.integer 2) (by decide)) (H9 (143, Cell.cons 142 145) (by decide))
      (Environment.locate_0_0 r9.heap r9.e_ 142 140 141 r3.heap.size rt.e_ r2.heap.size Nil
        (H9 (142, Cell.cons 140 141) (by decide)) (H9 (140, Cell.integer 0) (by decide))
        (H9 (141, Cell.integer 0) (by decide))
        (by rw [E9]; exact y9 _ _ n6e) (y9 _ _ hfr6))
  have H10 : ∀ b ∈ Sample.factorialCode, r10.heap.get? b.1 = some b.2 :=
    fun b hb => l10.ext _ _ (H9 b hb)
  have K10 : ∀ p c, rt.heap.get? p = some c → r10.heap.get? p = some c :=
    fun p c hp => l10.ext _ _ (K9 p c hp)
  have y10 : Heap.Ext r6.heap r10.heap := y9.trans l10.ext
  have E10 : r10.e_ = r1.e_ := by rw [e10, E9]
  -- the call
  obtain ⟨r11, res, l11, c11, e11, d11, n11, n11v⟩ :=
    Runtime.factorial_call k r10 144 147 r2.heap.size r9.s_ r8.heap.size r6.s_ r1.e_
      r3.heap.size rt.e_ Nil 58 Nil hk l10.wf (K10 _ _ hnil) H10
      (by rw [c10]; exact H10 (145, Cell.cons 144 147) (by decide))
      (H10 (144, Cell.integer 6) (by decide)) n10 (l10.ext _ _ n9)
      (y10 _ _ hclo6) (y10 _ _ n6e) (y10 _ _ hfr6) (l10.ext _ _ n9v) (K10 _ _ h58)
      (by rw [s6]; exact Stack.valid_nil _)
      (by rw [E10]; exact Heap.isCons_of_cons (y10 _ _ n6e))
      (Stack.valid_of_cons (H10 (147, Cell.cons 146 29) (by decide)))
  have H11 : ∀ b ∈ Sample.factorialCode, r11.heap.get? b.1 = some b.2 :=
    fun b hb => l11.ext _ _ (H10 b hb)
  have K11 : ∀ p c, rt.heap.get? p = some c → r11.heap.get? p = some c :=
    fun p c hp => l11.ext _ _ (K10 p c hp)
  have y11 : Heap.Ext r6.heap r11.heap := y10.trans l11.ext
  have hs1nil : r1.s_ = Nil := s1.trans hs
  -- `RTN`
  obtain ⟨r12, l12, -, -, e12, c12, d12, n12⟩ :=
    Runtime.sym_RTN r11 146 29 res r6.s_ r5.heap.size r5.d_ r1.s_ (r5.heap.size + 1) rt.e_
      (r5.heap.size + 2) 29 Nil l11.wf (K11 _ _ hnil)
      (by rw [c11]; exact H11 (147, Cell.cons 146 29) (by decide))
      (H11 (146, Cell.integer 7) (by decide)) n11
      (by rw [d11, d10, d9, d8, d7]; exact y11 _ _ n6d)
      (y11 _ _ n6c0) (y11 _ _ n6c1) (y11 _ _ n6c2)
      (by rw [hs1nil]; exact Stack.valid_nil _)
      (Heap.isCons_of_cons (K11 _ _ he)) (Stack.valid_nil _)
  have hreach : Runtime.Reaches (15 * k + 19) { rt with c_ := 66 } r12 := by
    have h5 := ((((l1.andThen l2).andThen l3).andThen l4).andThen l5).reaches
    have h6 := Runtime.reaches_trans h5 hr6
    have h10 := Runtime.reaches_trans h6 (((l7.andThen l8).andThen l9).andThen l10).reaches
    have h12 := Runtime.reaches_trans h10 (l11.andThen l12).reaches
    have hn : 15 * k + 8 + 1 + (1 + 1 + 1 + 1 + (1 + (1 + 1 + 1 + 1 + 1))) = 15 * k + 19 := by
      omega
    rw [hn] at h12
    exact h12
  have hd5 : r5.d_ = Nil := by rw [d5, d4, d3, d2, d1]; exact hd
  refine ⟨res, { r12 with s_ := Nil }, ?_, l12.ext _ _ n11v, rfl, e12, c12, ?_⟩
  · intro fuel hfuel
    exact Runtime.run_of_reaches hc
      (Stack.valid_of_cons (hcode (66, Cell.cons 65 68) (by decide))) hreach c12
      (l12.ext _ _ (K11 _ _ hnil)) (by rw [hs1nil] at n12; exact n12) fuel hfuel
  · show r12.d_ = Nil
    rw [d12, hd5]

theorem Runtime.new_registers :
    (Runtime.new initialHeap []).s_ = Nil ∧ (Runtime.new initialHeap []).e_ = 31 ∧
    (Runtime.new initialHeap []).c_ = Nil ∧ (Runtime.new initialHeap []).d_ = Nil ∧
    (Runtime.new initialHeap []).code_ = [] ∧ (Runtime.new initialHeap []).envMap_ = [[]] ∧
    (Runtime.new initialHeap []).symbols_ = initialSymbols := by
  decide!

/-- The three stages of `Runtime.eval`. -/
theorem Runtime.eval_ok (fuel : Nat) (source : SExpr) (rt : Runtime) (src : Src)
    (st : Interner) (code : Nat) (rt1 : Runtime) (v : Nat) (rt2 : Runtime)
    (hread : SExpr.read source ⟨rt.heap, rt.symbols_⟩ = (src, st))
    (hcompile : Runtime.compile src { rt with heap := st.heap, symbols_ := st.symbols_ }
      = .ok code rt1)
    (hrun : Runtime.run fuel code rt1 = .ok v rt2) :
    Runtime.eval fuel source rt = .ok v rt2 := by
  unfold Runtime.eval
  rw [hread]
  simp only [M.bind_apply, hcompile, hrun]

/-- The heap after the text of `Sample.factorial k` is read and compiled. -/
theorem Sample.factorial_loaded (k : Nat) :
    (Sample.factorialHeap.over (Sample.factorialCells k)).WF ∧
    (Sample.factorialHeap.over (Sample.factorialCells k)).get? Nil = some (.symbol "nil") ∧
    (∀ b ∈ Sample.factorialCode,
      (Sample.factorialHeap.over (Sample.factorialCells k)).get? b.1 = some b.2) ∧
    (Sample.factorialHeap.over (Sample.factorialCells k)).get? 58 = some (.integer k) ∧
    (Sample.factorialHeap.over (Sample.factorialCells k)).get? 31 = some (.cons Nil Nil) := by
  obtain ⟨hcells, hnone, hwfc⟩ := Sample.factorialHeap_check
  have hold : ∀ p, p < 65 → (Sample.factorialHeap.over (Sample.factorialCells k)).get? p
      = Heap.lookup p (Sample.factorialCells k) :=
    fun p hp => Heap.get?_over_of_none (hnone p (List.mem_range.2 hp)) _
  refine ⟨?_, ?_, ?_, ?_, ?_⟩
  · apply Heap.WF.of_wfCheck
    unfold Heap.wfCheck at hwfc ⊢
    simp only [Heap.over, List.all_append, hwfc, Bool.true_and]
    rfl
  · exact (hold 29 (by decide)).trans rfl
  · intro b hb
    have hsplit : b ∈ Sample.factorialCode.take 3 ∨ b ∈ Sample.factorialCode.drop 3 := by
      rw [← List.mem_append, List.take_append_drop]
      exact hb
    rcases hsplit with h | h
    · have h3 : b = (36, Cell.integer 0) ∨ b = (40, Cell.integer 1) ∨
          b = (41, Cell.integer 1) := by
        simpa [Sample.factorialCode] using h
      rcases h3 with rfl | rfl | rfl
      · exact (hold 36 (by decide)).trans rfl
      · exact (hold 40 (by decide)).trans rfl
      · exact (hold 41 (by decide)).trans rfl
    · exact Heap.get?_over_of_get? (hcells b h) _
  · exact (hold 58 (by decide)).trans rfl
  · exact (hold 31 (by decide)).trans rfl

/-- C4: for every natural number `k` whose factorial is in the 64-bit range,
the text `(letrec (f) ((lambda (n) (if (eq n 0) 1 (* n (f (- n 1)))))) (f k))`,
read, compiled by a new compiler and run on a new machine, ends normally
within `15 * k + 19` rounds of the loop, and its result is an Integer cell
that holds `k!`. -/
theorem letrec_factorial_returns_factorial (k : Nat) (hk : Nat.factorial k < 2 ^ 63)
    (fuel : Nat) (hfuel : 15 * k + 19 ≤ fuel) :
    ∃ p rt1, Runtime.eval fuel (Sample.factorial k) (Runtime.new initialHeap []) = .ok p rt1 ∧
      rt1.heap.get? p = some (.integer (Nat.factorial k)) := by
  obtain ⟨hwf, hnil, hcode, h58, h31⟩ := Sample.factorial_loaded k
  have hlocal := Compiler.local_compileSource Sample.factorialSrc _ _ _ Sample.factorial_compiled
    (Sample.factorialCells k)
  have hcompile : Runtime.compile Sample.factorialSrc
      { Runtime.new initialHeap [] with
        heap := (⟨65, []⟩ : Heap).over (Sample.factorialCells k),
        symbols_ := initialSymbols ++ [("f", 32), ("n", 34)] }
      = .ok 66 { Runtime.new initialHeap [] with
          heap := Sample.factorialHeap.over (Sample.factorialCells k),
          symbols_ := initialSymbols ++ [("f", 32), ("n", 34)] } := by
    unfold Runtime.compile
    have : (⟨(⟨65, []⟩ : Heap).over (Sample.factorialCells k),
        (Runtime.new initialHeap []).code_, (Runtime.new initialHeap []).envMap_⟩ : Compiler)
        = Compiler.over ⟨⟨65, []⟩, [], [[]]⟩ (Sample.factorialCells k) := rfl
    simp only [this, hlocal]
    rfl
  have he : ({ Runtime.new initialHeap [] with
      heap := Sample.factorialHeap.over (Sample.factorialCells k),
      symbols_ := initialSymbols ++ [("f", 32), ("n", 34)] } : Runtime).e_ = 31 :=
    Runtime.new_registers.2.1
  obtain ⟨v, rtF, hrun, hres, -⟩ := Runtime.run_factorial k
    { Runtime.new initialHeap [] with
      heap := Sample.factorialHeap.over (Sample.factorialCells k),
      symbols_ := initialSymbols ++ [("f", 32), ("n", 34)] }
    Nil Nil hk hwf hnil hcode h58 rfl rfl rfl (by rw [he]; exact h31)
  exact ⟨v, rtF, Runtime.eval_ok fuel _ _ _ _ _ _ _ _ (Sample.factorial_read k) hcompile
    (hrun fuel hfuel), hres⟩

/-- The text with `k = 5`: the factorial of 5 is 120, and the evaluation
returns an Integer cell that holds it. -/
theorem letrec_factorial_returns_factorial_example :
    Nat.factorial 5 < 2 ^ 63 ∧ 15 * 5 + 19 ≤ 1000 ∧ Nat.factorial 5 = 120 ∧
    ∃ p rt1, Runtime.eval 1000 (Sample.factorial 5) (Runtime.new initialHeap []) = .ok p rt1 ∧
      rt1.heap.get? p = some (.integer (Nat.factorial 5)) :=
  ⟨by decide, by decide, by decide,
    letrec_factorial_returns_factorial 5 (by decide) 1000 (by decide)⟩

/-! ## A function defined by `defun` and called -/

/-- The round of `DEFUN` when the first frame of `E` is empty. -/
theorem Runtime.step_DEFUN_empty (rt : Runtime) (op rest v s0 parent : Nat)
    (hc : rt.heap.get? rt.c_ = some (.cons op rest))
    (hop : rt.heap.get? op = some (.integer Instruction.DEFUN))
    (hs : rt.heap.get? rt.s_ = some (.cons v s0))
    (he : rt.heap.get? rt.e_ = some (.cons Nil parent)) (hwf : rt.heap.WF) :
    Runtime.step rt
      = .ok () { rt with
          heap := (((rt.heap.alloc (.cons v Nil)).2.set rt.e_
            (.cons rt.heap.size parent)).alloc (.cons Nil s0)).2,
          s_ := rt.heap.size + 1, c_ := rest } := by
  rw [Runtime.step_fetch rt op rest _ hc hop]
  have helt : rt.e_ < rt.heap.size := hwf.lt he
  have hopc : Runtime.execute Instruction.DEFUN { rt with c_ := rest }
      = (do Environment.append v; Runtime.pushS Nil : RM Unit)
          { rt with s_ := s0, c_ := rest } := by
    simp [Runtime.execute, Instruction.LD, Instruction.NIL, Instruction.LDC, Instruction.SEL,
      Instruction.JOIN, Instruction.LDF, Instruction.AP, Instruction.RTN, Instruction.DUM,
      Instruction.RAP, Instruction.DEFUN, Runtime.popS, hs]
  rw [hopc]
  have happ : Environment.append v { rt with s_ := s0, c_ := rest }
      = .ok () { rt with
          heap := ((rt.heap.alloc (.cons v Nil)).2.set rt.e_ (.cons rt.heap.size parent)),
          s_ := s0, c_ := rest } := by
    simp [Environment.append, Heap.car, he, Heap.setCar, Heap.get?_alloc,
      Nat.ne_of_lt helt]
  simp only [M.bind_apply, happ, Runtime.pushS]
  rfl

/-- The round of `DEFUN` on an empty first frame: the cell `E` gets the new
frame, every other cell stays as it is. -/
theorem Runtime.sym_DEFUN (rt : Runtime) (op rest v s0 parent : Nat)
    (hwf : rt.heap.WF) (hnil : rt.heap.get? Nil = some (.symbol "nil"))
    (hc : rt.heap.get? rt.c_ = some (.cons op rest))
    (hop : rt.heap.get? op = some (.integer Instruction.DEFUN))
    (hs : rt.heap.get? rt.s_ = some (.cons v s0))
    (he : rt.heap.get? rt.e_ = some (.cons Nil parent)) :
    ∃ rt1, Runtime.Reaches 1 rt rt1 ∧ rt1.heap.WF ∧ rt1.heap.size = rt.heap.size + 2 ∧
      (∀ p c, p ≠ rt.e_ → rt.heap.get? p = some c → rt1.heap.get? p = some c) ∧
      rt1.heap.get? rt.e_ = some (.cons rt.heap.size parent) ∧
      rt1.heap.get? rt.heap.size = some (.cons v Nil) ∧
      rt1.heap.get? rt1.s_ = some (.cons Nil s0) ∧
      rt1.e_ = rt.e_ ∧ rt1.c_ = rest ∧ rt1.d_ = rt.d_ ∧
      rt1.code_ = rt.code_ ∧ rt1.envMap_ = rt.envMap_ ∧ rt1.symbols_ = rt.symbols_ := by
  have helt : rt.e_ < rt.heap.size := hwf.lt he
  have hwf1 : ((rt.heap.alloc (.cons v Nil)).2.set rt.e_ (.cons rt.heap.size parent)).WF :=
    (hwf.alloc _).set (by simp only [Heap.size_alloc]; omega) _
  have e1 : ¬ rt.e_ = rt.heap.size := by omega
  have e2 : ¬ rt.e_ = rt.heap.size + 1 := by omega
  have e3 : ¬ rt.heap.size = rt.heap.size + 1 := by omega
  refine ⟨_, Runtime.reaches_step (Runtime.fetch_ne_nil hnil hc)
      (Runtime.step_DEFUN_empty rt op rest v s0 parent hc hop hs he hwf)
      (Runtime.reaches_zero _), hwf1.alloc _, rfl, ?_, ?_, ?_, ?_, rfl, rfl, rfl, rfl, rfl, rfl⟩
  · intro p c hp hget
    have hlt := hwf.lt hget
    have e4 : ¬ p = rt.heap.size := by omega
    have e5 : ¬ p = rt.heap.size + 1 := by omega
    simp [Heap.get?_alloc, Heap.get?_set, Heap.size_alloc, Heap.size_set, hp, e4, e5, hget]
  · simp [Heap.get?_alloc, Heap.get?_set, Heap.size_alloc, Heap.size_set, e2]
  · simp [Heap.get?_alloc, Heap.get?_set, Heap.size_alloc, Heap.size_set, e3, Ne.symm e1]
  · simp [Heap.get?_alloc, Heap.get?_set, Heap.size_alloc, Heap.size_set]

theorem Sample.inc_compiled :
    Compiler.compileSource Sample.incSrc ⟨⟨49, []⟩, [], [[]]⟩
      = .ok 50 ⟨Sample.incHeap, [], [[("inc", 0)]]⟩ ∧
    Compiler.compileSource Sample.incCallSrc ⟨⟨106, []⟩, [], [[("inc", 0)]]⟩
      = .ok 107 ⟨Sample.incCallHeap, [], [[("inc", 0)]]⟩ := by
  decide!

theorem Sample.incHeap_check :
    (∀ b ∈ Sample.incCode.drop 1, Sample.incHeap.get? b.1 = some b.2) ∧
    (∀ p ∈ List.range 49, Sample.incHeap.get? p = none) ∧
    Sample.incHeap.wfCheck = true ∧
    (∀ b ∈ Sample.incCallCode, Sample.incCallHeap.get? b.1 = some b.2) ∧
    (∀ p ∈ List.range 106, Sample.incCallHeap.get? p = none) ∧
    Sample.incCallHeap.wfCheck = true := by
  decide!

theorem Sample.inc_read (n : Int) :
    SExpr.read (Sample.incProgram n) ⟨(Runtime.new initialHeap []).heap, initialSymbols⟩
      = (Sample.incSrc,
          ⟨(⟨49, []⟩ : Heap).over (Sample.incCells n),
            initialSymbols ++ [("inc", 32), ("x", 33)]⟩) := rfl

theorem Sample.incCall_read (m : Int) (cells : List (Nat × Cell)) :
    SExpr.read (Sample.incCall m) ⟨⟨103, cells⟩, initialSymbols ++ [("inc", 32), ("x", 33)]⟩
      = (Sample.incCallSrc,
          ⟨(⟨106, []⟩ : Heap).over (Sample.incCallCells m cells),
            initialSymbols ++ [("inc", 32), ("x", 33)]⟩) := rfl

/-- A call of the function `inc` of `Sample.incProgram` with the argument
`x`: after five rounds the machine is back behind the `AP` with the registers
of the caller and the Integer `x + 1` pushed. -/
theorem Runtime.inc_call (x : Int) (rt : Runtime) (op rest clo s1 args s0 env xc ax : Nat)
    (hlo : -(2 ^ 63) ≤ x + 1) (hhi : x + 1 < 2 ^ 63)
    (hwf : rt.heap.WF) (hnil : rt.heap.get? Nil = some (.symbol "nil"))
    (hcode : ∀ b ∈ Sample.incCode, rt.heap.get? b.1 = some b.2)
    (hc : rt.heap.get? rt.c_ = some (.cons op rest))
    (hop : rt.heap.get? op = some (.integer Instruction.AP))
    (hs : rt.heap.get? rt.s_ = some (.cons clo s1))
    (hs1 : rt.heap.get? s1 = some (.cons args s0))
    (hclo : rt.heap.get? clo = some (.closure 52 env))
    (hargs : rt.heap.get? args = some (.cons xc ax))
    (hxc : rt.heap.get? xc = some (.integer x))
    (hs0 : Stack.valid rt.heap s0 = true) (he0 : rt.heap.isCons rt.e_ = true)
    (hc0 : Stack.valid rt.heap rest = true) :
    ∃ rt1 r, Runtime.Leads 5 rt rt1 ∧ rt1.heap.size = rt.heap.size + 10 ∧ rt1.c_ = rest ∧
      rt1.e_ = rt.e_ ∧ rt1.d_ = rt.d_ ∧ rt1.heap.get? rt1.s_ = some (.cons r s0) ∧
      rt1.heap.get? r = some (.integer (x + 1)) := by
  -- `AP`
  obtain ⟨r1, l1, z1, s1e, -, c1, -, n10, n11, n12, n1d, n1e⟩ :=
    Runtime.sym_AP rt op rest clo args s1 s0 52 env hwf hnil hc hop hs hs1 hclo
      (Stack.valid_of_cons (hcode (52, Cell.cons 51 53) (by decide)))
  have H1 : ∀ b ∈ Sample.incCode, r1.heap.get? b.1 = some b.2 :=
    fun b hb => l1.ext _ _ (hcode b hb)
  -- `LDC 1`
  obtain ⟨r2, l2, z2, -, e2, c2, d2, n2⟩ :=
    Runtime.sym_LDC r1 51 53 35 55 l1.wf (l1.ext _ _ hnil)
      (by rw [c1]; exact H1 (52, Cell.cons 51 53) (by decide))
      (H1 (51, Cell.integer 1) (by decide)) (H1 (53, Cell.cons 35 55) (by decide))
  have H2 : ∀ b ∈ Sample.incCode, r2.heap.get? b.1 = some b.2 :=
    fun b hb => l2.ext _ _ (H1 b hb)
  have x2 := l1.ext.trans l2.ext
  -- `LD (0 . 0)`
  obtain ⟨r3, l3, z3, -, e3, c3, d3, n3⟩ :=
    Runtime.sym_LD r2 54 59 58 61 xc l2.wf (x2 _ _ hnil)
      (by rw [c2]; exact H2 (55, Cell.cons 54 59) (by decide))
      (H2 (54, Cell.integer 2) (by decide)) (H2 (59, Cell.cons 58 61) (by decide))
      (Environment.locate_0_0 r2.heap r2.e_ 58 56 57 args env xc ax
        (H2 (58, Cell.cons 56 57) (by decide)) (H2 (56, Cell.integer 0) (by decide))
        (H2 (57, Cell.integer 0) (by decide))
        (by rw [e2]; exact l2.ext _ _ n1e) (x2 _ _ hargs))
  have H3 : ∀ b ∈ Sample.incCode, r3.heap.get? b.1 = some b.2 :=
    fun b hb => l3.ext _ _ (H2 b hb)
  have x3 := x2.trans l3.ext
  -- `ADD`
  obtain ⟨r4, l4, z4, -, e4, c4, d4, n4v, n4⟩ :=
    Runtime.sym_binary .add r3 60 63 xc 35 r2.s_ r1.s_ x 1 l3.wf (x3 _ _ hnil)
      (by rw [c3]; exact H3 (61, Cell.cons 60 63) (by decide))
      (H3 (60, Cell.integer 100) (by decide)) n3 (l3.ext _ _ n2) (x3 _ _ hxc)
      (H3 (35, Cell.integer 1) (by decide)) hlo hhi (fun h => by cases h)
  have H4 : ∀ b ∈ Sample.incCode, r4.heap.get? b.1 = some b.2 :=
    fun b hb => l4.ext _ _ (H3 b hb)
  have x4 := x3.trans l4.ext
  have y4 : Heap.Ext r1.heap r4.heap := (l2.ext.trans l3.ext).trans l4.ext
  -- `RTN`
  obtain ⟨r5, l5, z5, -, e5, c5, d5, n5⟩ :=
    Runtime.sym_RTN r4 62 29 r3.heap.size r1.s_ rt.heap.size rt.d_ s0 (rt.heap.size + 1) rt.e_
      (rt.heap.size + 2) rest Nil l4.wf (x4 _ _ hnil)
      (by rw [c4]; exact H4 (63, Cell.cons 62 29) (by decide))
      (H4 (62, Cell.integer 7) (by decide)) n4
      (by rw [d4, d3, d2]; exact y4 _ _ n1d)
      (y4 _ _ n10) (y4 _ _ n11) (y4 _ _ n12)
      (Stack.valid_ext x4 hs0) (Heap.isCons_ext x4 he0) (Stack.valid_ext x4 hc0)
  exact ⟨r5, r3.heap.size, (((l1.andThen l2).andThen l3).andThen l4).andThen l5, by omega, c5, e5,
    d5, n5, l5.ext _ _ n4v⟩

/-- The program of `Sample.incProgram n` run from empty registers `S`, `C`
and `D` with an empty global frame: `DEFUN` puts the closure of `inc` into the
global frame, the call returns `n + 1`, and the closure stays where it is. -/
theorem Runtime.run_incProgram (n : Int) (rt : Runtime) (g1 : Nat)
    (hlo : -(2 ^ 63) ≤ n + 1) (hhi : n + 1 < 2 ^ 63) (hwf : rt.heap.WF)
    (hnil : rt.heap.get? Nil = some (.symbol "nil"))
    (hcode : ∀ b ∈ Sample.incCode, rt.heap.get? b.1 = some b.2)
    (h43 : rt.heap.get? 43 = some (.integer n))
    (hc : rt.c_ = Nil) (hs : rt.s_ = Nil) (hd : rt.d_ = Nil) (he : rt.e_ = 31)
    (h31 : rt.heap.get? 31 = some (.cons Nil g1)) :
    ∃ v rtF, (∀ fuel, 12 ≤ fuel → Runtime.run fuel 50 rt = .ok v rtF) ∧
      rtF.heap.get? v = some (.integer (n + 1)) ∧
      rtF.s_ = Nil ∧ rtF.e_ = 31 ∧ rtF.c_ = Nil ∧ rtF.d_ = Nil ∧
      rtF.heap.size = rt.heap.size + 19 ∧ rtF.heap.WF ∧
      rtF.heap.get? Nil = some (.symbol "nil") ∧
      (∀ b ∈ Sample.incCode, rtF.heap.get? b.1 = some b.2) ∧
      rtF.heap.get? 31 = some (.cons (rt.heap.size + 2) g1) ∧
      rtF.heap.get? (rt.heap.size + 2) = some (.cons rt.heap.size Nil) ∧
      rtF.heap.get? rt.heap.size = some (.closure 52 31) ∧
      rtF.code_ = rt.code_ ∧ rtF.envMap_ = rt.envMap_ ∧ rtF.symbols_ = rt.symbols_ := by
  have hA : ∀ b ∈ Sample.incCode, ({ rt with c_ := 50 } : Runtime).heap.get? b.1 = some b.2 :=
    hcode
  have hne : ∀ b ∈ Sample.incCode, b.1 ≠ 31 := by decide
  have h31lt : 31 < rt.heap.size := hwf.lt h31
  -- `LDF inc`
  obtain ⟨r1, l1, z1, -, e1, c1, d1, n1v, n1⟩ :=
    Runtime.sym_LDF { rt with c_ := 50 } 49 64 52 66 hwf hnil
      (hA (50, Cell.cons 49 64) (by decide)) (hA (49, Cell.integer 5) (by decide))
      (hA (64, Cell.cons 52 66) (by decide))
  have H1 : ∀ b ∈ Sample.incCode, r1.heap.get? b.1 = some b.2 :=
    fun b hb => l1.ext _ _ (hA b hb)
  have E1 : r1.e_ = 31 := e1.trans he
  have hz1 : r1.heap.size = rt.heap.size + 2 := z1
  have hclo1 : r1.heap.get? rt.heap.size = some (.closure 52 31) := by
    have := n1v
    rw [show ({ rt with c_ := 50 } : Runtime).e_ = 31 from he] at this
    exact this
  -- `DEFUN`
  obtain ⟨r2, hr2, wf2, z2, keep2, n2e, n2f, n2, e2, c2, d2, k2c, k2e, k2s⟩ :=
    Runtime.sym_DEFUN r1 65 68 rt.heap.size rt.s_ g1 l1.wf (l1.ext _ _ hnil)
      (by rw [c1]; exact H1 (66, Cell.cons 65 68) (by decide))
      (H1 (65, Cell.integer 10) (by decide)) n1
      (by rw [E1]; exact l1.ext _ _ h31)
  rw [E1] at keep2 n2e
  have K2 : ∀ p c, p ≠ 31 → rt.heap.get? p = some c → r2.heap.get? p = some c :=
    fun p c hp hget => keep2 p c hp (l1.ext _ _ hget)
  have H2 : ∀ b ∈ Sample.incCode, r2.heap.get? b.1 = some b.2 :=
    fun b hb => K2 _ _ (hne b hb) (hcode b hb)
  have nil2 : r2.heap.get? Nil = some (.symbol "nil") := K2 _ _ (by decide) hnil
  have hclo2 : r2.heap.get? rt.heap.size = some (.closure 52 31) :=
    keep2 _ _ (by omega) hclo1
  rw [hz1] at n2e n2f
  -- `POP`
  obtain ⟨r3, l3, z3, s3, e3, c3, d3⟩ :=
    Runtime.sym_POP r2 67 70 Nil rt.s_ wf2 nil2
      (by rw [c2]; exact H2 (68, Cell.cons 67 70) (by decide))
      (H2 (67, Cell.integer 11) (by decide)) n2
  have H3 : ∀ b ∈ Sample.incCode, r3.heap.get? b.1 = some b.2 :=
    fun b hb => l3.ext _ _ (H2 b hb)
  -- `NIL`
  obtain ⟨r4, l4, z4, -, e4, c4, d4, n4⟩ :=
    Runtime.sym_NIL r3 69 72 l3.wf (l3.ext _ _ nil2)
      (by rw [c3]; exact H3 (70, Cell.cons 69 72) (by decide))
      (H3 (69, Cell.integer 0) (by decide))
  have H4 : ∀ b ∈ Sample.incCode, r4.heap.get? b.1 = some b.2 :=
    fun b hb => l4.ext _ _ (H3 b hb)
  have x4 := l3.ext.trans l4.ext
  -- `LDC n`
  obtain ⟨r5, l5, z5, -, e5, c5, d5, n5⟩ :=
    Runtime.sym_LDC r4 71 73 43 75 l4.wf (x4 _ _ nil2)
      (by rw [c4]; exact H4 (72, Cell.cons 71 73) (by decide))
      (H4 (71, Cell.integer 1) (by decide)) (H4 (73, Cell.cons 43 75) (by decide))
  have H5 : ∀ b ∈ Sample.incCode, r5.heap.get? b.1 = some b.2 :=
    fun b hb => l5.ext _ _ (H4 b hb)
  have x5 := x4.trans l5.ext
  -- `CONS`
  obtain ⟨r6, l6, z6, -, e6, c6, d6, n6v, n6⟩ :=
    Runtime.sym_CONS r5 74 77 43 Nil r4.s_ r3.s_ l5.wf (x5 _ _ nil2)
      (by rw [c5]; exact H5 (75, Cell.cons 74 77) (by decide))
      (H5 (74, Cell.integer 90) (by decide)) n5 (l5.ext _ _ n4)
  have H6 : ∀ b ∈ Sample.incCode, r6.heap.get? b.1 = some b.2 :=
    fun b hb => l6.ext _ _ (H5 b hb)
  have x6 := x5.trans l6.ext
  have E6 : r6.e_ = 31 := by rw [e6, e5, e4, e3, e2, E1]
  -- `LD (0 . 0)`
  obtain ⟨r7, l7, z7, -, e7, c7, d7, n7⟩ :=
    Runtime.sym_LD r6 76 81 80 83 rt.heap.size l6.wf (x6 _ _ nil2)
      (by rw [c6]; exact H6 (77, Cell.cons 76 81) (by decide))
      (H6 (76, Cell.integer 2) (by decide)) (H6 (81, Cell.cons 80 83) (by decide))
      (Environment.locate_0_0 r6.heap r6.e_ 80 78 79 (rt.heap.size + 2) g1 rt.heap.size Nil
        (H6 (80, Cell.cons 78 79) (by decide)) (H6 (78, Cell.integer 0) (by decide))
        (H6 (79, Cell.integer 0) (by decide))
        (by rw [E6]; exact x6 _ _ n2e) (x6 _ _ n2f))
  have H7 : ∀ b ∈ Sample.incCode, r7.heap.get? b.1 = some b.2 :=
    fun b hb => l7.ext _ _ (H6 b hb)
  have x7 := x6.trans l7.ext
  have E7 : r7.e_ = 31 := e7.trans E6
  have hs3 : r3.s_ = Nil := s3.trans hs
  -- the call
  obtain ⟨r8, res, l8, z8, c8, e8, d8, n8, n8v⟩ :=
    Runtime.inc_call n r7 82 29 rt.heap.size r6.s_ r5.heap.size r3.s_ 31 43 Nil hlo hhi
      l7.wf (x7 _ _ nil2) H7
      (by rw [c7]; exact H7 (83, Cell.cons 82 29) (by decide))
      (H7 (82, Cell.integer 6) (by decide)) n7 (l7.ext _ _ n6) (x7 _ _ hclo2)
      (l7.ext _ _ n6v) (x7 _ _ (K2 _ _ (by decide) h43))
      (by rw [hs3]; exact Stack.valid_nil _)
      (by rw [E7]; exact Heap.isCons_of_cons (x7 _ _ n2e))
      (Stack.valid_nil _)
  have x8 := x7.trans l8.ext
  have hreach : Runtime.Reaches 12 { rt with c_ := 50 } r8 := by
    have h2 := Runtime.reaches_trans l1.reaches hr2
    exact Runtime.reaches_trans h2
      (((((l3.andThen l4).andThen l5).andThen l6).andThen l7).andThen l8).reaches
  have hd8 : r8.d_ = Nil := by
    rw [d8, d7, d6, d5, d4, d3, d2, d1]
    exact hd
  have hcode8 : r8.code_ = rt.code_ := by
    rw [l8.code, l7.code, l6.code, l5.code, l4.code, l3.code, k2c, l1.code]
  have henv8 : r8.envMap_ = rt.envMap_ := by
    rw [l8.envMap, l7.envMap, l6.envMap, l5.envMap, l4.envMap, l3.envMap, k2e, l1.envMap]
  have hsym8 : r8.symbols_ = rt.symbols_ := by
    rw [l8.symbols, l7.symbols, l6.symbols, l5.symbols, l4.symbols, l3.symbols, k2s, l1.symbols]
  refine ⟨res, { r8 with s_ := Nil }, ?_, n8v, rfl, e8.trans E7, c8, hd8, ?_, l8.wf,
    x8 _ _ nil2, fun b hb => l8.ext _ _ (H7 b hb), x8 _ _ n2e, x8 _ _ n2f, x8 _ _ hclo2,
    hcode8, henv8, hsym8⟩
  · intro fuel hfuel
    exact Runtime.run_of_reaches hc
      (Stack.valid_of_cons (hcode (50, Cell.cons 49 64) (by decide))) hreach c8
      (x8 _ _ nil2) (by rw [hs3] at n8; exact n8) fuel hfuel
  · show r8.heap.size = rt.heap.size + 19
    omega

/-- The program of `Sample.incCall m` run from empty registers `S`, `C` and
`D` on a machine whose global frame starts with the closure of `inc`. -/
theorem Runtime.run_incCall (m : Int) (rt : Runtime) (g0 g1 clo frest env : Nat)
    (hlo : -(2 ^ 63) ≤ m + 1) (hhi : m + 1 < 2 ^ 63) (hwf : rt.heap.WF)
    (hnil : rt.heap.get? Nil = some (.symbol "nil"))
    (hbody : ∀ b ∈ Sample.incCode, rt.heap.get? b.1 = some b.2)
    (hcode : ∀ b ∈ Sample.incCallCode, rt.heap.get? b.1 = some b.2)
    (h103 : rt.heap.get? 103 = some (.integer m))
    (hc : rt.c_ = Nil) (hs : rt.s_ = Nil)
    (he : rt.heap.get? rt.e_ = some (.cons g0 g1))
    (hfr : rt.heap.get? g0 = some (.cons clo frest))
    (hclo : rt.heap.get? clo = some (.closure 52 env)) :
    ∃ v rtF, (∀ fuel, 9 ≤ fuel → Runtime.run fuel 107 rt = .ok v rtF) ∧
      rtF.heap.get? v = some (.integer (m + 1)) := by
  have hA : ∀ b ∈ Sample.incCallCode,
      ({ rt with c_ := 107 } : Runtime).heap.get? b.1 = some b.2 := hcode
  -- `NIL`
  obtain ⟨r1, l1, -, -, e1, c1, d1, n1⟩ :=
    Runtime.sym_NIL { rt with c_ := 107 } 106 109 hwf hnil
      (hA (107, Cell.cons 106 109) (by decide)) (hA (106, Cell.integer 0) (by decide))
  have H1 : ∀ b ∈ Sample.incCallCode, r1.heap.get? b.1 = some b.2 :=
    fun b hb => l1.ext _ _ (hA b hb)
  -- `LDC m`
  obtain ⟨r2, l2, -, -, e2, c2, d2, n2⟩ :=
    Runtime.sym_LDC r1 108 110 103 112 l1.wf (l1.ext _ _ hnil)
      (by rw [c1]; exact H1 (109, Cell.cons 108 110) (by decide))
      (H1 (108, Cell.integer 1) (by decide)) (H1 (110, Cell.cons 103 112) (by decide))
  have H2 : ∀ b ∈ Sample.incCallCode, r2.heap.get? b.1 = some b.2 :=
    fun b hb => l2.ext _ _ (H1 b hb)
  have x2 := l1.ext.trans l2.ext
  -- `CONS`
  obtain ⟨r3, l3, -, -, e3, c3, d3, n3v, n3⟩ :=
    Runtime.sym_CONS r2 111 114 103 Nil r1.s_ rt.s_ l2.wf (x2 _ _ hnil)
      (by rw [c2]; exact H2 (112, Cell.cons 111 114) (by decide))
      (H2 (111, Cell.integer 90) (by decide)) n2 (l2.ext _ _ n1)
  have H3 : ∀ b ∈ Sample.incCallCode, r3.heap.get? b.1 = some b.2 :=
    fun b hb => l3.ext _ _ (H2 b hb)
  have x3 := x2.trans l3.ext
  have E3 : r3.e_ = rt.e_ := by rw [e3, e2, e1]
  -- `LD (0 . 0)`
  obtain ⟨r4, l4, -, -, e4, c4, d4, n4⟩ :=
    Runtime.sym_LD r3 113 118 117 120 clo l3.wf (x3 _ _ hnil)
      (by rw [c3]; exact H3 (114, Cell.cons 113 118) (by decide))
      (H3 (113, Cell.integer 2) (by decide)) (H3 (118, Cell.cons 117 120) (by decide))
      (Environment.locate_0_0 r3.heap r3.e_ 117 115 116 g0 g1 clo frest
        (H3 (117, Cell.cons 115 116) (by decide)) (H3 (115, Cell.integer 0) (by decide))
        (H3 (116, Cell.integer 0) (by decide))
        (by rw [E3]; exact x3 _ _ he) (x3 _ _ hfr))
  have H4 : ∀ b ∈ Sample.incCallCode, r4.heap.get? b.1 = some b.2 :=
    fun b hb => l4.ext _ _ (H3 b hb)
  have x4 := x3.trans l4.ext
  -- the call
  obtain ⟨r5, res, l5, -, c5, e5, d5, n5, n5v⟩ :=
    Runtime.inc_call m r4 119 29 clo r3.s_ r2.heap.size rt.s_ env 103 Nil hlo hhi
      l4.wf (x4 _ _ hnil) (fun b hb => x4 _ _ (hbody b hb))
      (by rw [c4]; exact H4 (120, Cell.cons 119 29) (by decide))
      (H4 (119, Cell.integer 6) (by decide)) n4 (l4.ext _ _ n3) (x4 _ _ hclo)
      (l4.ext _ _ n3v) (x4 _ _ h103)
      (by rw [show ({ rt with c_ := 107 } : Runtime).s_ = Nil from hs]
          exact Stack.valid_nil _)
      (by rw [e4, E3]; exact Heap.isCons_of_cons (x4 _ _ he))
      (Stack.valid_nil _)
  refine ⟨res, { r5 with s_ := Nil }, ?_, n5v⟩
  intro fuel hfuel
  exact Runtime.run_of_reaches hc
    (Stack.valid_of_cons (hcode (107, Cell.cons 106 109) (by decide)))
    ((((l1.andThen l2).andThen l3).andThen l4).andThen l5).reaches c5
    (l5.ext _ _ (x4 _ _ hnil))
    (by rw [show ({ rt with c_ := 107 } : Runtime).s_ = Nil from hs] at n5; exact n5)
    fuel hfuel

theorem Heap.lookup_isSome_of_mem {b : Nat × Cell} :
    ∀ {cells : List (Nat × Cell)}, b ∈ cells → (Heap.lookup b.1 cells).isSome = true
  | [], h => by cases h
  | (q, c) :: rest, h => by
    unfold Heap.lookup
    by_cases hq : b.1 = q
    · rw [if_pos hq]
      rfl
    · rw [if_neg hq]
      rcases List.mem_cons.1 h with heq | hmem
      · exact absurd (congrArg Prod.fst heq) hq
      · exact Heap.lookup_isSome_of_mem hmem

/-- A heap laid over older cells is well formed when its own cells and the
older ones lie below its size. -/
theorem Heap.wf_over (h : Heap) (old : List (Nat × Cell)) (hc : h.wfCheck = true)
    (hold : ∀ b ∈ old, b.1 < h.size) : (h.over old).WF := by
  apply Heap.WF.of_wfCheck
  unfold Heap.wfCheck at hc ⊢
  simp only [Heap.over, List.all_append, hc, Bool.true_and, List.all_eq_true,
    decide_eq_true_eq]
  exact hold

/-- The heap after the text of `Sample.incProgram n` is read and compiled. -/
theorem Sample.inc_loaded (n : Int) :
    (Sample.incHeap.over (Sample.incCells n)).WF ∧
    (Sample.incHeap.over (Sample.incCells n)).get? Nil = some (.symbol "nil") ∧
    (∀ b ∈ Sample.incCode, (Sample.incHeap.over (Sample.incCells n)).get? b.1 = some b.2) ∧
    (Sample.incHeap.over (Sample.incCells n)).get? 43 = some (.integer n) ∧
    (Sample.incHeap.over (Sample.incCells n)).get? 31 = some (.cons Nil Nil) := by
  obtain ⟨hcells, hnone, hwfc, -⟩ := Sample.incHeap_check
  have hold : ∀ p, p < 49 → (Sample.incHeap.over (Sample.incCells n)).get? p
      = Heap.lookup p (Sample.incCells n) :=
    fun p hp => Heap.get?_over_of_none (hnone p (List.mem_range.2 hp)) _
  refine ⟨?_, ?_, ?_, ?_, ?_⟩
  · apply Heap.WF.of_wfCheck
    unfold Heap.wfCheck at hwfc ⊢
    simp only [Heap.over, List.all_append, hwfc, Bool.true_and]
    rfl
  · exact (hold 29 (by decide)).trans rfl
  · intro b hb
    have hsplit : b ∈ Sample.incCode.take 1 ∨ b ∈ Sample.incCode.drop 1 := by
      rw [← List.mem_append, List.take_append_drop]
      exact hb
    rcases hsplit with h | h
    · have h1 : b = (35, Cell.integer 1) := by
        simpa [Sample.incCode] using h
      subst h1
      exact (hold 35 (by decide)).trans rfl
    · exact Heap.get?_over_of_get? (hcells b h) _
  · exact (hold 43 (by decide)).trans rfl
  · exact (hold 31 (by decide)).trans rfl

/-- The heap after the text of `Sample.incCall m` is read and compiled on a
well-formed heap of size 103 with the cells `cells`: it holds the code, the
Integer `m` in cell 103, and every cell of before as it was. -/
theorem Sample.incCall_loaded (m : Int) (h : Heap) (hsize : h.size = 103) (hwf : h.WF) :
    (Sample.incCallHeap.over (Sample.incCallCells m h.cells)).WF ∧
    (∀ b ∈ Sample.incCallCode,
      (Sample.incCallHeap.over (Sample.incCallCells m h.cells)).get? b.1 = some b.2) ∧
    (Sample.incCallHeap.over (Sample.incCallCells m h.cells)).get? 103 = some (.integer m) ∧
    Heap.Ext h (Sample.incCallHeap.over (Sample.incCallCells m h.cells)) := by
  obtain ⟨-, -, -, hcells, hnone, hwfc⟩ := Sample.incHeap_check
  have hold : ∀ p, p < 106 → (Sample.incCallHeap.over (Sample.incCallCells m h.cells)).get? p
      = Heap.lookup p (Sample.incCallCells m h.cells) :=
    fun p hp => Heap.get?_over_of_none (hnone p (List.mem_range.2 hp)) _
  refine ⟨?_, ?_, ?_, ?_⟩
  · apply Heap.wf_over _ _ hwfc
    intro b hb
    show b.1 < 121
    simp only [Sample.incCallCells, List.mem_cons] at hb
    rcases hb with rfl | rfl | rfl | hb
    · decide
    · decide
    · show 103 < 121
      decide
    · have := hwf b.1 (Heap.lookup_isSome_of_mem hb)
      omega
  · intro b hb
    exact Heap.get?_over_of_get? (hcells b hb) _
  · rw [hold 103 (by decide)]
    simp [Sample.incCallCells, Heap.lookup]
  · intro p c hp
    have hlt := hwf.lt hp
    rw [hold p (by omega)]
    have e1 : ¬ p = 105 := by omega
    have e2 : ¬ p = 104 := by omega
    have e3 : ¬ p = 103 := by omega
    simp only [Sample.incCallCells, Heap.lookup, if_neg e1, if_neg e2, if_neg e3]
    exact hp

theorem Heap.eq_of_size {h : Heap} {n : Nat} (hs : h.size = n) : h = ⟨n, h.cells⟩ := by
  cases h
  simp only at hs
  subst hs
  rfl

/-- C5: for every 64-bit integer `n` with `n + 1` in range, the text
`(progn (defun inc (x) (+ x 1)) (inc n))`, read, compiled by a new compiler
and run on a new machine, returns an Integer cell that holds `n + 1`; and on
the compiler and machine it leaves, the text `(inc m)`, read and compiled on
its own, returns an Integer cell that holds `m + 1`, for every 64-bit integer
`m` with `m + 1` in range. -/
theorem defun_then_call_increments (n m : Int) (fuel : Nat) (hfuel : 12 ≤ fuel)
    (hnlo : -(2 ^ 63) ≤ n) (hnhi : n + 1 < 2 ^ 63)
    (hmlo : -(2 ^ 63) ≤ m) (hmhi : m + 1 < 2 ^ 63) :
    ∃ p rt1, Runtime.eval fuel (Sample.incProgram n) (Runtime.new initialHeap []) = .ok p rt1 ∧
      rt1.heap.get? p = some (.integer (n + 1)) ∧
      ∃ q rt2, Runtime.eval fuel (Sample.incCall m) rt1 = .ok q rt2 ∧
        rt2.heap.get? q = some (.integer (m + 1)) := by
  obtain ⟨hwf, hnil, hcode, h43, h31⟩ := Sample.inc_loaded n
  obtain ⟨hcomp1, hcomp2⟩ := Sample.inc_compiled
  obtain ⟨hs0, he0, hc0, hd0, hcode0, henv0, hsym0⟩ := Runtime.new_registers
  -- the first text
  have hlocal := Compiler.local_compileSource Sample.incSrc _ _ _ hcomp1 (Sample.incCells n)
  have hcompile : Runtime.compile Sample.incSrc
      { Runtime.new initialHeap [] with
        heap := (⟨49, []⟩ : Heap).over (Sample.incCells n),
        symbols_ := initialSymbols ++ [("inc", 32), ("x", 33)] }
      = .ok 50 { Runtime.new initialHeap [] with
          heap := Sample.incHeap.over (Sample.incCells n),
          code_ := [], envMap_ := [[("inc", 0)]],
          symbols_ := initialSymbols ++ [("inc", 32), ("x", 33)] } := by
    unfold Runtime.compile
    have : (⟨(⟨49, []⟩ : Heap).over (Sample.incCells n),
        (Runtime.new initialHeap []).code_, (Runtime.new initialHeap []).envMap_⟩ : Compiler)
        = Compiler.over ⟨⟨49, []⟩, [], [[]]⟩ (Sample.incCells n) := rfl
    simp only [this, hlocal]
    rfl
  obtain ⟨v, rt1, hrun, hres, hs1, he1, hc1, hd1, hsize1, hwf1, hnil1, hbody1, hg1, hfr1, hclo1,
    hcode1, henv1, hsym1⟩ := Runtime.run_incProgram n
    { Runtime.new initialHeap [] with
      heap := Sample.incHeap.over (Sample.incCells n),
      code_ := [], envMap_ := [[("inc", 0)]],
      symbols_ := initialSymbols ++ [("inc", 32), ("x", 33)] }
    Nil (by omega) hnhi hwf hnil hcode h43 hc0 hs0 hd0 he0 h31
  refine ⟨v, rt1, Runtime.eval_ok fuel _ _ _ _ _ _ _ _ (Sample.inc_read n) hcompile
    (hrun fuel hfuel), hres, ?_⟩
  -- the second text
  have hsize : rt1.heap.size = 103 := hsize1
  have hheap : rt1.heap = ⟨103, rt1.heap.cells⟩ := Heap.eq_of_size hsize
  have hsym : rt1.symbols_ = initialSymbols ++ [("inc", 32), ("x", 33)] := hsym1
  have hread : SExpr.read (Sample.incCall m) ⟨rt1.heap, rt1.symbols_⟩
      = (Sample.incCallSrc,
          ⟨(⟨106, []⟩ : Heap).over (Sample.incCallCells m rt1.heap.cells),
            initialSymbols ++ [("inc", 32), ("x", 33)]⟩) := by
    rw [hsym]
    have := Sample.incCall_read m rt1.heap.cells
    rw [← hheap] at this
    exact this
  obtain ⟨hwf2, hcode2, h103, hext⟩ := Sample.incCall_loaded m rt1.heap hsize hwf1
  have hlocal2 := Compiler.local_compileSource Sample.incCallSrc _ _ _ hcomp2
    (Sample.incCallCells m rt1.heap.cells)
  have hcompile2 : Runtime.compile Sample.incCallSrc
      { rt1 with
        heap := (⟨106, []⟩ : Heap).over (Sample.incCallCells m rt1.heap.cells),
        symbols_ := initialSymbols ++ [("inc", 32), ("x", 33)] }
      = .ok 107 { rt1 with
          heap := Sample.incCallHeap.over (Sample.incCallCells m rt1.heap.cells),
          code_ := [], envMap_ := [[("inc", 0)]],
          symbols_ := initialSymbols ++ [("inc", 32), ("x", 33)] } := by
    unfold Runtime.compile
    have hc' : rt1.code_ = [] := hcode1
    have he' : rt1.envMap_ = [[("inc", 0)]] := henv1
    have : (⟨(⟨106, []⟩ : Heap).over (Sample.incCallCells m rt1.heap.cells), [],
        [[("inc", 0)]]⟩ : Compiler)
        = Compiler.over ⟨⟨106, []⟩, [], [[("inc", 0)]]⟩
            (Sample.incCallCells m rt1.heap.cells) := rfl
    simp only [hc', he', this, hlocal2]
    rfl
  obtain ⟨q, rt2, hrun2, hres2⟩ := Runtime.run_incCall m
    { rt1 with
      heap := Sample.incCallHeap.over (Sample.incCallCells m rt1.heap.cells),
      code_ := [], envMap_ := [[("inc", 0)]],
      symbols_ := initialSymbols ++ [("inc", 32), ("x", 33)] }
    _ Nil _ Nil 31 (by omega) hmhi hwf2 (hext _ _ hnil1) (fun b hb => hext _ _ (hbody1 b hb))
    hcode2 h103 hc1 hs1
    (by
      show (Sample.incCallHeap.over (Sample.incCallCells m rt1.heap.cells)).get? rt1.e_ = _
      rw [he1]
      exact hext _ _ hg1)
    (hext _ _ hfr1) (hext _ _ hclo1)
  exact ⟨q, rt2, Runtime.eval_ok fuel _ _ _ _ _ _ _ _ hread hcompile2
    (hrun2 fuel (by omega)), hres2⟩

/-- The texts with `n = 41` and `m = 7`: the first evaluation returns 42 and
the second, on the machine the first one leaves, returns 8. -/
theorem defun_then_call_increments_example :
    ∃ p rt1, Runtime.eval 100 (Sample.incProgram 41) (Runtime.new initialHeap []) = .ok p rt1 ∧
      rt1.heap.get? p = some (.integer (41 + 1)) ∧
      ∃ q rt2, Runtime.eval 100 (Sample.incCall 7) rt1 = .ok q rt2 ∧
        rt2.heap.get? q = some (.integer (7 + 1)) :=
  defun_then_call_increments 41 7 100 (by decide) (by decide) (by decide) (by decide)
    (by decide)

/-! ## The test of `AllocateCell` on the words of a fresh bank -/

/-- With the test taken to hold for a word of all ones, the allocation is
`GC.AllocateCell`. -/
theorem GC.AllocateCellWith_wraps : GC.AllocateCellWith true = GC.AllocateCell := rfl

/-- An allocation with a cell at the head of the free list whose first word
is all ones, when the test fails for it: the cell is handed out and the word
becomes the free list. -/
theorem GC.AllocateCellWith_ones (g : GC) (a : Nat) (c : GC.Cell)
    (hf : g.freeList_ = some a) (hc : g.cells[a]? = some c) (hcar : c.car.isOnes = true) :
    GC.AllocateCellWith false g = .ok a { g with
      cells := g.cells.set a { c with status := .Used },
      freeList_ := some GC.onesPointer, allocations_ := g.allocations_ + 1 } := by
  unfold GC.AllocateCellWith
  simp only [M.bind_apply, hf]
  simp only [reduceCtorEq, if_false]
  simp only [pure_bind, hf, hc]
  simp [hcar]

/-- An allocation when the free list points to no cell. -/
theorem GC.AllocateCellWith_wild (wraps : Bool) (g : GC) (a : Nat)
    (hf : g.freeList_ = some a) (hc : g.cells[a]? = none) :
    GC.AllocateCellWith wraps g = .fault .undefinedBehaviour := by
  unfold GC.AllocateCellWith
  simp only [M.bind_apply, hf]
  simp only [reduceCtorEq, if_false]
  simp only [pure_bind, hf, hc]

/-- C37: the cells of a new bank are handed out one after the other only
where the test `reinterpret_cast<char*>(freeList_->car) + 1 == nullptr` of
`AllocateCell` holds for the `0xff` filling of the bank, which the language
leaves undefined.  After a collection that has appended a bank, the free list
having been empty after the sweep, the head of the free list is the first cell
of the bank and its first word is all ones.  Where the test holds for it the
allocation is `GC.AllocateCell`; where the test fails, the first allocation
hands out that cell and copies the word into `freeList_`, which then points to
no cell, and the next allocation, from whatever state with this free list and
this much memory, writes through that pointer: it returns no cell and runs no
collection. -/
theorem fresh_bank_second_allocation_faults (g g1 : GC) (hm : g.NoMarked)
    (h : GC.Run g = .ok () g1)
    (hnone : (GC.stateAfter (do GC.Mark; GC.Sweep) g).freeList_ = none)
    (hsize : g1.cells.length ≤ GC.onesPointer) :
    g1.freeList_ = some g.cells.length ∧
    g1.cells[g.cells.length]? = some ⟨.Free, .unset, .ones, .ones⟩ ∧
    GC.AllocateCellWith true g1 = GC.AllocateCell g1 ∧
    ∃ g2, GC.AllocateCellWith false g1 = .ok g.cells.length g2 ∧
      g2.freeList_ = some GC.onesPointer ∧ g2.cells.length = g1.cells.length ∧
      g2.cells[GC.onesPointer]? = none ∧
      ∀ g3, g3.freeList_ = g2.freeList_ → g3.cells.length = g2.cells.length →
        GC.AllocateCellWith false g3 = .fault .undefinedBehaviour := by
  obtain ⟨⟨hhead, hcells⟩, -, -, -, -⟩ := GC.Run_fresh g g1 hm h hnone
  rw [Nat.add_zero] at hhead
  have hc : g1.cells[g.cells.length]? = some ⟨.Free, .unset, .ones, .ones⟩ := by
    have h0 := hcells 0 (Nat.le_refl _) (by decide)
    rw [Nat.add_zero] at h0
    rw [h0]
    exact GC.bankCells_inner none 0 (by decide)
  refine ⟨hhead, hc, rfl, _, GC.AllocateCellWith_ones g1 _ _ hhead hc rfl, rfl, ?_, ?_, ?_⟩
  · show (g1.cells.set _ _).length = _
    rw [List.length_set]
  · show (g1.cells.set _ _)[GC.onesPointer]? = none
    rw [List.getElem?_eq_none_iff, List.length_set]
    exact hsize
  · intro g3 hf3 hl3
    refine GC.AllocateCellWith_wild false g3 GC.onesPointer hf3 ?_
    rw [List.getElem?_eq_none_iff, hl3]
    show (g1.cells.set _ _).length ≤ _
    rw [List.length_set]
    exact hsize

/-- The first bank of the empty memory: the first cell made is the cell 0,
and the Integer cell that `new` constructs there leaves the free list as it
is, so that the second allocation returns no cell. -/
theorem fresh_bank_second_allocation_faults_example :
    (GC.stateAfter GC.Run GC.initial).freeList_ = some GC.initial.cells.length ∧
    (GC.stateAfter GC.Run GC.initial).cells[GC.initial.cells.length]?
      = some ⟨.Free, .unset, .ones, .ones⟩ ∧
    GC.AllocateCellWith true (GC.stateAfter GC.Run GC.initial)
      = GC.AllocateCell (GC.stateAfter GC.Run GC.initial) ∧
    ∃ g2, GC.AllocateCellWith false (GC.stateAfter GC.Run GC.initial)
        = .ok GC.initial.cells.length g2 ∧
      g2.freeList_ = some GC.onesPointer ∧
      g2.cells.length = (GC.stateAfter GC.Run GC.initial).cells.length ∧
      g2.cells[GC.onesPointer]? = none ∧
      ∀ g3, g3.freeList_ = g2.freeList_ → g3.cells.length = g2.cells.length →
        GC.AllocateCellWith false g3 = .fault .undefinedBehaviour :=
  fresh_bank_second_allocation_faults GC.initial (GC.stateAfter GC.Run GC.initial)
    GC.initial_valid.1 GC.initial_run.1 GC.initial_swept
    (by
      rw [(GC.Run_fresh GC.initial _ GC.initial_valid.1 GC.initial_run.1 GC.initial_swept).2.2.2.2]
      decide)

end Secd
